import Mathlib

/-!
KCP (`ikcp.c`): a shallow embedding and verified properties.

The embedding follows `src/ikcp.c` function by function.

* `IUINT32` values are natural numbers, reduced modulo `2^32` wherever the C
  arithmetic can wrap; `int`/`IINT32` values are integers obtained through `i32`
  (the two's-complement reading of the low 32 bits); `long` is an integer.
* A byte is a natural number below 256; a byte string is a `List Nat`.
* The four intrusive queues are lists of segments, head first.
* A pointer into a byte buffer is the list of bytes from that pointer on.
* The output callback is modelled by the list of datagrams handed to it.
* Allocation never fails; bytes and fields that C leaves uninitialised are zero.
-/

namespace KCP

set_option linter.all false

/-! ## Machine arithmetic -/

/-- Conversion of an integer to `IUINT32` (reduction modulo `2^32`). -/
def u32 (x : Int) : Nat := (x % 4294967296).toNat

/-- Conversion of an integer to `int` / `IINT32` (two's complement, 32 bits). -/
def i32 (x : Int) : Int :=
  if x % 4294967296 < 2147483648 then x % 4294967296 else x % 4294967296 - 4294967296

/-- Conversion to `IUINT8`. -/
def u8 (x : Nat) : Nat := x % 256

/-- Conversion to `IUINT16`. -/
def u16 (x : Nat) : Nat := x % 65536

/-! ## Constants (ikcp.c lines 25-46) -/

def IKCP_RTO_NDL : Nat := 30

def IKCP_RTO_MIN : Nat := 100

def IKCP_RTO_DEF : Nat := 200

def IKCP_RTO_MAX : Nat := 60000

def IKCP_CMD_PUSH : Nat := 81

def IKCP_CMD_ACK : Nat := 82

def IKCP_CMD_WASK : Nat := 83

def IKCP_CMD_WINS : Nat := 84

def IKCP_ASK_SEND : Nat := 1

def IKCP_ASK_TELL : Nat := 2

def IKCP_WND_SND : Nat := 32

def IKCP_WND_RCV : Nat := 128

def IKCP_MTU_DEF : Nat := 1400

def IKCP_ACK_FAST : Nat := 3

def IKCP_INTERVAL : Nat := 100

def IKCP_OVERHEAD : Nat := 24

def IKCP_DEADLINK : Nat := 20

def IKCP_THRESH_INIT : Nat := 2

def IKCP_THRESH_MIN : Nat := 2

def IKCP_PROBE_INIT : Nat := 7000

def IKCP_PROBE_LIMIT : Nat := 120000

def IKCP_FASTACK_LIMIT : Nat := 5

/-! ## Data model -/

/-- Modelled from the spec: the declaration of `struct IKCPSEG` lives in `ikcp.h`,
which is not part of the sources; the fields are those of spec section 3.1 (wire
fields and the internal-only `resendts`, `rto`, `fastack`, `xmit`), all `IUINT32`, and
`data` is the payload storage allocated by `ikcp_segment_new`. -/
structure IKCPSEG where
  conv : Nat
  cmd : Nat
  frg : Nat
  wnd : Nat
  ts : Nat
  sn : Nat
  una : Nat
  len : Nat
  resendts : Nat
  rto : Nat
  fastack : Nat
  xmit : Nat
  data : List Nat
deriving DecidableEq, Repr

/-- Modelled from the spec: the declaration of `struct IKCPCB` lives in `ikcp.h`,
which is not part of the sources; the fields are those of spec section 3.2 and those
assigned by `ikcp_create`. Unsigned fields are naturals, the `int`/`IINT32` fields
(`rx_rttval`, `rx_srtt`, `rx_rto`, `rx_minrto`, `fastresend`, `fastlimit`, `nocwnd`,
`stream`) are integers. `acklist` holds the `(sn, ts)` pairs of the ack array. The
`user`, `buffer`, `logmask`, `output` and `writelog` members carry no protocol state. -/
structure IKCPCB where
  conv : Nat
  mtu : Nat
  mss : Nat
  state : Nat
  snd_una : Nat
  snd_nxt : Nat
  rcv_nxt : Nat
  ts_recent : Nat
  ts_lastack : Nat
  ssthresh : Nat
  rx_rttval : Int
  rx_srtt : Int
  rx_rto : Int
  rx_minrto : Int
  snd_wnd : Nat
  rcv_wnd : Nat
  rmt_wnd : Nat
  cwnd : Nat
  probe : Nat
  current : Nat
  interval : Nat
  ts_flush : Nat
  xmit : Nat
  nrcv_buf : Nat
  nsnd_buf : Nat
  nrcv_que : Nat
  nsnd_que : Nat
  nodelay : Nat
  updated : Nat
  ts_probe : Nat
  probe_wait : Nat
  dead_link : Nat
  incr : Nat
  snd_queue : List IKCPSEG
  rcv_queue : List IKCPSEG
  snd_buf : List IKCPSEG
  rcv_buf : List IKCPSEG
  acklist : List (Nat × Nat)
  ackcount : Nat
  ackblock : Nat
  fastresend : Int
  fastlimit : Int
  nocwnd : Int
  stream : Int
deriving DecidableEq, Repr

/-! ## Encode / decode (ikcp.c lines 54-140) -/

/-- Bytes written by `ikcp_encode8u`. -/
def ikcp_encode8u (c : Nat) : List Nat := [c % 256]

/-- Bytes written by `ikcp_encode16u` (least significant byte first). -/
def ikcp_encode16u (w : Nat) : List Nat := [w % 256, (w / 256) % 256]

/-- Bytes written by `ikcp_encode32u` (least significant byte first). -/
def ikcp_encode32u (l : Nat) : List Nat :=
  [l % 256, (l / 256) % 256, (l / 65536) % 256, (l / 16777216) % 256]

/-- The value read by `ikcp_decode8u` and the advanced pointer. -/
def ikcp_decode8u (p : List Nat) : Nat × List Nat := (p.getD 0 0 % 256, p.drop 1)

/-- The value read by `ikcp_decode16u` and the advanced pointer. -/
def ikcp_decode16u (p : List Nat) : Nat × List Nat :=
  ((p.getD 0 0 + p.getD 1 0 * 256) % 65536, p.drop 2)

/-- The value read by `ikcp_decode32u` and the advanced pointer. -/
def ikcp_decode32u (p : List Nat) : Nat × List Nat :=
  ((p.getD 0 0 + (p.getD 1 0 + (p.getD 2 0 + p.getD 3 0 * 256) * 256) * 256) % 4294967296,
    p.drop 4)

def _imin_ (a b : Nat) : Nat := if a ≤ b then a else b

def _imax_ (a b : Nat) : Nat := if a ≥ b then a else b

def _ibound_ (lower middle upper : Nat) : Nat := _imin_ (_imax_ lower middle) upper

/-- The signed 32-bit difference `(IINT32)(later - earlier)`. -/
def _itimediff (later earlier : Nat) : Int := i32 ((later : Int) - (earlier : Int))

/-- A segment as `ikcp_segment_new` returns it: `size` bytes of payload storage. -/
def ikcp_segment_new (size : Nat) : IKCPSEG :=
  { conv := 0, cmd := 0, frg := 0, wnd := 0, ts := 0, sn := 0, una := 0, len := 0,
    resendts := 0, rto := 0, fastack := 0, xmit := 0, data := List.replicate size 0 }

/-- The effect of `ikcp_output` on the list of emitted datagrams: an empty buffer is
not passed to the callback. -/
def ikcp_output (outs : List (List Nat)) (data : List Nat) : List (List Nat) :=
  if data.length = 0 then outs else outs ++ [data]

/-- The control block `ikcp_create` returns. -/
def ikcp_create (conv : Nat) : IKCPCB :=
  { conv := conv, mtu := IKCP_MTU_DEF, mss := IKCP_MTU_DEF - IKCP_OVERHEAD, state := 0,
    snd_una := 0, snd_nxt := 0, rcv_nxt := 0, ts_recent := 0, ts_lastack := 0,
    ssthresh := IKCP_THRESH_INIT, rx_rttval := 0, rx_srtt := 0, rx_rto := IKCP_RTO_DEF,
    rx_minrto := IKCP_RTO_MIN, snd_wnd := IKCP_WND_SND, rcv_wnd := IKCP_WND_RCV,
    rmt_wnd := IKCP_WND_RCV, cwnd := 0, probe := 0, current := 0,
    interval := IKCP_INTERVAL, ts_flush := IKCP_INTERVAL, xmit := 0,
    nrcv_buf := 0, nsnd_buf := 0, nrcv_que := 0, nsnd_que := 0, nodelay := 0,
    updated := 0, ts_probe := 0, probe_wait := 0, dead_link := IKCP_DEADLINK, incr := 0,
    snd_queue := [], rcv_queue := [], snd_buf := [], rcv_buf := [],
    acklist := [], ackcount := 0, ackblock := 0,
    fastresend := 0, fastlimit := IKCP_FASTACK_LIMIT, nocwnd := 0, stream := 0 }

/-! ## Application receive (ikcp.c lines 367-484) -/

/-- The summation loop of `ikcp_peeksize`: add up `len` until a segment with
`frg = 0` has been added or the queue ends. -/
def ikcp_peeksize_loop : List IKCPSEG → Int → Int
  | [], length => length
  | seg :: rest, length =>
    if seg.frg = 0 then i32 (length + seg.len)
    else ikcp_peeksize_loop rest (i32 (length + seg.len))

def ikcp_peeksize (kcp : IKCPCB) : Int :=
  match kcp.rcv_queue with
  | [] => -1
  | seg :: _ =>
    if seg.frg = 0 then i32 seg.len
    else if kcp.nrcv_que < (seg.frg + 1) % 4294967296 then -1
    else ikcp_peeksize_loop kcp.rcv_queue 0

/-- The loop shared by `ikcp_recv` and `ikcp_parse_data` that moves segments from the
head of `rcv_buf` to the tail of `rcv_queue` while they carry `rcv_nxt` and the queue
has room. The list argument is the current `rcv_buf`. -/
def ikcp_move_rcv_buf (kcp : IKCPCB) : List IKCPSEG → IKCPCB
  | [] => { kcp with rcv_buf := [] }
  | seg :: rest =>
    if seg.sn = kcp.rcv_nxt ∧ kcp.nrcv_que < kcp.rcv_wnd then
      ikcp_move_rcv_buf
        { kcp with
          rcv_buf := rest
          nrcv_buf := u32 ((kcp.nrcv_buf : Int) - 1)
          rcv_queue := kcp.rcv_queue ++ [seg]
          nrcv_que := (kcp.nrcv_que + 1) % 4294967296
          rcv_nxt := (kcp.rcv_nxt + 1) % 4294967296 } rest
    else { kcp with rcv_buf := seg :: rest }

/-- The fragment merging loop of `ikcp_recv`. `buffer` tells whether the destination
pointer is non-NULL, `out` is what has been written so far. The result is the final
`len`, the bytes written, the remaining `rcv_queue` and `nrcv_que`. -/
def ikcp_recv_merge (buffer : Bool) (ispeek : Int) :
    List IKCPSEG → Int → List Nat → Nat → Int × List Nat × List IKCPSEG × Nat
  | [], len, out, nrcv_que => (len, out, [], nrcv_que)
  | seg :: rest, len, out, nrcv_que =>
    let out1 := if buffer then out ++ seg.data.take seg.len else out
    let len1 := i32 (len + seg.len)
    let fragment := i32 seg.frg
    if ispeek = 0 then
      let n1 := u32 ((nrcv_que : Int) - 1)
      if fragment = 0 then (len1, out1, rest, n1)
      else ikcp_recv_merge buffer ispeek rest len1 out1 n1
    else
      if fragment = 0 then (len1, out1, seg :: rest, nrcv_que)
      else
        let r := ikcp_recv_merge buffer ispeek rest len1 out1 nrcv_que
        (r.1, r.2.1, seg :: r.2.2.1, r.2.2.2)

/-- The end of `ikcp_recv`, after the merge loop: the promotion of segments from
`rcv_buf` and the fast-recover signal. -/
def ikcp_recv_finish (kcp : IKCPCB) (recover : Int) : IKCPCB :=
  let kcp2 := ikcp_move_rcv_buf kcp kcp.rcv_buf
  if kcp2.nrcv_que < kcp2.rcv_wnd ∧ recover ≠ 0 then
    { kcp2 with probe := kcp2.probe ||| IKCP_ASK_TELL }
  else kcp2

/-- The function `ikcp_recv`: the return value, the bytes written to `buffer` (from
its start on) and the control block afterwards. `buffer` is `true` for a non-NULL
destination. -/
def ikcp_recv (kcp : IKCPCB) (buffer : Bool) (len : Int) : Int × List Nat × IKCPCB :=
  let ispeek : Int := if len < 0 then 1 else 0
  if kcp.rcv_queue = [] then (-1, [], kcp)
  else
    let len1 := if len < 0 then i32 (-len) else len
    let peeksize := ikcp_peeksize kcp
    if peeksize < 0 then (-2, [], kcp)
    else if peeksize > len1 then (-3, [], kcp)
    else
      let recover : Int := if kcp.nrcv_que ≥ kcp.rcv_wnd then 1 else 0
      let m := ikcp_recv_merge buffer ispeek kcp.rcv_queue 0 [] kcp.nrcv_que
      (m.1, m.2.1, ikcp_recv_finish { kcp with rcv_queue := m.2.2.1, nrcv_que := m.2.2.2 } recover)

/-! ## Application send (ikcp.c lines 490-568) -/

/-- The fragment loop of `ikcp_send` (`for (i = 0; i < count; i++)`); the first
argument bounds the number of iterations and is `count` at the call. -/
def ikcp_send_loop (count : Int) : Nat → Int → IKCPCB → List Nat → Int → IKCPCB
  | 0, _, kcp, _, _ => kcp
  | fuel + 1, i, kcp, buffer, len =>
    if i < count then
      let size : Int := if len > i32 kcp.mss then i32 kcp.mss else len
      let seg0 := ikcp_segment_new size.toNat
      let seg : IKCPSEG :=
        { seg0 with
          data := if len > 0 then buffer.take size.toNat else seg0.data
          len := u32 size
          frg := if kcp.stream = 0 then u32 (count - i - 1) else 0 }
      ikcp_send_loop count fuel (i + 1)
        { kcp with
          snd_queue := kcp.snd_queue ++ [seg]
          nsnd_que := (kcp.nsnd_que + 1) % 4294967296 }
        (buffer.drop size.toNat) (len - size)
    else kcp

/-- The stream-mode prologue of `ikcp_send`: extend the tail segment of `snd_queue`.
Returns the control block, the advanced source pointer and the remaining `len`. -/
def ikcp_send_stream (kcp : IKCPCB) (buffer : List Nat) (len : Int) :
    IKCPCB × List Nat × Int :=
  match kcp.snd_queue.getLast? with
  | none => (kcp, buffer, len)
  | some old =>
    if old.len < kcp.mss then
      let capacity : Int := i32 ((kcp.mss : Int) - old.len)
      let extend : Int := if len < capacity then len else capacity
      let seg0 := ikcp_segment_new (u32 ((old.len : Int) + extend))
      let seg : IKCPSEG :=
        { seg0 with
          data := old.data.take old.len ++ buffer.take extend.toNat
          len := u32 ((old.len : Int) + extend)
          frg := 0 }
      ({ kcp with snd_queue := kcp.snd_queue.dropLast ++ [seg] },
        buffer.drop extend.toNat, len - extend)
    else (kcp, buffer, len)

/-- The function `ikcp_send`: the return value and the control block afterwards.
`buffer` is the (non-NULL) source, of which `len` bytes are to be sent. -/
def ikcp_send (kcp : IKCPCB) (buffer : List Nat) (len : Int) : Int × IKCPCB :=
  if len < 0 then (-1, kcp)
  else
    let s := if kcp.stream ≠ 0 then ikcp_send_stream kcp buffer len else (kcp, buffer, len)
    let kcp1 := s.1
    let buffer1 := s.2.1
    let len1 := s.2.2
    if kcp.stream ≠ 0 ∧ len1 ≤ 0 then (0, kcp1)
    else
      let count0 : Int :=
        if len1 ≤ i32 kcp1.mss then 1
        else i32 ((u32 (len1 + kcp1.mss - 1) / kcp1.mss : Nat) : Int)
      if count0 ≥ i32 IKCP_WND_RCV then (-2, kcp1)
      else
        let count : Int := if count0 = 0 then 1 else count0
        (0, ikcp_send_loop count count.toNat 0 kcp1 buffer1 len1)

/-! ## Acknowledgement handling (ikcp.c lines 574-722) -/

/-- The estimator update (lines 574-594). `rtt - rx_srtt`, `3 * rx_rttval` and
`7 * rx_srtt + rtt` are computed in `int` (32 bits, taken to wrap in two's complement);
`delta` is a `long` (64 bits), so its negation and the sum `3 * rx_rttval + delta` are
exact and the quotient is converted to `int` when it is stored. -/
def ikcp_update_ack (kcp : IKCPCB) (rtt : Int) : IKCPCB :=
  let kcp1 :=
    if kcp.rx_srtt = 0 then
      { kcp with rx_srtt := rtt, rx_rttval := Int.tdiv rtt 2 }
    else
      let delta0 : Int := i32 (rtt - kcp.rx_srtt)
      let delta : Int := if delta0 < 0 then -delta0 else delta0
      let rttval := i32 (Int.tdiv (i32 (3 * kcp.rx_rttval) + delta) 4)
      let srtt := Int.tdiv (i32 (7 * kcp.rx_srtt + rtt)) 8
      { kcp with rx_rttval := rttval, rx_srtt := if srtt < 1 then 1 else srtt }
  let rto : Int :=
    i32 (kcp1.rx_srtt + (_imax_ kcp1.interval (u32 (4 * kcp1.rx_rttval)) : Nat))
  { kcp1 with rx_rto := i32 (_ibound_ (u32 kcp1.rx_minrto) (u32 rto) IKCP_RTO_MAX : Nat) }

def ikcp_shrink_buf (kcp : IKCPCB) : IKCPCB :=
  match kcp.snd_buf with
  | seg :: _ => { kcp with snd_una := seg.sn }
  | [] => { kcp with snd_una := kcp.snd_nxt }

/-- The loop of `ikcp_parse_ack` over `snd_buf`: the list afterwards and the number
of segments deleted (0 or 1). -/
def ikcp_parse_ack_loop (sn : Nat) : List IKCPSEG → List IKCPSEG × Nat
  | [] => ([], 0)
  | seg :: rest =>
    if sn = seg.sn then (rest, 1)
    else if _itimediff sn seg.sn < 0 then (seg :: rest, 0)
    else
      let r := ikcp_parse_ack_loop sn rest
      (seg :: r.1, r.2)

def ikcp_parse_ack (kcp : IKCPCB) (sn : Nat) : IKCPCB :=
  if _itimediff sn kcp.snd_una < 0 ∨ _itimediff sn kcp.snd_nxt ≥ 0 then kcp
  else
    let r := ikcp_parse_ack_loop sn kcp.snd_buf
    { kcp with snd_buf := r.1, nsnd_buf := u32 ((kcp.nsnd_buf : Int) - r.2) }

/-- The loop of `ikcp_parse_una`; the list argument is the current `snd_buf`. -/
def ikcp_parse_una_loop (una : Nat) (kcp : IKCPCB) : List IKCPSEG → IKCPCB
  | [] => { kcp with snd_buf := [] }
  | seg :: rest =>
    if _itimediff una seg.sn > 0 then
      ikcp_parse_una_loop una
        { kcp with snd_buf := rest, nsnd_buf := u32 ((kcp.nsnd_buf : Int) - 1) } rest
    else { kcp with snd_buf := seg :: rest }

def ikcp_parse_una (kcp : IKCPCB) (una : Nat) : IKCPCB :=
  ikcp_parse_una_loop una kcp kcp.snd_buf

/-- The loop of `ikcp_parse_fastack` over `snd_buf` (the variant without
`IKCP_FASTACK_CONSERVE`). -/
def ikcp_parse_fastack_loop (sn : Nat) : List IKCPSEG → List IKCPSEG
  | [] => []
  | seg :: rest =>
    if _itimediff sn seg.sn < 0 then seg :: rest
    else if sn ≠ seg.sn then
      { seg with fastack := (seg.fastack + 1) % 4294967296 } :: ikcp_parse_fastack_loop sn rest
    else seg :: ikcp_parse_fastack_loop sn rest

def ikcp_parse_fastack (kcp : IKCPCB) (sn : Nat) (_ts : Nat) : IKCPCB :=
  if _itimediff sn kcp.snd_una < 0 ∨ _itimediff sn kcp.snd_nxt ≥ 0 then kcp
  else { kcp with snd_buf := ikcp_parse_fastack_loop sn kcp.snd_buf }

/-- The capacity search of `ikcp_ack_push`:
`for (newblock = 8; newblock < newsize; newblock <<= 1);`. -/
def ikcp_ack_newblock (newsize : Nat) : Nat → Nat → Nat
  | 0, newblock => newblock
  | fuel + 1, newblock =>
    if newblock < newsize then ikcp_ack_newblock newsize fuel (newblock * 2) else newblock

def ikcp_ack_push (kcp : IKCPCB) (sn ts : Nat) : IKCPCB :=
  let newsize := (kcp.ackcount + 1) % 4294967296
  let kcp1 :=
    if newsize > kcp.ackblock then
      { kcp with
        acklist := kcp.acklist.take kcp.ackcount
        ackblock := ikcp_ack_newblock newsize 32 8 }
    else kcp
  { kcp1 with
    acklist := kcp1.acklist.take kcp1.ackcount ++ [(sn, ts)]
    ackcount := (kcp1.ackcount + 1) % 4294967296 }

/-- The pair `ikcp_ack_get` reads at index `p`. -/
def ikcp_ack_get (kcp : IKCPCB) (p : Nat) : Nat × Nat := kcp.acklist.getD p (0, 0)

/-! ## Receive buffer insertion (ikcp.c lines 728-791) -/

/-- The backward scan of `ikcp_parse_data`. The list is `rcv_buf` from its tail to
its head; the result is `none` for a repeated `sn` and otherwise the list, still tail
first, with the new segment linked in after the segment the scan stopped at. -/
def ikcp_parse_data_scan (newseg : IKCPSEG) : List IKCPSEG → Option (List IKCPSEG)
  | [] => some [newseg]
  | seg :: prev =>
    if seg.sn = newseg.sn then none
    else if _itimediff newseg.sn seg.sn > 0 then some (newseg :: seg :: prev)
    else (ikcp_parse_data_scan newseg prev).map (fun l => seg :: l)

def ikcp_parse_data (kcp : IKCPCB) (newseg : IKCPSEG) : IKCPCB :=
  let sn := newseg.sn
  if _itimediff sn ((kcp.rcv_nxt + kcp.rcv_wnd) % 4294967296) ≥ 0 ∨
      _itimediff sn kcp.rcv_nxt < 0 then kcp
  else
    let kcp1 :=
      match ikcp_parse_data_scan newseg kcp.rcv_buf.reverse with
      | some l => { kcp with rcv_buf := l.reverse, nrcv_buf := (kcp.nrcv_buf + 1) % 4294967296 }
      | none => kcp
    ikcp_move_rcv_buf kcp1 kcp1.rcv_buf

/-! ## Datagram input (ikcp.c lines 798-968) -/

/-- The header decoding sequence of `ikcp_input` (`ikcp_decode32u` for `conv`,
`ikcp_decode8u` for `cmd` and `frg`, `ikcp_decode16u` for `wnd`, `ikcp_decode32u` for
`ts`, `sn`, `una` and `len`): the decoded fields and the pointer after the header. -/
def ikcp_decode_seg (data : List Nat) : IKCPSEG × List Nat :=
  let c := ikcp_decode32u data
  let m := ikcp_decode8u c.2
  let f := ikcp_decode8u m.2
  let w := ikcp_decode16u f.2
  let t := ikcp_decode32u w.2
  let s := ikcp_decode32u t.2
  let u := ikcp_decode32u s.2
  let l := ikcp_decode32u u.2
  ({ ikcp_segment_new 0 with
     conv := c.1, cmd := m.1, frg := f.1, wnd := w.1, ts := t.1, sn := s.1, una := u.1,
     len := l.1 }, l.2)

/-- The PUSH branch of the record dispatch in `ikcp_input`; `data` points at the
payload of the record. -/
def ikcp_input_push (kcp : IKCPCB) (conv cmd frg wnd ts sn una len : Nat)
    (data : List Nat) : IKCPCB :=
  if _itimediff sn ((kcp.rcv_nxt + kcp.rcv_wnd) % 4294967296) < 0 then
    let kcp1 := ikcp_ack_push kcp sn ts
    if _itimediff sn kcp1.rcv_nxt ≥ 0 then
      let seg0 := ikcp_segment_new len
      let seg : IKCPSEG :=
        { seg0 with
          conv := conv, cmd := cmd, frg := frg, wnd := wnd, ts := ts, sn := sn,
          una := una, len := len
          data := if len > 0 then data.take len else seg0.data }
      ikcp_parse_data kcp1 seg
    else kcp1
  else kcp

/-- The ACK branch of the record dispatch in `ikcp_input`. -/
def ikcp_input_ack (kcp : IKCPCB) (ts sn : Nat) : IKCPCB :=
  let kcp1 :=
    if _itimediff kcp.current ts ≥ 0 then ikcp_update_ack kcp (_itimediff kcp.current ts)
    else kcp
  ikcp_shrink_buf (ikcp_parse_ack kcp1 sn)

/-- The processing of one record by `ikcp_input`, once its header has passed the
`conv`, `len` and `cmd` checks: the window and `una` update, then the dispatch on
`cmd`. `payload` points at the bytes after the header. The result is the code of an
early `return` (0 when the loop goes on), the control block, and the locals `flag`,
`maxack`, `latest_ts`. -/
def ikcp_input_record (kcp : IKCPCB) (hdr : IKCPSEG) (payload : List Nat) (flag : Int)
    (maxack latest_ts : Nat) : Int × IKCPCB × Int × Nat × Nat :=
  let kcp1 := ikcp_shrink_buf (ikcp_parse_una { kcp with rmt_wnd := hdr.wnd } hdr.una)
  if hdr.cmd = IKCP_CMD_ACK then
    let kcp2 := ikcp_input_ack kcp1 hdr.ts hdr.sn
    if flag = 0 then (0, kcp2, 1, hdr.sn, hdr.ts)
    else if _itimediff hdr.sn maxack > 0 then (0, kcp2, flag, hdr.sn, hdr.ts)
    else (0, kcp2, flag, maxack, latest_ts)
  else if hdr.cmd = IKCP_CMD_PUSH then
    (0, ikcp_input_push kcp1 hdr.conv hdr.cmd hdr.frg hdr.wnd hdr.ts hdr.sn hdr.una hdr.len
      payload, flag, maxack, latest_ts)
  else if hdr.cmd = IKCP_CMD_WASK then
    (0, { kcp1 with probe := kcp1.probe ||| IKCP_ASK_TELL }, flag, maxack, latest_ts)
  else if hdr.cmd = IKCP_CMD_WINS then (0, kcp1, flag, maxack, latest_ts)
  else (-3, kcp1, flag, maxack, latest_ts)

/-- The record loop of `ikcp_input` (`while (1)`). The first argument bounds the
number of iterations; every iteration consumes at least 24 bytes, so the length of
the datagram is enough. The result is the code of an early `return` (0 when the loop
is left by `break`), the control block, and the locals `flag`, `maxack`,
`latest_ts`. -/
def ikcp_input_loop : Nat → IKCPCB → List Nat → Int → Nat → Nat →
    Int × IKCPCB × Int × Nat × Nat
  | 0, kcp, _, flag, maxack, latest_ts => (0, kcp, flag, maxack, latest_ts)
  | fuel + 1, kcp, data, flag, maxack, latest_ts =>
    if (data.length : Int) < i32 IKCP_OVERHEAD then (0, kcp, flag, maxack, latest_ts)
    else if (ikcp_decode_seg data).1.conv ≠ kcp.conv then (-1, kcp, flag, maxack, latest_ts)
    else if (data.length : Int) - (IKCP_OVERHEAD : Int) < ((ikcp_decode_seg data).1.len : Int) ∨
        i32 (ikcp_decode_seg data).1.len < 0 then
      (-2, kcp, flag, maxack, latest_ts)
    else if (ikcp_decode_seg data).1.cmd ≠ IKCP_CMD_PUSH ∧
        (ikcp_decode_seg data).1.cmd ≠ IKCP_CMD_ACK ∧
        (ikcp_decode_seg data).1.cmd ≠ IKCP_CMD_WASK ∧
        (ikcp_decode_seg data).1.cmd ≠ IKCP_CMD_WINS then
      (-3, kcp, flag, maxack, latest_ts)
    else if (ikcp_input_record kcp (ikcp_decode_seg data).1 (ikcp_decode_seg data).2 flag
        maxack latest_ts).1 < 0 then
      ikcp_input_record kcp (ikcp_decode_seg data).1 (ikcp_decode_seg data).2 flag maxack
        latest_ts
    else
      ikcp_input_loop fuel
        (ikcp_input_record kcp (ikcp_decode_seg data).1 (ikcp_decode_seg data).2 flag maxack
          latest_ts).2.1
        ((ikcp_decode_seg data).2.drop (ikcp_decode_seg data).1.len)
        (ikcp_input_record kcp (ikcp_decode_seg data).1 (ikcp_decode_seg data).2 flag maxack
          latest_ts).2.2.1
        (ikcp_input_record kcp (ikcp_decode_seg data).1 (ikcp_decode_seg data).2 flag maxack
          latest_ts).2.2.2.1
        (ikcp_input_record kcp (ikcp_decode_seg data).1 (ikcp_decode_seg data).2 flag maxack
          latest_ts).2.2.2.2

/-- The congestion window update at the end of `ikcp_input`. -/
def ikcp_input_cwnd (kcp : IKCPCB) (prev_una : Nat) : IKCPCB :=
  if _itimediff kcp.snd_una prev_una > 0 then
    if kcp.cwnd < kcp.rmt_wnd then
      let mss := kcp.mss
      let kcp1 : IKCPCB :=
        if kcp.cwnd < kcp.ssthresh then
          { kcp with
            cwnd := (kcp.cwnd + 1) % 4294967296
            incr := (kcp.incr + mss) % 4294967296 }
        else
          let incr0 := if kcp.incr < mss then mss else kcp.incr
          let incr1 :=
            (incr0 + ((mss * mss) % 4294967296 / incr0 + mss / 16) % 4294967296) % 4294967296
          if ((kcp.cwnd + 1) % 4294967296 * mss) % 4294967296 ≤ incr1 then
            { kcp with
              incr := incr1
              cwnd := u32 ((incr1 : Int) + mss - 1) / (if mss > 0 then mss else 1) }
          else { kcp with incr := incr1 }
      if kcp1.cwnd > kcp1.rmt_wnd then
        { kcp1 with cwnd := kcp1.rmt_wnd, incr := (kcp1.rmt_wnd * mss) % 4294967296 }
      else kcp1
    else kcp
  else kcp

/-- The end of `ikcp_input`, after the record loop: an early `return` of the loop is
passed on; otherwise the fast-ack accounting and the congestion window update run and
the result is 0. The first argument is the result of the loop. -/
def ikcp_input_finish (r : Int × IKCPCB × Int × Nat × Nat) (prev_una : Nat) : Int × IKCPCB :=
  if r.1 < 0 then (r.1, r.2.1)
  else
    (0, ikcp_input_cwnd
      (if r.2.2.1 ≠ 0 then ikcp_parse_fastack r.2.1 r.2.2.2.1 r.2.2.2.2 else r.2.1) prev_una)

/-- The function `ikcp_input`: the return value and the control block afterwards.
`data` is `none` for a NULL pointer, and `size` is the length of the datagram. -/
def ikcp_input (kcp : IKCPCB) (data : Option (List Nat)) : Int × IKCPCB :=
  match data with
  | none => (-1, kcp)
  | some d =>
    if i32 (d.length : Int) < i32 IKCP_OVERHEAD then (-1, kcp)
    else ikcp_input_finish (ikcp_input_loop d.length kcp d 0 0 0) kcp.snd_una

/-! ## Flush (ikcp.c lines 974-1270) -/

/-- The 24 header bytes `ikcp_encode_seg` writes. -/
def ikcp_encode_seg (seg : IKCPSEG) : List Nat :=
  ikcp_encode32u seg.conv ++ ikcp_encode8u (u8 seg.cmd) ++ ikcp_encode8u (u8 seg.frg) ++
    ikcp_encode16u (u16 seg.wnd) ++ ikcp_encode32u seg.ts ++ ikcp_encode32u seg.sn ++
    ikcp_encode32u seg.una ++ ikcp_encode32u seg.len

def ikcp_wnd_unused (kcp : IKCPCB) : Int :=
  if kcp.nrcv_que < kcp.rcv_wnd then i32 ((kcp.rcv_wnd : Int) - kcp.nrcv_que) else 0

/-- The locals of `ikcp_flush` that its loops update: the bytes between `buffer` and
`ptr`, the datagrams passed to the output callback so far, `change`, `lost`, and the
members `xmit` and `state` of the control block. The C `buffer` has
`(mtu + 24) * 3` bytes (`flush_capacity`); the list `ptr` has no bound of its own, and
the model agrees with the C code as long as `ptr` stays within that capacity
(`FlushCap`). -/
structure FlushState where
  ptr : List Nat
  outs : List (List Nat)
  change : Int
  lost : Int
  xmit : Nat
  state : Nat
deriving DecidableEq, Repr

/-- The repeated step `size = ptr - buffer; if (size + need > mtu) { ikcp_output;
ptr = buffer; }` of `ikcp_flush`. -/
def ikcp_flush_room (kcp : IKCPCB) (need : Int) (st : FlushState) : FlushState :=
  if i32 (st.ptr.length : Int) + need > i32 kcp.mtu then
    { st with outs := ikcp_output st.outs st.ptr, ptr := [] }
  else st

/-- The acknowledgement loop of `ikcp_flush` (`for (i = 0; i < count; i++)`); the
first argument bounds the number of iterations and is `count` at the call. The local
`seg` keeps the `sn` and `ts` of the last entry. -/
def ikcp_flush_acks (kcp : IKCPCB) (count : Int) :
    Nat → Int → IKCPSEG → FlushState → IKCPSEG × FlushState
  | 0, _, seg, st => (seg, st)
  | fuel + 1, i, seg, st =>
    if i < count then
      let st1 := ikcp_flush_room kcp (i32 IKCP_OVERHEAD) st
      let seg1 := { seg with sn := (ikcp_ack_get kcp i.toNat).1, ts := (ikcp_ack_get kcp i.toNat).2 }
      ikcp_flush_acks kcp count fuel (i + 1) seg1 { st1 with ptr := st1.ptr ++ ikcp_encode_seg seg1 }
    else (seg, st)

/-- The zero-window probe bookkeeping of `ikcp_flush`. -/
def ikcp_flush_probe (kcp : IKCPCB) : IKCPCB :=
  if kcp.rmt_wnd = 0 then
    if kcp.probe_wait = 0 then
      { kcp with
        probe_wait := IKCP_PROBE_INIT
        ts_probe := (kcp.current + IKCP_PROBE_INIT) % 4294967296 }
    else if _itimediff kcp.current kcp.ts_probe ≥ 0 then
      let w0 := if kcp.probe_wait < IKCP_PROBE_INIT then IKCP_PROBE_INIT else kcp.probe_wait
      let w1 := (w0 + w0 / 2) % 4294967296
      let w2 := if w1 > IKCP_PROBE_LIMIT then IKCP_PROBE_LIMIT else w1
      { kcp with
        probe_wait := w2
        ts_probe := (kcp.current + w2) % 4294967296
        probe := kcp.probe ||| IKCP_ASK_SEND }
    else kcp
  else { kcp with ts_probe := 0, probe_wait := 0 }

/-- The loop of `ikcp_flush` that moves segments from `snd_queue` to `snd_buf`; the
list argument is the current `snd_queue`, `cwnd` and `wnd` are the locals `cwnd` and
`seg.wnd`. -/
def ikcp_flush_promote (cwnd wnd current : Nat) (kcp : IKCPCB) : List IKCPSEG → IKCPCB
  | [] => { kcp with snd_queue := [] }
  | newseg :: rest =>
    if _itimediff kcp.snd_nxt ((kcp.snd_una + cwnd) % 4294967296) < 0 then
      let seg1 : IKCPSEG :=
        { newseg with
          conv := kcp.conv, cmd := IKCP_CMD_PUSH, wnd := wnd, ts := current
          sn := kcp.snd_nxt, una := kcp.rcv_nxt, resendts := current
          rto := u32 kcp.rx_rto, fastack := 0, xmit := 0 }
      ikcp_flush_promote cwnd wnd current
        { kcp with
          snd_queue := rest
          snd_buf := kcp.snd_buf ++ [seg1]
          nsnd_que := u32 ((kcp.nsnd_que : Int) - 1)
          nsnd_buf := (kcp.nsnd_buf + 1) % 4294967296
          snd_nxt := (kcp.snd_nxt + 1) % 4294967296 } rest
    else { kcp with snd_queue := newseg :: rest }

/-- The transmission decision `ikcp_flush` takes for one segment of `snd_buf`: the
updated segment, `needsend`, and the updated `change`, `lost` and `kcp->xmit`. -/
def ikcp_flush_decide (kcp : IKCPCB) (current resent rtomin : Nat) (segment : IKCPSEG)
    (st : FlushState) : IKCPSEG × Int × FlushState :=
  if segment.xmit = 0 then
    ({ segment with
        xmit := (segment.xmit + 1) % 4294967296
        rto := u32 kcp.rx_rto
        resendts := (current + u32 kcp.rx_rto + rtomin) % 4294967296 }, 1, st)
  else if _itimediff current segment.resendts ≥ 0 then
    let rto1 : Nat :=
      if kcp.nodelay = 0 then
        (segment.rto + _imax_ segment.rto (u32 kcp.rx_rto)) % 4294967296
      else
        let step : Int := if kcp.nodelay < 2 then i32 segment.rto else kcp.rx_rto
        u32 ((segment.rto : Int) + Int.tdiv step 2)
    ({ segment with
        xmit := (segment.xmit + 1) % 4294967296
        rto := rto1
        resendts := (current + rto1) % 4294967296 }, 1,
      { st with xmit := (st.xmit + 1) % 4294967296, lost := 1 })
  else if segment.fastack ≥ resent then
    if i32 segment.xmit ≤ kcp.fastlimit ∨ kcp.fastlimit ≤ 0 then
      ({ segment with
          xmit := (segment.xmit + 1) % 4294967296
          fastack := 0
          resendts := (current + segment.rto) % 4294967296 }, 1,
        { st with change := i32 (st.change + 1) })
    else (segment, 0, st)
  else (segment, 0, st)

/-- The data loop of `ikcp_flush` over `snd_buf`: the segments afterwards and the
updated locals. `wnd` is the local `seg.wnd`. -/
def ikcp_flush_data (kcp : IKCPCB) (current resent rtomin wnd : Nat) :
    List IKCPSEG → FlushState → List IKCPSEG × FlushState
  | [], st => ([], st)
  | segment :: rest, st =>
    let d := ikcp_flush_decide kcp current resent rtomin segment st
    if d.2.1 ≠ 0 then
      let seg1 : IKCPSEG := { d.1 with ts := current, wnd := wnd, una := kcp.rcv_nxt }
      let need : Int := i32 ((IKCP_OVERHEAD + seg1.len : Nat) : Int)
      let st1 := ikcp_flush_room kcp need d.2.2
      let ptr1 := st1.ptr ++ ikcp_encode_seg seg1
      let ptr2 := if seg1.len > 0 then ptr1 ++ seg1.data.take seg1.len else ptr1
      let st2 : FlushState :=
        { st1 with
          ptr := ptr2
          state := if seg1.xmit ≥ kcp.dead_link then 4294967295 else st1.state }
      let r := ikcp_flush_data kcp current resent rtomin wnd rest st2
      (seg1 :: r.1, r.2)
    else
      let r := ikcp_flush_data kcp current resent rtomin wnd rest d.2.2
      (d.1 :: r.1, r.2)

/-- The congestion adjustments at the end of `ikcp_flush`; `cwnd` is the local
window computed before the promotion loop. -/
def ikcp_flush_cwnd (kcp : IKCPCB) (change lost : Int) (resent cwnd : Nat) : IKCPCB :=
  let kcp1 : IKCPCB :=
    if change ≠ 0 then
      let inflight := u32 ((kcp.snd_nxt : Int) - kcp.snd_una)
      let ssthresh := if inflight / 2 < IKCP_THRESH_MIN then IKCP_THRESH_MIN else inflight / 2
      { kcp with
        ssthresh := ssthresh
        cwnd := (ssthresh + resent) % 4294967296
        incr := ((ssthresh + resent) % 4294967296 * kcp.mss) % 4294967296 }
    else kcp
  let kcp2 : IKCPCB :=
    if lost ≠ 0 then
      { kcp1 with
        ssthresh := if cwnd / 2 < IKCP_THRESH_MIN then IKCP_THRESH_MIN else cwnd / 2
        cwnd := 1
        incr := kcp1.mss }
    else kcp1
  if kcp2.cwnd < 1 then { kcp2 with cwnd := 1, incr := kcp2.mss } else kcp2

/-- The local `seg` of `ikcp_flush` as initialised before the acknowledgement loop. -/
def ikcp_flush_seg (kcp : IKCPCB) : IKCPSEG :=
  { ikcp_segment_new 0 with
    conv := kcp.conv, cmd := IKCP_CMD_ACK, frg := 0, wnd := u32 (ikcp_wnd_unused kcp)
    una := kcp.rcv_nxt, len := 0, sn := 0, ts := 0 }

/-- The window-probe commands of `ikcp_flush`: a WASK record when `IKCP_ASK_SEND` is
set in `probe`, then a WINS record when `IKCP_ASK_TELL` is set; `a` holds the local
`seg` and the buffer state after the acknowledgement loop. -/
def ikcp_flush_cmds (kcp : IKCPCB) (a : IKCPSEG × FlushState) : FlushState :=
  let st2 : FlushState :=
    if kcp.probe &&& IKCP_ASK_SEND ≠ 0 then
      let st := ikcp_flush_room kcp (i32 IKCP_OVERHEAD) a.2
      { st with ptr := st.ptr ++ ikcp_encode_seg { a.1 with cmd := IKCP_CMD_WASK } }
    else a.2
  let segw : IKCPSEG :=
    if kcp.probe &&& IKCP_ASK_SEND ≠ 0 then { a.1 with cmd := IKCP_CMD_WASK } else a.1
  if kcp.probe &&& IKCP_ASK_TELL ≠ 0 then
    let st := ikcp_flush_room kcp (i32 IKCP_OVERHEAD) st2
    { st with ptr := st.ptr ++ ikcp_encode_seg { segw with cmd := IKCP_CMD_WINS } }
  else st2

/-- The local `cwnd` of `ikcp_flush`: the smaller of `snd_wnd` and `rmt_wnd`, capped
by the congestion window unless `nocwnd` is set. -/
def ikcp_flush_window (kcp : IKCPCB) : Nat :=
  if kcp.nocwnd = 0 then _imin_ kcp.cwnd (_imin_ kcp.snd_wnd kcp.rmt_wnd)
  else _imin_ kcp.snd_wnd kcp.rmt_wnd

/-- The part of `ikcp_flush` after the promotion loop: `resent`, `rtomin`, the data
loop, the flush of the remaining bytes and the congestion adjustments. `cwnd` and
`wnd` are the locals `cwnd` and `seg.wnd`, `st` the buffer state so far. -/
def ikcp_flush_send (kcp : IKCPCB) (current cwnd wnd : Nat) (st : FlushState) :
    IKCPCB × List (List Nat) :=
  let resent : Nat := if kcp.fastresend > 0 then u32 kcp.fastresend else 4294967295
  let rtomin : Nat := if kcp.nodelay = 0 then u32 (kcp.rx_rto / 8) else 0
  let r := ikcp_flush_data kcp current resent rtomin wnd kcp.snd_buf st
  let outs := if i32 (r.2.ptr.length : Int) > 0 then ikcp_output r.2.outs r.2.ptr else r.2.outs
  let kcp4 : IKCPCB := { kcp with snd_buf := r.1, xmit := r.2.xmit, state := r.2.state }
  (ikcp_flush_cwnd kcp4 r.2.change r.2.lost resent cwnd, outs)

/-- The part of `ikcp_flush` after the probe bookkeeping: the probe commands, the
reset of `probe`, the window, the promotion loop and the transmission. -/
def ikcp_flush_tail (kcp : IKCPCB) (current wnd : Nat) (a : IKCPSEG × FlushState) :
    IKCPCB × List (List Nat) :=
  ikcp_flush_send
    (ikcp_flush_promote (ikcp_flush_window { kcp with probe := 0 }) wnd current
      { kcp with probe := 0 } kcp.snd_queue)
    current (ikcp_flush_window { kcp with probe := 0 }) wnd (ikcp_flush_cmds kcp a)

/-- The function `ikcp_flush`: the control block afterwards and the datagrams passed
to the output callback, in emission order. -/
def ikcp_flush (kcp : IKCPCB) : IKCPCB × List (List Nat) :=
  if kcp.updated = 0 then (kcp, [])
  else
    ikcp_flush_tail (ikcp_flush_probe { kcp with ackcount := 0 }) kcp.current
      (u32 (ikcp_wnd_unused kcp))
      (ikcp_flush_acks kcp (i32 kcp.ackcount) (i32 kcp.ackcount).toNat 0 (ikcp_flush_seg kcp)
        { ptr := [], outs := [], change := 0, lost := 0, xmit := kcp.xmit,
          state := kcp.state })

/-! ## Clock driver and setters (ikcp.c lines 1278-1437) -/

/-- The function `ikcp_update`: the control block afterwards and the datagrams
emitted by the flush it may run. -/
def ikcp_update (kcp : IKCPCB) (current : Nat) : IKCPCB × List (List Nat) :=
  let kcp1 : IKCPCB := { kcp with current := current }
  let kcp2 : IKCPCB :=
    if kcp1.updated = 0 then { kcp1 with updated := 1, ts_flush := kcp1.current } else kcp1
  let slap0 := _itimediff kcp2.current kcp2.ts_flush
  let reset : Bool := decide (slap0 ≥ 10000 ∨ slap0 < -10000)
  let kcp3 : IKCPCB := if reset then { kcp2 with ts_flush := kcp2.current } else kcp2
  let slap : Int := if reset then 0 else slap0
  if slap ≥ 0 then
    let ts1 := (kcp3.ts_flush + kcp3.interval) % 4294967296
    let ts2 :=
      if _itimediff kcp3.current ts1 ≥ 0 then (kcp3.current + kcp3.interval) % 4294967296
      else ts1
    ikcp_flush { kcp3 with ts_flush := ts2 }
  else (kcp3, [])

/-- The scan of `ikcp_check` over `snd_buf`: `none` when some segment is already
due (the function returns `current`), otherwise the final `tm_packet`. -/
def ikcp_check_loop (current : Nat) : List IKCPSEG → Int → Option Int
  | [], tm_packet => some tm_packet
  | seg :: rest, tm_packet =>
    let diff := _itimediff seg.resendts current
    if diff ≤ 0 then none
    else ikcp_check_loop current rest (if diff < tm_packet then diff else tm_packet)

def ikcp_check (kcp : IKCPCB) (current : Nat) : Nat :=
  if kcp.updated = 0 then current
  else
    let ts_flush :=
      if _itimediff current kcp.ts_flush ≥ 10000 ∨ _itimediff current kcp.ts_flush < -10000
      then current else kcp.ts_flush
    if _itimediff current ts_flush ≥ 0 then current
    else
      let tm_flush := _itimediff ts_flush current
      match ikcp_check_loop current kcp.snd_buf 2147483647 with
      | none => current
      | some tm_packet =>
        let minimal0 := u32 (if tm_packet < tm_flush then tm_packet else tm_flush)
        let minimal := if minimal0 ≥ kcp.interval then kcp.interval else minimal0
        (current + minimal) % 4294967296

def ikcp_setmtu (kcp : IKCPCB) (mtu : Int) : Int × IKCPCB :=
  if mtu < 50 ∨ mtu < i32 IKCP_OVERHEAD then (-1, kcp)
  else (0, { kcp with mtu := u32 mtu, mss := u32 ((u32 mtu : Int) - IKCP_OVERHEAD) })

def ikcp_interval (kcp : IKCPCB) (interval : Int) : Int × IKCPCB :=
  let interval1 : Int := if interval > 5000 then 5000 else if interval < 10 then 10 else interval
  (0, { kcp with interval := u32 interval1 })

def ikcp_nodelay (kcp : IKCPCB) (nodelay interval resend nc : Int) : Int × IKCPCB :=
  let kcp1 : IKCPCB :=
    if nodelay ≥ 0 then
      { kcp with
        nodelay := u32 nodelay
        rx_minrto := if nodelay ≠ 0 then IKCP_RTO_NDL else IKCP_RTO_MIN }
    else kcp
  let kcp2 : IKCPCB :=
    if interval ≥ 0 then
      let interval1 : Int :=
        if interval > 5000 then 5000 else if interval < 10 then 10 else interval
      { kcp1 with interval := u32 interval1 }
    else kcp1
  let kcp3 : IKCPCB := if resend ≥ 0 then { kcp2 with fastresend := resend } else kcp2
  let kcp4 : IKCPCB := if nc ≥ 0 then { kcp3 with nocwnd := nc } else kcp3
  (0, kcp4)

def ikcp_wndsize (kcp : IKCPCB) (sndwnd rcvwnd : Int) : Int × IKCPCB :=
  let kcp1 : IKCPCB := if sndwnd > 0 then { kcp with snd_wnd := u32 sndwnd } else kcp
  let kcp2 : IKCPCB :=
    if rcvwnd > 0 then { kcp1 with rcv_wnd := _imax_ (u32 rcvwnd) IKCP_WND_RCV } else kcp1
  (0, kcp2)

def ikcp_waitsnd (kcp : IKCPCB) : Int := i32 ((kcp.nsnd_buf + kcp.nsnd_que : Nat) : Int)

def ikcp_getconv (ptr : List Nat) : Nat := (ikcp_decode32u ptr).1

/-! ## Sample inputs -/

/-- A 24-byte header: conv 0x04030201, cmd 81, frg 2, wnd 0x0403, ts, sn, una, len. -/
def sampleHeader : List Nat :=
  [1, 2, 3, 4, 81, 2, 3, 4, 9, 10, 11, 12, 13, 14, 15, 16, 17, 18, 19, 20, 255, 0, 0, 0]

/-- A PUSH segment with a three-byte payload. -/
def sampleSeg : IKCPSEG :=
  { conv := 287454020, cmd := 81, frg := 0, wnd := 128, ts := 1000, sn := 7, una := 3,
    len := 3, resendts := 0, rto := 0, fastack := 0, xmit := 0, data := [10, 20, 30] }

/-! ## Specification-side definitions -/

/-- The number of fragments of a message of `len` bytes: `max(1, ceil(len / mss))`. -/
def fragment_count (mss len : Nat) : Nat := max 1 ((len + mss - 1) / mss)

/-- The `n` fragments cut from `buffer`, each of at most `mss` bytes, with the `frg`
count-down `n-1, ..., 0`. -/
def fragments (mss : Nat) : Nat → List Nat → List IKCPSEG
  | 0, _ => []
  | n + 1, buffer =>
    { ikcp_segment_new 0 with
      data := buffer.take mss, len := (buffer.take mss).length, frg := n } ::
      fragments mss n (buffer.drop mss)

/-- The bytes still to be cut into new segments once the stream-mode prologue of
`ikcp_send` has extended the tail segment of `snd_queue` "up to mss" (spec 4.2); in
message mode, all `len` bytes. -/
def send_remaining (kcp : IKCPCB) (len : Nat) : Nat :=
  if kcp.stream ≠ 0 then
    match kcp.snd_queue.getLast? with
    | some old => if old.len < kcp.mss then len - min len (kcp.mss - old.len) else len
    | none => len
  else len

/-- A control block whose receive window was raised to 256 with `ikcp_wndsize`. -/
def kcpWnd256 : IKCPCB := (ikcp_wndsize (ikcp_create 1) 0 256).2

/-- A stream-mode control block with `mtu = 50` (`mss = 26`) whose `snd_queue` holds one
segment of one byte. -/
def kcpStreamTail : IKCPCB :=
  (ikcp_send { (ikcp_setmtu (ikcp_create 1) 50).2 with stream := 1 } [7] 1).2

/-- A complete two-fragment message as it sits in `rcv_queue`. -/
def sampleMsg : List IKCPSEG :=
  [{ sampleSeg with frg := 1, sn := 0, len := 2, data := [1, 2] },
   { sampleSeg with frg := 0, sn := 1, len := 1, data := [3] }]

/-- The first fragment of a following two-fragment message. -/
def sampleRest : List IKCPSEG :=
  [{ sampleSeg with frg := 1, sn := 2, len := 1, data := [4] }]

/-- A control block whose `rcv_queue` holds a complete two-fragment message followed by
the first fragment of another one. -/
def kcpTwoFragments : IKCPCB :=
  { ikcp_create 1 with rcv_nxt := 3, nrcv_que := 3, rcv_queue := sampleMsg ++ sampleRest }

/-- A datagram holding one PUSH record (`frg = 0`, `wnd = 128`, `ts = 0`, `una = 0`). -/
def pushDatagram (conv sn : Nat) (payload : List Nat) : List Nat :=
  ikcp_encode_seg
    { sampleSeg with
      conv := conv, cmd := IKCP_CMD_PUSH, frg := 0, wnd := 128, ts := 0, sn := sn, una := 0
      len := payload.length } ++ payload

/-- A fresh control block after the input of 129 one-byte PUSH datagrams with sequence
numbers 0 to 128: the receive window (128) is full and the last segment waits in
`rcv_buf`. -/
def kcpFullWindow : IKCPCB :=
  (List.range 129).foldl (fun k i => (ikcp_input k (some (pushDatagram 1 i [i]))).2)
    (ikcp_create 1)

/-- The bytes of one record on the wire: the 24-byte header followed by the payload. -/
def record_bytes (r : IKCPSEG) : List Nat := ikcp_encode_seg r ++ r.data

/-- A whole valid record of conversation `conv`: its `conv` matches, its `cmd` is one
of 81, 82, 83, 84, its fields fit their wire widths and its `len` field is the length
of its payload. -/
def valid_record (conv : Nat) (r : IKCPSEG) : Prop :=
  r.conv = conv ∧
  (r.cmd = IKCP_CMD_PUSH ∨ r.cmd = IKCP_CMD_ACK ∨ r.cmd = IKCP_CMD_WASK ∨
    r.cmd = IKCP_CMD_WINS) ∧
  r.frg < 256 ∧ r.wnd < 65536 ∧ r.ts < 4294967296 ∧ r.sn < 4294967296 ∧
  r.una < 4294967296 ∧ r.len = r.data.length ∧ r.len < 2147483648

/-- The return code of the record loop of `ikcp_input` as a function of the datagram
alone: sequential parsing stops with 0 when fewer than 24 bytes remain, with -1, -2 or
-3 at the first record with a foreign `conv`, an oversized `len` or an unknown `cmd`. -/
def input_scan (conv : Nat) : Nat → List Nat → Int
  | 0, _ => 0
  | fuel + 1, data =>
    if (data.length : Int) < i32 IKCP_OVERHEAD then 0
    else if (ikcp_decode_seg data).1.conv ≠ conv then -1
    else if (data.length : Int) - (IKCP_OVERHEAD : Int) < ((ikcp_decode_seg data).1.len : Int) ∨
        i32 (ikcp_decode_seg data).1.len < 0 then -2
    else if (ikcp_decode_seg data).1.cmd ≠ IKCP_CMD_PUSH ∧
        (ikcp_decode_seg data).1.cmd ≠ IKCP_CMD_ACK ∧
        (ikcp_decode_seg data).1.cmd ≠ IKCP_CMD_WASK ∧
        (ikcp_decode_seg data).1.cmd ≠ IKCP_CMD_WINS then -3
    else input_scan conv fuel ((ikcp_decode_seg data).2.drop (ikcp_decode_seg data).1.len)

/-- Sequential parsing of `d` passes over whole valid records of conversation `conv`
and reaches the remaining bytes `rest`. -/
def parses_to (conv : Nat) (d rest : List Nat) : Prop :=
  ∃ recs : List IKCPSEG,
    (∀ r ∈ recs, valid_record conv r) ∧ d = (recs.map record_bytes).flatten ++ rest

/-- What the record loop of `ikcp_input` does with the bytes `rest` it has reached: 0,
-1, -2, -3 are the codes with which it stops there, 1 stands for a whole valid record
at the front of `rest`. -/
def stop_code (conv : Nat) (rest : List Nat) : Int :=
  if rest.length < 24 then 0
  else if (ikcp_decode_seg rest).1.conv ≠ conv then -1
  else if 24 + (ikcp_decode_seg rest).1.len > rest.length then -2
  else if (ikcp_decode_seg rest).1.cmd ≠ IKCP_CMD_PUSH ∧
      (ikcp_decode_seg rest).1.cmd ≠ IKCP_CMD_ACK ∧
      (ikcp_decode_seg rest).1.cmd ≠ IKCP_CMD_WASK ∧
      (ikcp_decode_seg rest).1.cmd ≠ IKCP_CMD_WINS then -3
  else 1

/-! ## Receive-side model for reordered input -/

/-- The header fields `ikcp_input` decodes from the wire bytes of a valid record `r`. -/
def record_header (r : IKCPSEG) : IKCPSEG :=
  { ikcp_segment_new 0 with
    conv := r.conv, cmd := r.cmd, frg := r.frg, wnd := r.wnd, ts := r.ts, sn := r.sn,
    una := r.una, len := r.len }

/-- The segment `ikcp_input` allocates for a PUSH record `r`: the eight wire fields
and the payload of `r`, the other members as `ikcp_segment_new` leaves them. -/
def stored_seg (r : IKCPSEG) : IKCPSEG :=
  { ikcp_segment_new 0 with
    conv := r.conv, cmd := r.cmd, frg := r.frg, wnd := r.wnd, ts := r.ts, sn := r.sn,
    una := r.una, len := r.len, data := r.data }

/-- The receive side of a control block: `rcv_nxt`, `rcv_wnd`, `nrcv_que`, `rcv_buf`
and `rcv_queue`. -/
structure RcvPart where
  rcv_nxt : Nat
  rcv_wnd : Nat
  nrcv_que : Nat
  rcv_buf : List IKCPSEG
  rcv_queue : List IKCPSEG

def rcv_part (kcp : IKCPCB) : RcvPart :=
  { rcv_nxt := kcp.rcv_nxt, rcv_wnd := kcp.rcv_wnd, nrcv_que := kcp.nrcv_que,
    rcv_buf := kcp.rcv_buf, rcv_queue := kcp.rcv_queue }

/-- The distance of `sn` from `base` in the 32-bit sequence space. -/
def sn_offset (base sn : Nat) : Nat := (sn + (4294967296 - base % 4294967296)) % 4294967296

/-- The state of the receive side after the records `A` have arrived, for sequence
numbers counted from `base` and `n` numbers expected: `rcv_queue` holds the offsets
`0 .. m-1` in order and `rcv_nxt` is at offset `m`; `rcv_buf` is strictly ascending and
holds offsets above `m`; every held segment is the stored first-arrived copy of its
sequence number, and every arrived sequence number is held. -/
def RcvInv (base n : Nat) (A : List IKCPSEG) (p : RcvPart) : Prop :=
  ∃ m : Nat, m ≤ n ∧ p.rcv_nxt = (base + m) % 4294967296 ∧ p.nrcv_que = m ∧
    p.rcv_queue.map (fun s => sn_offset base s.sn) = List.range' 0 m ∧
    p.rcv_buf.Pairwise (fun x y => sn_offset base x.sn < sn_offset base y.sn) ∧
    (∀ s ∈ p.rcv_buf, m < sn_offset base s.sn ∧ sn_offset base s.sn < n) ∧
    (∀ s, s ∈ p.rcv_queue ∨ s ∈ p.rcv_buf → s.sn < 4294967296 ∧
      ∃ r, A.find? (fun x => decide (x.sn = s.sn)) = some r ∧ s = stored_seg r) ∧
    (∀ r ∈ A, ∃ s, (s ∈ p.rcv_queue ∨ s ∈ p.rcv_buf) ∧ s.sn = r.sn)

/-- Feeding the datagrams `ds` to `ikcp_input` one after the other: the return codes
in order and the control block after the last call. -/
def ikcp_input_all (kcp : IKCPCB) : List (List Nat) → List Int × IKCPCB
  | [] => ([], kcp)
  | d :: ds =>
    ((ikcp_input kcp (some d)).1 :: (ikcp_input_all (ikcp_input kcp (some d)).2 ds).1,
      (ikcp_input_all (ikcp_input kcp (some d)).2 ds).2)

/-- A PUSH record with `frg = 0`, `wnd = 128`, `ts = 0`, `una = 0` and the given
sequence number and payload. -/
def pushRecord (conv sn : Nat) (payload : List Nat) : IKCPSEG :=
  { ikcp_segment_new 0 with
    conv := conv, cmd := IKCP_CMD_PUSH, frg := 0, wnd := 128, ts := 0, sn := sn, una := 0,
    len := payload.length, data := payload }

/-- A fresh control block whose next expected sequence number is the last one before
the 32-bit counter wraps. -/
def kcpNearWrap : IKCPCB := { ikcp_create 7 with rcv_nxt := 4294967295 }

/-- Five PUSH records for `kcpNearWrap`: sequence numbers 4294967295, 0, 1 out of
order, the first and the last of them twice with different payloads. -/
def shuffledRecords : List IKCPSEG :=
  [pushRecord 7 1 [30], pushRecord 7 4294967295 [10], pushRecord 7 0 [20],
    pushRecord 7 4294967295 [11], pushRecord 7 1 [31]]

/-! ## Scenarios for the clock and for stream mode -/

/-- A sender with congestion control off after one `ikcp_send` of three bytes and its
first `ikcp_update` at time 1000: the segment is in `snd_buf`, sent once, and the next
flush is due at 1100. -/
def kcpOneInFlight : IKCPCB :=
  (ikcp_update (ikcp_send (ikcp_nodelay (ikcp_create 5) 0 (-1) 0 1).2 [10, 20, 30] 3).2 1000).1

/-- The queue that stream-mode sends of the bytes `D` build on an empty `snd_queue`:
the payloads concatenate to `D`, every segment has `frg = 0` and between 1 and `mss`
bytes, and every segment but the last holds exactly `mss` bytes. -/
def StreamQueue (mss : Nat) (D : List Nat) (q : List IKCPSEG) : Prop :=
  (q.map (fun s => s.data)).flatten = D ∧
  (∀ s ∈ q, s.frg = 0 ∧ s.len = s.data.length ∧ 1 ≤ s.len ∧ s.len ≤ mss) ∧
  (∀ s ∈ q.dropLast, s.len = mss)

/-- Calling `ikcp_send` with each of the payloads in turn (each with its full length):
the return codes in order and the control block after the last call. -/
def ikcp_send_all (kcp : IKCPCB) : List (List Nat) → List Int × IKCPCB
  | [] => ([], kcp)
  | p :: ps =>
    ((ikcp_send kcp p p.length).1 :: (ikcp_send_all (ikcp_send kcp p p.length).2 ps).1,
      (ikcp_send_all (ikcp_send kcp p p.length).2 ps).2)

/-- A fresh control block switched to stream mode. -/
def kcpStream : IKCPCB := { ikcp_create 1 with stream := 1 }

/-- Five payloads of 100 bytes each. -/
def fivePayloads : List (List Nat) := List.replicate 5 (List.replicate 100 7)

/-! ## The dead-link marker -/

/-- The control block `kcp` with its member `state` replaced by `s`. -/
def set_state (kcp : IKCPCB) (s : Nat) : IKCPCB := { kcp with state := s }

/-- The locals of `ikcp_flush` with the tracked member `state` replaced by `s`. -/
def set_flush_state (st : FlushState) (s : Nat) : FlushState := { st with state := s }

/-- The local `resent` of `ikcp_flush`. -/
def flush_resent (kcp : IKCPCB) : Nat :=
  if kcp.fastresend > 0 then u32 kcp.fastresend else 4294967295

/-- The local `needsend` of the data loop of `ikcp_flush` for one segment of `snd_buf`:
a first transmission (`xmit = 0`), a timeout (`current - resendts >= 0`) or a fast
retransmission (`fastack >= resent` with `xmit <= fastlimit` or `fastlimit <= 0`). -/
def flush_needsend (kcp : IKCPCB) (current resent : Nat) (segment : IKCPSEG) : Bool :=
  decide (segment.xmit = 0) || decide (_itimediff current segment.resendts ≥ 0) ||
    (decide (segment.fastack ≥ resent) &&
      (decide (i32 segment.xmit ≤ kcp.fastlimit) || decide (kcp.fastlimit ≤ 0)))

/-- Some segment of `segs` is transmitted by the data loop of `ikcp_flush` and its
transmission count `xmit`, after the increment, is at least `dead_link`. -/
def flush_dead (kcp : IKCPCB) (current resent : Nat) (segs : List IKCPSEG) : Bool :=
  segs.any (fun segment =>
    flush_needsend kcp current resent segment &&
      decide ((segment.xmit + 1) % 4294967296 ≥ kcp.dead_link))

/-- The control block of a flush after the promotion loop, before the data loop. -/
def flush_promoted (kcp : IKCPCB) : IKCPCB :=
  ikcp_flush_promote
    (ikcp_flush_window { ikcp_flush_probe { kcp with ackcount := 0 } with probe := 0 })
    (u32 (ikcp_wnd_unused kcp)) kcp.current
    { ikcp_flush_probe { kcp with ackcount := 0 } with probe := 0 }
    (ikcp_flush_probe { kcp with ackcount := 0 }).snd_queue

/-- The flush of `kcp` runs (`updated` is set) and transmits a segment of `snd_buf`
whose transmission count reaches `dead_link`. -/
def flush_latch (kcp : IKCPCB) : Bool :=
  decide (kcp.updated ≠ 0) &&
    flush_dead (flush_promoted kcp) kcp.current (flush_resent (flush_promoted kcp))
      (flush_promoted kcp).snd_buf

/-- The transmission of the segment `seg1` by the data loop of `ikcp_flush`: room is
made in the buffer, the header and the payload are appended, and the dead-link marker
is set when `xmit` has reached `dead_link`. -/
def flush_emit (kcp : IKCPCB) (seg1 : IKCPSEG) (st : FlushState) : FlushState :=
  { ikcp_flush_room kcp (i32 ((IKCP_OVERHEAD + seg1.len : Nat) : Int)) st with
    ptr :=
      if seg1.len > 0 then
        (ikcp_flush_room kcp (i32 ((IKCP_OVERHEAD + seg1.len : Nat) : Int)) st).ptr ++
          ikcp_encode_seg seg1 ++ seg1.data.take seg1.len
      else
        (ikcp_flush_room kcp (i32 ((IKCP_OVERHEAD + seg1.len : Nat) : Int)) st).ptr ++
          ikcp_encode_seg seg1
    state :=
      if seg1.xmit ≥ kcp.dead_link then 4294967295
      else (ikcp_flush_room kcp (i32 ((IKCP_OVERHEAD + seg1.len : Nat) : Int)) st).state }

/-- The clock part of `ikcp_update`, before its call of `ikcp_flush`: the control block
with `current`, `updated` and `ts_flush` set, and whether the flush is due. -/
def update_clock (kcp : IKCPCB) (current : Nat) : IKCPCB × Bool :=
  let kcp1 : IKCPCB := { kcp with current := current }
  let kcp2 : IKCPCB :=
    if kcp1.updated = 0 then { kcp1 with updated := 1, ts_flush := kcp1.current } else kcp1
  let slap0 := _itimediff kcp2.current kcp2.ts_flush
  let reset : Bool := decide (slap0 ≥ 10000 ∨ slap0 < -10000)
  let kcp3 : IKCPCB := if reset then { kcp2 with ts_flush := kcp2.current } else kcp2
  let slap : Int := if reset then 0 else slap0
  if slap ≥ 0 then
    let ts1 := (kcp3.ts_flush + kcp3.interval) % 4294967296
    let ts2 :=
      if _itimediff kcp3.current ts1 ≥ 0 then (kcp3.current + kcp3.interval) % 4294967296
      else ts1
    ({ kcp3 with ts_flush := ts2 }, true)
  else (kcp3, false)

/-- The times of 21 calls of `ikcp_update` on a link that loses everything: each call
but the first finds the retransmission timer of the segment in flight expired. -/
def lossyTimes : List Nat :=
  0 :: (List.range 20).map (fun k => 100 + 300 * (2 ^ k - 1) + 1000 * k)

/-- A default control block after `ikcp_send` of one byte and the first `n` calls of
`ikcp_update` at the times `lossyTimes`, with no input at all. -/
def kcpLossy (n : Nat) : IKCPCB :=
  (lossyTimes.take n).foldl (fun k t => (ikcp_update k t).1) (ikcp_send (ikcp_create 1) [7] 1).2

/-! ## Scenarios for a parse failure within a datagram -/

/-- The record loop of `ikcp_input` over whole records: the control block and the
locals `flag`, `maxack`, `latest_ts` after the records have been processed in order. -/
def input_records (kcp : IKCPCB) (flag : Int) (maxack latest_ts : Nat) :
    List IKCPSEG → IKCPCB × Int × Nat × Nat
  | [] => (kcp, flag, maxack, latest_ts)
  | r :: rs =>
    input_records
      (ikcp_input_record kcp (record_header r) r.data flag maxack latest_ts).2.1
      (ikcp_input_record kcp (record_header r) r.data flag maxack latest_ts).2.2.1
      (ikcp_input_record kcp (record_header r) r.data flag maxack latest_ts).2.2.2.1
      (ikcp_input_record kcp (record_header r) r.data flag maxack latest_ts).2.2.2.2 rs

/-- A sender with congestion control off and two one-byte messages in flight (sequence
numbers 0 and 1) after its first `ikcp_update`. -/
def kcpTwoInFlight : IKCPCB :=
  (ikcp_update
    (ikcp_send (ikcp_send (ikcp_nodelay (ikcp_create 1) 0 (-1) 0 1).2 [1] 1).2 [2] 1).2 0).1

/-- An ACK record for sequence number 1 (`una = 0`, `wnd = 128`). -/
def ackOneRecord : IKCPSEG :=
  { ikcp_segment_new 0 with
    conv := 1, cmd := IKCP_CMD_ACK, frg := 0, wnd := 128, ts := 0, sn := 1, una := 0, len := 0,
    data := [] }

/-- The bytes of the ACK record `ackOneRecord`. -/
def ackOne : List Nat := record_bytes ackOneRecord

/-- The bytes of a record of another conversation (`conv = 2`). -/
def foreignRecord : List Nat :=
  record_bytes
    { ikcp_segment_new 0 with
      conv := 2, cmd := IKCP_CMD_ACK, frg := 0, wnd := 128, ts := 0, sn := 0, una := 0, len := 0,
      data := [] }

/-! ## Reachable control blocks and their invariants -/

/-- The control blocks that a sequence of public calls produces from `ikcp_create`:
`ikcp_send` with a source of at least `len` bytes, `ikcp_recv`, `ikcp_input`,
`ikcp_update` with a 32-bit clock, `ikcp_flush`, the setters with `int` arguments, and
direct writes of the configuration members `stream` and `fastlimit`, for which the
library has no setter. -/
inductive Reachable : IKCPCB → Prop
  | create (conv : Nat) : conv < 4294967296 → Reachable (ikcp_create conv)
  | send (kcp : IKCPCB) (buffer : List Nat) (len : Int) :
      Reachable kcp → len ≤ buffer.length → len < 2147483648 →
      Reachable (ikcp_send kcp buffer len).2
  | recv (kcp : IKCPCB) (buffer : Bool) (len : Int) :
      Reachable kcp → Reachable (ikcp_recv kcp buffer len).2.2
  | input (kcp : IKCPCB) (data : Option (List Nat)) :
      Reachable kcp → Reachable (ikcp_input kcp data).2
  | update (kcp : IKCPCB) (current : Nat) :
      Reachable kcp → current < 4294967296 → Reachable (ikcp_update kcp current).1
  | flush (kcp : IKCPCB) : Reachable kcp → Reachable (ikcp_flush kcp).1
  | setmtu (kcp : IKCPCB) (mtu : Int) :
      Reachable kcp → mtu < 2147483648 → Reachable (ikcp_setmtu kcp mtu).2
  | interval (kcp : IKCPCB) (interval : Int) :
      Reachable kcp → Reachable (ikcp_interval kcp interval).2
  | nodelay (kcp : IKCPCB) (nodelay interval resend nc : Int) :
      Reachable kcp → -2147483648 ≤ resend → resend < 2147483648 →
      Reachable (ikcp_nodelay kcp nodelay interval resend nc).2
  | wndsize (kcp : IKCPCB) (sndwnd rcvwnd : Int) :
      Reachable kcp → sndwnd < 2147483648 → rcvwnd < 2147483648 →
      Reachable (ikcp_wndsize kcp sndwnd rcvwnd).2
  | stream (kcp : IKCPCB) (v : Int) : Reachable kcp → Reachable { kcp with stream := v }
  | fastlimit (kcp : IKCPCB) (v : Int) : Reachable kcp → Reachable { kcp with fastlimit := v }

/-- The send side of a control block: `conv`, `mtu`, `mss`, the cursors `snd_una` and
`snd_nxt`, the advertised window `rmt_wnd`, and the lists `snd_queue` and `snd_buf`. -/
structure SndPart where
  conv : Nat
  mtu : Nat
  mss : Nat
  snd_una : Nat
  snd_nxt : Nat
  rmt_wnd : Nat
  snd_queue : List IKCPSEG
  snd_buf : List IKCPSEG

def snd_part (kcp : IKCPCB) : SndPart :=
  { conv := kcp.conv, mtu := kcp.mtu, mss := kcp.mss, snd_una := kcp.snd_una,
    snd_nxt := kcp.snd_nxt, rmt_wnd := kcp.rmt_wnd, snd_queue := kcp.snd_queue,
    snd_buf := kcp.snd_buf }

/-- The cursor and the lists of the receive side: `rcv_nxt`, `rcv_buf`, `rcv_queue`. -/
structure RcvCore where
  rcv_nxt : Nat
  rcv_buf : List IKCPSEG
  rcv_queue : List IKCPSEG

def rcv_core (kcp : IKCPCB) : RcvCore :=
  { rcv_nxt := kcp.rcv_nxt, rcv_buf := kcp.rcv_buf, rcv_queue := kcp.rcv_queue }

/-- Well-formed segments on the send side: `conv` and `mtu` are in range,
`mss = mtu - 24`, every queued or buffered segment stores exactly `len` payload bytes
and fits a signed size with its header, and the segments of `snd_buf` are PUSH segments
of this conversation. -/
def SegInv (p : SndPart) : Prop :=
  p.conv < 4294967296 ∧ 50 ≤ p.mtu ∧ p.mtu < 2147483648 ∧ p.mss + 24 = p.mtu ∧
  (∀ s ∈ p.snd_queue, s.len = s.data.length ∧ s.len + 24 < 2147483648) ∧
  (∀ s ∈ p.snd_buf, s.len = s.data.length ∧ s.len + 24 < 2147483648 ∧ s.conv = p.conv ∧
    s.cmd = IKCP_CMD_PUSH)

/-- The cursors of the send side: `snd_una`, `snd_nxt`, `rmt_wnd` and the sequence
numbers of `snd_buf` in order. -/
structure SndCur where
  snd_una : Nat
  snd_nxt : Nat
  rmt_wnd : Nat
  sns : List Nat

def snd_cur (kcp : IKCPCB) : SndCur :=
  { snd_una := kcp.snd_una, snd_nxt := kcp.snd_nxt, rmt_wnd := kcp.rmt_wnd,
    sns := kcp.snd_buf.map (fun s => s.sn) }

/-- The send-side cursors without the link between `snd_una` and the head of
`snd_buf`, as between `ikcp_parse_una` or `ikcp_parse_ack` and `ikcp_shrink_buf`:
`snd_nxt` is less than `2^31` ahead of `snd_una` and `snd_buf` is strictly ascending
between them. -/
def WeakSnd (p : SndCur) : Prop :=
  p.snd_una < 4294967296 ∧ p.snd_nxt < 4294967296 ∧ p.rmt_wnd < 65536 ∧
  sn_offset p.snd_una p.snd_nxt < 2147483648 ∧
  p.sns.Pairwise (fun x y => sn_offset p.snd_una x < sn_offset p.snd_una y) ∧
  (∀ n ∈ p.sns, n < 4294967296 ∧ sn_offset p.snd_una n < sn_offset p.snd_una p.snd_nxt)

/-- The send-side cursors: `snd_nxt` is less than `2^31` ahead of `snd_una`, `snd_buf`
is strictly ascending and lies between them, and `snd_una` is the head of `snd_buf`, or
`snd_nxt` when `snd_buf` is empty. -/
def SndInv (p : SndCur) : Prop :=
  WeakSnd p ∧ (∀ n ∈ p.sns.head?, n = p.snd_una) ∧ (p.sns = [] → p.snd_una = p.snd_nxt)

/-- The members of a segment that stay fixed while it is in `snd_buf`: `sn`, `conv`,
`cmd`, `len` and the payload. -/
def seg_key (s : IKCPSEG) : Nat × Nat × Nat × Nat × List Nat :=
  (s.sn, s.conv, s.cmd, s.len, s.data)

/-- The order of the receive side: `rcv_buf` is strictly ascending from `rcv_nxt` on,
within half the sequence space, and `rcv_queue` counts up to `rcv_nxt - 1`. -/
def RcvOrd (p : RcvCore) : Prop :=
  p.rcv_nxt < 4294967296 ∧
  p.rcv_buf.Pairwise (fun x y => sn_offset p.rcv_nxt x.sn < sn_offset p.rcv_nxt y.sn) ∧
  (∀ s ∈ p.rcv_buf, s.sn < 4294967296 ∧ sn_offset p.rcv_nxt s.sn < 2147483648) ∧
  p.rcv_queue.Chain' (fun a b => b.sn = (a.sn + 1) % 4294967296) ∧
  (∀ s ∈ p.rcv_queue.getLast?, (s.sn + 1) % 4294967296 = p.rcv_nxt)

/-- The record that `ikcp_flush` puts on the wire for the segment `seg`: the fields
reduced to their wire widths and the first `len` bytes of the payload. -/
def wire_record (seg : IKCPSEG) : IKCPSEG :=
  { seg with
    frg := seg.frg % 256, wnd := seg.wnd % 65536, ts := seg.ts % 4294967296
    sn := seg.sn % 4294967296, una := seg.una % 4294967296, data := seg.data.take seg.len }

/-- The buffer state of a flush holds whole records only: the bytes between `buffer`
and `ptr` and every datagram passed to the output callback are concatenations of whole
valid records, shorter than `2^31` bytes, and no datagram is empty. -/
def FlushOK (conv : Nat) (st : FlushState) : Prop :=
  parses_to conv st.ptr [] ∧ st.ptr.length < 2147483648 ∧
  ∀ d ∈ st.outs, d ≠ [] ∧ d.length < 2147483648 ∧ parses_to conv d []

/-- A fresh receiver after the PUSH datagrams with sequence numbers 2, 3 and 0 have
arrived: 0 is in `rcv_queue`, 2 and 3 wait in `rcv_buf`. -/
def kcpGap : IKCPCB :=
  (ikcp_input (ikcp_input (ikcp_input (ikcp_create 1) (some (pushDatagram 1 2 [5]))).2
    (some (pushDatagram 1 3 [6]))).2 (some (pushDatagram 1 0 [7]))).2

/-- A default sender after three one-byte sends, two calls of `ikcp_update` (the
second one transmits the first segment) and an ACK for that segment (`sn = 0`,
`una = 1`, `wnd = 128`): the congestion window has opened to 2. -/
def kcpAcked : IKCPCB :=
  (ikcp_input
    (ikcp_update
      (ikcp_update
        (ikcp_send (ikcp_send (ikcp_send (ikcp_create 1) [1] 1).2 [2] 1).2 [3] 1).2 0).1
      100).1
    (some (record_bytes { ackOneRecord with sn := 0, una := 1 }))).2

/-- One step on the send side that keeps `conv`, `mtu`, `mss` and `snd_queue` and
leaves in `snd_buf` only segments that were there before, up to the members that
change while a segment is in flight. -/
def SegStep (k1 k2 : IKCPCB) : Prop :=
  k2.conv = k1.conv ∧ k2.mtu = k1.mtu ∧ k2.mss = k1.mss ∧ k2.snd_queue = k1.snd_queue ∧
  ∀ s ∈ k2.snd_buf, ∃ s1 ∈ k1.snd_buf, seg_key s = seg_key s1

/-- Every segment of the queue stores exactly `len` payload bytes and fits a signed
size together with its header. -/
def QueueOK (q : List IKCPSEG) : Prop :=
  ∀ s ∈ q, s.len = s.data.length ∧ s.len + 24 < 2147483648

/-! ## Scenarios for the datagram size and the congestion window -/

/-- A default sender that queues a message of 100 bytes, is then switched to an MTU of
50 bytes (`mss = 26`), and has run its first `ikcp_update`; the message is still in
`snd_queue` as one segment of 100 bytes because the congestion window was 0. -/
def kcpShrunk : IKCPCB :=
  (ikcp_update
    (ikcp_setmtu (ikcp_send (ikcp_create 1) (List.replicate 100 7) 100).2 50).2 0).1

/-- A sender with fast retransmission after 4 duplicate acknowledgements, congestion
control off for the send window, and an MTU of 700000024 bytes (`mss = 700000000`),
with two one-byte messages in flight after its first `ikcp_update`. -/
def kcpWide : IKCPCB :=
  (ikcp_update
    (ikcp_send (ikcp_send
      (ikcp_setmtu (ikcp_nodelay (ikcp_create 1) 0 (-1) 4 1).2 700000024).2 [1] 1).2 [2] 1).2
    0).1

/-- The sender `kcpWide` after four datagrams that acknowledge segment 1 (`una = 0`)
and a second `ikcp_update`, which retransmits segment 0 fast and sets `cwnd` to 6 and
`incr` to `6 * mss = 4200000000`. -/
def kcpWideFast : IKCPCB :=
  (ikcp_update
    (ikcp_input (ikcp_input (ikcp_input (ikcp_input kcpWide (some ackOne)).2
      (some ackOne)).2 (some ackOne)).2 (some ackOne)).2 100).1

/-- The bytes of an ACK record for sequence number 0 with `una = 2` and `wnd = 128`. -/
def ackBoth : List Nat := record_bytes { ackOneRecord with sn := 0, una := 2 }

/-- The bytes of a WINS record with `una = 1` that advertises a window of one segment. -/
def winsOne : List Nat :=
  record_bytes { ackOneRecord with cmd := IKCP_CMD_WINS, sn := 0, una := 1, wnd := 1 }

/-- The sender `kcpAcked` (`cwnd = 2`) after the input of `winsOne`. -/
def kcpNarrow : IKCPCB := (ikcp_input kcpAcked (some winsOne)).2

/-! ## The round-trip estimator in the words of the specification -/

/-- The estimator step of spec section 4.7 over the integers, with "first sample" read
as `srtt = 0`: the new `srtt`, `rttvar` and `rto` from the old `srtt`, `rttvar`, the
sample `rtt`, `rx_minrto` and `interval`. -/
def rtt_estimator_spec (srtt rttvar rtt minrto : Int) (interval : Nat) : Int × Int × Int :=
  let delta : Int := if rtt - srtt < 0 then -(rtt - srtt) else rtt - srtt
  let srtt1 : Int := if srtt = 0 then rtt else max 1 ((7 * srtt + rtt) / 8)
  let rttvar1 : Int := if srtt = 0 then rtt / 2 else (3 * rttvar + delta) / 4
  (srtt1, rttvar1, min (max minrto (srtt1 + max (interval : Int) (4 * rttvar1))) 60000)

/-- The sender `kcpTwoInFlight` after an ACK for segment 0 that arrives in the
millisecond of its transmission (`ts = 0`, `current = 0`: a sample of 0), a call of
`ikcp_update` at time 100, and an ACK for segment 1 with `ts = 0` (a sample of 100). -/
def kcpZeroSample : IKCPCB :=
  (ikcp_input
    (ikcp_update
      (ikcp_input kcpTwoInFlight (some (record_bytes { ackOneRecord with sn := 0, una := 1 }))).2
      100).1
    (some (record_bytes { ackOneRecord with sn := 1, una := 2 }))).2

/-- The members the round-trip estimator reads and writes, and the clock: `rx_srtt`,
`rx_rttval`, `rx_rto`, `rx_minrto`, `interval`, `current`. -/
def est_part (kcp : IKCPCB) : Int × Int × Int × Int × Nat × Nat :=
  (kcp.rx_srtt, kcp.rx_rttval, kcp.rx_rto, kcp.rx_minrto, kcp.interval, kcp.current)

/-- The estimate: `rx_srtt`, `rx_rttval` and `rx_rto`. -/
def rx_vals (kcp : IKCPCB) : Int × Int × Int := (kcp.rx_srtt, kcp.rx_rttval, kcp.rx_rto)

/-! ## The promotion loop and the data loop of a flush, segment by segment -/

/-- The segment the promotion loop of `ikcp_flush` makes of the head of `snd_queue`:
`conv`, `cmd`, `wnd`, `ts`, `sn`, `una`, `resendts`, `rto`, `fastack` and `xmit` are
assigned, the other members (`frg`, `len`, `data`) stay. -/
def promoted_seg (conv una rto wnd current sn : Nat) (newseg : IKCPSEG) : IKCPSEG :=
  { newseg with
    conv := conv, cmd := IKCP_CMD_PUSH, wnd := wnd, ts := current
    sn := sn, una := una, resendts := current
    rto := rto, fastack := 0, xmit := 0 }

/-- The segments the promotion loop makes of the segments `l` taken from `snd_queue`
in order, numbered upwards from `sn` modulo `2^32`. -/
def promoted_list (conv una rto wnd current : Nat) : Nat → List IKCPSEG → List IKCPSEG
  | _, [] => []
  | sn, s :: rest =>
    promoted_seg conv una rto wnd current sn s ::
      promoted_list conv una rto wnd current ((sn + 1) % 4294967296) rest

/-- The number of segments the promotion loop moves: as many as `snd_queue` holds, but
no more than the window `cwnd` leaves above the `snd_nxt - snd_una` in flight. -/
def promote_count (kcp : IKCPCB) (cwnd : Nat) : Nat :=
  min kcp.snd_queue.length (cwnd - sn_offset kcp.snd_una kcp.snd_nxt)

/-- The data loop of `ikcp_flush` finds the resend deadline of the segment passed: the
segment has been transmitted before and `current - resendts >= 0`. -/
def flush_timed_out (current : Nat) (segment : IKCPSEG) : Bool :=
  decide (segment.xmit ≠ 0) && decide (_itimediff current segment.resendts ≥ 0)

/-- The data loop of `ikcp_flush` retransmits the segment fast: it has been transmitted
before, its deadline has not passed, `fastack >= resent`, and `xmit <= fastlimit` or
`fastlimit <= 0`. -/
def flush_fast (kcp : IKCPCB) (current resent : Nat) (segment : IKCPSEG) : Bool :=
  decide (segment.xmit ≠ 0) && !decide (_itimediff current segment.resendts ≥ 0) &&
    (decide (segment.fastack ≥ resent) &&
      (decide (i32 segment.xmit ≤ kcp.fastlimit) || decide (kcp.fastlimit ≤ 0)))

/-- The locals of a flush before anything has been written or counted. -/
def flush_idle : FlushState :=
  { ptr := [], outs := [], change := 0, lost := 0, xmit := 0, state := 0 }

/-- The segment as one pass of the body of the data loop leaves it: the transmission
decision, and `ts`, `wnd`, `una` stamped on a segment that is sent. -/
def flush_seg_after (kcp : IKCPCB) (current resent rtomin wnd : Nat) (segment : IKCPSEG) :
    IKCPSEG :=
  if (ikcp_flush_decide kcp current resent rtomin segment flush_idle).2.1 ≠ 0 then
    { (ikcp_flush_decide kcp current resent rtomin segment flush_idle).1 with
      ts := current, wnd := wnd, una := kcp.rcv_nxt }
  else (ikcp_flush_decide kcp current resent rtomin segment flush_idle).1

/-- The counter `change` of a flush after `n` increments (`change++` on an `int`). -/
def change_after : Nat → Int → Int
  | 0, c => c
  | n + 1, c => change_after n (i32 (c + 1))

/-- The value `ikcp_flush` gives `ssthresh` after a fast retransmission: half the
number of segments in flight, `(snd_nxt - snd_una) / 2`, but at least `IKCP_THRESH_MIN`. -/
def fast_ssthresh (kcp : IKCPCB) : Nat :=
  if u32 ((kcp.snd_nxt : Int) - kcp.snd_una) / 2 < IKCP_THRESH_MIN then IKCP_THRESH_MIN
  else u32 ((kcp.snd_nxt : Int) - kcp.snd_una) / 2

/-! ## Scenarios for the congestion adjustments of a flush -/

/-- A sender with fast retransmission after 4 duplicate acknowledgements and the send
window not limited by `cwnd`, with two one-byte messages sent by its first
`ikcp_update`, after four datagrams that each acknowledge segment 1 (`una = 0`): segment
0 is in flight with `fastack = 4`. -/
def kcpDupAcked : IKCPCB :=
  (ikcp_input (ikcp_input (ikcp_input (ikcp_input
    (ikcp_update
      (ikcp_send (ikcp_send (ikcp_nodelay (ikcp_create 1) 0 (-1) 4 1).2 [1] 1).2 [2] 1).2 0).1
    (some ackOne)).2 (some ackOne)).2 (some ackOne)).2 (some ackOne)).2

/-- A default sender whose single segment was sent at time 100 and has not been
acknowledged, with the clock at 1400: the resend deadline (325) has passed. -/
def kcpOverdue : IKCPCB := { kcpLossy 2 with current := 1400 }

/-- All bytes a flush has produced so far, in order: the datagrams already passed to
the output callback and the bytes between `buffer` and `ptr`. -/
def flush_bytes (st : FlushState) : List Nat := st.outs.flatten ++ st.ptr

/-- The transmission rule of spec section 4.4 for one segment of `snd_buf`, in the
words of the specification: the segment afterwards and whether it is emitted. Sums are
taken modulo `2^32`; `wnd` is the free receive window. -/
def transmit_spec (kcp : IKCPCB) (wnd : Nat) (segment : IKCPSEG) : IKCPSEG × Bool :=
  if segment.xmit = 0 then
    ({ segment with
        xmit := 1
        rto := kcp.rx_rto.toNat
        resendts := (kcp.current + kcp.rx_rto.toNat +
          (if kcp.nodelay = 0 then kcp.rx_rto.toNat / 8 else 0)) % 4294967296
        ts := kcp.current, wnd := wnd, una := kcp.rcv_nxt }, true)
  else if _itimediff kcp.current segment.resendts ≥ 0 then
    ({ segment with
        xmit := (segment.xmit + 1) % 4294967296
        rto :=
          (if kcp.nodelay = 0 then segment.rto + max segment.rto kcp.rx_rto.toNat
            else if kcp.nodelay = 1 then segment.rto + segment.rto / 2
            else segment.rto + kcp.rx_rto.toNat / 2) % 4294967296
        resendts := (kcp.current +
          (if kcp.nodelay = 0 then segment.rto + max segment.rto kcp.rx_rto.toNat
            else if kcp.nodelay = 1 then segment.rto + segment.rto / 2
            else segment.rto + kcp.rx_rto.toNat / 2) % 4294967296) % 4294967296
        ts := kcp.current, wnd := wnd, una := kcp.rcv_nxt }, true)
  else if 0 < kcp.fastresend ∧ (segment.fastack : Int) ≥ kcp.fastresend ∧
      ((segment.xmit : Int) ≤ kcp.fastlimit ∨ kcp.fastlimit ≤ 0) then
    ({ segment with
        xmit := (segment.xmit + 1) % 4294967296
        fastack := 0
        resendts := (kcp.current + segment.rto) % 4294967296
        ts := kcp.current, wnd := wnd, una := kcp.rcv_nxt }, true)
  else (segment, false)

/-- The locals of a flush after the acknowledgement loop and the window-probe
commands, before the promotion loop and the data loop. -/
def flush_control (kcp : IKCPCB) : FlushState :=
  ikcp_flush_cmds (ikcp_flush_probe { kcp with ackcount := 0 })
    (ikcp_flush_acks kcp (i32 kcp.ackcount) (i32 kcp.ackcount).toNat 0 (ikcp_flush_seg kcp)
      { ptr := [], outs := [], change := 0, lost := 0, xmit := kcp.xmit, state := kcp.state })

/-- The counters of the send side: `nsnd_que` is the length of `snd_queue` and
`nsnd_buf` the length of `snd_buf`, as `IUINT32` values. -/
def CountInv (kcp : IKCPCB) : Prop :=
  kcp.nsnd_que = kcp.snd_queue.length % 4294967296 ∧
  kcp.nsnd_buf = kcp.snd_buf.length % 4294967296

/-- The members `CountInv` reads. -/
def cnt_part (kcp : IKCPCB) : Nat × Nat × List IKCPSEG × List IKCPSEG :=
  (kcp.nsnd_que, kcp.nsnd_buf, kcp.snd_queue, kcp.snd_buf)

/-- A default sender after three one-byte sends and its first `ikcp_update`: the three
segments wait in `snd_queue` and the congestion window has been raised to 1. -/
def kcpThreeQueued : IKCPCB :=
  (ikcp_update (ikcp_send (ikcp_send (ikcp_send (ikcp_create 1) [1] 1).2 [2] 1).2 [3] 1).2 0).1

/-- The members the congestion window update of `ikcp_input` reads besides the cursors:
`cwnd`, `incr`, `ssthresh`, `mss`. -/
def cong_part (kcp : IKCPCB) : Nat × Nat × Nat × Nat :=
  (kcp.cwnd, kcp.incr, kcp.ssthresh, kcp.mss)

/-- The growth of the congestion window on an acknowledgement in the words of spec
section 4.8, over the natural numbers and before the clamp: `cwnd` and `incr`
afterwards. -/
def cwnd_growth_spec (cwnd incr ssthresh mss : Nat) : Nat × Nat :=
  if cwnd < ssthresh then (cwnd + 1, incr + mss)
  else
    let incr0 := max incr mss
    let incr1 := incr0 + (mss * mss / incr0 + mss / 16)
    if (cwnd + 1) * mss ≤ incr1 then ((incr1 + mss - 1) / max mss 1, incr1)
    else (cwnd, incr1)

/-- A default sender whose single segment is in flight (`cwnd = 1`, `incr = 1376`) and
whose MTU is then lowered to 50 bytes (`mss = 26`). -/
def kcpMtuCut : IKCPCB := (ikcp_setmtu (kcpLossy 2) 50).2

/-- The bytes of an ACK record for sequence number 0 with `una = 1` that advertises a
window of two segments. -/
def ackZeroWnd2 : List Nat := record_bytes { ackOneRecord with sn := 0, una := 1, wnd := 2 }

/-- The bytes of a record whose `cmd` field (0) is none of the four commands. -/
def badCmdRecord : List Nat := record_bytes { ackOneRecord with cmd := 0, sn := 0, una := 1 }

/-- The sender `kcpThreeQueued` after a second `ikcp_update` at time 100: segment 0 is
in flight, two segments wait in `snd_queue`, `cwnd = 1` and `incr = 1376`. -/
def kcpFirstFlight : IKCPCB := (ikcp_update kcpThreeQueued 100).1

/-- The bytes of an ACK record for sequence number 0 with `una = 1` and `wnd = 128`. -/
def ackZero : List Nat := record_bytes { ackOneRecord with sn := 0, una := 1 }

/-- The segments of `snd_buf` that a record with the fields of `r` leaves, in the words
of the specification: the segments with `sn < una` (in signed order) go; for an ACK
whose `sn` lies in `[snd_una, snd_nxt)`, with `snd_una` as the first step left it, the
segment with that `sn` goes as well. -/
def ack_removal_spec (snd_nxt : Nat) (buf : List IKCPSEG) (r : IKCPSEG) : List IKCPSEG :=
  let buf1 := buf.filter (fun s => !decide (_itimediff r.una s.sn > 0))
  let una1 := match buf1 with
    | s :: _ => s.sn
    | [] => snd_nxt
  if r.cmd = IKCP_CMD_ACK ∧ _itimediff r.sn una1 ≥ 0 ∧ _itimediff r.sn snd_nxt < 0 then
    buf1.filter (fun s => decide (s.sn ≠ r.sn))
  else buf1

/-- A WINS record whose `una` field is `2^31`. -/
def winsFarUna : IKCPSEG :=
  { ackOneRecord with cmd := IKCP_CMD_WINS, sn := 0, una := 2147483648 }

/-- The sequence numbers of the ACK records among `recs`, in the order of arrival. -/
def ack_sns (recs : List IKCPSEG) : List Nat :=
  (recs.filter (fun r => decide (r.cmd = IKCP_CMD_ACK))).map (fun r => r.sn)

/-- The later of two sequence numbers in signed order: `y` when it is ahead of `m`. -/
def ack_later (m y : Nat) : Nat := if _itimediff y m > 0 then y else m

/-- The maximum of the acknowledged sequence numbers in signed order, if there are any. -/
def ack_max : List Nat → Option Nat
  | [] => none
  | x :: xs => some (xs.foldl ack_later x)

/-- Fast-ack accounting in the words of the specification, for the segments `buf` that
remain in `snd_buf`: with `m` the maximum acknowledged `sn` of the call, when `m` lies in
`[snd_una, snd_nxt)`, every segment with `sn < m` has `fastack` incremented once. -/
def fastack_spec (snd_una snd_nxt : Nat) (acks : List Nat) (buf : List IKCPSEG) :
    List IKCPSEG :=
  match ack_max acks with
  | none => buf
  | some m =>
    if _itimediff m snd_una ≥ 0 ∧ _itimediff m snd_nxt < 0 then
      buf.map (fun s =>
        if _itimediff m s.sn > 0 then { s with fastack := (s.fastack + 1) % 4294967296 }
        else s)
    else buf

/-- An ACK record for sequence number 5, which `kcpTwoInFlight` has not sent. -/
def ackUnsent : IKCPSEG := { ackOneRecord with sn := 5, una := 0 }

/-- A sender with congestion control off and three one-byte messages in flight (sequence
numbers 0, 1, 2) after its first `ikcp_update`. -/
def kcpThreeInFlight : IKCPCB :=
  (ikcp_update
    (ikcp_send (ikcp_send (ikcp_send (ikcp_nodelay (ikcp_create 1) 0 (-1) 0 1).2 [1] 1).2
      [2] 1).2 [3] 1).2 0).1

/-- Two ACK records, for the sequence numbers 1 and 2 (`una = 0`). -/
def acksOneTwo : List IKCPSEG := [ackOneRecord, { ackOneRecord with sn := 2 }]

/-- The segment the PUSH branch of `ikcp_input` allocates for a record with the header
`hdr` whose payload starts at `payload` (ikcp.c lines 896-907). -/
def pushed_seg (hdr : IKCPSEG) (payload : List Nat) : IKCPSEG :=
  { ikcp_segment_new hdr.len with
    conv := hdr.conv, cmd := hdr.cmd, frg := hdr.frg, wnd := hdr.wnd, ts := hdr.ts,
    sn := hdr.sn, una := hdr.una, len := hdr.len
    data := if hdr.len > 0 then payload.take hdr.len else (ikcp_segment_new hdr.len).data }

/-- The members of the acknowledgement list: `acklist` and `ackcount`. -/
def ack_part (kcp : IKCPCB) : List (Nat × Nat) × Nat := (kcp.acklist, kcp.ackcount)

/-! ## A pair of control blocks joined by a network (eventual delivery) -/

/-- The clock fields of a control block: `current`, `interval`, `ts_flush`, `updated`. -/
def clk_part (kcp : IKCPCB) : Nat × Nat × Nat × Nat :=
  (kcp.current, kcp.interval, kcp.ts_flush, kcp.updated)

/-- The pending signals of a control block: the `probe` flags, the probe timer
(`probe_wait`, `ts_probe`) and the ack list with its count. -/
def sig_part (kcp : IKCPCB) : Nat × Nat × Nat × List (Nat × Nat) × Nat :=
  (kcp.probe, kcp.probe_wait, kcp.ts_probe, kcp.acklist, kcp.ackcount)

/-- A control block whose first update ran at time 10000 (so `ts_flush = 10100`) and
which then queued a one-byte message. -/
def kcpBackStep : IKCPCB := (ikcp_send (ikcp_update (ikcp_create 1) 10000).1 [7] 1).2

/-- Invariant of the pending signals: `probe` holds at most the flag `IKCP_ASK_TELL`
between two calls, `probe_wait` is 0 or within the probe limits, the ack list has at
least `ackcount` entries and its entries are 32-bit values. -/
def SigInv (kcp : IKCPCB) : Prop :=
  (kcp.probe = 0 ∨ kcp.probe = IKCP_ASK_TELL) ∧
  (kcp.probe_wait = 0 ∨
    (IKCP_PROBE_INIT ≤ kcp.probe_wait ∧ kcp.probe_wait ≤ IKCP_PROBE_LIMIT)) ∧
  kcp.ackcount ≤ kcp.acklist.length ∧
  ∀ a ∈ kcp.acklist, a.1 < 4294967296 ∧ a.2 < 4294967296

/-- The local `seg` of `ikcp_flush` after `ikcp_ack_get` has stored the pair `a` in its
`sn` and `ts`. -/
def ack_seg (seg : IKCPSEG) (a : Nat × Nat) : IKCPSEG := { seg with sn := a.1, ts := a.2 }

/-- The ACK record of a flush for the pending ack-list entry `a = (sn, ts)`, in the
words of the specification, with the free window `max(0, rcv_wnd - nrcv_que)` reduced
to the 16 bits of the `wnd` field. -/
def ack_record_spec (kcp : IKCPCB) (a : Nat × Nat) : IKCPSEG :=
  { conv := kcp.conv, cmd := 82, frg := 0, wnd := (kcp.rcv_wnd - kcp.nrcv_que) % 65536,
    ts := a.2, sn := a.1, una := kcp.rcv_nxt, len := 0, resendts := 0, rto := 0,
    fastack := 0, xmit := 0, data := [] }

/-- A receiver that was updated once and has then taken in the PUSH datagrams with
sequence numbers 1 and 0: the pairs `(1, 0)` and `(0, 0)` wait in the ack list. -/
def kcpAckPending : IKCPCB :=
  (ikcp_input (ikcp_input (ikcp_update (ikcp_create 1) 0).1 (some (pushDatagram 1 1 [6]))).2
    (some (pushDatagram 1 0 [7]))).2

/-- A receiver with `ikcp_wndsize(kcp, 0, 65537)` that was updated once and has then
taken in the PUSH datagram with sequence number 0: one ack is pending and 65536 of the
65537 slots of the receive window are free. -/
def kcpWideRcv : IKCPCB :=
  (ikcp_input (ikcp_update (ikcp_wndsize (ikcp_create 1) 0 65537).2 0).1
    (some (pushDatagram 1 0 [7]))).2

/-- The probe interval after `n` window probes in the words of the specification:
7000 ms at first, multiplied by 1.5 with every probe and capped at 120000 ms. -/
def probe_wait_spec : Nat → Nat
  | 0 => 7000
  | n + 1 => min 120000 (probe_wait_spec n + probe_wait_spec n / 2)

/-- The bytes of a WINS record that advertises a window of zero segments. -/
def winsZero : List Nat :=
  record_bytes { ackOneRecord with cmd := IKCP_CMD_WINS, sn := 0, una := 0, wnd := 0 }

/-- A fresh control block after one update, the input of `winsZero` (so `rmt_wnd = 0`)
and an update at time 100, which arms the probe timer (`probe_wait = 7000`,
`ts_probe = 7100`). -/
def kcpZeroWnd : IKCPCB :=
  (ikcp_update (ikcp_input (ikcp_update (ikcp_create 1) 0).1 (some winsZero)).2 100).1

/-- The control block `kcpZeroWnd` after an update at time 7090, which flushes before
the probe timer expires and moves `ts_flush` to 7190, and an update at time 7150, which
only records the time: `current = 7150` is past `ts_probe = 7100` and no flush has run
since. -/
def kcpProbeDue : IKCPCB := (ikcp_update (ikcp_update kcpZeroWnd 7090).1 7150).1

/-! ## The buffer of the flush and scenarios of the window bound -/

/-- The size of the buffer that `ikcp_create` and `ikcp_setmtu` allocate for the flush,
`(mtu + IKCP_OVERHEAD) * 3` in `IUINT32` arithmetic. The model of the flush keeps the
buffer as a list; the statements about emitted bytes assume that every record fits this
size. -/
def flush_capacity (kcp : IKCPCB) : Nat := ((kcp.mtu + IKCP_OVERHEAD) * 3) % 4294967296

/-- The bytes in the buffer and every datagram passed to the callback so far are at
most `cap` bytes long. -/
def FlushCap (cap : Nat) (st : FlushState) : Prop :=
  st.ptr.length ≤ cap ∧ ∀ d ∈ st.outs, d.length ≤ cap

/-- A sender that queued one segment of 1000 bytes, lowered `mtu` to 50 with
`ikcp_setmtu` (the buffer of the flush then has 222 bytes) and was updated once. -/
def kcpOver : IKCPCB :=
  (ikcp_update (ikcp_setmtu (ikcp_send (ikcp_create 1) (List.replicate 1000 7) 1000).2 50).2
    0).1

/-- The congestion window and the advertised window of the peer. -/
def win_part (kcp : IKCPCB) : Nat × Nat := (kcp.cwnd, kcp.rmt_wnd)

/-- The bytes of an ACK record for `sn = 1` (`una = 0`) that advertises a window of
one segment. -/
def ackNarrow : List Nat := record_bytes { ackOneRecord with wnd := 1 }

/-- A sender with `ikcp_nodelay(kcp, 0, -1, 4, 1)` that has two one-byte segments in
flight and has received four times the ACK `ackNarrow`: segment 1 is acknowledged,
segment 0 has `fastack = 4`, and `cwnd = 1 = rmt_wnd`. -/
def kcpDupNarrow : IKCPCB :=
  (ikcp_input (ikcp_input (ikcp_input (ikcp_input
    (ikcp_update
      (ikcp_send (ikcp_send (ikcp_nodelay (ikcp_create 1) 0 (-1) 4 1).2 [1] 1).2 [2] 1).2 0).1
    (some ackNarrow)).2 (some ackNarrow)).2 (some ackNarrow)).2 (some ackNarrow)).2

/-! ## Two control blocks and the network between them, with any number of messages (C21) -/

/-- The settings of a control block that no call but a setter changes: `stream`,
`rcv_wnd`, `snd_wnd` and `nocwnd`. -/
def cfg_part (kcp : IKCPCB) : Int × Nat × Nat × Int :=
  (kcp.stream, kcp.rcv_wnd, kcp.snd_wnd, kcp.nocwnd)

theorem enc_dec32u (p : List Nat) (hlen : 4 ≤ p.length) (hb : ∀ b ∈ p, b < 256) :
    ikcp_encode32u (ikcp_decode32u p).1 = p.take 4 := by
  rcases p with _ | ⟨a, _ | ⟨b, _ | ⟨c, _ | ⟨d, r⟩⟩⟩⟩ <;> simp at hlen
  have ha := hb a (by simp)
  have hb' := hb b (by simp)
  have hc := hb c (by simp)
  have hd := hb d (by simp)
  simp only [ikcp_encode32u, ikcp_decode32u, List.getD_cons_zero, List.getD_cons_succ,
    List.take_succ_cons, List.take_zero]
  refine congrArg₂ _ (by omega) (congrArg₂ _ (by omega) (congrArg₂ _ (by omega)
    (congrArg₂ _ (by omega) rfl)))

theorem enc_dec16u (p : List Nat) (hlen : 2 ≤ p.length) (hb : ∀ b ∈ p, b < 256) :
    ikcp_encode16u (u16 (ikcp_decode16u p).1) = p.take 2 := by
  rcases p with _ | ⟨a, _ | ⟨b, r⟩⟩ <;> simp at hlen
  have ha := hb a (by simp)
  have hb' := hb b (by simp)
  simp only [ikcp_encode16u, ikcp_decode16u, u16, List.getD_cons_zero, List.getD_cons_succ,
    List.take_succ_cons, List.take_zero]
  refine congrArg₂ _ (by omega) (congrArg₂ _ (by omega) rfl)

theorem enc_dec8u (p : List Nat) (hlen : 1 ≤ p.length) (hb : ∀ b ∈ p, b < 256) :
    ikcp_encode8u (u8 (ikcp_decode8u p).1) = p.take 1 := by
  rcases p with _ | ⟨a, r⟩ <;> simp at hlen
  have ha := hb a (by simp)
  simp only [ikcp_encode8u, ikcp_decode8u, u8, List.getD_cons_zero, List.take_succ_cons,
    List.take_zero]
  refine congrArg₂ _ (by omega) rfl

theorem dec_enc32u (l : Nat) (r : List Nat) (hl : l < 4294967296) :
    ikcp_decode32u (ikcp_encode32u l ++ r) = (l, r) := by
  simp only [ikcp_encode32u, ikcp_decode32u, List.cons_append, List.nil_append,
    List.getD_cons_zero, List.getD_cons_succ, List.drop_succ_cons, List.drop_zero]
  refine Prod.ext ?_ rfl
  show _ % 4294967296 = l
  omega

theorem dec_enc16u (w : Nat) (r : List Nat) (hw : w < 65536) :
    ikcp_decode16u (ikcp_encode16u w ++ r) = (w, r) := by
  simp only [ikcp_encode16u, ikcp_decode16u, List.cons_append, List.nil_append,
    List.getD_cons_zero, List.getD_cons_succ, List.drop_succ_cons, List.drop_zero]
  refine Prod.ext ?_ rfl
  show _ % 65536 = w
  omega

theorem dec_enc8u (c : Nat) (r : List Nat) (hc : c < 256) :
    ikcp_decode8u (ikcp_encode8u c ++ r) = (c, r) := by
  simp only [ikcp_encode8u, ikcp_decode8u, List.cons_append, List.nil_append,
    List.getD_cons_zero, List.drop_succ_cons, List.drop_zero]
  refine Prod.ext ?_ rfl
  show _ % 256 = c
  omega

theorem ikcp_encode_seg_length (seg : IKCPSEG) : (ikcp_encode_seg seg).length = 24 := by
  simp [ikcp_encode_seg, ikcp_encode32u, ikcp_encode16u, ikcp_encode8u]

/-- Decoding the header that `ikcp_encode_seg` wrote, followed by any bytes `r`. -/
theorem ikcp_decode_encode_seg (seg : IKCPSEG) (r : List Nat)
    (hconv : seg.conv < 4294967296) (hcmd : seg.cmd < 256) (hfrg : seg.frg < 256)
    (hwnd : seg.wnd < 65536) (hts : seg.ts < 4294967296) (hsn : seg.sn < 4294967296)
    (huna : seg.una < 4294967296) (hlen : seg.len < 4294967296) :
    ikcp_decode_seg (ikcp_encode_seg seg ++ r) =
      ({ ikcp_segment_new 0 with
         conv := seg.conv, cmd := seg.cmd, frg := seg.frg, wnd := seg.wnd, ts := seg.ts,
         sn := seg.sn, una := seg.una, len := seg.len }, r) := by
  have h8c : u8 seg.cmd = seg.cmd := Nat.mod_eq_of_lt hcmd
  have h8f : u8 seg.frg = seg.frg := Nat.mod_eq_of_lt hfrg
  have h16 : u16 seg.wnd = seg.wnd := Nat.mod_eq_of_lt hwnd
  simp only [ikcp_decode_seg, ikcp_encode_seg, List.append_assoc, h8c, h8f, h16,
    dec_enc32u _ _ hconv, dec_enc8u _ _ hcmd, dec_enc8u _ _ hfrg, dec_enc16u _ _ hwnd,
    dec_enc32u _ _ hts, dec_enc32u _ _ hsn, dec_enc32u _ _ huna, dec_enc32u _ _ hlen]

theorem ikcp_encode_decode_seg (h : List Nat) (hlen : h.length = 24)
    (hb : ∀ b ∈ h, b < 256) : ikcp_encode_seg (ikcp_decode_seg h).1 = h := by
  have hd : ∀ n, ∀ b ∈ h.drop n, b < 256 := fun n b hm => hb b (List.mem_of_mem_drop hm)
  simp only [ikcp_decode_seg, ikcp_encode_seg, ikcp_decode32u, ikcp_decode16u, ikcp_decode8u,
    List.drop_drop]
  have e1 := enc_dec32u h (by omega) hb
  have e2 := enc_dec8u (h.drop 4) (by simp; omega) (hd 4)
  have e3 := enc_dec8u (h.drop 5) (by simp; omega) (hd 5)
  have e4 := enc_dec16u (h.drop 6) (by simp; omega) (hd 6)
  have e5 := enc_dec32u (h.drop 8) (by simp; omega) (hd 8)
  have e6 := enc_dec32u (h.drop 12) (by simp; omega) (hd 12)
  have e7 := enc_dec32u (h.drop 16) (by simp; omega) (hd 16)
  have e8 := enc_dec32u (h.drop 20) (by simp; omega) (hd 20)
  simp only [ikcp_decode32u, ikcp_decode16u, ikcp_decode8u] at e1 e2 e3 e4 e5 e6 e7 e8
  simp only [Nat.reduceAdd] 
  rw [e1, e2, e3, e4, e5, e6, e7, e8]
  have s8 : (h.drop 20).take 4 = h.drop 20 := List.take_of_length_le (by simp; omega)
  have s7 : (h.drop 16).take 4 ++ h.drop 20 = h.drop 16 := by
    simpa [List.drop_drop] using List.take_append_drop 4 (h.drop 16)
  have s6 : (h.drop 12).take 4 ++ h.drop 16 = h.drop 12 := by
    simpa [List.drop_drop] using List.take_append_drop 4 (h.drop 12)
  have s5 : (h.drop 8).take 4 ++ h.drop 12 = h.drop 8 := by
    simpa [List.drop_drop] using List.take_append_drop 4 (h.drop 8)
  have s4 : (h.drop 6).take 2 ++ h.drop 8 = h.drop 6 := by
    simpa [List.drop_drop] using List.take_append_drop 2 (h.drop 6)
  have s3 : (h.drop 5).take 1 ++ h.drop 6 = h.drop 5 := by
    simpa [List.drop_drop] using List.take_append_drop 1 (h.drop 5)
  have s2 : (h.drop 4).take 1 ++ h.drop 5 = h.drop 4 := by
    simpa [List.drop_drop] using List.take_append_drop 1 (h.drop 4)
  simp only [List.append_assoc, s8, s7, s6, s5, s4, s3, s2, List.take_append_drop]

/-- C3: the header codec is a bijection on 24-byte headers. Decoding the eight fields
of any 24-byte string with the decoders of `ikcp_input` and encoding them again with
`ikcp_encode_seg` gives the string back; and for a segment whose fields fit their wire
widths, `ikcp_encode_seg` writes 24 bytes that decode to the same eight fields, and
`ikcp_getconv` of those bytes is `conv`. -/
theorem C3_header_codec_bijection (h : List Nat) (seg : IKCPSEG)
    (hlen : h.length = 24) (hb : ∀ b ∈ h, b < 256)
    (hconv : seg.conv < 4294967296) (hcmd : seg.cmd < 256) (hfrg : seg.frg < 256)
    (hwnd : seg.wnd < 65536) (hts : seg.ts < 4294967296) (hsn : seg.sn < 4294967296)
    (huna : seg.una < 4294967296) (hslen : seg.len < 4294967296) :
    ikcp_encode_seg (ikcp_decode_seg h).1 = h ∧
    (ikcp_encode_seg seg).length = 24 ∧
    (ikcp_decode_seg (ikcp_encode_seg seg)).1.conv = seg.conv ∧
    (ikcp_decode_seg (ikcp_encode_seg seg)).1.cmd = seg.cmd ∧
    (ikcp_decode_seg (ikcp_encode_seg seg)).1.frg = seg.frg ∧
    (ikcp_decode_seg (ikcp_encode_seg seg)).1.wnd = seg.wnd ∧
    (ikcp_decode_seg (ikcp_encode_seg seg)).1.ts = seg.ts ∧
    (ikcp_decode_seg (ikcp_encode_seg seg)).1.sn = seg.sn ∧
    (ikcp_decode_seg (ikcp_encode_seg seg)).1.una = seg.una ∧
    (ikcp_decode_seg (ikcp_encode_seg seg)).1.len = seg.len ∧
    ikcp_getconv (ikcp_encode_seg seg) = seg.conv := by
  have hd := ikcp_decode_encode_seg seg [] hconv hcmd hfrg hwnd hts hsn huna hslen
  rw [List.append_nil] at hd
  refine ⟨ikcp_encode_decode_seg h hlen hb, ikcp_encode_seg_length seg, ?_, ?_, ?_, ?_, ?_,
    ?_, ?_, ?_, ?_⟩
  all_goals first
    | (rw [hd])
    | (have hc := dec_enc32u seg.conv
        (ikcp_encode8u (u8 seg.cmd) ++ (ikcp_encode8u (u8 seg.frg) ++
          (ikcp_encode16u (u16 seg.wnd) ++ (ikcp_encode32u seg.ts ++ (ikcp_encode32u seg.sn ++
            (ikcp_encode32u seg.una ++ ikcp_encode32u seg.len)))))) hconv
       simp only [ikcp_getconv, ikcp_encode_seg, List.append_assoc, hc])

theorem C3_header_codec_bijection_witness :
    ikcp_encode_seg (ikcp_decode_seg sampleHeader).1 = sampleHeader ∧
    (ikcp_encode_seg sampleSeg).length = 24 ∧
    (ikcp_decode_seg (ikcp_encode_seg sampleSeg)).1.conv = sampleSeg.conv ∧
    (ikcp_decode_seg (ikcp_encode_seg sampleSeg)).1.cmd = sampleSeg.cmd ∧
    (ikcp_decode_seg (ikcp_encode_seg sampleSeg)).1.frg = sampleSeg.frg ∧
    (ikcp_decode_seg (ikcp_encode_seg sampleSeg)).1.wnd = sampleSeg.wnd ∧
    (ikcp_decode_seg (ikcp_encode_seg sampleSeg)).1.ts = sampleSeg.ts ∧
    (ikcp_decode_seg (ikcp_encode_seg sampleSeg)).1.sn = sampleSeg.sn ∧
    (ikcp_decode_seg (ikcp_encode_seg sampleSeg)).1.una = sampleSeg.una ∧
    (ikcp_decode_seg (ikcp_encode_seg sampleSeg)).1.len = sampleSeg.len ∧
    ikcp_getconv (ikcp_encode_seg sampleSeg) = sampleSeg.conv :=
  C3_header_codec_bijection sampleHeader sampleSeg (by decide) (by decide) (by decide)
    (by decide) (by decide) (by decide) (by decide) (by decide) (by decide) (by decide)

/-! ## Machine arithmetic lemmas -/

theorem i32_of_lt (x : Int) (h0 : 0 ≤ x) (h1 : x < 2147483648) : i32 x = x := by
  unfold i32; split <;> omega

theorem u32_of_lt (x : Int) (h0 : 0 ≤ x) (h1 : x < 4294967296) : u32 x = x.toNat := by
  unfold u32; omega

theorem u32_natCast (n : Nat) (h1 : n < 4294967296) : u32 (n : Int) = n := by
  unfold u32; omega

/-! ## ikcp_send in message mode -/

theorem fragments_length (mss : Nat) (n : Nat) (buffer : List Nat) :
    (fragments mss n buffer).length = n := by
  induction n generalizing buffer with
  | zero => rfl
  | succ n ih => simp [fragments, ih]

theorem fragments_frg (mss : Nat) (n : Nat) (buffer : List Nat) :
    (fragments mss n buffer).map (fun s => s.frg) = (List.range n).reverse := by
  induction n generalizing buffer with
  | zero => rfl
  | succ n ih => simp [fragments, ih, List.range_succ]

theorem fragments_len (mss : Nat) (n : Nat) (buffer : List Nat) :
    ∀ s ∈ fragments mss n buffer, s.len = s.data.length ∧ s.len ≤ mss := by
  induction n generalizing buffer with
  | zero => simp [fragments]
  | succ n ih =>
    intro s hs
    simp only [fragments, List.mem_cons] at hs
    rcases hs with rfl | hs
    · simp [List.length_take]
    · exact ih _ s hs

theorem fragments_join (mss : Nat) (n : Nat) (buffer : List Nat)
    (h : buffer.length ≤ n * mss) :
    ((fragments mss n buffer).map (fun s => s.data)).flatten = buffer := by
  induction n generalizing buffer with
  | zero =>
    have : buffer = [] := List.eq_nil_of_length_eq_zero (by omega)
    simp [fragments, this]
  | succ n ih =>
    have hl : (buffer.drop mss).length ≤ n * mss := by
      simp only [List.length_drop]
      have : (n + 1) * mss = n * mss + mss := by ring
      omega
    simp [fragments, ih _ hl]

theorem fragments_full (mss : Nat) (n : Nat) (buffer : List Nat)
    (h : n * mss < buffer.length + mss) :
    ∀ s ∈ (fragments mss n buffer).dropLast, s.len = mss ∧ s.data.length = mss := by
  induction n generalizing buffer with
  | zero => simp [fragments]
  | succ n ih =>
    intro s hs
    cases n with
    | zero => simp [fragments] at hs
    | succ m =>
      have e : (m + 1 + 1) * mss = (m + 1) * mss + mss := by ring
      have e2 : (m + 1) * mss = m * mss + mss := by ring
      rw [fragments] at hs
      have hne : fragments mss (m + 1) (buffer.drop mss) ≠ [] := by simp [fragments]
      rw [List.dropLast_cons_of_ne_nil hne] at hs
      rcases List.mem_cons.mp hs with rfl | hs
      · have : mss ≤ buffer.length := by
          have : 0 ≤ m * mss := Nat.zero_le _
          omega
        simp [List.length_take, this]
      · refine ih (buffer.drop mss) ?_ s hs
        simp only [List.length_drop]
        omega

theorem ikcp_send_loop_message (count : Int) (fuel : Nat) :
    ∀ (i : Int) (kcp : IKCPCB) (buffer : List Nat) (len : Int),
    kcp.stream = 0 → 0 < kcp.mss → kcp.mss < 2147483648 →
    count = i + fuel → 0 ≤ i → count < 4294967296 →
    len = buffer.length →
    (fuel * kcp.mss < buffer.length + kcp.mss ∨ fuel ≤ 1) →
    buffer.length ≤ fuel * kcp.mss →
    ikcp_send_loop count fuel i kcp buffer len =
      { kcp with
        snd_queue := kcp.snd_queue ++ fragments kcp.mss fuel buffer
        nsnd_que := if fuel = 0 then kcp.nsnd_que else (kcp.nsnd_que + fuel) % 4294967296 } := by
  induction fuel with
  | zero =>
    intro i kcp buffer len _ _ _ _ _ _ _ _ _
    simp [ikcp_send_loop, fragments]
  | succ n ih =>
    intro i kcp buffer len hs hm0 hm1 hc hi hcount hlen hlo hhi
    have e : (n + 1) * kcp.mss = n * kcp.mss + kcp.mss := by ring
    have hic : i < count := by omega
    have hmss : i32 (kcp.mss : Int) = kcp.mss := i32_of_lt _ (by omega) (by omega)
    have hfrg : u32 (count - i - 1) = n := by
      have : count - i - 1 = (n : Int) := by omega
      rw [this]; exact u32_natCast n (by omega)
    rw [ikcp_send_loop]
    simp only [hic, if_true, hmss, hfrg]
    by_cases hbig : len > (kcp.mss : Int)
    · -- a full fragment
      have hL : kcp.mss < buffer.length := by omega
      simp only [hbig, if_true, Int.toNat_ofNat]
      have hpos : len > 0 := by omega
      have hn : n ≠ 0 := by
        intro h0; subst h0; omega
      refine (ih (i + 1) _ (buffer.drop kcp.mss) (len - kcp.mss) ?_ ?_ ?_ ?_ ?_
        hcount ?_ ?_ ?_).trans ?_
      · exact hs
      · exact hm0
      · exact hm1
      · omega
      · omega
      · simp only [List.length_drop]; omega
      · simp only [List.length_drop]; left; show n * kcp.mss < _; omega
      · simp only [List.length_drop]; show _ ≤ n * kcp.mss; omega
      simp only [hs, hpos, if_true, hn, if_false, fragments, ikcp_segment_new, List.append_assoc,
        List.singleton_append, u32_natCast kcp.mss (by omega), List.length_take,
        Nat.min_eq_left (Nat.le_of_lt hL), Nat.succ_ne_zero]
      have hq : ((kcp.nsnd_que + 1) % 4294967296 + n) % 4294967296 =
          (kcp.nsnd_que + (n + 1)) % 4294967296 := by omega
      rw [hq]
    · -- the last fragment
      have hL : buffer.length ≤ kcp.mss := by omega
      have hn : n = 0 := by
        rcases hlo with h | h
        · have : n * kcp.mss < kcp.mss := by omega
          by_contra hne
          have : kcp.mss ≤ n * kcp.mss := Nat.le_mul_of_pos_left _ (Nat.pos_of_ne_zero hne)
          omega
        · omega
      subst hn
      have htake : buffer.take kcp.mss = buffer := List.take_of_length_le hL
      have hdata : (if len > 0 then buffer.take len.toNat
          else (ikcp_segment_new len.toNat).data) = buffer := by
        by_cases hp : len > 0
        · simp only [hp, if_true]
          exact List.take_of_length_le (by omega)
        · have h0 : buffer.length = 0 := by omega
          have hb : buffer = [] := List.eq_nil_of_length_eq_zero h0
          have hl0 : len = 0 := by omega
          simp [hp, hb, hl0, ikcp_segment_new]
      have hu : u32 len = buffer.length := by rw [hlen]; exact u32_natCast _ (by omega)
      simp only [hbig, if_false]
      simp only [hdata]
      simp only [hs, if_false, if_true, hu, ikcp_send_loop, fragments, htake, ikcp_segment_new,
        Nat.succ_ne_zero, Nat.zero_add]

theorem fragment_count_bounds (mss len : Nat) (hm0 : 0 < mss) :
    (fragment_count mss len * mss < len + mss ∨ fragment_count mss len ≤ 1) ∧
    len ≤ fragment_count mss len * mss := by
  unfold fragment_count
  have h1 := Nat.div_mul_le_self (len + mss - 1) mss
  have h2 := Nat.lt_div_mul_add (a := len + mss - 1) hm0
  rcases Nat.le_total 1 ((len + mss - 1) / mss) with h | h
  · rw [Nat.max_eq_right h]
    constructor
    · left; omega
    · omega
  · rw [Nat.max_eq_left h]
    constructor
    · right; omega
    · have h3 : (len + mss - 1) / mss * mss ≤ 1 * mss := Nat.mul_le_mul_right _ h
      omega

/-- The value `ikcp_send` computes for `count` in message mode. -/
theorem ikcp_send_message (kcp : IKCPCB) (buffer : List Nat)
    (hs : kcp.stream = 0) (hm0 : 0 < kcp.mss) (hm1 : kcp.mss < 2147483648)
    (hlen : buffer.length < 2147483648)
    (hk : fragment_count kcp.mss buffer.length < IKCP_WND_RCV) :
    ikcp_send kcp buffer buffer.length =
      (0, { kcp with
            snd_queue := kcp.snd_queue ++
              fragments kcp.mss (fragment_count kcp.mss buffer.length) buffer
            nsnd_que :=
              (kcp.nsnd_que + fragment_count kcp.mss buffer.length) % 4294967296 }) := by
  have hb := fragment_count_bounds kcp.mss buffer.length hm0
  have hk1 : 1 ≤ fragment_count kcp.mss buffer.length := by unfold fragment_count; omega
  have hw : ¬ ((fragment_count kcp.mss buffer.length : Int) ≥ i32 (IKCP_WND_RCV : Int)) := by
    have : i32 (IKCP_WND_RCV : Int) = 128 := by decide
    rw [this]
    have : fragment_count kcp.mss buffer.length < 128 := hk
    omega
  have hz : ¬ ((fragment_count kcp.mss buffer.length : Int) = 0) := by omega
  have hc0 : (fragment_count kcp.mss buffer.length : Int) = 0 + (fragment_count kcp.mss buffer.length : Nat) := by
    omega
  have hc1 : (fragment_count kcp.mss buffer.length : Int) < 4294967296 := by
    have : fragment_count kcp.mss buffer.length < 128 := hk
    omega
  have hne : fragment_count kcp.mss buffer.length ≠ 0 := by omega
  have hneg : ¬ ((buffer.length : Int) < 0) := by omega
  have hmss : i32 (kcp.mss : Int) = kcp.mss := i32_of_lt _ (by omega) (by omega)
  have hu : u32 ((buffer.length : Int) + (kcp.mss : Int) - 1) = buffer.length + kcp.mss - 1 := by
    unfold u32; omega
  have hdl : (buffer.length + kcp.mss - 1) / kcp.mss ≤ buffer.length + kcp.mss - 1 :=
    Nat.div_le_self _ _
  have hcnt : (if (buffer.length : Int) ≤ i32 (kcp.mss : Int) then (1 : Int)
      else i32 ((u32 ((buffer.length : Int) + (kcp.mss : Int) - 1) / kcp.mss : Nat) : Int)) =
      (fragment_count kcp.mss buffer.length : Nat) := by
    rw [hmss, hu]
    have h1 := Nat.div_mul_le_self (buffer.length + kcp.mss - 1) kcp.mss
    have h2 := Nat.lt_div_mul_add (a := buffer.length + kcp.mss - 1) hm0
    unfold fragment_count
    have hk' : max 1 ((buffer.length + kcp.mss - 1) / kcp.mss) < 128 := hk
    generalize (buffer.length + kcp.mss - 1) / kcp.mss = q at h1 h2 hdl hk' ⊢
    have hq128 : q < 128 := lt_of_le_of_lt (Nat.le_max_right 1 q) hk'
    split
    · rename_i hle
      have : q ≤ 1 := by
        by_contra hc
        have h3 : 2 * kcp.mss ≤ q * kcp.mss := Nat.mul_le_mul_right _ (by omega)
        omega
      rw [Nat.max_eq_left this]; rfl
    · rename_i hle
      have : 1 ≤ q := by
        by_contra hc
        have h3 : q = 0 := by omega
        rw [h3] at h2
        omega
      rw [Nat.max_eq_right this]
      exact i32_of_lt _ (by omega) (by omega)
  unfold ikcp_send
  simp only [hneg, if_false, hs, ne_eq, not_true_eq_false, false_and, hcnt]
  simp only [hw, if_false, hz, Int.toNat_ofNat]
  rw [ikcp_send_loop_message _ _ 0 kcp buffer buffer.length hs hm0 hm1 hc0 (le_refl 0)
    hc1 rfl hb.1 hb.2]
  simp only [hne, if_false, hs]

/-- C4: message-mode fragmentation. With `stream = 0`, a payload whose fragment count
`k = max(1, ceil(len/mss))` is accepted makes `ikcp_send` return 0 and append exactly
`k` segments to the tail of `snd_queue` (the earlier entries and all other fields
unchanged, `nsnd_que` increased by `k`), with `frg` values `k-1, ..., 0`, every
segment but the last holding exactly `mss` bytes and every segment at most `mss`, and
the payloads concatenating to the input; a zero-length send appends one empty segment
with `frg = 0`. -/
theorem C4_message_mode_fragmentation (kcp : IKCPCB) (buffer : List Nat)
    (hs : kcp.stream = 0) (hm0 : 0 < kcp.mss) (hm1 : kcp.mss < 2147483648)
    (hlen : buffer.length < 2147483648)
    (hk : fragment_count kcp.mss buffer.length < IKCP_WND_RCV) :
    ∃ segs : List IKCPSEG,
      ikcp_send kcp buffer buffer.length =
        (0, { kcp with
              snd_queue := kcp.snd_queue ++ segs
              nsnd_que :=
                (kcp.nsnd_que + fragment_count kcp.mss buffer.length) % 4294967296 }) ∧
      segs.length = fragment_count kcp.mss buffer.length ∧
      segs.map (fun s => s.frg) =
        (List.range (fragment_count kcp.mss buffer.length)).reverse ∧
      (∀ s ∈ segs.dropLast, s.len = kcp.mss ∧ s.data.length = kcp.mss) ∧
      (∀ s ∈ segs, s.len = s.data.length ∧ s.len ≤ kcp.mss) ∧
      (segs.map (fun s => s.data)).flatten = buffer ∧
      (buffer = [] → segs.map (fun s => (s.frg, s.len, s.data)) = [(0, 0, [])]) := by
  have hb := fragment_count_bounds kcp.mss buffer.length hm0
  refine ⟨fragments kcp.mss (fragment_count kcp.mss buffer.length) buffer,
    ikcp_send_message kcp buffer hs hm0 hm1 hlen hk, fragments_length _ _ _,
    fragments_frg _ _ _, ?_, fragments_len _ _ _, fragments_join _ _ _ hb.2, ?_⟩
  · rcases hb.1 with h | h
    · exact fragments_full _ _ _ h
    · have h1 : 1 ≤ fragment_count kcp.mss buffer.length := by unfold fragment_count; omega
      have h2 : fragment_count kcp.mss buffer.length = 1 := by omega
      rw [h2]
      simp [fragments]
  · intro he
    subst he
    have : fragment_count kcp.mss 0 = 1 := by
      unfold fragment_count
      have : (0 + kcp.mss - 1) / kcp.mss = 0 := Nat.div_eq_of_lt (by omega)
      rw [this]; rfl
    simp [this, fragments]

theorem C4_message_mode_fragmentation_witness :
    ∃ segs : List IKCPSEG,
      ikcp_send (ikcp_create 7) [1, 2, 3] ([1, 2, 3] : List Nat).length =
        (0, { ikcp_create 7 with
              snd_queue := (ikcp_create 7).snd_queue ++ segs
              nsnd_que :=
                ((ikcp_create 7).nsnd_que +
                  fragment_count (ikcp_create 7).mss ([1, 2, 3] : List Nat).length) %
                  4294967296 }) ∧
      segs.length = fragment_count (ikcp_create 7).mss ([1, 2, 3] : List Nat).length ∧
      segs.map (fun s => s.frg) =
        (List.range (fragment_count (ikcp_create 7).mss ([1, 2, 3] : List Nat).length)).reverse ∧
      (∀ s ∈ segs.dropLast, s.len = (ikcp_create 7).mss ∧ s.data.length = (ikcp_create 7).mss) ∧
      (∀ s ∈ segs, s.len = s.data.length ∧ s.len ≤ (ikcp_create 7).mss) ∧
      (segs.map (fun s => s.data)).flatten = [1, 2, 3] ∧
      (([1, 2, 3] : List Nat) = [] → segs.map (fun s => (s.frg, s.len, s.data)) = [(0, 0, [])]) :=
  C4_message_mode_fragmentation (ikcp_create 7) [1, 2, 3] (by decide) (by decide) (by decide)
    (by decide) (by decide)

/-! ## The return value of ikcp_send -/

theorem send_count_eq (mss L : Nat) (hm0 : 0 < mss) (hm1 : mss < 2147483648)
    (hL : L < 2147483648) :
    (if (L : Int) ≤ i32 (mss : Int) then (1 : Int)
      else i32 ((u32 ((L : Int) + (mss : Int) - 1) / mss : Nat) : Int)) =
      (fragment_count mss L : Nat) := by
  have hmss : i32 (mss : Int) = mss := i32_of_lt _ (by omega) (by omega)
  have hu : u32 ((L : Int) + (mss : Int) - 1) = L + mss - 1 := by
    unfold u32; omega
  rw [hmss, hu]
  have h1 := Nat.div_mul_le_self (L + mss - 1) mss
  have h2 := Nat.lt_div_mul_add (a := L + mss - 1) hm0
  unfold fragment_count
  generalize (L + mss - 1) / mss = q at h1 h2 ⊢
  clear hmss hu
  split
  · rename_i hle
    have : q ≤ 1 := by
      by_contra hc
      have h3 : 2 * mss ≤ q * mss := Nat.mul_le_mul_right _ (by omega)
      omega
    rw [Nat.max_eq_left this]; rfl
  · rename_i hle
    have hq1 : 1 ≤ q := by
      by_contra hc
      have h3 : q = 0 := by omega
      rw [h3] at h2
      omega
    have hqL : q ≤ L := by
      have h3 : (q - 1) * 1 ≤ (q - 1) * mss := Nat.mul_le_mul_left _ hm0
      have h4 : q * mss = (q - 1) * mss + mss := by
        have : q = (q - 1) + 1 := by omega
        conv_lhs => rw [this]
        ring
      omega
    rw [Nat.max_eq_right hq1]
    exact i32_of_lt _ (by omega) (by omega)

theorem ikcp_send_stream_len (kcp : IKCPCB) (buffer : List Nat) (len : Int)
    (h0 : 0 ≤ len) (hm1 : kcp.mss < 2147483648) (hs : kcp.stream ≠ 0) :
    (ikcp_send_stream kcp buffer len).2.2 = (send_remaining kcp len.toNat : Nat) ∧
    (ikcp_send_stream kcp buffer len).1.mss = kcp.mss := by
  unfold ikcp_send_stream send_remaining
  simp only [hs, ne_eq, not_false_eq_true, if_true]
  cases hq : kcp.snd_queue.getLast? with
  | none => exact ⟨by simp only []; omega, rfl⟩
  | some old =>
    simp only []
    by_cases hlt : old.len < kcp.mss
    · simp only [hlt, if_true]
      have hcap : i32 ((kcp.mss : Int) - old.len) = (kcp.mss : Int) - old.len :=
        i32_of_lt _ (by omega) (by omega)
      rw [hcap]
      refine ⟨?_, trivial⟩
      split <;> omega
    · simp only [hlt, if_false]; exact ⟨by omega, trivial⟩

theorem ikcp_send_ret (kcp : IKCPCB) (buffer : List Nat) (len : Int)
    (h0 : 0 ≤ len) (h1 : len < 2147483648)
    (hm0 : 0 < kcp.mss) (hm1 : kcp.mss < 2147483648) :
    (ikcp_send kcp buffer len).1 =
      if fragment_count kcp.mss (send_remaining kcp len.toNat) ≥ IKCP_WND_RCV then -2 else 0 := by
  have hw : i32 (IKCP_WND_RCV : Int) = 128 := by decide
  have hneg : ¬ (len < 0) := by omega
  have hrl : send_remaining kcp len.toNat ≤ len.toNat := by
    unfold send_remaining
    split
    · split
      · split <;> omega
      · exact le_refl _
    · exact le_refl _
  have hrl2 : send_remaining kcp len.toNat < 2147483648 := by omega
  have hcnt := send_count_eq kcp.mss (send_remaining kcp len.toNat) hm0 hm1 hrl2
  have hfc1 : 1 ≤ fragment_count kcp.mss 0 := by unfold fragment_count; omega
  have hfc0 : fragment_count kcp.mss 0 = 1 := by
    unfold fragment_count
    have : (0 + kcp.mss - 1) / kcp.mss = 0 := Nat.div_eq_of_lt (by omega)
    rw [this]; rfl
  have key : ∀ R : Nat,
      (if (fragment_count kcp.mss R : Int) ≥ 128 then ((-2 : Int), kcp).1
        else (0, kcp).1) =
      if fragment_count kcp.mss R ≥ IKCP_WND_RCV then -2 else 0 := by
    intro R
    by_cases hge : fragment_count kcp.mss R ≥ IKCP_WND_RCV
    · have : (fragment_count kcp.mss R : Int) ≥ 128 := by unfold IKCP_WND_RCV at hge; omega
      rw [if_pos hge, if_pos this]
    · have : ¬ (fragment_count kcp.mss R : Int) ≥ 128 := by unfold IKCP_WND_RCV at hge; omega
      rw [if_neg hge, if_neg this]
  unfold ikcp_send
  simp only [hneg, if_false]
  by_cases hs : kcp.stream = 0
  · have hr : send_remaining kcp len.toNat = len.toNat := by
      unfold send_remaining; simp [hs]
    rw [hr] at hcnt ⊢
    have hl : ((len.toNat : Nat) : Int) = len := Int.toNat_of_nonneg h0
    rw [hl] at hcnt
    simp only [hs, ne_eq, not_true_eq_false, false_and, if_false, hcnt, hw]
    rw [← key]
    split <;> rfl
  · have hsl := ikcp_send_stream_len kcp buffer len h0 hm1 hs
    simp only [hs, ne_eq, not_false_eq_true, true_and, if_true, hsl.1, hsl.2, hcnt, hw]
    rw [← key]
    clear hcnt
    by_cases hz : send_remaining kcp len.toNat = 0
    · rw [hz, hfc0]
      simp
    · have hz' : ¬ ((send_remaining kcp len.toNat : Int) ≤ 0) := by omega
      simp only [hz', if_false]
      split <;> rfl

/-- C5 (as amended): `ikcp_send` with `len >= 0` fails, with -2, if and only if the
required fragment count is at least the constant `IKCP_WND_RCV = 128`, whatever the
configured `rcv_wnd`; for every smaller fragment count it returns 0. -/
theorem C5_send_fails_iff_count_ge_128 (kcp : IKCPCB) (buffer : List Nat) (len : Int)
    (h0 : 0 ≤ len) (h1 : len < 2147483648)
    (hm0 : 0 < kcp.mss) (hm1 : kcp.mss < 2147483648) :
    ((ikcp_send kcp buffer len).1 < 0 ↔
      fragment_count kcp.mss (send_remaining kcp len.toNat) ≥ IKCP_WND_RCV) ∧
    ((ikcp_send kcp buffer len).1 < 0 → (ikcp_send kcp buffer len).1 = -2) ∧
    (fragment_count kcp.mss (send_remaining kcp len.toNat) < IKCP_WND_RCV →
      (ikcp_send kcp buffer len).1 = 0) := by
  rw [ikcp_send_ret kcp buffer len h0 h1 hm0 hm1]
  by_cases hge : fragment_count kcp.mss (send_remaining kcp len.toNat) ≥ IKCP_WND_RCV
  · simp only [hge, if_true]
    refine ⟨by decide, fun _ => trivial, fun h => ?_⟩
    omega
  · simp only [hge, if_false]
    refine ⟨by decide, fun h => ?_, fun _ => trivial⟩
    omega

theorem C5_send_fails_iff_count_ge_128_witness :
    ((ikcp_send kcpWnd256 [1, 2, 3] 3).1 < 0 ↔
      fragment_count kcpWnd256.mss (send_remaining kcpWnd256 (3 : Int).toNat) ≥ IKCP_WND_RCV) ∧
    ((ikcp_send kcpWnd256 [1, 2, 3] 3).1 < 0 → (ikcp_send kcpWnd256 [1, 2, 3] 3).1 = -2) ∧
    (fragment_count kcpWnd256.mss (send_remaining kcpWnd256 (3 : Int).toNat) < IKCP_WND_RCV →
      (ikcp_send kcpWnd256 [1, 2, 3] 3).1 = 0) :=
  C5_send_fails_iff_count_ge_128 kcpWnd256 [1, 2, 3] 3 (by decide) (by decide) (by decide)
    (by decide)

/-- C5 (counterexample to the claim as stated): after `ikcp_wndsize(kcp, 0, 256)` the
local `rcv_wnd` is 256, a payload of 128 * 1376 bytes needs 128 fragments, fewer than
`rcv_wnd`, and `ikcp_send` still fails. -/
theorem C5_counterexample :
    kcpWnd256.rcv_wnd = 256 ∧
    fragment_count kcpWnd256.mss 176128 = 128 ∧
    ¬ ((ikcp_send kcpWnd256 (List.replicate 176128 0) 176128).1 < 0 ↔
      fragment_count kcpWnd256.mss 176128 ≥ kcpWnd256.rcv_wnd) := by
  decide

/-! ## Failure atomicity of ikcp_send -/

/-- C6 (the code at the failing input): in stream mode, with a one-byte tail segment
and `mss = 26`, `ikcp_send` of 25 + 128 * 26 bytes returns -2 after it has already
extended the tail segment to 26 bytes, so the control block differs from the one
before the call. -/
theorem C6_stream_send_failure_changes_state :
    kcpStreamTail.stream = 1 ∧
    kcpStreamTail.snd_queue.map (fun s => s.len) = [1] ∧
    (ikcp_send kcpStreamTail (List.replicate 3353 9) 3353).1 = -2 ∧
    (ikcp_send kcpStreamTail (List.replicate 3353 9) 3353).2.snd_queue.map (fun s => s.len) =
      [26] ∧
    (ikcp_send kcpStreamTail (List.replicate 3353 9) 3353).2 ≠ kcpStreamTail := by
  decide

/-! ## ikcp_peeksize -/

theorem list_range_succ_reverse (n : Nat) :
    (List.range (n + 1)).reverse = n :: (List.range n).reverse := by
  simp [List.range_succ]

theorem ikcp_peeksize_loop_complete (msg : List IKCPSEG) :
    ∀ (rest : List IKCPSEG) (acc : Int), msg ≠ [] →
    msg.map (fun s => s.frg) = (List.range msg.length).reverse →
    0 ≤ acc → acc + ((msg.map (fun s => s.len)).sum : Nat) < 2147483648 →
    ikcp_peeksize_loop (msg ++ rest) acc = acc + ((msg.map (fun s => s.len)).sum : Nat) := by
  induction msg with
  | nil => intro _ _ h; exact absurd rfl h
  | cons s t ih =>
    intro rest acc _ hfrg h0 hsum
    simp only [List.map_cons, List.length_cons, list_range_succ_reverse, List.cons.injEq,
      List.sum_cons, Nat.cast_add] at hfrg hsum
    have hacc : i32 (acc + s.len) = acc + s.len := i32_of_lt _ (by omega) (by omega)
    rw [List.cons_append, ikcp_peeksize_loop, hacc]
    by_cases ht : t = []
    · subst ht
      simp only [List.length_nil] at hfrg
      simp [hfrg.1]
    · have hne : s.frg ≠ 0 := by
        rw [hfrg.1]
        exact fun h => ht (List.eq_nil_of_length_eq_zero h)
      simp only [hne, if_false, List.map_cons, List.sum_cons, Nat.cast_add]
      rw [ih rest (acc + s.len) ht hfrg.2 (by omega) (by omega)]
      omega

/-- C9: `ikcp_peeksize` returns the exact size of the next complete message, or -1 if
there is none. For a receive queue mirrored by `nrcv_que`, with 8-bit fragment numbers:
it returns -1 on an empty queue; when the queue starts with a message whose `frg`
values count down by one to 0, it returns the sum of the lengths of those segments;
and when the `frg` values of the queue count down by one but end above 0 (the `frg = 0`
fragment is not yet enqueued), it returns -1. The function only reads the control
block. -/
theorem C9_peeksize_exact (kcp : IKCPCB)
    (hn : kcp.nrcv_que = kcp.rcv_queue.length)
    (hfrg : ∀ s ∈ kcp.rcv_queue, s.frg < 256) :
    (kcp.rcv_queue = [] → ikcp_peeksize kcp = -1) ∧
    (∀ msg rest : List IKCPSEG, kcp.rcv_queue = msg ++ rest → msg ≠ [] →
      msg.map (fun s => s.frg) = (List.range msg.length).reverse →
      (msg.map (fun s => s.len)).sum < 2147483648 →
      ikcp_peeksize kcp = ((msg.map (fun s => s.len)).sum : Nat)) ∧
    (∀ m : Nat, 0 < m → kcp.rcv_queue ≠ [] →
      kcp.rcv_queue.map (fun s => s.frg) = (List.range' m kcp.rcv_queue.length).reverse →
      ikcp_peeksize kcp = -1) := by
  refine ⟨fun h => ?_, fun msg rest hq hne hcd hsum => ?_, fun m hm hne hcd => ?_⟩
  · unfold ikcp_peeksize; rw [h]
  · have hloop := ikcp_peeksize_loop_complete msg rest 0 hne hcd (le_refl 0) (by omega)
    rw [Int.zero_add] at hloop
    unfold ikcp_peeksize
    rw [hq] at hn hfrg ⊢
    cases msg with
    | nil => exact absurd rfl hne
    | cons s t =>
      simp only [List.cons_append]
      simp only [List.map_cons, List.length_cons, list_range_succ_reverse,
        List.cons.injEq] at hcd
      have hs256 : s.frg < 256 := hfrg s (by simp)
      by_cases ht : t = []
      · subst ht
        simp only [List.length_nil] at hcd
        simp only [List.map_cons, List.map_nil, List.sum_cons, List.sum_nil, Nat.add_zero] at hsum ⊢
        simp only [hcd.1, if_true]
        exact i32_of_lt _ (by omega) (by omega)
      · have hne0 : s.frg ≠ 0 := by
          rw [hcd.1]
          exact fun h => ht (List.eq_nil_of_length_eq_zero h)
        have hnq : ¬ (kcp.nrcv_que < (s.frg + 1) % 4294967296) := by
          rw [hn, hcd.1]
          simp only [List.length_append, List.length_cons]
          have := hcd.1
          omega
        simp only [hne0, if_false, hnq]
        exact hloop
  · unfold ikcp_peeksize
    cases hq : kcp.rcv_queue with
    | nil => rfl
    | cons s t =>
      rw [hq] at hcd hn hfrg
      simp only [List.map_cons, List.length_cons, List.range'_concat, List.reverse_append,
        List.reverse_cons, List.reverse_nil, List.nil_append, List.singleton_append,
        List.cons.injEq] at hcd
      have hs256 : s.frg < 256 := hfrg s (by simp)
      have hne0 : s.frg ≠ 0 := by have := hcd.1; omega
      have hnq : kcp.nrcv_que < (s.frg + 1) % 4294967296 := by
        rw [hn]
        simp only [List.length_cons]
        have := hcd.1
        omega
      simp only [hne0, if_false, hnq, if_true]

theorem C9_peeksize_exact_witness :
    (kcpTwoFragments.rcv_queue = [] → ikcp_peeksize kcpTwoFragments = -1) ∧
    (∀ msg rest : List IKCPSEG, kcpTwoFragments.rcv_queue = msg ++ rest → msg ≠ [] →
      msg.map (fun s => s.frg) = (List.range msg.length).reverse →
      (msg.map (fun s => s.len)).sum < 2147483648 →
      ikcp_peeksize kcpTwoFragments = ((msg.map (fun s => s.len)).sum : Nat)) ∧
    (∀ m : Nat, 0 < m → kcpTwoFragments.rcv_queue ≠ [] →
      kcpTwoFragments.rcv_queue.map (fun s => s.frg) =
        (List.range' m kcpTwoFragments.rcv_queue.length).reverse →
      ikcp_peeksize kcpTwoFragments = -1) :=
  C9_peeksize_exact kcpTwoFragments (by decide) (by decide)

/-! ## ikcp_recv -/

theorem i32_frg_eq_zero (f : Nat) (hf : f < 4294967296) : i32 (f : Int) = 0 ↔ f = 0 := by
  unfold i32; split <;> omega

theorem ikcp_recv_merge_len (buffer : Bool) (ispeek : Int) (q : List IKCPSEG) :
    ∀ (len : Int) (out : List Nat) (n : Nat), (∀ s ∈ q, s.frg < 4294967296) →
    (ikcp_recv_merge buffer ispeek q len out n).1 = ikcp_peeksize_loop q len := by
  induction q with
  | nil => intro len out n _; rfl
  | cons s t ih =>
    intro len out n hfrg
    have hs := i32_frg_eq_zero s.frg (hfrg s (by simp))
    have ht : ∀ x ∈ t, x.frg < 4294967296 := fun x hx => hfrg x (by simp [hx])
    rw [ikcp_recv_merge, ikcp_peeksize_loop]
    by_cases h0 : s.frg = 0
    · have h0' : i32 (s.frg : Int) = 0 := hs.mpr h0
      simp only [h0, h0', if_true]
      split <;> rfl
    · have h0' : ¬ i32 (s.frg : Int) = 0 := fun h => h0 (hs.mp h)
      simp only [h0, h0', if_false]
      split
      · exact ih _ _ _ ht
      · exact ih _ _ _ ht

theorem ikcp_peeksize_eq_loop (kcp : IKCPCB) (h : 0 ≤ ikcp_peeksize kcp) :
    ikcp_peeksize kcp = ikcp_peeksize_loop kcp.rcv_queue 0 := by
  unfold ikcp_peeksize at h ⊢
  cases hq : kcp.rcv_queue with
  | nil => rw [hq] at h; simp at h
  | cons s t =>
    rw [hq] at h
    simp only [] at h ⊢
    by_cases h0 : s.frg = 0
    · simp only [h0, if_true, ikcp_peeksize_loop, Int.zero_add]
    · simp only [h0, if_false] at h ⊢
      by_cases hn : kcp.nrcv_que < (s.frg + 1) % 4294967296
      · simp only [hn, if_true] at h; exact absurd h (by decide)
      · simp only [hn, if_false]

/-- The return value of `ikcp_recv` once the three error checks have passed. -/
theorem ikcp_recv_ok_ret (kcp : IKCPCB) (buffer : Bool) (len : Int)
    (hfrg : ∀ s ∈ kcp.rcv_queue, s.frg < 4294967296)
    (hq : kcp.rcv_queue ≠ []) (hp : 0 ≤ ikcp_peeksize kcp)
    (hl : ¬ ikcp_peeksize kcp > (if len < 0 then i32 (-len) else len)) :
    (ikcp_recv kcp buffer len).1 = ikcp_peeksize kcp := by
  unfold ikcp_recv
  have hp' : ¬ ikcp_peeksize kcp < 0 := by omega
  simp only [hq, if_false, hp', hl]
  rw [ikcp_recv_merge_len _ _ _ _ _ _ hfrg, ikcp_peeksize_eq_loop kcp hp]

/-- C8: the error codes of `ikcp_recv`. It returns -1 exactly when `rcv_queue` is empty;
otherwise -2 exactly when `ikcp_peeksize` is negative (the message at the head is
incomplete); otherwise -3 exactly when the message size exceeds `|len|`; and in each
of these cases nothing is written and the control block is unchanged. -/
theorem C8_recv_error_codes (kcp : IKCPCB) (buffer : Bool) (len : Int)
    (hfrg : ∀ s ∈ kcp.rcv_queue, s.frg < 4294967296)
    (hlen : -2147483648 < len ∧ len < 2147483648) :
    ((ikcp_recv kcp buffer len).1 = -1 ↔ kcp.rcv_queue = []) ∧
    ((ikcp_recv kcp buffer len).1 = -2 ↔ kcp.rcv_queue ≠ [] ∧ ikcp_peeksize kcp < 0) ∧
    ((ikcp_recv kcp buffer len).1 = -3 ↔
      kcp.rcv_queue ≠ [] ∧ 0 ≤ ikcp_peeksize kcp ∧ ikcp_peeksize kcp > |len|) ∧
    ((ikcp_recv kcp buffer len).1 < 0 →
      (ikcp_recv kcp buffer len).2.1 = [] ∧ (ikcp_recv kcp buffer len).2.2 = kcp) := by
  have habs : (if len < 0 then i32 (-len) else len) = |len| := by
    split
    · rename_i h
      rw [i32_of_lt _ (by omega) (by omega), abs_of_neg h]
    · rename_i h
      rw [abs_of_nonneg (by omega)]
  have n12 : ¬ ((-1 : Int) = -2) := by decide
  have n13 : ¬ ((-1 : Int) = -3) := by decide
  have n21 : ¬ ((-2 : Int) = -1) := by decide
  have n23 : ¬ ((-2 : Int) = -3) := by decide
  have n31 : ¬ ((-3 : Int) = -1) := by decide
  have n32 : ¬ ((-3 : Int) = -2) := by decide
  by_cases hq : kcp.rcv_queue = []
  · have hr : ikcp_recv kcp buffer len = (-1, [], kcp) := by
      unfold ikcp_recv; simp only [hq, if_true]
    rw [hr]
    refine ⟨⟨fun _ => hq, fun _ => rfl⟩, ⟨fun h => absurd (show (-1 : Int) = -2 from h) n12, fun h => absurd hq h.1⟩,
      ⟨fun h => absurd (show (-1 : Int) = -3 from h) n13, fun h => absurd hq h.1⟩, fun _ => ⟨rfl, rfl⟩⟩
  · by_cases hp : ikcp_peeksize kcp < 0
    · have hr : ikcp_recv kcp buffer len = (-2, [], kcp) := by
        unfold ikcp_recv; simp only [hq, if_false, hp, if_true]
      rw [hr]
      refine ⟨⟨fun h => absurd (show (-2 : Int) = -1 from h) n21, fun h => absurd h hq⟩,
        ⟨fun _ => ⟨hq, hp⟩, fun _ => rfl⟩,
        ⟨fun h => absurd (show (-2 : Int) = -3 from h) n23, fun h => absurd h.2.1 (by omega)⟩, fun _ => ⟨rfl, rfl⟩⟩
    · by_cases hl : ikcp_peeksize kcp > (if len < 0 then i32 (-len) else len)
      · have hr : ikcp_recv kcp buffer len = (-3, [], kcp) := by
          unfold ikcp_recv; simp only [hq, if_false, hp, hl, if_true]
        rw [hr]
        rw [habs] at hl
        refine ⟨⟨fun h => absurd (show (-3 : Int) = -1 from h) n31, fun h => absurd h hq⟩,
          ⟨fun h => absurd (show (-3 : Int) = -2 from h) n32, fun h => absurd h.2 hp⟩,
          ⟨fun _ => ⟨hq, by omega, hl⟩, fun _ => rfl⟩, fun _ => ⟨rfl, rfl⟩⟩
      · have hret := ikcp_recv_ok_ret kcp buffer len hfrg hq (by omega) hl
        rw [habs] at hl
        rw [hret]
        refine ⟨⟨fun h => ?_, fun h => absurd h hq⟩, ⟨fun h => ?_, fun h => absurd h.2 hp⟩,
          ⟨fun h => ?_, fun h => absurd h.2.2 hl⟩, fun h => absurd h hp⟩
        all_goals omega

theorem C8_recv_error_codes_witness :
    ((ikcp_recv kcpTwoFragments true 2).1 = -1 ↔ kcpTwoFragments.rcv_queue = []) ∧
    ((ikcp_recv kcpTwoFragments true 2).1 = -2 ↔
      kcpTwoFragments.rcv_queue ≠ [] ∧ ikcp_peeksize kcpTwoFragments < 0) ∧
    ((ikcp_recv kcpTwoFragments true 2).1 = -3 ↔
      kcpTwoFragments.rcv_queue ≠ [] ∧ 0 ≤ ikcp_peeksize kcpTwoFragments ∧
        ikcp_peeksize kcpTwoFragments > |(2 : Int)|) ∧
    ((ikcp_recv kcpTwoFragments true 2).1 < 0 →
      (ikcp_recv kcpTwoFragments true 2).2.1 = [] ∧
        (ikcp_recv kcpTwoFragments true 2).2.2 = kcpTwoFragments) :=
  C8_recv_error_codes kcpTwoFragments true 2 (by decide) (by decide)

theorem ikcp_move_rcv_buf_spec (buf : List IKCPSEG) :
    ∀ kcp : IKCPCB, kcp.nrcv_que < 4294967296 →
    ∃ moved : List IKCPSEG,
      (ikcp_move_rcv_buf kcp buf).rcv_queue = kcp.rcv_queue ++ moved ∧
      moved ++ (ikcp_move_rcv_buf kcp buf).rcv_buf = buf ∧
      (ikcp_move_rcv_buf kcp buf).nrcv_que = (kcp.nrcv_que + moved.length) % 4294967296 := by
  induction buf with
  | nil =>
    intro kcp hn
    refine ⟨[], ?_, ?_, ?_⟩
    · simp [ikcp_move_rcv_buf]
    · simp [ikcp_move_rcv_buf]
    · simp only [ikcp_move_rcv_buf, List.length_nil, Nat.add_zero]
      omega
  | cons seg rest ih =>
    intro kcp hn
    rw [ikcp_move_rcv_buf]
    by_cases hc : seg.sn = kcp.rcv_nxt ∧ kcp.nrcv_que < kcp.rcv_wnd
    · rw [if_pos hc]
      obtain ⟨moved, h1, h2, h3⟩ := ih
        { kcp with
          rcv_buf := rest
          nrcv_buf := u32 ((kcp.nrcv_buf : Int) - 1)
          rcv_queue := kcp.rcv_queue ++ [seg]
          nrcv_que := (kcp.nrcv_que + 1) % 4294967296
          rcv_nxt := (kcp.rcv_nxt + 1) % 4294967296 } (Nat.mod_lt _ (by decide))
      refine ⟨seg :: moved, ?_, ?_, ?_⟩
      · rw [h1]; simp
      · rw [List.cons_append, h2]
      · rw [h3]
        simp only [List.length_cons]
        omega
    · rw [if_neg hc]
      refine ⟨[], ?_, ?_, ?_⟩
      · simp
      · simp
      · simp only [List.length_nil, Nat.add_zero]
        omega

theorem ikcp_recv_merge_complete (buffer : Bool) (ispeek : Int) (msg : List IKCPSEG) :
    ∀ (rest : List IKCPSEG) (acc : Int) (out : List Nat) (n : Nat), msg ≠ [] →
    msg.map (fun s => s.frg) = (List.range msg.length).reverse →
    0 ≤ acc → acc + ((msg.map (fun s => s.len)).sum : Nat) < 2147483648 →
    msg.length ≤ n → n < 4294967296 →
    ikcp_recv_merge buffer ispeek (msg ++ rest) acc out n =
      (acc + ((msg.map (fun s => s.len)).sum : Nat),
        out ++ (if buffer then (msg.map (fun s => s.data.take s.len)).flatten else []),
        (if ispeek = 0 then rest else msg ++ rest),
        (if ispeek = 0 then n - msg.length else n)) := by
  induction msg with
  | nil => intro _ _ _ _ h; exact absurd rfl h
  | cons s t ih =>
    intro rest acc out n _ hfrg h0 hsum hn hn32
    simp only [List.map_cons, List.length_cons, list_range_succ_reverse, List.cons.injEq,
      List.sum_cons, Nat.cast_add] at hfrg hsum hn
    have e1 : 0 ≤ acc + s.len := by omega
    have e2 : acc + s.len + ((t.map (fun s => s.len)).sum : Nat) < 2147483648 := by omega
    have e3 : t.length ≤ n - 1 := by omega
    have e4 : n - 1 < 4294967296 := by omega
    have e5 : t.length ≤ n := by omega
    have e6 : acc + s.len + ((t.map (fun s => s.len)).sum : Nat) =
        acc + ((s.len : Int) + ((t.map (fun s => s.len)).sum : Nat)) := by omega
    have e7 : n - 1 - t.length = n - (t.length + 1) := by omega
    have hlt : s.frg < 4294967296 := by rw [hfrg.1]; omega
    have hacc : i32 (acc + s.len) = acc + s.len := i32_of_lt _ e1 (by omega)
    have hdec : u32 ((n : Int) - 1) = n - 1 := by unfold u32; omega
    have hz := i32_frg_eq_zero s.frg hlt
    rw [List.cons_append, ikcp_recv_merge, hacc, hdec]
    by_cases ht : t = []
    · subst ht
      simp only [List.length_nil] at hfrg
      have hz' : i32 (s.frg : Int) = 0 := hz.mpr hfrg.1
      simp only [hz', if_true, List.map_cons, List.map_nil, List.sum_cons, List.sum_nil,
        List.flatten_cons, List.flatten_nil, List.append_nil, List.nil_append, Nat.add_zero,
        List.length_cons, List.length_nil, Nat.zero_add]
      cases buffer <;> by_cases hp : ispeek = 0 <;> simp [hp]
    · have hne : s.frg ≠ 0 := by
        rw [hfrg.1]
        exact fun h => ht (List.eq_nil_of_length_eq_zero h)
      have hz' : ¬ i32 (s.frg : Int) = 0 := fun h => hne (hz.mp h)
      simp only [hz', if_false]
      by_cases hp : ispeek = 0
      · rw [if_pos hp]
        rw [ih rest (acc + s.len) _ (n - 1) ht hfrg.2 e1 e2 e3 e4]
        simp only [hp]
        simp only [if_true, List.map_cons, List.sum_cons, Nat.cast_add, List.flatten_cons,
          List.length_cons]
        refine Prod.ext e6 (Prod.ext ?_ (Prod.ext rfl e7))
        cases buffer <;> simp
      · simp only [hp, if_false]
        rw [ih rest (acc + s.len) _ n ht hfrg.2 e1 e2 e5 hn32]
        simp only [hp, if_false, List.map_cons, List.sum_cons, Nat.cast_add, List.flatten_cons,
          List.cons_append]
        refine Prod.ext e6 (Prod.ext ?_ rfl)
        cases buffer <;> simp

theorem ikcp_peeksize_complete (kcp : IKCPCB) (msg rest : List IKCPSEG)
    (hn : kcp.nrcv_que = kcp.rcv_queue.length) (hn32 : kcp.nrcv_que < 4294967296)
    (hq : kcp.rcv_queue = msg ++ rest) (hne : msg ≠ [])
    (hcd : msg.map (fun s => s.frg) = (List.range msg.length).reverse)
    (hsum : (msg.map (fun s => s.len)).sum < 2147483648) :
    ikcp_peeksize kcp = ((msg.map (fun s => s.len)).sum : Nat) := by
  have hloop := ikcp_peeksize_loop_complete msg rest 0 hne hcd (le_refl 0) (by omega)
  rw [Int.zero_add] at hloop
  unfold ikcp_peeksize
  rw [hq] at hn ⊢
  cases msg with
  | nil => exact absurd rfl hne
  | cons s t =>
    simp only [List.cons_append]
    simp only [List.map_cons, List.length_cons, list_range_succ_reverse,
      List.cons.injEq] at hcd
    simp only [List.length_append, List.length_cons] at hn
    by_cases ht : t = []
    · subst ht
      simp only [List.length_nil] at hcd
      simp only [List.map_cons, List.map_nil, List.sum_cons, List.sum_nil, Nat.add_zero] at hsum ⊢
      simp only [hcd.1, if_true]
      exact i32_of_lt _ (by omega) (by omega)
    · have hne0 : s.frg ≠ 0 := by
        rw [hcd.1]
        exact fun h => ht (List.eq_nil_of_length_eq_zero h)
      have hnq : ¬ (kcp.nrcv_que < (s.frg + 1) % 4294967296) := by
        have := hcd.1
        omega
      simp only [hne0, if_false, hnq]
      exact hloop

theorem ikcp_recv_finish_spec (kcp : IKCPCB) (recover : Int)
    (hn : kcp.nrcv_que < 4294967296) :
    ∃ moved : List IKCPSEG,
      (ikcp_recv_finish kcp recover).rcv_queue = kcp.rcv_queue ++ moved ∧
      moved ++ (ikcp_recv_finish kcp recover).rcv_buf = kcp.rcv_buf ∧
      (ikcp_recv_finish kcp recover).nrcv_que = (kcp.nrcv_que + moved.length) % 4294967296 := by
  obtain ⟨moved, h1, h2, h3⟩ := ikcp_move_rcv_buf_spec kcp.rcv_buf kcp hn
  refine ⟨moved, ?_, ?_, ?_⟩ <;> unfold ikcp_recv_finish <;> simp only [] <;> split <;>
    first | exact h1 | exact h2 | exact h3

/-- The result of `ikcp_recv` when `rcv_queue` begins with a complete message that
fits the buffer: the total size, the payloads in queue order, and the control block
handed to the end of the function. -/
theorem ikcp_recv_message (kcp : IKCPCB) (buffer : Bool) (len : Int) (msg rest : List IKCPSEG)
    (hq : kcp.rcv_queue = msg ++ rest) (hne : msg ≠ [])
    (hcd : msg.map (fun s => s.frg) = (List.range msg.length).reverse)
    (hn : kcp.nrcv_que = kcp.rcv_queue.length) (hn32 : kcp.nrcv_que < 4294967296)
    (hsum : (msg.map (fun s => s.len)).sum < 2147483648)
    (hlen : -2147483648 < len ∧ len < 2147483648)
    (hfit : |len| ≥ ((msg.map (fun s => s.len)).sum : Nat)) :
    ikcp_recv kcp buffer len =
      ((((msg.map (fun s => s.len)).sum : Nat) : Int),
        (if buffer then (msg.map (fun s => s.data.take s.len)).flatten else []),
        ikcp_recv_finish
          { kcp with
            rcv_queue := if len < 0 then kcp.rcv_queue else rest
            nrcv_que := if len < 0 then kcp.nrcv_que else kcp.nrcv_que - msg.length }
          (if kcp.nrcv_que ≥ kcp.rcv_wnd then 1 else 0)) := by
  have hps := ikcp_peeksize_complete kcp msg rest hn hn32 hq hne hcd hsum
  have hk : msg.length ≤ kcp.nrcv_que := by
    rw [hn, hq, List.length_append]; omega
  have habs : (if len < 0 then i32 (-len) else len) = |len| := by
    split
    · rename_i h
      rw [i32_of_lt _ (by omega) (by omega), abs_of_neg h]
    · rename_i h
      rw [abs_of_nonneg (by omega)]
  have hqne : ¬ kcp.rcv_queue = [] := by
    rw [hq]; intro h; exact hne (List.append_eq_nil.mp h).1
  have hp0 : ¬ ikcp_peeksize kcp < 0 := by rw [hps]; omega
  have hp1 : ¬ ikcp_peeksize kcp > (if len < 0 then i32 (-len) else len) := by
    rw [habs, hps]; omega
  have hm := ikcp_recv_merge_complete buffer (if len < 0 then 1 else 0) msg rest 0 []
    kcp.nrcv_que hne hcd (le_refl 0) (by omega) hk hn32
  rw [← hq, Int.zero_add, List.nil_append] at hm
  unfold ikcp_recv
  simp only [hqne, if_false, hp0, hp1, hm]
  by_cases hl : len < 0
  · simp only [hl, if_true, one_ne_zero, if_false, hq]
  · simp only [hl, if_false, if_true]

/-- C7 (as amended): successful receive. If `rcv_queue` begins with the `k` fragments
of a complete message (`frg` values `k-1, ..., 0`) of total size `S` and `|len| >= S`,
then `ikcp_recv` returns `S`, which is what `ikcp_peeksize` returns before the call,
and writes the `k` payloads in queue order. With `len >= 0` exactly those `k` segments
are removed from the head of `rcv_queue`, the segments promoted from the head of
`rcv_buf` are appended at its tail, and `nrcv_que` decreases by `k` and increases by
the number promoted (so it decreases by exactly `k` when `rcv_buf` is empty). With
`len < 0` no segment is removed from `rcv_queue` and its segments keep their order. -/
theorem C7_recv_success (kcp : IKCPCB) (buffer : Bool) (len : Int) (msg rest : List IKCPSEG)
    (hq : kcp.rcv_queue = msg ++ rest) (hne : msg ≠ [])
    (hcd : msg.map (fun s => s.frg) = (List.range msg.length).reverse)
    (hn : kcp.nrcv_que = kcp.rcv_queue.length) (hn32 : kcp.nrcv_que < 4294967296)
    (hsum : (msg.map (fun s => s.len)).sum < 2147483648)
    (hlen : -2147483648 < len ∧ len < 2147483648)
    (hfit : |len| ≥ ((msg.map (fun s => s.len)).sum : Nat)) :
    (ikcp_recv kcp buffer len).1 = ((msg.map (fun s => s.len)).sum : Nat) ∧
    ikcp_peeksize kcp = ((msg.map (fun s => s.len)).sum : Nat) ∧
    (ikcp_recv kcp buffer len).2.1 =
      (if buffer then (msg.map (fun s => s.data.take s.len)).flatten else []) ∧
    (0 ≤ len → ∃ moved : List IKCPSEG,
      (ikcp_recv kcp buffer len).2.2.rcv_queue = rest ++ moved ∧
      moved ++ (ikcp_recv kcp buffer len).2.2.rcv_buf = kcp.rcv_buf ∧
      (ikcp_recv kcp buffer len).2.2.nrcv_que =
        (kcp.nrcv_que - msg.length + moved.length) % 4294967296 ∧
      (kcp.rcv_buf = [] → (ikcp_recv kcp buffer len).2.2.rcv_queue = rest ∧
        (ikcp_recv kcp buffer len).2.2.nrcv_que = kcp.nrcv_que - msg.length)) ∧
    (len < 0 → ∃ moved : List IKCPSEG,
      (ikcp_recv kcp buffer len).2.2.rcv_queue = kcp.rcv_queue ++ moved ∧
      moved ++ (ikcp_recv kcp buffer len).2.2.rcv_buf = kcp.rcv_buf) := by
  have hps := ikcp_peeksize_complete kcp msg rest hn hn32 hq hne hcd hsum
  have hk : msg.length ≤ kcp.nrcv_que := by
    rw [hn, hq, List.length_append]; omega
  have hkn : kcp.nrcv_que - msg.length < 4294967296 := by omega
  have hr := ikcp_recv_message kcp buffer len msg rest hq hne hcd hn hn32 hsum hlen hfit
  rw [hr]
  refine ⟨rfl, hps, rfl, fun h0 => ?_, fun h0 => ?_⟩
  · have hl : ¬ len < 0 := by omega
    simp only [hl, if_false]
    obtain ⟨moved, h1, h2, h3⟩ := ikcp_recv_finish_spec
      { kcp with rcv_queue := rest, nrcv_que := kcp.nrcv_que - msg.length }
      (if kcp.nrcv_que ≥ kcp.rcv_wnd then 1 else 0) hkn
    refine ⟨moved, h1, h2, h3, fun hb => ?_⟩
    rw [hb] at h2
    have hmv : moved = [] := (List.append_eq_nil.mp h2).1
    rw [hmv] at h1 h3
    constructor
    · rw [h1, List.append_nil]
    · rw [h3]
      simp only [List.length_nil, Nat.add_zero]
      exact Nat.mod_eq_of_lt hkn
  · simp only [h0, if_true]
    obtain ⟨moved, h1, h2, _⟩ := ikcp_recv_finish_spec
      { kcp with rcv_queue := kcp.rcv_queue, nrcv_que := kcp.nrcv_que }
      (if kcp.nrcv_que ≥ kcp.rcv_wnd then 1 else 0) hn32
    exact ⟨moved, h1, h2⟩

theorem C7_recv_success_witness :
    (ikcp_recv kcpTwoFragments true 10).1 = ((sampleMsg.map (fun s => s.len)).sum : Nat) ∧
    ikcp_peeksize kcpTwoFragments = ((sampleMsg.map (fun s => s.len)).sum : Nat) ∧
    (ikcp_recv kcpTwoFragments true 10).2.1 =
      (if true then (sampleMsg.map (fun s => s.data.take s.len)).flatten else []) ∧
    ((0 : Int) ≤ 10 → ∃ moved : List IKCPSEG,
      (ikcp_recv kcpTwoFragments true 10).2.2.rcv_queue = sampleRest ++ moved ∧
      moved ++ (ikcp_recv kcpTwoFragments true 10).2.2.rcv_buf = kcpTwoFragments.rcv_buf ∧
      (ikcp_recv kcpTwoFragments true 10).2.2.nrcv_que =
        (kcpTwoFragments.nrcv_que - sampleMsg.length + moved.length) % 4294967296 ∧
      (kcpTwoFragments.rcv_buf = [] →
        (ikcp_recv kcpTwoFragments true 10).2.2.rcv_queue = sampleRest ∧
        (ikcp_recv kcpTwoFragments true 10).2.2.nrcv_que =
          kcpTwoFragments.nrcv_que - sampleMsg.length)) ∧
    ((10 : Int) < 0 → ∃ moved : List IKCPSEG,
      (ikcp_recv kcpTwoFragments true 10).2.2.rcv_queue = kcpTwoFragments.rcv_queue ++ moved ∧
      moved ++ (ikcp_recv kcpTwoFragments true 10).2.2.rcv_buf = kcpTwoFragments.rcv_buf) :=
  C7_recv_success kcpTwoFragments true 10 sampleMsg sampleRest rfl (by decide) (by decide)
    (by decide) (by decide) (by decide) (by decide) (by decide)

/-- C7 (counterexample to the claim as stated): after 129 one-byte PUSH datagrams on a
fresh control block the receive window is full (`nrcv_que = 128`) and one segment waits
in `rcv_buf`. `ikcp_recv` then returns the one-byte message at the head (`k = 1`), but
promotes the waiting segment, so `nrcv_que` is still 128 and has not decreased by `k`. -/
theorem C7_counterexample :
    (kcpFullWindow.rcv_queue.take 1).map (fun s => (s.frg, s.len)) = [(0, 1)] ∧
    kcpFullWindow.nrcv_que = 128 ∧
    (ikcp_recv kcpFullWindow true 10).1 = 1 ∧
    (ikcp_recv kcpFullWindow true 10).2.2.nrcv_que = 128 ∧
    ¬ ((ikcp_recv kcpFullWindow true 10).2.2.nrcv_que = kcpFullWindow.nrcv_que - 1) := by
  decide!

/-! ## Fields the input path leaves alone -/

theorem ikcp_shrink_buf_conv (kcp : IKCPCB) : (ikcp_shrink_buf kcp).conv = kcp.conv := by
  unfold ikcp_shrink_buf; split <;> rfl

theorem ikcp_parse_una_loop_conv (una : Nat) (l : List IKCPSEG) :
    ∀ kcp : IKCPCB, (ikcp_parse_una_loop una kcp l).conv = kcp.conv := by
  induction l with
  | nil => intro kcp; rfl
  | cons s t ih =>
    intro kcp
    rw [ikcp_parse_una_loop]
    split
    · rw [ih]
    · rfl

theorem ikcp_update_ack_conv (kcp : IKCPCB) (rtt : Int) :
    (ikcp_update_ack kcp rtt).conv = kcp.conv := by
  unfold ikcp_update_ack; simp only []; split <;> rfl

theorem ikcp_parse_ack_conv (kcp : IKCPCB) (sn : Nat) :
    (ikcp_parse_ack kcp sn).conv = kcp.conv := by
  unfold ikcp_parse_ack; split <;> rfl

theorem ikcp_input_ack_conv (kcp : IKCPCB) (ts sn : Nat) :
    (ikcp_input_ack kcp ts sn).conv = kcp.conv := by
  unfold ikcp_input_ack
  simp only [ikcp_shrink_buf_conv, ikcp_parse_ack_conv]
  split
  · exact ikcp_update_ack_conv _ _
  · rfl

theorem ikcp_move_rcv_buf_conv (l : List IKCPSEG) :
    ∀ kcp : IKCPCB, (ikcp_move_rcv_buf kcp l).conv = kcp.conv := by
  induction l with
  | nil => intro kcp; rfl
  | cons s t ih =>
    intro kcp
    rw [ikcp_move_rcv_buf]
    split
    · rw [ih]
    · rfl

theorem ikcp_ack_push_conv (kcp : IKCPCB) (sn ts : Nat) :
    (ikcp_ack_push kcp sn ts).conv = kcp.conv := by
  unfold ikcp_ack_push; simp only []; split <;> rfl

theorem ikcp_parse_data_conv (kcp : IKCPCB) (seg : IKCPSEG) :
    (ikcp_parse_data kcp seg).conv = kcp.conv := by
  unfold ikcp_parse_data
  simp only []
  split
  · rfl
  · rw [ikcp_move_rcv_buf_conv]
    split <;> rfl

theorem ikcp_input_push_conv (kcp : IKCPCB) (conv cmd frg wnd ts sn una len : Nat)
    (data : List Nat) :
    (ikcp_input_push kcp conv cmd frg wnd ts sn una len data).conv = kcp.conv := by
  unfold ikcp_input_push
  simp only []
  split
  · split
    · rw [ikcp_parse_data_conv, ikcp_ack_push_conv]
    · rw [ikcp_ack_push_conv]
  · rfl

theorem ikcp_input_record_conv (kcp : IKCPCB) (wnd una : Nat) :
    (ikcp_shrink_buf (ikcp_parse_una { kcp with rmt_wnd := wnd } una)).conv = kcp.conv := by
  rw [ikcp_shrink_buf_conv]
  unfold ikcp_parse_una
  rw [ikcp_parse_una_loop_conv]

theorem ikcp_input_record_kcp_conv (kcp : IKCPCB) (hdr : IKCPSEG) (payload : List Nat)
    (flag : Int) (maxack latest_ts : Nat) :
    (ikcp_input_record kcp hdr payload flag maxack latest_ts).2.1.conv = kcp.conv := by
  have hc := ikcp_input_record_conv kcp hdr.wnd hdr.una
  unfold ikcp_input_record
  simp only []
  split
  · split
    · simp only [ikcp_input_ack_conv, hc]
    · split <;> simp only [ikcp_input_ack_conv, hc]
  · split
    · simp only [ikcp_input_push_conv, hc]
    · split
      · exact hc
      · split <;> exact hc

theorem ikcp_input_record_code (kcp : IKCPCB) (hdr : IKCPSEG) (payload : List Nat)
    (flag : Int) (maxack latest_ts : Nat)
    (hcmd : ¬ (hdr.cmd ≠ IKCP_CMD_PUSH ∧ hdr.cmd ≠ IKCP_CMD_ACK ∧
        hdr.cmd ≠ IKCP_CMD_WASK ∧ hdr.cmd ≠ IKCP_CMD_WINS)) :
    (ikcp_input_record kcp hdr payload flag maxack latest_ts).1 = 0 := by
  unfold ikcp_input_record
  simp only []
  split
  · split
    · rfl
    · split <;> rfl
  · split
    · rfl
    · split
      · rfl
      · split
        · rfl
        · rename_i h1 h2 h3 h4
          exact absurd ⟨h2, h1, h3, h4⟩ hcmd

/-- The return code of the record loop depends on the datagram and `conv` only. -/
theorem ikcp_input_loop_code (fuel : Nat) :
    ∀ (kcp : IKCPCB) (data : List Nat) (flag : Int) (maxack latest_ts : Nat),
    (ikcp_input_loop fuel kcp data flag maxack latest_ts).1 = input_scan kcp.conv fuel data := by
  induction fuel with
  | zero => intro kcp data flag maxack latest_ts; rfl
  | succ n ih =>
    intro kcp data flag maxack latest_ts
    rw [ikcp_input_loop, input_scan]
    split
    · rfl
    · split
      · rfl
      · split
        · rfl
        · split
          · rfl
          · rename_i hcmd
            have h0 := ikcp_input_record_code kcp (ikcp_decode_seg data).1 (ikcp_decode_seg data).2
              flag maxack latest_ts hcmd
            have hlt : ¬ (ikcp_input_record kcp (ikcp_decode_seg data).1 (ikcp_decode_seg data).2
              flag maxack latest_ts).1 < 0 := by rw [h0]; decide
            rw [if_neg hlt, ih, ikcp_input_record_kcp_conv]

/-! ## Sequential parsing -/

theorem ikcp_decode_seg_snd (d : List Nat) : (ikcp_decode_seg d).2 = d.drop 24 := by
  simp [ikcp_decode_seg, ikcp_decode32u, ikcp_decode16u, ikcp_decode8u, List.drop_drop]

theorem ikcp_decode_seg_ranges (d : List Nat) :
    (ikcp_decode_seg d).1.conv < 4294967296 ∧ (ikcp_decode_seg d).1.cmd < 256 ∧
    (ikcp_decode_seg d).1.frg < 256 ∧ (ikcp_decode_seg d).1.wnd < 65536 ∧
    (ikcp_decode_seg d).1.ts < 4294967296 ∧ (ikcp_decode_seg d).1.sn < 4294967296 ∧
    (ikcp_decode_seg d).1.una < 4294967296 ∧ (ikcp_decode_seg d).1.len < 4294967296 := by
  simp only [ikcp_decode_seg, ikcp_decode32u, ikcp_decode16u, ikcp_decode8u]
  refine ⟨?_, ?_, ?_, ?_, ?_, ?_, ?_, ?_⟩ <;> exact Nat.mod_lt _ (by decide)

theorem ikcp_decode_seg_eta (d : List Nat) :
    ({ ikcp_segment_new 0 with
       conv := (ikcp_decode_seg d).1.conv, cmd := (ikcp_decode_seg d).1.cmd,
       frg := (ikcp_decode_seg d).1.frg, wnd := (ikcp_decode_seg d).1.wnd,
       ts := (ikcp_decode_seg d).1.ts, sn := (ikcp_decode_seg d).1.sn,
       una := (ikcp_decode_seg d).1.una, len := (ikcp_decode_seg d).1.len } : IKCPSEG) =
    (ikcp_decode_seg d).1 := by
  simp [ikcp_decode_seg]

/-- Decoding reads the first 24 bytes only. -/
theorem ikcp_decode_seg_take (d : List Nat) (hlen : 24 ≤ d.length) (hb : ∀ b ∈ d, b < 256) :
    (ikcp_decode_seg d).1 = (ikcp_decode_seg (d.take 24)).1 := by
  have h24 : (d.take 24).length = 24 := by simp [List.length_take]; omega
  have hb24 : ∀ b ∈ d.take 24, b < 256 := fun b hm => hb b (List.mem_of_mem_take hm)
  have henc := ikcp_encode_decode_seg (d.take 24) h24 hb24
  have hr := ikcp_decode_seg_ranges (d.take 24)
  have hd := ikcp_decode_encode_seg (ikcp_decode_seg (d.take 24)).1 (d.drop 24)
    hr.1 hr.2.1 hr.2.2.1 hr.2.2.2.1 hr.2.2.2.2.1 hr.2.2.2.2.2.1 hr.2.2.2.2.2.2.1
    hr.2.2.2.2.2.2.2
  rw [henc, List.take_append_drop, ikcp_decode_seg_eta] at hd
  rw [hd]

theorem ikcp_encode_seg_data (r : IKCPSEG) (data : List Nat) :
    ikcp_encode_seg { r with data := data } = ikcp_encode_seg r := rfl

/-- A valid header at the front of `d` splits `d` into one whole valid record and the
bytes after it. -/
theorem record_split (conv : Nat) (d : List Nat) (hb : ∀ b ∈ d, b < 256)
    (h1 : stop_code conv d = 1) (hd : d.length < 2147483648) :
    valid_record conv
      { (ikcp_decode_seg d).1 with data := (d.drop 24).take (ikcp_decode_seg d).1.len } ∧
    d = record_bytes
        { (ikcp_decode_seg d).1 with data := (d.drop 24).take (ikcp_decode_seg d).1.len } ++
      (d.drop 24).drop (ikcp_decode_seg d).1.len := by
  unfold stop_code at h1
  have hr := ikcp_decode_seg_ranges d
  split at h1
  · exact absurd h1 (by decide)
  rename_i hlen
  split at h1
  · exact absurd h1 (by decide)
  rename_i hconv
  split at h1
  · exact absurd h1 (by decide)
  rename_i hl
  split at h1
  · exact absurd h1 (by decide)
  rename_i hcmd
  have hlen' : 24 ≤ d.length := by omega
  have hl' : (ikcp_decode_seg d).1.len ≤ d.length - 24 := by omega
  have hl2 : (ikcp_decode_seg d).1.len < 2147483648 := by omega
  clear h1
  constructor
  · refine ⟨not_not.mp hconv, ?_, hr.2.2.1, hr.2.2.2.1, hr.2.2.2.2.1, hr.2.2.2.2.2.1,
      hr.2.2.2.2.2.2.1, ?_, hl2⟩
    · by_contra hc
      exact hcmd ⟨fun h => hc (Or.inl h), fun h => hc (Or.inr (Or.inl h)),
        fun h => hc (Or.inr (Or.inr (Or.inl h))), fun h => hc (Or.inr (Or.inr (Or.inr h)))⟩
    · show (ikcp_decode_seg d).1.len = ((d.drop 24).take (ikcp_decode_seg d).1.len).length
      rw [List.length_take, List.length_drop]
      omega
  · have h24 : (d.take 24).length = 24 := by simp [List.length_take]; omega
    have hb24 : ∀ b ∈ d.take 24, b < 256 := fun b hm => hb b (List.mem_of_mem_take hm)
    have henc := ikcp_encode_decode_seg (d.take 24) h24 hb24
    rw [← ikcp_decode_seg_take d hlen' hb] at henc
    unfold record_bytes
    rw [ikcp_encode_seg_data, henc]
    show d = d.take 24 ++ (d.drop 24).take _ ++ _
    rw [List.append_assoc, List.take_append_drop, List.take_append_drop]

theorem input_scan_step (conv fuel : Nat) (d : List Nat) (hd : d.length < 2147483648) :
    input_scan conv (fuel + 1) d =
      if stop_code conv d = 1 then
        input_scan conv fuel ((d.drop 24).drop (ikcp_decode_seg d).1.len)
      else stop_code conv d := by
  have hr := (ikcp_decode_seg_ranges d).2.2.2.2.2.2.2
  have ho : i32 (IKCP_OVERHEAD : Int) = 24 := by decide
  have ho' : ((IKCP_OVERHEAD : Nat) : Int) = 24 := rfl
  rw [input_scan, stop_code, ho, ho', ikcp_decode_seg_snd]
  generalize (ikcp_decode_seg d).1.len = len at hr ⊢
  generalize (ikcp_decode_seg d).1.conv = c
  generalize (ikcp_decode_seg d).1.cmd = cmd
  by_cases h1 : d.length < 24
  · have h1' : (d.length : Int) < 24 := by omega
    rw [if_pos h1', if_pos h1]; rfl
  · have h1' : ¬ (d.length : Int) < 24 := by omega
    rw [if_neg h1', if_neg h1]
    by_cases h2 : c ≠ conv
    · rw [if_pos h2, if_pos h2]; rfl
    · rw [if_neg h2, if_neg h2]
      have hi : i32 (len : Int) < 0 ↔ 2147483648 ≤ len := by
        unfold i32; split <;> omega
      by_cases h3 : 24 + len > d.length
      · have h3' : (d.length : Int) - 24 < (len : Int) ∨ i32 (len : Int) < 0 := by
          left; omega
        rw [if_pos h3', if_pos h3]; rfl
      · have h3' : ¬ ((d.length : Int) - 24 < (len : Int) ∨ i32 (len : Int) < 0) := by
          rw [hi]; omega
        rw [if_neg h3', if_neg h3]
        by_cases h4 : cmd ≠ IKCP_CMD_PUSH ∧ cmd ≠ IKCP_CMD_ACK ∧ cmd ≠ IKCP_CMD_WASK ∧
            cmd ≠ IKCP_CMD_WINS
        · rw [if_pos h4, if_pos h4]; rfl
        · rw [if_neg h4, if_neg h4]; rfl

theorem record_bytes_length (r : IKCPSEG) : (record_bytes r).length = 24 + r.data.length := by
  unfold record_bytes
  rw [List.length_append, ikcp_encode_seg_length]

/-- A whole valid record at the front of the data is passed over. -/
theorem stop_code_record (conv : Nat) (r : IKCPSEG) (rest : List Nat)
    (hconv : conv < 4294967296) (hv : valid_record conv r) :
    stop_code conv (record_bytes r ++ rest) = 1 ∧
    ((record_bytes r ++ rest).drop 24).drop (ikcp_decode_seg (record_bytes r ++ rest)).1.len =
      rest := by
  obtain ⟨h1, h2, h3, h4, h5, h6, h7, h8, h9⟩ := hv
  have hcmd : r.cmd < 256 := by
    rcases h2 with h | h | h | h <;> rw [h] <;> decide
  have hdec := ikcp_decode_encode_seg r (r.data ++ rest) (by omega) hcmd h3 h4 h5 h6 h7
    (by omega)
  have hl := record_bytes_length r
  unfold record_bytes at hl ⊢
  rw [List.append_assoc]
  have hdrop : (ikcp_encode_seg r ++ (r.data ++ rest)).drop 24 = r.data ++ rest := by
    rw [List.drop_append_of_le_length (by rw [ikcp_encode_seg_length])]
    rw [List.drop_of_length_le (by rw [ikcp_encode_seg_length]), List.nil_append]
  constructor
  · unfold stop_code
    rw [hdec]
    simp only [List.length_append, ikcp_encode_seg_length]
    rw [if_neg (by omega), if_neg (by rw [h1]; exact fun h => h rfl), if_neg (by omega)]
    rw [if_neg]
    intro hc
    rcases h2 with h | h | h | h
    · exact hc.1 h
    · exact hc.2.1 h
    · exact hc.2.2.1 h
    · exact hc.2.2.2 h
  · rw [hdrop, hdec]
    show (r.data ++ rest).drop r.len = rest
    rw [h8, List.drop_left]

theorem input_scan_of_parses (conv : Nat) (hconv : conv < 4294967296) (rest : List Nat)
    (hstop : stop_code conv rest ≠ 1) (recs : List IKCPSEG) :
    (∀ r ∈ recs, valid_record conv r) → ∀ fuel : Nat,
    ((recs.map record_bytes).flatten ++ rest).length ≤ fuel →
    ((recs.map record_bytes).flatten ++ rest).length < 2147483648 →
    input_scan conv fuel ((recs.map record_bytes).flatten ++ rest) = stop_code conv rest := by
  induction recs with
  | nil =>
    intro _ fuel hf hd
    simp only [List.map_nil, List.flatten_nil, List.nil_append] at hf hd ⊢
    cases fuel with
    | zero =>
      have : rest.length < 24 := by omega
      simp [input_scan, stop_code, this]
    | succ f =>
      rw [input_scan_step conv f rest hd, if_neg hstop]
  | cons r recs ih =>
    intro hv fuel hf hd
    simp only [List.map_cons, List.flatten_cons, List.append_assoc] at hf hd ⊢
    have hvr := hv r (List.mem_cons_self _ _)
    have hrl := record_bytes_length r
    rw [List.length_append] at hf hd
    cases fuel with
    | zero => omega
    | succ f =>
      have hs := stop_code_record conv r ((recs.map record_bytes).flatten ++ rest) hconv hvr
      rw [input_scan_step conv f _ (by rw [List.length_append]; exact hd), if_pos hs.1, hs.2]
      exact ih (fun x hx => hv x (List.mem_cons_of_mem _ hx)) f (by omega) (by omega)

theorem parses_of_input_scan (conv : Nat) (fuel : Nat) :
    ∀ d : List Nat, d.length ≤ fuel → (∀ b ∈ d, b < 256) → d.length < 2147483648 →
    ∃ rest : List Nat, parses_to conv d rest ∧ stop_code conv rest ≠ 1 ∧
      input_scan conv fuel d = stop_code conv rest := by
  induction fuel with
  | zero =>
    intro d hf _ _
    have hd0 : d = [] := List.eq_nil_of_length_eq_zero (by omega)
    subst hd0
    exact ⟨[], ⟨[], by simp, by simp⟩, by simp [stop_code], by simp [input_scan, stop_code]⟩
  | succ f ih =>
    intro d hf hb hd
    rw [input_scan_step conv f d hd]
    by_cases h1 : stop_code conv d = 1
    · rw [if_pos h1]
      obtain ⟨hv, hsplit⟩ := record_split conv d hb h1 hd
      have hlen : (record_bytes { (ikcp_decode_seg d).1 with
          data := (d.drop 24).take (ikcp_decode_seg d).1.len }).length +
          ((d.drop 24).drop (ikcp_decode_seg d).1.len).length = d.length := by
        rw [← List.length_append, ← hsplit]
      rw [record_bytes_length] at hlen
      obtain ⟨rest, ⟨recs, hrv, hrd⟩, hstop, hscan⟩ :=
        ih ((d.drop 24).drop (ikcp_decode_seg d).1.len) (by omega)
          (fun b hm => hb b (List.mem_of_mem_drop (List.mem_of_mem_drop hm))) (by omega)
      refine ⟨rest, ⟨{ (ikcp_decode_seg d).1 with
          data := (d.drop 24).take (ikcp_decode_seg d).1.len } :: recs, ?_, ?_⟩, hstop, hscan⟩
      · intro r hr
        rcases List.mem_cons.mp hr with h | h
        · rw [h]; exact hv
        · exact hrv r h
      · rw [List.map_cons, List.flatten_cons, List.append_assoc, ← hrd]
        exact hsplit
    · rw [if_neg h1]
      exact ⟨d, ⟨[], by simp, by simp⟩, h1, rfl⟩

/-- The return code of the loop is `c` exactly when parsing reaches bytes at which it
stops with `c`. -/
theorem input_scan_iff (conv : Nat) (hconv : conv < 4294967296) (d : List Nat)
    (hb : ∀ b ∈ d, b < 256) (hd : d.length < 2147483648) (c : Int) (hc : c ≠ 1) :
    input_scan conv d.length d = c ↔ ∃ rest, parses_to conv d rest ∧ stop_code conv rest = c := by
  constructor
  · intro h
    obtain ⟨rest, hp, _, hs⟩ := parses_of_input_scan conv d.length d (le_refl _) hb hd
    exact ⟨rest, hp, by rw [← hs, h]⟩
  · rintro ⟨rest, ⟨recs, hv, hrd⟩, hs⟩
    have := input_scan_of_parses conv hconv rest (by rw [hs]; exact hc) recs hv d.length
      (by rw [← hrd]) (by rw [← hrd]; exact hd)
    rw [← hrd] at this
    rw [this, hs]

theorem stop_code_cases (conv : Nat) (rest : List Nat) :
    (stop_code conv rest = 0 ↔ rest.length < 24) ∧
    (stop_code conv rest = -1 ↔ 24 ≤ rest.length ∧ (ikcp_decode_seg rest).1.conv ≠ conv) ∧
    (stop_code conv rest = -2 ↔ 24 ≤ rest.length ∧ (ikcp_decode_seg rest).1.conv = conv ∧
      24 + (ikcp_decode_seg rest).1.len > rest.length) ∧
    (stop_code conv rest = -3 ↔ 24 ≤ rest.length ∧ (ikcp_decode_seg rest).1.conv = conv ∧
      24 + (ikcp_decode_seg rest).1.len ≤ rest.length ∧
      ((ikcp_decode_seg rest).1.cmd ≠ IKCP_CMD_PUSH ∧ (ikcp_decode_seg rest).1.cmd ≠ IKCP_CMD_ACK ∧
        (ikcp_decode_seg rest).1.cmd ≠ IKCP_CMD_WASK ∧
        (ikcp_decode_seg rest).1.cmd ≠ IKCP_CMD_WINS)) := by
  have n01 : ¬ ((0 : Int) = -1) := by decide
  have n02 : ¬ ((0 : Int) = -2) := by decide
  have n03 : ¬ ((0 : Int) = -3) := by decide
  have n10 : ¬ ((-1 : Int) = 0) := by decide
  have n12 : ¬ ((-1 : Int) = -2) := by decide
  have n13 : ¬ ((-1 : Int) = -3) := by decide
  have n20 : ¬ ((-2 : Int) = 0) := by decide
  have n21 : ¬ ((-2 : Int) = -1) := by decide
  have n23 : ¬ ((-2 : Int) = -3) := by decide
  have n30 : ¬ ((-3 : Int) = 0) := by decide
  have n31 : ¬ ((-3 : Int) = -1) := by decide
  have n32 : ¬ ((-3 : Int) = -2) := by decide
  have p0 : ¬ ((1 : Int) = 0) := by decide
  have p1 : ¬ ((1 : Int) = -1) := by decide
  have p2 : ¬ ((1 : Int) = -2) := by decide
  have p3 : ¬ ((1 : Int) = -3) := by decide
  unfold stop_code
  by_cases h1 : rest.length < 24
  · rw [if_pos h1]
    exact ⟨⟨fun _ => h1, fun _ => rfl⟩, ⟨fun h => absurd h n01, fun h => by omega⟩,
      ⟨fun h => absurd h n02, fun h => by omega⟩, ⟨fun h => absurd h n03, fun h => by omega⟩⟩
  · rw [if_neg h1]
    have h1' : 24 ≤ rest.length := by omega
    by_cases h2 : (ikcp_decode_seg rest).1.conv ≠ conv
    · rw [if_pos h2]
      exact ⟨⟨fun h => absurd h n10, fun h => absurd h h1⟩, ⟨fun _ => ⟨h1', h2⟩, fun _ => rfl⟩,
        ⟨fun h => absurd h n12, fun h => absurd h.2.1 h2⟩,
        ⟨fun h => absurd h n13, fun h => absurd h.2.1 h2⟩⟩
    · rw [if_neg h2]
      have h2' := not_not.mp h2
      by_cases h3 : 24 + (ikcp_decode_seg rest).1.len > rest.length
      · rw [if_pos h3]
        exact ⟨⟨fun h => absurd h n20, fun h => absurd h h1⟩,
          ⟨fun h => absurd h n21, fun h => absurd h2' h.2⟩,
          ⟨fun _ => ⟨h1', h2', h3⟩, fun _ => rfl⟩,
          ⟨fun h => absurd h n23, fun h => by omega⟩⟩
      · rw [if_neg h3]
        by_cases h4 : (ikcp_decode_seg rest).1.cmd ≠ IKCP_CMD_PUSH ∧
            (ikcp_decode_seg rest).1.cmd ≠ IKCP_CMD_ACK ∧
            (ikcp_decode_seg rest).1.cmd ≠ IKCP_CMD_WASK ∧
            (ikcp_decode_seg rest).1.cmd ≠ IKCP_CMD_WINS
        · rw [if_pos h4]
          exact ⟨⟨fun h => absurd h n30, fun h => absurd h h1⟩,
            ⟨fun h => absurd h n31, fun h => absurd h2' h.2⟩,
            ⟨fun h => absurd h n32, fun h => absurd h.2.2 h3⟩,
            ⟨fun _ => ⟨h1', h2', by omega, h4⟩, fun _ => rfl⟩⟩
        · rw [if_neg h4]
          exact ⟨⟨fun h => absurd h p0, fun h => absurd h h1⟩,
            ⟨fun h => absurd h p1, fun h => absurd h2' h.2⟩,
            ⟨fun h => absurd h p2, fun h => absurd h.2.2 h3⟩,
            ⟨fun h => absurd h p3, fun h => absurd h.2.2.2 h4⟩⟩

theorem input_scan_range (conv : Nat) (fuel : Nat) :
    ∀ d : List Nat, input_scan conv fuel d = 0 ∨ input_scan conv fuel d = -1 ∨
      input_scan conv fuel d = -2 ∨ input_scan conv fuel d = -3 := by
  induction fuel with
  | zero => intro d; left; rfl
  | succ f ih =>
    intro d
    rw [input_scan]
    split
    · left; rfl
    · split
      · right; left; rfl
      · split
        · right; right; left; rfl
        · split
          · right; right; right; rfl
          · exact ih _

theorem ikcp_input_some (kcp : IKCPCB) (d : List Nat) :
    ikcp_input kcp (some d) =
      if i32 (d.length : Int) < i32 IKCP_OVERHEAD then (-1, kcp)
      else ikcp_input_finish (ikcp_input_loop d.length kcp d 0 0 0) kcp.snd_una := rfl

theorem ikcp_input_short (kcp : IKCPCB) (d : List Nat) (h : d.length < 24) :
    ikcp_input kcp (some d) = (-1, kcp) := by
  have h1 : 0 ≤ (d.length : Int) := Int.natCast_nonneg _
  have h2 : (d.length : Int) < 2147483648 := by omega
  have h3 : (d.length : Int) < 24 := by omega
  have ho : i32 (IKCP_OVERHEAD : Int) = 24 := by decide
  rw [ikcp_input_some, i32_of_lt _ h1 h2, ho, if_pos h3]

theorem ikcp_input_long (kcp : IKCPCB) (d : List Nat) (h : 24 ≤ d.length)
    (hd : d.length < 2147483648) :
    ikcp_input kcp (some d) =
      ikcp_input_finish (ikcp_input_loop d.length kcp d 0 0 0) kcp.snd_una := by
  have h1 : 0 ≤ (d.length : Int) := Int.natCast_nonneg _
  have h2 : (d.length : Int) < 2147483648 := by omega
  have h3 : ¬ (d.length : Int) < 24 := by omega
  have ho : i32 (IKCP_OVERHEAD : Int) = 24 := by decide
  rw [ikcp_input_some, i32_of_lt _ h1 h2, ho, if_neg h3]

/-- The return value of `ikcp_input` on a datagram. -/
theorem ikcp_input_ret (kcp : IKCPCB) (d : List Nat) (hd : d.length < 2147483648) :
    (ikcp_input kcp (some d)).1 =
      if d.length < 24 then -1 else input_scan kcp.conv d.length d := by
  have hcode := ikcp_input_loop_code d.length kcp d 0 0 0
  have n0 : ¬ ((0 : Int) < 0) := by decide
  have n1 : (-1 : Int) < 0 := by decide
  have n2 : (-2 : Int) < 0 := by decide
  have n3 : (-3 : Int) < 0 := by decide
  by_cases h1 : d.length < 24
  · rw [ikcp_input_short kcp d h1, if_pos h1]
  · rw [ikcp_input_long kcp d (by omega) hd, if_neg h1]
    unfold ikcp_input_finish
    rcases input_scan_range kcp.conv d.length d with h | h | h | h
    · rw [h] at hcode
      rw [if_neg (by rw [hcode]; exact n0), h]
    · rw [h] at hcode
      rw [if_pos (by rw [hcode]; exact n1), h]
      exact hcode
    · rw [h] at hcode
      rw [if_pos (by rw [hcode]; exact n2), h]
      exact hcode
    · rw [h] at hcode
      rw [if_pos (by rw [hcode]; exact n3), h]
      exact hcode

theorem parses_to_length (conv : Nat) (d rest : List Nat) (h : parses_to conv d rest) :
    rest.length ≤ d.length := by
  obtain ⟨recs, _, hd⟩ := h
  rw [hd, List.length_append]
  omega

/-- C10: the return codes of `ikcp_input`. On a NULL datagram, or one shorter than 24
bytes, it returns -1 and leaves the control block unchanged. On a datagram of at
least 24 bytes it returns 0 exactly when the datagram is a concatenation of whole
valid records followed by fewer than 24 trailing bytes; -1 exactly when sequential
parsing reaches a record whose `conv` differs from the control block's; -2 exactly
when it reaches a record with matching `conv` whose `len` field exceeds the bytes
remaining after its header; -3 exactly when it reaches a record that passes both
checks and whose `cmd` is none of 81, 82, 83, 84. These are the only return values,
so the result is negative exactly when the datagram is not of the first kind. -/
theorem C10_input_return_codes (kcp : IKCPCB) (d : List Nat)
    (hconv : kcp.conv < 4294967296) (hb : ∀ b ∈ d, b < 256) (hd : d.length < 2147483648) :
    ikcp_input kcp none = (-1, kcp) ∧
    (d.length < 24 → ikcp_input kcp (some d) = (-1, kcp)) ∧
    ((ikcp_input kcp (some d)).1 = 0 ↔
      24 ≤ d.length ∧ ∃ rest, parses_to kcp.conv d rest ∧ rest.length < 24) ∧
    ((ikcp_input kcp (some d)).1 = -1 ↔
      d.length < 24 ∨ ∃ rest, parses_to kcp.conv d rest ∧ 24 ≤ rest.length ∧
        (ikcp_decode_seg rest).1.conv ≠ kcp.conv) ∧
    ((ikcp_input kcp (some d)).1 = -2 ↔
      ∃ rest, parses_to kcp.conv d rest ∧ 24 ≤ rest.length ∧
        (ikcp_decode_seg rest).1.conv = kcp.conv ∧
        24 + (ikcp_decode_seg rest).1.len > rest.length) ∧
    ((ikcp_input kcp (some d)).1 = -3 ↔
      ∃ rest, parses_to kcp.conv d rest ∧ 24 ≤ rest.length ∧
        (ikcp_decode_seg rest).1.conv = kcp.conv ∧
        24 + (ikcp_decode_seg rest).1.len ≤ rest.length ∧
        ((ikcp_decode_seg rest).1.cmd ≠ IKCP_CMD_PUSH ∧
          (ikcp_decode_seg rest).1.cmd ≠ IKCP_CMD_ACK ∧
          (ikcp_decode_seg rest).1.cmd ≠ IKCP_CMD_WASK ∧
          (ikcp_decode_seg rest).1.cmd ≠ IKCP_CMD_WINS)) ∧
    ((ikcp_input kcp (some d)).1 = 0 ∨ (ikcp_input kcp (some d)).1 = -1 ∨
      (ikcp_input kcp (some d)).1 = -2 ∨ (ikcp_input kcp (some d)).1 = -3) ∧
    ((ikcp_input kcp (some d)).1 < 0 ↔
      ¬ (24 ≤ d.length ∧ ∃ rest, parses_to kcp.conv d rest ∧ rest.length < 24)) := by
  have hret := ikcp_input_ret kcp d hd
  have n0 : ¬ ((-1 : Int) = 0) := by decide
  have n2 : ¬ ((-1 : Int) = -2) := by decide
  have n3 : ¬ ((-1 : Int) = -3) := by decide
  have i0 := input_scan_iff kcp.conv hconv d hb hd 0 (by decide)
  have i1 := input_scan_iff kcp.conv hconv d hb hd (-1) (by decide)
  have i2 := input_scan_iff kcp.conv hconv d hb hd (-2) (by decide)
  have i3 := input_scan_iff kcp.conv hconv d hb hd (-3) (by decide)
  have e0 : (∃ rest, parses_to kcp.conv d rest ∧ stop_code kcp.conv rest = 0) ↔
      ∃ rest, parses_to kcp.conv d rest ∧ rest.length < 24 :=
    exists_congr fun rest => and_congr_right fun _ => (stop_code_cases kcp.conv rest).1
  have e1 := fun rest => (stop_code_cases kcp.conv rest).2.1
  have e2 := fun rest => (stop_code_cases kcp.conv rest).2.2.1
  have e3 := fun rest => (stop_code_cases kcp.conv rest).2.2.2
  have hlong : ∀ rest, parses_to kcp.conv d rest → 24 ≤ rest.length → ¬ d.length < 24 := by
    intro rest hp h24 hlt
    have := parses_to_length kcp.conv d rest hp
    omega
  have h0 : (ikcp_input kcp (some d)).1 = 0 ↔
      24 ≤ d.length ∧ ∃ rest, parses_to kcp.conv d rest ∧ rest.length < 24 := by
    rw [hret]
    by_cases h : d.length < 24
    · rw [if_pos h]
      exact ⟨fun x => absurd x n0, fun x => absurd x.1 (by omega)⟩
    · rw [if_neg h, i0, e0]
      exact ⟨fun x => ⟨by omega, x⟩, fun x => x.2⟩
  have hrange : (ikcp_input kcp (some d)).1 = 0 ∨ (ikcp_input kcp (some d)).1 = -1 ∨
      (ikcp_input kcp (some d)).1 = -2 ∨ (ikcp_input kcp (some d)).1 = -3 := by
    rw [hret]
    by_cases h : d.length < 24
    · rw [if_pos h]; right; left; rfl
    · rw [if_neg h]; exact input_scan_range _ _ _
  refine ⟨rfl, ikcp_input_short kcp d, h0, ?_, ?_, ?_, hrange, ?_⟩
  · rw [hret]
    by_cases h : d.length < 24
    · rw [if_pos h]
      exact ⟨fun _ => Or.inl h, fun _ => rfl⟩
    · rw [if_neg h, i1]
      constructor
      · rintro ⟨rest, hp, hs⟩
        exact Or.inr ⟨rest, hp, (e1 rest).mp hs⟩
      · rintro (hl | ⟨rest, hp, hs⟩)
        · exact absurd hl h
        · exact ⟨rest, hp, (e1 rest).mpr hs⟩
  · rw [hret]
    by_cases h : d.length < 24
    · rw [if_pos h]
      constructor
      · exact fun x => absurd x n2
      · rintro ⟨rest, hp, h24, _⟩
        exact absurd h (hlong rest hp h24)
    · rw [if_neg h, i2]
      exact exists_congr fun rest => and_congr_right fun _ => e2 rest
  · rw [hret]
    by_cases h : d.length < 24
    · rw [if_pos h]
      constructor
      · exact fun x => absurd x n3
      · rintro ⟨rest, hp, h24, _⟩
        exact absurd h (hlong rest hp h24)
    · rw [if_neg h, i3]
      exact exists_congr fun rest => and_congr_right fun _ => e3 rest
  · rw [← h0]
    rcases hrange with h | h | h | h <;> rw [h] <;> decide

theorem C10_input_return_codes_witness :
    ikcp_input (ikcp_create 1) none = (-1, ikcp_create 1) ∧
    ((pushDatagram 1 0 [5]).length < 24 →
      ikcp_input (ikcp_create 1) (some (pushDatagram 1 0 [5])) = (-1, ikcp_create 1)) ∧
    ((ikcp_input (ikcp_create 1) (some (pushDatagram 1 0 [5]))).1 = 0 ↔
      24 ≤ (pushDatagram 1 0 [5]).length ∧
        ∃ rest, parses_to (ikcp_create 1).conv (pushDatagram 1 0 [5]) rest ∧ rest.length < 24) ∧
    ((ikcp_input (ikcp_create 1) (some (pushDatagram 1 0 [5]))).1 = -1 ↔
      (pushDatagram 1 0 [5]).length < 24 ∨
        ∃ rest, parses_to (ikcp_create 1).conv (pushDatagram 1 0 [5]) rest ∧ 24 ≤ rest.length ∧
          (ikcp_decode_seg rest).1.conv ≠ (ikcp_create 1).conv) ∧
    ((ikcp_input (ikcp_create 1) (some (pushDatagram 1 0 [5]))).1 = -2 ↔
      ∃ rest, parses_to (ikcp_create 1).conv (pushDatagram 1 0 [5]) rest ∧ 24 ≤ rest.length ∧
        (ikcp_decode_seg rest).1.conv = (ikcp_create 1).conv ∧
        24 + (ikcp_decode_seg rest).1.len > rest.length) ∧
    ((ikcp_input (ikcp_create 1) (some (pushDatagram 1 0 [5]))).1 = -3 ↔
      ∃ rest, parses_to (ikcp_create 1).conv (pushDatagram 1 0 [5]) rest ∧ 24 ≤ rest.length ∧
        (ikcp_decode_seg rest).1.conv = (ikcp_create 1).conv ∧
        24 + (ikcp_decode_seg rest).1.len ≤ rest.length ∧
        ((ikcp_decode_seg rest).1.cmd ≠ IKCP_CMD_PUSH ∧
          (ikcp_decode_seg rest).1.cmd ≠ IKCP_CMD_ACK ∧
          (ikcp_decode_seg rest).1.cmd ≠ IKCP_CMD_WASK ∧
          (ikcp_decode_seg rest).1.cmd ≠ IKCP_CMD_WINS)) ∧
    ((ikcp_input (ikcp_create 1) (some (pushDatagram 1 0 [5]))).1 = 0 ∨
      (ikcp_input (ikcp_create 1) (some (pushDatagram 1 0 [5]))).1 = -1 ∨
      (ikcp_input (ikcp_create 1) (some (pushDatagram 1 0 [5]))).1 = -2 ∨
      (ikcp_input (ikcp_create 1) (some (pushDatagram 1 0 [5]))).1 = -3) ∧
    ((ikcp_input (ikcp_create 1) (some (pushDatagram 1 0 [5]))).1 < 0 ↔
      ¬ (24 ≤ (pushDatagram 1 0 [5]).length ∧
        ∃ rest, parses_to (ikcp_create 1).conv (pushDatagram 1 0 [5]) rest ∧ rest.length < 24)) :=
  C10_input_return_codes (ikcp_create 1) (pushDatagram 1 0 [5]) (by decide) (by decide)
    (by decide)

/-! ## One PUSH record through ikcp_input -/

theorem ikcp_input_loop_nil (fuel : Nat) (kcp : IKCPCB) (flag : Int) (a b : Nat) :
    ikcp_input_loop fuel kcp [] flag a b = (0, kcp, flag, a, b) := by
  cases fuel with
  | zero => rfl
  | succ f =>
    rw [ikcp_input_loop, if_pos]
    decide

theorem ikcp_decode_record (r : IKCPSEG) (rest : List Nat) (conv : Nat)
    (hconv : conv < 4294967296) (hv : valid_record conv r) :
    ikcp_decode_seg (record_bytes r ++ rest) =
      (record_header r, r.data ++ rest) := by
  obtain ⟨h1, h2, h3, h4, h5, h6, h7, h8, h9⟩ := hv
  have hcmd : r.cmd < 256 := by
    rcases h2 with h | h | h | h <;> rw [h] <;> decide
  unfold record_bytes
  rw [List.append_assoc]
  exact ikcp_decode_encode_seg r (r.data ++ rest) (by omega) hcmd h3 h4 h5 h6 h7 (by omega)

theorem record_header_fields (r : IKCPSEG) :
    (record_header r).conv = r.conv ∧ (record_header r).cmd = r.cmd ∧
    (record_header r).frg = r.frg ∧ (record_header r).wnd = r.wnd ∧
    (record_header r).ts = r.ts ∧ (record_header r).sn = r.sn ∧
    (record_header r).una = r.una ∧ (record_header r).len = r.len :=
  ⟨rfl, rfl, rfl, rfl, rfl, rfl, rfl, rfl⟩

/-- One iteration of the record loop on a datagram that starts with a whole valid
record. -/
theorem ikcp_input_loop_record (fuel : Nat) (kcp : IKCPCB) (r : IKCPSEG) (rest : List Nat)
    (flag : Int) (a b : Nat) (hconv : kcp.conv < 4294967296) (hv : valid_record kcp.conv r) :
    ikcp_input_loop (fuel + 1) kcp (record_bytes r ++ rest) flag a b =
      ikcp_input_loop fuel
        (ikcp_input_record kcp (record_header r) (r.data ++ rest) flag a b).2.1
        rest
        (ikcp_input_record kcp (record_header r) (r.data ++ rest) flag a b).2.2.1
        (ikcp_input_record kcp (record_header r) (r.data ++ rest) flag a b).2.2.2.1
        (ikcp_input_record kcp (record_header r) (r.data ++ rest) flag a b).2.2.2.2 := by
  have hdec := ikcp_decode_record r rest kcp.conv hconv hv
  obtain ⟨h1, h2, h3, h4, h5, h6, h7, h8, h9⟩ := hv
  have hl : (record_bytes r ++ rest).length = 24 + r.len + rest.length := by
    rw [List.length_append, record_bytes_length, h8]
  have c1 : ¬ (((record_bytes r ++ rest).length : Nat) : Int) < i32 (IKCP_OVERHEAD : Int) := by
    have ho : i32 (IKCP_OVERHEAD : Int) = 24 := by decide
    rw [ho, hl]; omega
  have hi : ¬ i32 (r.len : Int) < 0 := by
    rw [i32_of_lt _ (by omega) (by omega)]; omega
  have c3 : ¬ ((((record_bytes r ++ rest).length : Nat) : Int) - (IKCP_OVERHEAD : Int) <
      (r.len : Int) ∨ i32 (r.len : Int) < 0) := by
    have ho : ((IKCP_OVERHEAD : Nat) : Int) = 24 := rfl
    rw [ho, hl]
    intro h
    rcases h with h | h
    · omega
    · exact hi h
  have c4 : ¬ (r.cmd ≠ IKCP_CMD_PUSH ∧ r.cmd ≠ IKCP_CMD_ACK ∧ r.cmd ≠ IKCP_CMD_WASK ∧
      r.cmd ≠ IKCP_CMD_WINS) := by
    intro hc
    rcases h2 with h | h | h | h
    · exact hc.1 h
    · exact hc.2.1 h
    · exact hc.2.2.1 h
    · exact hc.2.2.2 h
  have c5 := ikcp_input_record_code kcp (record_header r) (r.data ++ rest) flag a b c4
  have hf := record_header_fields r
  have n0 : ¬ ((0 : Int) < 0) := by decide
  rw [ikcp_input_loop, hdec, if_neg c1]
  simp only [hf.1, hf.2.1, hf.2.2.2.2.2.2.2]
  rw [if_neg (fun h => h h1), if_neg c3, if_neg c4, if_neg (by rw [c5]; exact n0), h8,
    List.drop_left]

/-! ## The receive side under the send-side operations -/

theorem ikcp_shrink_buf_rcv (kcp : IKCPCB) : rcv_part (ikcp_shrink_buf kcp) = rcv_part kcp := by
  unfold ikcp_shrink_buf; split <;> rfl

theorem ikcp_parse_una_loop_rcv (una : Nat) (l : List IKCPSEG) :
    ∀ kcp : IKCPCB, rcv_part (ikcp_parse_una_loop una kcp l) = rcv_part kcp := by
  induction l with
  | nil => intro kcp; rfl
  | cons s t ih =>
    intro kcp
    rw [ikcp_parse_una_loop]
    split
    · rw [ih]; rfl
    · rfl

theorem ikcp_input_una_rcv (kcp : IKCPCB) (wnd una : Nat) :
    rcv_part (ikcp_shrink_buf (ikcp_parse_una { kcp with rmt_wnd := wnd } una)) =
      rcv_part kcp := by
  rw [ikcp_shrink_buf_rcv]
  unfold ikcp_parse_una
  rw [ikcp_parse_una_loop_rcv]
  rfl

theorem ikcp_ack_push_rcv (kcp : IKCPCB) (sn ts : Nat) :
    rcv_part (ikcp_ack_push kcp sn ts) = rcv_part kcp := by
  unfold ikcp_ack_push; simp only []; split <;> rfl

theorem ikcp_input_cwnd_rcv (kcp : IKCPCB) (prev_una : Nat) :
    rcv_part (ikcp_input_cwnd kcp prev_una) = rcv_part kcp := by
  unfold ikcp_input_cwnd
  simp only []
  split_ifs <;> rfl

theorem ikcp_input_record_push (kcp : IKCPCB) (hdr : IKCPSEG) (payload : List Nat)
    (flag : Int) (a b : Nat) (hp : hdr.cmd = IKCP_CMD_PUSH) :
    ikcp_input_record kcp hdr payload flag a b =
      (0, ikcp_input_push
        (ikcp_shrink_buf (ikcp_parse_una { kcp with rmt_wnd := hdr.wnd } hdr.una))
        hdr.conv hdr.cmd hdr.frg hdr.wnd hdr.ts hdr.sn hdr.una hdr.len payload, flag, a, b) := by
  unfold ikcp_input_record
  simp only []
  rw [if_neg (by rw [hp]; decide), if_pos hp]

/-- A datagram that holds exactly one valid PUSH record. -/
theorem ikcp_input_single_push (kcp : IKCPCB) (r : IKCPSEG)
    (hconv : kcp.conv < 4294967296) (hv : valid_record kcp.conv r)
    (hp : r.cmd = IKCP_CMD_PUSH) (hsz : 24 + r.data.length < 2147483648) :
    ikcp_input kcp (some (record_bytes r)) =
      (0, ikcp_input_cwnd
        (ikcp_input_push
          (ikcp_shrink_buf (ikcp_parse_una { kcp with rmt_wnd := r.wnd } r.una))
          r.conv r.cmd r.frg r.wnd r.ts r.sn r.una r.len r.data) kcp.snd_una) := by
  have hl := record_bytes_length r
  have hloop := ikcp_input_loop_record (23 + r.data.length) kcp r [] 0 0 0 hconv hv
  rw [List.append_nil, List.append_nil, ikcp_input_loop_nil,
    ikcp_input_record_push kcp (record_header r) r.data 0 0 0 hp] at hloop
  have hfuel : (record_bytes r).length = 23 + r.data.length + 1 := by omega
  rw [ikcp_input_long kcp _ (by omega) (by omega), hfuel, hloop]
  have n0 : ¬ ((0 : Int) < 0) := by decide
  have n1 : ¬ ((0 : Int) ≠ 0) := by decide
  unfold ikcp_input_finish
  rw [if_neg n0, if_neg n1]
  rfl

/-! ## Sequence-number offsets -/

theorem sn_offset_lt (base sn : Nat) : sn_offset base sn < 4294967296 :=
  Nat.mod_lt _ (by decide)

theorem sn_offset_add (base m : Nat) (hm : m < 4294967296) :
    sn_offset base ((base + m) % 4294967296) = m := by
  unfold sn_offset; omega

theorem sn_of_offset (base sn : Nat) (hs : sn < 4294967296) :
    sn = (base + sn_offset base sn) % 4294967296 := by
  unfold sn_offset; omega

theorem sn_offset_inj (base a b : Nat) (ha : a < 4294967296) (hb : b < 4294967296)
    (h : sn_offset base a = sn_offset base b) : a = b := by
  rw [sn_of_offset base a ha, sn_of_offset base b hb, h]

theorem itimediff_offset (base a b : Nat)
    (hoa : sn_offset base a < 2147483648) (hob : sn_offset base b < 2147483648) :
    _itimediff a b = (sn_offset base a : Int) - (sn_offset base b : Int) := by
  unfold sn_offset at *
  unfold _itimediff i32
  split <;> omega

/-- The window test of `ikcp_input` and `ikcp_parse_data` for a sequence number at
offset `j` when `rcv_nxt` is at offset `m`. -/
theorem itimediff_window (base sn m w : Nat)
    (hm : m ≤ sn_offset base sn) (hj : sn_offset base sn < m + w) (hw : w ≤ 2147483648) :
    _itimediff sn (((base + m) % 4294967296 + w) % 4294967296) < 0 := by
  unfold sn_offset at *
  unfold _itimediff i32
  split <;> omega

/-! ## Insertion into rcv_buf -/

/-- A repeated sequence number stops the backward scan of `ikcp_parse_data`. -/
theorem ikcp_parse_data_scan_none (base : Nat) (newseg : IKCPSEG) (rev : List IKCPSEG)
    (hj : sn_offset base newseg.sn < 2147483648)
    (hrev : ∀ s ∈ rev, s.sn < 4294967296 ∧ sn_offset base s.sn < 2147483648)
    (hsorted : rev.Pairwise (fun x y => sn_offset base y.sn < sn_offset base x.sn))
    (hmem : ∃ s ∈ rev, s.sn = newseg.sn) :
    ikcp_parse_data_scan newseg rev = none := by
  induction rev with
  | nil => obtain ⟨s, hs, _⟩ := hmem; exact absurd hs (List.not_mem_nil _)
  | cons s prev ih =>
    rw [ikcp_parse_data_scan]
    by_cases h1 : s.sn = newseg.sn
    · rw [if_pos h1]
    · rw [if_neg h1]
      obtain ⟨x, hx, hxs⟩ := hmem
      have hxp : x ∈ prev := by
        rcases List.mem_cons.mp hx with h | h
        · rw [h] at hxs; exact absurd hxs h1
        · exact h
      have hlt : sn_offset base x.sn < sn_offset base s.sn :=
        (List.pairwise_cons.mp hsorted).1 x hxp
      have hsr := hrev s (List.mem_cons_self _ _)
      have hd := itimediff_offset base newseg.sn s.sn hj hsr.2
      rw [hxs] at hlt
      have h2 : ¬ _itimediff newseg.sn s.sn > 0 := by rw [hd]; omega
      rw [if_neg h2, ih (fun y hy => hrev y (List.mem_cons_of_mem _ hy))
        (List.pairwise_cons.mp hsorted).2 ⟨x, hxp, hxs⟩]
      rfl

/-- A new sequence number is linked in at its place: the list stays ordered and gains
exactly the new segment. -/
theorem ikcp_parse_data_scan_some (base : Nat) (newseg : IKCPSEG) (rev : List IKCPSEG)
    (hnew : newseg.sn < 4294967296) (hj : sn_offset base newseg.sn < 2147483648)
    (hrev : ∀ s ∈ rev, s.sn < 4294967296 ∧ sn_offset base s.sn < 2147483648)
    (hsorted : rev.Pairwise (fun x y => sn_offset base y.sn < sn_offset base x.sn))
    (hmem : ¬ ∃ s ∈ rev, s.sn = newseg.sn) :
    ∃ res : List IKCPSEG, ikcp_parse_data_scan newseg rev = some res ∧
      res.Pairwise (fun x y => sn_offset base y.sn < sn_offset base x.sn) ∧
      (∀ x, x ∈ res ↔ x = newseg ∨ x ∈ rev) := by
  induction rev with
  | nil =>
    exact ⟨[newseg], rfl, List.pairwise_singleton _ _, fun x => by simp⟩
  | cons s prev ih =>
    have hsr := hrev s (List.mem_cons_self _ _)
    have h1 : ¬ s.sn = newseg.sn := fun h => hmem ⟨s, List.mem_cons_self _ _, h⟩
    have hne : sn_offset base s.sn ≠ sn_offset base newseg.sn :=
      fun h => h1 (sn_offset_inj base _ _ hsr.1 hnew h)
    have hd := itimediff_offset base newseg.sn s.sn hj hsr.2
    have hp := List.pairwise_cons.mp hsorted
    rw [ikcp_parse_data_scan, if_neg h1]
    by_cases h2 : _itimediff newseg.sn s.sn > 0
    · rw [if_pos h2]
      have hgt : sn_offset base s.sn < sn_offset base newseg.sn := by
        rw [hd] at h2; omega
      refine ⟨newseg :: s :: prev, rfl, ?_, fun x => by simp⟩
      refine List.pairwise_cons.mpr ⟨?_, hsorted⟩
      intro y hy
      rcases List.mem_cons.mp hy with h | h
      · rw [h]; exact hgt
      · exact lt_trans (hp.1 y h) hgt
    · rw [if_neg h2]
      have hlt : sn_offset base newseg.sn < sn_offset base s.sn := by
        rw [hd] at h2; omega
      obtain ⟨res, hres, hsort, hmemr⟩ := ih (fun y hy => hrev y (List.mem_cons_of_mem _ hy))
        hp.2 (fun ⟨y, hy, hys⟩ => hmem ⟨y, List.mem_cons_of_mem _ hy, hys⟩)
      refine ⟨s :: res, by rw [hres]; rfl, ?_, ?_⟩
      · refine List.pairwise_cons.mpr ⟨?_, hsort⟩
        intro y hy
        rcases (hmemr y).mp hy with h | h
        · rw [h]; exact hlt
        · exact hp.1 y h
      · intro x
        simp only [List.mem_cons, hmemr]
        tauto

/-! ## Promotion from rcv_buf to rcv_queue -/

theorem ikcp_move_rcv_buf_offsets (base n : Nat) (buf : List IKCPSEG) :
    ∀ (kcp : IKCPCB) (m : Nat),
    buf.Pairwise (fun x y => sn_offset base x.sn < sn_offset base y.sn) →
    (∀ s ∈ buf, s.sn < 4294967296 ∧ m ≤ sn_offset base s.sn ∧ sn_offset base s.sn < n) →
    kcp.rcv_nxt = (base + m) % 4294967296 → kcp.nrcv_que = m → n ≤ kcp.rcv_wnd →
    n ≤ 2147483648 →
    ∃ k : Nat,
      (ikcp_move_rcv_buf kcp buf).rcv_queue = kcp.rcv_queue ++ buf.take k ∧
      (ikcp_move_rcv_buf kcp buf).rcv_buf = buf.drop k ∧
      (ikcp_move_rcv_buf kcp buf).rcv_nxt = (base + (m + k)) % 4294967296 ∧
      (ikcp_move_rcv_buf kcp buf).nrcv_que = m + k ∧
      (ikcp_move_rcv_buf kcp buf).rcv_wnd = kcp.rcv_wnd ∧
      (buf.take k).map (fun s => sn_offset base s.sn) = List.range' m k ∧
      (∀ s ∈ buf.drop k, m + k < sn_offset base s.sn) := by
  induction buf with
  | nil =>
    intro kcp m _ _ hnxt hnq _ _
    exact ⟨0, by simp [ikcp_move_rcv_buf], by simp [ikcp_move_rcv_buf],
      by simpa [ikcp_move_rcv_buf] using hnxt, by simpa [ikcp_move_rcv_buf] using hnq,
      rfl, by simp, by simp⟩
  | cons s t ih =>
    intro kcp m hsorted hall hnxt hnq hw hn
    have hs := hall s (List.mem_cons_self _ _)
    have hp := List.pairwise_cons.mp hsorted
    rw [ikcp_move_rcv_buf]
    by_cases hc : s.sn = kcp.rcv_nxt ∧ kcp.nrcv_que < kcp.rcv_wnd
    · rw [if_pos hc]
      have hoff : sn_offset base s.sn = m := by
        rw [hc.1, hnxt]; exact sn_offset_add base m (by omega)
      have hm1 : (kcp.nrcv_que + 1) % 4294967296 = m + 1 := by omega
      have hn1 : (kcp.rcv_nxt + 1) % 4294967296 = (base + (m + 1)) % 4294967296 := by omega
      obtain ⟨k, h1, h2, h3, h4, h5, h6, h7⟩ := ih
        { kcp with
          rcv_buf := t
          nrcv_buf := u32 ((kcp.nrcv_buf : Int) - 1)
          rcv_queue := kcp.rcv_queue ++ [s]
          nrcv_que := (kcp.nrcv_que + 1) % 4294967296
          rcv_nxt := (kcp.rcv_nxt + 1) % 4294967296 } (m + 1) hp.2
        (fun x hx => by
          have hx1 := hall x (List.mem_cons_of_mem _ hx)
          have hx2 := hp.1 x hx
          exact ⟨hx1.1, by omega, hx1.2.2⟩)
        hn1 hm1 hw hn
      refine ⟨k + 1, ?_, ?_, ?_, ?_, ?_, ?_, ?_⟩
      · rw [h1]; simp
      · rw [h2]; simp
      · rw [h3]; congr 1; omega
      · rw [h4]; omega
      · rw [h5]
      · rw [List.take_succ_cons, List.map_cons, h6, hoff, List.range'_succ]
      · intro x hx
        have := h7 x (by simpa using hx)
        omega
    · rw [if_neg hc]
      have hoff : m < sn_offset base s.sn := by
        have hne : sn_offset base s.sn ≠ m := by
          intro h
          apply hc
          constructor
          · rw [hnxt, ← h]; exact sn_of_offset base s.sn hs.1
          · omega
        omega
      refine ⟨0, by simp, by simp, by simpa using hnxt, by simpa using hnq, rfl, by simp, ?_⟩
      intro x hx
      simp only [List.drop_zero] at hx
      rcases List.mem_cons.mp hx with h | h
      · rw [h]; omega
      · have := hp.1 x h
        omega

/-! ## One segment through ikcp_parse_data -/

theorem ikcp_parse_data_step (base n m : Nat) (kcp : IKCPCB) (seg : IKCPSEG)
    (hnxt : kcp.rcv_nxt = (base + m) % 4294967296) (hnq : kcp.nrcv_que = m)
    (hsorted : kcp.rcv_buf.Pairwise (fun x y => sn_offset base x.sn < sn_offset base y.sn))
    (hbuf : ∀ s ∈ kcp.rcv_buf, s.sn < 4294967296 ∧ m < sn_offset base s.sn ∧
      sn_offset base s.sn < n)
    (hseg : seg.sn < 4294967296) (hj : m ≤ sn_offset base seg.sn)
    (hjn : sn_offset base seg.sn < n) (hw : n ≤ kcp.rcv_wnd) (hw2 : kcp.rcv_wnd ≤ 2147483648) :
    (ikcp_parse_data kcp seg).rcv_wnd = kcp.rcv_wnd ∧
    ((∃ s ∈ kcp.rcv_buf, s.sn = seg.sn) → rcv_part (ikcp_parse_data kcp seg) = rcv_part kcp) ∧
    ((¬ ∃ s ∈ kcp.rcv_buf, s.sn = seg.sn) → ∃ (buf : List IKCPSEG) (k : Nat),
      buf.Pairwise (fun x y => sn_offset base x.sn < sn_offset base y.sn) ∧
      (∀ x, x ∈ buf ↔ x = seg ∨ x ∈ kcp.rcv_buf) ∧
      (ikcp_parse_data kcp seg).rcv_queue = kcp.rcv_queue ++ buf.take k ∧
      (ikcp_parse_data kcp seg).rcv_buf = buf.drop k ∧
      (ikcp_parse_data kcp seg).rcv_nxt = (base + (m + k)) % 4294967296 ∧
      (ikcp_parse_data kcp seg).nrcv_que = m + k ∧
      (buf.take k).map (fun s => sn_offset base s.sn) = List.range' m k ∧
      (∀ s ∈ buf.drop k, m + k < sn_offset base s.sn)) := by
  have hn31 : n ≤ 2147483648 := le_trans hw hw2
  have hd1 : ¬ _itimediff seg.sn ((kcp.rcv_nxt + kcp.rcv_wnd) % 4294967296) ≥ 0 := by
    have := itimediff_window base seg.sn m kcp.rcv_wnd hj (by omega) hw2
    rw [hnxt]; omega
  have hd2 : ¬ _itimediff seg.sn kcp.rcv_nxt < 0 := by
    have := itimediff_offset base seg.sn kcp.rcv_nxt (by omega)
      (by rw [hnxt, sn_offset_add base m (by omega)]; omega)
    rw [hnxt, sn_offset_add base m (by omega)] at this
    rw [hnxt, this]; omega
  have hcond : ¬ (_itimediff seg.sn ((kcp.rcv_nxt + kcp.rcv_wnd) % 4294967296) ≥ 0 ∨
      _itimediff seg.sn kcp.rcv_nxt < 0) := fun h => h.elim hd1 hd2
  have hrev : ∀ s ∈ kcp.rcv_buf.reverse, s.sn < 4294967296 ∧
      sn_offset base s.sn < 2147483648 := by
    intro s hs
    have := hbuf s (List.mem_reverse.mp hs)
    exact ⟨this.1, by omega⟩
  have hrsorted : kcp.rcv_buf.reverse.Pairwise
      (fun x y => sn_offset base y.sn < sn_offset base x.sn) :=
    List.pairwise_reverse.mpr hsorted
  unfold ikcp_parse_data
  simp only []
  rw [if_neg hcond]
  refine ⟨?_, fun hdup => ?_, fun hnew => ?_⟩
  · -- rcv_wnd is never written
    cases hscan : ikcp_parse_data_scan seg kcp.rcv_buf.reverse with
    | none =>
      simp only []
      obtain ⟨k, _, _, _, _, h5, _, _⟩ := ikcp_move_rcv_buf_offsets base n kcp.rcv_buf kcp m
        hsorted (fun s hs => ⟨(hbuf s hs).1, by have := (hbuf s hs).2.1; omega, (hbuf s hs).2.2⟩)
        hnxt hnq hw hn31
      exact h5
    | some l =>
      simp only []
      have hmv := ikcp_move_rcv_buf_conv l.reverse
      have : ∀ (b : List IKCPSEG) (k0 : IKCPCB), (ikcp_move_rcv_buf k0 b).rcv_wnd = k0.rcv_wnd := by
        intro b
        induction b with
        | nil => intro k0; rfl
        | cons x t ih =>
          intro k0
          rw [ikcp_move_rcv_buf]
          split
          · rw [ih]
          · rfl
      rw [this]
  · have hnone := ikcp_parse_data_scan_none base seg kcp.rcv_buf.reverse (by omega) hrev
      hrsorted (by obtain ⟨s, hs, h⟩ := hdup; exact ⟨s, List.mem_reverse.mpr hs, h⟩)
    rw [hnone]
    simp only []
    obtain ⟨k, h1, h2, h3, h4, h5, h6, _⟩ := ikcp_move_rcv_buf_offsets base n kcp.rcv_buf kcp m
      hsorted (fun s hs => ⟨(hbuf s hs).1, by have := (hbuf s hs).2.1; omega, (hbuf s hs).2.2⟩)
      hnxt hnq hw hn31
    have hk : k = 0 := by
      cases k with
      | zero => rfl
      | succ k' =>
        exfalso
        cases hb : kcp.rcv_buf with
        | nil => rw [hb] at h6; simp [List.range'_succ] at h6
        | cons x t =>
          rw [hb, List.take_succ_cons, List.map_cons, List.range'_succ] at h6
          have hx := (hbuf x (by rw [hb]; exact List.mem_cons_self _ _)).2.1
          have := (List.cons.inj h6).1
          omega
    subst hk
    simp only [List.take_zero, List.append_nil, List.drop_zero, Nat.add_zero] at h1 h2 h3 h4
    unfold rcv_part
    rw [h1, h2, h3, h4, h5, hnxt, hnq]
  · obtain ⟨res, hres, hsort, hmem⟩ := ikcp_parse_data_scan_some base seg kcp.rcv_buf.reverse
      hseg (by omega) hrev hrsorted
      (fun ⟨s, hs, h⟩ => hnew ⟨s, List.mem_reverse.mp hs, h⟩)
    rw [hres]
    simp only []
    have hsort' : res.reverse.Pairwise
        (fun x y => sn_offset base x.sn < sn_offset base y.sn) :=
      List.pairwise_reverse.mpr hsort
    have hmem' : ∀ x, x ∈ res.reverse ↔ x = seg ∨ x ∈ kcp.rcv_buf := by
      intro x
      rw [List.mem_reverse, hmem, List.mem_reverse]
    obtain ⟨k, h1, h2, h3, h4, _, h6, h7⟩ := ikcp_move_rcv_buf_offsets base n res.reverse
      { kcp with rcv_buf := res.reverse, nrcv_buf := (kcp.nrcv_buf + 1) % 4294967296 } m hsort'
      (fun s hs => by
        rcases (hmem' s).mp hs with h | h
        · rw [h]; exact ⟨hseg, hj, hjn⟩
        · exact ⟨(hbuf s h).1, by have := (hbuf s h).2.1; omega, (hbuf s h).2.2⟩)
      hnxt hnq hw hn31
    exact ⟨res.reverse, k, hsort', hmem', h1, h2, h3, h4, h6, h7⟩

/-! ## The receive-side invariant -/

theorem stored_seg_of_push (r : IKCPSEG) (hlen : r.len = r.data.length) :
    ({ ikcp_segment_new r.len with
       conv := r.conv, cmd := r.cmd, frg := r.frg, wnd := r.wnd, ts := r.ts, sn := r.sn,
       una := r.una, len := r.len
       data := if r.len > 0 then r.data.take r.len else (ikcp_segment_new r.len).data } :
      IKCPSEG) = stored_seg r := by
  have hd : (if r.len > 0 then r.data.take r.len else (ikcp_segment_new r.len).data) =
      r.data := by
    split
    · exact List.take_of_length_le (by omega)
    · have h0 : r.data.length = 0 := by omega
      have hl0 : r.len = 0 := by omega
      rw [List.eq_nil_of_length_eq_zero h0, hl0]
      rfl
  rw [hd]
  rfl

theorem find_append_left (A : List IKCPSEG) (r r0 : IKCPSEG) (sn : Nat)
    (h : A.find? (fun x => decide (x.sn = sn)) = some r0) :
    (A ++ [r]).find? (fun x => decide (x.sn = sn)) = some r0 := by
  rw [List.find?_append, h]; rfl

theorem find_append_new (A : List IKCPSEG) (r : IKCPSEG)
    (h : ∀ x ∈ A, x.sn ≠ r.sn) :
    (A ++ [r]).find? (fun x => decide (x.sn = r.sn)) = some r := by
  have hnone : A.find? (fun x => decide (x.sn = r.sn)) = none := by
    rw [List.find?_eq_none]
    intro x hx
    simpa using h x hx
  rw [List.find?_append, hnone]
  simp

/-- The invariant survives a record that changes nothing on the receive side, as long
as its sequence number is already held. -/
theorem RcvInv_same (base n : Nat) (A : List IKCPSEG) (p : RcvPart) (r : IKCPSEG)
    (hinv : RcvInv base n A p)
    (hheld : ∃ s, (s ∈ p.rcv_queue ∨ s ∈ p.rcv_buf) ∧ s.sn = r.sn) :
    RcvInv base n (A ++ [r]) p := by
  obtain ⟨m, hmn, hnxt, hnq, hqoff, hsorted, hbuf, hmemb, hcov⟩ := hinv
  refine ⟨m, hmn, hnxt, hnq, hqoff, hsorted, hbuf, ?_, ?_⟩
  · intro s hs
    obtain ⟨h1, r0, h2, h3⟩ := hmemb s hs
    exact ⟨h1, r0, find_append_left A r r0 s.sn h2, h3⟩
  · intro r' hr'
    rcases List.mem_append.mp hr' with h | h
    · exact hcov r' h
    · rw [List.mem_singleton.mp h]; exact hheld

theorem mem_of_offset_range (base m j : Nat) (q : List IKCPSEG)
    (hq : q.map (fun s => sn_offset base s.sn) = List.range' 0 m) (hj : j < m) :
    ∃ s ∈ q, sn_offset base s.sn = j := by
  have : j ∈ q.map (fun s => sn_offset base s.sn) := by
    rw [hq, List.mem_range']
    exact ⟨j, hj, by omega⟩
  obtain ⟨s, hs, h⟩ := List.mem_map.mp this
  exact ⟨s, hs, h⟩

theorem offset_lt_of_mem_queue (base m : Nat) (q : List IKCPSEG) (s : IKCPSEG)
    (hq : q.map (fun s => sn_offset base s.sn) = List.range' 0 m) (hs : s ∈ q) :
    sn_offset base s.sn < m := by
  have : sn_offset base s.sn ∈ q.map (fun s => sn_offset base s.sn) :=
    List.mem_map.mpr ⟨s, hs, rfl⟩
  rw [hq, List.mem_range'] at this
  obtain ⟨i, hi, h⟩ := this
  omega

/-- The receive-side invariant is kept by the PUSH branch of `ikcp_input`. -/
theorem ikcp_input_push_inv (base n : Nat) (A : List IKCPSEG) (kcp : IKCPCB) (r : IKCPSEG)
    (hinv : RcvInv base n A (rcv_part kcp)) (hw : n ≤ kcp.rcv_wnd)
    (hw3 : kcp.rcv_wnd < 2147483648) (hr : r.sn < 4294967296)
    (hoff : sn_offset base r.sn < n) (hlen : r.len = r.data.length) :
    RcvInv base n (A ++ [r])
      (rcv_part (ikcp_input_push kcp r.conv r.cmd r.frg r.wnd r.ts r.sn r.una r.len r.data)) ∧
    (ikcp_input_push kcp r.conv r.cmd r.frg r.wnd r.ts r.sn r.una r.len r.data).rcv_wnd =
      kcp.rcv_wnd := by
  have hinv0 := hinv
  obtain ⟨m, hmn, hnxt, hnq, hqoff, hsorted, hbuf, hmemb, hcov⟩ := hinv
  have hw2 : kcp.rcv_wnd ≤ 2147483648 := Nat.le_of_lt hw3
  have hn31 : n < 2147483648 := lt_of_le_of_lt hw hw3
  have hqoff : kcp.rcv_queue.map (fun s => sn_offset base s.sn) = List.range' 0 m := hqoff
  have hsorted : kcp.rcv_buf.Pairwise
      (fun x y => sn_offset base x.sn < sn_offset base y.sn) := hsorted
  have hbuf : ∀ s ∈ kcp.rcv_buf, m < sn_offset base s.sn ∧ sn_offset base s.sn < n := hbuf
  have hmemb : ∀ s, s ∈ kcp.rcv_queue ∨ s ∈ kcp.rcv_buf → s.sn < 4294967296 ∧
      ∃ r, A.find? (fun x => decide (x.sn = s.sn)) = some r ∧ s = stored_seg r := hmemb
  have hcov : ∀ r ∈ A, ∃ s, (s ∈ kcp.rcv_queue ∨ s ∈ kcp.rcv_buf) ∧ s.sn = r.sn := hcov
  have hack := ikcp_ack_push_rcv kcp r.sn r.ts
  have ha_nxt : (ikcp_ack_push kcp r.sn r.ts).rcv_nxt = kcp.rcv_nxt :=
    congrArg RcvPart.rcv_nxt hack
  have ha_wnd : (ikcp_ack_push kcp r.sn r.ts).rcv_wnd = kcp.rcv_wnd :=
    congrArg RcvPart.rcv_wnd hack
  have ha_nq : (ikcp_ack_push kcp r.sn r.ts).nrcv_que = kcp.nrcv_que :=
    congrArg RcvPart.nrcv_que hack
  have ha_buf : (ikcp_ack_push kcp r.sn r.ts).rcv_buf = kcp.rcv_buf :=
    congrArg RcvPart.rcv_buf hack
  have ha_que : (ikcp_ack_push kcp r.sn r.ts).rcv_queue = kcp.rcv_queue :=
    congrArg RcvPart.rcv_queue hack
  have hnxt' : kcp.rcv_nxt = (base + m) % 4294967296 := hnxt
  have hnq' : kcp.nrcv_que = m := hnq
  have hdiff : _itimediff r.sn kcp.rcv_nxt = (sn_offset base r.sn : Int) - (m : Int) := by
    have := itimediff_offset base r.sn kcp.rcv_nxt (by omega)
      (by rw [hnxt', sn_offset_add base m (by omega)]; omega)
    rw [hnxt', sn_offset_add base m (by omega)] at this
    rw [hnxt', this]
  unfold ikcp_input_push
  simp only []
  rw [ha_nxt, stored_seg_of_push r hlen]
  by_cases hjm : sn_offset base r.sn < m
  · -- an old sequence number: nothing is stored
    have h2 : ¬ _itimediff r.sn kcp.rcv_nxt ≥ 0 := by rw [hdiff]; omega
    obtain ⟨s, hs, hso⟩ := mem_of_offset_range base m _ kcp.rcv_queue hqoff hjm
    have hheld : ∃ s, (s ∈ (rcv_part kcp).rcv_queue ∨ s ∈ (rcv_part kcp).rcv_buf) ∧
        s.sn = r.sn :=
      ⟨s, Or.inl hs, sn_offset_inj base _ _ (hmemb s (Or.inl hs)).1 hr hso⟩
    have hres := RcvInv_same base n A (rcv_part kcp) r hinv0 hheld
    rw [if_neg h2]
    split
    · rw [hack]; exact ⟨hres, ha_wnd⟩
    · exact ⟨hres, rfl⟩
  · have h1 : _itimediff r.sn ((kcp.rcv_nxt + kcp.rcv_wnd) % 4294967296) < 0 := by
      rw [hnxt']
      exact itimediff_window base r.sn m kcp.rcv_wnd (by omega) (by omega) hw2
    have h2 : _itimediff r.sn kcp.rcv_nxt ≥ 0 := by rw [hdiff]; omega
    rw [if_pos h1, if_pos h2]
    have hbuf' : ∀ s ∈ (ikcp_ack_push kcp r.sn r.ts).rcv_buf, s.sn < 4294967296 ∧
        m < sn_offset base s.sn ∧ sn_offset base s.sn < n := by
      intro s hs
      rw [ha_buf] at hs
      exact ⟨(hmemb s (Or.inr hs)).1, hbuf s hs⟩
    obtain ⟨hwnd, hdup, hnew⟩ := ikcp_parse_data_step base n m (ikcp_ack_push kcp r.sn r.ts)
      (stored_seg r) (by rw [ha_nxt]; exact hnxt') (by rw [ha_nq]; exact hnq')
      (by rw [ha_buf]; exact hsorted) hbuf' hr (by show m ≤ sn_offset base r.sn; omega)
      hoff (by rw [ha_wnd]; exact hw) (by rw [ha_wnd]; exact hw2)
    refine ⟨?_, by rw [hwnd, ha_wnd]⟩
    by_cases hex : ∃ s ∈ (ikcp_ack_push kcp r.sn r.ts).rcv_buf, s.sn = (stored_seg r).sn
    · rw [hdup hex, hack]
      obtain ⟨s, hs, hsn⟩ := hex
      rw [ha_buf] at hs
      exact RcvInv_same base n A (rcv_part kcp) r hinv0 ⟨s, Or.inr hs, hsn⟩
    · obtain ⟨buf, k, hbs, hbm, hq', hb', hn', hnq2, htake, hdrop⟩ := hnew hex
      rw [ha_que] at hq'
      have hbm' : ∀ x, x ∈ buf ↔ x = stored_seg r ∨ x ∈ kcp.rcv_buf := by
        intro x; rw [hbm x, ha_buf]
      have hboff : ∀ x ∈ buf, sn_offset base x.sn < n := by
        intro x hx
        rcases (hbm' x).mp hx with h | h
        · rw [h]; exact hoff
        · exact (hbuf x h).2
      have hnotA : ∀ x ∈ A, x.sn ≠ r.sn := by
        intro x hx hxs
        obtain ⟨s, hs, hsn⟩ := hcov x hx
        rcases hs with hs | hs
        · have := offset_lt_of_mem_queue base m kcp.rcv_queue s hqoff hs
          rw [hsn, hxs] at this
          exact hjm this
        · exact hex ⟨s, by rw [ha_buf]; exact hs, by rw [hsn, hxs]; rfl⟩
      have hmk : m + k ≤ n := by
        cases k with
        | zero => exact hmn
        | succ k' =>
          have hlen : ((buf.take (k' + 1)).map (fun s => sn_offset base s.sn)).length =
              k' + 1 := by rw [htake, List.length_range']
          have hmem : m + k' ∈ (buf.take (k' + 1)).map (fun s => sn_offset base s.sn) := by
            rw [htake, List.mem_range']
            exact ⟨k', by omega, by omega⟩
          obtain ⟨x, hx, hxo⟩ := List.mem_map.mp hmem
          have := hboff x (List.mem_of_mem_take hx)
          omega
      have hsplit : ∀ x, x ∈ buf → x ∈ buf.take k ∨ x ∈ buf.drop k := by
        intro x hx
        rw [← List.take_append_drop k buf] at hx
        exact List.mem_append.mp hx
      refine ⟨m + k, hmk, hn', hnq2, ?_, ?_, ?_, ?_, ?_⟩
      · show (ikcp_parse_data _ _).rcv_queue.map _ = _
        rw [hq', List.map_append, hqoff, htake]
        have happ := List.range'_append 0 m k 1
        rw [Nat.zero_add, Nat.one_mul, Nat.add_comm k m] at happ
        exact happ
      · show (ikcp_parse_data _ _).rcv_buf.Pairwise _
        rw [hb']
        exact List.Pairwise.sublist (List.drop_sublist k buf) hbs
      · intro s hs
        have hs' : s ∈ buf.drop k := by rw [← hb']; exact hs
        exact ⟨hdrop s hs', hboff s (List.mem_of_mem_drop hs')⟩
      · intro s hs
        have hs' : s ∈ kcp.rcv_queue ∨ s ∈ buf := by
          rcases hs with h | h
          · have h' : s ∈ kcp.rcv_queue ++ buf.take k := by rw [← hq']; exact h
            rcases List.mem_append.mp h' with h'' | h''
            · exact Or.inl h''
            · exact Or.inr (List.mem_of_mem_take h'')
          · have h' : s ∈ buf.drop k := by rw [← hb']; exact h
            exact Or.inr (List.mem_of_mem_drop h')
        have hold : s ∈ kcp.rcv_queue ∨ s ∈ kcp.rcv_buf → s.sn < 4294967296 ∧
            ∃ r0, (A ++ [r]).find? (fun x => decide (x.sn = s.sn)) = some r0 ∧
              s = stored_seg r0 := by
          intro h
          obtain ⟨h1, r0, h2, h3⟩ := hmemb s h
          exact ⟨h1, r0, find_append_left A r r0 s.sn h2, h3⟩
        rcases hs' with h | h
        · exact hold (Or.inl h)
        · rcases (hbm' s).mp h with h' | h'
          · rw [h']
            exact ⟨hr, r, find_append_new A r hnotA, rfl⟩
          · exact hold (Or.inr h')
      · intro r' hr'
        have hin : ∀ s, s ∈ kcp.rcv_queue ∨ s ∈ buf →
            s ∈ (rcv_part (ikcp_parse_data (ikcp_ack_push kcp r.sn r.ts)
              (stored_seg r))).rcv_queue ∨
            s ∈ (rcv_part (ikcp_parse_data (ikcp_ack_push kcp r.sn r.ts)
              (stored_seg r))).rcv_buf := by
          intro s hs
          show s ∈ (ikcp_parse_data _ _).rcv_queue ∨ s ∈ (ikcp_parse_data _ _).rcv_buf
          rw [hq', hb']
          rcases hs with h | h
          · exact Or.inl (List.mem_append_left _ h)
          · rcases hsplit s h with h' | h'
            · exact Or.inl (List.mem_append_right _ h')
            · exact Or.inr h'
        rcases List.mem_append.mp hr' with h | h
        · obtain ⟨s, hs, hsn⟩ := hcov r' h
          refine ⟨s, hin s ?_, hsn⟩
          rcases hs with hs | hs
          · exact Or.inl hs
          · exact Or.inr ((hbm' s).mpr (Or.inr hs))
        · rw [List.mem_singleton.mp h]
          exact ⟨stored_seg r, hin _ (Or.inr ((hbm' _).mpr (Or.inl rfl))), rfl⟩

theorem ikcp_input_cwnd_conv (kcp : IKCPCB) (prev_una : Nat) :
    (ikcp_input_cwnd kcp prev_una).conv = kcp.conv := by
  unfold ikcp_input_cwnd
  simp only []
  split_ifs <;> rfl

/-- One call of `ikcp_input` on a datagram holding a single in-window PUSH record
returns 0 and keeps the receive-side invariant. -/
theorem ikcp_input_push_record_inv (base n : Nat) (A : List IKCPSEG) (kcp : IKCPCB)
    (r : IKCPSEG) (hconv : kcp.conv < 4294967296) (hv : valid_record kcp.conv r)
    (hp : r.cmd = IKCP_CMD_PUSH) (hsz : 24 + r.data.length < 2147483648)
    (hinv : RcvInv base n A (rcv_part kcp)) (hw : n ≤ kcp.rcv_wnd)
    (hw3 : kcp.rcv_wnd < 2147483648) (hoff : sn_offset base r.sn < n) :
    (ikcp_input kcp (some (record_bytes r))).1 = 0 ∧
    RcvInv base n (A ++ [r]) (rcv_part (ikcp_input kcp (some (record_bytes r))).2) ∧
    (ikcp_input kcp (some (record_bytes r))).2.rcv_wnd = kcp.rcv_wnd ∧
    (ikcp_input kcp (some (record_bytes r))).2.conv = kcp.conv := by
  rw [ikcp_input_single_push kcp r hconv hv hp hsz]
  have hfr := ikcp_input_una_rcv kcp r.wnd r.una
  have hwnd0 : (ikcp_shrink_buf (ikcp_parse_una { kcp with rmt_wnd := r.wnd } r.una)).rcv_wnd =
      kcp.rcv_wnd := congrArg RcvPart.rcv_wnd hfr
  obtain ⟨h1, h2⟩ := ikcp_input_push_inv base n A
    (ikcp_shrink_buf (ikcp_parse_una { kcp with rmt_wnd := r.wnd } r.una)) r
    (by rw [hfr]; exact hinv) (by rw [hwnd0]; exact hw) (by rw [hwnd0]; exact hw3)
    hv.2.2.2.2.2.1 hoff hv.2.2.2.2.2.2.2.1
  refine ⟨rfl, ?_, ?_, ?_⟩
  · show RcvInv base n (A ++ [r]) (rcv_part (ikcp_input_cwnd _ _))
    rw [ikcp_input_cwnd_rcv]; exact h1
  · show (ikcp_input_cwnd _ _).rcv_wnd = kcp.rcv_wnd
    have := congrArg RcvPart.rcv_wnd (ikcp_input_cwnd_rcv
      (ikcp_input_push
        (ikcp_shrink_buf (ikcp_parse_una { kcp with rmt_wnd := r.wnd } r.una))
        r.conv r.cmd r.frg r.wnd r.ts r.sn r.una r.len r.data) kcp.snd_una)
    exact this.trans (h2.trans hwnd0)
  · show (ikcp_input_cwnd _ _).conv = kcp.conv
    rw [ikcp_input_cwnd_conv, ikcp_input_push_conv, ikcp_input_record_conv]

/-- Feeding a sequence of in-window PUSH records, one datagram each: every call
returns 0 and the receive-side invariant holds for all records fed so far. -/
theorem ikcp_input_all_inv (base n : Nat) : ∀ (recs A : List IKCPSEG) (kcp : IKCPCB),
    kcp.conv < 4294967296 → RcvInv base n A (rcv_part kcp) → n ≤ kcp.rcv_wnd →
    kcp.rcv_wnd < 2147483648 →
    (∀ r ∈ recs, valid_record kcp.conv r ∧ r.cmd = IKCP_CMD_PUSH ∧
      24 + r.data.length < 2147483648 ∧ sn_offset base r.sn < n) →
    (∀ c ∈ (ikcp_input_all kcp (recs.map record_bytes)).1, c = 0) ∧
    RcvInv base n (A ++ recs) (rcv_part (ikcp_input_all kcp (recs.map record_bytes)).2) := by
  intro recs
  induction recs with
  | nil =>
    intro A kcp _ hinv _ _ _
    refine ⟨?_, ?_⟩
    · intro c hc
      exact absurd hc (List.not_mem_nil c)
    · rw [List.append_nil]; exact hinv
  | cons r t ih =>
    intro A kcp hconv hinv hw hw3 hall
    obtain ⟨hv, hp, hsz, hoff⟩ := hall r (List.mem_cons_self r t)
    obtain ⟨h0, hinv', hwnd, hc⟩ :=
      ikcp_input_push_record_inv base n A kcp r hconv hv hp hsz hinv hw hw3 hoff
    obtain ⟨hz, hfin⟩ := ih (A ++ [r]) (ikcp_input kcp (some (record_bytes r))).2
      (by rw [hc]; exact hconv) hinv' (by rw [hwnd]; exact hw) (by rw [hwnd]; exact hw3)
      (by
        intro x hx
        rw [hc]
        exact hall x (List.mem_cons_of_mem r hx))
    rw [List.map_cons, ikcp_input_all]
    refine ⟨?_, ?_⟩
    · intro c hcm
      rcases List.mem_cons.mp hcm with h | h
      · rw [h]; exact h0
      · exact hz c h
    · have : A ++ r :: t = (A ++ [r]) ++ t := by rw [List.append_assoc]; rfl
      rw [this]
      exact hfin

/-- The receive-side invariant of a control block with empty `rcv_buf` and
`rcv_queue` before any record has arrived. -/
theorem RcvInv_init (n : Nat) (kcp : IKCPCB) (hb : kcp.rcv_buf = []) (hq : kcp.rcv_queue = [])
    (hnq : kcp.nrcv_que = 0) (hnxt : kcp.rcv_nxt < 4294967296) :
    RcvInv kcp.rcv_nxt n [] (rcv_part kcp) := by
  refine ⟨0, Nat.zero_le n, ?_, hnq, ?_, ?_, ?_, ?_, ?_⟩
  · show kcp.rcv_nxt = (kcp.rcv_nxt + 0) % 4294967296
    omega
  · show kcp.rcv_queue.map _ = _
    rw [hq]; rfl
  · show kcp.rcv_buf.Pairwise _
    rw [hb]; exact List.Pairwise.nil
  · intro s hs
    have hs' : s ∈ kcp.rcv_buf := hs
    rw [hb] at hs'
    exact absurd hs' (List.not_mem_nil s)
  · intro s hs
    have hs' : s ∈ kcp.rcv_queue ∨ s ∈ kcp.rcv_buf := hs
    rw [hb, hq] at hs'
    rcases hs' with h | h <;> exact absurd h (List.not_mem_nil s)
  · intro r hr
    exact absurd hr (List.not_mem_nil r)

/-- When every expected sequence number has arrived, the invariant pins the receive
side down: `rcv_buf` is empty and `rcv_queue` lists, in ascending order of sequence
number, the stored segment of the first-arrived record of each number. -/
theorem RcvInv_complete (base n : Nat) (A : List IKCPSEG) (p : RcvPart)
    (hn : n < 4294967296) (hinv : RcvInv base n A p)
    (hcover : ∀ i < n, ∃ r ∈ A, r.sn = (base + i) % 4294967296) :
    p.rcv_nxt = (base + n) % 4294967296 ∧ p.nrcv_que = n ∧ p.rcv_buf = [] ∧
    p.rcv_queue.map (fun s => s.sn) =
      (List.range n).map (fun i => (base + i) % 4294967296) ∧
    p.rcv_queue.map some =
      (List.range n).map (fun i =>
        (A.find? (fun x => decide (x.sn = (base + i) % 4294967296))).map stored_seg) := by
  obtain ⟨m, hmn, hnxt, hnq, hqoff, hsorted, hbuf, hmemb, hcov⟩ := hinv
  have hm : m = n := by
    rcases Nat.lt_or_ge m n with hlt | hge
    · exfalso
      obtain ⟨r, hr, hrsn⟩ := hcover m hlt
      obtain ⟨s, hs, hsn⟩ := hcov r hr
      have hso : sn_offset base s.sn = m := by
        rw [hsn, hrsn]; exact sn_offset_add base m (by omega)
      rcases hs with hs | hs
      · have := offset_lt_of_mem_queue base m p.rcv_queue s hqoff hs
        omega
      · have := (hbuf s hs).1
        omega
    · omega
  subst hm
  have hbnil : p.rcv_buf = [] := by
    cases hpb : p.rcv_buf with
    | nil => rfl
    | cons s t =>
      have := hbuf s (by rw [hpb]; exact List.mem_cons_self s t)
      omega
  have hsn : p.rcv_queue.map (fun s => s.sn) =
      (List.range m).map (fun i => (base + i) % 4294967296) := by
    have h1 : p.rcv_queue.map (fun s => s.sn) =
        (p.rcv_queue.map (fun s => sn_offset base s.sn)).map
          (fun i => (base + i) % 4294967296) := by
      rw [List.map_map]
      apply List.map_congr_left
      intro s hs
      exact sn_of_offset base s.sn (hmemb s (Or.inl hs)).1
    rw [h1, hqoff, List.range_eq_range']
  refine ⟨hnxt, hnq, hbnil, hsn, ?_⟩
  have h2 : p.rcv_queue.map some =
      (p.rcv_queue.map (fun s => s.sn)).map
        (fun x => (A.find? (fun y => decide (y.sn = x))).map stored_seg) := by
    rw [List.map_map]
    apply List.map_congr_left
    intro s hs
    obtain ⟨_, r, hf, hst⟩ := hmemb s (Or.inl hs)
    show some s = (A.find? (fun y => decide (y.sn = s.sn))).map stored_seg
    rw [hf, hst]; rfl
  rw [h2, hsn, List.map_map]
  rfl

/-- C2: delivery is independent of arrival order and of duplicates. Take a control
block with empty `rcv_buf` and `rcv_queue` (so `nrcv_que = 0`), its 32-bit fields in
range and `rcv_wnd` below 2^31 (it is set from an `int`), and a sequence `recs` of
well-formed PUSH records of its conversation, each fed to `ikcp_input` as one
datagram, whose sequence numbers are exactly `rcv_nxt, ..., rcv_nxt + n - 1` (modulo
2^32) with `n ≤ rcv_wnd`, in any order and with any repetitions. Then every call
returns 0, `rcv_nxt` has advanced by `n`, `rcv_buf` is empty, and `rcv_queue` holds
exactly `n` segments, with sequence numbers `rcv_nxt, ..., rcv_nxt + n - 1` in this
order, the one for each number being the segment stored for the first record of
`recs` with that number (its header fields and its payload). -/
theorem C2_delivery_order_independent (kcp : IKCPCB) (recs : List IKCPSEG) (n : Nat)
    (hb : kcp.rcv_buf = []) (hq : kcp.rcv_queue = []) (hnq : kcp.nrcv_que = 0)
    (hnxt : kcp.rcv_nxt < 4294967296) (hconv : kcp.conv < 4294967296)
    (hw3 : kcp.rcv_wnd < 2147483648) (hn : n ≤ kcp.rcv_wnd)
    (hrec : ∀ r ∈ recs, valid_record kcp.conv r ∧ r.cmd = IKCP_CMD_PUSH ∧
      24 + r.data.length < 2147483648)
    (hsub : ∀ r ∈ recs, ∃ i, i < n ∧ r.sn = (kcp.rcv_nxt + i) % 4294967296)
    (hcover : ∀ i, i < n → ∃ r ∈ recs, r.sn = (kcp.rcv_nxt + i) % 4294967296) :
    (∀ c ∈ (ikcp_input_all kcp (recs.map record_bytes)).1, c = 0) ∧
    (ikcp_input_all kcp (recs.map record_bytes)).2.rcv_nxt =
      (kcp.rcv_nxt + n) % 4294967296 ∧
    (ikcp_input_all kcp (recs.map record_bytes)).2.rcv_buf = [] ∧
    (ikcp_input_all kcp (recs.map record_bytes)).2.nrcv_que = n ∧
    (ikcp_input_all kcp (recs.map record_bytes)).2.rcv_queue.length = n ∧
    (ikcp_input_all kcp (recs.map record_bytes)).2.rcv_queue.map (fun s => s.sn) =
      (List.range n).map (fun i => (kcp.rcv_nxt + i) % 4294967296) ∧
    (ikcp_input_all kcp (recs.map record_bytes)).2.rcv_queue.map some =
      (List.range n).map (fun i =>
        (recs.find? (fun x => decide (x.sn = (kcp.rcv_nxt + i) % 4294967296))).map
          stored_seg) := by
  have hn32 : n < 4294967296 := by omega
  have hall : ∀ r ∈ recs, valid_record kcp.conv r ∧ r.cmd = IKCP_CMD_PUSH ∧
      24 + r.data.length < 2147483648 ∧ sn_offset kcp.rcv_nxt r.sn < n := by
    intro r hr
    obtain ⟨h1, h2, h3⟩ := hrec r hr
    obtain ⟨i, hi, hsn⟩ := hsub r hr
    refine ⟨h1, h2, h3, ?_⟩
    rw [hsn, sn_offset_add kcp.rcv_nxt i (by omega)]
    exact hi
  obtain ⟨hz, hinv⟩ := ikcp_input_all_inv kcp.rcv_nxt n recs [] kcp hconv
    (RcvInv_init n kcp hb hq hnq hnxt) hn hw3 hall
  rw [List.nil_append] at hinv
  obtain ⟨h1, h2, h3, h4, h5⟩ := RcvInv_complete kcp.rcv_nxt n recs _ hn32 hinv hcover
  refine ⟨hz, h1, h3, h2, ?_, h4, h5⟩
  have hl := congrArg List.length h4
  rw [List.length_map, List.length_map, List.length_range] at hl
  exact hl

theorem C2_delivery_order_independent_witness :
    (∀ c ∈ (ikcp_input_all kcpNearWrap (shuffledRecords.map record_bytes)).1, c = 0) ∧
    (ikcp_input_all kcpNearWrap (shuffledRecords.map record_bytes)).2.rcv_nxt =
      (kcpNearWrap.rcv_nxt + 3) % 4294967296 ∧
    (ikcp_input_all kcpNearWrap (shuffledRecords.map record_bytes)).2.rcv_buf = [] ∧
    (ikcp_input_all kcpNearWrap (shuffledRecords.map record_bytes)).2.nrcv_que = 3 ∧
    (ikcp_input_all kcpNearWrap (shuffledRecords.map record_bytes)).2.rcv_queue.length = 3 ∧
    (ikcp_input_all kcpNearWrap (shuffledRecords.map record_bytes)).2.rcv_queue.map
        (fun s => s.sn) =
      (List.range 3).map (fun i => (kcpNearWrap.rcv_nxt + i) % 4294967296) ∧
    (ikcp_input_all kcpNearWrap (shuffledRecords.map record_bytes)).2.rcv_queue.map some =
      (List.range 3).map (fun i =>
        (shuffledRecords.find?
          (fun x => decide (x.sn = (kcpNearWrap.rcv_nxt + i) % 4294967296))).map
          stored_seg) :=
  C2_delivery_order_independent kcpNearWrap shuffledRecords 3 rfl rfl rfl (by decide)
    (by decide) (by decide) (by decide)
    (by
      intro r hr
      simp only [shuffledRecords, List.mem_cons, List.mem_singleton, List.not_mem_nil,
        or_false] at hr
      rcases hr with h | h | h | h | h <;> subst h <;>
        exact ⟨⟨rfl, Or.inl rfl, by decide, by decide, by decide, by decide, by decide, rfl,
          by decide⟩, rfl, by decide⟩)
    (by
      intro r hr
      simp only [shuffledRecords, List.mem_cons, List.mem_singleton, List.not_mem_nil,
        or_false] at hr
      rcases hr with h | h | h | h | h <;> subst h
      · exact ⟨2, by decide, rfl⟩
      · exact ⟨0, by decide, rfl⟩
      · exact ⟨1, by decide, rfl⟩
      · exact ⟨0, by decide, rfl⟩
      · exact ⟨2, by decide, rfl⟩)
    (by
      intro i hi
      have hc : i = 0 ∨ i = 1 ∨ i = 2 := by omega
      rcases hc with h | h | h <;> subst h
      · exact ⟨pushRecord 7 4294967295 [10], by simp [shuffledRecords], rfl⟩
      · exact ⟨pushRecord 7 0 [20], by simp [shuffledRecords], rfl⟩
      · exact ⟨pushRecord 7 1 [30], by simp [shuffledRecords], rfl⟩)

/-! ## The first flush of a fresh sender -/

theorem i32_of_range (x : Int) (h0 : -2147483648 ≤ x) (h1 : x < 2147483648) : i32 x = x := by
  unfold i32; split <;> omega

theorem itimediff_of_range (a b : Nat) (h0 : (a : Int) - b < 2147483648)
    (h1 : -2147483648 ≤ (a : Int) - b) : _itimediff a b = (a : Int) - b := by
  unfold _itimediff
  exact i32_of_range _ h1 h0

theorem ikcp_output_nil (outs : List (List Nat)) : ikcp_output outs [] = outs := rfl

theorem ikcp_output_cons (outs : List (List Nat)) (d : List Nat) (h : d ≠ []) :
    ikcp_output outs d = outs ++ [d] := by
  unfold ikcp_output
  rw [if_neg]
  intro h0
  exact h (List.eq_nil_of_length_eq_zero h0)

/-- The room check of `ikcp_flush` before a record of `need` bytes, when the buffer is
empty or already holds a full datagram. -/
theorem ikcp_flush_room_full (kcp : IKCPCB) (need : Int) (st : FlushState)
    (hmtu : kcp.mtu = 1400) (hn0 : 0 < need) (hn1 : need ≤ 1400)
    (hp : st.ptr = [] ∨ st.ptr.length = 1400) :
    (ikcp_flush_room kcp need st).ptr = [] ∧
    (ikcp_flush_room kcp need st).outs = ikcp_output st.outs st.ptr ∧
    (ikcp_flush_room kcp need st).state = st.state := by
  have hm : i32 ((kcp.mtu : Nat) : Int) = 1400 := by rw [hmtu]; decide
  unfold ikcp_flush_room
  rcases hp with h | h
  · have h0 : i32 ((st.ptr.length : Nat) : Int) = 0 := by rw [h]; decide
    rw [h0, hm, if_neg (by omega)]
    exact ⟨h, by rw [h]; rfl, rfl⟩
  · have h0 : i32 ((st.ptr.length : Nat) : Int) = 1400 := by rw [h]; decide
    rw [h0, hm, if_pos (by omega)]
    exact ⟨rfl, rfl, rfl⟩

/-- A segment that was never sent is sent by `ikcp_flush`. -/
theorem ikcp_flush_decide_fresh (kcp : IKCPCB) (current resent rtomin : Nat)
    (segment : IKCPSEG) (st : FlushState) (h : segment.xmit = 0) :
    ikcp_flush_decide kcp current resent rtomin segment st =
      ({ segment with
          xmit := (segment.xmit + 1) % 4294967296
          rto := u32 kcp.rx_rto
          resendts := (current + u32 kcp.rx_rto + rtomin) % 4294967296 }, 1, st) := by
  unfold ikcp_flush_decide
  rw [if_pos h]

/-- The data loop of `ikcp_flush` over never-sent segments of which all but the last
fill a datagram: one datagram per segment, in order. -/
theorem ikcp_flush_data_fresh (kcp : IKCPCB) (current resent rtomin wnd : Nat)
    (hmtu : kcp.mtu = 1400) :
    ∀ (segs : List IKCPSEG) (st : FlushState),
    (st.ptr = [] ∨ st.ptr.length = 1400) →
    (∀ s ∈ segs, s.xmit = 0 ∧ s.len = s.data.length ∧ s.len ≤ 1376) →
    (∀ s ∈ segs.dropLast, s.len = 1376) →
    ikcp_output (ikcp_flush_data kcp current resent rtomin wnd segs st).2.outs
        (ikcp_flush_data kcp current resent rtomin wnd segs st).2.ptr =
      ikcp_output st.outs st.ptr ++
        segs.map (fun s =>
          record_bytes { s with ts := current, wnd := wnd, una := kcp.rcv_nxt }) ∧
    (ikcp_flush_data kcp current resent rtomin wnd segs st).2.ptr.length ≤ 1400 := by
  intro segs
  induction segs with
  | nil =>
    intro st hp _ _
    refine ⟨by rw [ikcp_flush_data, List.map_nil, List.append_nil], ?_⟩
    rw [ikcp_flush_data]
    rcases hp with h | h <;> rw [h]
    exact Nat.zero_le _
  | cons s rest ih =>
    intro st hp hall hfull
    obtain ⟨hx, hlen, hle⟩ := hall s (List.mem_cons_self s rest)
    have hneed : i32 (((IKCP_OVERHEAD + s.len : Nat)) : Int) = ((24 + s.len : Nat) : Int) := by
      show i32 (((24 + s.len : Nat)) : Int) = _
      exact i32_of_range _ (by omega) (by omega)
    obtain ⟨hr1, hr2, hr3⟩ := ikcp_flush_room_full kcp ((24 + s.len : Nat) : Int) st hmtu
      (by omega) (by omega) hp
    rw [ikcp_flush_data, ikcp_flush_decide_fresh kcp current resent rtomin s st hx]
    simp only [ne_eq, one_ne_zero, not_false_eq_true, if_true]
    rw [hneed]
    have hptr : (if s.len > 0 then
          (ikcp_flush_room kcp ((24 + s.len : Nat) : Int) st).ptr ++
            ikcp_encode_seg
              { s with
                xmit := (s.xmit + 1) % 4294967296, rto := u32 kcp.rx_rto
                resendts := (current + u32 kcp.rx_rto + rtomin) % 4294967296
                ts := current, wnd := wnd, una := kcp.rcv_nxt } ++ s.data.take s.len
        else
          (ikcp_flush_room kcp ((24 + s.len : Nat) : Int) st).ptr ++
            ikcp_encode_seg
              { s with
                xmit := (s.xmit + 1) % 4294967296, rto := u32 kcp.rx_rto
                resendts := (current + u32 kcp.rx_rto + rtomin) % 4294967296
                ts := current, wnd := wnd, una := kcp.rcv_nxt }) =
        record_bytes { s with ts := current, wnd := wnd, una := kcp.rcv_nxt } := by
      rw [hr1, List.nil_append]
      show _ = ikcp_encode_seg { s with ts := current, wnd := wnd, una := kcp.rcv_nxt } ++ s.data
      by_cases h0 : s.len > 0
      · rw [if_pos h0, hlen, List.take_length]
        rfl
      · rw [if_neg h0]
        have : s.data.length = 0 := by omega
        rw [List.eq_nil_of_length_eq_zero this, List.append_nil]
        rfl
    rw [hptr, hr2]
    have hwl : (record_bytes { s with ts := current, wnd := wnd, una := kcp.rcv_nxt }).length =
        24 + s.len := by
      rw [record_bytes_length, hlen]
    have hwne : record_bytes { s with ts := current, wnd := wnd, una := kcp.rcv_nxt } ≠ [] := by
      intro h
      rw [h] at hwl
      exact absurd hwl (by show ¬ (0 = 24 + s.len); omega)
    cases rest with
    | nil =>
      rw [ikcp_flush_data]
      refine ⟨?_, ?_⟩
      · show ikcp_output (ikcp_output st.outs st.ptr) (record_bytes _) = _
        rw [ikcp_output_cons _ _ hwne]
        rfl
      · show (record_bytes _).length ≤ 1400
        rw [hwl]; omega
    | cons s2 rest2 =>
      have hs : s.len = 1376 := hfull s (by simp [List.dropLast])
      obtain ⟨h1, h2⟩ := ih
        { ptr := record_bytes { s with ts := current, wnd := wnd, una := kcp.rcv_nxt }
          outs := ikcp_output st.outs st.ptr
          change := (ikcp_flush_room kcp ((24 + s.len : Nat) : Int) st).change
          lost := (ikcp_flush_room kcp ((24 + s.len : Nat) : Int) st).lost
          xmit := (ikcp_flush_room kcp ((24 + s.len : Nat) : Int) st).xmit
          state := if (s.xmit + 1) % 4294967296 ≥ kcp.dead_link then 4294967295
            else (ikcp_flush_room kcp ((24 + s.len : Nat) : Int) st).state }
        (Or.inr (by show (record_bytes _).length = 1400; rw [hwl, hs]))
        (fun x hx => hall x (List.mem_cons_of_mem s hx))
        (fun x hx => hfull x (by
          rw [List.dropLast_cons₂]
          exact List.mem_cons_of_mem s hx))
      refine ⟨?_, h2⟩
      rw [h1]
      show ikcp_output (ikcp_output st.outs st.ptr) (record_bytes _) ++ _ = _
      rw [ikcp_output_cons _ _ hwne, List.append_assoc]
      rfl

/-- The promotion loop of `ikcp_flush` when the window has room for the whole
`snd_queue`: every segment moves to `snd_buf`, numbered from `snd_nxt` on. -/
theorem ikcp_flush_promote_all (cwnd wnd current : Nat) :
    ∀ (segs : List IKCPSEG) (kcp : IKCPCB),
    kcp.snd_una + cwnd < 2147483648 → kcp.snd_nxt + segs.length ≤ kcp.snd_una + cwnd →
    ∃ buf : List IKCPSEG,
      (ikcp_flush_promote cwnd wnd current kcp segs).snd_buf = kcp.snd_buf ++ buf ∧
      (ikcp_flush_promote cwnd wnd current kcp segs).rcv_nxt = kcp.rcv_nxt ∧
      (ikcp_flush_promote cwnd wnd current kcp segs).mtu = kcp.mtu ∧
      buf.map (fun s => s.sn) = List.range' kcp.snd_nxt segs.length ∧
      buf.map (fun s => (s.frg, s.len, s.data)) = segs.map (fun s => (s.frg, s.len, s.data)) ∧
      ∀ s ∈ buf, s.conv = kcp.conv ∧ s.cmd = IKCP_CMD_PUSH ∧ s.xmit = 0 := by
  intro segs
  induction segs with
  | nil =>
    intro kcp _ _
    exact ⟨[], by rw [ikcp_flush_promote, List.append_nil], rfl, rfl, rfl, rfl,
      fun s hs => absurd hs (List.not_mem_nil s)⟩
  | cons s rest ih =>
    intro kcp h1 h2
    rw [List.length_cons] at h2
    have hmod : (kcp.snd_una + cwnd) % 4294967296 = kcp.snd_una + cwnd :=
      Nat.mod_eq_of_lt (by omega)
    have hnx : (kcp.snd_nxt + 1) % 4294967296 = kcp.snd_nxt + 1 :=
      Nat.mod_eq_of_lt (by omega)
    have hd : _itimediff kcp.snd_nxt ((kcp.snd_una + cwnd) % 4294967296) < 0 := by
      rw [hmod, itimediff_of_range _ _ (by omega) (by omega)]
      omega
    rw [ikcp_flush_promote, if_pos hd]
    simp only []
    obtain ⟨buf, e1, e2, e3, e4, e5, e6⟩ := ih
      { kcp with
        snd_queue := rest
        snd_buf := kcp.snd_buf ++
          [{ s with
              conv := kcp.conv, cmd := IKCP_CMD_PUSH, wnd := wnd, ts := current
              sn := kcp.snd_nxt, una := kcp.rcv_nxt, resendts := current
              rto := u32 kcp.rx_rto, fastack := 0, xmit := 0 }]
        nsnd_que := u32 ((kcp.nsnd_que : Int) - 1)
        nsnd_buf := (kcp.nsnd_buf + 1) % 4294967296
        snd_nxt := (kcp.snd_nxt + 1) % 4294967296 }
      h1 (by
        show (kcp.snd_nxt + 1) % 4294967296 + rest.length ≤ kcp.snd_una + cwnd
        rw [hnx]; omega)
    refine ⟨{ s with
              conv := kcp.conv, cmd := IKCP_CMD_PUSH, wnd := wnd, ts := current
              sn := kcp.snd_nxt, una := kcp.rcv_nxt, resendts := current
              rto := u32 kcp.rx_rto, fastack := 0, xmit := 0 } :: buf, ?_, e2, e3, ?_, ?_, ?_⟩
    · rw [e1, List.append_assoc]; rfl
    · rw [List.map_cons, e4]
      show kcp.snd_nxt :: List.range' ((kcp.snd_nxt + 1) % 4294967296) rest.length = _
      rw [hnx]; rfl
    · rw [List.map_cons, List.map_cons, e5]
    · intro x hx
      rcases List.mem_cons.mp hx with h | h
      · rw [h]; exact ⟨rfl, rfl, rfl⟩
      · exact e6 x h

theorem itimediff_self (t : Nat) : _itimediff t t = 0 := by
  unfold _itimediff
  rw [Int.sub_self]
  rfl

/-- The first `ikcp_update` of a control block runs `ikcp_flush` at once. -/
theorem ikcp_update_first (kcp : IKCPCB) (t : Nat) (hu : kcp.updated = 0)
    (hi0 : 0 < kcp.interval) (hi1 : kcp.interval < 2147483648) :
    ikcp_update kcp t =
      ikcp_flush { kcp with
        current := t, updated := 1, ts_flush := (t + kcp.interval) % 4294967296 } := by
  have hd : ¬ _itimediff t ((t + kcp.interval) % 4294967296) ≥ 0 := by
    have : _itimediff t ((t + kcp.interval) % 4294967296) = -(kcp.interval : Int) := by
      unfold _itimediff i32
      split <;> omega
    rw [this]; omega
  have hdec : decide ((0 : Int) ≥ 10000 ∨ (0 : Int) < -10000) = false := by decide
  have h00 : (0 : Int) ≥ 0 := le_refl 0
  unfold ikcp_update
  simp only [hu, if_true, itimediff_self, hdec, Bool.false_eq_true, if_false, h00]
  rw [if_neg hd]

/-- The transmission part of `ikcp_flush` over never-sent segments, starting from an
empty buffer: one datagram per segment of `snd_buf`. -/
theorem ikcp_flush_send_fresh (kcp : IKCPCB) (current cwnd wnd : Nat) (st : FlushState)
    (hmtu : kcp.mtu = 1400) (hst : st.ptr = [])
    (hall : ∀ s ∈ kcp.snd_buf, s.xmit = 0 ∧ s.len = s.data.length ∧ s.len ≤ 1376)
    (hfull : ∀ s ∈ kcp.snd_buf.dropLast, s.len = 1376) :
    (ikcp_flush_send kcp current cwnd wnd st).2 =
      st.outs ++ kcp.snd_buf.map (fun s =>
        record_bytes { s with ts := current, wnd := wnd, una := kcp.rcv_nxt }) := by
  obtain ⟨h1, h2⟩ := ikcp_flush_data_fresh kcp current
    (if kcp.fastresend > 0 then u32 kcp.fastresend else 4294967295)
    (if kcp.nodelay = 0 then u32 (kcp.rx_rto / 8) else 0) wnd hmtu kcp.snd_buf st
    (Or.inl hst) hall hfull
  rw [hst, ikcp_output_nil] at h1
  have key : ∀ (outs : List (List Nat)) (ptr : List Nat), ptr.length ≤ 1400 →
      (if i32 (ptr.length : Int) > 0 then ikcp_output outs ptr else outs) =
        ikcp_output outs ptr := by
    intro outs ptr hp
    rw [i32_of_range _ (by omega) (by omega)]
    by_cases hz : (ptr.length : Int) > 0
    · rw [if_pos hz]
    · rw [if_neg hz]
      have hl : ptr.length = 0 := by omega
      rw [List.eq_nil_of_length_eq_zero hl, ikcp_output_nil]
  unfold ikcp_flush_send
  simp only []
  rw [key _ _ h2, h1]

/-- The datagrams of a flush with nothing to acknowledge, no probe pending, an open
remote window and congestion control off: those of the transmission part after the
promotion of `snd_queue` under a window of 32. -/
theorem ikcp_flush_first (kcp : IKCPCB) (hu : kcp.updated = 1) (hack : kcp.ackcount = 0)
    (hrmt : kcp.rmt_wnd = 128) (hsw : kcp.snd_wnd = 32) (hprobe : kcp.probe = 0)
    (hnc : kcp.nocwnd = 1) (hnq : kcp.nrcv_que = 0) (hrw : kcp.rcv_wnd = 128) :
    (ikcp_flush kcp).2 =
      (ikcp_flush_send
        (ikcp_flush_promote 32 128 kcp.current
          { kcp with ackcount := 0, ts_probe := 0, probe_wait := 0, probe := 0 }
          kcp.snd_queue)
        kcp.current 32 128
        { ptr := [], outs := [], change := 0, lost := 0, xmit := kcp.xmit,
          state := kcp.state }).2 := by
  have hwu : u32 (ikcp_wnd_unused kcp) = 128 := by
    unfold ikcp_wnd_unused
    rw [hnq, hrw]
    decide
  have hprobe1 : ikcp_flush_probe { kcp with ackcount := 0 } =
      { kcp with ackcount := 0, ts_probe := 0, probe_wait := 0 } := by
    unfold ikcp_flush_probe
    rw [if_neg (by show ¬ kcp.rmt_wnd = 0; rw [hrmt]; decide)]
  have hwin : ikcp_flush_window
      { kcp with ackcount := 0, ts_probe := 0, probe_wait := 0, probe := 0 } = 32 := by
    unfold ikcp_flush_window
    rw [if_neg (by show ¬ kcp.nocwnd = 0; rw [hnc]; decide)]
    show _imin_ kcp.snd_wnd kcp.rmt_wnd = 32
    rw [hsw, hrmt]; decide
  have hacks : ikcp_flush_acks kcp (i32 kcp.ackcount) (i32 kcp.ackcount).toNat 0
      (ikcp_flush_seg kcp)
      { ptr := [], outs := [], change := 0, lost := 0, xmit := kcp.xmit,
        state := kcp.state } =
      (ikcp_flush_seg kcp,
        { ptr := [], outs := [], change := 0, lost := 0, xmit := kcp.xmit,
          state := kcp.state }) := by
    rw [hack]
    rfl
  have hcmds : ∀ a : IKCPSEG × FlushState,
      ikcp_flush_cmds { kcp with ackcount := 0, ts_probe := 0, probe_wait := 0 } a = a.2 := by
    intro a
    unfold ikcp_flush_cmds
    simp only []
    rw [hprobe]
    rfl
  unfold ikcp_flush
  rw [if_neg (by rw [hu]; decide), hprobe1, hwu, hacks]
  unfold ikcp_flush_tail
  rw [hwin, hcmds]

/-! ## A fresh sender with congestion control off -/

/-- The members of a freshly created control block after `ikcp_nodelay` with
`nc = 1` that the first flush reads. -/
theorem ikcp_nodelay_fresh (conv : Nat) (nodelay interval resend : Int) (A : IKCPCB)
    (hA : A = (ikcp_nodelay (ikcp_create conv) nodelay interval resend 1).2) :
    A.conv = conv ∧ A.stream = 0 ∧ A.mss = 1376 ∧ A.mtu = 1400 ∧ A.snd_queue = [] ∧
    A.nsnd_que = 0 ∧ A.snd_buf = [] ∧ A.snd_nxt = 0 ∧ A.snd_una = 0 ∧ A.rmt_wnd = 128 ∧
    A.snd_wnd = 32 ∧ A.nocwnd = 1 ∧ A.updated = 0 ∧ A.ackcount = 0 ∧ A.probe = 0 ∧
    A.rcv_nxt = 0 ∧ A.nrcv_que = 0 ∧ A.rcv_wnd = 128 ∧
    0 < A.interval ∧ A.interval < 2147483648 := by
  have h1 : (1 : Int) ≥ 0 := by decide
  have hiv : 0 < u32 (if interval > 5000 then 5000 else if interval < 10 then 10 else interval) ∧
      u32 (if interval > 5000 then 5000 else if interval < 10 then 10 else interval) <
        2147483648 := by
    unfold u32
    split_ifs <;> omega
  subst hA
  unfold ikcp_nodelay
  simp only [h1, if_true]
  have hd : 0 < (ikcp_create conv).interval ∧ (ikcp_create conv).interval < 2147483648 := by
    show 0 < IKCP_INTERVAL ∧ IKCP_INTERVAL < 2147483648
    decide
  by_cases c1 : nodelay ≥ 0 <;> by_cases c2 : interval ≥ 0 <;> by_cases c3 : resend ≥ 0 <;>
    simp only [c1, c2, c3, if_true, if_false]
  all_goals
    refine ⟨rfl, rfl, rfl, rfl, rfl, rfl, rfl, rfl, rfl, rfl, rfl, trivial, rfl, rfl, rfl, rfl,
      rfl, rfl, ?_⟩
    first
      | exact hiv
      | exact hd

theorem triple_map_mem (l1 l2 : List IKCPSEG)
    (h : l1.map (fun s => (s.frg, s.len, s.data)) = l2.map (fun s => (s.frg, s.len, s.data)))
    (s : IKCPSEG) (hs : s ∈ l1) :
    ∃ s2 ∈ l2, s2.frg = s.frg ∧ s2.len = s.len ∧ s2.data = s.data := by
  have hm : (s.frg, s.len, s.data) ∈ l1.map (fun s => (s.frg, s.len, s.data)) :=
    List.mem_map.mpr ⟨s, hs, rfl⟩
  rw [h] at hm
  obtain ⟨s2, hs2, he⟩ := List.mem_map.mp hm
  have h1 := congrArg Prod.fst he
  have h2 := congrArg (fun p => p.2.1) he
  have h3 := congrArg (fun p => p.2.2) he
  exact ⟨s2, hs2, h1, h2, h3⟩

theorem triple_map_proj (l1 l2 : List IKCPSEG)
    (h : l1.map (fun s => (s.frg, s.len, s.data)) = l2.map (fun s => (s.frg, s.len, s.data))) :
    l1.map (fun s => s.frg) = l2.map (fun s => s.frg) ∧
    l1.map (fun s => s.len) = l2.map (fun s => s.len) ∧
    l1.map (fun s => s.data) = l2.map (fun s => s.data) := by
  have h1 := congrArg (List.map (fun p : Nat × Nat × List Nat => p.1)) h
  have h2 := congrArg (List.map (fun p : Nat × Nat × List Nat => p.2.1)) h
  have h3 := congrArg (List.map (fun p : Nat × Nat × List Nat => p.2.2)) h
  rw [List.map_map, List.map_map] at h1 h2 h3
  exact ⟨h1, h2, h3⟩

/-- The datagrams of the first `ikcp_update` of a sender whose `snd_queue` holds at
most 32 never-sent segments, all but the last of full size: one PUSH record per
datagram, numbered from 0 in queue order. -/
theorem ikcp_update_first_datagrams (kcp : IKCPCB) (t : Nat) (segs : List IKCPSEG)
    (hu : kcp.updated = 0) (hi0 : 0 < kcp.interval) (hi1 : kcp.interval < 2147483648)
    (hack : kcp.ackcount = 0) (hrmt : kcp.rmt_wnd = 128) (hsw : kcp.snd_wnd = 32)
    (hprobe : kcp.probe = 0) (hnc : kcp.nocwnd = 1) (hnq : kcp.nrcv_que = 0)
    (hrw : kcp.rcv_wnd = 128) (hmtu : kcp.mtu = 1400) (hq : kcp.snd_queue = segs)
    (hsb : kcp.snd_buf = []) (hnxt : kcp.snd_nxt = 0) (huna : kcp.snd_una = 0)
    (hlen : segs.length ≤ 32)
    (hall : ∀ s ∈ segs, s.len = s.data.length ∧ s.len ≤ 1376)
    (hfull : ∀ s ∈ segs.dropLast, s.len = 1376) :
    ∃ recs : List IKCPSEG,
      (ikcp_update kcp t).2 = recs.map record_bytes ∧
      recs.map (fun r => r.sn) = List.range' 0 segs.length ∧
      recs.map (fun r => (r.frg, r.len, r.data)) =
        segs.map (fun s => (s.frg, s.len, s.data)) ∧
      ∀ r ∈ recs, r.conv = kcp.conv ∧ r.cmd = IKCP_CMD_PUSH ∧ r.wnd = 128 ∧ r.ts = t ∧
        r.una = kcp.rcv_nxt := by
  subst hq
  obtain ⟨buf, e1, e2, e3, e4, e5, e6⟩ := ikcp_flush_promote_all 32 128 t kcp.snd_queue
    { kcp with
      current := t, updated := 1, ts_flush := (t + kcp.interval) % 4294967296,
      ackcount := 0, ts_probe := 0, probe_wait := 0, probe := 0 }
    (by show kcp.snd_una + 32 < 2147483648; rw [huna]; decide)
    (by show kcp.snd_nxt + kcp.snd_queue.length ≤ kcp.snd_una + 32; rw [hnxt, huna]; omega)
  have e1' : (ikcp_flush_promote 32 128 t
      { kcp with
        current := t, updated := 1, ts_flush := (t + kcp.interval) % 4294967296,
        ackcount := 0, ts_probe := 0, probe_wait := 0, probe := 0 } kcp.snd_queue).snd_buf = buf := by
    rw [e1]
    show kcp.snd_buf ++ buf = buf
    rw [hsb, List.nil_append]
  have e4' : buf.map (fun s => s.sn) = List.range' 0 kcp.snd_queue.length := by
    rw [e4]
    show List.range' kcp.snd_nxt kcp.snd_queue.length = _
    rw [hnxt]
  have hproj := triple_map_proj buf kcp.snd_queue e5
  have hbl : buf.dropLast.map (fun s => s.len) = kcp.snd_queue.dropLast.map (fun s => s.len) := by
    rw [List.map_dropLast, List.map_dropLast, hproj.2.1]
  have hall2 : ∀ s ∈ buf, s.xmit = 0 ∧ s.len = s.data.length ∧ s.len ≤ 1376 := by
    intro s hs
    obtain ⟨s2, hs2, _, h2, h3⟩ := triple_map_mem buf kcp.snd_queue e5 s hs
    have := hall s2 hs2
    rw [h2, h3] at this
    exact ⟨(e6 s hs).2.2, this⟩
  have hfull2 : ∀ s ∈ buf.dropLast, s.len = 1376 := by
    intro s hs
    have hm : s.len ∈ buf.dropLast.map (fun s => s.len) := List.mem_map.mpr ⟨s, hs, rfl⟩
    rw [hbl] at hm
    obtain ⟨s2, hs2, he⟩ := List.mem_map.mp hm
    rw [← he]
    exact hfull s2 hs2
  have hsend := ikcp_flush_send_fresh
    (ikcp_flush_promote 32 128 t
      { kcp with
        current := t, updated := 1, ts_flush := (t + kcp.interval) % 4294967296,
        ackcount := 0, ts_probe := 0, probe_wait := 0, probe := 0 } kcp.snd_queue)
    t 32 128
    { ptr := [], outs := [], change := 0, lost := 0, xmit := kcp.xmit, state := kcp.state }
    (e3.trans hmtu) rfl (by rw [e1']; exact hall2) (by rw [e1']; exact hfull2)
  have hout : (ikcp_update kcp t).2 =
      buf.map (fun s => record_bytes { s with ts := t, wnd := 128, una := kcp.rcv_nxt }) := by
    rw [ikcp_update_first kcp t hu hi0 hi1,
      ikcp_flush_first
        { kcp with current := t, updated := 1, ts_flush := (t + kcp.interval) % 4294967296 }
        rfl hack hrmt hsw hprobe hnc hnq hrw]
    show (ikcp_flush_send
        (ikcp_flush_promote 32 128 t
          { kcp with
            current := t, updated := 1, ts_flush := (t + kcp.interval) % 4294967296,
            ackcount := 0, ts_probe := 0, probe_wait := 0, probe := 0 } kcp.snd_queue)
        t 32 128
        { ptr := [], outs := [], change := 0, lost := 0, xmit := kcp.xmit,
          state := kcp.state }).2 = _
    rw [hsend, e1', e2]
    rfl
  refine ⟨buf.map (fun s => { s with ts := t, wnd := 128, una := kcp.rcv_nxt }), ?_, ?_, ?_, ?_⟩
  · rw [hout, List.map_map]
    rfl
  · rw [List.map_map]
    exact e4'
  · rw [List.map_map]
    exact e5
  · intro r hr
    obtain ⟨s, hs, he⟩ := List.mem_map.mp hr
    rw [← he]
    exact ⟨(e6 s hs).1, (e6 s hs).2.1, rfl, rfl, rfl⟩

/-! ## In-order arrival at a fresh receiver -/

theorem sn_offset_zero (sn : Nat) (h : sn < 4294967296) : sn_offset 0 sn = sn := by
  unfold sn_offset; omega

theorem find_of_nodup (l : List IKCPSEG) (hnd : (l.map (fun s => s.sn)).Nodup) :
    ∀ r ∈ l, l.find? (fun x => decide (x.sn = r.sn)) = some r := by
  induction l with
  | nil => intro r hr; exact absurd hr (List.not_mem_nil r)
  | cons a t ih =>
    intro r hr
    rw [List.map_cons, List.nodup_cons] at hnd
    by_cases hsn : a.sn = r.sn
    · have har : r = a := by
        rcases List.mem_cons.mp hr with h | h
        · exact h
        · exfalso
          apply hnd.1
          rw [hsn]
          exact List.mem_map.mpr ⟨r, h, rfl⟩
      rw [List.find?_cons_of_pos _ (by rw [decide_eq_true_eq]; exact hsn), har]
    · have hrt : r ∈ t := by
        rcases List.mem_cons.mp hr with h | h
        · rw [h] at hsn; exact absurd rfl hsn
        · exact h
      rw [List.find?_cons_of_neg _ (by rw [decide_eq_true_eq]; exact hsn)]
      exact ih hnd.2 r hrt

/-- Records that arrive in order of sequence number, numbered from 0, on a fresh
control block: every `ikcp_input` returns 0 and `rcv_queue` holds their stored
segments in the same order. -/
theorem ikcp_input_all_ordered (conv : Nat) (recs : List IKCPSEG) (hconv : conv < 4294967296)
    (hk : recs.length ≤ 128)
    (hsn : recs.map (fun r => r.sn) = List.range' 0 recs.length)
    (hv : ∀ r ∈ recs, valid_record conv r ∧ r.cmd = IKCP_CMD_PUSH ∧
      24 + r.data.length < 2147483648) :
    (∀ c ∈ (ikcp_input_all (ikcp_create conv) (recs.map record_bytes)).1, c = 0) ∧
    (ikcp_input_all (ikcp_create conv) (recs.map record_bytes)).2.rcv_queue =
      recs.map stored_seg ∧
    (ikcp_input_all (ikcp_create conv) (recs.map record_bytes)).2.nrcv_que = recs.length := by
  have hmem : ∀ r ∈ recs, r.sn < recs.length := by
    intro r hr
    have : r.sn ∈ recs.map (fun r => r.sn) := List.mem_map.mpr ⟨r, hr, rfl⟩
    rw [hsn, List.mem_range'] at this
    obtain ⟨i, hi, he⟩ := this
    omega
  have hall : ∀ r ∈ recs, valid_record (ikcp_create conv).conv r ∧ r.cmd = IKCP_CMD_PUSH ∧
      24 + r.data.length < 2147483648 ∧ sn_offset 0 r.sn < recs.length := by
    intro r hr
    obtain ⟨h1, h2, h3⟩ := hv r hr
    have := hmem r hr
    exact ⟨h1, h2, h3, by rw [sn_offset_zero r.sn (by omega)]; exact this⟩
  have hinit : RcvInv 0 recs.length [] (rcv_part (ikcp_create conv)) :=
    RcvInv_init recs.length (ikcp_create conv) rfl rfl rfl (Nat.zero_lt_succ _)
  obtain ⟨hz, hinv⟩ := ikcp_input_all_inv 0 recs.length recs [] (ikcp_create conv) hconv hinit
    hk (by show (128 : Nat) < 2147483648; decide) hall
  rw [List.nil_append] at hinv
  have hcover : ∀ i < recs.length, ∃ r ∈ recs, r.sn = (0 + i) % 4294967296 := by
    intro i hi
    have : i ∈ recs.map (fun r => r.sn) := by
      rw [hsn, List.mem_range']
      exact ⟨i, hi, by omega⟩
    obtain ⟨r, hr, he⟩ := List.mem_map.mp this
    exact ⟨r, hr, by rw [he]; omega⟩
  obtain ⟨_, h2, _, _, h5⟩ := RcvInv_complete 0 recs.length recs _ (by omega) hinv hcover
  refine ⟨hz, ?_, h2⟩
  have hnd : (recs.map (fun s => s.sn)).Nodup := by
    rw [hsn]; exact List.nodup_range' 0 recs.length
  have h6 : (List.range recs.length).map (fun i =>
      (recs.find? (fun x => decide (x.sn = (0 + i) % 4294967296))).map stored_seg) =
      (recs.map stored_seg).map some := by
    have e1 : (List.range recs.length).map (fun i =>
        (recs.find? (fun x => decide (x.sn = (0 + i) % 4294967296))).map stored_seg) =
        (List.range recs.length).map (fun i =>
          (recs.find? (fun x => decide (x.sn = i))).map stored_seg) := by
      apply List.map_congr_left
      intro i hi
      rw [List.mem_range] at hi
      have : (0 + i) % 4294967296 = i := by omega
      rw [this]
    rw [e1, List.range_eq_range', ← hsn, List.map_map, List.map_map]
    apply List.map_congr_left
    intro r hr
    show (recs.find? (fun x => decide (x.sn = r.sn))).map stored_seg = some (stored_seg r)
    rw [find_of_nodup recs hnd r hr]
    rfl
  rw [h6] at h5
  exact List.map_injective_iff.mpr (Option.some_injective _) h5

/-! ## The round trip -/

theorem fragments_dropLast_full (mss : Nat) (buffer : List Nat) (hm0 : 0 < mss) :
    ∀ s ∈ (fragments mss (fragment_count mss buffer.length) buffer).dropLast, s.len = mss := by
  have hb := fragment_count_bounds mss buffer.length hm0
  rcases hb.1 with h | h
  · intro s hs
    exact (fragments_full _ _ _ h s hs).1
  · have h1 : 1 ≤ fragment_count mss buffer.length := by unfold fragment_count; omega
    have h2 : fragment_count mss buffer.length = 1 := by omega
    rw [h2]
    intro s hs
    simp [fragments] at hs

theorem fragments_len_sum (mss : Nat) (n : Nat) (buffer : List Nat)
    (h : buffer.length ≤ n * mss) :
    ((fragments mss n buffer).map (fun s => s.len)).sum = buffer.length := by
  have hj := congrArg List.length (fragments_join mss n buffer h)
  rw [List.length_flatten, List.map_map] at hj
  rw [← hj]
  congr 1
  apply List.map_congr_left
  intro s hs
  exact (fragments_len mss n buffer s hs).1

/-- The round trip from any sender in the state of a fresh control block with
congestion control off to a fresh receiver. -/
theorem round_trip_of_fresh (A : IKCPCB) (conv t : Nat) (M : List Nat) (n : Int)
    (hconv : conv < 4294967296) (ht : t < 4294967296)
    (hk : fragment_count 1376 M.length ≤ 32)
    (hn0 : (M.length : Int) ≤ n) (hn1 : n < 2147483648)
    (hf : A.conv = conv ∧ A.stream = 0 ∧ A.mss = 1376 ∧ A.mtu = 1400 ∧ A.snd_queue = [] ∧
      A.nsnd_que = 0 ∧ A.snd_buf = [] ∧ A.snd_nxt = 0 ∧ A.snd_una = 0 ∧ A.rmt_wnd = 128 ∧
      A.snd_wnd = 32 ∧ A.nocwnd = 1 ∧ A.updated = 0 ∧ A.ackcount = 0 ∧ A.probe = 0 ∧
      A.rcv_nxt = 0 ∧ A.nrcv_que = 0 ∧ A.rcv_wnd = 128 ∧
      0 < A.interval ∧ A.interval < 2147483648) :
    (ikcp_send A M M.length).1 = 0 ∧
    (ikcp_update (ikcp_send A M M.length).2 t).2.length = fragment_count 1376 M.length ∧
    (∀ c ∈ (ikcp_input_all (ikcp_create conv)
      (ikcp_update (ikcp_send A M M.length).2 t).2).1, c = 0) ∧
    (ikcp_recv (ikcp_input_all (ikcp_create conv)
      (ikcp_update (ikcp_send A M M.length).2 t).2).2 true n).1 = M.length ∧
    (ikcp_recv (ikcp_input_all (ikcp_create conv)
      (ikcp_update (ikcp_send A M M.length).2 t).2).2 true n).2.1 = M := by
  have hb := fragment_count_bounds 1376 M.length (by decide)
  have hk1 : 1 ≤ fragment_count 1376 M.length := by unfold fragment_count; omega
  have hML : M.length ≤ 44032 := by omega
  obtain ⟨f1, f2, f3, f4, f5, f6, f7, f8, f9, f10, f11, f12, f13, f14, f15, f16, f17, f18,
    f19, f20⟩ := hf
  have hsend := ikcp_send_message A M f2
    (by rw [f3]; decide) (by rw [f3]; decide) (by omega)
    (by rw [f3]; show fragment_count 1376 M.length < 128; omega)
  rw [hsend]
  obtain ⟨recs, r1, r2, r3, r4⟩ := ikcp_update_first_datagrams
    { A with
      snd_queue := A.snd_queue ++ fragments A.mss (fragment_count A.mss M.length) M
      nsnd_que := (A.nsnd_que + fragment_count A.mss M.length) % 4294967296 }
    t (fragments 1376 (fragment_count 1376 M.length) M)
    f13 f19 f20 f14 f10 f11 f15 f12 f17 f18 f4
    (by
      show A.snd_queue ++ fragments A.mss (fragment_count A.mss M.length) M = _
      rw [f5, f3, List.nil_append])
    f7 f8 f9
    (by rw [fragments_length]; exact hk)
    (fragments_len _ _ _) (fragments_dropLast_full 1376 M (by decide))
  rw [fragments_length] at r2
  have hproj := triple_map_proj recs _ r3
  have hrl : recs.length = fragment_count 1376 M.length := by
    have := congrArg List.length r2
    rw [List.length_map, List.length_range'] at this
    exact this
  have hfrg : recs.map (fun s => s.frg) = (List.range recs.length).reverse := by
    rw [hproj.1, fragments_frg, hrl]
  have hv : ∀ r ∈ recs, valid_record conv r ∧ r.cmd = IKCP_CMD_PUSH ∧
      24 + r.data.length < 2147483648 := by
    intro r hr
    obtain ⟨c1, c2, c3, c4, c5⟩ := r4 r hr
    obtain ⟨s2, hs2, _, e2, e3⟩ := triple_map_mem recs _ r3 r hr
    have hl := fragments_len _ _ _ s2 hs2
    rw [e2, e3] at hl
    have hfr : r.frg < 32 := by
      have : r.frg ∈ recs.map (fun s => s.frg) := List.mem_map.mpr ⟨r, hr, rfl⟩
      rw [hfrg, List.mem_reverse, List.mem_range] at this
      omega
    have hsn : r.sn < 32 := by
      have : r.sn ∈ recs.map (fun s => s.sn) := List.mem_map.mpr ⟨r, hr, rfl⟩
      rw [r2, List.mem_range'] at this
      obtain ⟨i, hi, he⟩ := this
      omega
    refine ⟨⟨c1.trans f1, Or.inl c2, by omega, by rw [c3]; decide, by rw [c4]; exact ht,
      by omega, ?_, hl.1, by omega⟩, c2, by omega⟩
    rw [c5]
    show A.rcv_nxt < 4294967296
    rw [f16]; decide
  rw [r1]
  obtain ⟨hz, hq, hnq⟩ := ikcp_input_all_ordered conv recs hconv (by omega)
    (by rw [r2, hrl]) hv
  have hsum : ((recs.map stored_seg).map (fun s => s.len)).sum = M.length := by
    rw [List.map_map]
    show (recs.map (fun s => s.len)).sum = M.length
    rw [hproj.2.1]
    exact fragments_len_sum 1376 _ M hb.2
  have hdata : ((recs.map stored_seg).map (fun s => s.data.take s.len)).flatten = M := by
    rw [List.map_map]
    have e : recs.map ((fun s => s.data.take s.len) ∘ stored_seg) =
        recs.map (fun s => s.data) := by
      apply List.map_congr_left
      intro r hr
      show r.data.take r.len = r.data
      rw [(hv r hr).1.2.2.2.2.2.2.2.1, List.take_length]
    rw [e, hproj.2.2]
    exact fragments_join 1376 _ M hb.2
  have hrecv := ikcp_recv_message
    (ikcp_input_all (ikcp_create conv) (recs.map record_bytes)).2 true n
    (recs.map stored_seg) [] (by rw [hq, List.append_nil])
    (by
      intro h
      have := congrArg List.length h
      rw [List.length_map, hrl] at this
      simp at this
      omega)
    (by
      rw [List.map_map, List.length_map]
      exact hfrg)
    (by rw [hq, hnq, List.length_map])
    (by rw [hnq]; omega)
    (by rw [hsum]; omega)
    ⟨by omega, hn1⟩
    (by rw [hsum, abs_of_nonneg (by omega)]; exact hn0)
  rw [hrecv, hsum, hdata]
  refine ⟨rfl, ?_, hz, rfl, rfl⟩
  rw [List.length_map, hrl]

/-- C1: lossless in-order round trip. For every 32-bit `conv`, every clock value `t`
and every payload `M` whose fragment count `max(1, ceil(|M|/mss))` is at most 32, let
`A` and `B` be freshly created control blocks with that `conv`, switch congestion
control off on `A` (`ikcp_nodelay` with `nc = 1`, the other three arguments
arbitrary), call `ikcp_send(A, M)` and then `ikcp_update(A, t)`, and feed the
datagrams `A` passes to its output callback, in emission order, to `ikcp_input(B, ..)`.
Then `ikcp_send` returns 0, there is one datagram per fragment, every `ikcp_input`
returns 0, and `ikcp_recv(B, buf, n)` with `n >= |M|` returns `|M|` and writes exactly
the bytes of `M`. -/
theorem C1_lossless_round_trip (conv t : Nat) (M : List Nat)
    (nodelay interval resend n : Int)
    (hconv : conv < 4294967296) (ht : t < 4294967296)
    (hk : fragment_count (ikcp_create conv).mss M.length ≤ 32)
    (hn0 : (M.length : Int) ≤ n) (hn1 : n < 2147483648) :
    (ikcp_send (ikcp_nodelay (ikcp_create conv) nodelay interval resend 1).2 M M.length).1 = 0 ∧
    (ikcp_update
      (ikcp_send (ikcp_nodelay (ikcp_create conv) nodelay interval resend 1).2 M M.length).2
      t).2.length = fragment_count (ikcp_create conv).mss M.length ∧
    (∀ c ∈ (ikcp_input_all (ikcp_create conv)
      (ikcp_update
        (ikcp_send (ikcp_nodelay (ikcp_create conv) nodelay interval resend 1).2 M M.length).2
        t).2).1, c = 0) ∧
    (ikcp_recv (ikcp_input_all (ikcp_create conv)
      (ikcp_update
        (ikcp_send (ikcp_nodelay (ikcp_create conv) nodelay interval resend 1).2 M M.length).2
        t).2).2 true n).1 = M.length ∧
    (ikcp_recv (ikcp_input_all (ikcp_create conv)
      (ikcp_update
        (ikcp_send (ikcp_nodelay (ikcp_create conv) nodelay interval resend 1).2 M M.length).2
        t).2).2 true n).2.1 = M :=
  round_trip_of_fresh (ikcp_nodelay (ikcp_create conv) nodelay interval resend 1).2 conv t M n
    hconv ht hk hn0 hn1 (ikcp_nodelay_fresh conv nodelay interval resend _ rfl)

theorem C1_lossless_round_trip_witness :
    (ikcp_send (ikcp_nodelay (ikcp_create 5) 1 20 2 1).2 [10, 20, 30]
      ([10, 20, 30] : List Nat).length).1 = 0 ∧
    (ikcp_update
      (ikcp_send (ikcp_nodelay (ikcp_create 5) 1 20 2 1).2 [10, 20, 30]
        ([10, 20, 30] : List Nat).length).2
      77).2.length = fragment_count (ikcp_create 5).mss ([10, 20, 30] : List Nat).length ∧
    (∀ c ∈ (ikcp_input_all (ikcp_create 5)
      (ikcp_update
        (ikcp_send (ikcp_nodelay (ikcp_create 5) 1 20 2 1).2 [10, 20, 30]
          ([10, 20, 30] : List Nat).length).2
        77).2).1, c = 0) ∧
    (ikcp_recv (ikcp_input_all (ikcp_create 5)
      (ikcp_update
        (ikcp_send (ikcp_nodelay (ikcp_create 5) 1 20 2 1).2 [10, 20, 30]
          ([10, 20, 30] : List Nat).length).2
        77).2).2 true 8).1 = ([10, 20, 30] : List Nat).length ∧
    (ikcp_recv (ikcp_input_all (ikcp_create 5)
      (ikcp_update
        (ikcp_send (ikcp_nodelay (ikcp_create 5) 1 20 2 1).2 [10, 20, 30]
          ([10, 20, 30] : List Nat).length).2
        77).2).2 true 8).2.1 = [10, 20, 30] :=
  C1_lossless_round_trip 5 77 [10, 20, 30] 1 20 2 8 (by decide) (by decide) (by decide)
    (by decide) (by decide)

/-! ## ikcp_check -/

theorem i32_bounds (x : Int) : -2147483648 ≤ i32 x ∧ i32 x < 2147483648 := by
  unfold i32; split <;> omega

theorem itimediff_bounds (a b : Nat) :
    -2147483648 ≤ _itimediff a b ∧ _itimediff a b < 2147483648 := i32_bounds _

/-- The scan of `ikcp_check` over `snd_buf` stops exactly at a due segment; otherwise
it returns the least of the start value and the waits of the segments. -/
theorem ikcp_check_loop_spec (current : Nat) (l : List IKCPSEG) :
    ∀ t0 : Int,
    (ikcp_check_loop current l t0 = none ↔ ∃ s ∈ l, _itimediff s.resendts current ≤ 0) ∧
    (∀ t, ikcp_check_loop current l t0 = some t →
      t ≤ t0 ∧ (∀ s ∈ l, t ≤ _itimediff s.resendts current) ∧
      (t = t0 ∨ ∃ s ∈ l, t = _itimediff s.resendts current)) := by
  induction l with
  | nil =>
    intro t0
    refine ⟨⟨fun h => ?_, fun ⟨s, hs, _⟩ => absurd hs (List.not_mem_nil s)⟩, ?_⟩
    · rw [ikcp_check_loop] at h
      exact absurd h (by simp)
    · intro t ht
      rw [ikcp_check_loop] at ht
      have : t0 = t := Option.some.inj ht
      exact ⟨by omega, fun s hs => absurd hs (List.not_mem_nil s), Or.inl this.symm⟩
  | cons a rest ih =>
    intro t0
    rw [ikcp_check_loop]
    by_cases hd : _itimediff a.resendts current ≤ 0
    · rw [if_pos hd]
      refine ⟨⟨fun _ => ⟨a, List.mem_cons_self a rest, hd⟩, fun _ => rfl⟩, ?_⟩
      intro t ht
      exact absurd ht (by simp)
    · rw [if_neg hd]
      obtain ⟨i1, i2⟩ := ih (if _itimediff a.resendts current < t0 then
        _itimediff a.resendts current else t0)
      refine ⟨?_, ?_⟩
      · rw [i1]
        constructor
        · rintro ⟨s, hs, h⟩
          exact ⟨s, List.mem_cons_of_mem a hs, h⟩
        · rintro ⟨s, hs, h⟩
          rcases List.mem_cons.mp hs with e | e
          · rw [e] at h; exact absurd h hd
          · exact ⟨s, e, h⟩
      · intro t ht
        obtain ⟨j1, j2, j3⟩ := i2 t ht
        have hmin : (if _itimediff a.resendts current < t0 then
            _itimediff a.resendts current else t0) ≤ t0 ∧
            (if _itimediff a.resendts current < t0 then
              _itimediff a.resendts current else t0) ≤ _itimediff a.resendts current := by
          split <;> constructor <;> omega
        refine ⟨le_trans j1 hmin.1, ?_, ?_⟩
        · intro s hs
          rcases List.mem_cons.mp hs with e | e
          · rw [e]; exact le_trans j1 hmin.2
          · exact j2 s e
        · rcases j3 with e | ⟨s, hs, e⟩
          · by_cases hlt : _itimediff a.resendts current < t0
            · rw [if_pos hlt] at e
              exact Or.inr ⟨a, List.mem_cons_self a rest, e⟩
            · rw [if_neg hlt] at e
              exact Or.inl e
          · exact Or.inr ⟨s, List.mem_cons_of_mem a hs, e⟩

theorem itimediff_swap (a b : Nat) (h : -2147483648 < _itimediff a b) :
    _itimediff b a = -_itimediff a b := by
  unfold _itimediff i32 at *
  split at h <;> split <;> omega

theorem itimediff_add_small (c m : Nat) (hm : m < 2147483648) :
    _itimediff ((c + m) % 4294967296) c = m := by
  unfold _itimediff i32
  split <;> omega

theorem ikcp_check_never_updated (kcp : IKCPCB) (current : Nat) (h : kcp.updated = 0) :
    ikcp_check kcp current = current := by
  unfold ikcp_check
  rw [if_pos h]

theorem ikcp_check_flush_due (kcp : IKCPCB) (current : Nat)
    (h : _itimediff current kcp.ts_flush ≥ 0 ∨ _itimediff current kcp.ts_flush < -10000) :
    ikcp_check kcp current = current := by
  unfold ikcp_check
  by_cases hu : kcp.updated = 0
  · rw [if_pos hu]
  · rw [if_neg hu]
    simp only []
    by_cases hr : _itimediff current kcp.ts_flush ≥ 10000 ∨
        _itimediff current kcp.ts_flush < -10000
    · rw [if_pos hr, if_pos (by rw [itimediff_self])]
    · rw [if_neg hr]
      have h0 : _itimediff current kcp.ts_flush ≥ 0 := by
        rcases h with h | h
        · exact h
        · exact absurd (Or.inr h) hr
      rw [if_pos h0]

theorem ikcp_check_pending (kcp : IKCPCB) (current : Nat) (hu : kcp.updated ≠ 0)
    (h0 : ¬ _itimediff current kcp.ts_flush ≥ 0)
    (h1 : ¬ _itimediff current kcp.ts_flush < -10000) :
    ikcp_check kcp current =
      match ikcp_check_loop current kcp.snd_buf 2147483647 with
      | none => current
      | some tm_packet =>
        (current +
          (if u32 (if tm_packet < _itimediff kcp.ts_flush current then tm_packet
              else _itimediff kcp.ts_flush current) ≥ kcp.interval then kcp.interval
            else u32 (if tm_packet < _itimediff kcp.ts_flush current then tm_packet
              else _itimediff kcp.ts_flush current))) % 4294967296 := by
  unfold ikcp_check
  rw [if_neg hu]
  simp only []
  have hr : ¬ (_itimediff current kcp.ts_flush ≥ 10000 ∨
      _itimediff current kcp.ts_flush < -10000) := by
    intro h
    rcases h with h | h
    · exact h0 (by omega)
    · exact h1 h
  rw [if_neg hr, if_neg h0]

/-- C20: `ikcp_check` returns the earliest time `ikcp_update` must next run. For
every control block with a positive `interval` and every `current`, the result `r`
(the function only reads the control block, it returns nothing else) satisfies
`0 <= r - current <= interval` in signed 32-bit arithmetic; `r = current` exactly
when `ikcp_update` was never called, or the flush deadline is reached
(`current - ts_flush >= 0`) or the clock-reset heuristic applies
(`current - ts_flush < -10000`; the other half, `>= 10000`, is a reached deadline), or
some segment of `snd_buf` has `resendts - current <= 0`; otherwise
`r = current + m` modulo 2^32, where `m > 0` is the least of `ts_flush - current`,
`interval` and the values `resendts - current` over `snd_buf`. -/
theorem C20_check_next_update (kcp : IKCPCB) (current : Nat) (hi : 0 < kcp.interval) :
    (0 ≤ _itimediff (ikcp_check kcp current) current ∧
      _itimediff (ikcp_check kcp current) current ≤ kcp.interval) ∧
    (ikcp_check kcp current = current ↔
      (kcp.updated = 0 ∨ _itimediff current kcp.ts_flush ≥ 0 ∨
        _itimediff current kcp.ts_flush < -10000 ∨
        ∃ s ∈ kcp.snd_buf, _itimediff s.resendts current ≤ 0)) ∧
    (¬ (kcp.updated = 0 ∨ _itimediff current kcp.ts_flush ≥ 0 ∨
        _itimediff current kcp.ts_flush < -10000 ∨
        ∃ s ∈ kcp.snd_buf, _itimediff s.resendts current ≤ 0) →
      ∃ m : Nat, 0 < m ∧ ikcp_check kcp current = (current + m) % 4294967296 ∧
        (m : Int) ≤ _itimediff kcp.ts_flush current ∧ m ≤ kcp.interval ∧
        (∀ s ∈ kcp.snd_buf, (m : Int) ≤ _itimediff s.resendts current) ∧
        ((m : Int) = _itimediff kcp.ts_flush current ∨ m = kcp.interval ∨
          ∃ s ∈ kcp.snd_buf, (m : Int) = _itimediff s.resendts current)) := by
  have hloop := ikcp_check_loop_spec current kcp.snd_buf 2147483647
  by_cases hdue : kcp.updated = 0 ∨ _itimediff current kcp.ts_flush ≥ 0 ∨
      _itimediff current kcp.ts_flush < -10000 ∨
      ∃ s ∈ kcp.snd_buf, _itimediff s.resendts current ≤ 0
  · have hr : ikcp_check kcp current = current := by
      rcases hdue with h | h | h | h
      · exact ikcp_check_never_updated kcp current h
      · exact ikcp_check_flush_due kcp current (Or.inl h)
      · exact ikcp_check_flush_due kcp current (Or.inr h)
      · by_cases hu : kcp.updated = 0
        · exact ikcp_check_never_updated kcp current hu
        · by_cases h0 : _itimediff current kcp.ts_flush ≥ 0
          · exact ikcp_check_flush_due kcp current (Or.inl h0)
          · by_cases h1 : _itimediff current kcp.ts_flush < -10000
            · exact ikcp_check_flush_due kcp current (Or.inr h1)
            · rw [ikcp_check_pending kcp current hu h0 h1, hloop.1.mpr h]
    refine ⟨?_, ⟨fun _ => hdue, fun _ => hr⟩, fun hn => absurd hdue hn⟩
    rw [hr, itimediff_self]
    exact ⟨le_refl 0, by omega⟩
  · have hu : kcp.updated ≠ 0 := fun h => hdue (Or.inl h)
    have h0 : ¬ _itimediff current kcp.ts_flush ≥ 0 := fun h => hdue (Or.inr (Or.inl h))
    have h1 : ¬ _itimediff current kcp.ts_flush < -10000 :=
      fun h => hdue (Or.inr (Or.inr (Or.inl h)))
    have h2 : ¬ ∃ s ∈ kcp.snd_buf, _itimediff s.resendts current ≤ 0 :=
      fun h => hdue (Or.inr (Or.inr (Or.inr h)))
    have hF : _itimediff kcp.ts_flush current = -_itimediff current kcp.ts_flush :=
      itimediff_swap current kcp.ts_flush (by omega)
    have hpos : ∀ s ∈ kcp.snd_buf, 0 < _itimediff s.resendts current := by
      intro s hs
      by_contra hc
      exact h2 ⟨s, hs, by omega⟩
    have hne : ikcp_check_loop current kcp.snd_buf 2147483647 ≠ none :=
      fun h => h2 (hloop.1.mp h)
    obtain ⟨t, ht⟩ := Option.ne_none_iff_exists'.mp hne
    obtain ⟨t1, t2, t3⟩ := hloop.2 t ht
    have htpos : 0 < t := by
      rcases t3 with e | ⟨s, hs, e⟩
      · omega
      · rw [e]; exact hpos s hs
    have hr := ikcp_check_pending kcp current hu h0 h1
    rw [ht] at hr
    simp only [] at hr
    have hx : 0 < (if t < _itimediff kcp.ts_flush current then t
        else _itimediff kcp.ts_flush current) ∧
        (if t < _itimediff kcp.ts_flush current then t
          else _itimediff kcp.ts_flush current) ≤ 10000 ∧
        (if t < _itimediff kcp.ts_flush current then t
          else _itimediff kcp.ts_flush current) ≤ t ∧
        (if t < _itimediff kcp.ts_flush current then t
          else _itimediff kcp.ts_flush current) ≤ _itimediff kcp.ts_flush current ∧
        ((if t < _itimediff kcp.ts_flush current then t
          else _itimediff kcp.ts_flush current) = t ∨
         (if t < _itimediff kcp.ts_flush current then t
          else _itimediff kcp.ts_flush current) = _itimediff kcp.ts_flush current) := by
      split <;> omega
    generalize (if t < _itimediff kcp.ts_flush current then t
        else _itimediff kcp.ts_flush current) = x at hr hx
    obtain ⟨x1, x2, x3, x4, x5⟩ := hx
    have hux : u32 x = x.toNat := u32_of_lt x (by omega) (by omega)
    rw [hux] at hr
    have hm : 0 < (if x.toNat ≥ kcp.interval then kcp.interval else x.toNat) ∧
        (if x.toNat ≥ kcp.interval then kcp.interval else x.toNat) ≤ kcp.interval ∧
        ((if x.toNat ≥ kcp.interval then kcp.interval else x.toNat : Nat) : Int) ≤ x ∧
        ((if x.toNat ≥ kcp.interval then kcp.interval else x.toNat) = kcp.interval ∨
          ((if x.toNat ≥ kcp.interval then kcp.interval else x.toNat : Nat) : Int) = x) := by
      split <;> omega
    generalize (if x.toNat ≥ kcp.interval then kcp.interval else x.toNat) = m at hr hm
    obtain ⟨m1, m2, m3, m4⟩ := hm
    have hmx : m ≤ 10000 := by omega
    have hneq : (current + m) % 4294967296 ≠ current := by
      clear hr hdue hloop hu h0 h1 h2 hF hpos hne ht t1 t2 t3 hux m2 m3 m4 x1 x2 x3 x4 x5
      omega
    refine ⟨?_, ⟨fun h => absurd (hr.symm.trans h) hneq, fun h => absurd h hdue⟩, fun _ => ?_⟩
    · rw [hr, itimediff_add_small current m (by omega)]
      omega
    · refine ⟨m, m1, hr, by omega, m2, fun s hs => ?_, ?_⟩
      · have := t2 s hs
        omega
      · rcases m4 with e | e
        · exact Or.inr (Or.inl e)
        · rcases x5 with e5 | e5
          · rcases t3 with e3 | ⟨s, hs, e3⟩
            · exfalso; omega
            · exact Or.inr (Or.inr ⟨s, hs, by omega⟩)
          · exact Or.inl (by omega)

/-- A control block after its first update at time 1000, with one segment that was
sent then and is due for retransmission at 1225. -/
theorem C20_check_next_update_witness :
    (0 ≤ _itimediff (ikcp_check kcpOneInFlight 1010) 1010 ∧
      _itimediff (ikcp_check kcpOneInFlight 1010) 1010 ≤ kcpOneInFlight.interval) ∧
    (ikcp_check kcpOneInFlight 1010 = 1010 ↔
      (kcpOneInFlight.updated = 0 ∨ _itimediff 1010 kcpOneInFlight.ts_flush ≥ 0 ∨
        _itimediff 1010 kcpOneInFlight.ts_flush < -10000 ∨
        ∃ s ∈ kcpOneInFlight.snd_buf, _itimediff s.resendts 1010 ≤ 0)) ∧
    (¬ (kcpOneInFlight.updated = 0 ∨ _itimediff 1010 kcpOneInFlight.ts_flush ≥ 0 ∨
        _itimediff 1010 kcpOneInFlight.ts_flush < -10000 ∨
        ∃ s ∈ kcpOneInFlight.snd_buf, _itimediff s.resendts 1010 ≤ 0) →
      ∃ m : Nat, 0 < m ∧ ikcp_check kcpOneInFlight 1010 = (1010 + m) % 4294967296 ∧
        (m : Int) ≤ _itimediff kcpOneInFlight.ts_flush 1010 ∧ m ≤ kcpOneInFlight.interval ∧
        (∀ s ∈ kcpOneInFlight.snd_buf, (m : Int) ≤ _itimediff s.resendts 1010) ∧
        ((m : Int) = _itimediff kcpOneInFlight.ts_flush 1010 ∨ m = kcpOneInFlight.interval ∨
          ∃ s ∈ kcpOneInFlight.snd_buf, (m : Int) = _itimediff s.resendts 1010)) :=
  C20_check_next_update kcpOneInFlight 1010 (by decide)

/-! ## ikcp_send in stream mode -/

/-- The fragment loop of `ikcp_send` in stream mode: the fragments of the remaining
bytes, all with `frg = 0`. -/
theorem ikcp_send_loop_stream (count : Int) (fuel : Nat) :
    ∀ (i : Int) (kcp : IKCPCB) (buffer : List Nat) (len : Int),
    kcp.stream ≠ 0 → 0 < kcp.mss → kcp.mss < 2147483648 →
    count = i + fuel → 0 ≤ i → count < 4294967296 →
    len = buffer.length →
    (fuel * kcp.mss < buffer.length + kcp.mss ∨ fuel ≤ 1) →
    buffer.length ≤ fuel * kcp.mss →
    ikcp_send_loop count fuel i kcp buffer len =
      { kcp with
        snd_queue := kcp.snd_queue ++
          (fragments kcp.mss fuel buffer).map (fun s => { s with frg := 0 })
        nsnd_que := if fuel = 0 then kcp.nsnd_que else (kcp.nsnd_que + fuel) % 4294967296 } := by
  induction fuel with
  | zero =>
    intro i kcp buffer len _ _ _ _ _ _ _ _ _
    simp [ikcp_send_loop, fragments]
  | succ n ih =>
    intro i kcp buffer len hs hm0 hm1 hc hi hcount hlen hlo hhi
    have e : (n + 1) * kcp.mss = n * kcp.mss + kcp.mss := by ring
    have hic : i < count := by omega
    have hmss : i32 (kcp.mss : Int) = kcp.mss := i32_of_lt _ (by omega) (by omega)
    rw [ikcp_send_loop]
    simp only [hic, if_true, hmss]
    by_cases hbig : len > (kcp.mss : Int)
    · -- a full fragment
      have hL : kcp.mss < buffer.length := by omega
      simp only [hbig, if_true, Int.toNat_ofNat]
      have hpos : len > 0 := by omega
      have hn : n ≠ 0 := by
        intro h0; subst h0; omega
      refine (ih (i + 1) _ (buffer.drop kcp.mss) (len - kcp.mss) ?_ ?_ ?_ ?_ ?_
        hcount ?_ ?_ ?_).trans ?_
      · exact hs
      · exact hm0
      · exact hm1
      · omega
      · omega
      · simp only [List.length_drop]; omega
      · simp only [List.length_drop]; left; show n * kcp.mss < _; omega
      · simp only [List.length_drop]; show _ ≤ n * kcp.mss; omega
      simp only [hs, hpos, if_true, hn, if_false, fragments, ikcp_segment_new, List.append_assoc,
        List.singleton_append, u32_natCast kcp.mss (by omega), List.length_take,
        Nat.min_eq_left (Nat.le_of_lt hL), Nat.succ_ne_zero, List.map_cons]
      have hq : ((kcp.nsnd_que + 1) % 4294967296 + n) % 4294967296 =
          (kcp.nsnd_que + (n + 1)) % 4294967296 := by omega
      rw [hq]
    · -- the last fragment
      have hL : buffer.length ≤ kcp.mss := by omega
      have hn : n = 0 := by
        rcases hlo with h | h
        · have : n * kcp.mss < kcp.mss := by omega
          by_contra hne
          have : kcp.mss ≤ n * kcp.mss := Nat.le_mul_of_pos_left _ (Nat.pos_of_ne_zero hne)
          omega
        · omega
      subst hn
      have htake : buffer.take kcp.mss = buffer := List.take_of_length_le hL
      have hdata : (if len > 0 then buffer.take len.toNat
          else (ikcp_segment_new len.toNat).data) = buffer := by
        by_cases hp : len > 0
        · simp only [hp, if_true]
          exact List.take_of_length_le (by omega)
        · have h0 : buffer.length = 0 := by omega
          have hb : buffer = [] := List.eq_nil_of_length_eq_zero h0
          have hl0 : len = 0 := by omega
          simp [hp, hb, hl0, ikcp_segment_new]
      have hu : u32 len = buffer.length := by rw [hlen]; exact u32_natCast _ (by omega)
      simp only [hbig, if_false]
      simp only [hdata]
      simp only [hs, if_false, if_true, hu, ikcp_send_loop, fragments, htake, ikcp_segment_new,
        Nat.succ_ne_zero, Nat.zero_add, List.map_cons, List.map_nil]

theorem StreamQueue_snoc (mss : Nat) (D E : List Nat) (q : List IKCPSEG) (old seg : IKCPSEG)
    (h : StreamQueue mss D (q ++ [old])) (hd : seg.data = old.data ++ E)
    (hf : seg.frg = 0) (hl : seg.len = seg.data.length) (hm : seg.len ≤ mss) :
    StreamQueue mss (D ++ E) (q ++ [seg]) := by
  obtain ⟨h1, h2, h3⟩ := h
  refine ⟨?_, ?_, ?_⟩
  · rw [← h1]
    simp only [List.map_append, List.map_cons, List.map_nil, List.flatten_append,
      List.flatten_cons, List.flatten_nil, List.append_nil, hd, List.append_assoc]
  · intro s hs
    rcases List.mem_append.mp hs with h | h
    · exact h2 s (List.mem_append_left _ h)
    · rw [List.mem_singleton.mp h]
      have ho := h2 old (List.mem_append_right _ (List.mem_singleton.mpr rfl))
      refine ⟨hf, hl, ?_, hm⟩
      rw [hl, hd, List.length_append]
      omega
  · intro s hs
    rw [List.dropLast_concat] at hs
    apply h3 s
    rw [List.dropLast_concat]
    exact hs

/-- The stream-mode prologue of `ikcp_send` on a queue built by stream-mode sends: it
moves the first `e` bytes of the payload into the tail segment, and when bytes remain
every segment of the queue is full. -/
theorem ikcp_send_stream_queue (kcp : IKCPCB) (P D : List Nat)
    (hm1 : kcp.mss < 2147483648) (hq : StreamQueue kcp.mss D kcp.snd_queue) :
    ∃ (e : Nat) (q1 : List IKCPSEG), e ≤ P.length ∧
      ikcp_send_stream kcp P P.length =
        ({ kcp with snd_queue := q1 }, P.drop e, (P.length : Int) - e) ∧
      StreamQueue kcp.mss (D ++ P.take e) q1 ∧ q1.length = kcp.snd_queue.length ∧
      (e < P.length → ∀ s ∈ q1, s.len = kcp.mss) := by
  unfold ikcp_send_stream
  cases hlast : kcp.snd_queue.getLast? with
  | none =>
    have hnil : kcp.snd_queue = [] := List.getLast?_eq_none_iff.mp hlast
    refine ⟨0, [], Nat.zero_le _, ?_, ?_, ?_, ?_⟩
    · simp only [List.drop_zero, Nat.cast_zero, Int.sub_zero]
      rw [← hnil]
    · rw [hnil] at hq
      simpa using hq
    · rw [hnil]
    · intro _ s hs
      exact absurd hs (List.not_mem_nil s)
  | some old =>
    have hsplit : kcp.snd_queue.dropLast ++ [old] = kcp.snd_queue :=
      List.dropLast_append_getLast? old hlast
    have hold := hq.2.1 old (by rw [← hsplit]; exact List.mem_append_right _ (List.mem_singleton.mpr rfl))
    simp only []
    by_cases hlt : old.len < kcp.mss
    · rw [if_pos hlt]
      have hcap : i32 ((kcp.mss : Int) - old.len) = (kcp.mss : Int) - old.len :=
        i32_of_lt _ (by omega) (by omega)
      rw [hcap]
      have hext : (if (P.length : Int) < (kcp.mss : Int) - old.len then (P.length : Int)
          else (kcp.mss : Int) - old.len) = ((min P.length (kcp.mss - old.len) : Nat) : Int) := by
        split <;> omega
      rw [hext]
      have hu : u32 ((old.len : Int) + ((min P.length (kcp.mss - old.len) : Nat) : Int)) =
          old.len + min P.length (kcp.mss - old.len) := by
        have : (old.len : Int) + ((min P.length (kcp.mss - old.len) : Nat) : Int) =
            ((old.len + min P.length (kcp.mss - old.len) : Nat) : Int) := by omega
        rw [this]
        exact u32_natCast _ (by omega)
      rw [hu, Int.toNat_ofNat, hold.2.1, List.take_length]
      have hlen := hold.2.1
      refine ⟨min P.length (kcp.mss - old.data.length), _, Nat.min_le_left _ _, rfl, ?_, ?_, ?_⟩
      · rw [← hsplit] at hq
        refine StreamQueue_snoc kcp.mss D _ kcp.snd_queue.dropLast old _ hq rfl rfl ?_ ?_
        · show old.data.length + min P.length (kcp.mss - old.data.length) =
            (old.data ++ P.take (min P.length (kcp.mss - old.data.length))).length
          rw [List.length_append, List.length_take]
          omega
        · show old.data.length + min P.length (kcp.mss - old.data.length) ≤ kcp.mss
          omega
      · rw [List.length_append, List.length_dropLast, List.length_singleton]
        have : kcp.snd_queue.length = kcp.snd_queue.dropLast.length + 1 := by
          conv_lhs => rw [← hsplit]
          rw [List.length_append, List.length_singleton]
        rw [List.length_dropLast] at this
        omega
      · intro he s hs
        rcases List.mem_append.mp hs with h | h
        · exact hq.2.2 s h
        · rw [List.mem_singleton.mp h]
          show old.data.length + min P.length (kcp.mss - old.data.length) = kcp.mss
          omega
    · rw [if_neg hlt]
      refine ⟨0, kcp.snd_queue, Nat.zero_le _, ?_, ?_, rfl, ?_⟩
      · simp only [List.drop_zero, Nat.cast_zero, Int.sub_zero]
      · simpa using hq
      · intro _ s hs
        rw [← hsplit] at hs
        rcases List.mem_append.mp hs with h | h
        · exact hq.2.2 s h
        · rw [List.mem_singleton.mp h]
          omega

theorem fragments_pos (mss : Nat) (hm0 : 0 < mss) (n : Nat) :
    ∀ buffer : List Nat, n * mss < buffer.length + mss →
    ∀ s ∈ fragments mss n buffer, 1 ≤ s.len := by
  induction n with
  | zero => intro buffer _ s hs; simp [fragments] at hs
  | succ n ih =>
    intro buffer h s hs
    have e : (n + 1) * mss = n * mss + mss := by ring
    rw [fragments] at hs
    rcases List.mem_cons.mp hs with h1 | h1
    · rw [h1]
      show 1 ≤ (buffer.take mss).length
      rw [List.length_take]
      have : 0 ≤ n * mss := Nat.zero_le _
      omega
    · by_cases hn : n = 0
      · subst hn
        simp [fragments] at h1
      · have hge : mss ≤ n * mss := Nat.le_mul_of_pos_left _ (Nat.pos_of_ne_zero hn)
        exact ih (buffer.drop mss) (by rw [List.length_drop]; omega) s h1

/-- One successful `ikcp_send` in stream mode appends the payload to the queue built
so far. -/
theorem ikcp_send_stream_step (kcp : IKCPCB) (P D : List Nat) (hs : kcp.stream ≠ 0)
    (hm0 : 0 < kcp.mss) (hm1 : kcp.mss < 2147483648) (hP : P.length < 2147483648)
    (hq : StreamQueue kcp.mss D kcp.snd_queue)
    (hn : kcp.nsnd_que = kcp.snd_queue.length % 4294967296)
    (hok : (ikcp_send kcp P P.length).1 = 0) :
    (ikcp_send kcp P P.length).2.stream = kcp.stream ∧
    (ikcp_send kcp P P.length).2.mss = kcp.mss ∧
    StreamQueue kcp.mss (D ++ P) (ikcp_send kcp P P.length).2.snd_queue ∧
    (ikcp_send kcp P P.length).2.nsnd_que =
      (ikcp_send kcp P P.length).2.snd_queue.length % 4294967296 := by
  obtain ⟨e, q1, he, hpro, hq1, hlen1, hfull⟩ := ikcp_send_stream_queue kcp P D hm1 hq
  have hneg : ¬ ((P.length : Int) < 0) := by omega
  have hw : i32 (IKCP_WND_RCV : Int) = 128 := by decide
  have hsend : ikcp_send kcp P P.length =
      if (P.length : Int) - e ≤ 0 then (0, { kcp with snd_queue := q1 })
      else if (fragment_count kcp.mss (P.length - e) : Int) ≥ 128 then
        (-2, { kcp with snd_queue := q1 })
      else
        (0, ikcp_send_loop (fragment_count kcp.mss (P.length - e))
          (fragment_count kcp.mss (P.length - e)) 0 { kcp with snd_queue := q1 }
          (P.drop e) ((P.length : Int) - e)) := by
    unfold ikcp_send
    rw [if_neg hneg]
    simp only [hs, ne_eq, not_false_eq_true, if_true, true_and, hpro]
    by_cases hz : (P.length : Int) - e ≤ 0
    · rw [if_pos hz, if_pos hz]
    · rw [if_neg hz, if_neg hz]
      have hR : (P.length : Int) - e = ((P.length - e : Nat) : Int) := by omega
      have hcnt := send_count_eq kcp.mss (P.length - e) hm0 hm1 (by omega)
      rw [← hR] at hcnt
      have hk1 : 1 ≤ fragment_count kcp.mss (P.length - e) := by unfold fragment_count; omega
      show (if (if (P.length : Int) - e ≤ i32 (kcp.mss : Int) then (1 : Int)
          else i32 ((u32 ((P.length : Int) - e + (kcp.mss : Int) - 1) / kcp.mss : Nat) : Int)) ≥
            i32 (IKCP_WND_RCV : Int) then _ else _) = _
      rw [hcnt, hw]
      by_cases hbig : (fragment_count kcp.mss (P.length - e) : Int) ≥ 128
      · rw [if_pos hbig, if_pos hbig]
      · rw [if_neg hbig, if_neg hbig]
        have hc0 : ¬ ((fragment_count kcp.mss (P.length - e) : Int) = 0) := by omega
        simp only [hcnt, hc0, if_false, Int.toNat_ofNat]
  rw [hsend] at hok ⊢
  by_cases hz : (P.length : Int) - e ≤ 0
  · rw [if_pos hz]
    have hee : e = P.length := by omega
    rw [hee, List.take_length] at hq1
    exact ⟨rfl, rfl, hq1, by show kcp.nsnd_que = q1.length % 4294967296; rw [hn, hlen1]⟩
  · rw [if_neg hz] at hok ⊢
    by_cases hbig : (fragment_count kcp.mss (P.length - e) : Int) ≥ 128
    · rw [if_pos hbig] at hok
      have hm2 : (-2 : Int) = 0 := hok
      exact absurd hm2 (by decide)
    · rw [if_neg hbig]
      have hlt : e < P.length := by omega
      have hb := fragment_count_bounds kcp.mss (P.length - e) hm0
      have hk1 : 1 ≤ fragment_count kcp.mss (P.length - e) := by unfold fragment_count; omega
      have hdl : (P.drop e).length = P.length - e := List.length_drop e P
      have hbnd : fragment_count kcp.mss (P.length - e) * kcp.mss < (P.length - e) + kcp.mss := by
        rcases hb.1 with h | h
        · exact h
        · have : fragment_count kcp.mss (P.length - e) = 1 := by omega
          rw [this]; omega
      have hloop := ikcp_send_loop_stream (fragment_count kcp.mss (P.length - e))
        (fragment_count kcp.mss (P.length - e)) 0 { kcp with snd_queue := q1 } (P.drop e)
        ((P.length : Int) - e) hs hm0 hm1 (by omega) (le_refl 0) (by omega)
        (by rw [hdl]; omega) (by rw [hdl]; exact hb.1) (by rw [hdl]; exact hb.2)
      rw [hloop, if_neg (by omega)]
      refine ⟨rfl, rfl, ?_, ?_⟩
      · show StreamQueue kcp.mss (D ++ P)
          (q1 ++ (fragments kcp.mss (fragment_count kcp.mss (P.length - e)) (P.drop e)).map
            (fun s => { s with frg := 0 }))
        have hfne : (fragments kcp.mss (fragment_count kcp.mss (P.length - e)) (P.drop e)).map
            (fun s => ({ s with frg := 0 } : IKCPSEG)) ≠ [] := by
          intro h
          have := congrArg List.length h
          rw [List.length_map, fragments_length] at this
          simp at this
          omega
        obtain ⟨a1, a2, a3⟩ := hq1
        refine ⟨?_, ?_, ?_⟩
        · rw [List.map_append, List.flatten_append, a1, List.map_map]
          have : (fragments kcp.mss (fragment_count kcp.mss (P.length - e)) (P.drop e)).map
              ((fun s => s.data) ∘ fun s => ({ s with frg := 0 } : IKCPSEG)) =
              (fragments kcp.mss (fragment_count kcp.mss (P.length - e)) (P.drop e)).map
                (fun s => s.data) := rfl
          rw [this, fragments_join kcp.mss _ (P.drop e) (by rw [hdl]; exact hb.2),
            List.append_assoc, List.take_append_drop]
        · intro s hs'
          rcases List.mem_append.mp hs' with h | h
          · exact a2 s h
          · obtain ⟨f, hf, hfe⟩ := List.mem_map.mp h
            have h1 := fragments_len kcp.mss _ (P.drop e) f hf
            have h2 := fragments_pos kcp.mss hm0 _ (P.drop e) (by rw [hdl]; exact hbnd) f hf
            rw [← hfe]
            exact ⟨rfl, h1.1, h2, h1.2⟩
        · intro s hs'
          rw [List.dropLast_append_of_ne_nil _ hfne] at hs'
          rcases List.mem_append.mp hs' with h | h
          · exact hfull hlt s h
          · rw [← List.map_dropLast] at h
            obtain ⟨f, hf, hfe⟩ := List.mem_map.mp h
            rw [← hfe]
            have := fragments_dropLast_full kcp.mss (P.drop e) hm0
            rw [hdl] at this
            exact this f hf
      · show (kcp.nsnd_que + fragment_count kcp.mss (P.length - e)) % 4294967296 =
          (q1 ++ (fragments kcp.mss (fragment_count kcp.mss (P.length - e)) (P.drop e)).map
            (fun s : IKCPSEG => { s with frg := 0 })).length % 4294967296
        rw [List.length_append, List.length_map, fragments_length, hn, hlen1]
        omega

theorem flatten_length_const (m : Nat) (l : List IKCPSEG) (h : ∀ s ∈ l, s.data.length = m) :
    ((l.map (fun s => s.data)).flatten).length = l.length * m := by
  induction l with
  | nil => simp
  | cons a t ih =>
    rw [List.map_cons, List.flatten_cons, List.length_append, List.length_cons,
      ih (fun s hs => h s (List.mem_cons_of_mem a hs)), h a (List.mem_cons_self a t)]
    ring

/-- A queue built by stream-mode sends of `D` has `ceil(|D| / mss)` segments. -/
theorem StreamQueue_length (mss : Nat) (hm0 : 0 < mss) (D : List Nat) (q : List IKCPSEG)
    (h : StreamQueue mss D q) : q.length = (D.length + mss - 1) / mss := by
  obtain ⟨h1, h2, h3⟩ := h
  rcases List.eq_nil_or_concat q with hq | ⟨init, last, hq⟩
  · subst hq
    have : D = [] := by rw [← h1]; rfl
    rw [this, List.length_nil, List.length_nil]
    exact (Nat.div_eq_of_lt (by omega)).symm
  · subst hq
    rw [List.concat_eq_append] at h1 h2 h3 ⊢
    rw [List.dropLast_concat] at h3
    have hl := h2 last (List.mem_append_right _ (List.mem_singleton.mpr rfl))
    have hinit : ∀ s ∈ init, s.data.length = mss := by
      intro s hs
      rw [← (h2 s (List.mem_append_left _ hs)).2.1]
      exact h3 s hs
    have hD : D.length = init.length * mss + last.len := by
      rw [← h1, List.map_append, List.flatten_append, List.length_append,
        flatten_length_const mss init hinit]
      simp only [List.map_cons, List.map_nil, List.flatten_cons, List.flatten_nil,
        List.append_nil]
      rw [hl.2.1]
    rw [List.length_append, List.length_singleton, hD]
    have e : init.length * mss + last.len + mss - 1 = (last.len - 1) + (init.length + 1) * mss := by
      have : (init.length + 1) * mss = init.length * mss + mss := by ring
      omega
    rw [e, Nat.add_mul_div_right _ _ hm0, Nat.div_eq_of_lt (by omega)]
    omega

/-- A sequence of successful stream-mode sends keeps the queue shape. -/
theorem ikcp_send_all_stream : ∀ (payloads : List (List Nat)) (kcp : IKCPCB) (D : List Nat),
    kcp.stream ≠ 0 → 0 < kcp.mss → kcp.mss < 2147483648 →
    (∀ p ∈ payloads, p.length < 2147483648) →
    StreamQueue kcp.mss D kcp.snd_queue →
    kcp.nsnd_que = kcp.snd_queue.length % 4294967296 →
    (∀ c ∈ (ikcp_send_all kcp payloads).1, c = 0) →
    StreamQueue kcp.mss (D ++ payloads.flatten) (ikcp_send_all kcp payloads).2.snd_queue ∧
    (ikcp_send_all kcp payloads).2.nsnd_que =
      (ikcp_send_all kcp payloads).2.snd_queue.length % 4294967296 := by
  intro payloads
  induction payloads with
  | nil =>
    intro kcp D _ _ _ _ hq hn _
    rw [List.flatten_nil, List.append_nil]
    exact ⟨hq, hn⟩
  | cons p ps ih =>
    intro kcp D hs hm0 hm1 hlen hq hn hok
    rw [ikcp_send_all] at hok ⊢
    have h0 : (ikcp_send kcp p p.length).1 = 0 := hok _ (List.mem_cons_self _ _)
    obtain ⟨s1, s2, s3, s4⟩ := ikcp_send_stream_step kcp p D hs hm0 hm1
      (hlen p (List.mem_cons_self p ps)) hq hn h0
    have := ih (ikcp_send kcp p p.length).2 (D ++ p) (by rw [s1]; exact hs)
      (by rw [s2]; exact hm0) (by rw [s2]; exact hm1)
      (fun x hx => hlen x (List.mem_cons_of_mem p hx)) (by rw [s2]; exact s3) s4
      (fun c hc => hok c (List.mem_cons_of_mem _ hc))
    rw [s2, List.append_assoc] at this
    rw [List.flatten_cons]
    exact this

/-- C18: stream-mode coalescing. For a control block in stream mode (`stream` not 0,
in particular 1) with an empty `snd_queue` (so `nsnd_que = 0`) and `0 < mss < 2^31`,
after any sequence of successful `ikcp_send` calls (every call returns 0, nothing else
is called in between) whose payloads have total length `L`, `snd_queue` holds exactly
`ceil(L / mss)` segments, all with `frg = 0`, every segment but the last with exactly
`mss` bytes, `nsnd_que` equals that count (modulo 2^32, so exactly when `L < 2^32`),
and the segment payloads concatenate to the payloads sent, in call order. -/
theorem C18_stream_coalescing (kcp : IKCPCB) (payloads : List (List Nat))
    (hs : kcp.stream ≠ 0) (hq : kcp.snd_queue = []) (hn : kcp.nsnd_que = 0)
    (hm0 : 0 < kcp.mss) (hm1 : kcp.mss < 2147483648)
    (hlen : ∀ p ∈ payloads, p.length < 2147483648)
    (hok : ∀ c ∈ (ikcp_send_all kcp payloads).1, c = 0) :
    (ikcp_send_all kcp payloads).2.snd_queue.length =
      (payloads.flatten.length + kcp.mss - 1) / kcp.mss ∧
    (∀ s ∈ (ikcp_send_all kcp payloads).2.snd_queue, s.frg = 0 ∧ s.len = s.data.length) ∧
    (∀ s ∈ (ikcp_send_all kcp payloads).2.snd_queue.dropLast,
      s.len = kcp.mss ∧ s.data.length = kcp.mss) ∧
    (ikcp_send_all kcp payloads).2.nsnd_que =
      ((payloads.flatten.length + kcp.mss - 1) / kcp.mss) % 4294967296 ∧
    (payloads.flatten.length < 4294967296 →
      (ikcp_send_all kcp payloads).2.nsnd_que =
        (payloads.flatten.length + kcp.mss - 1) / kcp.mss) ∧
    ((ikcp_send_all kcp payloads).2.snd_queue.map (fun s => s.data)).flatten =
      payloads.flatten := by
  have hq0 : StreamQueue kcp.mss [] kcp.snd_queue := by
    rw [hq]
    exact ⟨rfl, fun s hs => absurd hs (List.not_mem_nil s),
      fun s hs => absurd hs (List.not_mem_nil s)⟩
  obtain ⟨h1, h2⟩ := ikcp_send_all_stream payloads kcp [] hs hm0 hm1 hlen hq0
    (by rw [hn, hq]; rfl) hok
  rw [List.nil_append] at h1
  have hcount := StreamQueue_length kcp.mss hm0 _ _ h1
  have hle : (payloads.flatten.length + kcp.mss - 1) / kcp.mss ≤ payloads.flatten.length := by
    cases hL : payloads.flatten.length with
    | zero =>
      rw [Nat.zero_add, Nat.div_eq_of_lt (by omega)]
    | succ k =>
      apply Nat.div_le_of_le_mul
      have h1 : k ≤ kcp.mss * k := Nat.le_mul_of_pos_left _ hm0
      have h2 : kcp.mss * (k + 1) = kcp.mss * k + kcp.mss := by ring
      omega
  refine ⟨hcount, fun s hs' => ⟨(h1.2.1 s hs').1, (h1.2.1 s hs').2.1⟩, ?_, ?_, ?_, h1.1⟩
  · intro s hs'
    have hmem : s ∈ (ikcp_send_all kcp payloads).2.snd_queue := List.mem_of_mem_dropLast hs'
    have := h1.2.2 s hs'
    exact ⟨this, by rw [← (h1.2.1 s hmem).2.1]; exact this⟩
  · rw [h2, hcount]
  · intro hL
    rw [h2, hcount]
    exact Nat.mod_eq_of_lt (by omega)

theorem C18_stream_coalescing_witness :
    (ikcp_send_all kcpStream fivePayloads).2.snd_queue.length =
      (fivePayloads.flatten.length + kcpStream.mss - 1) / kcpStream.mss ∧
    (∀ s ∈ (ikcp_send_all kcpStream fivePayloads).2.snd_queue,
      s.frg = 0 ∧ s.len = s.data.length) ∧
    (∀ s ∈ (ikcp_send_all kcpStream fivePayloads).2.snd_queue.dropLast,
      s.len = kcpStream.mss ∧ s.data.length = kcpStream.mss) ∧
    (ikcp_send_all kcpStream fivePayloads).2.nsnd_que =
      ((fivePayloads.flatten.length + kcpStream.mss - 1) / kcpStream.mss) % 4294967296 ∧
    (fivePayloads.flatten.length < 4294967296 →
      (ikcp_send_all kcpStream fivePayloads).2.nsnd_que =
        (fivePayloads.flatten.length + kcpStream.mss - 1) / kcpStream.mss) ∧
    ((ikcp_send_all kcpStream fivePayloads).2.snd_queue.map (fun s => s.data)).flatten =
      fivePayloads.flatten :=
  C18_stream_coalescing kcpStream fivePayloads (by decide) rfl rfl (by decide) (by decide)
    (by decide) (by decide!)

/-! ## The member state is written by ikcp_flush only and read by nothing -/

theorem set_state_self (kcp : IKCPCB) : set_state kcp kcp.state = kcp := rfl

theorem ikcp_shrink_buf_state (kcp : IKCPCB) (s : Nat) :
    ikcp_shrink_buf (set_state kcp s) = set_state (ikcp_shrink_buf kcp) s := by
  have key : ∀ l : List IKCPSEG,
      (match l with
        | seg :: _ => { set_state kcp s with snd_una := seg.sn }
        | [] => { set_state kcp s with snd_una := kcp.snd_nxt }) =
      set_state (match l with
        | seg :: _ => { kcp with snd_una := seg.sn }
        | [] => { kcp with snd_una := kcp.snd_nxt }) s := by
    intro l
    cases l <;> rfl
  exact key kcp.snd_buf

theorem ikcp_parse_una_loop_state (una : Nat) (s : Nat) (l : List IKCPSEG) :
    ∀ kcp : IKCPCB, ikcp_parse_una_loop una (set_state kcp s) l =
      set_state (ikcp_parse_una_loop una kcp l) s := by
  induction l with
  | nil => intro kcp; rfl
  | cons a t ih =>
    intro kcp
    rw [ikcp_parse_una_loop, ikcp_parse_una_loop]
    split
    · exact ih { kcp with snd_buf := t, nsnd_buf := u32 ((kcp.nsnd_buf : Int) - 1) }
    · rfl

theorem ikcp_move_rcv_buf_state (s : Nat) (l : List IKCPSEG) :
    ∀ kcp : IKCPCB, ikcp_move_rcv_buf (set_state kcp s) l =
      set_state (ikcp_move_rcv_buf kcp l) s := by
  induction l with
  | nil => intro kcp; rfl
  | cons a t ih =>
    intro kcp
    rw [ikcp_move_rcv_buf, ikcp_move_rcv_buf]
    by_cases h : a.sn = kcp.rcv_nxt ∧ kcp.nrcv_que < kcp.rcv_wnd
    · have h' : a.sn = (set_state kcp s).rcv_nxt ∧
          (set_state kcp s).nrcv_que < (set_state kcp s).rcv_wnd := h
      rw [if_pos h, if_pos h']
      exact ih { kcp with
          rcv_buf := t
          nrcv_buf := u32 ((kcp.nrcv_buf : Int) - 1)
          rcv_queue := kcp.rcv_queue ++ [a]
          nrcv_que := (kcp.nrcv_que + 1) % 4294967296
          rcv_nxt := (kcp.rcv_nxt + 1) % 4294967296 }
    · have h' : ¬ (a.sn = (set_state kcp s).rcv_nxt ∧
          (set_state kcp s).nrcv_que < (set_state kcp s).rcv_wnd) := h
      rw [if_neg h, if_neg h']
      rfl

theorem ikcp_parse_data_state (kcp : IKCPCB) (newseg : IKCPSEG) (s : Nat) :
    ikcp_parse_data (set_state kcp s) newseg = set_state (ikcp_parse_data kcp newseg) s := by
  unfold ikcp_parse_data
  simp only []
  by_cases h : _itimediff newseg.sn ((kcp.rcv_nxt + kcp.rcv_wnd) % 4294967296) ≥ 0 ∨
      _itimediff newseg.sn kcp.rcv_nxt < 0
  · have h' : _itimediff newseg.sn (((set_state kcp s).rcv_nxt + (set_state kcp s).rcv_wnd)
        % 4294967296) ≥ 0 ∨ _itimediff newseg.sn (set_state kcp s).rcv_nxt < 0 := h
    rw [if_pos h, if_pos h']
  · have h' : ¬ (_itimediff newseg.sn (((set_state kcp s).rcv_nxt + (set_state kcp s).rcv_wnd)
        % 4294967296) ≥ 0 ∨ _itimediff newseg.sn (set_state kcp s).rcv_nxt < 0) := h
    rw [if_neg h, if_neg h']
    show ikcp_move_rcv_buf _ _ = _
    cases hsc : ikcp_parse_data_scan newseg kcp.rcv_buf.reverse with
    | none =>
      have hsc' : ikcp_parse_data_scan newseg (set_state kcp s).rcv_buf.reverse = none := hsc
      rw [hsc']
      exact ikcp_move_rcv_buf_state s kcp.rcv_buf kcp
    | some l =>
      have hsc' : ikcp_parse_data_scan newseg (set_state kcp s).rcv_buf.reverse = some l := hsc
      rw [hsc']
      exact ikcp_move_rcv_buf_state s l.reverse
        { kcp with rcv_buf := l.reverse, nrcv_buf := (kcp.nrcv_buf + 1) % 4294967296 }

theorem ikcp_parse_una_state (kcp : IKCPCB) (una s : Nat) :
    ikcp_parse_una (set_state kcp s) una = set_state (ikcp_parse_una kcp una) s :=
  ikcp_parse_una_loop_state una s kcp.snd_buf kcp

theorem ikcp_update_ack_state (kcp : IKCPCB) (rtt : Int) (s : Nat) :
    ikcp_update_ack (set_state kcp s) rtt = set_state (ikcp_update_ack kcp rtt) s := by
  cases kcp
  simp only [ikcp_update_ack, set_state]
  split <;> rfl

theorem ikcp_parse_ack_state (kcp : IKCPCB) (sn s : Nat) :
    ikcp_parse_ack (set_state kcp s) sn = set_state (ikcp_parse_ack kcp sn) s := by
  cases kcp
  simp only [ikcp_parse_ack, set_state]
  split <;> rfl

theorem ikcp_parse_fastack_state (kcp : IKCPCB) (sn ts s : Nat) :
    ikcp_parse_fastack (set_state kcp s) sn ts = set_state (ikcp_parse_fastack kcp sn ts) s := by
  cases kcp
  simp only [ikcp_parse_fastack, set_state]
  split <;> rfl

theorem ikcp_ack_push_state (kcp : IKCPCB) (sn ts s : Nat) :
    ikcp_ack_push (set_state kcp s) sn ts = set_state (ikcp_ack_push kcp sn ts) s := by
  cases kcp
  simp only [ikcp_ack_push, set_state]
  split <;> rfl

theorem ikcp_input_push_state (kcp : IKCPCB) (conv cmd frg wnd ts sn una len : Nat)
    (data : List Nat) (s : Nat) :
    ikcp_input_push (set_state kcp s) conv cmd frg wnd ts sn una len data =
      set_state (ikcp_input_push kcp conv cmd frg wnd ts sn una len data) s := by
  unfold ikcp_input_push
  simp only []
  rw [ikcp_ack_push_state, ikcp_parse_data_state]
  by_cases h : _itimediff sn ((kcp.rcv_nxt + kcp.rcv_wnd) % 4294967296) < 0
  · have h' : _itimediff sn (((set_state kcp s).rcv_nxt + (set_state kcp s).rcv_wnd)
        % 4294967296) < 0 := h
    rw [if_pos h, if_pos h']
    by_cases h2 : _itimediff sn (ikcp_ack_push kcp sn ts).rcv_nxt ≥ 0
    · have h2' : _itimediff sn (set_state (ikcp_ack_push kcp sn ts) s).rcv_nxt ≥ 0 := h2
      rw [if_pos h2, if_pos h2']
    · have h2' : ¬ _itimediff sn (set_state (ikcp_ack_push kcp sn ts) s).rcv_nxt ≥ 0 := h2
      rw [if_neg h2, if_neg h2']
  · have h' : ¬ _itimediff sn (((set_state kcp s).rcv_nxt + (set_state kcp s).rcv_wnd)
        % 4294967296) < 0 := h
    rw [if_neg h, if_neg h']

theorem ikcp_input_ack_state (kcp : IKCPCB) (ts sn s : Nat) :
    ikcp_input_ack (set_state kcp s) ts sn = set_state (ikcp_input_ack kcp ts sn) s := by
  unfold ikcp_input_ack
  simp only []
  by_cases h : _itimediff kcp.current ts ≥ 0
  · have h' : _itimediff (set_state kcp s).current ts ≥ 0 := h
    rw [if_pos h, if_pos h']
    show ikcp_shrink_buf (ikcp_parse_ack (ikcp_update_ack (set_state kcp s)
      (_itimediff kcp.current ts)) sn) = _
    rw [ikcp_update_ack_state, ikcp_parse_ack_state, ikcp_shrink_buf_state]
  · have h' : ¬ _itimediff (set_state kcp s).current ts ≥ 0 := h
    rw [if_neg h, if_neg h', ikcp_parse_ack_state, ikcp_shrink_buf_state]

theorem ikcp_input_record_state (kcp : IKCPCB) (hdr : IKCPSEG) (payload : List Nat)
    (flag : Int) (maxack latest_ts s : Nat) :
    ikcp_input_record (set_state kcp s) hdr payload flag maxack latest_ts =
      ((ikcp_input_record kcp hdr payload flag maxack latest_ts).1,
        set_state (ikcp_input_record kcp hdr payload flag maxack latest_ts).2.1 s,
        (ikcp_input_record kcp hdr payload flag maxack latest_ts).2.2) := by
  have h1 : ikcp_shrink_buf (ikcp_parse_una { set_state kcp s with rmt_wnd := hdr.wnd } hdr.una) =
      set_state (ikcp_shrink_buf (ikcp_parse_una { kcp with rmt_wnd := hdr.wnd } hdr.una)) s := by
    rw [← ikcp_shrink_buf_state, ← ikcp_parse_una_state]
    rfl
  unfold ikcp_input_record
  simp only []
  rw [h1, ikcp_input_ack_state, ikcp_input_push_state]
  split
  · split
    · rfl
    · split <;> rfl
  · split
    · rfl
    · split
      · rfl
      · split <;> rfl

theorem ikcp_input_loop_state (s : Nat) (fuel : Nat) :
    ∀ (kcp : IKCPCB) (data : List Nat) (flag : Int) (maxack latest_ts : Nat),
      ikcp_input_loop fuel (set_state kcp s) data flag maxack latest_ts =
        ((ikcp_input_loop fuel kcp data flag maxack latest_ts).1,
          set_state (ikcp_input_loop fuel kcp data flag maxack latest_ts).2.1 s,
          (ikcp_input_loop fuel kcp data flag maxack latest_ts).2.2) := by
  induction fuel with
  | zero => intro kcp data flag maxack latest_ts; rfl
  | succ n ih =>
    intro kcp data flag maxack latest_ts
    rw [ikcp_input_loop, ikcp_input_loop, ikcp_input_record_state]
    have hc : (set_state kcp s).conv = kcp.conv := rfl
    rw [hc]
    simp only []
    split
    · rfl
    · split
      · rfl
      · split
        · rfl
        · split
          · rfl
          · split
            · rfl
            · exact ih _ _ _ _ _

theorem ite_state_congr {c d : Prop} [Decidable c] [Decidable d] (h : d ↔ c)
    (a b a1 b1 : IKCPCB) (s : Nat) (ha : a1 = set_state a s) (hb : b1 = set_state b s) :
    (if d then a1 else b1) = set_state (if c then a else b) s := by
  subst ha
  subst hb
  by_cases hc : c
  · rw [if_pos hc, if_pos (h.mpr hc)]
  · rw [if_neg hc, if_neg (fun hd => hc (h.mp hd))]

theorem ikcp_input_cwnd_state (kcp : IKCPCB) (prev_una s : Nat) :
    ikcp_input_cwnd (set_state kcp s) prev_una = set_state (ikcp_input_cwnd kcp prev_una) s := by
  unfold ikcp_input_cwnd
  simp only []
  apply ite_state_congr Iff.rfl _ _ _ _ s _ rfl
  apply ite_state_congr Iff.rfl _ _ _ _ s _ rfl
  by_cases c3 : kcp.cwnd < kcp.ssthresh
  · have c3' : (set_state kcp s).cwnd < (set_state kcp s).ssthresh := c3
    rw [if_pos c3, if_pos c3']
    exact ite_state_congr Iff.rfl _ _ _ _ s rfl rfl
  · have c3' : ¬ (set_state kcp s).cwnd < (set_state kcp s).ssthresh := c3
    rw [if_neg c3, if_neg c3']
    have e0 : (if (set_state kcp s).incr < (set_state kcp s).mss then (set_state kcp s).mss
        else (set_state kcp s).incr) = (if kcp.incr < kcp.mss then kcp.mss else kcp.incr) := rfl
    rw [e0]
    generalize (if kcp.incr < kcp.mss then kcp.mss else kcp.incr) = incr0
    by_cases c4 : ((kcp.cwnd + 1) % 4294967296 * kcp.mss) % 4294967296 ≤
        (incr0 + ((kcp.mss * kcp.mss) % 4294967296 / incr0 + kcp.mss / 16) % 4294967296) %
          4294967296
    · have c4' : (((set_state kcp s).cwnd + 1) % 4294967296 * (set_state kcp s).mss) %
          4294967296 ≤
          (incr0 + (((set_state kcp s).mss * (set_state kcp s).mss) % 4294967296 / incr0 +
            (set_state kcp s).mss / 16) % 4294967296) % 4294967296 := c4
      rw [if_pos c4, if_pos c4']
      exact ite_state_congr Iff.rfl _ _ _ _ s rfl rfl
    · have c4' : ¬ (((set_state kcp s).cwnd + 1) % 4294967296 * (set_state kcp s).mss) %
          4294967296 ≤
          (incr0 + (((set_state kcp s).mss * (set_state kcp s).mss) % 4294967296 / incr0 +
            (set_state kcp s).mss / 16) % 4294967296) % 4294967296 := c4
      rw [if_neg c4, if_neg c4']
      exact ite_state_congr Iff.rfl _ _ _ _ s rfl rfl

theorem ikcp_input_finish_state (r : Int × IKCPCB × Int × Nat × Nat) (prev_una s : Nat) :
    ikcp_input_finish (r.1, set_state r.2.1 s, r.2.2) prev_una =
      ((ikcp_input_finish r prev_una).1, set_state (ikcp_input_finish r prev_una).2 s) := by
  unfold ikcp_input_finish
  simp only []
  split
  · rfl
  · split
    · rw [ikcp_parse_fastack_state, ikcp_input_cwnd_state]
    · rw [ikcp_input_cwnd_state]

theorem ikcp_input_state (kcp : IKCPCB) (data : Option (List Nat)) (s : Nat) :
    ikcp_input (set_state kcp s) data =
      ((ikcp_input kcp data).1, set_state (ikcp_input kcp data).2 s) := by
  cases data with
  | none => rfl
  | some d =>
    unfold ikcp_input
    simp only []
    split
    · rfl
    · rw [ikcp_input_loop_state]
      exact ikcp_input_finish_state _ kcp.snd_una s

theorem ikcp_send_stream_state (kcp : IKCPCB) (buffer : List Nat) (len : Int) (s : Nat) :
    ikcp_send_stream (set_state kcp s) buffer len =
      (set_state (ikcp_send_stream kcp buffer len).1 s, (ikcp_send_stream kcp buffer len).2) := by
  cases kcp
  simp only [ikcp_send_stream, set_state]
  split
  · rfl
  · split <;> rfl

theorem ikcp_send_loop_state (count : Int) (s : Nat) (fuel : Nat) :
    ∀ (i : Int) (kcp : IKCPCB) (buffer : List Nat) (len : Int),
      ikcp_send_loop count fuel i (set_state kcp s) buffer len =
        set_state (ikcp_send_loop count fuel i kcp buffer len) s := by
  induction fuel with
  | zero => intro i kcp buffer len; rfl
  | succ n ih =>
    intro i kcp buffer len
    rw [ikcp_send_loop, ikcp_send_loop]
    split
    · simp only []
      exact ih (i + 1)
        { kcp with
          snd_queue := kcp.snd_queue ++ [_]
          nsnd_que := (kcp.nsnd_que + 1) % 4294967296 } _ _
    · rfl

theorem ite_state_pair_congr {c d : Prop} [Decidable c] [Decidable d] (h : d ↔ c)
    (a b a1 b1 : Int × IKCPCB) (s : Nat) (ha : a1 = (a.1, set_state a.2 s))
    (hb : b1 = (b.1, set_state b.2 s)) :
    (if d then a1 else b1) =
      ((if c then a else b).1, set_state (if c then a else b).2 s) := by
  subst ha
  subst hb
  by_cases hc : c
  · rw [if_pos hc, if_pos (h.mpr hc)]
  · rw [if_neg hc, if_neg (fun hd => hc (h.mp hd))]

theorem ikcp_send_state (kcp : IKCPCB) (buffer : List Nat) (len : Int) (s : Nat) :
    ikcp_send (set_state kcp s) buffer len =
      ((ikcp_send kcp buffer len).1, set_state (ikcp_send kcp buffer len).2 s) := by
  have key : (if (set_state kcp s).stream ≠ 0 then ikcp_send_stream (set_state kcp s) buffer len
      else (set_state kcp s, buffer, len)) =
      (set_state (if kcp.stream ≠ 0 then ikcp_send_stream kcp buffer len
          else (kcp, buffer, len)).1 s,
        (if kcp.stream ≠ 0 then ikcp_send_stream kcp buffer len else (kcp, buffer, len)).2) := by
    by_cases h : kcp.stream ≠ 0
    · have h' : (set_state kcp s).stream ≠ 0 := h
      rw [if_pos h, if_pos h', ikcp_send_stream_state]
    · have h' : ¬ (set_state kcp s).stream ≠ 0 := h
      rw [if_neg h, if_neg h']
  unfold ikcp_send
  simp only []
  refine ite_state_pair_congr Iff.rfl _ _ _ _ s rfl ?_
  rw [key]
  generalize (if kcp.stream ≠ 0 then ikcp_send_stream kcp buffer len
    else (kcp, buffer, len)) = S
  refine ite_state_pair_congr Iff.rfl _ _ _ _ s rfl ?_
  refine ite_state_pair_congr Iff.rfl _ _ _ _ s rfl ?_
  have hm : (set_state S.1 s).mss = S.1.mss := rfl
  rw [hm, ikcp_send_loop_state]

theorem ikcp_recv_finish_state (kcp : IKCPCB) (recover : Int) (s : Nat) :
    ikcp_recv_finish (set_state kcp s) recover = set_state (ikcp_recv_finish kcp recover) s := by
  unfold ikcp_recv_finish
  simp only []
  have h : ikcp_move_rcv_buf (set_state kcp s) (set_state kcp s).rcv_buf =
      set_state (ikcp_move_rcv_buf kcp kcp.rcv_buf) s := ikcp_move_rcv_buf_state s kcp.rcv_buf kcp
  rw [h]
  exact ite_state_congr Iff.rfl _ _ _ _ s rfl rfl

theorem ite_state_triple_congr {c d : Prop} [Decidable c] [Decidable d] (h : d ↔ c)
    (a b a1 b1 : Int × List Nat × IKCPCB) (s : Nat) (ha : a1 = (a.1, a.2.1, set_state a.2.2 s))
    (hb : b1 = (b.1, b.2.1, set_state b.2.2 s)) :
    (if d then a1 else b1) =
      ((if c then a else b).1, (if c then a else b).2.1,
        set_state (if c then a else b).2.2 s) := by
  subst ha
  subst hb
  by_cases hc : c
  · rw [if_pos hc, if_pos (h.mpr hc)]
  · rw [if_neg hc, if_neg (fun hd => hc (h.mp hd))]

theorem ikcp_recv_state (kcp : IKCPCB) (buffer : Bool) (len : Int) (s : Nat) :
    ikcp_recv (set_state kcp s) buffer len =
      ((ikcp_recv kcp buffer len).1, (ikcp_recv kcp buffer len).2.1,
        set_state (ikcp_recv kcp buffer len).2.2 s) := by
  unfold ikcp_recv
  simp only []
  refine ite_state_triple_congr Iff.rfl _ _ _ _ s rfl ?_
  refine ite_state_triple_congr Iff.rfl _ _ _ _ s rfl ?_
  refine ite_state_triple_congr Iff.rfl _ _ _ _ s rfl ?_
  refine Prod.ext rfl (Prod.ext rfl ?_)
  exact ikcp_recv_finish_state { kcp with rcv_queue := _, nrcv_que := _ } _ s

theorem ikcp_setmtu_state (kcp : IKCPCB) (mtu : Int) (s : Nat) :
    ikcp_setmtu (set_state kcp s) mtu =
      ((ikcp_setmtu kcp mtu).1, set_state (ikcp_setmtu kcp mtu).2 s) := by
  unfold ikcp_setmtu
  split <;> rfl

theorem ikcp_interval_state (kcp : IKCPCB) (interval : Int) (s : Nat) :
    ikcp_interval (set_state kcp s) interval =
      ((ikcp_interval kcp interval).1, set_state (ikcp_interval kcp interval).2 s) := rfl

theorem ikcp_nodelay_state (kcp : IKCPCB) (nodelay interval resend nc : Int) (s : Nat) :
    ikcp_nodelay (set_state kcp s) nodelay interval resend nc =
      ((ikcp_nodelay kcp nodelay interval resend nc).1,
        set_state (ikcp_nodelay kcp nodelay interval resend nc).2 s) := by
  cases kcp
  simp only [ikcp_nodelay, set_state]
  split <;> split <;> split <;> split <;> rfl

theorem ikcp_wndsize_state (kcp : IKCPCB) (sndwnd rcvwnd : Int) (s : Nat) :
    ikcp_wndsize (set_state kcp s) sndwnd rcvwnd =
      ((ikcp_wndsize kcp sndwnd rcvwnd).1, set_state (ikcp_wndsize kcp sndwnd rcvwnd).2 s) := by
  cases kcp
  simp only [ikcp_wndsize, set_state]
  split <;> split <;> rfl

theorem ikcp_flush_room_state (kcp : IKCPCB) (need : Int) (st : FlushState) (s : Nat) :
    ikcp_flush_room kcp need (set_flush_state st s) =
      set_flush_state (ikcp_flush_room kcp need st) s := by
  unfold ikcp_flush_room
  have h : (set_flush_state st s).ptr = st.ptr := rfl
  rw [h]
  split <;> rfl

theorem set_flush_state_put (R : FlushState) (s : Nat) (x : List Nat) :
    ({ set_flush_state R s with ptr := (set_flush_state R s).ptr ++ x } : FlushState) =
      set_flush_state { R with ptr := R.ptr ++ x } s := rfl

theorem ikcp_flush_put_state (kcp : IKCPCB) (need : Int) (st : FlushState) (s : Nat)
    (x : List Nat) :
    ({ ikcp_flush_room kcp need (set_flush_state st s) with
        ptr := (ikcp_flush_room kcp need (set_flush_state st s)).ptr ++ x } : FlushState) =
      set_flush_state
        { ikcp_flush_room kcp need st with ptr := (ikcp_flush_room kcp need st).ptr ++ x } s := by
  rw [ikcp_flush_room_state]
  exact set_flush_state_put _ s x

theorem ikcp_flush_acks_state (kcp : IKCPCB) (count : Int) (s : Nat) (fuel : Nat) :
    ∀ (i : Int) (seg : IKCPSEG) (st : FlushState),
      ikcp_flush_acks kcp count fuel i seg (set_flush_state st s) =
        ((ikcp_flush_acks kcp count fuel i seg st).1,
          set_flush_state (ikcp_flush_acks kcp count fuel i seg st).2 s) := by
  induction fuel with
  | zero => intro i seg st; rfl
  | succ n ih =>
    intro i seg st
    rw [ikcp_flush_acks, ikcp_flush_acks]
    split
    · simp only []
      rw [ikcp_flush_put_state]
      exact ih (i + 1) _ _
    · rfl

theorem ikcp_flush_cmds_state (kcp : IKCPCB) (a : IKCPSEG × FlushState) (s : Nat) :
    ikcp_flush_cmds kcp (a.1, set_flush_state a.2 s) =
      set_flush_state (ikcp_flush_cmds kcp a) s := by
  unfold ikcp_flush_cmds
  simp only []
  by_cases h1 : kcp.probe &&& IKCP_ASK_SEND ≠ 0
  · rw [if_pos h1, if_pos h1, if_pos h1, ikcp_flush_put_state]
    by_cases h2 : kcp.probe &&& IKCP_ASK_TELL ≠ 0
    · rw [if_pos h2, if_pos h2, ikcp_flush_put_state]
    · rw [if_neg h2, if_neg h2]
  · rw [if_neg h1, if_neg h1, if_neg h1]
    by_cases h2 : kcp.probe &&& IKCP_ASK_TELL ≠ 0
    · rw [if_pos h2, if_pos h2, ikcp_flush_put_state]
    · rw [if_neg h2, if_neg h2]

theorem ikcp_flush_decide_state (kcp : IKCPCB) (current resent rtomin : Nat)
    (segment : IKCPSEG) (st : FlushState) (s : Nat) :
    ikcp_flush_decide kcp current resent rtomin segment (set_flush_state st s) =
      ((ikcp_flush_decide kcp current resent rtomin segment st).1,
        (ikcp_flush_decide kcp current resent rtomin segment st).2.1,
        set_flush_state (ikcp_flush_decide kcp current resent rtomin segment st).2.2 s) := by
  unfold ikcp_flush_decide
  split
  · rfl
  · split
    · rfl
    · split
      · split <;> rfl
      · rfl

theorem ikcp_flush_decide_needsend (kcp : IKCPCB) (current resent rtomin : Nat)
    (segment : IKCPSEG) (st : FlushState) :
    ((ikcp_flush_decide kcp current resent rtomin segment st).2.1 ≠ 0 ↔
      flush_needsend kcp current resent segment = true) ∧
    (flush_needsend kcp current resent segment = true →
      (ikcp_flush_decide kcp current resent rtomin segment st).1.xmit =
        (segment.xmit + 1) % 4294967296) ∧
    (flush_needsend kcp current resent segment = false →
      (ikcp_flush_decide kcp current resent rtomin segment st).1 = segment) := by
  unfold ikcp_flush_decide flush_needsend
  by_cases h1 : segment.xmit = 0
  · rw [if_pos h1]
    simp [h1]
  · rw [if_neg h1]
    by_cases h2 : _itimediff current segment.resendts ≥ 0
    · rw [if_pos h2]
      simp [h1, h2]
    · rw [if_neg h2]
      by_cases h3 : segment.fastack ≥ resent
      · rw [if_pos h3]
        by_cases h4 : i32 segment.xmit ≤ kcp.fastlimit ∨ kcp.fastlimit ≤ 0
        · rw [if_pos h4]
          rcases h4 with h4 | h4
          · simp [h1, h2, h3, h4]
          · simp [h1, h2, h3, h4]
        · rw [if_neg h4]
          have h5 : ¬ i32 segment.xmit ≤ kcp.fastlimit := fun h => h4 (Or.inl h)
          have h6 : ¬ kcp.fastlimit ≤ 0 := fun h => h4 (Or.inr h)
          simp [h1, h2, h3, h5, h6]
      · rw [if_neg h3]
        simp [h1, h2, h3]

theorem ikcp_flush_room_kcp_state (kcp : IKCPCB) (need : Int) (st : FlushState) (s : Nat) :
    ikcp_flush_room (set_state kcp s) need st = ikcp_flush_room kcp need st := rfl

theorem ikcp_flush_acks_kcp_state (kcp : IKCPCB) (count : Int) (s : Nat) (fuel : Nat) :
    ∀ (i : Int) (seg : IKCPSEG) (st : FlushState),
      ikcp_flush_acks (set_state kcp s) count fuel i seg st =
        ikcp_flush_acks kcp count fuel i seg st := by
  induction fuel with
  | zero => intro i seg st; rfl
  | succ n ih =>
    intro i seg st
    rw [ikcp_flush_acks, ikcp_flush_acks]
    split
    · simp only []
      rw [ikcp_flush_room_kcp_state]
      exact ih (i + 1) _ _
    · rfl

theorem ikcp_flush_cmds_kcp_state (kcp : IKCPCB) (a : IKCPSEG × FlushState) (s : Nat) :
    ikcp_flush_cmds (set_state kcp s) a = ikcp_flush_cmds kcp a := rfl

theorem ikcp_flush_decide_kcp_state (kcp : IKCPCB) (current resent rtomin : Nat)
    (segment : IKCPSEG) (st : FlushState) (s : Nat) :
    ikcp_flush_decide (set_state kcp s) current resent rtomin segment st =
      ikcp_flush_decide kcp current resent rtomin segment st := rfl

theorem ikcp_flush_data_kcp_state (kcp : IKCPCB) (current resent rtomin wnd s : Nat)
    (segs : List IKCPSEG) :
    ∀ st : FlushState,
      ikcp_flush_data (set_state kcp s) current resent rtomin wnd segs st =
        ikcp_flush_data kcp current resent rtomin wnd segs st := by
  induction segs with
  | nil => intro st; rfl
  | cons a t ih =>
    intro st
    rw [ikcp_flush_data, ikcp_flush_data]
    simp only []
    rw [ikcp_flush_decide_kcp_state, ikcp_flush_room_kcp_state]
    split
    · rw [ih]
      rfl
    · rw [ih]

theorem flush_dead_cons (kcp : IKCPCB) (current resent : Nat) (a : IKCPSEG)
    (t : List IKCPSEG) :
    flush_dead kcp current resent (a :: t) =
      ((flush_needsend kcp current resent a &&
        decide ((a.xmit + 1) % 4294967296 ≥ kcp.dead_link)) ||
        flush_dead kcp current resent t) := by
  unfold flush_dead
  rw [List.any_cons]

theorem ikcp_flush_data_cons (kcp : IKCPCB) (current resent rtomin wnd : Nat)
    (a : IKCPSEG) (t : List IKCPSEG) (st : FlushState) :
    ikcp_flush_data kcp current resent rtomin wnd (a :: t) st =
      if (ikcp_flush_decide kcp current resent rtomin a st).2.1 ≠ 0 then
        ({ (ikcp_flush_decide kcp current resent rtomin a st).1 with
            ts := current, wnd := wnd, una := kcp.rcv_nxt } ::
          (ikcp_flush_data kcp current resent rtomin wnd t
            (flush_emit kcp
              { (ikcp_flush_decide kcp current resent rtomin a st).1 with
                ts := current, wnd := wnd, una := kcp.rcv_nxt }
              (ikcp_flush_decide kcp current resent rtomin a st).2.2)).1,
          (ikcp_flush_data kcp current resent rtomin wnd t
            (flush_emit kcp
              { (ikcp_flush_decide kcp current resent rtomin a st).1 with
                ts := current, wnd := wnd, una := kcp.rcv_nxt }
              (ikcp_flush_decide kcp current resent rtomin a st).2.2)).2)
      else
        ((ikcp_flush_decide kcp current resent rtomin a st).1 ::
          (ikcp_flush_data kcp current resent rtomin wnd t
            (ikcp_flush_decide kcp current resent rtomin a st).2.2).1,
          (ikcp_flush_data kcp current resent rtomin wnd t
            (ikcp_flush_decide kcp current resent rtomin a st).2.2).2) := by
  rw [ikcp_flush_data]
  simp only []
  split
  · unfold flush_emit
    split <;> rfl
  · rfl

theorem set_flush_state_emit (R : FlushState) (s x dl : Nat) (c : Prop) [Decidable c]
    (p q : List Nat) :
    ({ set_flush_state R s with
        ptr :=
          if c then (set_flush_state R s).ptr ++ p ++ q else (set_flush_state R s).ptr ++ p
        state := if x ≥ dl then 4294967295 else (set_flush_state R s).state } : FlushState) =
      set_flush_state
        { R with
          ptr := if c then R.ptr ++ p ++ q else R.ptr ++ p
          state := if x ≥ dl then 4294967295 else R.state }
        (if x ≥ dl then 4294967295 else s) := by
  unfold set_flush_state
  simp only []

theorem flush_emit_state (kcp : IKCPCB) (seg1 : IKCPSEG) (st : FlushState) (s : Nat) :
    flush_emit kcp seg1 (set_flush_state st s) =
      set_flush_state (flush_emit kcp seg1 st)
        (if seg1.xmit ≥ kcp.dead_link then 4294967295 else s) := by
  unfold flush_emit
  rw [ikcp_flush_room_state]
  exact set_flush_state_emit _ s _ _ _ _ _

theorem ikcp_flush_data_state (kcp : IKCPCB) (current resent rtomin wnd : Nat)
    (segs : List IKCPSEG) :
    ∀ (st : FlushState) (s : Nat),
      ikcp_flush_data kcp current resent rtomin wnd segs (set_flush_state st s) =
        ((ikcp_flush_data kcp current resent rtomin wnd segs st).1,
          set_flush_state (ikcp_flush_data kcp current resent rtomin wnd segs st).2
            (if flush_dead kcp current resent segs = true then 4294967295 else s)) := by
  induction segs with
  | nil => intro st s; rfl
  | cons a t ih =>
    intro st s
    have hd := ikcp_flush_decide_needsend kcp current resent rtomin a st
    rw [ikcp_flush_data_cons, ikcp_flush_data_cons, flush_dead_cons, ikcp_flush_decide_state]
    simp only []
    by_cases hn : (ikcp_flush_decide kcp current resent rtomin a st).2.1 ≠ 0
    · have hns := hd.1.mp hn
      have hx := hd.2.1 hns
      rw [if_pos hn, if_pos hn, flush_emit_state, ih, hns, Bool.true_and]
      have hx1 : ({ (ikcp_flush_decide kcp current resent rtomin a st).1 with
          ts := current, wnd := wnd, una := kcp.rcv_nxt } : IKCPSEG).xmit =
          (a.xmit + 1) % 4294967296 := hx
      rw [hx1]
      by_cases hdl : (a.xmit + 1) % 4294967296 ≥ kcp.dead_link
      · rw [if_pos hdl, decide_eq_true hdl, Bool.true_or, if_pos rfl]
        have h2 : (if flush_dead kcp current resent t = true then 4294967295
            else 4294967295) = 4294967295 := by split <;> rfl
        rw [h2]
      · rw [if_neg hdl, decide_eq_false hdl, Bool.false_or]
    · have hns : flush_needsend kcp current resent a = false := by
        cases h : flush_needsend kcp current resent a with
        | false => rfl
        | true => exact absurd (hd.1.mpr h) hn
      rw [if_neg hn, if_neg hn, ih, hns, Bool.false_and, Bool.false_or]

theorem ikcp_flush_probe_state (kcp : IKCPCB) (s : Nat) :
    ikcp_flush_probe (set_state kcp s) = set_state (ikcp_flush_probe kcp) s := by
  unfold ikcp_flush_probe
  simp only []
  refine ite_state_congr Iff.rfl _ _ _ _ s ?_ rfl
  refine ite_state_congr Iff.rfl _ _ _ _ s rfl ?_
  exact ite_state_congr Iff.rfl _ _ _ _ s rfl rfl

theorem ikcp_flush_promote_state (cwnd wnd current s : Nat) (l : List IKCPSEG) :
    ∀ kcp : IKCPCB, ikcp_flush_promote cwnd wnd current (set_state kcp s) l =
      set_state (ikcp_flush_promote cwnd wnd current kcp l) s := by
  induction l with
  | nil => intro kcp; rfl
  | cons a t ih =>
    intro kcp
    rw [ikcp_flush_promote, ikcp_flush_promote]
    simp only []
    refine ite_state_congr Iff.rfl _ _ _ _ s ?_ rfl
    exact ih { kcp with
      snd_queue := t
      snd_buf := kcp.snd_buf ++ [_]
      nsnd_que := u32 ((kcp.nsnd_que : Int) - 1)
      nsnd_buf := (kcp.nsnd_buf + 1) % 4294967296
      snd_nxt := (kcp.snd_nxt + 1) % 4294967296 }

theorem ikcp_flush_cwnd_fields (kcp : IKCPCB) (change lost : Int) (resent cwnd : Nat) :
    ikcp_flush_cwnd kcp change lost resent cwnd =
      { kcp with
        ssthresh := (ikcp_flush_cwnd kcp change lost resent cwnd).ssthresh
        cwnd := (ikcp_flush_cwnd kcp change lost resent cwnd).cwnd
        incr := (ikcp_flush_cwnd kcp change lost resent cwnd).incr } := by
  unfold ikcp_flush_cwnd
  simp only []
  split_ifs <;> rfl

theorem ikcp_flush_cwnd_state_vals (kcp : IKCPCB) (change lost : Int) (resent cwnd s : Nat) :
    (ikcp_flush_cwnd (set_state kcp s) change lost resent cwnd).ssthresh =
      (ikcp_flush_cwnd kcp change lost resent cwnd).ssthresh ∧
    (ikcp_flush_cwnd (set_state kcp s) change lost resent cwnd).cwnd =
      (ikcp_flush_cwnd kcp change lost resent cwnd).cwnd ∧
    (ikcp_flush_cwnd (set_state kcp s) change lost resent cwnd).incr =
      (ikcp_flush_cwnd kcp change lost resent cwnd).incr := by
  unfold ikcp_flush_cwnd
  simp only [set_state]
  split_ifs <;> exact ⟨rfl, rfl, rfl⟩

theorem ikcp_flush_cwnd_state (kcp : IKCPCB) (change lost : Int) (resent cwnd s : Nat) :
    ikcp_flush_cwnd (set_state kcp s) change lost resent cwnd =
      set_state (ikcp_flush_cwnd kcp change lost resent cwnd) s := by
  have h := ikcp_flush_cwnd_state_vals kcp change lost resent cwnd s
  rw [ikcp_flush_cwnd_fields (set_state kcp s), ikcp_flush_cwnd_fields kcp, h.1, h.2.1, h.2.2]
  rfl

theorem ikcp_flush_send_eq (kcp : IKCPCB) (current cwnd wnd : Nat) (st : FlushState) :
    ikcp_flush_send kcp current cwnd wnd st =
      (ikcp_flush_cwnd
        { kcp with
          snd_buf :=
            (ikcp_flush_data kcp current (flush_resent kcp)
              (if kcp.nodelay = 0 then u32 (kcp.rx_rto / 8) else 0) wnd kcp.snd_buf st).1
          xmit :=
            (ikcp_flush_data kcp current (flush_resent kcp)
              (if kcp.nodelay = 0 then u32 (kcp.rx_rto / 8) else 0) wnd kcp.snd_buf st).2.xmit
          state :=
            (ikcp_flush_data kcp current (flush_resent kcp)
              (if kcp.nodelay = 0 then u32 (kcp.rx_rto / 8) else 0) wnd kcp.snd_buf st).2.state }
        (ikcp_flush_data kcp current (flush_resent kcp)
          (if kcp.nodelay = 0 then u32 (kcp.rx_rto / 8) else 0) wnd kcp.snd_buf st).2.change
        (ikcp_flush_data kcp current (flush_resent kcp)
          (if kcp.nodelay = 0 then u32 (kcp.rx_rto / 8) else 0) wnd kcp.snd_buf st).2.lost
        (flush_resent kcp) cwnd,
       if i32 ((ikcp_flush_data kcp current (flush_resent kcp)
          (if kcp.nodelay = 0 then u32 (kcp.rx_rto / 8) else 0) wnd kcp.snd_buf
            st).2.ptr.length : Int) > 0 then
        ikcp_output
          (ikcp_flush_data kcp current (flush_resent kcp)
            (if kcp.nodelay = 0 then u32 (kcp.rx_rto / 8) else 0) wnd kcp.snd_buf st).2.outs
          (ikcp_flush_data kcp current (flush_resent kcp)
            (if kcp.nodelay = 0 then u32 (kcp.rx_rto / 8) else 0) wnd kcp.snd_buf st).2.ptr
       else
        (ikcp_flush_data kcp current (flush_resent kcp)
          (if kcp.nodelay = 0 then u32 (kcp.rx_rto / 8) else 0) wnd kcp.snd_buf st).2.outs) :=
  rfl

theorem flush_outs_state (R : FlushState) (X : Nat) :
    (if i32 ((set_flush_state R X).ptr.length : Int) > 0 then
        ikcp_output (set_flush_state R X).outs (set_flush_state R X).ptr
      else (set_flush_state R X).outs) =
      (if i32 (R.ptr.length : Int) > 0 then ikcp_output R.outs R.ptr else R.outs) := rfl

theorem ikcp_flush_send_state (kcp : IKCPCB) (current cwnd wnd : Nat) (st : FlushState)
    (s s1 : Nat) :
    ikcp_flush_send (set_state kcp s) current cwnd wnd (set_flush_state st s1) =
      (set_state (ikcp_flush_send kcp current cwnd wnd st).1
          (if flush_dead kcp current (flush_resent kcp) kcp.snd_buf = true then 4294967295
            else s1),
        (ikcp_flush_send kcp current cwnd wnd st).2) := by
  have hR : ikcp_flush_data (set_state kcp s) current (flush_resent (set_state kcp s))
      (if (set_state kcp s).nodelay = 0 then u32 ((set_state kcp s).rx_rto / 8) else 0) wnd
      (set_state kcp s).snd_buf (set_flush_state st s1) =
      ((ikcp_flush_data kcp current (flush_resent kcp)
          (if kcp.nodelay = 0 then u32 (kcp.rx_rto / 8) else 0) wnd kcp.snd_buf st).1,
        set_flush_state (ikcp_flush_data kcp current (flush_resent kcp)
          (if kcp.nodelay = 0 then u32 (kcp.rx_rto / 8) else 0) wnd kcp.snd_buf st).2
          (if flush_dead kcp current (flush_resent kcp) kcp.snd_buf = true then 4294967295
            else s1)) := by
    show ikcp_flush_data (set_state kcp s) current (flush_resent kcp)
      (if kcp.nodelay = 0 then u32 (kcp.rx_rto / 8) else 0) wnd kcp.snd_buf
      (set_flush_state st s1) = _
    rw [ikcp_flush_data_kcp_state, ikcp_flush_data_state]
  rw [ikcp_flush_send_eq, ikcp_flush_send_eq, hR]
  generalize ikcp_flush_data kcp current (flush_resent kcp)
    (if kcp.nodelay = 0 then u32 (kcp.rx_rto / 8) else 0) wnd kcp.snd_buf st = R
  generalize (if flush_dead kcp current (flush_resent kcp) kcp.snd_buf = true then 4294967295
    else s1) = X
  simp only []
  rw [Prod.mk.injEq]
  refine ⟨?_, flush_outs_state R.2 X⟩
  show ikcp_flush_cwnd
    (set_state { kcp with snd_buf := R.1, xmit := R.2.xmit, state := R.2.state } X)
    R.2.change R.2.lost (flush_resent kcp) cwnd = _
  rw [ikcp_flush_cwnd_state]

theorem ikcp_flush_tail_state (kcp : IKCPCB) (current wnd : Nat) (a : IKCPSEG × FlushState)
    (s s1 : Nat) :
    ikcp_flush_tail (set_state kcp s) current wnd (a.1, set_flush_state a.2 s1) =
      (set_state (ikcp_flush_tail kcp current wnd a).1
          (if flush_dead
                (ikcp_flush_promote (ikcp_flush_window { kcp with probe := 0 }) wnd current
                  { kcp with probe := 0 } kcp.snd_queue)
                current
                (flush_resent
                  (ikcp_flush_promote (ikcp_flush_window { kcp with probe := 0 }) wnd current
                    { kcp with probe := 0 } kcp.snd_queue))
                (ikcp_flush_promote (ikcp_flush_window { kcp with probe := 0 }) wnd current
                  { kcp with probe := 0 } kcp.snd_queue).snd_buf = true then 4294967295
            else s1),
        (ikcp_flush_tail kcp current wnd a).2) := by
  unfold ikcp_flush_tail
  show ikcp_flush_send
    (ikcp_flush_promote (ikcp_flush_window { kcp with probe := 0 }) wnd current
      (set_state { kcp with probe := 0 } s) kcp.snd_queue)
    current (ikcp_flush_window { kcp with probe := 0 }) wnd
    (ikcp_flush_cmds (set_state kcp s) (a.1, set_flush_state a.2 s1)) = _
  rw [ikcp_flush_promote_state, ikcp_flush_cmds_kcp_state, ikcp_flush_cmds_state,
    ikcp_flush_send_state]

theorem ikcp_flush_state (kcp : IKCPCB) (s : Nat) :
    ikcp_flush (set_state kcp s) =
      (set_state (ikcp_flush kcp).1 (if flush_latch kcp = true then 4294967295 else s),
        (ikcp_flush kcp).2) := by
  unfold ikcp_flush flush_latch
  by_cases hu : kcp.updated = 0
  · have hu' : (set_state kcp s).updated = 0 := hu
    rw [if_pos hu, if_pos hu']
    have hd : decide (kcp.updated ≠ 0) = false := decide_eq_false (fun h => h hu)
    rw [hd, Bool.false_and]
    rfl
  · have hu' : ¬ (set_state kcp s).updated = 0 := hu
    rw [if_neg hu, if_neg hu']
    have hd : decide (kcp.updated ≠ 0) = true := decide_eq_true hu
    rw [hd, Bool.true_and]
    show ikcp_flush_tail (ikcp_flush_probe (set_state { kcp with ackcount := 0 } s)) kcp.current
      (u32 (ikcp_wnd_unused kcp))
      (ikcp_flush_acks (set_state kcp s) (i32 kcp.ackcount) (i32 kcp.ackcount).toNat 0
        (ikcp_flush_seg kcp)
        (set_flush_state
          { ptr := [], outs := [], change := 0, lost := 0, xmit := kcp.xmit,
            state := kcp.state } s)) = _
    rw [ikcp_flush_probe_state, ikcp_flush_acks_kcp_state, ikcp_flush_acks_state,
      ikcp_flush_tail_state]
    rfl

theorem ite_clock (c : Prop) [Decidable c] (X Y : IKCPCB)
    (f g : IKCPCB → IKCPCB × List (List Nat)) :
    (if c then f X else g Y) =
      if (if c then (X, true) else (Y, false)).2 = true then
        f (if c then (X, true) else (Y, false)).1
      else g (if c then (X, true) else (Y, false)).1 := by
  by_cases h : c
  · rw [if_pos h, if_pos h, if_pos rfl]
  · rw [if_neg h, if_neg h, if_neg Bool.false_ne_true]

theorem ikcp_update_eq (kcp : IKCPCB) (current : Nat) :
    ikcp_update kcp current =
      if (update_clock kcp current).2 = true then ikcp_flush (update_clock kcp current).1
      else ((update_clock kcp current).1, []) := by
  unfold ikcp_update update_clock
  simp only []
  exact ite_clock _ _ _ ikcp_flush (fun k => (k, []))

theorem update_clock_state (kcp : IKCPCB) (current s : Nat) :
    update_clock (set_state kcp s) current =
      (set_state (update_clock kcp current).1 s, (update_clock kcp current).2) := by
  cases kcp
  simp only [update_clock, set_state]
  split_ifs <;> rfl

theorem ikcp_update_state (kcp : IKCPCB) (current s : Nat) :
    ikcp_update (set_state kcp s) current =
      (set_state (ikcp_update kcp current).1
          (if ((update_clock kcp current).2 && flush_latch (update_clock kcp current).1) = true
            then 4294967295 else s),
        (ikcp_update kcp current).2) := by
  rw [ikcp_update_eq, ikcp_update_eq, update_clock_state]
  simp only []
  cases (update_clock kcp current).2 with
  | false => rfl
  | true =>
    rw [if_pos rfl, if_pos rfl, Bool.true_and, ikcp_flush_state]

theorem ikcp_flush_probe_frame (kcp : IKCPCB) :
    (ikcp_flush_probe kcp).dead_link = kcp.dead_link ∧
    (ikcp_flush_probe kcp).fastresend = kcp.fastresend ∧
    (ikcp_flush_probe kcp).fastlimit = kcp.fastlimit ∧
    (ikcp_flush_probe kcp).snd_queue = kcp.snd_queue ∧
    (ikcp_flush_probe kcp).snd_buf = kcp.snd_buf := by
  unfold ikcp_flush_probe
  split
  · split
    · exact ⟨rfl, rfl, rfl, rfl, rfl⟩
    · split <;> exact ⟨rfl, rfl, rfl, rfl, rfl⟩
  · exact ⟨rfl, rfl, rfl, rfl, rfl⟩

theorem ikcp_flush_promote_frame (cwnd wnd current : Nat) (l : List IKCPSEG) :
    ∀ kcp : IKCPCB,
      (ikcp_flush_promote cwnd wnd current kcp l).dead_link = kcp.dead_link ∧
      (ikcp_flush_promote cwnd wnd current kcp l).fastresend = kcp.fastresend ∧
      (ikcp_flush_promote cwnd wnd current kcp l).fastlimit = kcp.fastlimit := by
  induction l with
  | nil => intro kcp; exact ⟨rfl, rfl, rfl⟩
  | cons a t ih =>
    intro kcp
    rw [ikcp_flush_promote]
    split
    · exact ih _
    · exact ⟨rfl, rfl, rfl⟩

theorem flush_promoted_frame (kcp : IKCPCB) :
    (flush_promoted kcp).dead_link = kcp.dead_link ∧
    (flush_promoted kcp).fastresend = kcp.fastresend ∧
    (flush_promoted kcp).fastlimit = kcp.fastlimit := by
  have h1 := ikcp_flush_promote_frame
    (ikcp_flush_window { ikcp_flush_probe { kcp with ackcount := 0 } with probe := 0 })
    (u32 (ikcp_wnd_unused kcp)) kcp.current
    (ikcp_flush_probe { kcp with ackcount := 0 }).snd_queue
    { ikcp_flush_probe { kcp with ackcount := 0 } with probe := 0 }
  have h2 := ikcp_flush_probe_frame { kcp with ackcount := 0 }
  unfold flush_promoted
  exact ⟨h1.1.trans h2.1, h1.2.1.trans h2.2.1, h1.2.2.trans h2.2.2.1⟩

theorem flush_needsend_congr (k1 k2 : IKCPCB) (h : k1.fastlimit = k2.fastlimit)
    (current resent : Nat) (seg : IKCPSEG) :
    flush_needsend k1 current resent seg = flush_needsend k2 current resent seg := by
  unfold flush_needsend
  rw [h]

theorem flush_dead_iff (kcp : IKCPCB) (current resent : Nat) (segs : List IKCPSEG) :
    flush_dead kcp current resent segs = true ↔
      ∃ seg ∈ segs, flush_needsend kcp current resent seg = true ∧
        (seg.xmit + 1) % 4294967296 ≥ kcp.dead_link := by
  unfold flush_dead
  rw [List.any_eq_true]
  constructor
  · rintro ⟨seg, hm, h⟩
    rw [Bool.and_eq_true, decide_eq_true_eq] at h
    exact ⟨seg, hm, h⟩
  · rintro ⟨seg, hm, h⟩
    refine ⟨seg, hm, ?_⟩
    rw [Bool.and_eq_true, decide_eq_true_eq]
    exact h

theorem ikcp_flush_data_xmit (kcp : IKCPCB) (current resent rtomin wnd : Nat)
    (segs : List IKCPSEG) :
    ∀ st : FlushState,
      (ikcp_flush_data kcp current resent rtomin wnd segs st).1.map (fun seg => seg.xmit) =
        segs.map (fun seg =>
          if flush_needsend kcp current resent seg = true then (seg.xmit + 1) % 4294967296
          else seg.xmit) := by
  induction segs with
  | nil => intro st; rfl
  | cons a t ih =>
    intro st
    have hd := ikcp_flush_decide_needsend kcp current resent rtomin a st
    rw [ikcp_flush_data_cons]
    by_cases hn : (ikcp_flush_decide kcp current resent rtomin a st).2.1 ≠ 0
    · have hns := hd.1.mp hn
      rw [if_pos hn, List.map_cons, List.map_cons, ih, if_pos hns]
      exact congrArg (fun x => x :: _) (hd.2.1 hns)
    · have hns : flush_needsend kcp current resent a = false := by
        cases h : flush_needsend kcp current resent a with
        | false => rfl
        | true => exact absurd (hd.1.mpr h) hn
      rw [if_neg hn, List.map_cons, List.map_cons, ih, hd.2.2 hns, hns, if_neg Bool.false_ne_true]

theorem ikcp_flush_snd_buf_xmit (kcp : IKCPCB) (hu : kcp.updated ≠ 0) :
    (ikcp_flush kcp).1.snd_buf.map (fun seg => seg.xmit) =
      (flush_promoted kcp).snd_buf.map (fun seg =>
        if flush_needsend kcp kcp.current (flush_resent kcp) seg = true then
          (seg.xmit + 1) % 4294967296
        else seg.xmit) := by
  have hf := flush_promoted_frame kcp
  have hr : flush_resent (flush_promoted kcp) = flush_resent kcp := by
    unfold flush_resent
    rw [hf.2.1]
  have hn : ∀ seg, flush_needsend (flush_promoted kcp) kcp.current (flush_resent kcp) seg =
      flush_needsend kcp kcp.current (flush_resent kcp) seg :=
    fun seg => flush_needsend_congr _ _ hf.2.2 _ _ seg
  unfold ikcp_flush
  rw [if_neg hu]
  unfold ikcp_flush_tail
  rw [ikcp_flush_send_eq, ikcp_flush_cwnd_fields]
  show (ikcp_flush_data (flush_promoted kcp) kcp.current (flush_resent (flush_promoted kcp)) _ _
    (flush_promoted kcp).snd_buf _).1.map (fun seg => seg.xmit) = _
  rw [ikcp_flush_data_xmit, hr]
  exact List.map_congr_left (fun seg _ => by rw [hn seg])

/-- With the default `dead_link = 20` and every datagram lost, the marker is set by the
flush that transmits the segment for the 20th time, that is, retransmits it for the
19th time: after 20 calls of `ikcp_update` the segment has been sent 19 times and
`state` is 0, after the 21st call it has been sent 20 times and `state` is all-ones. -/
theorem C19_counterexample :
    (kcpLossy 20).dead_link = 20 ∧
    (kcpLossy 20).snd_buf.map (fun seg => seg.xmit) = [19] ∧ (kcpLossy 20).state = 0 ∧
    (kcpLossy 21).snd_buf.map (fun seg => seg.xmit) = [20] ∧
    (kcpLossy 21).state = 4294967295 := by
  decide!

/-- C19 (amended): the dead-link marker. For every control block `kcp` and every value
`s` of its member `state`: `ikcp_flush` sets `state` to all-ones (4294967295) exactly
when it runs (`updated` is set) and transmits a segment of `snd_buf` whose transmission
count `xmit`, which counts the first transmission as well and is incremented by every
transmission, reaches `dead_link`; otherwise it leaves `state` as it was, so a `state`
that is all-ones stays all-ones. Everything else the flush produces, the datagrams and
all other members, does not depend on `state`. `ikcp_update` behaves like the flush it
may call, and `ikcp_send`, `ikcp_input`, `ikcp_recv` and the setters neither read nor
write `state`: on a control block that differs in `state` only they return the same
values and the same control block up to `state`, which they keep. -/
theorem C19_dead_link_latch (kcp : IKCPCB) (s : Nat) :
    ((ikcp_flush kcp).1.state = if flush_latch kcp = true then 4294967295 else kcp.state) ∧
    (flush_latch kcp = true ↔
      kcp.updated ≠ 0 ∧ ∃ seg ∈ (flush_promoted kcp).snd_buf,
        flush_needsend kcp kcp.current (flush_resent kcp) seg = true ∧
          (seg.xmit + 1) % 4294967296 ≥ kcp.dead_link) ∧
    (kcp.updated ≠ 0 →
      (ikcp_flush kcp).1.snd_buf.map (fun seg => seg.xmit) =
        (flush_promoted kcp).snd_buf.map (fun seg =>
          if flush_needsend kcp kcp.current (flush_resent kcp) seg = true then
            (seg.xmit + 1) % 4294967296
          else seg.xmit)) ∧
    (ikcp_flush (set_state kcp s) =
      (set_state (ikcp_flush kcp).1 (if flush_latch kcp = true then 4294967295 else s),
        (ikcp_flush kcp).2)) ∧
    (∀ current : Nat,
      ikcp_update (set_state kcp s) current =
        (set_state (ikcp_update kcp current).1
            (if ((update_clock kcp current).2 && flush_latch (update_clock kcp current).1) = true
              then 4294967295 else s),
          (ikcp_update kcp current).2)) ∧
    (∀ (buffer : List Nat) (len : Int),
      ikcp_send (set_state kcp s) buffer len =
        ((ikcp_send kcp buffer len).1, set_state (ikcp_send kcp buffer len).2 s)) ∧
    (∀ data : Option (List Nat),
      ikcp_input (set_state kcp s) data =
        ((ikcp_input kcp data).1, set_state (ikcp_input kcp data).2 s)) ∧
    (∀ (buffer : Bool) (len : Int),
      ikcp_recv (set_state kcp s) buffer len =
        ((ikcp_recv kcp buffer len).1, (ikcp_recv kcp buffer len).2.1,
          set_state (ikcp_recv kcp buffer len).2.2 s)) ∧
    (∀ mtu : Int,
      ikcp_setmtu (set_state kcp s) mtu =
        ((ikcp_setmtu kcp mtu).1, set_state (ikcp_setmtu kcp mtu).2 s)) ∧
    (∀ interval : Int,
      ikcp_interval (set_state kcp s) interval =
        ((ikcp_interval kcp interval).1, set_state (ikcp_interval kcp interval).2 s)) ∧
    (∀ nodelay interval resend nc : Int,
      ikcp_nodelay (set_state kcp s) nodelay interval resend nc =
        ((ikcp_nodelay kcp nodelay interval resend nc).1,
          set_state (ikcp_nodelay kcp nodelay interval resend nc).2 s)) ∧
    (∀ sndwnd rcvwnd : Int,
      ikcp_wndsize (set_state kcp s) sndwnd rcvwnd =
        ((ikcp_wndsize kcp sndwnd rcvwnd).1, set_state (ikcp_wndsize kcp sndwnd rcvwnd).2 s)) := by
  refine ⟨?_, ?_, ikcp_flush_snd_buf_xmit kcp, ikcp_flush_state kcp s,
    fun current => ikcp_update_state kcp current s,
    fun buffer len => ikcp_send_state kcp buffer len s,
    fun data => ikcp_input_state kcp data s,
    fun buffer len => ikcp_recv_state kcp buffer len s,
    fun mtu => ikcp_setmtu_state kcp mtu s,
    fun interval => ikcp_interval_state kcp interval s,
    fun nodelay interval resend nc => ikcp_nodelay_state kcp nodelay interval resend nc s,
    fun sndwnd rcvwnd => ikcp_wndsize_state kcp sndwnd rcvwnd s⟩
  · have h := ikcp_flush_state kcp kcp.state
    rw [set_state_self] at h
    have h2 := congrArg (fun r => r.1.state) h
    exact h2
  · have hf := flush_promoted_frame kcp
    have hr : flush_resent (flush_promoted kcp) = flush_resent kcp := by
      unfold flush_resent
      rw [hf.2.1]
    unfold flush_latch
    rw [Bool.and_eq_true, decide_eq_true_eq, flush_dead_iff, hr, hf.1]
    constructor
    · rintro ⟨hu, seg, hm, h1, h2⟩
      exact ⟨hu, seg, hm, (flush_needsend_congr _ _ hf.2.2 _ _ seg).symm.trans h1, h2⟩
    · rintro ⟨hu, seg, hm, h1, h2⟩
      exact ⟨hu, seg, hm, (flush_needsend_congr _ _ hf.2.2 _ _ seg).trans h1, h2⟩

/-! ## A parse failure after whole records -/

/-- With the default fast-ack accounting skipped: after an ACK for sequence number 1
followed by a record of a foreign conversation, `ikcp_input` returns -1 and the older
segment in `snd_buf` keeps `fastack = 0`; after the ACK record alone it returns 0 and
that segment has `fastack = 1`. The resulting `snd_buf` are not the same. -/
theorem C11_counterexample :
    (ikcp_input kcpTwoInFlight (some (ackOne ++ foreignRecord))).1 = -1 ∧
    (ikcp_input kcpTwoInFlight (some ackOne)).1 = 0 ∧
    (ikcp_input kcpTwoInFlight (some (ackOne ++ foreignRecord))).2.snd_buf.map
      (fun s => (s.sn, s.fastack)) = [(0, 0)] ∧
    (ikcp_input kcpTwoInFlight (some ackOne)).2.snd_buf.map
      (fun s => (s.sn, s.fastack)) = [(0, 1)] ∧
    (ikcp_input kcpTwoInFlight (some (ackOne ++ foreignRecord))).2.snd_buf ≠
      (ikcp_input kcpTwoInFlight (some ackOne)).2.snd_buf := by
  decide!

theorem ikcp_input_record_payload (kcp : IKCPCB) (r : IKCPSEG) (rest : List Nat) (flag : Int)
    (a b : Nat) (hlen : r.len = r.data.length) :
    ikcp_input_record kcp (record_header r) (r.data ++ rest) flag a b =
      ikcp_input_record kcp (record_header r) r.data flag a b := by
  have ht : (r.data ++ rest).take r.len = r.data.take r.len := by
    rw [hlen, List.take_left, List.take_length]
  have hp : ∀ k : IKCPCB,
      ikcp_input_push k (record_header r).conv (record_header r).cmd (record_header r).frg
        (record_header r).wnd (record_header r).ts (record_header r).sn (record_header r).una
        (record_header r).len (r.data ++ rest) =
      ikcp_input_push k (record_header r).conv (record_header r).cmd (record_header r).frg
        (record_header r).wnd (record_header r).ts (record_header r).sn (record_header r).una
        (record_header r).len r.data := by
    intro k
    unfold ikcp_input_push
    have hl : (record_header r).len = r.len := rfl
    rw [hl, ht]
  unfold ikcp_input_record
  simp only []
  rw [hp]

theorem ikcp_input_loop_records (recs : List IKCPSEG) :
    ∀ (fuel : Nat) (kcp : IKCPCB) (rest : List Nat) (flag : Int) (a b : Nat),
      kcp.conv < 4294967296 → (∀ r ∈ recs, valid_record kcp.conv r) →
      ikcp_input_loop (recs.length + fuel) kcp ((recs.map record_bytes).flatten ++ rest)
          flag a b =
        ikcp_input_loop fuel (input_records kcp flag a b recs).1 rest
          (input_records kcp flag a b recs).2.1 (input_records kcp flag a b recs).2.2.1
          (input_records kcp flag a b recs).2.2.2 := by
  induction recs with
  | nil =>
    intro fuel kcp rest flag a b _ _
    rw [List.length_nil, Nat.zero_add]
    rfl
  | cons r rs ih =>
    intro fuel kcp rest flag a b hconv hv
    have hvr := hv r (List.mem_cons_self _ _)
    have hstep := ikcp_input_loop_record (rs.length + fuel) kcp r
      ((rs.map record_bytes).flatten ++ rest) flag a b hconv hvr
    have hpay := ikcp_input_record_payload kcp r ((rs.map record_bytes).flatten ++ rest) flag a b
      hvr.2.2.2.2.2.2.2.1
    rw [hpay] at hstep
    have hc := ikcp_input_record_kcp_conv kcp (record_header r) r.data flag a b
    have e1 : (r :: rs).length + fuel = rs.length + fuel + 1 := by
      rw [List.length_cons]; omega
    rw [e1, List.map_cons, List.flatten_cons, List.append_assoc, hstep, input_records]
    exact ih fuel _ rest _ _ _ (by rw [hc]; exact hconv)
      (fun x hx => by rw [hc]; exact hv x (List.mem_cons_of_mem _ hx))

theorem ikcp_input_loop_stop (fuel : Nat) (kcp : IKCPCB) (d : List Nat) (flag : Int)
    (a b : Nat) (hd : d.length < 2147483648) (hs : stop_code kcp.conv d < 0) :
    ikcp_input_loop (fuel + 1) kcp d flag a b = (stop_code kcp.conv d, kcp, flag, a, b) := by
  have hr := (ikcp_decode_seg_ranges d).2.2.2.2.2.2.2
  have ho : i32 (IKCP_OVERHEAD : Int) = 24 := by decide
  have ho' : ((IKCP_OVERHEAD : Nat) : Int) = 24 := rfl
  have n0 : ¬ ((0 : Int) < 0) := by decide
  have n1 : ¬ ((1 : Int) < 0) := by decide
  unfold stop_code at hs ⊢
  rw [ikcp_input_loop, ho, ho']
  by_cases h1 : d.length < 24
  · rw [if_pos h1] at hs
    exact absurd hs n0
  · have h1' : ¬ (d.length : Int) < 24 := by omega
    rw [if_neg h1] at hs ⊢
    rw [if_neg h1']
    by_cases h2 : (ikcp_decode_seg d).1.conv ≠ kcp.conv
    · rw [if_pos h2, if_pos h2]
    · rw [if_neg h2] at hs ⊢
      rw [if_neg h2]
      have hi : i32 ((ikcp_decode_seg d).1.len : Int) < 0 ↔
          2147483648 ≤ (ikcp_decode_seg d).1.len := by
        unfold i32; split <;> omega
      by_cases h3 : 24 + (ikcp_decode_seg d).1.len > d.length
      · have h3' : (d.length : Int) - 24 < ((ikcp_decode_seg d).1.len : Int) ∨
            i32 ((ikcp_decode_seg d).1.len : Int) < 0 := by
          left; omega
        rw [if_pos h3', if_pos h3]
      · have h3' : ¬ ((d.length : Int) - 24 < ((ikcp_decode_seg d).1.len : Int) ∨
            i32 ((ikcp_decode_seg d).1.len : Int) < 0) := by
          rw [hi]; omega
        rw [if_neg h3] at hs ⊢
        rw [if_neg h3']
        by_cases h4 : (ikcp_decode_seg d).1.cmd ≠ IKCP_CMD_PUSH ∧
            (ikcp_decode_seg d).1.cmd ≠ IKCP_CMD_ACK ∧
            (ikcp_decode_seg d).1.cmd ≠ IKCP_CMD_WASK ∧
            (ikcp_decode_seg d).1.cmd ≠ IKCP_CMD_WINS
        · rw [if_pos h4, if_pos h4]
        · rw [if_neg h4] at hs
          exact absurd hs n1

theorem ikcp_input_records_conv (recs : List IKCPSEG) :
    ∀ (kcp : IKCPCB) (flag : Int) (a b : Nat),
      (input_records kcp flag a b recs).1.conv = kcp.conv := by
  induction recs with
  | nil => intro kcp flag a b; rfl
  | cons r rs ih =>
    intro kcp flag a b
    rw [input_records, ih, ikcp_input_record_kcp_conv]

theorem ikcp_parse_fastack_loop_erase (sn : Nat) (l : List IKCPSEG) :
    (ikcp_parse_fastack_loop sn l).map (fun s : IKCPSEG => { s with fastack := 0 }) =
      l.map (fun s : IKCPSEG => { s with fastack := 0 }) := by
  induction l with
  | nil => rfl
  | cons a t ih =>
    rw [ikcp_parse_fastack_loop]
    split
    · rfl
    · split
      · rw [List.map_cons, List.map_cons, ih]
      · rw [List.map_cons, List.map_cons, ih]

theorem ikcp_parse_fastack_fields (kcp : IKCPCB) (sn ts : Nat) :
    ikcp_parse_fastack kcp sn ts =
      { kcp with snd_buf := (ikcp_parse_fastack kcp sn ts).snd_buf } ∧
    (ikcp_parse_fastack kcp sn ts).snd_buf.map (fun s : IKCPSEG => { s with fastack := 0 }) =
      kcp.snd_buf.map (fun s : IKCPSEG => { s with fastack := 0 }) := by
  unfold ikcp_parse_fastack
  split
  · exact ⟨rfl, rfl⟩
  · exact ⟨rfl, ikcp_parse_fastack_loop_erase sn kcp.snd_buf⟩

/-- What `ikcp_input` does on a datagram of whole valid records followed by bytes at
which parsing fails: the code of the failure and the control block as the records
left it. -/
theorem ikcp_input_failure (kcp : IKCPCB) (recs : List IKCPSEG) (tail : List Nat)
    (hconv : kcp.conv < 4294967296) (hv : ∀ r ∈ recs, valid_record kcp.conv r)
    (hbad : stop_code kcp.conv tail < 0)
    (hlen : ((recs.map record_bytes).flatten ++ tail).length < 2147483648) :
    ikcp_input kcp (some ((recs.map record_bytes).flatten ++ tail)) =
      (stop_code kcp.conv tail, (input_records kcp 0 0 0 recs).1) := by
  have h24 : 24 ≤ tail.length := by
    by_contra h
    have h0 := ((stop_code_cases kcp.conv tail).1).mpr (by omega)
    rw [h0] at hbad
    exact absurd hbad (by decide)
  have hrl : ∀ rs : List IKCPSEG, rs.length ≤ ((rs.map record_bytes).flatten).length := by
    intro rs
    induction rs with
    | nil => exact Nat.le_refl _
    | cons r rs ih =>
      rw [List.map_cons, List.flatten_cons, List.length_append, List.length_cons,
        record_bytes_length]
      omega
  have hl := hrl recs
  rw [List.length_append] at hlen
  have hc := ikcp_input_records_conv recs kcp 0 0 0
  unfold ikcp_input
  simp only []
  have ho : i32 (IKCP_OVERHEAD : Int) = 24 := by decide
  rw [ho, i32_of_lt _ (by omega) (by rw [List.length_append]; omega), List.length_append]
  rw [if_neg (by omega)]
  have hfuel : ((recs.map record_bytes).flatten).length + tail.length =
      recs.length + ((((recs.map record_bytes).flatten).length - recs.length) +
        (tail.length - 1) + 1) := by omega
  rw [hfuel, ikcp_input_loop_records recs _ kcp tail 0 0 0 hconv hv,
    ikcp_input_loop_stop _ _ tail _ _ _ (by omega) (by rw [hc]; exact hbad), hc]
  unfold ikcp_input_finish
  rw [if_pos hbad]

/-- What `ikcp_input` does on a datagram of whole valid records: the records are
processed in order, then the fast-ack accounting and the congestion window update
run. -/
theorem ikcp_input_whole (kcp : IKCPCB) (recs : List IKCPSEG)
    (hconv : kcp.conv < 4294967296) (hv : ∀ r ∈ recs, valid_record kcp.conv r)
    (hne : recs ≠ [])
    (hlen : ((recs.map record_bytes).flatten).length < 2147483648) :
    ikcp_input kcp (some (recs.map record_bytes).flatten) =
      (0, ikcp_input_cwnd
        (if (input_records kcp 0 0 0 recs).2.1 ≠ 0 then
          ikcp_parse_fastack (input_records kcp 0 0 0 recs).1
            (input_records kcp 0 0 0 recs).2.2.1 (input_records kcp 0 0 0 recs).2.2.2
        else (input_records kcp 0 0 0 recs).1) kcp.snd_una) := by
  have hrl : ∀ rs : List IKCPSEG, rs.length ≤ ((rs.map record_bytes).flatten).length := by
    intro rs
    induction rs with
    | nil => exact Nat.le_refl _
    | cons r rs ih =>
      rw [List.map_cons, List.flatten_cons, List.length_append, List.length_cons,
        record_bytes_length]
      omega
  have hl := hrl recs
  have h24 : 24 ≤ ((recs.map record_bytes).flatten).length := by
    cases recs with
    | nil => exact absurd rfl hne
    | cons r rs =>
      rw [List.map_cons, List.flatten_cons, List.length_append, record_bytes_length]
      omega
  unfold ikcp_input
  simp only []
  have ho : i32 (IKCP_OVERHEAD : Int) = 24 := by decide
  rw [ho, i32_of_lt _ (by omega) (by omega)]
  rw [if_neg (by omega)]
  have hloop := ikcp_input_loop_records recs
    (((recs.map record_bytes).flatten).length - recs.length) kcp [] 0 0 0 hconv hv
  rw [List.append_nil, ikcp_input_loop_nil] at hloop
  have hfuel : recs.length + (((recs.map record_bytes).flatten).length - recs.length) =
      ((recs.map record_bytes).flatten).length := by omega
  rw [hfuel] at hloop
  rw [hloop]
  unfold ikcp_input_finish
  have n0 : ¬ ((0 : Int) < 0) := by decide
  rw [if_neg n0]

theorem ikcp_input_cwnd_fields (kcp : IKCPCB) (prev_una : Nat) :
    ikcp_input_cwnd kcp prev_una =
      { kcp with
        cwnd := (ikcp_input_cwnd kcp prev_una).cwnd
        incr := (ikcp_input_cwnd kcp prev_una).incr } := by
  unfold ikcp_input_cwnd
  simp only []
  split_ifs <;> rfl

theorem ikcp_input_tail_fields (L : IKCPCB) (flag : Int) (maxack ts prev_una : Nat) :
    ikcp_input_cwnd (if flag ≠ 0 then ikcp_parse_fastack L maxack ts else L) prev_una =
      { L with
        cwnd := (ikcp_input_cwnd (if flag ≠ 0 then ikcp_parse_fastack L maxack ts else L)
          prev_una).cwnd
        incr := (ikcp_input_cwnd (if flag ≠ 0 then ikcp_parse_fastack L maxack ts else L)
          prev_una).incr
        snd_buf := (ikcp_input_cwnd (if flag ≠ 0 then ikcp_parse_fastack L maxack ts else L)
          prev_una).snd_buf } ∧
    (ikcp_input_cwnd (if flag ≠ 0 then ikcp_parse_fastack L maxack ts else L)
        prev_una).snd_buf.map (fun s : IKCPSEG => { s with fastack := 0 }) =
      L.snd_buf.map (fun s : IKCPSEG => { s with fastack := 0 }) := by
  have hf := ikcp_parse_fastack_fields L maxack ts
  have hX : ∀ X : IKCPCB, X = { L with snd_buf := X.snd_buf } →
      X.snd_buf.map (fun s : IKCPSEG => { s with fastack := 0 }) =
        L.snd_buf.map (fun s : IKCPSEG => { s with fastack := 0 }) →
      ikcp_input_cwnd X prev_una =
        { L with
          cwnd := (ikcp_input_cwnd X prev_una).cwnd
          incr := (ikcp_input_cwnd X prev_una).incr
          snd_buf := (ikcp_input_cwnd X prev_una).snd_buf } ∧
      (ikcp_input_cwnd X prev_una).snd_buf.map (fun s : IKCPSEG => { s with fastack := 0 }) =
        L.snd_buf.map (fun s : IKCPSEG => { s with fastack := 0 }) := by
    intro X h1 h2
    have hc := ikcp_input_cwnd_fields X prev_una
    generalize ikcp_input_cwnd X prev_una = F at hc ⊢
    have hs : F.snd_buf = X.snd_buf := by rw [hc]
    constructor
    · rw [hs]
      generalize X.snd_buf = sb at h1
      generalize F.cwnd = c at hc ⊢
      generalize F.incr = i at hc ⊢
      subst h1
      exact hc
    · rw [hs, h2]
  by_cases h : flag ≠ 0
  · rw [if_pos h]
    exact hX _ hf.1 hf.2
  · rw [if_neg h]
    exact hX L rfl rfl

/-- C11 (amended): effects of already-processed records persist on a parse failure.
Take a control block with a 32-bit `conv`, whole valid records `recs` and bytes `tail`
at which parsing fails (a header with a mismatched `conv`, with `len` exceeding the
remaining bytes, or with an unknown `cmd`). `ikcp_input` of the records followed by
`tail` returns the negative code of the failure, and the resulting control block is
the one the record loop has built. Compared with `ikcp_input` of the records alone it
has the same `rmt_wnd`, `snd_una`, ack list, `rcv_buf`, `rcv_queue` and `rcv_nxt`, and
every other member but `cwnd`, `incr` and `snd_buf` is the same too; `snd_buf` holds the
same segments up to their `fastack` counters, which only the successful call
advances. -/
theorem C11_parse_failure_keeps_records (kcp : IKCPCB) (recs : List IKCPSEG)
    (tail : List Nat) (hconv : kcp.conv < 4294967296)
    (hv : ∀ r ∈ recs, valid_record kcp.conv r) (hbad : stop_code kcp.conv tail < 0)
    (hlen : ((recs.map record_bytes).flatten ++ tail).length < 2147483648) :
    (ikcp_input kcp (some ((recs.map record_bytes).flatten ++ tail))).1 =
      stop_code kcp.conv tail ∧
    (ikcp_input kcp (some ((recs.map record_bytes).flatten ++ tail))).1 < 0 ∧
    (ikcp_input kcp (some ((recs.map record_bytes).flatten ++ tail))).2 =
      (input_records kcp 0 0 0 recs).1 ∧
    (ikcp_input kcp (some (recs.map record_bytes).flatten)).2 =
      { (ikcp_input kcp (some ((recs.map record_bytes).flatten ++ tail))).2 with
        cwnd := (ikcp_input kcp (some (recs.map record_bytes).flatten)).2.cwnd
        incr := (ikcp_input kcp (some (recs.map record_bytes).flatten)).2.incr
        snd_buf := (ikcp_input kcp (some (recs.map record_bytes).flatten)).2.snd_buf } ∧
    (ikcp_input kcp (some (recs.map record_bytes).flatten)).2.snd_buf.map
        (fun s : IKCPSEG => { s with fastack := 0 }) =
      (ikcp_input kcp (some ((recs.map record_bytes).flatten ++ tail))).2.snd_buf.map
        (fun s : IKCPSEG => { s with fastack := 0 }) ∧
    (ikcp_input kcp (some ((recs.map record_bytes).flatten ++ tail))).2.rmt_wnd =
      (ikcp_input kcp (some (recs.map record_bytes).flatten)).2.rmt_wnd ∧
    (ikcp_input kcp (some ((recs.map record_bytes).flatten ++ tail))).2.snd_una =
      (ikcp_input kcp (some (recs.map record_bytes).flatten)).2.snd_una ∧
    (ikcp_input kcp (some ((recs.map record_bytes).flatten ++ tail))).2.acklist =
      (ikcp_input kcp (some (recs.map record_bytes).flatten)).2.acklist ∧
    (ikcp_input kcp (some ((recs.map record_bytes).flatten ++ tail))).2.ackcount =
      (ikcp_input kcp (some (recs.map record_bytes).flatten)).2.ackcount ∧
    (ikcp_input kcp (some ((recs.map record_bytes).flatten ++ tail))).2.rcv_buf =
      (ikcp_input kcp (some (recs.map record_bytes).flatten)).2.rcv_buf ∧
    (ikcp_input kcp (some ((recs.map record_bytes).flatten ++ tail))).2.rcv_queue =
      (ikcp_input kcp (some (recs.map record_bytes).flatten)).2.rcv_queue ∧
    (ikcp_input kcp (some ((recs.map record_bytes).flatten ++ tail))).2.rcv_nxt =
      (ikcp_input kcp (some (recs.map record_bytes).flatten)).2.rcv_nxt := by
  have hA := ikcp_input_failure kcp recs tail hconv hv hbad hlen
  have key : (ikcp_input kcp (some (recs.map record_bytes).flatten)).2 =
      { (input_records kcp 0 0 0 recs).1 with
        cwnd := (ikcp_input kcp (some (recs.map record_bytes).flatten)).2.cwnd
        incr := (ikcp_input kcp (some (recs.map record_bytes).flatten)).2.incr
        snd_buf := (ikcp_input kcp (some (recs.map record_bytes).flatten)).2.snd_buf } ∧
      (ikcp_input kcp (some (recs.map record_bytes).flatten)).2.snd_buf.map
          (fun s : IKCPSEG => { s with fastack := 0 }) =
        (input_records kcp 0 0 0 recs).1.snd_buf.map
          (fun s : IKCPSEG => { s with fastack := 0 }) := by
    by_cases hne : recs = []
    · subst hne
      exact ⟨rfl, rfl⟩
    · rw [List.length_append] at hlen
      rw [ikcp_input_whole kcp recs hconv hv hne (by omega)]
      exact ikcp_input_tail_fields _ _ _ _ _
  rw [hA]
  generalize (ikcp_input kcp (some (recs.map record_bytes).flatten)).2 = B at key
  generalize (input_records kcp 0 0 0 recs).1 = A at key
  obtain ⟨k1, k2⟩ := key
  refine ⟨rfl, hbad, rfl, k1, k2, ?_, ?_, ?_, ?_, ?_, ?_, ?_⟩
  all_goals rw [k1]

theorem C11_parse_failure_keeps_records_witness :
    (ikcp_input kcpTwoInFlight (some (([ackOneRecord].map record_bytes).flatten ++ foreignRecord))).1 =
      stop_code kcpTwoInFlight.conv foreignRecord ∧
    (ikcp_input kcpTwoInFlight (some (([ackOneRecord].map record_bytes).flatten ++ foreignRecord))).1 < 0 ∧
    (ikcp_input kcpTwoInFlight (some (([ackOneRecord].map record_bytes).flatten ++ foreignRecord))).2 =
      (input_records kcpTwoInFlight 0 0 0 [ackOneRecord]).1 ∧
    (ikcp_input kcpTwoInFlight (some ([ackOneRecord].map record_bytes).flatten)).2 =
      { (ikcp_input kcpTwoInFlight (some (([ackOneRecord].map record_bytes).flatten ++ foreignRecord))).2 with
        cwnd := (ikcp_input kcpTwoInFlight (some ([ackOneRecord].map record_bytes).flatten)).2.cwnd
        incr := (ikcp_input kcpTwoInFlight (some ([ackOneRecord].map record_bytes).flatten)).2.incr
        snd_buf := (ikcp_input kcpTwoInFlight (some ([ackOneRecord].map record_bytes).flatten)).2.snd_buf } ∧
    (ikcp_input kcpTwoInFlight (some ([ackOneRecord].map record_bytes).flatten)).2.snd_buf.map
        (fun s : IKCPSEG => { s with fastack := 0 }) =
      (ikcp_input kcpTwoInFlight (some (([ackOneRecord].map record_bytes).flatten ++ foreignRecord))).2.snd_buf.map
        (fun s : IKCPSEG => { s with fastack := 0 }) ∧
    (ikcp_input kcpTwoInFlight (some (([ackOneRecord].map record_bytes).flatten ++ foreignRecord))).2.rmt_wnd =
      (ikcp_input kcpTwoInFlight (some ([ackOneRecord].map record_bytes).flatten)).2.rmt_wnd ∧
    (ikcp_input kcpTwoInFlight (some (([ackOneRecord].map record_bytes).flatten ++ foreignRecord))).2.snd_una =
      (ikcp_input kcpTwoInFlight (some ([ackOneRecord].map record_bytes).flatten)).2.snd_una ∧
    (ikcp_input kcpTwoInFlight (some (([ackOneRecord].map record_bytes).flatten ++ foreignRecord))).2.acklist =
      (ikcp_input kcpTwoInFlight (some ([ackOneRecord].map record_bytes).flatten)).2.acklist ∧
    (ikcp_input kcpTwoInFlight (some (([ackOneRecord].map record_bytes).flatten ++ foreignRecord))).2.ackcount =
      (ikcp_input kcpTwoInFlight (some ([ackOneRecord].map record_bytes).flatten)).2.ackcount ∧
    (ikcp_input kcpTwoInFlight (some (([ackOneRecord].map record_bytes).flatten ++ foreignRecord))).2.rcv_buf =
      (ikcp_input kcpTwoInFlight (some ([ackOneRecord].map record_bytes).flatten)).2.rcv_buf ∧
    (ikcp_input kcpTwoInFlight (some (([ackOneRecord].map record_bytes).flatten ++ foreignRecord))).2.rcv_queue =
      (ikcp_input kcpTwoInFlight (some ([ackOneRecord].map record_bytes).flatten)).2.rcv_queue ∧
    (ikcp_input kcpTwoInFlight (some (([ackOneRecord].map record_bytes).flatten ++ foreignRecord))).2.rcv_nxt =
      (ikcp_input kcpTwoInFlight (some ([ackOneRecord].map record_bytes).flatten)).2.rcv_nxt :=
  C11_parse_failure_keeps_records kcpTwoInFlight [ackOneRecord] foreignRecord (by decide)
    (by
      intro r hr
      rw [List.mem_singleton] at hr
      subst hr
      exact ⟨rfl, Or.inr (Or.inl rfl), by decide, by decide, by decide, by decide, by decide,
        rfl, by decide⟩)
    (by decide) (by decide)

/-! ## Operations that leave the send side or the receive side alone -/

theorem rcv_core_of_part (a b : IKCPCB) (h : rcv_part a = rcv_part b) :
    rcv_core a = rcv_core b := by
  have h1 : (rcv_part a).rcv_nxt = (rcv_part b).rcv_nxt := by rw [h]
  have h2 : (rcv_part a).rcv_buf = (rcv_part b).rcv_buf := by rw [h]
  have h3 : (rcv_part a).rcv_queue = (rcv_part b).rcv_queue := by rw [h]
  have h1' : a.rcv_nxt = b.rcv_nxt := h1
  have h2' : a.rcv_buf = b.rcv_buf := h2
  have h3' : a.rcv_queue = b.rcv_queue := h3
  unfold rcv_core
  rw [h1', h2', h3']

theorem ikcp_update_ack_snd (kcp : IKCPCB) (rtt : Int) :
    snd_part (ikcp_update_ack kcp rtt) = snd_part kcp := by
  unfold ikcp_update_ack; simp only []; split <;> rfl

theorem ikcp_update_ack_rcv (kcp : IKCPCB) (rtt : Int) :
    rcv_core (ikcp_update_ack kcp rtt) = rcv_core kcp := by
  unfold ikcp_update_ack; simp only []; split <;> rfl

theorem ikcp_ack_push_snd (kcp : IKCPCB) (sn ts : Nat) :
    snd_part (ikcp_ack_push kcp sn ts) = snd_part kcp := by
  unfold ikcp_ack_push; simp only []; split <;> rfl

theorem ikcp_move_rcv_buf_snd (l : List IKCPSEG) :
    ∀ kcp : IKCPCB, snd_part (ikcp_move_rcv_buf kcp l) = snd_part kcp := by
  induction l with
  | nil => intro kcp; rfl
  | cons s t ih =>
    intro kcp
    rw [ikcp_move_rcv_buf]
    split
    · rw [ih]; rfl
    · rfl

theorem ikcp_parse_data_snd (kcp : IKCPCB) (seg : IKCPSEG) :
    snd_part (ikcp_parse_data kcp seg) = snd_part kcp := by
  unfold ikcp_parse_data
  simp only []
  split
  · rfl
  · rw [ikcp_move_rcv_buf_snd]
    split <;> rfl

theorem ikcp_input_push_snd (kcp : IKCPCB) (conv cmd frg wnd ts sn una len : Nat)
    (data : List Nat) :
    snd_part (ikcp_input_push kcp conv cmd frg wnd ts sn una len data) = snd_part kcp := by
  unfold ikcp_input_push
  simp only []
  split
  · split
    · rw [ikcp_parse_data_snd, ikcp_ack_push_snd]
    · rw [ikcp_ack_push_snd]
  · rfl

theorem ikcp_input_cwnd_snd (kcp : IKCPCB) (prev_una : Nat) :
    snd_part (ikcp_input_cwnd kcp prev_una) = snd_part kcp := by
  rw [ikcp_input_cwnd_fields]
  rfl

theorem ikcp_input_cwnd_core (kcp : IKCPCB) (prev_una : Nat) :
    rcv_core (ikcp_input_cwnd kcp prev_una) = rcv_core kcp := by
  rw [ikcp_input_cwnd_fields]
  rfl

theorem ikcp_parse_ack_rcv (kcp : IKCPCB) (sn : Nat) :
    rcv_core (ikcp_parse_ack kcp sn) = rcv_core kcp := by
  unfold ikcp_parse_ack; split <;> rfl

theorem ikcp_parse_fastack_rcv (kcp : IKCPCB) (sn ts : Nat) :
    rcv_core (ikcp_parse_fastack kcp sn ts) = rcv_core kcp := by
  unfold ikcp_parse_fastack; split <;> rfl

theorem ikcp_shrink_buf_core (kcp : IKCPCB) :
    rcv_core (ikcp_shrink_buf kcp) = rcv_core kcp :=
  rcv_core_of_part _ _ (ikcp_shrink_buf_rcv kcp)

theorem ikcp_input_una_core (kcp : IKCPCB) (wnd una : Nat) :
    rcv_core (ikcp_shrink_buf (ikcp_parse_una { kcp with rmt_wnd := wnd } una)) =
      rcv_core kcp :=
  rcv_core_of_part _ _ (ikcp_input_una_rcv kcp wnd una)

theorem ikcp_ack_push_core (kcp : IKCPCB) (sn ts : Nat) :
    rcv_core (ikcp_ack_push kcp sn ts) = rcv_core kcp :=
  rcv_core_of_part _ _ (ikcp_ack_push_rcv kcp sn ts)

theorem ikcp_input_ack_rcv (kcp : IKCPCB) (ts sn : Nat) :
    rcv_core (ikcp_input_ack kcp ts sn) = rcv_core kcp := by
  unfold ikcp_input_ack
  simp only []
  rw [ikcp_shrink_buf_core, ikcp_parse_ack_rcv]
  split
  · exact ikcp_update_ack_rcv _ _
  · rfl

theorem ikcp_send_loop_rcv (count : Int) (fuel : Nat) :
    ∀ (i : Int) (kcp : IKCPCB) (buffer : List Nat) (len : Int),
      rcv_core (ikcp_send_loop count fuel i kcp buffer len) = rcv_core kcp := by
  induction fuel with
  | zero => intro i kcp buffer len; rfl
  | succ n ih =>
    intro i kcp buffer len
    rw [ikcp_send_loop]
    split
    · simp only []
      rw [ih]
      rfl
    · rfl

theorem ikcp_send_stream_rcv (kcp : IKCPCB) (buffer : List Nat) (len : Int) :
    rcv_core (ikcp_send_stream kcp buffer len).1 = rcv_core kcp := by
  unfold ikcp_send_stream
  split
  · rfl
  · split <;> rfl

theorem ite_snd_cases {c : Prop} [Decidable c] (x y : Int × IKCPCB) (P : IKCPCB → Prop)
    (hx : P x.2) (hy : P y.2) : P (if c then x else y).2 := by
  split <;> assumption

/-- The control block `ikcp_send` returns is the one it was given, or the one the
stream-mode prologue left, or the result of the fragment loop on the latter. -/
theorem ikcp_send_cases (kcp : IKCPCB) (buffer : List Nat) (len : Int) :
    (ikcp_send kcp buffer len).2 = kcp ∨
    (0 ≤ len ∧ (ikcp_send kcp buffer len).2 =
      (if kcp.stream ≠ 0 then ikcp_send_stream kcp buffer len else (kcp, buffer, len)).1) ∨
    (0 ≤ len ∧ ∃ (count : Int) (fuel : Nat), (ikcp_send kcp buffer len).2 =
      ikcp_send_loop count fuel 0
        (if kcp.stream ≠ 0 then ikcp_send_stream kcp buffer len else (kcp, buffer, len)).1
        (if kcp.stream ≠ 0 then ikcp_send_stream kcp buffer len else (kcp, buffer, len)).2.1
        (if kcp.stream ≠ 0 then ikcp_send_stream kcp buffer len else (kcp, buffer, len)).2.2) := by
  unfold ikcp_send
  simp only []
  generalize (if kcp.stream ≠ 0 then ikcp_send_stream kcp buffer len
      else (kcp, buffer, len)) = S
  generalize (if S.2.2 ≤ i32 S.1.mss then (1 : Int)
      else i32 ((u32 (S.2.2 + S.1.mss - 1) / S.1.mss : Nat) : Int)) = c0
  by_cases h0 : len < 0
  · rw [if_pos h0]
    exact Or.inl rfl
  · rw [if_neg h0]
    have hl : 0 ≤ len := by omega
    refine ite_snd_cases _ _ (fun k => k = kcp ∨ (0 ≤ len ∧ k = S.1) ∨
      (0 ≤ len ∧ ∃ (count : Int) (fuel : Nat),
        k = ikcp_send_loop count fuel 0 S.1 S.2.1 S.2.2)) ?_ ?_
    · exact Or.inr (Or.inl ⟨hl, rfl⟩)
    · refine ite_snd_cases _ _ (fun k => k = kcp ∨ (0 ≤ len ∧ k = S.1) ∨
        (0 ≤ len ∧ ∃ (count : Int) (fuel : Nat),
          k = ikcp_send_loop count fuel 0 S.1 S.2.1 S.2.2)) ?_ ?_
      · exact Or.inr (Or.inl ⟨hl, rfl⟩)
      · exact Or.inr (Or.inr ⟨hl, _, _, rfl⟩)

theorem ikcp_send_rcv (kcp : IKCPCB) (buffer : List Nat) (len : Int) :
    rcv_core (ikcp_send kcp buffer len).2 = rcv_core kcp := by
  have hs : rcv_core (if kcp.stream ≠ 0 then ikcp_send_stream kcp buffer len
      else (kcp, buffer, len)).1 = rcv_core kcp := by
    split
    · exact ikcp_send_stream_rcv kcp buffer len
    · rfl
  rcases ikcp_send_cases kcp buffer len with h | ⟨_, h⟩ | ⟨_, count, fuel, h⟩
  · rw [h]
  · rw [h, hs]
  · rw [h, ikcp_send_loop_rcv, hs]

theorem ikcp_flush_probe_snd (kcp : IKCPCB) :
    snd_part (ikcp_flush_probe kcp) = snd_part kcp := by
  unfold ikcp_flush_probe snd_part
  split
  · split
    · rfl
    · split <;> rfl
  · rfl

theorem ikcp_flush_probe_rcv (kcp : IKCPCB) :
    rcv_core (ikcp_flush_probe kcp) = rcv_core kcp := by
  unfold ikcp_flush_probe rcv_core
  split
  · split
    · rfl
    · split <;> rfl
  · rfl

theorem ikcp_flush_promote_rcv (cwnd wnd current : Nat) (l : List IKCPSEG) :
    ∀ kcp : IKCPCB, rcv_core (ikcp_flush_promote cwnd wnd current kcp l) = rcv_core kcp := by
  induction l with
  | nil => intro kcp; rfl
  | cons a t ih =>
    intro kcp
    rw [ikcp_flush_promote]
    split
    · simp only []
      rw [ih]
      rfl
    · rfl

theorem ikcp_flush_cwnd_snd (kcp : IKCPCB) (change lost : Int) (resent cwnd : Nat) :
    snd_part (ikcp_flush_cwnd kcp change lost resent cwnd) = snd_part kcp := by
  rw [ikcp_flush_cwnd_fields]
  rfl

theorem ikcp_flush_cwnd_rcv (kcp : IKCPCB) (change lost : Int) (resent cwnd : Nat) :
    rcv_core (ikcp_flush_cwnd kcp change lost resent cwnd) = rcv_core kcp := by
  rw [ikcp_flush_cwnd_fields]
  rfl

theorem ikcp_flush_rcv (kcp : IKCPCB) : rcv_core (ikcp_flush kcp).1 = rcv_core kcp := by
  unfold ikcp_flush
  split
  · rfl
  · unfold ikcp_flush_tail
    rw [ikcp_flush_send_eq, ikcp_flush_cwnd_rcv]
    show rcv_core (ikcp_flush_promote _ _ _ _ _) = _
    rw [ikcp_flush_promote_rcv]
    show rcv_core (ikcp_flush_probe { kcp with ackcount := 0 }) = _
    rw [ikcp_flush_probe_rcv]
    rfl

theorem update_clock_fields (kcp : IKCPCB) (current : Nat) :
    (update_clock kcp current).1 =
      { kcp with
        current := current
        updated := (update_clock kcp current).1.updated
        ts_flush := (update_clock kcp current).1.ts_flush } := by
  unfold update_clock
  simp only []
  split_ifs <;> rfl

theorem ikcp_update_rcv (kcp : IKCPCB) (current : Nat) :
    rcv_core (ikcp_update kcp current).1 = rcv_core kcp := by
  rw [ikcp_update_eq]
  split
  · rw [ikcp_flush_rcv, update_clock_fields]
    rfl
  · rw [update_clock_fields]
    rfl

theorem ikcp_setmtu_rcv (kcp : IKCPCB) (mtu : Int) :
    rcv_core (ikcp_setmtu kcp mtu).2 = rcv_core kcp := by
  unfold ikcp_setmtu; split <;> rfl

theorem ikcp_nodelay_fields (kcp : IKCPCB) (nodelay interval resend nc : Int) :
    (ikcp_nodelay kcp nodelay interval resend nc).2 =
      { kcp with
        nodelay := (ikcp_nodelay kcp nodelay interval resend nc).2.nodelay
        rx_minrto := (ikcp_nodelay kcp nodelay interval resend nc).2.rx_minrto
        interval := (ikcp_nodelay kcp nodelay interval resend nc).2.interval
        fastresend := (ikcp_nodelay kcp nodelay interval resend nc).2.fastresend
        nocwnd := (ikcp_nodelay kcp nodelay interval resend nc).2.nocwnd } := by
  unfold ikcp_nodelay
  simp only []
  split_ifs <;> rfl

theorem ikcp_wndsize_fields (kcp : IKCPCB) (sndwnd rcvwnd : Int) :
    (ikcp_wndsize kcp sndwnd rcvwnd).2 =
      { kcp with
        snd_wnd := (ikcp_wndsize kcp sndwnd rcvwnd).2.snd_wnd
        rcv_wnd := (ikcp_wndsize kcp sndwnd rcvwnd).2.rcv_wnd } := by
  unfold ikcp_wndsize
  simp only []
  split_ifs <;> rfl

/-! ## The order of the receive side -/

theorem sn_offset_self (n : Nat) : sn_offset n n = 0 := by
  unfold sn_offset; omega

theorem sn_offset_succ (n x : Nat) (h1 : 1 ≤ sn_offset n x) :
    sn_offset ((n + 1) % 4294967296) x = sn_offset n x - 1 := by
  unfold sn_offset at *; omega

/-- A sequence number that is not behind `n` in signed order is less than `2^31`
ahead of it. -/
theorem offset_of_itimediff (n x : Nat) (h : ¬ _itimediff x n < 0) :
    sn_offset n x < 2147483648 := by
  unfold _itimediff i32 at h
  unfold sn_offset
  split at h <;> omega

theorem RcvOrd_move (l : List IKCPSEG) :
    ∀ kcp : IKCPCB, kcp.rcv_nxt < 4294967296 →
      l.Pairwise (fun x y => sn_offset kcp.rcv_nxt x.sn < sn_offset kcp.rcv_nxt y.sn) →
      (∀ s ∈ l, s.sn < 4294967296 ∧ sn_offset kcp.rcv_nxt s.sn < 2147483648) →
      kcp.rcv_queue.Chain' (fun a b => b.sn = (a.sn + 1) % 4294967296) →
      (∀ s ∈ kcp.rcv_queue.getLast?, (s.sn + 1) % 4294967296 = kcp.rcv_nxt) →
      RcvOrd (rcv_core (ikcp_move_rcv_buf kcp l)) := by
  induction l with
  | nil =>
    intro kcp hn _ _ hc hl
    exact ⟨hn, List.Pairwise.nil, fun s hs => absurd hs (List.not_mem_nil s), hc, hl⟩
  | cons s t ih =>
    intro kcp hn hp hb hc hl
    have hpc := List.pairwise_cons.mp hp
    have hs := hb s (List.mem_cons_self _ _)
    rw [ikcp_move_rcv_buf]
    by_cases hcond : s.sn = kcp.rcv_nxt ∧ kcp.nrcv_que < kcp.rcv_wnd
    · rw [if_pos hcond]
      have h0 : sn_offset kcp.rcv_nxt s.sn = 0 := by
        rw [hcond.1]; exact sn_offset_self _
      have hn1 : (kcp.rcv_nxt + 1) % 4294967296 < 4294967296 := Nat.mod_lt _ (by decide)
      have hshift : ∀ x ∈ t, sn_offset ((kcp.rcv_nxt + 1) % 4294967296) x.sn =
          sn_offset kcp.rcv_nxt x.sn - 1 ∧ 1 ≤ sn_offset kcp.rcv_nxt x.sn := by
        intro x hx
        have h1 := hpc.1 x hx
        have h2 : 1 ≤ sn_offset kcp.rcv_nxt x.sn := by omega
        exact ⟨sn_offset_succ _ _ h2, h2⟩
      apply ih
      · exact hn1
      · refine List.Pairwise.imp_of_mem ?_ hpc.2
        intro a b ha hb' hab
        have h1 := hshift a ha
        have h2 := hshift b hb'
        show sn_offset ((kcp.rcv_nxt + 1) % 4294967296) a.sn <
          sn_offset ((kcp.rcv_nxt + 1) % 4294967296) b.sn
        rw [h1.1, h2.1]
        omega
      · intro x hx
        have h1 := hshift x hx
        have hx1 := hb x (List.mem_cons_of_mem _ hx)
        refine ⟨hx1.1, ?_⟩
        show sn_offset ((kcp.rcv_nxt + 1) % 4294967296) x.sn < 2147483648
        rw [h1.1]
        omega
      · show (kcp.rcv_queue ++ [s]).Chain' (fun a b => b.sn = (a.sn + 1) % 4294967296)
        rw [List.chain'_append]
        refine ⟨hc, List.chain'_singleton s, ?_⟩
        intro x hx y hy
        rw [List.head?_cons, Option.mem_def, Option.some.injEq] at hy
        subst hy
        rw [hl x hx]
        exact hcond.1
      · intro x hx
        have hx' : x ∈ (kcp.rcv_queue ++ [s]).getLast? := hx
        rw [List.getLast?_append_of_ne_nil _ (List.cons_ne_nil s []), List.getLast?_singleton,
          Option.mem_def, Option.some.injEq] at hx'
        subst hx'
        show (s.sn + 1) % 4294967296 = (kcp.rcv_nxt + 1) % 4294967296
        rw [hcond.1]
    · rw [if_neg hcond]
      exact ⟨hn, hp, hb, hc, hl⟩

theorem RcvOrd_parse_data (kcp : IKCPCB) (seg : IKCPSEG) (hseg : seg.sn < 4294967296)
    (h : RcvOrd (rcv_core kcp)) : RcvOrd (rcv_core (ikcp_parse_data kcp seg)) := by
  obtain ⟨hn, hp, hb, hc, hl⟩ := h
  have hn' : kcp.rcv_nxt < 4294967296 := hn
  have hp' : kcp.rcv_buf.Pairwise
      (fun x y => sn_offset kcp.rcv_nxt x.sn < sn_offset kcp.rcv_nxt y.sn) := hp
  have hb' : ∀ s ∈ kcp.rcv_buf, s.sn < 4294967296 ∧
      sn_offset kcp.rcv_nxt s.sn < 2147483648 := hb
  have hc' : kcp.rcv_queue.Chain' (fun a b => b.sn = (a.sn + 1) % 4294967296) := hc
  have hl' : ∀ s ∈ kcp.rcv_queue.getLast?, (s.sn + 1) % 4294967296 = kcp.rcv_nxt := hl
  unfold ikcp_parse_data
  simp only []
  by_cases hw : _itimediff seg.sn ((kcp.rcv_nxt + kcp.rcv_wnd) % 4294967296) ≥ 0 ∨
      _itimediff seg.sn kcp.rcv_nxt < 0
  · rw [if_pos hw]
    exact ⟨hn, hp, hb, hc, hl⟩
  · rw [if_neg hw]
    have hoff : sn_offset kcp.rcv_nxt seg.sn < 2147483648 :=
      offset_of_itimediff _ _ (fun h => hw (Or.inr h))
    have hrev : ∀ s ∈ kcp.rcv_buf.reverse, s.sn < 4294967296 ∧
        sn_offset kcp.rcv_nxt s.sn < 2147483648 :=
      fun s hs => hb' s (List.mem_reverse.mp hs)
    have hsorted : kcp.rcv_buf.reverse.Pairwise
        (fun x y => sn_offset kcp.rcv_nxt y.sn < sn_offset kcp.rcv_nxt x.sn) :=
      List.pairwise_reverse.mpr hp'
    by_cases hmem : ∃ s ∈ kcp.rcv_buf.reverse, s.sn = seg.sn
    · rw [ikcp_parse_data_scan_none kcp.rcv_nxt seg _ hoff hrev hsorted hmem]
      exact RcvOrd_move kcp.rcv_buf kcp hn' hp' hb' hc' hl'
    · obtain ⟨res, hres, hsort, hmemr⟩ :=
        ikcp_parse_data_scan_some kcp.rcv_nxt seg _ hseg hoff hrev hsorted hmem
      rw [hres]
      apply RcvOrd_move
      · exact hn'
      · exact List.pairwise_reverse.mpr hsort
      · intro s hs
        rcases (hmemr s).mp (List.mem_reverse.mp hs) with h1 | h1
        · rw [h1]; exact ⟨hseg, hoff⟩
        · exact hrev s h1
      · exact hc'
      · exact hl'

theorem RcvOrd_input_push (kcp : IKCPCB) (conv cmd frg wnd ts sn una len : Nat)
    (data : List Nat) (hsn : sn < 4294967296) (h : RcvOrd (rcv_core kcp)) :
    RcvOrd (rcv_core (ikcp_input_push kcp conv cmd frg wnd ts sn una len data)) := by
  unfold ikcp_input_push
  simp only []
  split
  · split
    · apply RcvOrd_parse_data
      · exact hsn
      · rw [ikcp_ack_push_core]; exact h
    · rw [ikcp_ack_push_core]; exact h
  · exact h

theorem RcvOrd_input_record (kcp : IKCPCB) (hdr : IKCPSEG) (payload : List Nat) (flag : Int)
    (a b : Nat) (hsn : hdr.sn < 4294967296) (h : RcvOrd (rcv_core kcp)) :
    RcvOrd (rcv_core (ikcp_input_record kcp hdr payload flag a b).2.1) := by
  have h1 : RcvOrd (rcv_core
      (ikcp_shrink_buf (ikcp_parse_una { kcp with rmt_wnd := hdr.wnd } hdr.una))) := by
    rw [ikcp_input_una_core]; exact h
  unfold ikcp_input_record
  simp only []
  split
  · have h2 : RcvOrd (rcv_core (ikcp_input_ack
        (ikcp_shrink_buf (ikcp_parse_una { kcp with rmt_wnd := hdr.wnd } hdr.una))
        hdr.ts hdr.sn)) := by
      rw [ikcp_input_ack_rcv]; exact h1
    split
    · exact h2
    · split <;> exact h2
  · split
    · exact RcvOrd_input_push _ _ _ _ _ _ _ _ _ _ hsn h1
    · split
      · exact h1
      · split <;> exact h1

theorem RcvOrd_input_loop (fuel : Nat) :
    ∀ (kcp : IKCPCB) (data : List Nat) (flag : Int) (a b : Nat),
      RcvOrd (rcv_core kcp) →
      RcvOrd (rcv_core (ikcp_input_loop fuel kcp data flag a b).2.1) := by
  induction fuel with
  | zero => intro kcp data flag a b h; exact h
  | succ n ih =>
    intro kcp data flag a b h
    have hr := RcvOrd_input_record kcp (ikcp_decode_seg data).1 (ikcp_decode_seg data).2 flag
      a b (ikcp_decode_seg_ranges data).2.2.2.2.2.1 h
    rw [ikcp_input_loop]
    split
    · exact h
    · split
      · exact h
      · split
        · exact h
        · split
          · exact h
          · split
            · exact hr
            · exact ih _ _ _ _ _ hr

theorem RcvOrd_input (kcp : IKCPCB) (data : Option (List Nat)) (h : RcvOrd (rcv_core kcp)) :
    RcvOrd (rcv_core (ikcp_input kcp data).2) := by
  cases data with
  | none => exact h
  | some d =>
    have hl := RcvOrd_input_loop d.length kcp d 0 0 0 h
    unfold ikcp_input
    simp only []
    split
    · exact h
    · unfold ikcp_input_finish
      split
      · exact hl
      · simp only []
        rw [ikcp_input_cwnd_core]
        split
        · rw [ikcp_parse_fastack_rcv]; exact hl
        · exact hl

theorem ikcp_recv_merge_peek (buffer : Bool) (ispeek : Int) (hp : ¬ ispeek = 0)
    (q : List IKCPSEG) :
    ∀ (len : Int) (out : List Nat) (n : Nat),
      (ikcp_recv_merge buffer ispeek q len out n).2.2.1 = q := by
  induction q with
  | nil => intro len out n; rfl
  | cons s t ih =>
    intro len out n
    rw [ikcp_recv_merge]
    simp only []
    rw [if_neg hp]
    split
    · rfl
    · simp only []
      rw [ih]

theorem ikcp_recv_merge_suffix (buffer : Bool) (ispeek : Int) (q : List IKCPSEG) :
    ∀ (len : Int) (out : List Nat) (n : Nat),
      ∃ k : Nat, (ikcp_recv_merge buffer ispeek q len out n).2.2.1 = q.drop k := by
  by_cases hp : ispeek = 0
  · induction q with
    | nil => intro len out n; exact ⟨0, rfl⟩
    | cons s t ih =>
      intro len out n
      rw [ikcp_recv_merge]
      simp only []
      rw [if_pos hp]
      split
      · exact ⟨1, rfl⟩
      · obtain ⟨k, hk⟩ := ih (i32 (len + s.len))
          (if buffer = true then out ++ s.data.take s.len else out) (u32 ((n : Int) - 1))
        exact ⟨k + 1, hk⟩
  · intro len out n
    exact ⟨0, ikcp_recv_merge_peek buffer ispeek hp q len out n⟩

theorem chain_drop (R : IKCPSEG → IKCPSEG → Prop) (q : List IKCPSEG) (k : Nat)
    (h : q.Chain' R) : (q.drop k).Chain' R := by
  have hs : (q.drop k) <:+ q := List.drop_suffix k q
  exact List.Chain'.suffix h hs

theorem getLast_drop (q : List IKCPSEG) (k : Nat) (x : IKCPSEG)
    (h : x ∈ (q.drop k).getLast?) : x ∈ q.getLast? := by
  by_cases hk : k < q.length
  · rw [List.getLast?_drop, if_neg (by omega)] at h
    exact h
  · rw [List.drop_of_length_le (by omega)] at h
    exact absurd h (by simp)

theorem ite_trd_cases {c : Prop} [Decidable c] (x y : Int × List Nat × IKCPCB)
    (P : IKCPCB → Prop) (hx : P x.2.2) (hy : P y.2.2) : P (if c then x else y).2.2 := by
  split <;> assumption

theorem RcvOrd_recv (kcp : IKCPCB) (buffer : Bool) (len : Int) (h : RcvOrd (rcv_core kcp)) :
    RcvOrd (rcv_core (ikcp_recv kcp buffer len).2.2) := by
  obtain ⟨hn, hp, hb, hc, hl⟩ := h
  have hfin : ∀ (k : Nat) (n : Nat) (rec : Int),
      RcvOrd (rcv_core (ikcp_recv_finish
        { kcp with rcv_queue := kcp.rcv_queue.drop k, nrcv_que := n } rec)) := by
    intro k n rec
    have hm := RcvOrd_move kcp.rcv_buf
      { kcp with rcv_queue := kcp.rcv_queue.drop k, nrcv_que := n } hn hp hb
      (chain_drop _ _ k hc) (fun x hx => hl x (getLast_drop _ k x hx))
    unfold ikcp_recv_finish
    simp only []
    split
    · exact hm
    · exact hm
  have hself : RcvOrd (rcv_core kcp) := ⟨hn, hp, hb, hc, hl⟩
  obtain ⟨k, hk⟩ := ikcp_recv_merge_suffix buffer (if len < 0 then 1 else 0)
    kcp.rcv_queue 0 [] kcp.nrcv_que
  unfold ikcp_recv
  simp only []
  rw [hk]
  refine ite_trd_cases _ _ (fun k => RcvOrd (rcv_core k)) hself ?_
  refine ite_trd_cases _ _ (fun k => RcvOrd (rcv_core k)) hself ?_
  refine ite_trd_cases _ _ (fun k => RcvOrd (rcv_core k)) hself ?_
  exact hfin k _ _

theorem Reachable_RcvOrd (kcp : IKCPCB) (h : Reachable kcp) : RcvOrd (rcv_core kcp) := by
  induction h with
  | create conv hc =>
    exact ⟨Nat.zero_lt_succ _, List.Pairwise.nil, fun s hs => absurd hs (List.not_mem_nil s),
      List.chain'_nil, fun s hs => absurd hs (by simp [rcv_core, ikcp_create])⟩
  | send kcp buffer len _ _ _ ih => rw [ikcp_send_rcv]; exact ih
  | recv kcp buffer len _ ih => exact RcvOrd_recv kcp buffer len ih
  | input kcp data _ ih => exact RcvOrd_input kcp data ih
  | update kcp current _ _ ih => rw [ikcp_update_rcv]; exact ih
  | flush kcp _ ih => rw [ikcp_flush_rcv]; exact ih
  | setmtu kcp mtu _ _ ih => rw [ikcp_setmtu_rcv]; exact ih
  | interval kcp interval _ ih => exact ih
  | nodelay kcp nodelay interval resend nc _ _ _ ih =>
    rw [ikcp_nodelay_fields]; exact ih
  | wndsize kcp sndwnd rcvwnd _ _ _ ih =>
    rw [ikcp_wndsize_fields]; exact ih
  | stream kcp v _ ih => exact ih
  | fastlimit kcp v _ ih => exact ih

/-- C15: the receive-side ordering invariant. After any sequence of public calls,
`rcv_buf` is strictly ascending in `sn` (in signed 32-bit order, so it has no duplicates)
and holds no `sn` before `rcv_nxt`, and in `rcv_queue` every sequence number is one more
than its predecessor (modulo 2^32) and the last one is `rcv_nxt - 1`. -/
theorem C15_receive_order (kcp : IKCPCB) (h : Reachable kcp) :
    kcp.rcv_buf.Pairwise (fun x y => _itimediff y.sn x.sn > 0) ∧
    (kcp.rcv_buf.map (fun s => s.sn)).Nodup ∧
    (∀ s ∈ kcp.rcv_buf, _itimediff s.sn kcp.rcv_nxt ≥ 0) ∧
    kcp.rcv_queue.Chain' (fun a b => b.sn = (a.sn + 1) % 4294967296) ∧
    (∀ s ∈ kcp.rcv_queue.getLast?, (s.sn + 1) % 4294967296 = kcp.rcv_nxt) := by
  obtain ⟨hn, hp, hb, hc, hl⟩ := Reachable_RcvOrd kcp h
  have hn' : kcp.rcv_nxt < 4294967296 := hn
  have hp' : kcp.rcv_buf.Pairwise
      (fun x y => sn_offset kcp.rcv_nxt x.sn < sn_offset kcp.rcv_nxt y.sn) := hp
  have hb' : ∀ s ∈ kcp.rcv_buf, s.sn < 4294967296 ∧
      sn_offset kcp.rcv_nxt s.sn < 2147483648 := hb
  have h0 : sn_offset kcp.rcv_nxt kcp.rcv_nxt = 0 := sn_offset_self _
  refine ⟨?_, ?_, ?_, hc, hl⟩
  · refine List.Pairwise.imp_of_mem ?_ hp'
    intro a b ha hb2 hab
    have hd := itimediff_offset kcp.rcv_nxt b.sn a.sn (hb' b hb2).2 (hb' a ha).2
    rw [hd]
    omega
  · rw [List.Nodup, List.pairwise_map]
    refine List.Pairwise.imp ?_ hp'
    intro a b hab heq
    rw [heq] at hab
    exact absurd hab (Nat.lt_irrefl _)
  · intro s hs
    have hd := itimediff_offset kcp.rcv_nxt s.sn kcp.rcv_nxt (hb' s hs).2 (by rw [h0]; decide)
    rw [hd, h0]
    omega

theorem C15_receive_order_witness :
    kcpGap.rcv_buf.Pairwise (fun x y => _itimediff y.sn x.sn > 0) ∧
    (kcpGap.rcv_buf.map (fun s => s.sn)).Nodup ∧
    (∀ s ∈ kcpGap.rcv_buf, _itimediff s.sn kcpGap.rcv_nxt ≥ 0) ∧
    kcpGap.rcv_queue.Chain' (fun a b => b.sn = (a.sn + 1) % 4294967296) ∧
    (∀ s ∈ kcpGap.rcv_queue.getLast?, (s.sn + 1) % 4294967296 = kcpGap.rcv_nxt) :=
  C15_receive_order kcpGap
    (Reachable.input _ _ (Reachable.input _ _ (Reachable.input _ _
      (Reachable.create 1 (by decide)))))

/-! ## The send-side cursors -/

theorem sn_offset_rebase (u a x : Nat) (h : sn_offset u a ≤ sn_offset u x) :
    sn_offset a x = sn_offset u x - sn_offset u a := by
  unfold sn_offset at *; omega

theorem sn_offset_next (u n : Nat) (h : sn_offset u n + 1 < 4294967296) :
    sn_offset u ((n + 1) % 4294967296) = sn_offset u n + 1 := by
  unfold sn_offset at *; omega

/-- The promotion test of `ikcp_flush`, `snd_nxt - (snd_una + cwnd) < 0` in signed
arithmetic, for cursors less than `2^31` apart and a window below `2^31`. -/
theorem promote_test (u n c : Nat) (hd : sn_offset u n < 2147483648)
    (hc : c < 2147483648) :
    _itimediff n ((u + c) % 4294967296) < 0 ↔ sn_offset u n < c := by
  unfold _itimediff i32
  unfold sn_offset at *
  split <;> omega

theorem seg_key_sn (l1 l2 : List IKCPSEG) (h : l1.map seg_key = l2.map seg_key) :
    l1.map (fun s => s.sn) = l2.map (fun s => s.sn) := by
  have h2 := congrArg (List.map (fun k : Nat × Nat × Nat × Nat × List Nat => k.1)) h
  rw [List.map_map, List.map_map] at h2
  exact h2

theorem WeakSnd_sublist (p : SndCur) (l : List Nat) (hs : l.Sublist p.sns) (h : WeakSnd p) :
    WeakSnd { p with sns := l } := by
  obtain ⟨h1, h2, h3, h4, h5, h6⟩ := h
  exact ⟨h1, h2, h3, h4, List.Pairwise.sublist hs h5, fun n hn => h6 n (hs.subset hn)⟩

/-- Setting `snd_una` to the head of `snd_buf`, or to `snd_nxt` when `snd_buf` is
empty, restores the full invariant. -/
theorem SndInv_shrink (kcp : IKCPCB) (h : WeakSnd (snd_cur kcp)) :
    SndInv (snd_cur (ikcp_shrink_buf kcp)) := by
  obtain ⟨h1, h2, h3, h4, h5, h6⟩ := h
  have h1' : kcp.snd_una < 4294967296 := h1
  have h2' : kcp.snd_nxt < 4294967296 := h2
  have h3' : kcp.rmt_wnd < 65536 := h3
  have h4' : sn_offset kcp.snd_una kcp.snd_nxt < 2147483648 := h4
  have h5' : (kcp.snd_buf.map (fun s => s.sn)).Pairwise
      (fun x y => sn_offset kcp.snd_una x < sn_offset kcp.snd_una y) := h5
  have h6' : ∀ n ∈ kcp.snd_buf.map (fun s => s.sn), n < 4294967296 ∧
      sn_offset kcp.snd_una n < sn_offset kcp.snd_una kcp.snd_nxt := h6
  have key : ∀ l : List IKCPSEG, kcp.snd_buf = l →
      SndInv (snd_cur (match l with
        | seg :: _ => { kcp with snd_una := seg.sn }
        | [] => { kcp with snd_una := kcp.snd_nxt })) := by
    intro l hb
    cases l with
    | nil =>
      simp only []
      have hs : kcp.snd_buf.map (fun s => s.sn) = [] := by rw [hb]; rfl
      refine ⟨⟨h2', h2', h3', ?_, ?_, ?_⟩, ?_, ?_⟩
      · show sn_offset kcp.snd_nxt kcp.snd_nxt < 2147483648
        rw [sn_offset_self]
        decide
      · show (kcp.snd_buf.map (fun s => s.sn)).Pairwise _
        rw [hs]
        exact List.Pairwise.nil
      · intro n hn
        have hn' : n ∈ kcp.snd_buf.map (fun s => s.sn) := hn
        rw [hs] at hn'
        exact absurd hn' (List.not_mem_nil n)
      · intro n hn
        have hn' : n ∈ (kcp.snd_buf.map (fun s => s.sn)).head? := hn
        rw [hs] at hn'
        exact absurd hn' (by simp)
      · intro _
        rfl
    | cons seg rest =>
      simp only []
      rw [hb, List.map_cons] at h5' h6'
      have hseg := h6' seg.sn (List.mem_cons_self _ _)
      have hpc := List.pairwise_cons.mp h5'
      have hle : ∀ n ∈ seg.sn :: rest.map (fun s => s.sn),
          sn_offset kcp.snd_una seg.sn ≤ sn_offset kcp.snd_una n := by
        intro n hn
        rcases List.mem_cons.mp hn with h | h
        · rw [h]
        · exact Nat.le_of_lt (hpc.1 n h)
      have hre : ∀ n ∈ seg.sn :: rest.map (fun s => s.sn),
          sn_offset seg.sn n = sn_offset kcp.snd_una n - sn_offset kcp.snd_una seg.sn :=
        fun n hn => sn_offset_rebase _ _ _ (hle n hn)
      have hnx : sn_offset seg.sn kcp.snd_nxt =
          sn_offset kcp.snd_una kcp.snd_nxt - sn_offset kcp.snd_una seg.sn :=
        sn_offset_rebase _ _ _ (Nat.le_of_lt hseg.2)
      have hs : kcp.snd_buf.map (fun s => s.sn) = seg.sn :: rest.map (fun s => s.sn) := by
        rw [hb, List.map_cons]
      refine ⟨⟨hseg.1, h2', h3', ?_, ?_, ?_⟩, ?_, ?_⟩
      · show sn_offset seg.sn kcp.snd_nxt < 2147483648
        rw [hnx]
        omega
      · show (kcp.snd_buf.map (fun s => s.sn)).Pairwise
          (fun x y => sn_offset seg.sn x < sn_offset seg.sn y)
        rw [hs]
        refine List.Pairwise.imp_of_mem ?_ h5'
        intro a b ha hb2 hab
        have := hle a ha
        have := hle b hb2
        rw [hre a ha, hre b hb2]
        omega
      · intro n hn
        have hn' : n ∈ kcp.snd_buf.map (fun s => s.sn) := hn
        rw [hs] at hn'
        refine ⟨(h6' n hn').1, ?_⟩
        show sn_offset seg.sn n < sn_offset seg.sn kcp.snd_nxt
        have := hle n hn'
        have := (h6' n hn').2
        rw [hre n hn', hnx]
        omega
      · intro n hn
        have hn' : n ∈ (kcp.snd_buf.map (fun s => s.sn)).head? := hn
        rw [hs, List.head?_cons, Option.mem_def, Option.some.injEq] at hn'
        exact hn'.symm
      · intro he
        have he' : kcp.snd_buf.map (fun s => s.sn) = [] := he
        rw [hs] at he'
        exact absurd he' (List.cons_ne_nil _ _)
  exact key kcp.snd_buf rfl

theorem ikcp_parse_una_loop_cur (una : Nat) (l : List IKCPSEG) :
    ∀ kcp : IKCPCB,
      (ikcp_parse_una_loop una kcp l).snd_una = kcp.snd_una ∧
      (ikcp_parse_una_loop una kcp l).snd_nxt = kcp.snd_nxt ∧
      (ikcp_parse_una_loop una kcp l).rmt_wnd = kcp.rmt_wnd ∧
      (ikcp_parse_una_loop una kcp l).snd_buf.Sublist l := by
  induction l with
  | nil => intro kcp; exact ⟨rfl, rfl, rfl, List.Sublist.refl _⟩
  | cons s t ih =>
    intro kcp
    rw [ikcp_parse_una_loop]
    split
    · obtain ⟨h1, h2, h3, h4⟩ := ih
        { kcp with snd_buf := t, nsnd_buf := u32 ((kcp.nsnd_buf : Int) - 1) }
      exact ⟨h1, h2, h3, List.Sublist.cons s h4⟩
    · exact ⟨rfl, rfl, rfl, List.Sublist.refl _⟩

theorem ikcp_parse_ack_loop_sublist (sn : Nat) (l : List IKCPSEG) :
    (ikcp_parse_ack_loop sn l).1.Sublist l := by
  induction l with
  | nil => exact List.Sublist.refl _
  | cons s t ih =>
    rw [ikcp_parse_ack_loop]
    split
    · exact List.sublist_cons_self s t
    · split
      · exact List.Sublist.refl _
      · exact List.Sublist.cons₂ s ih

theorem WeakSnd_of_sublist (k1 k2 : IKCPCB) (hu : k2.snd_una = k1.snd_una)
    (hn : k2.snd_nxt = k1.snd_nxt) (hr : k2.rmt_wnd = k1.rmt_wnd)
    (hs : k2.snd_buf.Sublist k1.snd_buf) (h : WeakSnd (snd_cur k1)) :
    WeakSnd (snd_cur k2) := by
  have hm : (k2.snd_buf.map (fun s : IKCPSEG => s.sn)).Sublist (snd_cur k1).sns :=
    List.Sublist.map (fun s : IKCPSEG => s.sn) hs
  have h2 := WeakSnd_sublist (snd_cur k1) (k2.snd_buf.map (fun s => s.sn)) hm h
  unfold snd_cur at h2 ⊢
  rw [hu, hn, hr]
  exact h2

theorem WeakSnd_parse_una (kcp : IKCPCB) (una : Nat) (h : WeakSnd (snd_cur kcp)) :
    WeakSnd (snd_cur (ikcp_parse_una kcp una)) := by
  obtain ⟨h1, h2, h3, h4⟩ := ikcp_parse_una_loop_cur una kcp.snd_buf kcp
  exact WeakSnd_of_sublist kcp _ h1 h2 h3 h4 h

theorem WeakSnd_parse_ack (kcp : IKCPCB) (sn : Nat) (h : WeakSnd (snd_cur kcp)) :
    WeakSnd (snd_cur (ikcp_parse_ack kcp sn)) := by
  unfold ikcp_parse_ack
  split
  · exact h
  · exact WeakSnd_of_sublist kcp _ rfl rfl rfl (ikcp_parse_ack_loop_sublist sn kcp.snd_buf) h

theorem snd_cur_of_part (a b : IKCPCB) (h : snd_part a = snd_part b) :
    snd_cur a = snd_cur b := by
  have h1 : (snd_part a).snd_una = (snd_part b).snd_una := by rw [h]
  have h2 : (snd_part a).snd_nxt = (snd_part b).snd_nxt := by rw [h]
  have h3 : (snd_part a).rmt_wnd = (snd_part b).rmt_wnd := by rw [h]
  have h4 : (snd_part a).snd_buf = (snd_part b).snd_buf := by rw [h]
  have h1' : a.snd_una = b.snd_una := h1
  have h2' : a.snd_nxt = b.snd_nxt := h2
  have h3' : a.rmt_wnd = b.rmt_wnd := h3
  have h4' : a.snd_buf = b.snd_buf := h4
  unfold snd_cur
  rw [h1', h2', h3', h4']

theorem SndInv_weak (p : SndCur) (h : SndInv p) : WeakSnd p := h.1

theorem SndInv_input_ack (kcp : IKCPCB) (ts sn : Nat) (h : SndInv (snd_cur kcp)) :
    SndInv (snd_cur (ikcp_input_ack kcp ts sn)) := by
  unfold ikcp_input_ack
  simp only []
  apply SndInv_shrink
  apply WeakSnd_parse_ack
  split
  · rw [snd_cur_of_part _ _ (ikcp_update_ack_snd _ _)]
    exact h.1
  · exact h.1

theorem SndInv_input_record (kcp : IKCPCB) (hdr : IKCPSEG) (payload : List Nat) (flag : Int)
    (a b : Nat) (hw : hdr.wnd < 65536) (h : SndInv (snd_cur kcp)) :
    SndInv (snd_cur (ikcp_input_record kcp hdr payload flag a b).2.1) := by
  have h1 : SndInv (snd_cur
      (ikcp_shrink_buf (ikcp_parse_una { kcp with rmt_wnd := hdr.wnd } hdr.una))) := by
    apply SndInv_shrink
    apply WeakSnd_parse_una
    obtain ⟨⟨g1, g2, _, g4, g5, g6⟩, _, _⟩ := h
    exact ⟨g1, g2, hw, g4, g5, g6⟩
  unfold ikcp_input_record
  simp only []
  split
  · have h2 := SndInv_input_ack _ hdr.ts hdr.sn h1
    split
    · exact h2
    · split <;> exact h2
  · split
    · rw [snd_cur_of_part _ _ (ikcp_input_push_snd _ _ _ _ _ _ _ _ _ _)]
      exact h1
    · split
      · exact h1
      · split <;> exact h1

theorem SndInv_input_loop (fuel : Nat) :
    ∀ (kcp : IKCPCB) (data : List Nat) (flag : Int) (a b : Nat),
      SndInv (snd_cur kcp) →
      SndInv (snd_cur (ikcp_input_loop fuel kcp data flag a b).2.1) := by
  induction fuel with
  | zero => intro kcp data flag a b h; exact h
  | succ n ih =>
    intro kcp data flag a b h
    have hr := SndInv_input_record kcp (ikcp_decode_seg data).1 (ikcp_decode_seg data).2 flag
      a b (ikcp_decode_seg_ranges data).2.2.2.1 h
    rw [ikcp_input_loop]
    split
    · exact h
    · split
      · exact h
      · split
        · exact h
        · split
          · exact h
          · split
            · exact hr
            · exact ih _ _ _ _ _ hr

theorem ikcp_parse_fastack_key (kcp : IKCPCB) (sn ts : Nat) :
    snd_part (ikcp_parse_fastack kcp sn ts) =
      { snd_part kcp with snd_buf := (ikcp_parse_fastack kcp sn ts).snd_buf } ∧
    (ikcp_parse_fastack kcp sn ts).snd_buf.map seg_key = kcp.snd_buf.map seg_key := by
  have hf := ikcp_parse_fastack_fields kcp sn ts
  constructor
  · nth_rewrite 1 [hf.1]
    rfl
  · have h2 := congrArg (List.map seg_key) hf.2
    rw [List.map_map, List.map_map] at h2
    exact h2

theorem SndInv_of_key (k1 k2 : IKCPCB) (hu : k2.snd_una = k1.snd_una)
    (hn : k2.snd_nxt = k1.snd_nxt) (hr : k2.rmt_wnd = k1.rmt_wnd)
    (hk : k2.snd_buf.map seg_key = k1.snd_buf.map seg_key) (h : SndInv (snd_cur k1)) :
    SndInv (snd_cur k2) := by
  have hs := seg_key_sn _ _ hk
  unfold snd_cur at h ⊢
  rw [hu, hn, hr, hs]
  exact h

theorem SndInv_input (kcp : IKCPCB) (data : Option (List Nat)) (h : SndInv (snd_cur kcp)) :
    SndInv (snd_cur (ikcp_input kcp data).2) := by
  cases data with
  | none => exact h
  | some d =>
    have hl := SndInv_input_loop d.length kcp d 0 0 0 h
    unfold ikcp_input
    simp only []
    split
    · exact h
    · unfold ikcp_input_finish
      split
      · exact hl
      · simp only []
        rw [snd_cur_of_part _ _ (ikcp_input_cwnd_snd _ _)]
        split
        · have hk := ikcp_parse_fastack_key (ikcp_input_loop d.length kcp d 0 0 0).2.1
            (ikcp_input_loop d.length kcp d 0 0 0).2.2.2.1
            (ikcp_input_loop d.length kcp d 0 0 0).2.2.2.2
          have hp := hk.1
          exact SndInv_of_key _ _ (congrArg SndPart.snd_una hp) (congrArg SndPart.snd_nxt hp)
            (congrArg SndPart.rmt_wnd hp) hk.2 hl
        · exact hl

theorem SndInv_push (p : SndCur) (h : SndInv p)
    (hd : sn_offset p.snd_una p.snd_nxt + 1 < 2147483648) :
    SndInv { p with snd_nxt := (p.snd_nxt + 1) % 4294967296, sns := p.sns ++ [p.snd_nxt] } := by
  obtain ⟨⟨h1, h2, h3, h4, h5, h6⟩, h7, h8⟩ := h
  have hnx : sn_offset p.snd_una ((p.snd_nxt + 1) % 4294967296) =
      sn_offset p.snd_una p.snd_nxt + 1 := sn_offset_next _ _ (by omega)
  refine ⟨⟨h1, Nat.mod_lt _ (by decide), h3, ?_, ?_, ?_⟩, ?_, ?_⟩
  · show sn_offset p.snd_una ((p.snd_nxt + 1) % 4294967296) < 2147483648
    rw [hnx]
    exact hd
  · show (p.sns ++ [p.snd_nxt]).Pairwise
      (fun x y => sn_offset p.snd_una x < sn_offset p.snd_una y)
    rw [List.pairwise_append]
    refine ⟨h5, List.pairwise_singleton _ _, ?_⟩
    intro a ha b hb
    rw [List.mem_singleton] at hb
    rw [hb]
    exact (h6 a ha).2
  · intro n hn
    have hn' : n ∈ p.sns ++ [p.snd_nxt] := hn
    show n < 4294967296 ∧
      sn_offset p.snd_una n < sn_offset p.snd_una ((p.snd_nxt + 1) % 4294967296)
    rw [hnx]
    rcases List.mem_append.mp hn' with hm | hm
    · have := h6 n hm
      exact ⟨this.1, by omega⟩
    · rw [List.mem_singleton] at hm
      rw [hm]
      exact ⟨h2, by omega⟩
  · intro n hn
    have hn' : n ∈ (p.sns ++ [p.snd_nxt]).head? := hn
    show n = p.snd_una
    cases hs : p.sns with
    | nil =>
      rw [hs, List.nil_append, List.head?_cons, Option.mem_def, Option.some.injEq] at hn'
      rw [← hn', h8 hs]
    | cons a t =>
      rw [hs, List.cons_append, List.head?_cons] at hn'
      exact h7 n (by rw [hs, List.head?_cons]; exact hn')
  · intro he
    have he' : p.sns ++ [p.snd_nxt] = [] := he
    exact absurd he' (by simp)

theorem SndInv_promote (cwnd wnd current : Nat) (hc : cwnd < 2147483648)
    (l : List IKCPSEG) :
    ∀ kcp : IKCPCB, SndInv (snd_cur kcp) →
      SndInv (snd_cur (ikcp_flush_promote cwnd wnd current kcp l)) := by
  induction l with
  | nil => intro kcp h; exact h
  | cons a t ih =>
    intro kcp h
    rw [ikcp_flush_promote]
    by_cases hcond : _itimediff kcp.snd_nxt ((kcp.snd_una + cwnd) % 4294967296) < 0
    · rw [if_pos hcond]
      have hd : sn_offset kcp.snd_una kcp.snd_nxt < 2147483648 := h.1.2.2.2.1
      have hlt := (promote_test kcp.snd_una kcp.snd_nxt cwnd hd hc).mp hcond
      have hp := SndInv_push (snd_cur kcp) h (by
        show sn_offset kcp.snd_una kcp.snd_nxt + 1 < 2147483648
        omega)
      apply ih
      unfold snd_cur at hp ⊢
      simp only [] at hp ⊢
      rw [List.map_append, List.map_cons, List.map_nil]
      exact hp
    · rw [if_neg hcond]
      exact h

theorem ikcp_flush_window_le (kcp : IKCPCB) : ikcp_flush_window kcp ≤ kcp.rmt_wnd := by
  unfold ikcp_flush_window _imin_
  split_ifs <;> omega

theorem ikcp_flush_decide_key (kcp : IKCPCB) (current resent rtomin : Nat)
    (segment : IKCPSEG) (st : FlushState) :
    seg_key (ikcp_flush_decide kcp current resent rtomin segment st).1 = seg_key segment := by
  unfold ikcp_flush_decide
  split
  · rfl
  · split
    · rfl
    · split
      · split <;> rfl
      · rfl

theorem ikcp_flush_data_key (kcp : IKCPCB) (current resent rtomin wnd : Nat)
    (segs : List IKCPSEG) :
    ∀ st : FlushState,
      (ikcp_flush_data kcp current resent rtomin wnd segs st).1.map seg_key =
        segs.map seg_key := by
  induction segs with
  | nil => intro st; rfl
  | cons a t ih =>
    intro st
    have hk := ikcp_flush_decide_key kcp current resent rtomin a st
    rw [ikcp_flush_data_cons]
    split
    · rw [List.map_cons, List.map_cons, ih, ← hk]
      rfl
    · rw [List.map_cons, List.map_cons, ih, hk]

/-- The send side after `ikcp_flush`: the promotion loop has run, and the data loop
has left the fixed members of the segments in `snd_buf` as they were. -/
theorem ikcp_flush_snd (kcp : IKCPCB) (hu : kcp.updated ≠ 0) :
    (ikcp_flush kcp).1.conv = (flush_promoted kcp).conv ∧
    (ikcp_flush kcp).1.mtu = (flush_promoted kcp).mtu ∧
    (ikcp_flush kcp).1.mss = (flush_promoted kcp).mss ∧
    (ikcp_flush kcp).1.snd_una = (flush_promoted kcp).snd_una ∧
    (ikcp_flush kcp).1.snd_nxt = (flush_promoted kcp).snd_nxt ∧
    (ikcp_flush kcp).1.rmt_wnd = (flush_promoted kcp).rmt_wnd ∧
    (ikcp_flush kcp).1.snd_queue = (flush_promoted kcp).snd_queue ∧
    (ikcp_flush kcp).1.snd_buf.map seg_key = (flush_promoted kcp).snd_buf.map seg_key := by
  unfold ikcp_flush
  rw [if_neg hu]
  unfold ikcp_flush_tail
  rw [ikcp_flush_send_eq, ikcp_flush_cwnd_fields]
  refine ⟨rfl, rfl, rfl, rfl, rfl, rfl, rfl, ?_⟩
  show (ikcp_flush_data (flush_promoted kcp) kcp.current _ _ _
    (flush_promoted kcp).snd_buf _).1.map seg_key = _
  rw [ikcp_flush_data_key]

theorem SndInv_flush (kcp : IKCPCB) (h : SndInv (snd_cur kcp)) :
    SndInv (snd_cur (ikcp_flush kcp).1) := by
  by_cases hu : kcp.updated = 0
  · unfold ikcp_flush
    rw [if_pos hu]
    exact h
  · obtain ⟨_, _, _, h4, h5, h6, _, h8⟩ := ikcp_flush_snd kcp hu
    apply SndInv_of_key (flush_promoted kcp) _ h4 h5 h6 h8
    unfold flush_promoted
    have hw := ikcp_flush_window_le
      { ikcp_flush_probe { kcp with ackcount := 0 } with probe := 0 }
    have hp : snd_cur { ikcp_flush_probe { kcp with ackcount := 0 } with probe := 0 } =
        snd_cur kcp := by
      have := snd_cur_of_part _ _ (ikcp_flush_probe_snd { kcp with ackcount := 0 })
      exact this
    have hr : ({ ikcp_flush_probe { kcp with ackcount := 0 } with probe := 0 } :
        IKCPCB).rmt_wnd < 65536 := by
      have h3 : (snd_cur { ikcp_flush_probe { kcp with ackcount := 0 } with
          probe := 0 }).rmt_wnd < 65536 := by
        rw [hp]; exact h.1.2.2.1
      exact h3
    apply SndInv_promote _ _ _ (by omega)
    rw [hp]
    exact h

theorem ikcp_send_loop_fields (count : Int) (fuel : Nat) :
    ∀ (i : Int) (kcp : IKCPCB) (buffer : List Nat) (len : Int),
      ikcp_send_loop count fuel i kcp buffer len =
        { kcp with
          snd_queue := (ikcp_send_loop count fuel i kcp buffer len).snd_queue
          nsnd_que := (ikcp_send_loop count fuel i kcp buffer len).nsnd_que } := by
  induction fuel with
  | zero => intro i kcp buffer len; rfl
  | succ n ih =>
    intro i kcp buffer len
    rw [ikcp_send_loop]
    split
    · simp only []
      have h := ih (i + 1)
        { kcp with
          snd_queue := kcp.snd_queue ++
            [{ ikcp_segment_new (if len > i32 kcp.mss then i32 kcp.mss else len).toNat with
              data :=
                if len > 0 then
                  buffer.take (if len > i32 kcp.mss then i32 kcp.mss else len).toNat
                else
                  (ikcp_segment_new
                    (if len > i32 kcp.mss then i32 kcp.mss else len).toNat).data
              len := u32 (if len > i32 kcp.mss then i32 kcp.mss else len)
              frg := if kcp.stream = 0 then u32 (count - i - 1) else 0 }]
          nsnd_que := (kcp.nsnd_que + 1) % 4294967296 }
        (buffer.drop (if len > i32 kcp.mss then i32 kcp.mss else len).toNat)
        (len - (if len > i32 kcp.mss then i32 kcp.mss else len))
      generalize ikcp_send_loop count n (i + 1) _ _ _ = R at h ⊢
      rw [h]
    · rfl

theorem ikcp_send_stream_fields (kcp : IKCPCB) (buffer : List Nat) (len : Int) :
    (ikcp_send_stream kcp buffer len).1 =
      { kcp with snd_queue := (ikcp_send_stream kcp buffer len).1.snd_queue } := by
  unfold ikcp_send_stream
  split
  · rfl
  · split <;> rfl

/-- The function `ikcp_send` changes `snd_queue` and `nsnd_que` only. -/
theorem ikcp_send_fields (kcp : IKCPCB) (buffer : List Nat) (len : Int) :
    (ikcp_send kcp buffer len).2 =
      { kcp with
        snd_queue := (ikcp_send kcp buffer len).2.snd_queue
        nsnd_que := (ikcp_send kcp buffer len).2.nsnd_que } := by
  have hs : (if kcp.stream ≠ 0 then ikcp_send_stream kcp buffer len
      else (kcp, buffer, len)).1 =
      { kcp with snd_queue := (if kcp.stream ≠ 0 then ikcp_send_stream kcp buffer len
        else (kcp, buffer, len)).1.snd_queue } := by
    split
    · exact ikcp_send_stream_fields kcp buffer len
    · rfl
  rcases ikcp_send_cases kcp buffer len with h | ⟨_, h⟩ | ⟨_, count, fuel, h⟩
  · rw [h]
  · rw [h]
    generalize (if kcp.stream ≠ 0 then ikcp_send_stream kcp buffer len
      else (kcp, buffer, len)).1 = S at hs ⊢
    generalize S.snd_queue = q at hs
    subst hs
    rfl
  · rw [h]
    have hl := ikcp_send_loop_fields count fuel 0
      (if kcp.stream ≠ 0 then ikcp_send_stream kcp buffer len else (kcp, buffer, len)).1
      (if kcp.stream ≠ 0 then ikcp_send_stream kcp buffer len else (kcp, buffer, len)).2.1
      (if kcp.stream ≠ 0 then ikcp_send_stream kcp buffer len else (kcp, buffer, len)).2.2
    generalize (if kcp.stream ≠ 0 then ikcp_send_stream kcp buffer len
      else (kcp, buffer, len)) = S at hs hl ⊢
    generalize ikcp_send_loop count fuel 0 S.1 S.2.1 S.2.2 = R at hl ⊢
    generalize S.1 = K at hs hl
    generalize K.snd_queue = q at hs
    subst hs
    generalize R.snd_queue = q2 at hl ⊢
    generalize R.nsnd_que = n2 at hl ⊢
    subst hl
    rfl

theorem ikcp_recv_finish_snd (kcp : IKCPCB) (recover : Int) :
    snd_part (ikcp_recv_finish kcp recover) = snd_part kcp := by
  have hm := ikcp_move_rcv_buf_snd kcp.rcv_buf kcp
  unfold ikcp_recv_finish
  simp only []
  split
  · exact hm
  · exact hm

theorem ikcp_recv_snd (kcp : IKCPCB) (buffer : Bool) (len : Int) :
    snd_part (ikcp_recv kcp buffer len).2.2 = snd_part kcp := by
  unfold ikcp_recv
  simp only []
  refine ite_trd_cases _ _ (fun k => snd_part k = snd_part kcp) rfl ?_
  refine ite_trd_cases _ _ (fun k => snd_part k = snd_part kcp) rfl ?_
  refine ite_trd_cases _ _ (fun k => snd_part k = snd_part kcp) rfl ?_
  exact ikcp_recv_finish_snd _ _

theorem SndInv_update (kcp : IKCPCB) (current : Nat) (h : SndInv (snd_cur kcp)) :
    SndInv (snd_cur (ikcp_update kcp current).1) := by
  have hc : snd_cur (update_clock kcp current).1 = snd_cur kcp := by
    rw [update_clock_fields]
    rfl
  rw [ikcp_update_eq]
  split
  · apply SndInv_flush
    rw [hc]
    exact h
  · rw [hc]
    exact h

theorem Reachable_SndInv (kcp : IKCPCB) (h : Reachable kcp) : SndInv (snd_cur kcp) := by
  induction h with
  | create conv hc =>
    have hr : (128 : Nat) < 65536 := by decide
    have hd : sn_offset 0 0 < 2147483648 := by decide
    exact ⟨⟨Nat.zero_lt_succ _, Nat.zero_lt_succ _, hr, hd, List.Pairwise.nil,
      fun s hs => absurd hs (List.not_mem_nil s)⟩,
      fun s hs => absurd hs (by simp [snd_cur, ikcp_create]), fun _ => rfl⟩
  | send kcp buffer len _ _ _ ih => rw [ikcp_send_fields]; exact ih
  | recv kcp buffer len _ ih => rw [snd_cur_of_part _ _ (ikcp_recv_snd kcp buffer len)]; exact ih
  | input kcp data _ ih => exact SndInv_input kcp data ih
  | update kcp current _ _ ih => exact SndInv_update kcp current ih
  | flush kcp _ ih => exact SndInv_flush kcp ih
  | setmtu kcp mtu _ _ ih =>
    have hm : snd_cur (ikcp_setmtu kcp mtu).2 = snd_cur kcp := by
      unfold ikcp_setmtu
      split <;> rfl
    rw [hm]; exact ih
  | interval kcp interval _ ih => exact ih
  | nodelay kcp nodelay interval resend nc _ _ _ ih =>
    rw [ikcp_nodelay_fields]; exact ih
  | wndsize kcp sndwnd rcvwnd _ _ _ ih =>
    rw [ikcp_wndsize_fields]; exact ih
  | stream kcp v _ ih => exact ih
  | fastlimit kcp v _ ih => exact ih

/-- C14: the send-side cursor invariant. After any sequence of public calls on a
control block created by `ikcp_create`, `snd_una <= snd_nxt` in signed 32-bit order,
`snd_buf` is strictly ascending in `sn` with every `sn` in `[snd_una, snd_nxt)`, and
`snd_una` is the `sn` of the head of `snd_buf` when `snd_buf` is non-empty and
`snd_nxt` when it is empty. -/
theorem C14_send_cursors (kcp : IKCPCB) (h : Reachable kcp) :
    _itimediff kcp.snd_nxt kcp.snd_una ≥ 0 ∧
    kcp.snd_buf.Pairwise (fun x y => _itimediff y.sn x.sn > 0) ∧
    (∀ s ∈ kcp.snd_buf, _itimediff s.sn kcp.snd_una ≥ 0 ∧ _itimediff s.sn kcp.snd_nxt < 0) ∧
    (∀ s ∈ kcp.snd_buf.head?, kcp.snd_una = s.sn) ∧
    (kcp.snd_buf = [] → kcp.snd_una = kcp.snd_nxt) := by
  obtain ⟨⟨h1, h2, _, h4, h5, h6⟩, h7, h8⟩ := Reachable_SndInv kcp h
  have h4' : sn_offset kcp.snd_una kcp.snd_nxt < 2147483648 := h4
  have h5' : (kcp.snd_buf.map (fun s => s.sn)).Pairwise
      (fun x y => sn_offset kcp.snd_una x < sn_offset kcp.snd_una y) := h5
  have h6' : ∀ n ∈ kcp.snd_buf.map (fun s => s.sn), n < 4294967296 ∧
      sn_offset kcp.snd_una n < sn_offset kcp.snd_una kcp.snd_nxt := h6
  have h7' : ∀ n ∈ (kcp.snd_buf.map (fun s => s.sn)).head?, n = kcp.snd_una := h7
  have h8' : kcp.snd_buf.map (fun s => s.sn) = [] → kcp.snd_una = kcp.snd_nxt := h8
  have h0 : sn_offset kcp.snd_una kcp.snd_una = 0 := sn_offset_self _
  have hoff : ∀ s ∈ kcp.snd_buf, sn_offset kcp.snd_una s.sn < sn_offset kcp.snd_una kcp.snd_nxt :=
    fun s hs => (h6' s.sn (List.mem_map_of_mem _ hs)).2
  refine ⟨?_, ?_, ?_, ?_, ?_⟩
  · rw [itimediff_offset kcp.snd_una _ _ h4' (by rw [h0]; decide), h0]
    omega
  · rw [List.pairwise_map] at h5'
    refine List.Pairwise.imp_of_mem ?_ h5'
    intro a b ha hb hab
    have := hoff a ha
    have := hoff b hb
    rw [itimediff_offset kcp.snd_una _ _ (by omega) (by omega)]
    omega
  · intro s hs
    have := hoff s hs
    rw [itimediff_offset kcp.snd_una _ _ (by omega) (by rw [h0]; decide),
      itimediff_offset kcp.snd_una _ _ (by omega) h4', h0]
    omega
  · intro s hs
    have hm : s.sn ∈ (kcp.snd_buf.map (fun s => s.sn)).head? := by
      rw [List.head?_map]
      rw [Option.mem_def] at hs
      rw [hs]
      rfl
    exact (h7' s.sn hm).symm
  · intro he
    exact h8' (by rw [he]; rfl)

theorem C14_send_cursors_witness :
    _itimediff kcpTwoInFlight.snd_nxt kcpTwoInFlight.snd_una ≥ 0 ∧
    kcpTwoInFlight.snd_buf.Pairwise (fun x y => _itimediff y.sn x.sn > 0) ∧
    (∀ s ∈ kcpTwoInFlight.snd_buf,
      _itimediff s.sn kcpTwoInFlight.snd_una ≥ 0 ∧
        _itimediff s.sn kcpTwoInFlight.snd_nxt < 0) ∧
    (∀ s ∈ kcpTwoInFlight.snd_buf.head?, kcpTwoInFlight.snd_una = s.sn) ∧
    (kcpTwoInFlight.snd_buf = [] → kcpTwoInFlight.snd_una = kcpTwoInFlight.snd_nxt) :=
  C14_send_cursors kcpTwoInFlight
    (Reachable.update _ 0
      (Reachable.send _ [2] 1
        (Reachable.send _ [1] 1
          (Reachable.nodelay _ 0 (-1) 0 1 (Reachable.create 1 (by decide)) (by decide)
            (by decide))
          (by decide) (by decide))
        (by decide) (by decide))
      (by decide))

/-! ## Well-formed segments on the send side -/

theorem SegStep_refl (k : IKCPCB) : SegStep k k :=
  ⟨rfl, rfl, rfl, rfl, fun s hs => ⟨s, hs, rfl⟩⟩

theorem SegStep_trans (k1 k2 k3 : IKCPCB) (h12 : SegStep k1 k2) (h23 : SegStep k2 k3) :
    SegStep k1 k3 := by
  obtain ⟨a1, a2, a3, a4, a5⟩ := h12
  obtain ⟨b1, b2, b3, b4, b5⟩ := h23
  refine ⟨b1.trans a1, b2.trans a2, b3.trans a3, b4.trans a4, ?_⟩
  intro s hs
  obtain ⟨s2, hs2, e2⟩ := b5 s hs
  obtain ⟨s1, hs1, e1⟩ := a5 s2 hs2
  exact ⟨s1, hs1, e2.trans e1⟩

theorem SegStep_of_part (k1 k2 : IKCPCB) (h : snd_part k2 = snd_part k1) : SegStep k1 k2 := by
  have h1 : (snd_part k2).conv = (snd_part k1).conv := by rw [h]
  have h2 : (snd_part k2).mtu = (snd_part k1).mtu := by rw [h]
  have h3 : (snd_part k2).mss = (snd_part k1).mss := by rw [h]
  have h4 : (snd_part k2).snd_queue = (snd_part k1).snd_queue := by rw [h]
  have h5 : (snd_part k2).snd_buf = (snd_part k1).snd_buf := by rw [h]
  have h5' : k2.snd_buf = k1.snd_buf := h5
  exact ⟨h1, h2, h3, h4, fun s hs => ⟨s, by rw [← h5']; exact hs, rfl⟩⟩

theorem SegStep_of_key (k1 k2 : IKCPCB) (hc : k2.conv = k1.conv) (hm : k2.mtu = k1.mtu)
    (hs : k2.mss = k1.mss) (hq : k2.snd_queue = k1.snd_queue)
    (hk : k2.snd_buf.map seg_key = k1.snd_buf.map seg_key) : SegStep k1 k2 := by
  refine ⟨hc, hm, hs, hq, ?_⟩
  intro s hs
  have hm : seg_key s ∈ k1.snd_buf.map seg_key := by
    rw [← hk]
    exact List.mem_map_of_mem _ hs
  obtain ⟨s1, h1, e1⟩ := List.mem_map.mp hm
  exact ⟨s1, h1, e1.symm⟩

theorem SegStep_of_sublist (k1 k2 : IKCPCB) (hc : k2.conv = k1.conv) (hm : k2.mtu = k1.mtu)
    (hs : k2.mss = k1.mss) (hq : k2.snd_queue = k1.snd_queue)
    (hk : k2.snd_buf.Sublist k1.snd_buf) : SegStep k1 k2 :=
  ⟨hc, hm, hs, hq, fun s hs => ⟨s, hk.subset hs, rfl⟩⟩

theorem SegInv_step (k1 k2 : IKCPCB) (hs : SegStep k1 k2) (h : SegInv (snd_part k1)) :
    SegInv (snd_part k2) := by
  obtain ⟨a1, a2, a3, a4, a5⟩ := hs
  obtain ⟨h1, h2, h3, h4, h5, h6⟩ := h
  have h6' : ∀ s ∈ k1.snd_buf, s.len = s.data.length ∧ s.len + 24 < 2147483648 ∧
      s.conv = k1.conv ∧ s.cmd = IKCP_CMD_PUSH := h6
  have g1 : k1.conv < 4294967296 := h1
  have g2 : 50 ≤ k1.mtu := h2
  have g3 : k1.mtu < 2147483648 := h3
  have g4 : k1.mss + 24 = k1.mtu := h4
  have g5 : ∀ s ∈ k1.snd_queue, s.len = s.data.length ∧ s.len + 24 < 2147483648 := h5
  rw [← a1] at g1
  rw [← a2] at g2 g3 g4
  rw [← a3] at g4
  rw [← a4] at g5
  refine ⟨g1, g2, g3, g4, g5, ?_⟩
  intro s hs
  show s.len = s.data.length ∧ s.len + 24 < 2147483648 ∧ s.conv = k2.conv ∧
    s.cmd = IKCP_CMD_PUSH
  rw [a1]
  obtain ⟨s1, hs1, e⟩ := a5 s hs
  have g := h6' s1 hs1
  have e1 : s.conv = s1.conv := congrArg (fun k => k.2.1) e
  have e2 : s.cmd = s1.cmd := congrArg (fun k => k.2.2.1) e
  have e3 : s.len = s1.len := congrArg (fun k => k.2.2.2.1) e
  have e4 : s.data = s1.data := congrArg (fun k => k.2.2.2.2) e
  rw [e1, e2, e3, e4]
  exact g

theorem ikcp_parse_una_loop_seg (una : Nat) (l : List IKCPSEG) :
    ∀ kcp : IKCPCB,
      (ikcp_parse_una_loop una kcp l).conv = kcp.conv ∧
      (ikcp_parse_una_loop una kcp l).mtu = kcp.mtu ∧
      (ikcp_parse_una_loop una kcp l).mss = kcp.mss ∧
      (ikcp_parse_una_loop una kcp l).snd_queue = kcp.snd_queue := by
  induction l with
  | nil => intro kcp; exact ⟨rfl, rfl, rfl, rfl⟩
  | cons s t ih =>
    intro kcp
    rw [ikcp_parse_una_loop]
    split
    · exact ih _
    · exact ⟨rfl, rfl, rfl, rfl⟩

theorem SegStep_parse_una (kcp : IKCPCB) (una : Nat) :
    SegStep kcp (ikcp_parse_una kcp una) := by
  obtain ⟨h1, h2, h3, h4⟩ := ikcp_parse_una_loop_seg una kcp.snd_buf kcp
  exact SegStep_of_sublist _ _ h1 h2 h3 h4 (ikcp_parse_una_loop_cur una kcp.snd_buf kcp).2.2.2

theorem SegStep_shrink (kcp : IKCPCB) : SegStep kcp (ikcp_shrink_buf kcp) := by
  have key : ∀ l : List IKCPSEG, SegStep kcp (match l with
      | seg :: _ => { kcp with snd_una := seg.sn }
      | [] => { kcp with snd_una := kcp.snd_nxt }) := by
    intro l
    cases l with
    | nil => exact SegStep_refl kcp
    | cons a t => exact SegStep_refl kcp
  exact key kcp.snd_buf

theorem SegStep_parse_ack (kcp : IKCPCB) (sn : Nat) :
    SegStep kcp (ikcp_parse_ack kcp sn) := by
  unfold ikcp_parse_ack
  split
  · exact SegStep_refl kcp
  · exact SegStep_of_sublist _ _ rfl rfl rfl rfl (ikcp_parse_ack_loop_sublist sn kcp.snd_buf)

theorem SegStep_input_ack (kcp : IKCPCB) (ts sn : Nat) :
    SegStep kcp (ikcp_input_ack kcp ts sn) := by
  unfold ikcp_input_ack
  simp only []
  refine SegStep_trans _ _ _ ?_ (SegStep_shrink _)
  refine SegStep_trans _ _ _ ?_ (SegStep_parse_ack _ _)
  split
  · exact SegStep_of_part _ _ (ikcp_update_ack_snd _ _)
  · exact SegStep_refl kcp

theorem SegStep_input_record (kcp : IKCPCB) (hdr : IKCPSEG) (payload : List Nat) (flag : Int)
    (a b : Nat) : SegStep kcp (ikcp_input_record kcp hdr payload flag a b).2.1 := by
  have h1 : SegStep kcp
      (ikcp_shrink_buf (ikcp_parse_una { kcp with rmt_wnd := hdr.wnd } hdr.una)) := by
    refine SegStep_trans _ _ _ ?_ (SegStep_shrink _)
    refine SegStep_trans _ { kcp with rmt_wnd := hdr.wnd } _ ?_ (SegStep_parse_una _ _)
    exact SegStep_refl kcp
  unfold ikcp_input_record
  simp only []
  split
  · have h2 := SegStep_trans _ _ _ h1 (SegStep_input_ack
      (ikcp_shrink_buf (ikcp_parse_una { kcp with rmt_wnd := hdr.wnd } hdr.una)) hdr.ts hdr.sn)
    split
    · exact h2
    · split <;> exact h2
  · split
    · exact SegStep_trans _ _ _ h1
        (SegStep_of_part _ _ (ikcp_input_push_snd _ _ _ _ _ _ _ _ _ _))
    · split
      · exact h1
      · split <;> exact h1

theorem SegStep_input_loop (fuel : Nat) :
    ∀ (kcp : IKCPCB) (data : List Nat) (flag : Int) (a b : Nat),
      SegStep kcp (ikcp_input_loop fuel kcp data flag a b).2.1 := by
  induction fuel with
  | zero => intro kcp data flag a b; exact SegStep_refl kcp
  | succ n ih =>
    intro kcp data flag a b
    have hr := SegStep_input_record kcp (ikcp_decode_seg data).1 (ikcp_decode_seg data).2 flag
      a b
    rw [ikcp_input_loop]
    split
    · exact SegStep_refl kcp
    · split
      · exact SegStep_refl kcp
      · split
        · exact SegStep_refl kcp
        · split
          · exact SegStep_refl kcp
          · split
            · exact hr
            · exact SegStep_trans _ _ _ hr (ih _ _ _ _ _)

theorem SegStep_input (kcp : IKCPCB) (data : Option (List Nat)) :
    SegStep kcp (ikcp_input kcp data).2 := by
  cases data with
  | none => exact SegStep_refl kcp
  | some d =>
    have hl := SegStep_input_loop d.length kcp d 0 0 0
    unfold ikcp_input
    simp only []
    split
    · exact SegStep_refl kcp
    · unfold ikcp_input_finish
      split
      · exact hl
      · simp only []
        refine SegStep_trans _ _ _ ?_ (SegStep_of_part _ _ (ikcp_input_cwnd_snd _ _))
        split
        · have hk := ikcp_parse_fastack_key (ikcp_input_loop d.length kcp d 0 0 0).2.1
            (ikcp_input_loop d.length kcp d 0 0 0).2.2.2.1
            (ikcp_input_loop d.length kcp d 0 0 0).2.2.2.2
          have hp := hk.1
          exact SegStep_trans _ _ _ hl (SegStep_of_key _ _ (congrArg SndPart.conv hp)
            (congrArg SndPart.mtu hp) (congrArg SndPart.mss hp)
            (congrArg SndPart.snd_queue hp) hk.2)
        · exact hl

theorem QueueOK_send_loop (count : Int) (fuel : Nat) :
    ∀ (i : Int) (kcp : IKCPCB) (buffer : List Nat) (len : Int),
      kcp.mss + 24 < 2147483648 → 0 ≤ len → len ≤ buffer.length →
      QueueOK kcp.snd_queue →
      QueueOK (ikcp_send_loop count fuel i kcp buffer len).snd_queue := by
  induction fuel with
  | zero => intro i kcp buffer len _ _ _ hq; exact hq
  | succ n ih =>
    intro i kcp buffer len hm h0 hl hq
    rw [ikcp_send_loop]
    split
    · have hi : i32 (kcp.mss : Int) = kcp.mss := i32_of_lt _ (by omega) (by omega)
      simp only []
      rw [hi]
      generalize hsz : (if len > (kcp.mss : Int) then (kcp.mss : Int) else len) = size
      have hs0 : 0 ≤ size := by rw [← hsz]; split <;> omega
      have hs1 : size ≤ len := by rw [← hsz]; split <;> omega
      have hs2 : size ≤ kcp.mss := by rw [← hsz]; split <;> omega
      have hu : u32 size = size.toNat := u32_of_lt _ hs0 (by omega)
      apply ih
      · exact hm
      · omega
      · rw [List.length_drop]; omega
      · intro s hs
        rcases List.mem_append.mp hs with h | h
        · exact hq s h
        · rw [List.mem_singleton] at h
          subst h
          refine ⟨?_, ?_⟩
          · show u32 size = (if len > 0 then buffer.take size.toNat
              else (ikcp_segment_new size.toNat).data).length
            rw [hu]
            split
            · rw [List.length_take]; omega
            · show size.toNat = (List.replicate size.toNat 0).length
              rw [List.length_replicate]
          · show u32 size + 24 < 2147483648
            rw [hu]; omega
    · exact hq

theorem QueueOK_send_stream (kcp : IKCPCB) (buffer : List Nat) (len : Int)
    (hm : kcp.mss + 24 < 2147483648) (h0 : 0 ≤ len) (hl : len ≤ buffer.length)
    (hq : QueueOK kcp.snd_queue) :
    (ikcp_send_stream kcp buffer len).1.mss = kcp.mss ∧
    0 ≤ (ikcp_send_stream kcp buffer len).2.2 ∧
    (ikcp_send_stream kcp buffer len).2.2 ≤ (ikcp_send_stream kcp buffer len).2.1.length ∧
    QueueOK (ikcp_send_stream kcp buffer len).1.snd_queue := by
  unfold ikcp_send_stream
  split
  · exact ⟨rfl, h0, hl, hq⟩
  · rename_i old hold
    split
    · rename_i hlt
      have hmem : old ∈ kcp.snd_queue := List.mem_of_getLast?_eq_some hold
      obtain ⟨ho1, ho2⟩ := hq old hmem
      have hi : i32 ((kcp.mss : Int) - old.len) = (kcp.mss : Int) - old.len :=
        i32_of_lt _ (by omega) (by omega)
      simp only []
      rw [hi]
      generalize hex : (if len < (kcp.mss : Int) - old.len then len
        else (kcp.mss : Int) - old.len) = extend
      have he0 : 0 ≤ extend := by rw [← hex]; split <;> omega
      have he1 : extend ≤ len := by rw [← hex]; split <;> omega
      have he2 : extend ≤ (kcp.mss : Int) - old.len := by rw [← hex]; split <;> omega
      have hu : u32 ((old.len : Int) + extend) = old.len + extend.toNat := by
        rw [u32_of_lt _ (by omega) (by omega)]; omega
      refine ⟨trivial, by omega, ?_, ?_⟩
      · show len - extend ≤ ((buffer.drop extend.toNat).length : Int)
        rw [List.length_drop]; omega
      · intro s hs
        have hs' : s ∈ kcp.snd_queue.dropLast ++ [_] := hs
        rcases List.mem_append.mp hs' with h | h
        · exact hq s (List.dropLast_subset _ h)
        · rw [List.mem_singleton] at h
          subst h
          refine ⟨?_, ?_⟩
          · show u32 ((old.len : Int) + extend) =
              (old.data.take old.len ++ buffer.take extend.toNat).length
            rw [hu, List.length_append, List.length_take, List.length_take]
            omega
          · show u32 ((old.len : Int) + extend) + 24 < 2147483648
            rw [hu]; omega
    · exact ⟨rfl, h0, hl, hq⟩

theorem QueueOK_send (kcp : IKCPCB) (buffer : List Nat) (len : Int)
    (hm : kcp.mss + 24 < 2147483648) (hl : len ≤ buffer.length)
    (hq : QueueOK kcp.snd_queue) : QueueOK (ikcp_send kcp buffer len).2.snd_queue := by
  have hS : 0 ≤ len →
      (if kcp.stream ≠ 0 then ikcp_send_stream kcp buffer len else (kcp, buffer, len)).1.mss =
        kcp.mss ∧
      0 ≤ (if kcp.stream ≠ 0 then ikcp_send_stream kcp buffer len
        else (kcp, buffer, len)).2.2 ∧
      (if kcp.stream ≠ 0 then ikcp_send_stream kcp buffer len
        else (kcp, buffer, len)).2.2 ≤
        (if kcp.stream ≠ 0 then ikcp_send_stream kcp buffer len
          else (kcp, buffer, len)).2.1.length ∧
      QueueOK (if kcp.stream ≠ 0 then ikcp_send_stream kcp buffer len
        else (kcp, buffer, len)).1.snd_queue := by
    intro h0
    split
    · exact QueueOK_send_stream kcp buffer len hm h0 hl hq
    · exact ⟨rfl, h0, hl, hq⟩
  rcases ikcp_send_cases kcp buffer len with h | ⟨h0, h⟩ | ⟨h0, count, fuel, h⟩
  · rw [h]; exact hq
  · rw [h]; exact (hS h0).2.2.2
  · rw [h]
    obtain ⟨a1, a2, a3, a4⟩ := hS h0
    exact QueueOK_send_loop count fuel 0 _ _ _ (by rw [a1]; exact hm) a2 a3 a4

theorem SegInv_send (kcp : IKCPCB) (buffer : List Nat) (len : Int)
    (hl : len ≤ buffer.length) (h : SegInv (snd_part kcp)) :
    SegInv (snd_part (ikcp_send kcp buffer len).2) := by
  obtain ⟨h1, h2, h3, h4, h5, h6⟩ := h
  have g3 : kcp.mtu < 2147483648 := h3
  have g4 : kcp.mss + 24 = kcp.mtu := h4
  have hq := QueueOK_send kcp buffer len (by omega) hl h5
  rw [ikcp_send_fields]
  exact ⟨h1, h2, h3, h4, hq, h6⟩

theorem SegInv_promote (cwnd wnd current : Nat) (l : List IKCPSEG) :
    ∀ kcp : IKCPCB, SegInv (snd_part { kcp with snd_queue := l }) →
      SegInv (snd_part (ikcp_flush_promote cwnd wnd current kcp l)) := by
  induction l with
  | nil => intro kcp h; exact h
  | cons a t ih =>
    intro kcp h
    rw [ikcp_flush_promote]
    split
    · apply ih
      obtain ⟨h1, h2, h3, h4, h5, h6⟩ := h
      have g5 : ∀ s ∈ a :: t, s.len = s.data.length ∧ s.len + 24 < 2147483648 := h5
      have g6 : ∀ s ∈ kcp.snd_buf, s.len = s.data.length ∧ s.len + 24 < 2147483648 ∧
        s.conv = kcp.conv ∧ s.cmd = IKCP_CMD_PUSH := h6
      refine ⟨h1, h2, h3, h4, fun s hs => g5 s (List.mem_cons_of_mem _ hs), ?_⟩
      intro s hs
      have hs' : s ∈ kcp.snd_buf ++ [_] := hs
      rcases List.mem_append.mp hs' with hm | hm
      · exact g6 s hm
      · rw [List.mem_singleton] at hm
        subst hm
        have ga := g5 a (List.mem_cons_self _ _)
        exact ⟨ga.1, ga.2, rfl, rfl⟩
    · exact h

theorem SegInv_promoted (kcp : IKCPCB) (h : SegInv (snd_part kcp)) :
    SegInv (snd_part (flush_promoted kcp)) := by
  unfold flush_promoted
  apply SegInv_promote
  have hp : snd_part { ({ ikcp_flush_probe { kcp with ackcount := 0 } with probe := 0 } :
      IKCPCB) with snd_queue := (ikcp_flush_probe { kcp with ackcount := 0 }).snd_queue } =
      snd_part kcp := ikcp_flush_probe_snd { kcp with ackcount := 0 }
  rw [hp]
  exact h

theorem SegInv_flush (kcp : IKCPCB) (h : SegInv (snd_part kcp)) :
    SegInv (snd_part (ikcp_flush kcp).1) := by
  by_cases hu : kcp.updated = 0
  · unfold ikcp_flush
    rw [if_pos hu]
    exact h
  · obtain ⟨h1, h2, h3, _, _, _, h7, h8⟩ := ikcp_flush_snd kcp hu
    exact SegInv_step _ _ (SegStep_of_key _ _ h1 h2 h3 h7 h8) (SegInv_promoted kcp h)

theorem update_clock_snd (kcp : IKCPCB) (current : Nat) :
    snd_part (update_clock kcp current).1 = snd_part kcp := by
  rw [update_clock_fields]
  rfl

theorem SegInv_update (kcp : IKCPCB) (current : Nat) (h : SegInv (snd_part kcp)) :
    SegInv (snd_part (ikcp_update kcp current).1) := by
  rw [ikcp_update_eq]
  split
  · apply SegInv_flush
    rw [update_clock_snd]
    exact h
  · rw [update_clock_snd]
    exact h

theorem SegInv_setmtu (kcp : IKCPCB) (mtu : Int) (hm : mtu < 2147483648)
    (h : SegInv (snd_part kcp)) : SegInv (snd_part (ikcp_setmtu kcp mtu).2) := by
  unfold ikcp_setmtu
  split
  · exact h
  · rename_i hc
    obtain ⟨h1, _, _, _, h5, h6⟩ := h
    have hu : u32 mtu = mtu.toNat := u32_of_lt _ (by omega) (by omega)
    have hov : ((IKCP_OVERHEAD : Nat) : Int) = 24 := rfl
    have e2 : u32 ((u32 mtu : Int) - IKCP_OVERHEAD) = mtu.toNat - 24 := by
      rw [hu, hov, u32_of_lt _ (by omega) (by omega)]
      omega
    refine ⟨h1, ?_, ?_, ?_, h5, h6⟩
    · show 50 ≤ u32 mtu
      rw [hu]; omega
    · show u32 mtu < 2147483648
      rw [hu]; omega
    · show u32 ((u32 mtu : Int) - IKCP_OVERHEAD) + 24 = u32 mtu
      rw [e2, hu]; omega

theorem Reachable_SegInv (kcp : IKCPCB) (h : Reachable kcp) : SegInv (snd_part kcp) := by
  induction h with
  | create conv hc =>
    have h2 : 50 ≤ IKCP_MTU_DEF := by decide
    have h3 : IKCP_MTU_DEF < 2147483648 := by decide
    have h4 : IKCP_MTU_DEF - IKCP_OVERHEAD + 24 = IKCP_MTU_DEF := by decide
    exact ⟨hc, h2, h3, h4, fun s hs => absurd hs (List.not_mem_nil s),
      fun s hs => absurd hs (List.not_mem_nil s)⟩
  | send kcp buffer len _ hl _ ih => exact SegInv_send kcp buffer len hl ih
  | recv kcp buffer len _ ih => rw [ikcp_recv_snd]; exact ih
  | input kcp data _ ih => exact SegInv_step _ _ (SegStep_input kcp data) ih
  | update kcp current _ _ ih => exact SegInv_update kcp current ih
  | flush kcp _ ih => exact SegInv_flush kcp ih
  | setmtu kcp mtu _ hm ih => exact SegInv_setmtu kcp mtu hm ih
  | interval kcp interval _ ih => exact ih
  | nodelay kcp nodelay interval resend nc _ _ _ ih =>
    rw [ikcp_nodelay_fields]; exact ih
  | wndsize kcp sndwnd rcvwnd _ _ _ ih =>
    rw [ikcp_wndsize_fields]; exact ih
  | stream kcp v _ ih => exact ih
  | fastlimit kcp v _ ih => exact ih

/-! ## Whole records in the datagrams of a flush -/

theorem ikcp_encode32u_mod (l : Nat) :
    ikcp_encode32u (l % 4294967296) = ikcp_encode32u l := by
  unfold ikcp_encode32u
  have h1 : l % 4294967296 % 256 = l % 256 := by omega
  have h2 : l % 4294967296 / 256 % 256 = l / 256 % 256 := by omega
  have h3 : l % 4294967296 / 65536 % 256 = l / 65536 % 256 := by omega
  have h4 : l % 4294967296 / 16777216 % 256 = l / 16777216 % 256 := by omega
  rw [h1, h2, h3, h4]

/-- The header bytes depend on the stored members only through their wire widths. -/
theorem ikcp_encode_seg_wire (seg : IKCPSEG) :
    ikcp_encode_seg (wire_record seg) = ikcp_encode_seg seg := by
  have h1 : u8 (seg.frg % 256) = u8 seg.frg := by unfold u8; omega
  have h2 : u16 (seg.wnd % 65536) = u16 seg.wnd := by unfold u16; omega
  unfold ikcp_encode_seg wire_record
  simp only []
  rw [ikcp_encode32u_mod, ikcp_encode32u_mod, ikcp_encode32u_mod, h1, h2]

theorem valid_wire_record (conv : Nat) (seg : IKCPSEG) (hc : seg.conv = conv)
    (hcmd : seg.cmd = IKCP_CMD_PUSH ∨ seg.cmd = IKCP_CMD_ACK ∨ seg.cmd = IKCP_CMD_WASK ∨
      seg.cmd = IKCP_CMD_WINS)
    (hl : seg.len ≤ seg.data.length) (h31 : seg.len < 2147483648) :
    valid_record conv (wire_record seg) := by
  refine ⟨hc, hcmd, Nat.mod_lt _ (by decide), Nat.mod_lt _ (by decide),
    Nat.mod_lt _ (by decide), Nat.mod_lt _ (by decide), Nat.mod_lt _ (by decide), ?_, h31⟩
  show seg.len = (seg.data.take seg.len).length
  rw [List.length_take]
  omega

theorem record_bytes_wire (seg : IKCPSEG) :
    record_bytes (wire_record seg) = ikcp_encode_seg seg ++ seg.data.take seg.len := by
  unfold record_bytes
  rw [ikcp_encode_seg_wire]
  rfl

theorem record_bytes_wire_empty (seg : IKCPSEG) (hd : seg.data = []) :
    record_bytes (wire_record seg) = ikcp_encode_seg seg := by
  rw [record_bytes_wire, hd, List.take_nil, List.append_nil]

theorem FlushOK_of_buf (conv : Nat) (st1 st2 : FlushState) (hp : st2.ptr = st1.ptr)
    (ho : st2.outs = st1.outs) (h : FlushOK conv st1) : FlushOK conv st2 := by
  unfold FlushOK
  rw [hp, ho]
  exact h

theorem FlushOK_room (kcp : IKCPCB) (conv : Nat) (need : Int) (st : FlushState)
    (hm : kcp.mtu < 2147483648) (h : FlushOK conv st) :
    FlushOK conv (ikcp_flush_room kcp need st) ∧
    ((ikcp_flush_room kcp need st).ptr = [] ∨
      ((ikcp_flush_room kcp need st).ptr.length : Int) + need ≤ kcp.mtu) := by
  obtain ⟨h1, h2, h3⟩ := h
  have hi : i32 (st.ptr.length : Int) = st.ptr.length := i32_of_lt _ (by omega) (by omega)
  have hj : i32 (kcp.mtu : Int) = kcp.mtu := i32_of_lt _ (by omega) (by omega)
  unfold ikcp_flush_room
  rw [hi, hj]
  split
  · refine ⟨⟨⟨[], fun r hr => absurd hr (List.not_mem_nil r), rfl⟩, Nat.zero_lt_succ _, ?_⟩,
      Or.inl rfl⟩
    intro d hd
    have hd' : d ∈ ikcp_output st.outs st.ptr := hd
    unfold ikcp_output at hd'
    split at hd'
    · exact h3 d hd'
    · rename_i hne
      rcases List.mem_append.mp hd' with hx | hx
      · exact h3 d hx
      · rw [List.mem_singleton] at hx
        subst hx
        exact ⟨fun e => hne (by rw [e]; rfl), h2, h1⟩
  · exact ⟨⟨h1, h2, h3⟩, Or.inr (by omega)⟩

theorem FlushOK_intro (conv : Nat) (st : FlushState) (p : List Nat) (o : List (List Nat))
    (hp : st.ptr = p) (ho : st.outs = o) (h1 : parses_to conv p [])
    (h2 : p.length < 2147483648)
    (h3 : ∀ d ∈ o, d ≠ [] ∧ d.length < 2147483648 ∧ parses_to conv d []) :
    FlushOK conv st := by
  unfold FlushOK
  rw [hp, ho]
  exact ⟨h1, h2, h3⟩

theorem FlushOK_with_ptr (conv : Nat) (R : FlushState) (p : List Nat)
    (h1 : parses_to conv p []) (h2 : p.length < 2147483648)
    (h3 : ∀ d ∈ R.outs, d ≠ [] ∧ d.length < 2147483648 ∧ parses_to conv d []) :
    FlushOK conv { R with ptr := p } := ⟨h1, h2, h3⟩

theorem flush_state_buf (R : FlushState) (p : List Nat) (s : Nat) :
    ({ R with ptr := p, state := s } : FlushState).ptr = p ∧
    ({ R with ptr := p, state := s } : FlushState).outs = R.outs := ⟨rfl, rfl⟩

theorem FlushOK_put_flat (kcp : IKCPCB) (conv : Nat) (need : Int) (r : IKCPSEG)
    (st : FlushState) (hm : kcp.mtu < 2147483648) (hv : valid_record conv r)
    (hn : need = 24 + (r.len : Int)) (hlen : r.len + 24 < 2147483648)
    (h : FlushOK conv st) :
    parses_to conv ((ikcp_flush_room kcp need st).ptr ++ record_bytes r) [] ∧
    ((ikcp_flush_room kcp need st).ptr ++ record_bytes r).length < 2147483648 ∧
    ∀ d ∈ (ikcp_flush_room kcp need st).outs,
      d ≠ [] ∧ d.length < 2147483648 ∧ parses_to conv d [] := by
  obtain ⟨⟨⟨recs, hr, he⟩, _, g3⟩, hor⟩ := FlushOK_room kcp conv need st hm h
  have hrl : r.len = r.data.length := hv.2.2.2.2.2.2.2.1
  refine ⟨⟨recs ++ [r], ?_, ?_⟩, ?_, g3⟩
  · intro x hx
    rcases List.mem_append.mp hx with a | a
    · exact hr x a
    · rw [List.mem_singleton] at a
      subst a
      exact hv
  · rw [he]
    simp
  · rw [List.length_append, record_bytes_length]
    rcases hor with a | a
    · rw [a, List.length_nil]
      omega
    · omega

theorem FlushOK_put (kcp : IKCPCB) (conv : Nat) (need : Int) (r : IKCPSEG) (st : FlushState)
    (hm : kcp.mtu < 2147483648) (hv : valid_record conv r)
    (hn : need = 24 + (r.len : Int)) (hlen : r.len + 24 < 2147483648)
    (h : FlushOK conv st) :
    FlushOK conv
      { ikcp_flush_room kcp need st with
        ptr := (ikcp_flush_room kcp need st).ptr ++ record_bytes r } := by
  obtain ⟨k1, k2, k3⟩ := FlushOK_put_flat kcp conv need r st hm hv hn hlen h
  exact FlushOK_with_ptr conv (ikcp_flush_room kcp need st) _ k1 k2 k3

theorem FlushOK_acks (kcp : IKCPCB) (conv : Nat) (count : Int) (hm : kcp.mtu < 2147483648)
    (fuel : Nat) :
    ∀ (i : Int) (seg : IKCPSEG) (st : FlushState),
      seg.conv = conv → seg.cmd = IKCP_CMD_ACK → seg.len = 0 → seg.data = [] →
      FlushOK conv st →
      FlushOK conv (ikcp_flush_acks kcp count fuel i seg st).2 ∧
      (ikcp_flush_acks kcp count fuel i seg st).1.conv = conv ∧
      (ikcp_flush_acks kcp count fuel i seg st).1.len = 0 ∧
      (ikcp_flush_acks kcp count fuel i seg st).1.data = [] := by
  induction fuel with
  | zero => intro i seg st hc _ hl hd h; exact ⟨h, hc, hl, hd⟩
  | succ n ih =>
    intro i seg st hc hcmd hl hd h
    rw [ikcp_flush_acks]
    split
    · simp only []
      refine ih _ _ _ hc hcmd hl hd ?_
      have hp := FlushOK_put kcp conv (i32 IKCP_OVERHEAD)
        (wire_record { seg with sn := (ikcp_ack_get kcp i.toNat).1,
                                ts := (ikcp_ack_get kcp i.toNat).2 }) st hm
        (valid_wire_record conv _ hc (Or.inr (Or.inl hcmd))
          (by show seg.len ≤ seg.data.length; rw [hl]; exact Nat.zero_le _)
          (by show seg.len < 2147483648; rw [hl]; decide))
        (by show i32 IKCP_OVERHEAD = 24 + (seg.len : Int); rw [hl]; decide)
        (by show seg.len + 24 < 2147483648; rw [hl]; decide) h
      rw [record_bytes_wire_empty { seg with sn := (ikcp_ack_get kcp i.toNat).1,
                                             ts := (ikcp_ack_get kcp i.toNat).2 } hd] at hp
      exact hp
    · exact ⟨h, hc, hl, hd⟩

theorem FlushOK_cmd (kcp : IKCPCB) (conv cmd : Nat) (seg : IKCPSEG) (st : FlushState)
    (hm : kcp.mtu < 2147483648) (hc : seg.conv = conv)
    (hcmd : cmd = IKCP_CMD_WASK ∨ cmd = IKCP_CMD_WINS)
    (hl : seg.len = 0) (hd : seg.data = []) (h : FlushOK conv st) :
    FlushOK conv
      { ikcp_flush_room kcp (i32 IKCP_OVERHEAD) st with
        ptr := (ikcp_flush_room kcp (i32 IKCP_OVERHEAD) st).ptr ++
          ikcp_encode_seg { seg with cmd := cmd } } := by
  have hp := FlushOK_put kcp conv (i32 IKCP_OVERHEAD) (wire_record { seg with cmd := cmd })
    st hm
    (valid_wire_record conv _ hc
      (by rcases hcmd with e | e
          · exact Or.inr (Or.inr (Or.inl e))
          · exact Or.inr (Or.inr (Or.inr e)))
      (by show seg.len ≤ seg.data.length; rw [hl]; exact Nat.zero_le _)
      (by show seg.len < 2147483648; rw [hl]; decide))
    (by show i32 IKCP_OVERHEAD = 24 + (seg.len : Int); rw [hl]; decide)
    (by show seg.len + 24 < 2147483648; rw [hl]; decide) h
  rw [record_bytes_wire_empty { seg with cmd := cmd } hd] at hp
  exact hp

theorem FlushOK_cmds (kcp : IKCPCB) (conv : Nat) (a : IKCPSEG × FlushState)
    (hm : kcp.mtu < 2147483648) (hc : a.1.conv = conv) (hl : a.1.len = 0)
    (hd : a.1.data = []) (h : FlushOK conv a.2) : FlushOK conv (ikcp_flush_cmds kcp a) := by
  have h2 : FlushOK conv
      (if kcp.probe &&& IKCP_ASK_SEND ≠ 0 then
        { ikcp_flush_room kcp (i32 IKCP_OVERHEAD) a.2 with
          ptr := (ikcp_flush_room kcp (i32 IKCP_OVERHEAD) a.2).ptr ++
            ikcp_encode_seg { a.1 with cmd := IKCP_CMD_WASK } }
      else a.2) := by
    split
    · exact FlushOK_cmd kcp conv _ a.1 a.2 hm hc (Or.inl rfl) hl hd h
    · exact h
  have hw : (if kcp.probe &&& IKCP_ASK_SEND ≠ 0 then { a.1 with cmd := IKCP_CMD_WASK }
      else a.1).conv = conv ∧
      (if kcp.probe &&& IKCP_ASK_SEND ≠ 0 then { a.1 with cmd := IKCP_CMD_WASK }
        else a.1).len = 0 ∧
      (if kcp.probe &&& IKCP_ASK_SEND ≠ 0 then { a.1 with cmd := IKCP_CMD_WASK }
        else a.1).data = [] := by
    split
    · exact ⟨hc, hl, hd⟩
    · exact ⟨hc, hl, hd⟩
  unfold ikcp_flush_cmds
  simp only []
  by_cases ht : kcp.probe &&& IKCP_ASK_TELL ≠ 0
  · rw [if_pos ht]
    exact FlushOK_cmd kcp conv _ _ _ hm hw.1 (Or.inr rfl) hw.2.1 hw.2.2 h2
  · rw [if_neg ht]
    exact h2

theorem flush_emit_buf (kcp : IKCPCB) (seg1 : IKCPSEG) (st : FlushState) :
    (flush_emit kcp seg1 st).ptr =
      (if seg1.len > 0 then
        (ikcp_flush_room kcp (i32 ((IKCP_OVERHEAD + seg1.len : Nat) : Int)) st).ptr ++
          ikcp_encode_seg seg1 ++ seg1.data.take seg1.len
      else
        (ikcp_flush_room kcp (i32 ((IKCP_OVERHEAD + seg1.len : Nat) : Int)) st).ptr ++
          ikcp_encode_seg seg1) ∧
    (flush_emit kcp seg1 st).outs =
      (ikcp_flush_room kcp (i32 ((IKCP_OVERHEAD + seg1.len : Nat) : Int)) st).outs := by
  unfold flush_emit
  exact flush_state_buf _ _ _

theorem FlushOK_emit (kcp : IKCPCB) (conv : Nat) (seg1 : IKCPSEG) (st : FlushState)
    (hm : kcp.mtu < 2147483648) (hc : seg1.conv = conv) (hcmd : seg1.cmd = IKCP_CMD_PUSH)
    (hl : seg1.len = seg1.data.length) (h31 : seg1.len + 24 < 2147483648)
    (h : FlushOK conv st) : FlushOK conv (flush_emit kcp seg1 st) := by
  have hn : i32 ((IKCP_OVERHEAD + seg1.len : Nat) : Int) = 24 + (seg1.len : Int) := by
    have hv : IKCP_OVERHEAD = 24 := rfl
    rw [hv, i32_of_lt _ (by omega) (by omega)]
    omega
  obtain ⟨k1, k2, k3⟩ := FlushOK_put_flat kcp conv
    (i32 ((IKCP_OVERHEAD + seg1.len : Nat) : Int)) (wire_record seg1) st hm
    (valid_wire_record conv _ hc (Or.inl hcmd) (by omega) (by omega)) hn h31 h
  obtain ⟨e1, e2⟩ := flush_emit_buf kcp seg1 st
  have hptr : (flush_emit kcp seg1 st).ptr =
      (ikcp_flush_room kcp (i32 ((IKCP_OVERHEAD + seg1.len : Nat) : Int)) st).ptr ++
        record_bytes (wire_record seg1) := by
    rw [record_bytes_wire, e1]
    split
    · rw [List.append_assoc]
    · have h0 : seg1.len = 0 := by omega
      rw [h0, List.take_zero, List.append_nil]
  exact FlushOK_intro conv _ _ _ hptr e2 k1 k2 k3

theorem ikcp_flush_decide_buf (kcp : IKCPCB) (current resent rtomin : Nat)
    (segment : IKCPSEG) (st : FlushState) :
    (ikcp_flush_decide kcp current resent rtomin segment st).2.2.ptr = st.ptr ∧
    (ikcp_flush_decide kcp current resent rtomin segment st).2.2.outs = st.outs := by
  unfold ikcp_flush_decide
  split
  · exact ⟨rfl, rfl⟩
  · split
    · exact ⟨rfl, rfl⟩
    · split
      · split <;> exact ⟨rfl, rfl⟩
      · exact ⟨rfl, rfl⟩

theorem FlushOK_data (kcp : IKCPCB) (conv current resent rtomin wnd : Nat)
    (hm : kcp.mtu < 2147483648) (segs : List IKCPSEG) :
    ∀ st : FlushState,
      (∀ s ∈ segs, s.len = s.data.length ∧ s.len + 24 < 2147483648 ∧ s.conv = conv ∧
        s.cmd = IKCP_CMD_PUSH) →
      FlushOK conv st →
      FlushOK conv (ikcp_flush_data kcp current resent rtomin wnd segs st).2 := by
  induction segs with
  | nil => intro st _ h; exact h
  | cons a t ih =>
    intro st hs h
    obtain ⟨a1, a2, a3, a4⟩ := hs a (List.mem_cons_self _ _)
    have ht := fun s (hx : s ∈ t) => hs s (List.mem_cons_of_mem _ hx)
    have hb := ikcp_flush_decide_buf kcp current resent rtomin a st
    have hd := FlushOK_of_buf conv st _ hb.1 hb.2 h
    have hk := ikcp_flush_decide_key kcp current resent rtomin a st
    have e1 : (ikcp_flush_decide kcp current resent rtomin a st).1.conv = a.conv :=
      congrArg (fun k => k.2.1) hk
    have e2 : (ikcp_flush_decide kcp current resent rtomin a st).1.cmd = a.cmd :=
      congrArg (fun k => k.2.2.1) hk
    have e3 : (ikcp_flush_decide kcp current resent rtomin a st).1.len = a.len :=
      congrArg (fun k => k.2.2.2.1) hk
    have e4 : (ikcp_flush_decide kcp current resent rtomin a st).1.data = a.data :=
      congrArg (fun k => k.2.2.2.2) hk
    rw [ikcp_flush_data_cons]
    split
    · refine ih _ ht (FlushOK_emit kcp conv _ _ hm (e1.trans a3) (e2.trans a4) ?_ ?_ hd)
      · show (ikcp_flush_decide kcp current resent rtomin a st).1.len =
          (ikcp_flush_decide kcp current resent rtomin a st).1.data.length
        rw [e3, e4]
        exact a1
      · show (ikcp_flush_decide kcp current resent rtomin a st).1.len + 24 < 2147483648
        rw [e3]
        exact a2
    · exact ih _ ht hd

theorem FlushOK_send (kcp : IKCPCB) (conv current cwnd wnd : Nat) (st : FlushState)
    (hm : kcp.mtu < 2147483648)
    (hb : ∀ s ∈ kcp.snd_buf, s.len = s.data.length ∧ s.len + 24 < 2147483648 ∧
      s.conv = conv ∧ s.cmd = IKCP_CMD_PUSH)
    (h : FlushOK conv st) :
    ∀ d ∈ (ikcp_flush_send kcp current cwnd wnd st).2,
      d ≠ [] ∧ d.length < 2147483648 ∧ parses_to conv d [] := by
  have hR := FlushOK_data kcp conv current (flush_resent kcp)
    (if kcp.nodelay = 0 then u32 (kcp.rx_rto / 8) else 0) wnd hm kcp.snd_buf st hb h
  rw [ikcp_flush_send_eq]
  simp only []
  generalize (ikcp_flush_data kcp current (flush_resent kcp)
    (if kcp.nodelay = 0 then u32 (kcp.rx_rto / 8) else 0) wnd kcp.snd_buf st).2 = R at hR ⊢
  obtain ⟨h1, h2, h3⟩ := hR
  intro d hd
  split at hd
  · unfold ikcp_output at hd
    split at hd
    · exact h3 d hd
    · rename_i hne
      rcases List.mem_append.mp hd with hx | hx
      · exact h3 d hx
      · rw [List.mem_singleton] at hx
        subst hx
        exact ⟨fun e => hne (by rw [e]; rfl), h2, h1⟩
  · exact h3 d hd

theorem ikcp_flush_promote_conv (cwnd wnd current : Nat) (l : List IKCPSEG) :
    ∀ kcp : IKCPCB, (ikcp_flush_promote cwnd wnd current kcp l).conv = kcp.conv := by
  induction l with
  | nil => intro kcp; rfl
  | cons a t ih =>
    intro kcp
    rw [ikcp_flush_promote]
    split
    · exact ih _
    · rfl

theorem flush_promoted_conv (kcp : IKCPCB) : (flush_promoted kcp).conv = kcp.conv := by
  unfold flush_promoted
  rw [ikcp_flush_promote_conv]
  exact congrArg SndPart.conv (ikcp_flush_probe_snd { kcp with ackcount := 0 })

theorem ikcp_flush_eq (kcp : IKCPCB) (hu : kcp.updated ≠ 0) :
    ikcp_flush kcp =
      ikcp_flush_send (flush_promoted kcp) kcp.current
        (ikcp_flush_window { ikcp_flush_probe { kcp with ackcount := 0 } with probe := 0 })
        (u32 (ikcp_wnd_unused kcp))
        (ikcp_flush_cmds (ikcp_flush_probe { kcp with ackcount := 0 })
          (ikcp_flush_acks kcp (i32 kcp.ackcount) (i32 kcp.ackcount).toNat 0
            (ikcp_flush_seg kcp)
            { ptr := [], outs := [], change := 0, lost := 0, xmit := kcp.xmit,
              state := kcp.state })) := by
  unfold ikcp_flush
  rw [if_neg hu]
  rfl

/-- Every datagram of a flush is non-empty, shorter than `2^31` bytes and a
concatenation of whole valid records of the conversation. -/
theorem FlushOK_flush (kcp : IKCPCB) (h : SegInv (snd_part kcp)) :
    ∀ d ∈ (ikcp_flush kcp).2,
      d ≠ [] ∧ d.length < 2147483648 ∧ parses_to kcp.conv d [] := by
  by_cases hu : kcp.updated = 0
  · unfold ikcp_flush
    rw [if_pos hu]
    intro d hd
    exact absurd hd (List.not_mem_nil d)
  · have hm : kcp.mtu < 2147483648 := h.2.2.1
    have hK : (ikcp_flush_probe { kcp with ackcount := 0 }).mtu < 2147483648 := by
      have e : (ikcp_flush_probe { kcp with ackcount := 0 }).mtu = kcp.mtu :=
        congrArg SndPart.mtu (ikcp_flush_probe_snd { kcp with ackcount := 0 })
      rw [e]
      exact hm
    obtain ⟨_, _, p3, _, _, p6⟩ := SegInv_promoted kcp h
    have p3' : (flush_promoted kcp).mtu < 2147483648 := p3
    have p6' : ∀ s ∈ (flush_promoted kcp).snd_buf, s.len = s.data.length ∧
        s.len + 24 < 2147483648 ∧ s.conv = (flush_promoted kcp).conv ∧
        s.cmd = IKCP_CMD_PUSH := p6
    rw [flush_promoted_conv] at p6'
    have h0 : FlushOK kcp.conv
        { ptr := [], outs := [], change := 0, lost := 0, xmit := kcp.xmit,
          state := kcp.state } :=
      ⟨⟨[], fun r hr => absurd hr (List.not_mem_nil r), rfl⟩, Nat.zero_lt_succ _,
        fun d hd => absurd hd (List.not_mem_nil d)⟩
    obtain ⟨a1, a2, a3, a4⟩ := FlushOK_acks kcp kcp.conv (i32 kcp.ackcount) hm
      (i32 kcp.ackcount).toNat 0 (ikcp_flush_seg kcp) _ rfl rfl rfl rfl h0
    have hc := FlushOK_cmds (ikcp_flush_probe { kcp with ackcount := 0 }) kcp.conv _ hK
      a2 a3 a4 a1
    rw [ikcp_flush_eq kcp hu]
    exact FlushOK_send (flush_promoted kcp) kcp.conv _ _ _ _ p3' p6' hc

theorem datagram_whole (conv : Nat) (hc : conv < 4294967296) (d : List Nat)
    (h : d ≠ [] ∧ d.length < 2147483648 ∧ parses_to conv d []) :
    d ≠ [] ∧
    (∃ recs : List IKCPSEG,
      (∀ r ∈ recs, valid_record conv r) ∧ d = (recs.map record_bytes).flatten) ∧
    ∀ peer : IKCPCB, peer.conv = conv → (ikcp_input peer (some d)).1 = 0 := by
  obtain ⟨h1, h2, recs, hv, he⟩ := h
  rw [List.append_nil] at he
  refine ⟨h1, ⟨recs, hv, he⟩, ?_⟩
  intro peer hp
  have hne : recs ≠ [] := by
    intro e
    rw [e] at he
    exact h1 he
  subst he
  rw [ikcp_input_whole peer recs (by rw [hp]; exact hc) (by rw [hp]; exact hv) hne h2]

/-- C12: a datagram longer than `mtu`. After `ikcp_send` of 100 bytes, `ikcp_setmtu`
to 50 (which returns 0) and a first `ikcp_update`, the `ikcp_update` at time 100 passes
one datagram of 124 bytes to the output callback while `mtu` is 50: the segment was cut
for the old `mss` and the flush does not split it again. -/
theorem C12_datagram_exceeds_mtu :
    Reachable kcpShrunk ∧
    (ikcp_setmtu (ikcp_send (ikcp_create 1) (List.replicate 100 7) 100).2 50).1 = 0 ∧
    kcpShrunk.mtu = 50 ∧
    (ikcp_update kcpShrunk 100).1.mtu = 50 ∧
    (ikcp_update kcpShrunk 100).2.map List.length = [124] :=
  ⟨Reachable.update _ 0
      (Reachable.setmtu _ 50
        (Reachable.send _ (List.replicate 100 7) 100 (Reachable.create 1 (by decide))
          (by decide) (by decide))
        (by decide))
      (by decide),
    by decide!, by decide!, by decide!, by decide!⟩

/-- C16: `cwnd` drops to 0 after the first flush. With `mss = 700000000` a fast
retransmission leaves `cwnd = 6` and `incr = 4200000000`; the input of an ACK that
advances `snd_una` then computes `cwnd = (incr + mss - 1) / mss` in 32-bit unsigned
arithmetic, where the sum wraps, and stores 0. -/
theorem C16_cwnd_reaches_zero :
    Reachable kcpWideFast ∧
    kcpWideFast.updated = 1 ∧ kcpWideFast.mss = 700000000 ∧ kcpWideFast.cwnd = 6 ∧
    kcpWideFast.incr = 4200000000 ∧
    (ikcp_input kcpWideFast (some ackBoth)).1 = 0 ∧
    (ikcp_input kcpWideFast (some ackBoth)).2.cwnd = 0 :=
  ⟨Reachable.update _ 100
      (Reachable.input _ (some ackOne)
        (Reachable.input _ (some ackOne)
          (Reachable.input _ (some ackOne)
            (Reachable.input _ (some ackOne)
              (Reachable.update _ 0
                (Reachable.send _ [2] 1
                  (Reachable.send _ [1] 1
                    (Reachable.setmtu _ 700000024
                      (Reachable.nodelay _ 0 (-1) 4 1 (Reachable.create 1 (by decide))
                        (by decide) (by decide))
                      (by decide))
                    (by decide) (by decide))
                  (by decide) (by decide))
                (by decide))))))
      (by decide),
    by decide!, by decide!, by decide!, by decide!, by decide!, by decide!⟩

/-! ## The congestion window and the advertised window -/

theorem ikcp_update_ack_cwnd (kcp : IKCPCB) (rtt : Int) :
    (ikcp_update_ack kcp rtt).cwnd = kcp.cwnd := by
  unfold ikcp_update_ack; simp only []; split <;> rfl

theorem ikcp_ack_push_cwnd (kcp : IKCPCB) (sn ts : Nat) :
    (ikcp_ack_push kcp sn ts).cwnd = kcp.cwnd := by
  unfold ikcp_ack_push; simp only []; split <;> rfl

theorem ikcp_move_rcv_buf_cwnd (l : List IKCPSEG) :
    ∀ kcp : IKCPCB, (ikcp_move_rcv_buf kcp l).cwnd = kcp.cwnd := by
  induction l with
  | nil => intro kcp; rfl
  | cons s t ih =>
    intro kcp
    rw [ikcp_move_rcv_buf]
    split
    · rw [ih]
    · rfl

theorem ikcp_parse_data_cwnd (kcp : IKCPCB) (seg : IKCPSEG) :
    (ikcp_parse_data kcp seg).cwnd = kcp.cwnd := by
  unfold ikcp_parse_data
  simp only []
  split
  · rfl
  · rw [ikcp_move_rcv_buf_cwnd]
    split <;> rfl

theorem ikcp_input_push_cwnd (kcp : IKCPCB) (conv cmd frg wnd ts sn una len : Nat)
    (data : List Nat) :
    (ikcp_input_push kcp conv cmd frg wnd ts sn una len data).cwnd = kcp.cwnd := by
  unfold ikcp_input_push
  simp only []
  split
  · split
    · rw [ikcp_parse_data_cwnd, ikcp_ack_push_cwnd]
    · rw [ikcp_ack_push_cwnd]
  · rfl

theorem ikcp_parse_una_loop_cwnd (una : Nat) (l : List IKCPSEG) :
    ∀ kcp : IKCPCB, (ikcp_parse_una_loop una kcp l).cwnd = kcp.cwnd := by
  induction l with
  | nil => intro kcp; rfl
  | cons s t ih =>
    intro kcp
    rw [ikcp_parse_una_loop]
    split
    · rw [ih]
    · rfl

theorem ikcp_shrink_buf_cwnd (kcp : IKCPCB) : (ikcp_shrink_buf kcp).cwnd = kcp.cwnd := by
  have key : ∀ l : List IKCPSEG, (match l with
      | seg :: _ => { kcp with snd_una := seg.sn }
      | [] => { kcp with snd_una := kcp.snd_nxt }).cwnd = kcp.cwnd := by
    intro l
    cases l with
    | nil => rfl
    | cons a t => rfl
  exact key kcp.snd_buf

theorem ikcp_parse_ack_cwnd (kcp : IKCPCB) (sn : Nat) :
    (ikcp_parse_ack kcp sn).cwnd = kcp.cwnd := by
  unfold ikcp_parse_ack; split <;> rfl

theorem ikcp_input_una_cwnd (kcp : IKCPCB) (wnd una : Nat) :
    (ikcp_shrink_buf (ikcp_parse_una { kcp with rmt_wnd := wnd } una)).cwnd = kcp.cwnd := by
  rw [ikcp_shrink_buf_cwnd]
  exact ikcp_parse_una_loop_cwnd una kcp.snd_buf { kcp with rmt_wnd := wnd }

theorem ikcp_input_ack_cwnd (kcp : IKCPCB) (ts sn : Nat) :
    (ikcp_input_ack kcp ts sn).cwnd = kcp.cwnd := by
  unfold ikcp_input_ack
  simp only []
  rw [ikcp_shrink_buf_cwnd, ikcp_parse_ack_cwnd]
  split
  · exact ikcp_update_ack_cwnd _ _
  · rfl

theorem ikcp_input_record_cwnd (kcp : IKCPCB) (hdr : IKCPSEG) (payload : List Nat)
    (flag : Int) (a b : Nat) :
    (ikcp_input_record kcp hdr payload flag a b).2.1.cwnd = kcp.cwnd := by
  have h1 := ikcp_input_una_cwnd kcp hdr.wnd hdr.una
  unfold ikcp_input_record
  simp only []
  split
  · have h2 := (ikcp_input_ack_cwnd
      (ikcp_shrink_buf (ikcp_parse_una { kcp with rmt_wnd := hdr.wnd } hdr.una))
      hdr.ts hdr.sn).trans h1
    split
    · exact h2
    · split <;> exact h2
  · split
    · exact (ikcp_input_push_cwnd _ _ _ _ _ _ _ _ _ _).trans h1
    · split
      · exact h1
      · split <;> exact h1

theorem ikcp_input_loop_cwnd (fuel : Nat) :
    ∀ (kcp : IKCPCB) (data : List Nat) (flag : Int) (a b : Nat),
      (ikcp_input_loop fuel kcp data flag a b).2.1.cwnd = kcp.cwnd := by
  induction fuel with
  | zero => intro kcp data flag a b; rfl
  | succ n ih =>
    intro kcp data flag a b
    have hr := ikcp_input_record_cwnd kcp (ikcp_decode_seg data).1 (ikcp_decode_seg data).2
      flag a b
    rw [ikcp_input_loop]
    split
    · rfl
    · split
      · rfl
      · split
        · rfl
        · split
          · rfl
          · split
            · exact hr
            · exact (ih _ _ _ _ _).trans hr

theorem ikcp_parse_fastack_cwnd (kcp : IKCPCB) (sn ts : Nat) :
    (ikcp_parse_fastack kcp sn ts).cwnd = kcp.cwnd ∧
    (ikcp_parse_fastack kcp sn ts).rmt_wnd = kcp.rmt_wnd := by
  unfold ikcp_parse_fastack
  split <;> exact ⟨rfl, rfl⟩

/-- The congestion window update of `ikcp_input` either leaves `cwnd` as it is or
leaves it at most `rmt_wnd`; it does not touch `rmt_wnd`. -/
theorem ikcp_input_cwnd_bound (kcp : IKCPCB) (prev_una : Nat) :
    ((ikcp_input_cwnd kcp prev_una).cwnd = kcp.cwnd ∨
      (ikcp_input_cwnd kcp prev_una).cwnd ≤ kcp.rmt_wnd) ∧
    (ikcp_input_cwnd kcp prev_una).rmt_wnd = kcp.rmt_wnd := by
  refine ⟨?_, by rw [ikcp_input_cwnd_fields]⟩
  unfold ikcp_input_cwnd
  simp only []
  split_ifs with h1 h2 h3 h4 h5 h6 h7
  all_goals first
    | exact Or.inl rfl
    | exact Or.inr (Nat.le_refl _)
    | exact Or.inr (Nat.le_of_not_lt (by assumption))

theorem ikcp_input_cwnd_rmt (kcp : IKCPCB) (data : Option (List Nat)) :
    (ikcp_input kcp data).2.cwnd = kcp.cwnd ∨
    (ikcp_input kcp data).2.cwnd ≤ (ikcp_input kcp data).2.rmt_wnd := by
  cases data with
  | none => exact Or.inl rfl
  | some d =>
    have hl := ikcp_input_loop_cwnd d.length kcp d 0 0 0
    have hX : (if (ikcp_input_loop d.length kcp d 0 0 0).2.2.1 ≠ 0 then
          ikcp_parse_fastack (ikcp_input_loop d.length kcp d 0 0 0).2.1
            (ikcp_input_loop d.length kcp d 0 0 0).2.2.2.1
            (ikcp_input_loop d.length kcp d 0 0 0).2.2.2.2
        else (ikcp_input_loop d.length kcp d 0 0 0).2.1).cwnd = kcp.cwnd := by
      split
      · exact (ikcp_parse_fastack_cwnd _ _ _).1.trans hl
      · exact hl
    obtain ⟨hb, hr⟩ := ikcp_input_cwnd_bound
      (if (ikcp_input_loop d.length kcp d 0 0 0).2.2.1 ≠ 0 then
          ikcp_parse_fastack (ikcp_input_loop d.length kcp d 0 0 0).2.1
            (ikcp_input_loop d.length kcp d 0 0 0).2.2.2.1
            (ikcp_input_loop d.length kcp d 0 0 0).2.2.2.2
        else (ikcp_input_loop d.length kcp d 0 0 0).2.1) kcp.snd_una
    unfold ikcp_input
    simp only []
    split
    · exact Or.inl rfl
    · unfold ikcp_input_finish
      split
      · exact Or.inl hl
      · simp only []
        rcases hb with e | e
        · exact Or.inl (e.trans hX)
        · right
          rw [hr]
          exact e

/-! ## The round-trip estimator -/

theorem u32_i32 (x : Int) : u32 (i32 x) = u32 x := by
  unfold u32 i32
  split <;> omega

theorem ikcp_update_ack_vals (kcp : IKCPCB) (rtt : Int) :
    (ikcp_update_ack kcp rtt).rx_srtt =
      (if kcp.rx_srtt = 0 then rtt
        else if Int.tdiv (i32 (7 * kcp.rx_srtt + rtt)) 8 < 1 then 1
        else Int.tdiv (i32 (7 * kcp.rx_srtt + rtt)) 8) ∧
    (ikcp_update_ack kcp rtt).rx_rttval =
      (if kcp.rx_srtt = 0 then Int.tdiv rtt 2
        else i32 (Int.tdiv (i32 (3 * kcp.rx_rttval) +
          (if i32 (rtt - kcp.rx_srtt) < 0 then -(i32 (rtt - kcp.rx_srtt))
            else i32 (rtt - kcp.rx_srtt))) 4)) ∧
    (ikcp_update_ack kcp rtt).rx_rto =
      i32 (_ibound_ (u32 kcp.rx_minrto)
        (u32 (i32 ((ikcp_update_ack kcp rtt).rx_srtt +
          (_imax_ kcp.interval (u32 (4 * (ikcp_update_ack kcp rtt).rx_rttval)) : Nat))))
        IKCP_RTO_MAX : Nat) ∧
    ikcp_update_ack kcp rtt =
      { kcp with
        rx_srtt := (ikcp_update_ack kcp rtt).rx_srtt
        rx_rttval := (ikcp_update_ack kcp rtt).rx_rttval
        rx_rto := (ikcp_update_ack kcp rtt).rx_rto } := by
  unfold ikcp_update_ack
  simp only []
  split
  · exact ⟨rfl, rfl, rfl, rfl⟩
  · exact ⟨rfl, rfl, rfl, rfl⟩

theorem rto_clamp (s v m : Int) (interval : Nat)
    (hs0 : 0 ≤ s) (hs1 : s < 268435456) (hv0 : 0 ≤ v) (hv1 : v < 268435456)
    (hi : interval < 2147483648) (hm0 : 0 ≤ m) (hm1 : m ≤ 60000) :
    i32 (_ibound_ (u32 m) (u32 (i32 (s + (_imax_ interval (u32 (4 * v)) : Nat))))
      IKCP_RTO_MAX : Nat) = min (max m (s + max (interval : Int) (4 * v))) 60000 := by
  have h4 : u32 (4 * v) = (4 * v).toNat := u32_of_lt _ (by omega) (by omega)
  have hmx : ((_imax_ interval (u32 (4 * v)) : Nat) : Int) = max (interval : Int) (4 * v) := by
    rw [h4]
    unfold _imax_
    split
    · rw [max_eq_left (by omega)]
    · rw [max_eq_right (by omega)]
      omega
  have hb0 : 0 ≤ max (interval : Int) (4 * v) := le_max_of_le_left (by omega)
  have hb1 : max (interval : Int) (4 * v) < 2147483648 := max_lt (by omega) (by omega)
  rw [u32_i32, hmx]
  generalize max (interval : Int) (4 * v) = X at hb0 hb1
  have hu : u32 (s + X) = (s + X).toNat := u32_of_lt _ (by omega) (by omega)
  have hum : u32 m = m.toNat := u32_of_lt _ hm0 (by omega)
  rw [hu, hum]
  have hmax : IKCP_RTO_MAX = 60000 := rfl
  have key : ((_ibound_ m.toNat (s + X).toNat IKCP_RTO_MAX : Nat) : Int) =
      min (max m (s + X)) 60000 := by
    rw [hmax]
    unfold _ibound_ _imin_ _imax_
    by_cases c1 : m.toNat ≥ (s + X).toNat
    · rw [if_pos c1, max_eq_left (by omega)]
      split
      · rw [min_eq_left (by omega)]; omega
      · rw [min_eq_right (by omega)]; rfl
    · rw [if_neg c1, max_eq_right (by omega)]
      split
      · rw [min_eq_left (by omega)]; omega
      · rw [min_eq_right (by omega)]; rfl
  rw [i32_of_lt _ (by omega) (by rw [key]; exact lt_of_le_of_lt (min_le_right _ _) (by decide)),
    key]

theorem ikcp_update_ack_spec (kcp : IKCPCB) (rtt : Int)
    (hr0 : 0 ≤ rtt) (hr1 : rtt < 268435456)
    (hs0 : 0 ≤ kcp.rx_srtt) (hs1 : kcp.rx_srtt < 268435456)
    (hv0 : 0 ≤ kcp.rx_rttval) (hv1 : kcp.rx_rttval < 268435456)
    (hi : kcp.interval < 2147483648) (hm0 : 0 ≤ kcp.rx_minrto) (hm1 : kcp.rx_minrto ≤ 60000) :
    ((ikcp_update_ack kcp rtt).rx_srtt, (ikcp_update_ack kcp rtt).rx_rttval,
        (ikcp_update_ack kcp rtt).rx_rto) =
      rtt_estimator_spec kcp.rx_srtt kcp.rx_rttval rtt kcp.rx_minrto kcp.interval ∧
    0 ≤ (ikcp_update_ack kcp rtt).rx_srtt ∧ (ikcp_update_ack kcp rtt).rx_srtt < 268435456 ∧
    0 ≤ (ikcp_update_ack kcp rtt).rx_rttval ∧
    (ikcp_update_ack kcp rtt).rx_rttval < 268435456 ∧
    ((ikcp_update_ack kcp rtt).rx_srtt = 0 ↔ kcp.rx_srtt = 0 ∧ rtt = 0) := by
  obtain ⟨e1, e2, e3, _⟩ := ikcp_update_ack_vals kcp rtt
  generalize (ikcp_update_ack kcp rtt).rx_srtt = S at e1 e3 ⊢
  generalize (ikcp_update_ack kcp rtt).rx_rttval = V at e2 e3 ⊢
  generalize (ikcp_update_ack kcp rtt).rx_rto = R at e3 ⊢
  have w7 : i32 (7 * kcp.rx_srtt + rtt) = 7 * kcp.rx_srtt + rtt :=
    i32_of_lt _ (by omega) (by omega)
  have w3 : i32 (3 * kcp.rx_rttval) = 3 * kcp.rx_rttval := i32_of_lt _ (by omega) (by omega)
  have wd : i32 (rtt - kcp.rx_srtt) = rtt - kcp.rx_srtt := by
    unfold i32; split <;> omega
  rw [w7] at e1
  rw [w3, wd] at e2
  have t7 : Int.tdiv (7 * kcp.rx_srtt + rtt) 8 = (7 * kcp.rx_srtt + rtt) / 8 :=
    Int.tdiv_eq_ediv (by omega) (by decide)
  have t2 : Int.tdiv rtt 2 = rtt / 2 := Int.tdiv_eq_ediv hr0 (by decide)
  generalize hD : (if rtt - kcp.rx_srtt < 0 then -(rtt - kcp.rx_srtt)
    else rtt - kcp.rx_srtt) = D at e2
  have hD0 : 0 ≤ D := by rw [← hD]; split <;> omega
  have hD1 : D < 268435456 := by rw [← hD]; split <;> omega
  have t3 : Int.tdiv (3 * kcp.rx_rttval + D) 4 = (3 * kcp.rx_rttval + D) / 4 :=
    Int.tdiv_eq_ediv (by omega) (by decide)
  have t3i : i32 ((3 * kcp.rx_rttval + D) / 4) = (3 * kcp.rx_rttval + D) / 4 :=
    i32_of_lt _ (by omega) (by omega)
  rw [t7] at e1
  rw [t2, t3, t3i] at e2
  have hS : S = if kcp.rx_srtt = 0 then rtt else max 1 ((7 * kcp.rx_srtt + rtt) / 8) := by
    rw [e1]
    split
    · rfl
    · split
      · rw [max_eq_left (by omega)]
      · rw [max_eq_right (by omega)]
  have hS0 : 0 ≤ S := by rw [e1]; split_ifs <;> omega
  have hS1 : S < 268435456 := by rw [e1]; split_ifs <;> omega
  have hV0 : 0 ≤ V := by rw [e2]; split <;> omega
  have hV1 : V < 268435456 := by rw [e2]; split <;> omega
  have hR := rto_clamp S V kcp.rx_minrto kcp.interval hS0 hS1 hV0 hV1 hi hm0 hm1
  refine ⟨?_, hS0, hS1, hV0, hV1, ?_⟩
  · unfold rtt_estimator_spec
    simp only []
    rw [hD, ← hS, ← e2, e3, hR]
  · rw [e1]
    split_ifs <;> omega

theorem est_part_fields (a b : IKCPCB) (h : est_part a = est_part b) :
    a.rx_srtt = b.rx_srtt ∧ a.rx_rttval = b.rx_rttval ∧ a.rx_rto = b.rx_rto ∧
    a.rx_minrto = b.rx_minrto ∧ a.interval = b.interval ∧ a.current = b.current := by
  unfold est_part at h
  rw [Prod.mk.injEq, Prod.mk.injEq, Prod.mk.injEq, Prod.mk.injEq, Prod.mk.injEq] at h
  exact h

theorem ikcp_shrink_buf_est (kcp : IKCPCB) : est_part (ikcp_shrink_buf kcp) = est_part kcp := by
  have key : ∀ l : List IKCPSEG, est_part (match l with
      | seg :: _ => { kcp with snd_una := seg.sn }
      | [] => { kcp with snd_una := kcp.snd_nxt }) = est_part kcp := by
    intro l
    cases l with
    | nil => rfl
    | cons a t => rfl
  exact key kcp.snd_buf

theorem ikcp_parse_una_loop_est (una : Nat) (l : List IKCPSEG) :
    ∀ kcp : IKCPCB, est_part (ikcp_parse_una_loop una kcp l) = est_part kcp := by
  induction l with
  | nil => intro kcp; rfl
  | cons s t ih =>
    intro kcp
    rw [ikcp_parse_una_loop]
    split
    · rw [ih]; rfl
    · rfl

theorem ikcp_parse_ack_est (kcp : IKCPCB) (sn : Nat) :
    est_part (ikcp_parse_ack kcp sn) = est_part kcp := by
  unfold ikcp_parse_ack; split <;> rfl

theorem ikcp_input_una_est (kcp : IKCPCB) (wnd una : Nat) :
    est_part (ikcp_shrink_buf (ikcp_parse_una { kcp with rmt_wnd := wnd } una)) =
      est_part kcp := by
  rw [ikcp_shrink_buf_est]
  exact ikcp_parse_una_loop_est una kcp.snd_buf { kcp with rmt_wnd := wnd }

theorem ikcp_update_ack_congr (a b : IKCPCB) (rtt : Int) (h : est_part a = est_part b) :
    rx_vals (ikcp_update_ack a rtt) = rx_vals (ikcp_update_ack b rtt) := by
  obtain ⟨h1, h2, _, h4, h5, _⟩ := est_part_fields a b h
  obtain ⟨a1, a2, a3, _⟩ := ikcp_update_ack_vals a rtt
  obtain ⟨b1, b2, b3, _⟩ := ikcp_update_ack_vals b rtt
  rw [h1] at a1
  rw [h1, h2] at a2
  have e1 := a1.trans b1.symm
  have e2 := a2.trans b2.symm
  rw [e1, e2, h4, h5] at a3
  have e3 := a3.trans b3.symm
  unfold rx_vals
  rw [e1, e2, e3]

/-- The estimate after an ACK record: the sample `current - ts` is fed to
`ikcp_update_ack` when it is not negative, and nothing else touches the estimate. -/
theorem ikcp_input_record_est (kcp : IKCPCB) (hdr : IKCPSEG) (payload : List Nat)
    (flag : Int) (a b : Nat) (hc : hdr.cmd = IKCP_CMD_ACK) :
    rx_vals (ikcp_input_record kcp hdr payload flag a b).2.1 =
      if _itimediff kcp.current hdr.ts ≥ 0 then
        rx_vals (ikcp_update_ack kcp (_itimediff kcp.current hdr.ts))
      else rx_vals kcp := by
  have h1 := ikcp_input_una_est kcp hdr.wnd hdr.una
  obtain ⟨f1, f2, f3, _, _, f6⟩ := est_part_fields _ _ h1
  have hack : rx_vals (ikcp_input_ack
      (ikcp_shrink_buf (ikcp_parse_una { kcp with rmt_wnd := hdr.wnd } hdr.una))
      hdr.ts hdr.sn) =
      if _itimediff kcp.current hdr.ts ≥ 0 then
        rx_vals (ikcp_update_ack kcp (_itimediff kcp.current hdr.ts))
      else rx_vals kcp := by
    have hv : ∀ k : IKCPCB, rx_vals (ikcp_shrink_buf (ikcp_parse_ack k hdr.sn)) = rx_vals k := by
      intro k
      obtain ⟨g1, g2, g3, _⟩ := est_part_fields _ _
        ((ikcp_shrink_buf_est _).trans (ikcp_parse_ack_est k hdr.sn))
      unfold rx_vals
      rw [g1, g2, g3]
    unfold ikcp_input_ack
    simp only []
    rw [hv, f6]
    split
    · exact ikcp_update_ack_congr _ _ _ h1
    · unfold rx_vals
      rw [f1, f2, f3]
  unfold ikcp_input_record
  simp only []
  rw [if_pos hc]
  split
  · exact hack
  · split <;> exact hack

/-- C24 (amended): the estimator of `ikcp_update_ack`. With `srtt`, `rttvar` and the
sample below `2^28` (the range in which the `int` arithmetic of the code does not
overflow) and `0 <= rx_minrto <= 60000`, a sample `rtt >= 0` gives `srtt = rtt` and
`rttvar = rtt / 2` when `rx_srtt` is 0 (no sample other than 0 so far), and otherwise
`rttvar = (3 * rttvar + |rtt - srtt|) / 4` and `srtt = max(1, (7 * srtt + rtt) / 8)` from
the old `srtt`; then `rx_rto = min(max(rx_minrto, srtt + max(interval, 4 * rttvar)),
60000)`, so `rx_minrto <= rx_rto <= 60000`. The bounds are kept, and `rx_srtt` is 0
afterwards only if it was 0 and the sample is 0. An ACK record feeds the sample
`current - ts` when that is not negative and leaves the estimate alone otherwise. -/
theorem C24_rtt_estimator (kcp : IKCPCB) (rtt : Int)
    (hr0 : 0 ≤ rtt) (hr1 : rtt < 268435456)
    (hs0 : 0 ≤ kcp.rx_srtt) (hs1 : kcp.rx_srtt < 268435456)
    (hv0 : 0 ≤ kcp.rx_rttval) (hv1 : kcp.rx_rttval < 268435456)
    (hi : kcp.interval < 2147483648) (hm0 : 0 ≤ kcp.rx_minrto) (hm1 : kcp.rx_minrto ≤ 60000) :
    rx_vals (ikcp_update_ack kcp rtt) =
      rtt_estimator_spec kcp.rx_srtt kcp.rx_rttval rtt kcp.rx_minrto kcp.interval ∧
    kcp.rx_minrto ≤ (ikcp_update_ack kcp rtt).rx_rto ∧
    (ikcp_update_ack kcp rtt).rx_rto ≤ 60000 ∧
    0 ≤ (ikcp_update_ack kcp rtt).rx_srtt ∧ (ikcp_update_ack kcp rtt).rx_srtt < 268435456 ∧
    0 ≤ (ikcp_update_ack kcp rtt).rx_rttval ∧
    (ikcp_update_ack kcp rtt).rx_rttval < 268435456 ∧
    ((ikcp_update_ack kcp rtt).rx_srtt = 0 ↔ kcp.rx_srtt = 0 ∧ rtt = 0) ∧
    (∀ (hdr : IKCPSEG) (payload : List Nat) (flag : Int) (a b : Nat),
      hdr.cmd = IKCP_CMD_ACK →
      rx_vals (ikcp_input_record kcp hdr payload flag a b).2.1 =
        if _itimediff kcp.current hdr.ts ≥ 0 then
          rx_vals (ikcp_update_ack kcp (_itimediff kcp.current hdr.ts))
        else rx_vals kcp) := by
  obtain ⟨h1, h2, h3, h4, h5, h6⟩ :=
    ikcp_update_ack_spec kcp rtt hr0 hr1 hs0 hs1 hv0 hv1 hi hm0 hm1
  have hrto : (ikcp_update_ack kcp rtt).rx_rto =
      (rtt_estimator_spec kcp.rx_srtt kcp.rx_rttval rtt kcp.rx_minrto kcp.interval).2.2 := by
    rw [← h1]
  refine ⟨h1, ?_, ?_, h2, h3, h4, h5, h6,
    fun hdr payload flag a b hc => ikcp_input_record_est kcp hdr payload flag a b hc⟩
  · rw [hrto]
    unfold rtt_estimator_spec
    simp only []
    exact le_min (le_max_left _ _) hm1
  · rw [hrto]
    unfold rtt_estimator_spec
    simp only []
    exact min_le_right _ _

theorem C24_rtt_estimator_witness :
    rx_vals (ikcp_update_ack kcpTwoInFlight 50) =
      rtt_estimator_spec kcpTwoInFlight.rx_srtt kcpTwoInFlight.rx_rttval 50
        kcpTwoInFlight.rx_minrto kcpTwoInFlight.interval ∧
    kcpTwoInFlight.rx_minrto ≤ (ikcp_update_ack kcpTwoInFlight 50).rx_rto ∧
    (ikcp_update_ack kcpTwoInFlight 50).rx_rto ≤ 60000 ∧
    0 ≤ (ikcp_update_ack kcpTwoInFlight 50).rx_srtt ∧
    (ikcp_update_ack kcpTwoInFlight 50).rx_srtt < 268435456 ∧
    0 ≤ (ikcp_update_ack kcpTwoInFlight 50).rx_rttval ∧
    (ikcp_update_ack kcpTwoInFlight 50).rx_rttval < 268435456 ∧
    ((ikcp_update_ack kcpTwoInFlight 50).rx_srtt = 0 ↔
      kcpTwoInFlight.rx_srtt = 0 ∧ (50 : Int) = 0) ∧
    (∀ (hdr : IKCPSEG) (payload : List Nat) (flag : Int) (a b : Nat),
      hdr.cmd = IKCP_CMD_ACK →
      rx_vals (ikcp_input_record kcpTwoInFlight hdr payload flag a b).2.1 =
        if _itimediff kcpTwoInFlight.current hdr.ts ≥ 0 then
          rx_vals (ikcp_update_ack kcpTwoInFlight (_itimediff kcpTwoInFlight.current hdr.ts))
        else rx_vals kcpTwoInFlight) :=
  C24_rtt_estimator kcpTwoInFlight 50 (by decide) (by decide) (by decide!) (by decide!)
    (by decide!) (by decide!) (by decide!) (by decide!) (by decide!)

/-- C24 (counterexample): the first sample is 0 (the ACK arrives in the millisecond of
the transmission), which leaves `rx_srtt = 0`; the second sample, 100, is then treated
as a first one: `rx_srtt = 100` and `rx_rttval = 50`, where the rule for a subsequent
sample gives `srtt = max(1, (7 * 0 + 100) / 8) = 12` and `rttvar = (3 * 0 + 100) / 4 = 25`. -/
theorem C24_counterexample :
    rx_vals (ikcp_input kcpTwoInFlight
      (some (record_bytes { ackOneRecord with sn := 0, una := 1 }))).2 = (0, 0, 100) ∧
    kcpZeroSample.current = 100 ∧
    rx_vals kcpZeroSample = (100, 50, 300) ∧
    max 1 ((7 * 0 + 100) / 8) = (12 : Int) ∧ (3 * 0 + 100) / 4 = (25 : Int) := by
  decide!

/-! ## The promotion loop -/

theorem u32_sub_succ (q : Nat) (n : Nat) :
    u32 ((u32 ((q : Int) - 1) : Int) - n) = u32 ((q : Int) - ((n + 1 : Nat) : Int)) := by
  unfold u32
  omega

theorem ikcp_flush_promote_exact (cwnd wnd current : Nat) (hc : cwnd < 2147483648)
    (l : List IKCPSEG) :
    ∀ kcp : IKCPCB, sn_offset kcp.snd_una kcp.snd_nxt < 2147483648 →
      kcp.snd_nxt < 4294967296 → kcp.nsnd_que < 4294967296 → kcp.nsnd_buf < 4294967296 →
      (ikcp_flush_promote cwnd wnd current kcp l).snd_queue =
        l.drop (min l.length (cwnd - sn_offset kcp.snd_una kcp.snd_nxt)) ∧
      (ikcp_flush_promote cwnd wnd current kcp l).snd_buf =
        kcp.snd_buf ++ promoted_list kcp.conv kcp.rcv_nxt (u32 kcp.rx_rto) wnd current
          kcp.snd_nxt (l.take (min l.length (cwnd - sn_offset kcp.snd_una kcp.snd_nxt))) ∧
      (ikcp_flush_promote cwnd wnd current kcp l).snd_nxt =
        (kcp.snd_nxt + min l.length (cwnd - sn_offset kcp.snd_una kcp.snd_nxt)) %
          4294967296 ∧
      (ikcp_flush_promote cwnd wnd current kcp l).nsnd_que =
        u32 ((kcp.nsnd_que : Int) -
          (min l.length (cwnd - sn_offset kcp.snd_una kcp.snd_nxt) : Nat)) ∧
      (ikcp_flush_promote cwnd wnd current kcp l).nsnd_buf =
        (kcp.nsnd_buf + min l.length (cwnd - sn_offset kcp.snd_una kcp.snd_nxt)) %
          4294967296 := by
  induction l with
  | nil =>
    intro kcp _ h1 h2 h3
    rw [ikcp_flush_promote, List.length_nil, Nat.zero_min]
    refine ⟨rfl, ?_, ?_, ?_, ?_⟩
    · show kcp.snd_buf = kcp.snd_buf ++ []
      rw [List.append_nil]
    · show kcp.snd_nxt = (kcp.snd_nxt + 0) % 4294967296
      omega
    · show kcp.nsnd_que = u32 ((kcp.nsnd_que : Int) - (0 : Nat))
      rw [u32_of_lt _ (by omega) (by omega)]
      omega
    · show kcp.nsnd_buf = (kcp.nsnd_buf + 0) % 4294967296
      omega
  | cons a t ih =>
    intro kcp hd h1 h2 h3
    have ht := promote_test kcp.snd_una kcp.snd_nxt cwnd hd hc
    rw [ikcp_flush_promote]
    by_cases hcond : _itimediff kcp.snd_nxt ((kcp.snd_una + cwnd) % 4294967296) < 0
    · rw [if_pos hcond]
      have hlt := ht.mp hcond
      have hnx : sn_offset kcp.snd_una ((kcp.snd_nxt + 1) % 4294967296) =
          sn_offset kcp.snd_una kcp.snd_nxt + 1 := sn_offset_next _ _ (by omega)
      have hmin : min (a :: t).length (cwnd - sn_offset kcp.snd_una kcp.snd_nxt) =
          min t.length (cwnd - (sn_offset kcp.snd_una kcp.snd_nxt + 1)) + 1 := by
        rw [List.length_cons]
        omega
      obtain ⟨i1, i2, i3, i4, i5⟩ := ih
        { kcp with
          snd_queue := t
          snd_buf := kcp.snd_buf ++ [promoted_seg kcp.conv kcp.rcv_nxt (u32 kcp.rx_rto) wnd
            current kcp.snd_nxt a]
          nsnd_que := u32 ((kcp.nsnd_que : Int) - 1)
          nsnd_buf := (kcp.nsnd_buf + 1) % 4294967296
          snd_nxt := (kcp.snd_nxt + 1) % 4294967296 }
        (by show sn_offset kcp.snd_una ((kcp.snd_nxt + 1) % 4294967296) < 2147483648
            rw [hnx]; omega)
        (Nat.mod_lt _ (by decide))
        (by show u32 ((kcp.nsnd_que : Int) - 1) < 4294967296
            unfold u32; omega)
        (Nat.mod_lt _ (by decide))
      rw [hmin]
      generalize hP : ikcp_flush_promote cwnd wnd current
        { kcp with
          snd_queue := t
          snd_buf := kcp.snd_buf ++ [promoted_seg kcp.conv kcp.rcv_nxt (u32 kcp.rx_rto) wnd
            current kcp.snd_nxt a]
          nsnd_que := u32 ((kcp.nsnd_que : Int) - 1)
          nsnd_buf := (kcp.nsnd_buf + 1) % 4294967296
          snd_nxt := (kcp.snd_nxt + 1) % 4294967296 } t = P at i1 i2 i3 i4 i5
      have j1 : P.snd_queue = t.drop (min t.length
          (cwnd - sn_offset kcp.snd_una ((kcp.snd_nxt + 1) % 4294967296))) := i1
      have j2 : P.snd_buf = (kcp.snd_buf ++ [promoted_seg kcp.conv kcp.rcv_nxt
          (u32 kcp.rx_rto) wnd current kcp.snd_nxt a]) ++
          promoted_list kcp.conv kcp.rcv_nxt (u32 kcp.rx_rto) wnd current
            ((kcp.snd_nxt + 1) % 4294967296) (t.take (min t.length
              (cwnd - sn_offset kcp.snd_una ((kcp.snd_nxt + 1) % 4294967296)))) := i2
      have j3 : P.snd_nxt = ((kcp.snd_nxt + 1) % 4294967296 + min t.length
          (cwnd - sn_offset kcp.snd_una ((kcp.snd_nxt + 1) % 4294967296))) % 4294967296 := i3
      have j4 : P.nsnd_que = u32 ((u32 ((kcp.nsnd_que : Int) - 1) : Int) - (min t.length
          (cwnd - sn_offset kcp.snd_una ((kcp.snd_nxt + 1) % 4294967296)) : Nat)) := i4
      have j5 : P.nsnd_buf = ((kcp.nsnd_buf + 1) % 4294967296 + min t.length
          (cwnd - sn_offset kcp.snd_una ((kcp.snd_nxt + 1) % 4294967296))) % 4294967296 := i5
      rw [hnx] at j1 j2 j3 j4 j5
      have hPe : ikcp_flush_promote cwnd wnd current
          { kcp with
            snd_queue := t
            snd_buf := kcp.snd_buf ++ [{ a with
              conv := kcp.conv, cmd := IKCP_CMD_PUSH, wnd := wnd, ts := current
              sn := kcp.snd_nxt, una := kcp.rcv_nxt, resendts := current
              rto := u32 kcp.rx_rto, fastack := 0, xmit := 0 }]
            nsnd_que := u32 ((kcp.nsnd_que : Int) - 1)
            nsnd_buf := (kcp.nsnd_buf + 1) % 4294967296
            snd_nxt := (kcp.snd_nxt + 1) % 4294967296 } t = P := hP
      rw [hPe]
      generalize min t.length (cwnd - (sn_offset kcp.snd_una kcp.snd_nxt + 1)) = m
        at j1 j2 j3 j4 j5 ⊢
      refine ⟨?_, ?_, ?_, ?_, ?_⟩
      · rw [List.drop_succ_cons]
        exact j1
      · rw [List.take_succ_cons, promoted_list, j2, List.append_assoc]
        rfl
      · rw [j3]
        omega
      · rw [j4, u32_sub_succ]
      · rw [j5]
        omega
    · rw [if_neg hcond]
      have hge : ¬ sn_offset kcp.snd_una kcp.snd_nxt < cwnd := fun h => hcond (ht.mpr h)
      have hz : cwnd - sn_offset kcp.snd_una kcp.snd_nxt = 0 := by omega
      rw [hz, Nat.min_zero]
      refine ⟨rfl, ?_, ?_, ?_, ?_⟩
      · show kcp.snd_buf = kcp.snd_buf ++ []
        rw [List.append_nil]
      · show kcp.snd_nxt = (kcp.snd_nxt + 0) % 4294967296
        omega
      · show kcp.nsnd_que = u32 ((kcp.nsnd_que : Int) - (0 : Nat))
        rw [u32_of_lt _ (by omega) (by omega)]
        omega
      · show kcp.nsnd_buf = (kcp.nsnd_buf + 0) % 4294967296
        omega

/-! ## The data loop of a flush, segment by segment -/

/-- The transmission decision for one segment: the segment and `needsend` do not depend
on the locals; `lost`, `change` and the counter `xmit` move as the branch taken says;
the buffer and `state` are left alone. -/
theorem ikcp_flush_decide_effect (kcp : IKCPCB) (current resent rtomin : Nat)
    (segment : IKCPSEG) (st : FlushState) :
    (ikcp_flush_decide kcp current resent rtomin segment st).1 =
      (ikcp_flush_decide kcp current resent rtomin segment flush_idle).1 ∧
    (ikcp_flush_decide kcp current resent rtomin segment st).2.1 =
      (ikcp_flush_decide kcp current resent rtomin segment flush_idle).2.1 ∧
    (ikcp_flush_decide kcp current resent rtomin segment st).2.2.lost =
      (if flush_timed_out current segment = true then 1 else st.lost) ∧
    (ikcp_flush_decide kcp current resent rtomin segment st).2.2.change =
      (if flush_fast kcp current resent segment = true then i32 (st.change + 1)
        else st.change) ∧
    (ikcp_flush_decide kcp current resent rtomin segment st).2.2.xmit =
      (if flush_timed_out current segment = true then (st.xmit + 1) % 4294967296
        else st.xmit) ∧
    (ikcp_flush_decide kcp current resent rtomin segment st).2.2.state = st.state ∧
    (ikcp_flush_decide kcp current resent rtomin segment st).2.2.ptr = st.ptr ∧
    (ikcp_flush_decide kcp current resent rtomin segment st).2.2.outs = st.outs := by
  unfold ikcp_flush_decide flush_timed_out flush_fast
  by_cases h1 : segment.xmit = 0
  · rw [if_pos h1, if_pos h1]
    simp [h1]
  · rw [if_neg h1, if_neg h1]
    by_cases h2 : _itimediff current segment.resendts ≥ 0
    · rw [if_pos h2, if_pos h2]
      simp [h1, h2]
    · rw [if_neg h2, if_neg h2]
      by_cases h3 : segment.fastack ≥ resent
      · rw [if_pos h3, if_pos h3]
        by_cases h4 : i32 segment.xmit ≤ kcp.fastlimit ∨ kcp.fastlimit ≤ 0
        · rw [if_pos h4, if_pos h4]
          rcases h4 with h4 | h4
          · simp [h1, h2, h3, h4]
          · simp [h1, h2, h3, h4]
        · rw [if_neg h4, if_neg h4]
          have h5 : ¬ i32 segment.xmit ≤ kcp.fastlimit := fun h => h4 (Or.inl h)
          have h6 : ¬ kcp.fastlimit ≤ 0 := fun h => h4 (Or.inr h)
          simp [h1, h2, h3, h5, h6]
      · rw [if_neg h3, if_neg h3]
        simp [h1, h2, h3]

theorem flush_needsend_split (kcp : IKCPCB) (current resent : Nat) (segment : IKCPSEG) :
    flush_needsend kcp current resent segment =
      (decide (segment.xmit = 0) || flush_timed_out current segment ||
        flush_fast kcp current resent segment) := by
  unfold flush_needsend flush_timed_out flush_fast
  by_cases h1 : segment.xmit = 0
  · simp [h1]
  · by_cases h2 : _itimediff current segment.resendts ≥ 0
    · simp [h1, h2]
    · simp [h1, h2]

theorem flush_emit_counters (kcp : IKCPCB) (seg1 : IKCPSEG) (st : FlushState) :
    (flush_emit kcp seg1 st).lost = st.lost ∧ (flush_emit kcp seg1 st).change = st.change ∧
    (flush_emit kcp seg1 st).xmit = st.xmit := by
  have hr : (ikcp_flush_room kcp (i32 ((IKCP_OVERHEAD + seg1.len : Nat) : Int)) st).lost =
        st.lost ∧
      (ikcp_flush_room kcp (i32 ((IKCP_OVERHEAD + seg1.len : Nat) : Int)) st).change =
        st.change ∧
      (ikcp_flush_room kcp (i32 ((IKCP_OVERHEAD + seg1.len : Nat) : Int)) st).xmit =
        st.xmit := by
    unfold ikcp_flush_room
    split <;> exact ⟨rfl, rfl, rfl⟩
  have key : ∀ (R : FlushState) (p : List Nat) (s : Nat),
      ({ R with ptr := p, state := s } : FlushState).lost = R.lost ∧
      ({ R with ptr := p, state := s } : FlushState).change = R.change ∧
      ({ R with ptr := p, state := s } : FlushState).xmit = R.xmit :=
    fun _ _ _ => ⟨rfl, rfl, rfl⟩
  unfold flush_emit
  obtain ⟨k1, k2, k3⟩ := key
    (ikcp_flush_room kcp (i32 ((IKCP_OVERHEAD + seg1.len : Nat) : Int)) st)
    (if seg1.len > 0 then
        (ikcp_flush_room kcp (i32 ((IKCP_OVERHEAD + seg1.len : Nat) : Int)) st).ptr ++
          ikcp_encode_seg seg1 ++ seg1.data.take seg1.len
      else
        (ikcp_flush_room kcp (i32 ((IKCP_OVERHEAD + seg1.len : Nat) : Int)) st).ptr ++
          ikcp_encode_seg seg1)
    (if seg1.xmit ≥ kcp.dead_link then 4294967295
      else (ikcp_flush_room kcp (i32 ((IKCP_OVERHEAD + seg1.len : Nat) : Int)) st).state)
  exact ⟨k1.trans hr.1, k2.trans hr.2.1, k3.trans hr.2.2⟩

/-- The segments of `snd_buf` after the data loop: each is what one pass of the loop
body makes of it, whatever the locals are. -/
theorem ikcp_flush_data_map (kcp : IKCPCB) (current resent rtomin wnd : Nat)
    (segs : List IKCPSEG) :
    ∀ st : FlushState,
      (ikcp_flush_data kcp current resent rtomin wnd segs st).1 =
        segs.map (flush_seg_after kcp current resent rtomin wnd) := by
  induction segs with
  | nil => intro st; rfl
  | cons a t ih =>
    intro st
    obtain ⟨e1, e2, _⟩ := ikcp_flush_decide_effect kcp current resent rtomin a st
    rw [ikcp_flush_data_cons, List.map_cons]
    unfold flush_seg_after
    rw [← e1, ← e2]
    split
    · simp only []
      rw [ih]
      rfl
    · simp only []
      rw [ih]
      rfl

/-- The counters of a flush after the data loop: `lost` is set when some segment timed
out, `change` counts the fast retransmissions, `xmit` counts the timeouts. -/
theorem ikcp_flush_data_counters (kcp : IKCPCB) (current resent rtomin wnd : Nat)
    (segs : List IKCPSEG) :
    ∀ st : FlushState,
      (ikcp_flush_data kcp current resent rtomin wnd segs st).2.lost =
        (if segs.any (flush_timed_out current) = true then 1 else st.lost) ∧
      (ikcp_flush_data kcp current resent rtomin wnd segs st).2.change =
        change_after (segs.countP (flush_fast kcp current resent)) st.change := by
  induction segs with
  | nil => intro st; exact ⟨rfl, rfl⟩
  | cons a t ih =>
    intro st
    obtain ⟨_, _, e3, e4, _⟩ := ikcp_flush_decide_effect kcp current resent rtomin a st
    obtain ⟨c1, c2, _⟩ := flush_emit_counters kcp
      { (ikcp_flush_decide kcp current resent rtomin a st).1 with
        ts := current, wnd := wnd, una := kcp.rcv_nxt }
      (ikcp_flush_decide kcp current resent rtomin a st).2.2
    have hstep : ∀ X : FlushState, X.lost = (ikcp_flush_decide kcp current resent rtomin a
          st).2.2.lost →
        X.change = (ikcp_flush_decide kcp current resent rtomin a st).2.2.change →
        (ikcp_flush_data kcp current resent rtomin wnd t X).2.lost =
          (if (a :: t).any (flush_timed_out current) = true then 1 else st.lost) ∧
        (ikcp_flush_data kcp current resent rtomin wnd t X).2.change =
          change_after ((a :: t).countP (flush_fast kcp current resent)) st.change := by
      intro X hl hch
      obtain ⟨i1, i2⟩ := ih X
      rw [i1, i2, hl, hch, e3, e4, List.any_cons, List.countP_cons]
      constructor
      · by_cases ha : flush_timed_out current a = true
        · simp [ha]
        · simp [ha]
      · by_cases hf : flush_fast kcp current resent a = true
        · rw [if_pos hf, if_pos hf]
          rfl
        · rw [if_neg hf, if_neg hf]
          rfl
    rw [ikcp_flush_data_cons]
    split
    · exact hstep _ c1 c2
    · exact hstep _ rfl rfl

theorem change_after_small (n : Nat) :
    ∀ c : Int, 0 ≤ c → c + n < 2147483648 → change_after n c = c + n := by
  induction n with
  | zero => intro c _ _; rw [change_after]; omega
  | succ m ih =>
    intro c h0 h1
    rw [change_after, i32_of_lt _ (by omega) (by omega), ih _ (by omega) (by omega)]
    omega

theorem ikcp_flush_room_counters (kcp : IKCPCB) (need : Int) (st : FlushState) :
    (ikcp_flush_room kcp need st).lost = st.lost ∧
    (ikcp_flush_room kcp need st).change = st.change ∧
    (ikcp_flush_room kcp need st).xmit = st.xmit := by
  unfold ikcp_flush_room
  split <;> exact ⟨rfl, rfl, rfl⟩

theorem flush_put_counters (R : FlushState) (p : List Nat) :
    ({ R with ptr := p } : FlushState).lost = R.lost ∧
    ({ R with ptr := p } : FlushState).change = R.change ∧
    ({ R with ptr := p } : FlushState).xmit = R.xmit := ⟨rfl, rfl, rfl⟩

theorem ikcp_flush_acks_counters (kcp : IKCPCB) (count : Int) (fuel : Nat) :
    ∀ (i : Int) (seg : IKCPSEG) (st : FlushState),
      (ikcp_flush_acks kcp count fuel i seg st).2.lost = st.lost ∧
      (ikcp_flush_acks kcp count fuel i seg st).2.change = st.change ∧
      (ikcp_flush_acks kcp count fuel i seg st).2.xmit = st.xmit := by
  induction fuel with
  | zero => intro i seg st; exact ⟨rfl, rfl, rfl⟩
  | succ n ih =>
    intro i seg st
    rw [ikcp_flush_acks]
    split
    · simp only []
      obtain ⟨a1, a2, a3⟩ := ih (i + 1)
        { seg with sn := (ikcp_ack_get kcp i.toNat).1, ts := (ikcp_ack_get kcp i.toNat).2 }
        { ikcp_flush_room kcp (i32 IKCP_OVERHEAD) st with
          ptr := (ikcp_flush_room kcp (i32 IKCP_OVERHEAD) st).ptr ++
            ikcp_encode_seg { seg with sn := (ikcp_ack_get kcp i.toNat).1,
                                       ts := (ikcp_ack_get kcp i.toNat).2 } }
      obtain ⟨b1, b2, b3⟩ := flush_put_counters (ikcp_flush_room kcp (i32 IKCP_OVERHEAD) st)
        ((ikcp_flush_room kcp (i32 IKCP_OVERHEAD) st).ptr ++
            ikcp_encode_seg { seg with sn := (ikcp_ack_get kcp i.toNat).1,
                                       ts := (ikcp_ack_get kcp i.toNat).2 })
      obtain ⟨c1, c2, c3⟩ := ikcp_flush_room_counters kcp (i32 IKCP_OVERHEAD) st
      exact ⟨a1.trans (b1.trans c1), a2.trans (b2.trans c2), a3.trans (b3.trans c3)⟩
    · exact ⟨rfl, rfl, rfl⟩

theorem ikcp_flush_cmds_counters (kcp : IKCPCB) (a : IKCPSEG × FlushState) :
    (ikcp_flush_cmds kcp a).lost = a.2.lost ∧ (ikcp_flush_cmds kcp a).change = a.2.change ∧
    (ikcp_flush_cmds kcp a).xmit = a.2.xmit := by
  have hput : ∀ (st : FlushState) (p : List Nat),
      ({ ikcp_flush_room kcp (i32 IKCP_OVERHEAD) st with
          ptr := (ikcp_flush_room kcp (i32 IKCP_OVERHEAD) st).ptr ++ p } : FlushState).lost =
        st.lost ∧
      ({ ikcp_flush_room kcp (i32 IKCP_OVERHEAD) st with
          ptr := (ikcp_flush_room kcp (i32 IKCP_OVERHEAD) st).ptr ++ p } : FlushState).change =
        st.change ∧
      ({ ikcp_flush_room kcp (i32 IKCP_OVERHEAD) st with
          ptr := (ikcp_flush_room kcp (i32 IKCP_OVERHEAD) st).ptr ++ p } : FlushState).xmit =
        st.xmit := by
    intro st p
    obtain ⟨b1, b2, b3⟩ := flush_put_counters (ikcp_flush_room kcp (i32 IKCP_OVERHEAD) st)
      ((ikcp_flush_room kcp (i32 IKCP_OVERHEAD) st).ptr ++ p)
    obtain ⟨c1, c2, c3⟩ := ikcp_flush_room_counters kcp (i32 IKCP_OVERHEAD) st
    exact ⟨b1.trans c1, b2.trans c2, b3.trans c3⟩
  have h2 : (if kcp.probe &&& IKCP_ASK_SEND ≠ 0 then
        { ikcp_flush_room kcp (i32 IKCP_OVERHEAD) a.2 with
          ptr := (ikcp_flush_room kcp (i32 IKCP_OVERHEAD) a.2).ptr ++
            ikcp_encode_seg { a.1 with cmd := IKCP_CMD_WASK } }
      else a.2).lost = a.2.lost ∧
      (if kcp.probe &&& IKCP_ASK_SEND ≠ 0 then
        { ikcp_flush_room kcp (i32 IKCP_OVERHEAD) a.2 with
          ptr := (ikcp_flush_room kcp (i32 IKCP_OVERHEAD) a.2).ptr ++
            ikcp_encode_seg { a.1 with cmd := IKCP_CMD_WASK } }
      else a.2).change = a.2.change ∧
      (if kcp.probe &&& IKCP_ASK_SEND ≠ 0 then
        { ikcp_flush_room kcp (i32 IKCP_OVERHEAD) a.2 with
          ptr := (ikcp_flush_room kcp (i32 IKCP_OVERHEAD) a.2).ptr ++
            ikcp_encode_seg { a.1 with cmd := IKCP_CMD_WASK } }
      else a.2).xmit = a.2.xmit := by
    split
    · exact hput _ _
    · exact ⟨rfl, rfl, rfl⟩
  unfold ikcp_flush_cmds
  simp only []
  by_cases ht : kcp.probe &&& IKCP_ASK_TELL ≠ 0
  · rw [if_pos ht]
    obtain ⟨d1, d2, d3⟩ := hput
      (if kcp.probe &&& IKCP_ASK_SEND ≠ 0 then
        { ikcp_flush_room kcp (i32 IKCP_OVERHEAD) a.2 with
          ptr := (ikcp_flush_room kcp (i32 IKCP_OVERHEAD) a.2).ptr ++
            ikcp_encode_seg { a.1 with cmd := IKCP_CMD_WASK } }
      else a.2)
      (ikcp_encode_seg { (if kcp.probe &&& IKCP_ASK_SEND ≠ 0 then
        { a.1 with cmd := IKCP_CMD_WASK } else a.1) with cmd := IKCP_CMD_WINS })
    exact ⟨d1.trans h2.1, d2.trans h2.2.1, d3.trans h2.2.2⟩
  · rw [if_neg ht]
    exact h2

theorem ikcp_flush_promote_prefix (cwnd wnd current : Nat) (l : List IKCPSEG) :
    ∀ kcp : IKCPCB, ∃ X : List IKCPSEG,
      (ikcp_flush_promote cwnd wnd current kcp l).snd_buf = kcp.snd_buf ++ X ∧
      (∀ s ∈ X, s.xmit = 0 ∧ s.fastack = 0) ∧
      (ikcp_flush_promote cwnd wnd current kcp l).mss = kcp.mss ∧
      (ikcp_flush_promote cwnd wnd current kcp l).snd_una = kcp.snd_una := by
  induction l with
  | nil =>
    intro kcp
    exact ⟨[], (List.append_nil _).symm, fun s hs => absurd hs (List.not_mem_nil s), rfl, rfl⟩
  | cons a t ih =>
    intro kcp
    rw [ikcp_flush_promote]
    split
    · obtain ⟨X, hX, hx, hm, hu⟩ := ih
        { kcp with
          snd_queue := t
          snd_buf := kcp.snd_buf ++ [promoted_seg kcp.conv kcp.rcv_nxt (u32 kcp.rx_rto) wnd
            current kcp.snd_nxt a]
          nsnd_que := u32 ((kcp.nsnd_que : Int) - 1)
          nsnd_buf := (kcp.nsnd_buf + 1) % 4294967296
          snd_nxt := (kcp.snd_nxt + 1) % 4294967296 }
      refine ⟨promoted_seg kcp.conv kcp.rcv_nxt (u32 kcp.rx_rto) wnd current kcp.snd_nxt a ::
        X, ?_, ?_, hm, hu⟩
      · refine hX.trans ?_
        show (kcp.snd_buf ++ [_]) ++ X = _
        rw [List.append_assoc]
        rfl
      · intro s hs
        rcases List.mem_cons.mp hs with h | h
        · rw [h]
          exact ⟨rfl, rfl⟩
        · exact hx s h
    · exact ⟨[], (List.append_nil _).symm, fun s hs => absurd hs (List.not_mem_nil s),
        rfl, rfl⟩

theorem flush_promoted_prefix (kcp : IKCPCB) :
    ∃ X : List IKCPSEG, (flush_promoted kcp).snd_buf = kcp.snd_buf ++ X ∧
      (∀ s ∈ X, s.xmit = 0 ∧ s.fastack = 0) ∧ (flush_promoted kcp).mss = kcp.mss ∧
      (flush_promoted kcp).snd_una = kcp.snd_una := by
  have g1 : (ikcp_flush_probe { kcp with ackcount := 0 }).snd_buf = kcp.snd_buf :=
    congrArg SndPart.snd_buf (ikcp_flush_probe_snd { kcp with ackcount := 0 })
  have g2 : (ikcp_flush_probe { kcp with ackcount := 0 }).mss = kcp.mss :=
    congrArg SndPart.mss (ikcp_flush_probe_snd { kcp with ackcount := 0 })
  have g3 : (ikcp_flush_probe { kcp with ackcount := 0 }).snd_una = kcp.snd_una :=
    congrArg SndPart.snd_una (ikcp_flush_probe_snd { kcp with ackcount := 0 })
  obtain ⟨X, hX, hx, hm, hu⟩ := ikcp_flush_promote_prefix
    (ikcp_flush_window { ikcp_flush_probe { kcp with ackcount := 0 } with probe := 0 })
    (u32 (ikcp_wnd_unused kcp)) kcp.current
    (ikcp_flush_probe { kcp with ackcount := 0 }).snd_queue
    { ikcp_flush_probe { kcp with ackcount := 0 } with probe := 0 }
  refine ⟨X, ?_, hx, ?_, ?_⟩
  · unfold flush_promoted
    rw [hX]
    show (ikcp_flush_probe { kcp with ackcount := 0 }).snd_buf ++ X = _
    rw [g1]
  · unfold flush_promoted
    rw [hm]
    exact g2
  · unfold flush_promoted
    rw [hu]
    exact g3

theorem ikcp_flush_probe_window (kcp : IKCPCB) :
    ikcp_flush_window { ikcp_flush_probe kcp with probe := 0 } = ikcp_flush_window kcp := by
  unfold ikcp_flush_probe ikcp_flush_window
  split
  · split
    · rfl
    · split <;> rfl
  · rfl

/-- The congestion adjustments at the end of `ikcp_flush`, case by case. -/
theorem ikcp_flush_cwnd_vals (kcp : IKCPCB) (change lost : Int) (resent cwnd : Nat) :
    (lost ≠ 0 →
      (ikcp_flush_cwnd kcp change lost resent cwnd).ssthresh =
        (if cwnd / 2 < 2 then 2 else cwnd / 2) ∧
      (ikcp_flush_cwnd kcp change lost resent cwnd).cwnd = 1 ∧
      (ikcp_flush_cwnd kcp change lost resent cwnd).incr = kcp.mss) ∧
    (lost = 0 → change ≠ 0 →
      (ikcp_flush_cwnd kcp change lost resent cwnd).ssthresh = fast_ssthresh kcp ∧
      (ikcp_flush_cwnd kcp change lost resent cwnd).cwnd =
        (if (fast_ssthresh kcp + resent) % 4294967296 < 1 then 1
          else (fast_ssthresh kcp + resent) % 4294967296) ∧
      (ikcp_flush_cwnd kcp change lost resent cwnd).incr =
        (if (fast_ssthresh kcp + resent) % 4294967296 < 1 then kcp.mss
          else ((fast_ssthresh kcp + resent) % 4294967296 * kcp.mss) % 4294967296)) ∧
    (lost = 0 → change = 0 →
      (ikcp_flush_cwnd kcp change lost resent cwnd).ssthresh = kcp.ssthresh ∧
      (ikcp_flush_cwnd kcp change lost resent cwnd).cwnd =
        (if kcp.cwnd < 1 then 1 else kcp.cwnd) ∧
      (ikcp_flush_cwnd kcp change lost resent cwnd).incr =
        (if kcp.cwnd < 1 then kcp.mss else kcp.incr)) := by
  have ht : IKCP_THRESH_MIN = 2 := rfl
  have n1 : ¬ ((1 : Nat) < 1) := by decide
  unfold ikcp_flush_cwnd fast_ssthresh
  simp only []
  rw [ht]
  refine ⟨?_, ?_, ?_⟩
  · intro hl
    rw [if_pos hl]
    by_cases hc : change ≠ 0
    · rw [if_pos hc]
      simp only []
      rw [if_neg n1]
      exact ⟨rfl, rfl, rfl⟩
    · rw [if_neg hc]
      simp only []
      rw [if_neg n1]
      exact ⟨rfl, rfl, rfl⟩
  · intro hl hc
    have hl' : ¬ lost ≠ 0 := fun h => h hl
    rw [if_neg hl', if_pos hc]
    simp only []
    generalize (if u32 ((kcp.snd_nxt : Int) - kcp.snd_una) / 2 < 2 then 2
      else u32 ((kcp.snd_nxt : Int) - kcp.snd_una) / 2) = S
    by_cases h5 : (S + resent) % 4294967296 < 1
    · simp only [if_pos h5]
      exact ⟨trivial, trivial, trivial⟩
    · simp only [if_neg h5]
      exact ⟨trivial, trivial, trivial⟩
  · intro hl hc
    have hl' : ¬ lost ≠ 0 := fun h => h hl
    have hc' : ¬ change ≠ 0 := fun h => h hc
    rw [if_neg hl', if_neg hc']
    by_cases h5 : kcp.cwnd < 1
    · simp only [if_pos h5]
      exact ⟨trivial, trivial, trivial⟩
    · simp only [if_neg h5]
      exact ⟨trivial, trivial, trivial⟩

/-- The congestion members after a flush that runs: those `ikcp_flush_cwnd` computes
from the control block after promotion, with `lost` and `change` as the data loop
leaves them and the window computed before the promotion. -/
theorem ikcp_flush_congestion (kcp : IKCPCB) (hu : kcp.updated ≠ 0) :
    ∃ K4 : IKCPCB,
      (ikcp_flush kcp).1 = ikcp_flush_cwnd K4
        (change_after ((flush_promoted kcp).snd_buf.countP
          (flush_fast (flush_promoted kcp) kcp.current (flush_resent (flush_promoted kcp)))) 0)
        (if (flush_promoted kcp).snd_buf.any (flush_timed_out kcp.current) = true then 1
          else 0)
        (flush_resent (flush_promoted kcp)) (ikcp_flush_window kcp) ∧
      K4.snd_nxt = (flush_promoted kcp).snd_nxt ∧ K4.snd_una = (flush_promoted kcp).snd_una ∧
      K4.mss = (flush_promoted kcp).mss ∧ K4.ssthresh = (flush_promoted kcp).ssthresh ∧
      K4.cwnd = (flush_promoted kcp).cwnd ∧ K4.incr = (flush_promoted kcp).incr := by
  obtain ⟨a1, a2, _⟩ := ikcp_flush_acks_counters kcp (i32 kcp.ackcount)
    (i32 kcp.ackcount).toNat 0 (ikcp_flush_seg kcp)
    { ptr := [], outs := [], change := 0, lost := 0, xmit := kcp.xmit, state := kcp.state }
  obtain ⟨b1, b2, _⟩ := ikcp_flush_cmds_counters (ikcp_flush_probe { kcp with ackcount := 0 })
    (ikcp_flush_acks kcp (i32 kcp.ackcount) (i32 kcp.ackcount).toNat 0 (ikcp_flush_seg kcp)
      { ptr := [], outs := [], change := 0, lost := 0, xmit := kcp.xmit, state := kcp.state })
  obtain ⟨c1, c2⟩ := ikcp_flush_data_counters (flush_promoted kcp) kcp.current
    (flush_resent (flush_promoted kcp))
    (if (flush_promoted kcp).nodelay = 0 then u32 ((flush_promoted kcp).rx_rto / 8) else 0)
    (u32 (ikcp_wnd_unused kcp)) (flush_promoted kcp).snd_buf
    (ikcp_flush_cmds (ikcp_flush_probe { kcp with ackcount := 0 })
      (ikcp_flush_acks kcp (i32 kcp.ackcount) (i32 kcp.ackcount).toNat 0 (ikcp_flush_seg kcp)
        { ptr := [], outs := [], change := 0, lost := 0, xmit := kcp.xmit,
          state := kcp.state }))
  rw [b1.trans a1] at c1
  rw [b2.trans a2] at c2
  rw [ikcp_flush_eq kcp hu, ikcp_flush_send_eq, ikcp_flush_probe_window]
  simp only []
  rw [c1, c2]
  exact ⟨_, rfl, rfl, rfl, rfl, rfl, rfl, rfl⟩

theorem flush_fast_congr (a b : IKCPCB) (h : a.fastlimit = b.fastlimit) (current resent : Nat)
    (segment : IKCPSEG) :
    flush_fast a current resent segment = flush_fast b current resent segment := by
  unfold flush_fast
  rw [h]

theorem flush_resent_promoted (kcp : IKCPCB) :
    flush_resent (flush_promoted kcp) = flush_resent kcp := by
  unfold flush_resent
  rw [(flush_promoted_frame kcp).2.1]


/-- C27: the timeout collapse. When a flush runs and finds the resend deadline of a
segment of `snd_buf` passed (`xmit > 0` and `current - resendts >= 0`), then on return
`ssthresh = max(2, w / 2)` with `w` the window computed at the start of the flush, that
is `min(snd_wnd, rmt_wnd)`, further limited by `cwnd` when `nocwnd = 0`; `cwnd = 1` and
`incr = mss`. Nothing is assumed about fast retransmissions in the same flush. -/
theorem C27_timeout_collapse (kcp : IKCPCB) (hu : kcp.updated ≠ 0)
    (hl : ∃ seg ∈ kcp.snd_buf, seg.xmit ≠ 0 ∧ _itimediff kcp.current seg.resendts ≥ 0) :
    (ikcp_flush kcp).1.ssthresh = max 2 (ikcp_flush_window kcp / 2) ∧
    (ikcp_flush kcp).1.cwnd = 1 ∧
    (ikcp_flush kcp).1.incr = kcp.mss ∧
    (ikcp_flush kcp).1.mss = kcp.mss ∧
    ikcp_flush_window kcp =
      (if kcp.nocwnd = 0 then min kcp.cwnd (min kcp.snd_wnd kcp.rmt_wnd)
        else min kcp.snd_wnd kcp.rmt_wnd) := by
  obtain ⟨seg, hm, hx, ht⟩ := hl
  obtain ⟨X, hX, _, hmss, _⟩ := flush_promoted_prefix kcp
  have hany : (flush_promoted kcp).snd_buf.any (flush_timed_out kcp.current) = true := by
    rw [List.any_eq_true]
    refine ⟨seg, ?_, ?_⟩
    · rw [hX]
      exact List.mem_append_left _ hm
    · unfold flush_timed_out
      rw [Bool.and_eq_true, decide_eq_true_eq, decide_eq_true_eq]
      exact ⟨hx, ht⟩
  obtain ⟨K4, hK, _, _, k3, _⟩ := ikcp_flush_congestion kcp hu
  rw [if_pos hany] at hK
  obtain ⟨v1, v2, v3⟩ := (ikcp_flush_cwnd_vals K4 _ 1 (flush_resent (flush_promoted kcp))
    (ikcp_flush_window kcp)).1 (by decide)
  have hmss2 : (ikcp_flush kcp).1.mss = K4.mss := by
    rw [hK, ikcp_flush_cwnd_fields]
  rw [← hK] at v1 v2 v3
  refine ⟨?_, v2, ?_, ?_, ?_⟩
  · rw [v1]
    split
    · rw [max_eq_left (by omega)]
    · rw [max_eq_right (by omega)]
  · rw [v3, k3, hmss]
  · rw [hmss2, k3, hmss]
  · unfold ikcp_flush_window _imin_
    split
    · split <;> split <;> omega
    · split <;> omega

theorem C27_timeout_collapse_witness :
    (ikcp_flush kcpOverdue).1.ssthresh = max 2 (ikcp_flush_window kcpOverdue / 2) ∧
    (ikcp_flush kcpOverdue).1.cwnd = 1 ∧
    (ikcp_flush kcpOverdue).1.incr = kcpOverdue.mss ∧
    (ikcp_flush kcpOverdue).1.mss = kcpOverdue.mss ∧
    ikcp_flush_window kcpOverdue =
      (if kcpOverdue.nocwnd = 0 then min kcpOverdue.cwnd (min kcpOverdue.snd_wnd kcpOverdue.rmt_wnd)
        else min kcpOverdue.snd_wnd kcpOverdue.rmt_wnd) :=
  C27_timeout_collapse kcpOverdue (by decide!) (by decide!)

/-- C26 (amended): the fast-retransmit collapse. When a flush runs, retransmits at least
one segment of `snd_buf` fast and finds no resend deadline passed, then on return
`ssthresh = max(2, (snd_nxt - snd_una) / 2)`, `cwnd = ssthresh + fastresend` (the
configured threshold `resent`, whatever the number of segments retransmitted fast) and
`incr = cwnd * mss` in 32-bit arithmetic. -/
theorem C26_fast_retransmit_collapse (kcp : IKCPCB) (hu : kcp.updated ≠ 0)
    (hf0 : 0 < kcp.fastresend) (hf1 : kcp.fastresend < 2147483648)
    (hlen : kcp.snd_buf.length < 2147483648)
    (hfast : ∃ seg ∈ kcp.snd_buf,
      flush_fast kcp kcp.current (flush_resent kcp) seg = true)
    (hnol : ∀ seg ∈ kcp.snd_buf, flush_timed_out kcp.current seg = false) :
    (ikcp_flush kcp).1.ssthresh =
      max 2 (u32 (((ikcp_flush kcp).1.snd_nxt : Int) - (ikcp_flush kcp).1.snd_una) / 2) ∧
    (ikcp_flush kcp).1.cwnd = (ikcp_flush kcp).1.ssthresh + kcp.fastresend.toNat ∧
    (ikcp_flush kcp).1.incr =
      ((ikcp_flush kcp).1.cwnd * (ikcp_flush kcp).1.mss) % 4294967296 ∧
    flush_resent kcp = kcp.fastresend.toNat := by
  obtain ⟨X, hX, hx, _, _⟩ := flush_promoted_prefix kcp
  have hfl := (flush_promoted_frame kcp).2.2
  have hres := flush_resent_promoted kcp
  have hr : flush_resent kcp = kcp.fastresend.toNat := by
    unfold flush_resent
    rw [if_pos hf0, u32_of_lt _ (by omega) (by omega)]
  -- the promoted segments are neither late nor fast
  have hXt : ∀ s ∈ X, flush_timed_out kcp.current s = false := by
    intro s hs
    unfold flush_timed_out
    rw [(hx s hs).1]
    rfl
  have hXf : ∀ s ∈ X, flush_fast kcp kcp.current (flush_resent kcp) s = false := by
    intro s hs
    unfold flush_fast
    rw [(hx s hs).1]
    rfl
  have hany : (flush_promoted kcp).snd_buf.any (flush_timed_out kcp.current) = false := by
    rw [List.any_eq_false]
    intro s hs
    rw [hX] at hs
    rcases List.mem_append.mp hs with h | h
    · rw [hnol s h]; decide
    · rw [hXt s h]; decide
  have hcount : (flush_promoted kcp).snd_buf.countP
      (flush_fast (flush_promoted kcp) kcp.current (flush_resent (flush_promoted kcp))) =
      kcp.snd_buf.countP (flush_fast kcp kcp.current (flush_resent kcp)) := by
    have hfun : flush_fast (flush_promoted kcp) kcp.current
        (flush_resent (flush_promoted kcp)) =
        flush_fast kcp kcp.current (flush_resent kcp) := by
      funext s
      rw [hres]
      exact flush_fast_congr _ _ hfl _ _ s
    rw [hfun, hX, List.countP_append]
    have hz : X.countP (flush_fast kcp kcp.current (flush_resent kcp)) = 0 := by
      rw [List.countP_eq_zero]
      intro s hs
      rw [hXf s hs]
      decide
    rw [hz, Nat.add_zero]
  have hpos : 0 < kcp.snd_buf.countP (flush_fast kcp kcp.current (flush_resent kcp)) := by
    rw [List.countP_pos_iff]
    exact hfast
  have hle := List.countP_le_length (flush_fast kcp kcp.current (flush_resent kcp))
    (l := kcp.snd_buf)
  obtain ⟨K4, hK, k1, k2, k3, _⟩ := ikcp_flush_congestion kcp hu
  rw [hany, hcount, change_after_small _ 0 (by decide) (by omega), hres] at hK
  have hne : ¬ (false = true) := by decide
  rw [if_neg hne] at hK
  obtain ⟨v1, v2, v3⟩ := (ikcp_flush_cwnd_vals K4
    ((0 : Int) + (kcp.snd_buf.countP (flush_fast kcp kcp.current (flush_resent kcp)) : Nat))
    0 (flush_resent kcp) (ikcp_flush_window kcp)).2.1 rfl (by omega)
  rw [← hK] at v1 v2 v3
  have hfields : (ikcp_flush kcp).1.snd_nxt = K4.snd_nxt ∧
      (ikcp_flush kcp).1.snd_una = K4.snd_una ∧ (ikcp_flush kcp).1.mss = K4.mss := by
    rw [hK, ikcp_flush_cwnd_fields]
    exact ⟨rfl, rfl, rfl⟩
  have hS : fast_ssthresh K4 =
      max 2 (u32 (((ikcp_flush kcp).1.snd_nxt : Int) - (ikcp_flush kcp).1.snd_una) / 2) := by
    unfold fast_ssthresh
    rw [hfields.1, hfields.2.1]
    have ht : IKCP_THRESH_MIN = 2 := rfl
    rw [ht]
    split
    · rw [max_eq_left (by omega)]
    · rw [max_eq_right (by omega)]
  have hSle : fast_ssthresh K4 ≤ 2147483648 := by
    rw [hS]
    have hu32 : u32 (((ikcp_flush kcp).1.snd_nxt : Int) - (ikcp_flush kcp).1.snd_una) <
        4294967296 := by
      unfold u32; omega
    exact max_le (by decide) (by omega)
  have hS2 : 2 ≤ fast_ssthresh K4 := by
    rw [hS]
    exact le_max_left _ _
  have hsum : (fast_ssthresh K4 + flush_resent kcp) % 4294967296 =
      fast_ssthresh K4 + kcp.fastresend.toNat := by
    rw [hr]
    omega
  have hn1 : ¬ (fast_ssthresh K4 + kcp.fastresend.toNat < 1) := by omega
  rw [hsum, if_neg hn1] at v2 v3
  refine ⟨v1.trans hS, ?_, ?_, hr⟩
  · rw [v2, v1]
  · rw [v3, v2, hfields.2.2]

theorem C26_fast_retransmit_collapse_witness :
    (ikcp_flush kcpDupAcked).1.ssthresh =
      max 2 (u32 (((ikcp_flush kcpDupAcked).1.snd_nxt : Int) -
        (ikcp_flush kcpDupAcked).1.snd_una) / 2) ∧
    (ikcp_flush kcpDupAcked).1.cwnd =
      (ikcp_flush kcpDupAcked).1.ssthresh + kcpDupAcked.fastresend.toNat ∧
    (ikcp_flush kcpDupAcked).1.incr =
      ((ikcp_flush kcpDupAcked).1.cwnd * (ikcp_flush kcpDupAcked).1.mss) % 4294967296 ∧
    flush_resent kcpDupAcked = kcpDupAcked.fastresend.toNat :=
  C26_fast_retransmit_collapse kcpDupAcked (by decide!) (by decide!) (by decide!)
    (by decide!) (by decide!) (by decide!)

/-- C26 (counterexample): with `fastresend = 4`, a flush that retransmits exactly one
segment fast, with no deadline passed, returns with `ssthresh = 2` and `cwnd = 6`, which
is `ssthresh + fastresend` and not `ssthresh + 1`. -/
theorem C26_counterexample :
    kcpDupAcked.updated = 1 ∧ kcpDupAcked.fastresend = 4 ∧
    kcpDupAcked.snd_buf.countP
      (flush_fast kcpDupAcked kcpDupAcked.current (flush_resent kcpDupAcked)) = 1 ∧
    kcpDupAcked.snd_buf.any (flush_timed_out kcpDupAcked.current) = false ∧
    (ikcp_flush kcpDupAcked).1.snd_buf.map (fun s => (s.sn, s.xmit)) = [(0, 2)] ∧
    (ikcp_flush kcpDupAcked).1.ssthresh = 2 ∧ (ikcp_flush kcpDupAcked).1.cwnd = 6 := by
  decide!

/-! ## The bytes a flush emits -/

theorem ikcp_output_flatten (outs : List (List Nat)) (p : List Nat) :
    (ikcp_output outs p).flatten = outs.flatten ++ p := by
  unfold ikcp_output
  split
  · rename_i h
    rw [List.length_eq_zero.mp h, List.append_nil]
  · rw [List.flatten_append, List.flatten_singleton]

theorem flush_bytes_room (kcp : IKCPCB) (need : Int) (st : FlushState) :
    flush_bytes (ikcp_flush_room kcp need st) = flush_bytes st := by
  unfold ikcp_flush_room flush_bytes
  split
  · show (ikcp_output st.outs st.ptr).flatten ++ [] = _
    rw [ikcp_output_flatten, List.append_nil]
  · rfl

theorem flush_bytes_put (R : FlushState) (p : List Nat) (s : Nat) :
    flush_bytes { R with ptr := R.ptr ++ p, state := s } = flush_bytes R ++ p := by
  unfold flush_bytes
  show R.outs.flatten ++ (R.ptr ++ p) = _
  rw [List.append_assoc]

theorem flush_bytes_emit (kcp : IKCPCB) (seg1 : IKCPSEG) (st : FlushState) :
    flush_bytes (flush_emit kcp seg1 st) = flush_bytes st ++ record_bytes (wire_record seg1) := by
  obtain ⟨e1, e2⟩ := flush_emit_buf kcp seg1 st
  have hb := flush_bytes_room kcp (i32 ((IKCP_OVERHEAD + seg1.len : Nat) : Int)) st
  unfold flush_bytes at hb ⊢
  rw [e1, e2, record_bytes_wire, ← hb]
  split
  · simp only [List.append_assoc]
  · rename_i h
    have h0 : seg1.len = 0 := by omega
    rw [h0, List.take_zero, List.append_nil]
    simp only [List.append_assoc]

theorem flush_bytes_decide (kcp : IKCPCB) (current resent rtomin : Nat) (segment : IKCPSEG)
    (st : FlushState) :
    flush_bytes (ikcp_flush_decide kcp current resent rtomin segment st).2.2 =
      flush_bytes st := by
  obtain ⟨h1, h2⟩ := ikcp_flush_decide_buf kcp current resent rtomin segment st
  unfold flush_bytes
  rw [h1, h2]

/-- The bytes the data loop adds: the records of the segments it decides to send, in
the order of `snd_buf`, each with the members the loop body has left. -/
theorem ikcp_flush_data_bytes (kcp : IKCPCB) (current resent rtomin wnd : Nat)
    (segs : List IKCPSEG) :
    ∀ st : FlushState,
      flush_bytes (ikcp_flush_data kcp current resent rtomin wnd segs st).2 =
        flush_bytes st ++
          ((segs.filter (flush_needsend kcp current resent)).map (fun s =>
            record_bytes (wire_record (flush_seg_after kcp current resent rtomin wnd s)))).flatten := by
  induction segs with
  | nil =>
    intro st
    rw [ikcp_flush_data, List.filter_nil, List.map_nil, List.flatten_nil, List.append_nil]
  | cons a t ih =>
    intro st
    obtain ⟨e1, e2, _⟩ := ikcp_flush_decide_effect kcp current resent rtomin a st
    have hn := (ikcp_flush_decide_needsend kcp current resent rtomin a st).1
    have hb := flush_bytes_decide kcp current resent rtomin a st
    rw [ikcp_flush_data_cons]
    by_cases hs : (ikcp_flush_decide kcp current resent rtomin a st).2.1 ≠ 0
    · rw [if_pos hs]
      simp only []
      rw [ih, flush_bytes_emit, hb, List.filter_cons_of_pos (hn.mp hs), List.map_cons,
        List.flatten_cons, List.append_assoc]
      unfold flush_seg_after
      rw [← e2, if_pos hs, ← e1]
    · rw [if_neg hs]
      simp only []
      have hf : ¬ (flush_needsend kcp current resent a = true) := fun h => hs (hn.mpr h)
      rw [ih, hb, List.filter_cons_of_neg hf]
/-! ## The transmission decision against the rule of the specification -/

theorem rto_timeout_spec (kcp : IKCPCB) (rto : Nat)
    (hr0 : 0 ≤ kcp.rx_rto) (hr1 : kcp.rx_rto < 2147483648) (hs : rto < 2147483648) :
    (if kcp.nodelay = 0 then (rto + _imax_ rto (u32 kcp.rx_rto)) % 4294967296
      else u32 ((rto : Int) +
        Int.tdiv (if kcp.nodelay < 2 then i32 rto else kcp.rx_rto) 2)) =
    (if kcp.nodelay = 0 then rto + max rto kcp.rx_rto.toNat
      else if kcp.nodelay = 1 then rto + rto / 2
      else rto + kcp.rx_rto.toNat / 2) % 4294967296 := by
  have hu : u32 kcp.rx_rto = kcp.rx_rto.toNat := u32_of_lt _ hr0 (by omega)
  by_cases h0 : kcp.nodelay = 0
  · rw [if_pos h0, if_pos h0, hu]
    unfold _imax_
    split
    · rw [max_eq_left (by omega)]
    · rw [max_eq_right (by omega)]
  · rw [if_neg h0, if_neg h0]
    by_cases h1 : kcp.nodelay = 1
    · have h2 : kcp.nodelay < 2 := by omega
      rw [if_pos h2, if_pos h1, i32_of_lt _ (by omega) (by omega),
        Int.tdiv_eq_ediv (by omega) (by decide)]
      unfold u32
      omega
    · have h2 : ¬ kcp.nodelay < 2 := by omega
      rw [if_neg h2, if_neg h1, Int.tdiv_eq_ediv hr0 (by decide)]
      unfold u32
      omega

theorem rtomin_spec (kcp : IKCPCB) (hr0 : 0 ≤ kcp.rx_rto) (hr1 : kcp.rx_rto < 2147483648) :
    (if kcp.nodelay = 0 then u32 (kcp.rx_rto / 8) else 0) =
      (if kcp.nodelay = 0 then kcp.rx_rto.toNat / 8 else 0) := by
  split
  · unfold u32
    omega
  · rfl

theorem fast_test_spec (kcp : IKCPCB) (segment : IKCPSEG)
    (hx : segment.xmit < 2147483648) (hfr : kcp.fastresend < 2147483648)
    (hfa : 0 < kcp.fastresend ∨ segment.fastack < 4294967295) :
    (segment.fastack ≥ flush_resent kcp ∧
      (i32 segment.xmit ≤ kcp.fastlimit ∨ kcp.fastlimit ≤ 0)) ↔
    (0 < kcp.fastresend ∧ (segment.fastack : Int) ≥ kcp.fastresend ∧
      ((segment.xmit : Int) ≤ kcp.fastlimit ∨ kcp.fastlimit ≤ 0)) := by
  have hi : i32 (segment.xmit : Int) = segment.xmit := i32_of_lt _ (by omega) (by omega)
  rw [hi]
  unfold flush_resent
  by_cases hp : kcp.fastresend > 0
  · rw [if_pos hp, u32_of_lt _ (by omega) (by omega)]
    constructor
    · rintro ⟨a, b⟩
      exact ⟨hp, by omega, b⟩
    · rintro ⟨_, a, b⟩
      exact ⟨by omega, b⟩
  · rw [if_neg hp]
    constructor
    · rintro ⟨a, _⟩
      rcases hfa with h | h
      · exact absurd h hp
      · omega
    · rintro ⟨a, _⟩
      exact absurd a hp

/-- One pass of the body of the data loop against the rule of the specification. -/
theorem flush_seg_after_spec (kcp : IKCPCB) (wnd : Nat) (segment : IKCPSEG)
    (hr0 : 0 ≤ kcp.rx_rto) (hr1 : kcp.rx_rto < 2147483648)
    (hfr : kcp.fastresend < 2147483648)
    (hs : segment.rto < 2147483648) (hx : segment.xmit < 2147483648)
    (hfa : 0 < kcp.fastresend ∨ segment.fastack < 4294967295) :
    flush_seg_after kcp kcp.current (flush_resent kcp)
        (if kcp.nodelay = 0 then u32 (kcp.rx_rto / 8) else 0) wnd segment =
      (transmit_spec kcp wnd segment).1 ∧
    flush_needsend kcp kcp.current (flush_resent kcp) segment =
      (transmit_spec kcp wnd segment).2 := by
  have hu : u32 kcp.rx_rto = kcp.rx_rto.toNat := u32_of_lt _ hr0 (by omega)
  have hrt := rto_timeout_spec kcp segment.rto hr0 hr1 hs
  have hmin := rtomin_spec kcp hr0 hr1
  have hft := fast_test_spec kcp segment hx hfr hfa
  have one : (1 : Int) ≠ 0 := by decide
  have zero : ¬ ((0 : Int) ≠ 0) := by decide
  rw [hu] at hrt
  unfold flush_seg_after ikcp_flush_decide transmit_spec flush_needsend
  rw [hmin, hu]
  by_cases h1 : segment.xmit = 0
  · simp only [if_pos h1, if_pos one]
    rw [h1]
    refine ⟨?_, by simp⟩
    rfl
  · simp only [if_neg h1]
    by_cases h2 : _itimediff kcp.current segment.resendts ≥ 0
    · simp only [if_pos h2, if_pos one]
      rw [hrt]
      refine ⟨?_, by simp [h1, h2]⟩
      rfl
    · simp only [if_neg h2]
      by_cases h3 : segment.fastack ≥ flush_resent kcp ∧
          (i32 segment.xmit ≤ kcp.fastlimit ∨ kcp.fastlimit ≤ 0)
      · have h3' := hft.mp h3
        simp only [if_pos h3.1, if_pos h3.2, if_pos h3', if_pos one]
        refine ⟨?_, ?_⟩
        · trivial
        · rcases h3.2 with h | h
          · simp [h1, h2, h3.1, h]
          · simp [h1, h2, h3.1, h]
      · have h3' : ¬ (0 < kcp.fastresend ∧ (segment.fastack : Int) ≥ kcp.fastresend ∧
            ((segment.xmit : Int) ≤ kcp.fastlimit ∨ kcp.fastlimit ≤ 0)) :=
          fun h => h3 (hft.mpr h)
        simp only [if_neg h3']
        by_cases h4 : segment.fastack ≥ flush_resent kcp
        · have h5 : ¬ (i32 segment.xmit ≤ kcp.fastlimit ∨ kcp.fastlimit ≤ 0) :=
            fun h => h3 ⟨h4, h⟩
          simp only [if_pos h4, if_neg h5, if_neg zero]
          refine ⟨?_, ?_⟩
          · trivial
          · have h6 : ¬ i32 segment.xmit ≤ kcp.fastlimit := fun h => h5 (Or.inl h)
            have h7 : ¬ kcp.fastlimit ≤ 0 := fun h => h5 (Or.inr h)
            simp [h1, h2, h6, h7]
        · simp only [if_neg h4, if_neg zero]
          refine ⟨?_, by simp [h1, h2, h4]⟩
          trivial
theorem ikcp_flush_promote_new (cwnd wnd current : Nat) (l : List IKCPSEG) :
    ∀ kcp : IKCPCB, ∃ X : List IKCPSEG,
      (ikcp_flush_promote cwnd wnd current kcp l).snd_buf = kcp.snd_buf ++ X ∧
      (∀ s ∈ X, s.xmit = 0 ∧ s.fastack = 0 ∧ s.rto = u32 kcp.rx_rto) ∧
      (ikcp_flush_promote cwnd wnd current kcp l).rx_rto = kcp.rx_rto ∧
      (ikcp_flush_promote cwnd wnd current kcp l).current = kcp.current ∧
      (ikcp_flush_promote cwnd wnd current kcp l).nodelay = kcp.nodelay ∧
      (ikcp_flush_promote cwnd wnd current kcp l).rcv_nxt = kcp.rcv_nxt ∧
      (ikcp_flush_promote cwnd wnd current kcp l).xmit = kcp.xmit := by
  induction l with
  | nil =>
    intro kcp
    exact ⟨[], (List.append_nil _).symm, fun s hs => absurd hs (List.not_mem_nil s),
      rfl, rfl, rfl, rfl, rfl⟩
  | cons a t ih =>
    intro kcp
    rw [ikcp_flush_promote]
    split
    · obtain ⟨X, hX, hx, g1, g2, g3, g4, g5⟩ := ih
        { kcp with
          snd_queue := t
          snd_buf := kcp.snd_buf ++ [promoted_seg kcp.conv kcp.rcv_nxt (u32 kcp.rx_rto) wnd
            current kcp.snd_nxt a]
          nsnd_que := u32 ((kcp.nsnd_que : Int) - 1)
          nsnd_buf := (kcp.nsnd_buf + 1) % 4294967296
          snd_nxt := (kcp.snd_nxt + 1) % 4294967296 }
      refine ⟨promoted_seg kcp.conv kcp.rcv_nxt (u32 kcp.rx_rto) wnd current kcp.snd_nxt a ::
        X, ?_, ?_, g1, g2, g3, g4, g5⟩
      · refine hX.trans ?_
        show (kcp.snd_buf ++ [_]) ++ X = _
        rw [List.append_assoc]
        rfl
      · intro s hs
        rcases List.mem_cons.mp hs with h | h
        · rw [h]
          exact ⟨rfl, rfl, rfl⟩
        · exact hx s h
    · exact ⟨[], (List.append_nil _).symm, fun s hs => absurd hs (List.not_mem_nil s),
        rfl, rfl, rfl, rfl, rfl⟩

theorem ikcp_flush_probe_cfg (kcp : IKCPCB) :
    (ikcp_flush_probe kcp).rx_rto = kcp.rx_rto ∧
    (ikcp_flush_probe kcp).current = kcp.current ∧
    (ikcp_flush_probe kcp).nodelay = kcp.nodelay ∧
    (ikcp_flush_probe kcp).rcv_nxt = kcp.rcv_nxt ∧
    (ikcp_flush_probe kcp).xmit = kcp.xmit := by
  unfold ikcp_flush_probe
  split
  · split
    · exact ⟨rfl, rfl, rfl, rfl, rfl⟩
    · split <;> exact ⟨rfl, rfl, rfl, rfl, rfl⟩
  · exact ⟨rfl, rfl, rfl, rfl, rfl⟩

/-- The control block after the promotion loop: `snd_buf` with the promoted segments
appended, each with `xmit = 0`, `fastack = 0` and `rto = rx_rto`; the members the data
loop reads are those of the control block before the flush. -/
theorem flush_promoted_new (kcp : IKCPCB) :
    ∃ X : List IKCPSEG, (flush_promoted kcp).snd_buf = kcp.snd_buf ++ X ∧
      (∀ s ∈ X, s.xmit = 0 ∧ s.fastack = 0 ∧ s.rto = u32 kcp.rx_rto) ∧
      (flush_promoted kcp).rx_rto = kcp.rx_rto ∧
      (flush_promoted kcp).current = kcp.current ∧
      (flush_promoted kcp).nodelay = kcp.nodelay ∧
      (flush_promoted kcp).rcv_nxt = kcp.rcv_nxt ∧
      (flush_promoted kcp).xmit = kcp.xmit := by
  have g0 : (ikcp_flush_probe { kcp with ackcount := 0 }).snd_buf = kcp.snd_buf :=
    congrArg SndPart.snd_buf (ikcp_flush_probe_snd { kcp with ackcount := 0 })
  obtain ⟨c1, c2, c3, c4, c5⟩ := ikcp_flush_probe_cfg { kcp with ackcount := 0 }
  obtain ⟨X, hX, hx, g1, g2, g3, g4, g5⟩ := ikcp_flush_promote_new
    (ikcp_flush_window { ikcp_flush_probe { kcp with ackcount := 0 } with probe := 0 })
    (u32 (ikcp_wnd_unused kcp)) kcp.current
    (ikcp_flush_probe { kcp with ackcount := 0 }).snd_queue
    { ikcp_flush_probe { kcp with ackcount := 0 } with probe := 0 }
  have hx' : ∀ s ∈ X, s.xmit = 0 ∧ s.fastack = 0 ∧
      s.rto = u32 (ikcp_flush_probe { kcp with ackcount := 0 }).rx_rto := hx
  rw [c1] at hx'
  refine ⟨X, ?_, hx', ?_, ?_, ?_, ?_, ?_⟩
  · unfold flush_promoted
    rw [hX]
    show (ikcp_flush_probe { kcp with ackcount := 0 }).snd_buf ++ X = _
    rw [g0]
  · unfold flush_promoted
    rw [g1]
    exact c1
  · unfold flush_promoted
    rw [g2]
    exact c2
  · unfold flush_promoted
    rw [g3]
    exact c3
  · unfold flush_promoted
    rw [g4]
    exact c4
  · unfold flush_promoted
    rw [g5]
    exact c5

theorem transmit_spec_congr (a b : IKCPCB) (wnd : Nat) (segment : IKCPSEG)
    (h1 : a.rx_rto = b.rx_rto) (h2 : a.current = b.current) (h3 : a.nodelay = b.nodelay)
    (h4 : a.rcv_nxt = b.rcv_nxt) (h5 : a.fastresend = b.fastresend)
    (h6 : a.fastlimit = b.fastlimit) :
    transmit_spec a wnd segment = transmit_spec b wnd segment := by
  unfold transmit_spec
  rw [h1, h2, h3, h4, h5, h6]

theorem ikcp_flush_data_lost_count (kcp : IKCPCB) (current resent rtomin wnd : Nat)
    (segs : List IKCPSEG) :
    ∀ st : FlushState, st.xmit < 4294967296 →
      (ikcp_flush_data kcp current resent rtomin wnd segs st).2.xmit =
        (st.xmit + segs.countP (flush_timed_out current)) % 4294967296 := by
  induction segs with
  | nil =>
    intro st hx
    rw [ikcp_flush_data, List.countP_nil]
    show st.xmit = (st.xmit + 0) % 4294967296
    omega
  | cons a t ih =>
    intro st hx
    obtain ⟨_, _, _, _, e5, _⟩ := ikcp_flush_decide_effect kcp current resent rtomin a st
    obtain ⟨_, _, c3⟩ := flush_emit_counters kcp
      { (ikcp_flush_decide kcp current resent rtomin a st).1 with
        ts := current, wnd := wnd, una := kcp.rcv_nxt }
      (ikcp_flush_decide kcp current resent rtomin a st).2.2
    have hstep : ∀ X : FlushState,
        X.xmit = (ikcp_flush_decide kcp current resent rtomin a st).2.2.xmit →
        (ikcp_flush_data kcp current resent rtomin wnd t X).2.xmit =
          (st.xmit + (a :: t).countP (flush_timed_out current)) % 4294967296 := by
      intro X hX
      rw [e5] at hX
      have hX1 : X.xmit < 4294967296 := by
        rw [hX]
        split <;> omega
      rw [ih X hX1, hX, List.countP_cons]
      by_cases ha : flush_timed_out current a = true
      · rw [if_pos ha, if_pos ha]
        omega
      · rw [if_neg ha, if_neg ha]
        omega
    rw [ikcp_flush_data_cons]
    split
    · exact hstep _ c3
    · exact hstep _ rfl
theorem FlushOK_flush_data (kcp : IKCPCB) (h : SegInv (snd_part kcp)) (resent rtomin : Nat) :
    FlushOK kcp.conv
      (ikcp_flush_data (flush_promoted kcp) kcp.current resent rtomin
        (u32 (ikcp_wnd_unused kcp)) (flush_promoted kcp).snd_buf (flush_control kcp)).2 := by
  have hm : kcp.mtu < 2147483648 := h.2.2.1
  have hK : (ikcp_flush_probe { kcp with ackcount := 0 }).mtu < 2147483648 := by
    have e : (ikcp_flush_probe { kcp with ackcount := 0 }).mtu = kcp.mtu :=
      congrArg SndPart.mtu (ikcp_flush_probe_snd { kcp with ackcount := 0 })
    rw [e]
    exact hm
  obtain ⟨_, _, p3, _, _, p6⟩ := SegInv_promoted kcp h
  have p3' : (flush_promoted kcp).mtu < 2147483648 := p3
  have p6' : ∀ s ∈ (flush_promoted kcp).snd_buf, s.len = s.data.length ∧
      s.len + 24 < 2147483648 ∧ s.conv = (flush_promoted kcp).conv ∧
      s.cmd = IKCP_CMD_PUSH := p6
  rw [flush_promoted_conv] at p6'
  have h0 : FlushOK kcp.conv
      { ptr := [], outs := [], change := 0, lost := 0, xmit := kcp.xmit,
        state := kcp.state } :=
    ⟨⟨[], fun r hr => absurd hr (List.not_mem_nil r), rfl⟩, Nat.zero_lt_succ _,
      fun d hd => absurd hd (List.not_mem_nil d)⟩
  obtain ⟨a1, a2, a3, a4⟩ := FlushOK_acks kcp kcp.conv (i32 kcp.ackcount) hm
    (i32 kcp.ackcount).toNat 0 (ikcp_flush_seg kcp) _ rfl rfl rfl rfl h0
  have hc := FlushOK_cmds (ikcp_flush_probe { kcp with ackcount := 0 }) kcp.conv _ hK
    a2 a3 a4 a1
  exact FlushOK_data (flush_promoted kcp) kcp.conv _ _ _ _ p3' _ _ p6' hc

theorem flush_outs_flatten (D : FlushState) (h : D.ptr.length < 2147483648) :
    (if i32 (D.ptr.length : Int) > 0 then ikcp_output D.outs D.ptr else D.outs).flatten =
      flush_bytes D := by
  have hi : i32 (D.ptr.length : Int) = D.ptr.length := i32_of_lt _ (by omega) (by omega)
  rw [hi]
  unfold flush_bytes
  split
  · exact ikcp_output_flatten _ _
  · rename_i hn
    have h0 : D.ptr.length = 0 := by omega
    rw [List.length_eq_zero.mp h0, List.append_nil]

/-! ## The counters of the send side -/

theorem CountInv_of_part (k1 k2 : IKCPCB) (h : cnt_part k2 = cnt_part k1)
    (h1 : CountInv k1) : CountInv k2 := by
  unfold cnt_part at h
  simp only [Prod.mk.injEq] at h
  obtain ⟨a, b, c, d⟩ := h
  unfold CountInv
  rw [a, b, c, d]
  exact h1

theorem ikcp_update_ack_cnt (kcp : IKCPCB) (rtt : Int) :
    cnt_part (ikcp_update_ack kcp rtt) = cnt_part kcp := by
  unfold ikcp_update_ack; simp only []; split <;> rfl

theorem ikcp_ack_push_cnt (kcp : IKCPCB) (sn ts : Nat) :
    cnt_part (ikcp_ack_push kcp sn ts) = cnt_part kcp := by
  unfold ikcp_ack_push; simp only []; split <;> rfl

theorem ikcp_move_rcv_buf_cnt (l : List IKCPSEG) :
    ∀ kcp : IKCPCB, cnt_part (ikcp_move_rcv_buf kcp l) = cnt_part kcp := by
  induction l with
  | nil => intro kcp; rfl
  | cons s t ih =>
    intro kcp
    rw [ikcp_move_rcv_buf]
    split
    · rw [ih]; rfl
    · rfl

theorem ikcp_parse_data_cnt (kcp : IKCPCB) (seg : IKCPSEG) :
    cnt_part (ikcp_parse_data kcp seg) = cnt_part kcp := by
  unfold ikcp_parse_data
  simp only []
  split
  · rfl
  · rw [ikcp_move_rcv_buf_cnt]
    split <;> rfl

theorem ikcp_input_push_cnt (kcp : IKCPCB) (conv cmd frg wnd ts sn una len : Nat)
    (data : List Nat) :
    cnt_part (ikcp_input_push kcp conv cmd frg wnd ts sn una len data) = cnt_part kcp := by
  unfold ikcp_input_push
  simp only []
  split
  · split
    · rw [ikcp_parse_data_cnt, ikcp_ack_push_cnt]
    · rw [ikcp_ack_push_cnt]
  · rfl

theorem u32_pred_length (n : Nat) :
    u32 ((((n + 1) % 4294967296 : Nat) : Int) - 1) = n % 4294967296 := by
  unfold u32
  omega

theorem CountInv_una_loop (una : Nat) (l : List IKCPSEG) :
    ∀ kcp : IKCPCB, kcp.nsnd_que = kcp.snd_queue.length % 4294967296 →
      kcp.nsnd_buf = l.length % 4294967296 →
      CountInv (ikcp_parse_una_loop una kcp l) := by
  induction l with
  | nil => intro kcp h1 h2; exact ⟨h1, h2⟩
  | cons s t ih =>
    intro kcp h1 h2
    rw [ikcp_parse_una_loop]
    split
    · apply ih
      · exact h1
      · show u32 ((kcp.nsnd_buf : Int) - 1) = t.length % 4294967296
        rw [h2, List.length_cons]
        exact u32_pred_length _
    · exact ⟨h1, h2⟩

theorem CountInv_shrink (kcp : IKCPCB) (h : CountInv kcp) : CountInv (ikcp_shrink_buf kcp) := by
  have key : ∀ l : List IKCPSEG, cnt_part (match l with
      | seg :: _ => { kcp with snd_una := seg.sn }
      | [] => { kcp with snd_una := kcp.snd_nxt }) = cnt_part kcp := by
    intro l
    cases l with
    | nil => rfl
    | cons a t => rfl
  exact CountInv_of_part _ _ (key kcp.snd_buf) h

theorem ikcp_parse_ack_loop_length (sn : Nat) (l : List IKCPSEG) :
    (ikcp_parse_ack_loop sn l).1.length + (ikcp_parse_ack_loop sn l).2 = l.length ∧
    (ikcp_parse_ack_loop sn l).2 ≤ 1 := by
  induction l with
  | nil => exact ⟨rfl, Nat.zero_le _⟩
  | cons s t ih =>
    rw [ikcp_parse_ack_loop]
    split
    · exact ⟨rfl, Nat.le_refl _⟩
    · split
      · exact ⟨rfl, Nat.zero_le _⟩
      · refine ⟨?_, ih.2⟩
        show (ikcp_parse_ack_loop sn t).1.length + 1 + (ikcp_parse_ack_loop sn t).2 =
          t.length + 1
        omega

theorem u32_sub_length (a b n : Nat) (h : a + b = n) :
    u32 (((n % 4294967296 : Nat) : Int) - (b : Nat)) = a % 4294967296 := by
  unfold u32
  omega

theorem CountInv_parse_ack (kcp : IKCPCB) (sn : Nat) (h : CountInv kcp) :
    CountInv (ikcp_parse_ack kcp sn) := by
  unfold ikcp_parse_ack
  split
  · exact h
  · refine ⟨h.1, ?_⟩
    show u32 ((kcp.nsnd_buf : Int) - (ikcp_parse_ack_loop sn kcp.snd_buf).2) =
      (ikcp_parse_ack_loop sn kcp.snd_buf).1.length % 4294967296
    rw [h.2]
    exact u32_sub_length _ _ _ (ikcp_parse_ack_loop_length sn kcp.snd_buf).1

theorem CountInv_input_una (kcp : IKCPCB) (wnd una : Nat) (h : CountInv kcp) :
    CountInv (ikcp_shrink_buf (ikcp_parse_una { kcp with rmt_wnd := wnd } una)) :=
  CountInv_shrink _ (CountInv_una_loop una kcp.snd_buf { kcp with rmt_wnd := wnd } h.1 h.2)

theorem CountInv_input_ack (kcp : IKCPCB) (ts sn : Nat) (h : CountInv kcp) :
    CountInv (ikcp_input_ack kcp ts sn) := by
  unfold ikcp_input_ack
  simp only []
  apply CountInv_shrink
  apply CountInv_parse_ack
  split
  · exact CountInv_of_part _ _ (ikcp_update_ack_cnt _ _) h
  · exact h

theorem CountInv_input_record (kcp : IKCPCB) (hdr : IKCPSEG) (payload : List Nat)
    (flag : Int) (a b : Nat) (h : CountInv kcp) :
    CountInv (ikcp_input_record kcp hdr payload flag a b).2.1 := by
  have h1 := CountInv_input_una kcp hdr.wnd hdr.una h
  unfold ikcp_input_record
  simp only []
  split
  · have h2 := CountInv_input_ack _ hdr.ts hdr.sn h1
    split
    · exact h2
    · split <;> exact h2
  · split
    · exact CountInv_of_part _ _ (ikcp_input_push_cnt _ _ _ _ _ _ _ _ _ _) h1
    · split
      · exact h1
      · split <;> exact h1

theorem CountInv_input_loop (fuel : Nat) :
    ∀ (kcp : IKCPCB) (data : List Nat) (flag : Int) (a b : Nat), CountInv kcp →
      CountInv (ikcp_input_loop fuel kcp data flag a b).2.1 := by
  induction fuel with
  | zero => intro kcp data flag a b h; exact h
  | succ n ih =>
    intro kcp data flag a b h
    have hr := CountInv_input_record kcp (ikcp_decode_seg data).1 (ikcp_decode_seg data).2
      flag a b h
    rw [ikcp_input_loop]
    split
    · exact h
    · split
      · exact h
      · split
        · exact h
        · split
          · exact h
          · split
            · exact hr
            · exact ih _ _ _ _ _ hr

theorem ikcp_parse_fastack_loop_length (sn : Nat) (l : List IKCPSEG) :
    (ikcp_parse_fastack_loop sn l).length = l.length := by
  induction l with
  | nil => rfl
  | cons s t ih =>
    rw [ikcp_parse_fastack_loop]
    split
    · rfl
    · split
      · rw [List.length_cons, List.length_cons, ih]
      · rw [List.length_cons, List.length_cons, ih]

theorem CountInv_fastack (kcp : IKCPCB) (sn ts : Nat) (h : CountInv kcp) :
    CountInv (ikcp_parse_fastack kcp sn ts) := by
  unfold ikcp_parse_fastack
  split
  · exact h
  · refine ⟨h.1, ?_⟩
    show kcp.nsnd_buf = (ikcp_parse_fastack_loop sn kcp.snd_buf).length % 4294967296
    rw [ikcp_parse_fastack_loop_length]
    exact h.2

theorem ikcp_input_cwnd_cnt (kcp : IKCPCB) (prev_una : Nat) :
    cnt_part (ikcp_input_cwnd kcp prev_una) = cnt_part kcp := by
  rw [ikcp_input_cwnd_fields]
  rfl

theorem CountInv_input (kcp : IKCPCB) (data : Option (List Nat)) (h : CountInv kcp) :
    CountInv (ikcp_input kcp data).2 := by
  cases data with
  | none => exact h
  | some d =>
    have hl := CountInv_input_loop d.length kcp d 0 0 0 h
    have hf : CountInv (ikcp_input_finish (ikcp_input_loop d.length kcp d 0 0 0)
        kcp.snd_una).2 := by
      unfold ikcp_input_finish
      split
      · exact hl
      · apply CountInv_of_part _ _ (ikcp_input_cwnd_cnt _ _)
        split
        · exact CountInv_fastack _ _ _ hl
        · exact hl
    rw [ikcp_input_some]
    exact ite_snd_cases _ _ CountInv h hf

theorem CountInv_send_loop (count : Int) (fuel : Nat) :
    ∀ (i : Int) (kcp : IKCPCB) (buffer : List Nat) (len : Int), CountInv kcp →
      CountInv (ikcp_send_loop count fuel i kcp buffer len) := by
  induction fuel with
  | zero => intro i kcp buffer len h; exact h
  | succ n ih =>
    intro i kcp buffer len h
    rw [ikcp_send_loop]
    split
    · apply ih
      refine ⟨?_, h.2⟩
      simp only [List.length_append, List.length_singleton]
      rw [h.1]
      omega
    · exact h

theorem CountInv_send_stream (kcp : IKCPCB) (buffer : List Nat) (len : Int)
    (h : CountInv kcp) : CountInv (ikcp_send_stream kcp buffer len).1 := by
  unfold ikcp_send_stream
  split
  · exact h
  · rename_i old ho
    split
    · refine ⟨?_, h.2⟩
      have hm := List.mem_of_getLast?_eq_some ho
      have hne : kcp.snd_queue ≠ [] := List.ne_nil_of_mem hm
      have hlen : 0 < kcp.snd_queue.length := List.length_pos.mpr hne
      simp only [List.length_append, List.length_singleton, List.length_dropLast]
      rw [h.1]
      congr 1
      omega
    · exact h

theorem CountInv_send (kcp : IKCPCB) (buffer : List Nat) (len : Int) (h : CountInv kcp) :
    CountInv (ikcp_send kcp buffer len).2 := by
  have hs : CountInv (if kcp.stream ≠ 0 then ikcp_send_stream kcp buffer len
      else (kcp, buffer, len)).1 := by
    split
    · exact CountInv_send_stream kcp buffer len h
    · exact h
  rcases ikcp_send_cases kcp buffer len with e | ⟨_, e⟩ | ⟨_, count, fuel, e⟩
  · rw [e]; exact h
  · rw [e]; exact hs
  · rw [e]; exact CountInv_send_loop count fuel 0 _ _ _ hs

theorem ikcp_recv_finish_cnt (kcp : IKCPCB) (recover : Int) :
    cnt_part (ikcp_recv_finish kcp recover) = cnt_part kcp := by
  have hm := ikcp_move_rcv_buf_cnt kcp.rcv_buf kcp
  unfold ikcp_recv_finish
  simp only []
  split
  · exact hm
  · exact hm

theorem ikcp_recv_cnt (kcp : IKCPCB) (buffer : Bool) (len : Int) :
    cnt_part (ikcp_recv kcp buffer len).2.2 = cnt_part kcp := by
  unfold ikcp_recv
  simp only []
  refine ite_trd_cases _ _ (fun k => cnt_part k = cnt_part kcp) rfl ?_
  refine ite_trd_cases _ _ (fun k => cnt_part k = cnt_part kcp) rfl ?_
  refine ite_trd_cases _ _ (fun k => cnt_part k = cnt_part kcp) rfl ?_
  exact ikcp_recv_finish_cnt _ _

theorem ikcp_flush_probe_cnt (kcp : IKCPCB) :
    cnt_part (ikcp_flush_probe kcp) = cnt_part kcp := by
  unfold ikcp_flush_probe cnt_part
  split
  · split
    · rfl
    · split <;> rfl
  · rfl

theorem CountInv_promote (cwnd wnd current : Nat) (l : List IKCPSEG) :
    ∀ kcp : IKCPCB, kcp.nsnd_que = l.length % 4294967296 →
      kcp.nsnd_buf = kcp.snd_buf.length % 4294967296 →
      CountInv (ikcp_flush_promote cwnd wnd current kcp l) := by
  induction l with
  | nil => intro kcp h1 h2; exact ⟨h1, h2⟩
  | cons s t ih =>
    intro kcp h1 h2
    rw [ikcp_flush_promote]
    split
    · apply ih
      · show u32 ((kcp.nsnd_que : Int) - 1) = t.length % 4294967296
        rw [h1, List.length_cons]
        exact u32_pred_length _
      · simp only [List.length_append, List.length_singleton]
        rw [h2]
        omega
    · exact ⟨h1, h2⟩

theorem CountInv_promoted (kcp : IKCPCB) (h : CountInv kcp) : CountInv (flush_promoted kcp) := by
  have hp := ikcp_flush_probe_cnt { kcp with ackcount := 0 }
  unfold cnt_part at hp
  simp only [Prod.mk.injEq] at hp
  obtain ⟨a, b, c, d⟩ := hp
  unfold flush_promoted
  apply CountInv_promote
  · show (ikcp_flush_probe { kcp with ackcount := 0 }).nsnd_que =
      (ikcp_flush_probe { kcp with ackcount := 0 }).snd_queue.length % 4294967296
    rw [a, c]; exact h.1
  · show (ikcp_flush_probe { kcp with ackcount := 0 }).nsnd_buf =
      (ikcp_flush_probe { kcp with ackcount := 0 }).snd_buf.length % 4294967296
    rw [b, d]; exact h.2

theorem CountInv_flush_send (kcp : IKCPCB) (current cwnd wnd : Nat) (st : FlushState)
    (h : CountInv kcp) : CountInv (ikcp_flush_send kcp current cwnd wnd st).1 := by
  rw [ikcp_flush_send_eq, ikcp_flush_cwnd_fields]
  refine ⟨h.1, ?_⟩
  show kcp.nsnd_buf = (ikcp_flush_data kcp current (flush_resent kcp)
    (if kcp.nodelay = 0 then u32 (kcp.rx_rto / 8) else 0) wnd kcp.snd_buf st).1.length %
      4294967296
  rw [ikcp_flush_data_map, List.length_map]
  exact h.2

theorem CountInv_flush (kcp : IKCPCB) (h : CountInv kcp) : CountInv (ikcp_flush kcp).1 := by
  by_cases hu : kcp.updated = 0
  · unfold ikcp_flush
    rw [if_pos hu]
    exact h
  · rw [ikcp_flush_eq kcp hu]
    exact CountInv_flush_send _ _ _ _ _ (CountInv_promoted kcp h)

theorem update_clock_cnt (kcp : IKCPCB) (current : Nat) :
    cnt_part (update_clock kcp current).1 = cnt_part kcp := by
  rw [update_clock_fields]
  rfl

theorem CountInv_update (kcp : IKCPCB) (current : Nat) (h : CountInv kcp) :
    CountInv (ikcp_update kcp current).1 := by
  have hc := CountInv_of_part _ _ (update_clock_cnt kcp current) h
  rw [ikcp_update_eq]
  split
  · exact CountInv_flush _ hc
  · exact hc

theorem ikcp_setmtu_cnt (kcp : IKCPCB) (mtu : Int) :
    cnt_part (ikcp_setmtu kcp mtu).2 = cnt_part kcp := by
  unfold ikcp_setmtu
  split <;> rfl

/-- On every reachable control block `nsnd_que` and `nsnd_buf` count `snd_queue` and
`snd_buf`. -/
theorem Reachable_CountInv (kcp : IKCPCB) (h : Reachable kcp) : CountInv kcp := by
  induction h with
  | create conv hc => exact ⟨rfl, rfl⟩
  | send kcp buffer len _ _ _ ih => exact CountInv_send kcp buffer len ih
  | recv kcp buffer len _ ih => exact CountInv_of_part _ _ (ikcp_recv_cnt kcp buffer len) ih
  | input kcp data _ ih => exact CountInv_input kcp data ih
  | update kcp current _ _ ih => exact CountInv_update kcp current ih
  | flush kcp _ ih => exact CountInv_flush kcp ih
  | setmtu kcp mtu _ _ ih => exact CountInv_of_part _ _ (ikcp_setmtu_cnt kcp mtu) ih
  | interval kcp interval _ ih => exact ih
  | nodelay kcp nodelay interval resend nc _ _ _ ih =>
    rw [ikcp_nodelay_fields]; exact ih
  | wndsize kcp sndwnd rcvwnd _ _ _ ih =>
    rw [ikcp_wndsize_fields]; exact ih
  | stream kcp v _ ih => exact ih
  | fastlimit kcp v _ ih => exact ih
/-! ## The promotion loop of a flush -/

theorem promoted_list_getElem (conv una rto wnd current : Nat) (l : List IKCPSEG) :
    ∀ (sn i : Nat), sn < 4294967296 →
      (promoted_list conv una rto wnd current sn l)[i]? =
        (l[i]?).map (promoted_seg conv una rto wnd current ((sn + i) % 4294967296)) := by
  induction l with
  | nil => intro sn i _; rfl
  | cons s t ih =>
    intro sn i hsn
    rw [promoted_list]
    cases i with
    | zero =>
      have e : (sn + 0) % 4294967296 = sn := by omega
      rw [e, List.getElem?_cons_zero, List.getElem?_cons_zero]
      rfl
    | succ j =>
      have e : ((sn + 1) % 4294967296 + j) % 4294967296 = (sn + (j + 1)) % 4294967296 := by
        omega
      rw [List.getElem?_cons_succ, List.getElem?_cons_succ,
        ih _ j (Nat.mod_lt _ (by decide)), e]

theorem promoted_list_length (conv una rto wnd current : Nat) (l : List IKCPSEG) :
    ∀ sn : Nat, (promoted_list conv una rto wnd current sn l).length = l.length := by
  induction l with
  | nil => intro sn; rfl
  | cons s t ih =>
    intro sn
    rw [promoted_list, List.length_cons, List.length_cons, ih]

theorem ikcp_flush_decide_load (kcp : IKCPCB) (current resent rtomin : Nat)
    (s : IKCPSEG) (st : FlushState) :
    (ikcp_flush_decide kcp current resent rtomin s st).1.frg = s.frg ∧
    (s.xmit = 0 →
      (ikcp_flush_decide kcp current resent rtomin s st).1.fastack = s.fastack ∧
      (ikcp_flush_decide kcp current resent rtomin s st).1.xmit =
        (s.xmit + 1) % 4294967296) := by
  unfold ikcp_flush_decide
  split
  · exact ⟨rfl, fun _ => ⟨rfl, rfl⟩⟩
  · rename_i h1
    split
    · exact ⟨rfl, fun h => absurd h h1⟩
    · split
      · split
        · exact ⟨rfl, fun h => absurd h h1⟩
        · exact ⟨rfl, fun h => absurd h h1⟩
      · exact ⟨rfl, fun h => absurd h h1⟩

/-- The data loop of a flush keeps `sn`, `cmd`, `frg`, `len` and the payload of a
segment, and leaves a segment it transmits for the first time with `xmit = 1` and its
`fastack`. -/
theorem flush_seg_after_load (kcp : IKCPCB) (current resent rtomin wnd : Nat)
    (s : IKCPSEG) :
    (flush_seg_after kcp current resent rtomin wnd s).sn = s.sn ∧
    (flush_seg_after kcp current resent rtomin wnd s).cmd = s.cmd ∧
    (flush_seg_after kcp current resent rtomin wnd s).frg = s.frg ∧
    (flush_seg_after kcp current resent rtomin wnd s).len = s.len ∧
    (flush_seg_after kcp current resent rtomin wnd s).data = s.data ∧
    (s.xmit = 0 → (flush_seg_after kcp current resent rtomin wnd s).fastack = s.fastack ∧
      (flush_seg_after kcp current resent rtomin wnd s).xmit = 1) := by
  have hk := ikcp_flush_decide_key kcp current resent rtomin s flush_idle
  obtain ⟨hf, hx⟩ := ikcp_flush_decide_load kcp current resent rtomin s flush_idle
  unfold seg_key at hk
  simp only [Prod.mk.injEq] at hk
  obtain ⟨k1, _, k3, k4, k5⟩ := hk
  have hx1 : s.xmit = 0 →
      (ikcp_flush_decide kcp current resent rtomin s flush_idle).1.fastack = s.fastack ∧
      (ikcp_flush_decide kcp current resent rtomin s flush_idle).1.xmit = 1 := by
    intro h0
    obtain ⟨x1, x2⟩ := hx h0
    refine ⟨x1, ?_⟩
    rw [x2]
    omega
  unfold flush_seg_after
  generalize ikcp_flush_decide kcp current resent rtomin s flush_idle = D
    at k1 k3 k4 k5 hf hx1 ⊢
  split
  · exact ⟨k1, k3, hf, k4, k5, hx1⟩
  · exact ⟨k1, k3, hf, k4, k5, hx1⟩

/-- The lists and counters of the send side after a flush that runs: `snd_buf` is the
one the promotion loop left, passed through the data loop; the rest is as the promotion
loop left it. -/
theorem ikcp_flush_lists (kcp : IKCPCB) (hu : kcp.updated ≠ 0) :
    (ikcp_flush kcp).1.snd_buf =
      (flush_promoted kcp).snd_buf.map
        (flush_seg_after (flush_promoted kcp) kcp.current (flush_resent (flush_promoted kcp))
          (if (flush_promoted kcp).nodelay = 0 then u32 ((flush_promoted kcp).rx_rto / 8)
            else 0) (u32 (ikcp_wnd_unused kcp))) ∧
    (ikcp_flush kcp).1.snd_queue = (flush_promoted kcp).snd_queue ∧
    (ikcp_flush kcp).1.snd_nxt = (flush_promoted kcp).snd_nxt ∧
    (ikcp_flush kcp).1.nsnd_que = (flush_promoted kcp).nsnd_que ∧
    (ikcp_flush kcp).1.nsnd_buf = (flush_promoted kcp).nsnd_buf := by
  rw [ikcp_flush_eq kcp hu, ikcp_flush_send_eq, ikcp_flush_cwnd_fields]
  refine ⟨?_, rfl, rfl, rfl, rfl⟩
  exact ikcp_flush_data_map _ _ _ _ _ _ _

theorem promote_exact_probe (K : IKCPCB) (cwnd wnd current : Nat) (hc : cwnd < 2147483648)
    (h1 : sn_offset K.snd_una K.snd_nxt < 2147483648) (h2 : K.snd_nxt < 4294967296)
    (h3 : K.nsnd_que < 4294967296) (h4 : K.nsnd_buf < 4294967296) :
    (ikcp_flush_promote cwnd wnd current { K with probe := 0 } K.snd_queue).snd_queue =
      K.snd_queue.drop (min K.snd_queue.length (cwnd - sn_offset K.snd_una K.snd_nxt)) ∧
    (ikcp_flush_promote cwnd wnd current { K with probe := 0 } K.snd_queue).snd_buf =
      K.snd_buf ++ promoted_list K.conv K.rcv_nxt (u32 K.rx_rto) wnd current K.snd_nxt
        (K.snd_queue.take (min K.snd_queue.length (cwnd - sn_offset K.snd_una K.snd_nxt))) ∧
    (ikcp_flush_promote cwnd wnd current { K with probe := 0 } K.snd_queue).snd_nxt =
      (K.snd_nxt + min K.snd_queue.length (cwnd - sn_offset K.snd_una K.snd_nxt)) %
        4294967296 ∧
    (ikcp_flush_promote cwnd wnd current { K with probe := 0 } K.snd_queue).nsnd_que =
      u32 ((K.nsnd_que : Int) -
        (min K.snd_queue.length (cwnd - sn_offset K.snd_una K.snd_nxt) : Nat)) ∧
    (ikcp_flush_promote cwnd wnd current { K with probe := 0 } K.snd_queue).nsnd_buf =
      (K.nsnd_buf + min K.snd_queue.length (cwnd - sn_offset K.snd_una K.snd_nxt)) %
        4294967296 :=
  ikcp_flush_promote_exact cwnd wnd current hc K.snd_queue { K with probe := 0 } h1 h2 h3 h4

/-- The promotion loop of a flush on a reachable control block, in terms of the control
block before the flush. -/
theorem flush_promoted_exact (kcp : IKCPCB) (h : Reachable kcp) :
    (flush_promoted kcp).snd_queue =
      kcp.snd_queue.drop (promote_count kcp (ikcp_flush_window kcp)) ∧
    (flush_promoted kcp).snd_buf =
      kcp.snd_buf ++ promoted_list kcp.conv kcp.rcv_nxt (u32 kcp.rx_rto)
        (u32 (ikcp_wnd_unused kcp)) kcp.current kcp.snd_nxt
        (kcp.snd_queue.take (promote_count kcp (ikcp_flush_window kcp))) ∧
    (flush_promoted kcp).snd_nxt =
      (kcp.snd_nxt + promote_count kcp (ikcp_flush_window kcp)) % 4294967296 ∧
    (flush_promoted kcp).nsnd_que =
      u32 ((kcp.nsnd_que : Int) - (promote_count kcp (ikcp_flush_window kcp) : Nat)) ∧
    (flush_promoted kcp).nsnd_buf =
      (kcp.nsnd_buf + promote_count kcp (ikcp_flush_window kcp)) % 4294967296 := by
  unfold flush_promoted promote_count
  obtain ⟨⟨_, s2, s3, s4, _, _⟩, _, _⟩ := Reachable_SndInv kcp h
  obtain ⟨c1, c2⟩ := Reachable_CountInv kcp h
  have hw : ikcp_flush_window kcp < 2147483648 :=
    Nat.lt_of_le_of_lt (ikcp_flush_window_le kcp) (Nat.lt_trans s3 (by decide))
  have hp := ikcp_flush_probe_cnt { kcp with ackcount := 0 }
  unfold cnt_part at hp
  simp only [Prod.mk.injEq] at hp
  obtain ⟨p1, p2, p3, p4⟩ := hp
  have q1 : (ikcp_flush_probe { kcp with ackcount := 0 }).snd_una = kcp.snd_una :=
    congrArg SndPart.snd_una (ikcp_flush_probe_snd { kcp with ackcount := 0 })
  have q2 : (ikcp_flush_probe { kcp with ackcount := 0 }).snd_nxt = kcp.snd_nxt :=
    congrArg SndPart.snd_nxt (ikcp_flush_probe_snd { kcp with ackcount := 0 })
  have q3 : (ikcp_flush_probe { kcp with ackcount := 0 }).conv = kcp.conv :=
    congrArg SndPart.conv (ikcp_flush_probe_snd { kcp with ackcount := 0 })
  have q4 : (ikcp_flush_probe { kcp with ackcount := 0 }).rcv_nxt = kcp.rcv_nxt :=
    congrArg RcvCore.rcv_nxt (ikcp_flush_probe_rcv { kcp with ackcount := 0 })
  have q5 : (ikcp_flush_probe { kcp with ackcount := 0 }).rx_rto = kcp.rx_rto :=
    (ikcp_flush_probe_cfg { kcp with ackcount := 0 }).1
  have p3' : (ikcp_flush_probe { kcp with ackcount := 0 }).snd_queue = kcp.snd_queue := p3
  have p4' : (ikcp_flush_probe { kcp with ackcount := 0 }).snd_buf = kcp.snd_buf := p4
  have p1' : (ikcp_flush_probe { kcp with ackcount := 0 }).nsnd_que = kcp.nsnd_que := p1
  have p2' : (ikcp_flush_probe { kcp with ackcount := 0 }).nsnd_buf = kcp.nsnd_buf := p2
  have hwin : ikcp_flush_window
      { ikcp_flush_probe { kcp with ackcount := 0 } with probe := 0 } =
      ikcp_flush_window kcp := ikcp_flush_probe_window { kcp with ackcount := 0 }
  have hK := promote_exact_probe (ikcp_flush_probe { kcp with ackcount := 0 })
    (ikcp_flush_window { ikcp_flush_probe { kcp with ackcount := 0 } with probe := 0 })
    (u32 (ikcp_wnd_unused kcp)) kcp.current (by rw [hwin]; exact hw)
    (by rw [q1, q2]; exact s4) (by rw [q2]; exact s2)
    (by rw [p1', c1]; exact Nat.mod_lt _ (by decide))
    (by rw [p2', c2]; exact Nat.mod_lt _ (by decide))
  generalize ikcp_flush_promote
    (ikcp_flush_window { ikcp_flush_probe { kcp with ackcount := 0 } with probe := 0 })
    (u32 (ikcp_wnd_unused kcp)) kcp.current
    { ikcp_flush_probe { kcp with ackcount := 0 } with probe := 0 }
    (ikcp_flush_probe { kcp with ackcount := 0 }).snd_queue = P at hK ⊢
  rw [hwin, p1', p2', p3', p4', q1, q2, q3, q4, q5] at hK
  exact hK
/-- C28: window-gated promotion. A flush that runs on a reachable control block with
fewer than `2^32` queued segments moves exactly
`min(nsnd_que, max(0, effective_cwnd - (snd_nxt - snd_una)))` segments from the head of
`snd_queue` to the tail of `snd_buf`, in order: `snd_queue` loses that prefix, the old
segments of `snd_buf` stay in place, the moved ones follow with consecutive sequence
numbers from the old `snd_nxt` on, `cmd = PUSH`, `fastack = 0`, their `frg`, `len` and
payload unchanged, and `snd_nxt` and the counters move by the number moved. The
effective window is `min(snd_wnd, rmt_wnd)`, and with `nocwnd = 0` the minimum of that
and `cwnd`. -/
theorem C28_window_gated_promotion (kcp : IKCPCB) (h : Reachable kcp) (hu : kcp.updated ≠ 0)
    (hq : kcp.snd_queue.length < 4294967296) :
    ikcp_flush_window kcp =
      (if kcp.nocwnd = 0 then min kcp.cwnd (min kcp.snd_wnd kcp.rmt_wnd)
        else min kcp.snd_wnd kcp.rmt_wnd) ∧
    promote_count kcp (ikcp_flush_window kcp) =
      min kcp.nsnd_que (ikcp_flush_window kcp - u32 ((kcp.snd_nxt : Int) - kcp.snd_una)) ∧
    (ikcp_flush kcp).1.snd_queue =
      kcp.snd_queue.drop (promote_count kcp (ikcp_flush_window kcp)) ∧
    (ikcp_flush kcp).1.snd_buf.length =
      kcp.snd_buf.length + promote_count kcp (ikcp_flush_window kcp) ∧
    (∀ i : Nat, i < kcp.snd_buf.length →
      ∃ s o : IKCPSEG, (ikcp_flush kcp).1.snd_buf[i]? = some s ∧ kcp.snd_buf[i]? = some o ∧
        s.sn = o.sn ∧ s.cmd = o.cmd ∧ s.frg = o.frg ∧ s.len = o.len ∧ s.data = o.data) ∧
    (∀ i : Nat, i < promote_count kcp (ikcp_flush_window kcp) →
      ∃ s q : IKCPSEG, (ikcp_flush kcp).1.snd_buf[kcp.snd_buf.length + i]? = some s ∧
        kcp.snd_queue[i]? = some q ∧
        s.sn = (kcp.snd_nxt + i) % 4294967296 ∧ s.cmd = IKCP_CMD_PUSH ∧ s.fastack = 0 ∧
        s.frg = q.frg ∧ s.len = q.len ∧ s.data = q.data) ∧
    (ikcp_flush kcp).1.snd_nxt =
      (kcp.snd_nxt + promote_count kcp (ikcp_flush_window kcp)) % 4294967296 ∧
    (ikcp_flush kcp).1.nsnd_que =
      kcp.nsnd_que - promote_count kcp (ikcp_flush_window kcp) ∧
    (ikcp_flush kcp).1.nsnd_buf =
      (kcp.nsnd_buf + promote_count kcp (ikcp_flush_window kcp)) % 4294967296 := by
  obtain ⟨⟨s1, s2, _, s4, _, _⟩, _, _⟩ := Reachable_SndInv kcp h
  obtain ⟨c1, c2⟩ := Reachable_CountInv kcp h
  have s1' : kcp.snd_una < 4294967296 := s1
  have s2' : kcp.snd_nxt < 4294967296 := s2
  have hnq : kcp.nsnd_que = kcp.snd_queue.length := by
    rw [c1]; exact Nat.mod_eq_of_lt hq
  have hoff : sn_offset kcp.snd_una kcp.snd_nxt = u32 ((kcp.snd_nxt : Int) - kcp.snd_una) := by
    unfold sn_offset u32
    omega
  have hcnt : promote_count kcp (ikcp_flush_window kcp) =
      min kcp.nsnd_que (ikcp_flush_window kcp - u32 ((kcp.snd_nxt : Int) - kcp.snd_una)) := by
    unfold promote_count
    rw [hnq, hoff]
  have hle : promote_count kcp (ikcp_flush_window kcp) ≤ kcp.snd_queue.length := by
    unfold promote_count
    exact Nat.min_le_left _ _
  obtain ⟨e1, e2, e3, e4, e5⟩ := flush_promoted_exact kcp h
  obtain ⟨f1, f2, f3, f4, f5⟩ := ikcp_flush_lists kcp hu
  rw [e2] at f1
  rw [e1] at f2
  rw [e3] at f3
  rw [e4] at f4
  rw [e5] at f5
  generalize promote_count kcp (ikcp_flush_window kcp) = n at hcnt hle f1 f2 f3 f4 f5 ⊢
  have hF : ∀ s : IKCPSEG,
      (flush_seg_after (flush_promoted kcp) kcp.current (flush_resent (flush_promoted kcp))
        (if (flush_promoted kcp).nodelay = 0 then u32 ((flush_promoted kcp).rx_rto / 8)
          else 0) (u32 (ikcp_wnd_unused kcp)) s).sn = s.sn ∧
      (flush_seg_after (flush_promoted kcp) kcp.current (flush_resent (flush_promoted kcp))
        (if (flush_promoted kcp).nodelay = 0 then u32 ((flush_promoted kcp).rx_rto / 8)
          else 0) (u32 (ikcp_wnd_unused kcp)) s).cmd = s.cmd ∧
      (flush_seg_after (flush_promoted kcp) kcp.current (flush_resent (flush_promoted kcp))
        (if (flush_promoted kcp).nodelay = 0 then u32 ((flush_promoted kcp).rx_rto / 8)
          else 0) (u32 (ikcp_wnd_unused kcp)) s).frg = s.frg ∧
      (flush_seg_after (flush_promoted kcp) kcp.current (flush_resent (flush_promoted kcp))
        (if (flush_promoted kcp).nodelay = 0 then u32 ((flush_promoted kcp).rx_rto / 8)
          else 0) (u32 (ikcp_wnd_unused kcp)) s).len = s.len ∧
      (flush_seg_after (flush_promoted kcp) kcp.current (flush_resent (flush_promoted kcp))
        (if (flush_promoted kcp).nodelay = 0 then u32 ((flush_promoted kcp).rx_rto / 8)
          else 0) (u32 (ikcp_wnd_unused kcp)) s).data = s.data ∧
      (s.xmit = 0 →
        (flush_seg_after (flush_promoted kcp) kcp.current (flush_resent (flush_promoted kcp))
          (if (flush_promoted kcp).nodelay = 0 then u32 ((flush_promoted kcp).rx_rto / 8)
            else 0) (u32 (ikcp_wnd_unused kcp)) s).fastack = s.fastack ∧
        (flush_seg_after (flush_promoted kcp) kcp.current (flush_resent (flush_promoted kcp))
          (if (flush_promoted kcp).nodelay = 0 then u32 ((flush_promoted kcp).rx_rto / 8)
            else 0) (u32 (ikcp_wnd_unused kcp)) s).xmit = 1) :=
    fun s => flush_seg_after_load _ _ _ _ _ s
  generalize flush_seg_after (flush_promoted kcp) kcp.current
    (flush_resent (flush_promoted kcp))
    (if (flush_promoted kcp).nodelay = 0 then u32 ((flush_promoted kcp).rx_rto / 8) else 0)
    (u32 (ikcp_wnd_unused kcp)) = F at f1 hF
  refine ⟨?_, hcnt, f2, ?_, ?_, ?_, f3, ?_, f5⟩
  · unfold ikcp_flush_window _imin_
    split_ifs <;> omega
  · rw [f1, List.length_map, List.length_append, promoted_list_length, List.length_take]
    omega
  · intro i hi
    have ho : kcp.snd_buf[i]? = some kcp.snd_buf[i] := List.getElem?_eq_getElem hi
    obtain ⟨a1, a2, a3, a4, a5, _⟩ := hF kcp.snd_buf[i]
    refine ⟨F kcp.snd_buf[i], kcp.snd_buf[i], ?_, ho, a1, a2, a3, a4, a5⟩
    rw [f1, List.getElem?_map, List.getElem?_append_left hi, ho]
    rfl
  · intro i hi
    have hq' : i < kcp.snd_queue.length := by omega
    have hqi : kcp.snd_queue[i]? = some kcp.snd_queue[i] := List.getElem?_eq_getElem hq'
    obtain ⟨a1, a2, a3, a4, a5, a6⟩ := hF (promoted_seg kcp.conv kcp.rcv_nxt (u32 kcp.rx_rto)
      (u32 (ikcp_wnd_unused kcp)) kcp.current ((kcp.snd_nxt + i) % 4294967296)
      kcp.snd_queue[i])
    refine ⟨F (promoted_seg kcp.conv kcp.rcv_nxt (u32 kcp.rx_rto)
      (u32 (ikcp_wnd_unused kcp)) kcp.current ((kcp.snd_nxt + i) % 4294967296)
      kcp.snd_queue[i]), kcp.snd_queue[i], ?_, hqi, a1, a2, (a6 rfl).1, a3, a4, a5⟩
    rw [f1, List.getElem?_map, List.getElem?_append_right (Nat.le_add_right _ _),
      Nat.add_sub_cancel_left, promoted_list_getElem _ _ _ _ _ _ _ _ s2',
      List.getElem?_take, if_pos hi, hqi]
    rfl
  · rw [f4]
    unfold u32
    omega

theorem C28_window_gated_promotion_witness :
    kcpThreeQueued.snd_queue.length = 3 ∧ kcpThreeQueued.snd_buf = [] ∧
    promote_count kcpThreeQueued (ikcp_flush_window kcpThreeQueued) = 1 ∧
    (ikcp_flush kcpThreeQueued).1.snd_queue = kcpThreeQueued.snd_queue.drop 1 ∧
    (ikcp_flush kcpThreeQueued).1.snd_nxt = 1 := by
  have hr : Reachable kcpThreeQueued :=
    Reachable.update _ 0
      (Reachable.send _ [3] 1
        (Reachable.send _ [2] 1
          (Reachable.send _ [1] 1 (Reachable.create 1 (by decide)) (by decide) (by decide))
          (by decide) (by decide))
        (by decide) (by decide))
      (by decide)
  have hc : promote_count kcpThreeQueued (ikcp_flush_window kcpThreeQueued) = 1 := by decide!
  have hw := C28_window_gated_promotion kcpThreeQueued hr (by decide!) (by decide!)
  rw [hc] at hw
  exact ⟨by decide!, by decide!, hc, hw.2.2.1, hw.2.2.2.2.2.2.1⟩

/-! ## The congestion window on an acknowledgement -/

theorem ikcp_update_ack_cong (kcp : IKCPCB) (rtt : Int) :
    cong_part (ikcp_update_ack kcp rtt) = cong_part kcp := by
  unfold ikcp_update_ack; simp only []; split <;> rfl

theorem ikcp_ack_push_cong (kcp : IKCPCB) (sn ts : Nat) :
    cong_part (ikcp_ack_push kcp sn ts) = cong_part kcp := by
  unfold ikcp_ack_push; simp only []; split <;> rfl

theorem ikcp_move_rcv_buf_cong (l : List IKCPSEG) :
    ∀ kcp : IKCPCB, cong_part (ikcp_move_rcv_buf kcp l) = cong_part kcp := by
  induction l with
  | nil => intro kcp; rfl
  | cons s t ih =>
    intro kcp
    rw [ikcp_move_rcv_buf]
    split
    · rw [ih]; rfl
    · rfl

theorem ikcp_parse_data_cong (kcp : IKCPCB) (seg : IKCPSEG) :
    cong_part (ikcp_parse_data kcp seg) = cong_part kcp := by
  unfold ikcp_parse_data
  simp only []
  split
  · rfl
  · rw [ikcp_move_rcv_buf_cong]
    split <;> rfl

theorem ikcp_input_push_cong (kcp : IKCPCB) (conv cmd frg wnd ts sn una len : Nat)
    (data : List Nat) :
    cong_part (ikcp_input_push kcp conv cmd frg wnd ts sn una len data) = cong_part kcp := by
  unfold ikcp_input_push
  simp only []
  split
  · split
    · rw [ikcp_parse_data_cong, ikcp_ack_push_cong]
    · rw [ikcp_ack_push_cong]
  · rfl

theorem ikcp_parse_una_loop_cong (una : Nat) (l : List IKCPSEG) :
    ∀ kcp : IKCPCB, cong_part (ikcp_parse_una_loop una kcp l) = cong_part kcp := by
  induction l with
  | nil => intro kcp; rfl
  | cons s t ih =>
    intro kcp
    rw [ikcp_parse_una_loop]
    split
    · rw [ih]; rfl
    · rfl

theorem ikcp_shrink_buf_cong (kcp : IKCPCB) :
    cong_part (ikcp_shrink_buf kcp) = cong_part kcp := by
  have key : ∀ l : List IKCPSEG, cong_part (match l with
      | seg :: _ => { kcp with snd_una := seg.sn }
      | [] => { kcp with snd_una := kcp.snd_nxt }) = cong_part kcp := by
    intro l
    cases l with
    | nil => rfl
    | cons a t => rfl
  exact key kcp.snd_buf

theorem ikcp_parse_ack_cong (kcp : IKCPCB) (sn : Nat) :
    cong_part (ikcp_parse_ack kcp sn) = cong_part kcp := by
  unfold ikcp_parse_ack; split <;> rfl

theorem ikcp_input_una_cong (kcp : IKCPCB) (wnd una : Nat) :
    cong_part (ikcp_shrink_buf (ikcp_parse_una { kcp with rmt_wnd := wnd } una)) =
      cong_part kcp := by
  rw [ikcp_shrink_buf_cong]
  exact ikcp_parse_una_loop_cong una kcp.snd_buf { kcp with rmt_wnd := wnd }

theorem ikcp_input_ack_cong (kcp : IKCPCB) (ts sn : Nat) :
    cong_part (ikcp_input_ack kcp ts sn) = cong_part kcp := by
  unfold ikcp_input_ack
  simp only []
  rw [ikcp_shrink_buf_cong, ikcp_parse_ack_cong]
  split
  · exact ikcp_update_ack_cong _ _
  · rfl

theorem ikcp_input_record_cong (kcp : IKCPCB) (hdr : IKCPSEG) (payload : List Nat)
    (flag : Int) (a b : Nat) :
    cong_part (ikcp_input_record kcp hdr payload flag a b).2.1 = cong_part kcp := by
  have h1 := ikcp_input_una_cong kcp hdr.wnd hdr.una
  unfold ikcp_input_record
  simp only []
  split
  · have h2 := (ikcp_input_ack_cong
      (ikcp_shrink_buf (ikcp_parse_una { kcp with rmt_wnd := hdr.wnd } hdr.una))
      hdr.ts hdr.sn).trans h1
    split
    · exact h2
    · split <;> exact h2
  · split
    · exact (ikcp_input_push_cong _ _ _ _ _ _ _ _ _ _).trans h1
    · split
      · exact h1
      · split <;> exact h1

theorem ikcp_input_loop_cong (fuel : Nat) :
    ∀ (kcp : IKCPCB) (data : List Nat) (flag : Int) (a b : Nat),
      cong_part (ikcp_input_loop fuel kcp data flag a b).2.1 = cong_part kcp := by
  induction fuel with
  | zero => intro kcp data flag a b; rfl
  | succ n ih =>
    intro kcp data flag a b
    have hr := ikcp_input_record_cong kcp (ikcp_decode_seg data).1 (ikcp_decode_seg data).2
      flag a b
    rw [ikcp_input_loop]
    split
    · rfl
    · split
      · rfl
      · split
        · rfl
        · split
          · rfl
          · split
            · exact hr
            · exact (ih _ _ _ _ _).trans hr

theorem ikcp_parse_fastack_cong (kcp : IKCPCB) (sn ts : Nat) :
    cong_part (ikcp_parse_fastack kcp sn ts) = cong_part kcp ∧
    (ikcp_parse_fastack kcp sn ts).rmt_wnd = kcp.rmt_wnd ∧
    (ikcp_parse_fastack kcp sn ts).snd_una = kcp.snd_una := by
  unfold ikcp_parse_fastack
  split <;> exact ⟨rfl, rfl, rfl⟩

/-- The two ways `ikcp_input` ends: with a negative return value and `cwnd`, `incr`,
`ssthresh`, `mss` as they were, or with 0 and the congestion window update applied to a
control block that has them as they were. -/
theorem ikcp_input_cong (kcp : IKCPCB) (data : Option (List Nat)) :
    ((ikcp_input kcp data).1 < 0 ∧ cong_part (ikcp_input kcp data).2 = cong_part kcp) ∨
    ((ikcp_input kcp data).1 = 0 ∧
      ∃ K : IKCPCB, (ikcp_input kcp data).2 = ikcp_input_cwnd K kcp.snd_una ∧
        cong_part K = cong_part kcp) := by
  cases data with
  | none =>
    have hn : ((-1 : Int), kcp).1 < 0 := by show (-1 : Int) < 0; omega
    exact Or.inl ⟨hn, rfl⟩
  | some d =>
    have hl := ikcp_input_loop_cong d.length kcp d 0 0 0
    rw [ikcp_input_some]
    split
    · have hn : ((-1 : Int), kcp).1 < 0 := by show (-1 : Int) < 0; omega
      exact Or.inl ⟨hn, rfl⟩
    · unfold ikcp_input_finish
      split
      · rename_i hneg
        exact Or.inl ⟨hneg, hl⟩
      · refine Or.inr ⟨rfl, _, rfl, ?_⟩
        split
        · exact (ikcp_parse_fastack_cong _ _ _).1.trans hl
        · exact hl
theorem mul_lt_two32 (a b : Nat) (ha : a < 65536) (hb : b < 65536) :
    a * b < 4294967296 := by
  have h1 : a * b ≤ 65535 * 65535 := Nat.mul_le_mul (by omega) (by omega)
  omega

theorem div_mss_le (m i : Nat) (h : m ≤ i) : m * m / i ≤ m := by
  apply Nat.div_le_of_le_mul
  exact Nat.mul_le_mul_right m h

theorem le_ceil_mul (x m : Nat) (h0 : 0 < m) : x ≤ (x + m - 1) / m * m := by
  have h1 := Nat.div_add_mod (x + m - 1) m
  have h2 := Nat.mod_lt (x + m - 1) h0
  have h3 : m * ((x + m - 1) / m) = (x + m - 1) / m * m := Nat.mul_comm _ _
  omega

/-- The congestion window update of `ikcp_input` when it is entered (`snd_una` has
advanced and `cwnd < rmt_wnd`), for `mss` and `rmt_wnd` below `2^16` and `incr` below
`2^31`: the growth of spec section 4.8, then the clamp of `cwnd` and `incr` together. -/
theorem ikcp_input_cwnd_spec (K : IKCPCB) (prev : Nat)
    (hm0 : 0 < K.mss) (hm : K.mss < 65536) (hi : K.incr < 2147483648)
    (hr : K.rmt_wnd < 65536)
    (ha : _itimediff K.snd_una prev > 0) (hc : K.cwnd < K.rmt_wnd) :
    ((ikcp_input_cwnd K prev).cwnd, (ikcp_input_cwnd K prev).incr) =
      (if (cwnd_growth_spec K.cwnd K.incr K.ssthresh K.mss).1 > K.rmt_wnd then
        (K.rmt_wnd, K.rmt_wnd * K.mss)
      else cwnd_growth_spec K.cwnd K.incr K.ssthresh K.mss) ∧
    (ikcp_input_cwnd K prev).cwnd ≤ K.rmt_wnd ∧
    (K.ssthresh ≤ K.cwnd ∨ K.incr ≤ K.cwnd * K.mss →
      (ikcp_input_cwnd K prev).incr ≤ K.rmt_wnd * K.mss) := by
  have n1 : K.mss * K.mss < 4294967296 := mul_lt_two32 _ _ hm hm
  have n2 : (K.cwnd + 1) * K.mss < 4294967296 := mul_lt_two32 _ _ (by omega) hm
  have n3 : K.rmt_wnd * K.mss < 4294967296 := mul_lt_two32 _ _ hr hm
  have n4 : (K.cwnd + 1) * K.mss ≤ K.rmt_wnd * K.mss := Nat.mul_le_mul_right _ (by omega)
  have n5 : (K.cwnd + 1) * K.mss = K.cwnd * K.mss + K.mss := Nat.succ_mul _ _
  have n6 : K.mss * K.mss / K.mss ≤ K.mss := div_mss_le _ _ (Nat.le_refl _)
  have n7 : K.mss ≤ K.incr → K.mss * K.mss / K.incr ≤ K.mss := div_mss_le _ _
  have n8 : ∀ x : Nat, x ≤ (x + K.mss - 1) / K.mss * K.mss := fun x => le_ceil_mul x _ hm0
  have n9 : ∀ d : Nat, d ≤ K.rmt_wnd → d * K.mss ≤ K.rmt_wnd * K.mss :=
    fun d hd => Nat.mul_le_mul_right _ hd
  have e0 : max K.mss 1 = K.mss := by omega
  unfold ikcp_input_cwnd cwnd_growth_spec
  rw [if_pos ha, if_pos hc]
  simp only []
  by_cases hs : K.cwnd < K.ssthresh
  · simp only [if_pos hs]
    have e1 : (K.cwnd + 1) % 4294967296 = K.cwnd + 1 := by omega
    have e2 : (K.incr + K.mss) % 4294967296 = K.incr + K.mss := by omega
    rw [e1, e2]
    have e3 : ¬ K.cwnd + 1 > K.rmt_wnd := by omega
    simp only [if_neg e3]
    refine ⟨trivial, by omega, ?_⟩
    intro h
    omega
  · simp only [if_neg hs]
    have hI : (if K.incr < K.mss then K.mss else K.incr) = max K.incr K.mss := by
      split <;> omega
    have hI0 : K.mss ≤ max K.incr K.mss := Nat.le_max_right _ _
    have hI1 : max K.incr K.mss < 2147483648 := by omega
    simp only [hI, Nat.mod_eq_of_lt n1, e0]
    have hq : K.mss * K.mss / max K.incr K.mss ≤ K.mss := div_mss_le _ _ hI0
    generalize max K.incr K.mss = I0 at hI0 hI1 hq ⊢
    generalize K.mss * K.mss / I0 = Q at hq ⊢
    have e5 : (I0 + (Q + K.mss / 16) % 4294967296) % 4294967296 = I0 + (Q + K.mss / 16) := by
      omega
    have e6 : (K.cwnd + 1) % 4294967296 * K.mss % 4294967296 = (K.cwnd + 1) * K.mss := by
      rw [Nat.mod_eq_of_lt (by omega : K.cwnd + 1 < 4294967296), Nat.mod_eq_of_lt n2]
    have e7 : u32 (((I0 + (Q + K.mss / 16) : Nat) : Int) + (K.mss : Int) - 1) =
        I0 + (Q + K.mss / 16) + K.mss - 1 := by
      unfold u32
      omega
    have e8 : (if K.mss > 0 then K.mss else 1) = K.mss := if_pos hm0
    simp only [e5, e6, e7, e8]
    have k8 := n8 (I0 + (Q + K.mss / 16))
    by_cases h1 : (K.cwnd + 1) * K.mss ≤ I0 + (Q + K.mss / 16)
    · simp only [if_pos h1]
      by_cases h2 : (I0 + (Q + K.mss / 16) + K.mss - 1) / K.mss > K.rmt_wnd
      · simp only [if_pos h2, Nat.mod_eq_of_lt n3]
        exact ⟨trivial, Nat.le_refl _, fun _ => Nat.le_refl _⟩
      · simp only [if_neg h2]
        have k9 := n9 _ (Nat.le_of_not_lt h2)
        exact ⟨trivial, Nat.le_of_not_lt h2, fun _ => Nat.le_trans k8 k9⟩
    · simp only [if_neg h1]
      have h2 : ¬ K.cwnd > K.rmt_wnd := by omega
      simp only [if_neg h2]
      exact ⟨trivial, by omega, fun _ => by omega⟩
theorem ikcp_input_cwnd_skip (K : IKCPCB) (prev : Nat)
    (h : ¬ (_itimediff K.snd_una prev > 0 ∧ K.cwnd < K.rmt_wnd)) :
    ikcp_input_cwnd K prev = K := by
  unfold ikcp_input_cwnd
  by_cases h1 : _itimediff K.snd_una prev > 0
  · rw [if_pos h1]
    by_cases h2 : K.cwnd < K.rmt_wnd
    · exact absurd ⟨h1, h2⟩ h
    · rw [if_neg h2]
  · rw [if_neg h1]

theorem ikcp_input_cwnd_frame (K : IKCPCB) (prev : Nat) :
    (ikcp_input_cwnd K prev).mss = K.mss ∧ (ikcp_input_cwnd K prev).ssthresh = K.ssthresh ∧
    (ikcp_input_cwnd K prev).rmt_wnd = K.rmt_wnd ∧
    (ikcp_input_cwnd K prev).snd_una = K.snd_una := by
  rw [ikcp_input_cwnd_fields]
  exact ⟨rfl, rfl, rfl, rfl⟩

/-- C25: the growth of the congestion window on an acknowledgement. For a reachable
control block with `mss` below `2^16` and `incr` below `2^31`: `ikcp_input` keeps `mss`
and `ssthresh`; when it returns 0, has advanced `snd_una` and `cwnd` is below the
advertised window, `cwnd` and `incr` are those of the growth rule of the specification
(slow start below `ssthresh`, else the byte-granular increase), replaced by `rmt_wnd`
and `rmt_wnd * mss` together when the grown `cwnd` exceeds `rmt_wnd`; `cwnd <= rmt_wnd`
holds afterwards, and `incr <= rmt_wnd * mss` holds when the update was out of slow
start or `incr <= cwnd * mss` held before. In every other case (a negative return
value, `snd_una` not advanced, or `cwnd >= rmt_wnd`) `cwnd` and `incr` are unchanged. -/
theorem C25_cwnd_growth (kcp : IKCPCB) (data : Option (List Nat)) (h : Reachable kcp)
    (hm : kcp.mss < 65536) (hi : kcp.incr < 2147483648) :
    (ikcp_input kcp data).2.mss = kcp.mss ∧
    (ikcp_input kcp data).2.ssthresh = kcp.ssthresh ∧
    ((ikcp_input kcp data).1 = 0 →
      _itimediff (ikcp_input kcp data).2.snd_una kcp.snd_una > 0 →
      kcp.cwnd < (ikcp_input kcp data).2.rmt_wnd →
      ((ikcp_input kcp data).2.cwnd, (ikcp_input kcp data).2.incr) =
        (if (cwnd_growth_spec kcp.cwnd kcp.incr kcp.ssthresh kcp.mss).1 >
            (ikcp_input kcp data).2.rmt_wnd then
          ((ikcp_input kcp data).2.rmt_wnd, (ikcp_input kcp data).2.rmt_wnd * kcp.mss)
        else cwnd_growth_spec kcp.cwnd kcp.incr kcp.ssthresh kcp.mss) ∧
      (ikcp_input kcp data).2.cwnd ≤ (ikcp_input kcp data).2.rmt_wnd ∧
      (kcp.ssthresh ≤ kcp.cwnd ∨ kcp.incr ≤ kcp.cwnd * kcp.mss →
        (ikcp_input kcp data).2.incr ≤ (ikcp_input kcp data).2.rmt_wnd * kcp.mss)) ∧
    ((ikcp_input kcp data).1 ≠ 0 ∨
        ¬ _itimediff (ikcp_input kcp data).2.snd_una kcp.snd_una > 0 ∨
        (ikcp_input kcp data).2.rmt_wnd ≤ kcp.cwnd →
      (ikcp_input kcp data).2.cwnd = kcp.cwnd ∧ (ikcp_input kcp data).2.incr = kcp.incr) := by
  have hS := Reachable_SegInv kcp h
  have hm0 : 0 < kcp.mss := by
    have a1 : 50 ≤ kcp.mtu := hS.2.1
    have a2 : kcp.mss + 24 = kcp.mtu := hS.2.2.2.1
    omega
  have hR : (ikcp_input kcp data).2.rmt_wnd < 65536 :=
    (Reachable_SndInv _ (Reachable.input kcp data h)).1.2.2.1
  rcases ikcp_input_cong kcp data with ⟨hneg, hcg⟩ | ⟨h0, K, hK, hcg⟩
  · unfold cong_part at hcg
    simp only [Prod.mk.injEq] at hcg
    obtain ⟨g1, g2, g3, g4⟩ := hcg
    refine ⟨g4, g3, ?_, fun _ => ⟨g1, g2⟩⟩
    intro h0
    omega
  · unfold cong_part at hcg
    simp only [Prod.mk.injEq] at hcg
    obtain ⟨g1, g2, g3, g4⟩ := hcg
    obtain ⟨f1, f2, f3, f4⟩ := ikcp_input_cwnd_frame K kcp.snd_una
    rw [hK] at hR ⊢
    rw [f1, f2, f3, f4]
    rw [f3] at hR
    refine ⟨g4, g3, ?_, ?_⟩
    · intro _ ha hc
      rw [← g1] at hc
      have hsp := ikcp_input_cwnd_spec K kcp.snd_una (by rw [g4]; exact hm0)
        (by rw [g4]; exact hm) (by rw [g2]; exact hi) hR ha hc
      rw [g1, g2, g3, g4] at hsp
      exact hsp
    · intro hcase
      have hskip : ¬ (_itimediff K.snd_una kcp.snd_una > 0 ∧ K.cwnd < K.rmt_wnd) := by
        rintro ⟨b1, b2⟩
        rcases hcase with c | c | c
        · exact c h0
        · exact c b1
        · rw [g1] at b2
          omega
      rw [ikcp_input_cwnd_skip K kcp.snd_una hskip]
      exact ⟨g1, g2⟩

theorem C25_cwnd_growth_witness :
    kcpFirstFlight.mss < 65536 ∧ kcpFirstFlight.incr < 2147483648 ∧
    ((ikcp_input kcpFirstFlight (some ackZero)).2.cwnd,
      (ikcp_input kcpFirstFlight (some ackZero)).2.incr) = (2, 2752) := by
  have hr : Reachable kcpFirstFlight :=
    Reachable.update _ 100
      (Reachable.update _ 0
        (Reachable.send _ [3] 1
          (Reachable.send _ [2] 1
            (Reachable.send _ [1] 1 (Reachable.create 1 (by decide)) (by decide) (by decide))
            (by decide) (by decide))
          (by decide) (by decide))
        (by decide))
      (by decide)
  have hw := (C25_cwnd_growth kcpFirstFlight (some ackZero) hr
    (by decide!) (by decide!)).2.2.1 (by decide!) (by decide!) (by decide!)
  refine ⟨by decide!, by decide!, hw.1.trans ?_⟩
  decide!

/-- C25, counterexamples. (1) The sender `kcpMtuCut` (`cwnd = 1`, `ssthresh = 2`,
`incr = 1376`, `mss = 26`) receives an ACK that advances `snd_una` and advertises a
window of 2: `ikcp_input` returns 0 with `cwnd = 2 <= rmt_wnd`, but `incr = 1402`, more
than `rmt_wnd * mss = 52`. (2) The sender `kcpLossy 2` (`cwnd = 1`, `ssthresh = 2`)
receives a datagram whose first record acknowledges segment 0 and whose second record
has an unknown command: `ikcp_input` returns -3 with `snd_una` advanced from 0 to 1 and
`cwnd < rmt_wnd`, and `cwnd` and `incr` have not grown. -/
theorem C25_counterexample :
    ((ikcp_input kcpMtuCut (some ackZeroWnd2)).1 = 0 ∧
      _itimediff (ikcp_input kcpMtuCut (some ackZeroWnd2)).2.snd_una kcpMtuCut.snd_una > 0 ∧
      kcpMtuCut.cwnd < (ikcp_input kcpMtuCut (some ackZeroWnd2)).2.rmt_wnd ∧
      kcpMtuCut.cwnd < kcpMtuCut.ssthresh ∧
      (ikcp_input kcpMtuCut (some ackZeroWnd2)).2.cwnd = 2 ∧
      (ikcp_input kcpMtuCut (some ackZeroWnd2)).2.rmt_wnd = 2 ∧
      (ikcp_input kcpMtuCut (some ackZeroWnd2)).2.mss = 26 ∧
      (ikcp_input kcpMtuCut (some ackZeroWnd2)).2.incr = 1402 ∧
      ¬ (ikcp_input kcpMtuCut (some ackZeroWnd2)).2.incr ≤
        (ikcp_input kcpMtuCut (some ackZeroWnd2)).2.rmt_wnd *
          (ikcp_input kcpMtuCut (some ackZeroWnd2)).2.mss) ∧
    ((ikcp_input (kcpLossy 2) (some (ackZero ++ badCmdRecord))).1 = -3 ∧
      (kcpLossy 2).snd_una = 0 ∧
      (ikcp_input (kcpLossy 2) (some (ackZero ++ badCmdRecord))).2.snd_una = 1 ∧
      (kcpLossy 2).cwnd = 1 ∧ (kcpLossy 2).ssthresh = 2 ∧ (kcpLossy 2).incr = 1376 ∧
      (ikcp_input (kcpLossy 2) (some (ackZero ++ badCmdRecord))).2.rmt_wnd = 128 ∧
      (ikcp_input (kcpLossy 2) (some (ackZero ++ badCmdRecord))).2.cwnd = 1 ∧
      (ikcp_input (kcpLossy 2) (some (ackZero ++ badCmdRecord))).2.incr = 1376) := by
  decide!

/-! ## Deletion and fast-ack marking on an ordered snd_buf -/

theorem itimediff_eq_zero (a b : Nat) (ha : a < 4294967296) (hb : b < 4294967296)
    (h : _itimediff a b = 0) : a = b := by
  unfold _itimediff i32 at h
  split at h <;> omega

/-- The loop of `ikcp_parse_una` deletes the leading run of segments with
`_itimediff una sn > 0` and nothing else. -/
theorem ikcp_parse_una_loop_drop (una : Nat) (l : List IKCPSEG) :
    ∀ kcp : IKCPCB,
      (ikcp_parse_una_loop una kcp l).snd_buf =
        l.dropWhile (fun s => decide (_itimediff una s.sn > 0)) := by
  induction l with
  | nil => intro kcp; rfl
  | cons s t ih =>
    intro kcp
    rw [ikcp_parse_una_loop]
    by_cases hp : _itimediff una s.sn > 0
    · rw [if_pos hp, List.dropWhile_cons_of_pos (by simpa using hp)]
      exact ih _
    · rw [if_neg hp, List.dropWhile_cons_of_neg (by simpa using hp)]

/-- On a list in ascending order within half the sequence space above `u`, the leading
run of segments before `una` is all the segments before `una`, when `una` is not behind
`u`. -/
theorem dropWhile_eq_filter_una (u una : Nat) (hu : sn_offset u una < 2147483648)
    (l : List IKCPSEG)
    (hord : l.Pairwise (fun x y => sn_offset u x.sn < sn_offset u y.sn))
    (hrng : ∀ s ∈ l, sn_offset u s.sn < 2147483648) :
    l.dropWhile (fun s => decide (_itimediff una s.sn > 0)) =
      l.filter (fun s => !decide (_itimediff una s.sn > 0)) := by
  induction l with
  | nil => rfl
  | cons s t ih =>
    have hs := hrng s (List.mem_cons_self _ _)
    have ht : ∀ x ∈ t, sn_offset u x.sn < 2147483648 :=
      fun x hx => hrng x (List.mem_cons_of_mem _ hx)
    obtain ⟨ho, hot⟩ := List.pairwise_cons.mp hord
    have e := itimediff_offset u una s.sn hu hs
    by_cases hp : _itimediff una s.sn > 0
    · rw [List.dropWhile_cons_of_pos (by simpa using hp),
        List.filter_cons_of_neg (by simpa using hp)]
      exact ih hot ht
    · rw [List.dropWhile_cons_of_neg (by simpa using hp),
        List.filter_cons_of_pos (by simpa using hp)]
      congr 1
      symm
      apply List.filter_eq_self.mpr
      intro x hx
      have ex := itimediff_offset u una x.sn hu (ht x hx)
      have hox := ho x hx
      have : ¬ _itimediff una x.sn > 0 := by omega
      simpa using this

/-- When no segment lies before `una`, the loop of `ikcp_parse_una` deletes nothing. -/
theorem dropWhile_eq_filter_none (una : Nat) (l : List IKCPSEG)
    (h : ∀ s ∈ l, ¬ _itimediff una s.sn > 0) :
    l.dropWhile (fun s => decide (_itimediff una s.sn > 0)) =
      l.filter (fun s => !decide (_itimediff una s.sn > 0)) := by
  have e1 : l.filter (fun s => !decide (_itimediff una s.sn > 0)) = l := by
    apply List.filter_eq_self.mpr
    intro x hx
    simpa using h x hx
  rw [e1]
  cases l with
  | nil => rfl
  | cons s t =>
    exact List.dropWhile_cons_of_neg (by simpa using h s (List.mem_cons_self _ _))

/-- On an ordered list the loop of `ikcp_parse_ack` deletes exactly the segment with
the acknowledged sequence number. -/
theorem ikcp_parse_ack_loop_filter (u m : Nat) (hm : sn_offset u m < 2147483648)
    (l : List IKCPSEG)
    (hord : l.Pairwise (fun x y => sn_offset u x.sn < sn_offset u y.sn))
    (hrng : ∀ s ∈ l, sn_offset u s.sn < 2147483648) :
    (ikcp_parse_ack_loop m l).1 = l.filter (fun s => decide (s.sn ≠ m)) := by
  induction l with
  | nil => rfl
  | cons s t ih =>
    have hs := hrng s (List.mem_cons_self _ _)
    have ht : ∀ x ∈ t, sn_offset u x.sn < 2147483648 :=
      fun x hx => hrng x (List.mem_cons_of_mem _ hx)
    obtain ⟨ho, hot⟩ := List.pairwise_cons.mp hord
    have e := itimediff_offset u m s.sn hm hs
    have hrest : ∀ x ∈ t, sn_offset u m ≤ sn_offset u s.sn → x.sn ≠ m := by
      intro x hx hle hxe
      have := ho x hx
      rw [hxe] at this
      omega
    rw [ikcp_parse_ack_loop]
    by_cases h1 : m = s.sn
    · rw [if_pos h1, List.filter_cons_of_neg (by simpa using h1.symm)]
      show t = List.filter (fun s => decide (s.sn ≠ m)) t
      symm
      apply List.filter_eq_self.mpr
      intro x hx
      have := hrest x hx (by rw [h1])
      simpa using this
    · rw [if_neg h1]
      have h1' : s.sn ≠ m := fun h => h1 h.symm
      by_cases h2 : _itimediff m s.sn < 0
      · rw [if_pos h2, List.filter_cons_of_pos (by simpa using h1')]
        show s :: t = s :: List.filter (fun s => decide (s.sn ≠ m)) t
        congr 1
        symm
        apply List.filter_eq_self.mpr
        intro x hx
        have := hrest x hx (by omega)
        simpa using this
      · rw [if_neg h2, List.filter_cons_of_pos (by simpa using h1')]
        show s :: (ikcp_parse_ack_loop m t).1 = _
        rw [ih hot ht]

/-- On an ordered list the loop of `ikcp_parse_fastack` increments `fastack` on exactly
the segments before `m`, once each. -/
theorem ikcp_parse_fastack_loop_map (u m : Nat) (hm : sn_offset u m < 2147483648)
    (hm32 : m < 4294967296) (l : List IKCPSEG)
    (hord : l.Pairwise (fun x y => sn_offset u x.sn < sn_offset u y.sn))
    (hrng : ∀ s ∈ l, s.sn < 4294967296 ∧ sn_offset u s.sn < 2147483648) :
    ikcp_parse_fastack_loop m l =
      l.map (fun s => if _itimediff m s.sn > 0 then
        { s with fastack := (s.fastack + 1) % 4294967296 } else s) := by
  induction l with
  | nil => rfl
  | cons s t ih =>
    obtain ⟨hs32, hs⟩ := hrng s (List.mem_cons_self _ _)
    have ht : ∀ x ∈ t, x.sn < 4294967296 ∧ sn_offset u x.sn < 2147483648 :=
      fun x hx => hrng x (List.mem_cons_of_mem _ hx)
    obtain ⟨ho, hot⟩ := List.pairwise_cons.mp hord
    have e := itimediff_offset u m s.sn hm hs
    rw [ikcp_parse_fastack_loop, List.map_cons]
    by_cases h1 : _itimediff m s.sn < 0
    · rw [if_pos h1, if_neg (by omega)]
      congr 1
      symm
      have hid : ∀ x ∈ t, (fun s : IKCPSEG => if _itimediff m s.sn > 0 then
          { s with fastack := (s.fastack + 1) % 4294967296 } else s) x = id x := by
        intro x hx
        have ex := itimediff_offset u m x.sn hm (ht x hx).2
        have hox := ho x hx
        show (if _itimediff m x.sn > 0 then _ else x) = x
        rw [if_neg (by omega)]
      rw [List.map_congr_left hid, List.map_id]
    · rw [if_neg h1]
      by_cases h2 : m = s.sn
      · have h0 : _itimediff m s.sn = 0 := by rw [h2]; exact itimediff_self _
        rw [if_neg (fun h => h h2), if_neg (by omega), ih hot ht]
      · have h0 : _itimediff m s.sn ≠ 0 := fun h => h2 (itimediff_eq_zero m s.sn hm32 hs32 h)
        rw [if_pos h2, if_pos (by omega), ih hot ht]

theorem ikcp_shrink_buf_vals (kcp : IKCPCB) :
    (ikcp_shrink_buf kcp).snd_buf = kcp.snd_buf ∧
    (ikcp_shrink_buf kcp).snd_nxt = kcp.snd_nxt ∧
    (ikcp_shrink_buf kcp).snd_una =
      (match kcp.snd_buf with
        | s :: _ => s.sn
        | [] => kcp.snd_nxt) := by
  have key : ∀ l : List IKCPSEG, kcp.snd_buf = l →
      (match l with
        | seg :: _ => { kcp with snd_una := seg.sn }
        | [] => { kcp with snd_una := kcp.snd_nxt }).snd_buf = kcp.snd_buf ∧
      (match l with
        | seg :: _ => { kcp with snd_una := seg.sn }
        | [] => { kcp with snd_una := kcp.snd_nxt }).snd_nxt = kcp.snd_nxt ∧
      (match l with
        | seg :: _ => { kcp with snd_una := seg.sn }
        | [] => { kcp with snd_una := kcp.snd_nxt }).snd_una =
        (match l with
          | s :: _ => s.sn
          | [] => kcp.snd_nxt) := by
    intro l _
    cases l with
    | nil => exact ⟨rfl, rfl, rfl⟩
    | cons a t => exact ⟨rfl, rfl, rfl⟩
  exact key kcp.snd_buf rfl

/-- The window and `una` step of a record: the leading run before `una` is deleted,
`snd_una` moves to the head of what is left (or to `snd_nxt`), `snd_nxt` stays. -/
theorem ikcp_input_una_vals (kcp : IKCPCB) (wnd una : Nat) :
    (ikcp_shrink_buf (ikcp_parse_una { kcp with rmt_wnd := wnd } una)).snd_buf =
      kcp.snd_buf.dropWhile (fun s => decide (_itimediff una s.sn > 0)) ∧
    (ikcp_shrink_buf (ikcp_parse_una { kcp with rmt_wnd := wnd } una)).snd_nxt =
      kcp.snd_nxt ∧
    (ikcp_shrink_buf (ikcp_parse_una { kcp with rmt_wnd := wnd } una)).snd_una =
      (match kcp.snd_buf.dropWhile (fun s => decide (_itimediff una s.sn > 0)) with
        | s :: _ => s.sn
        | [] => kcp.snd_nxt) := by
  obtain ⟨a1, a2, a3⟩ := ikcp_shrink_buf_vals (ikcp_parse_una { kcp with rmt_wnd := wnd } una)
  have b1 : (ikcp_parse_una { kcp with rmt_wnd := wnd } una).snd_buf =
      kcp.snd_buf.dropWhile (fun s => decide (_itimediff una s.sn > 0)) :=
    ikcp_parse_una_loop_drop una kcp.snd_buf { kcp with rmt_wnd := wnd }
  have b2 : (ikcp_parse_una { kcp with rmt_wnd := wnd } una).snd_nxt = kcp.snd_nxt :=
    (ikcp_parse_una_loop_cur una kcp.snd_buf { kcp with rmt_wnd := wnd }).2.1
  rw [b1] at a1 a3
  rw [b2] at a2 a3
  exact ⟨a1, a2, a3⟩

/-- The ordering facts of `WeakSnd` on the list `snd_buf` itself. -/
theorem WeakSnd_buf (kcp : IKCPCB) (h : WeakSnd (snd_cur kcp)) :
    kcp.snd_buf.Pairwise
      (fun x y => sn_offset kcp.snd_una x.sn < sn_offset kcp.snd_una y.sn) ∧
    (∀ s ∈ kcp.snd_buf, s.sn < 4294967296 ∧ sn_offset kcp.snd_una s.sn < 2147483648) := by
  obtain ⟨_, _, _, h4, h5, h6⟩ := h
  have h4' : sn_offset kcp.snd_una kcp.snd_nxt < 2147483648 := h4
  have h5' : (kcp.snd_buf.map (fun s => s.sn)).Pairwise
      (fun x y => sn_offset kcp.snd_una x < sn_offset kcp.snd_una y) := h5
  have h6' : ∀ n ∈ kcp.snd_buf.map (fun s => s.sn), n < 4294967296 ∧
      sn_offset kcp.snd_una n < sn_offset kcp.snd_una kcp.snd_nxt := h6
  refine ⟨?_, ?_⟩
  · rw [List.pairwise_map] at h5'
    exact h5'
  · intro s hs
    obtain ⟨c1, c2⟩ := h6' s.sn (List.mem_map_of_mem _ hs)
    exact ⟨c1, by omega⟩

/-- On a control block with ordered `snd_buf`, `ikcp_parse_ack` deletes the segment with
the acknowledged `sn` when it lies in `[snd_una, snd_nxt)` and nothing otherwise. -/
theorem ikcp_parse_ack_filter (kcp : IKCPCB) (sn : Nat) (h : WeakSnd (snd_cur kcp)) :
    (ikcp_parse_ack kcp sn).snd_buf =
      (if _itimediff sn kcp.snd_una ≥ 0 ∧ _itimediff sn kcp.snd_nxt < 0 then
        kcp.snd_buf.filter (fun s => decide (s.sn ≠ sn))
      else kcp.snd_buf) := by
  obtain ⟨ho, hr⟩ := WeakSnd_buf kcp h
  unfold ikcp_parse_ack
  by_cases hc : _itimediff sn kcp.snd_una < 0 ∨ _itimediff sn kcp.snd_nxt ≥ 0
  · rw [if_pos hc, if_neg (by omega)]
  · rw [if_neg hc, if_pos (by omega)]
    exact ikcp_parse_ack_loop_filter kcp.snd_una sn
      (offset_of_itimediff _ _ (by omega)) kcp.snd_buf ho (fun s hs => (hr s hs).2)

theorem ikcp_input_ack_buf (kcp : IKCPCB) (ts sn : Nat) :
    (ikcp_input_ack kcp ts sn).snd_buf = (ikcp_parse_ack kcp sn).snd_buf := by
  have hp : ∀ K : IKCPCB, snd_part K = snd_part kcp →
      (ikcp_parse_ack K sn).snd_buf = (ikcp_parse_ack kcp sn).snd_buf := by
    intro K hK
    have e1 : K.snd_una = kcp.snd_una := congrArg SndPart.snd_una hK
    have e2 : K.snd_nxt = kcp.snd_nxt := congrArg SndPart.snd_nxt hK
    have e3 : K.snd_buf = kcp.snd_buf := congrArg SndPart.snd_buf hK
    unfold ikcp_parse_ack
    rw [e1, e2, e3]
    split
    · exact e3
    · rfl
  unfold ikcp_input_ack
  simp only []
  rw [(ikcp_shrink_buf_vals _).1]
  split
  · exact hp _ (ikcp_update_ack_snd _ _)
  · rfl

/-- The `snd_buf` one record leaves: the `una` step, then `ikcp_parse_ack` for an ACK. -/
theorem ikcp_input_record_buf (kcp : IKCPCB) (hdr : IKCPSEG) (payload : List Nat)
    (flag : Int) (a b : Nat) :
    (ikcp_input_record kcp hdr payload flag a b).2.1.snd_buf =
      (if hdr.cmd = IKCP_CMD_ACK then
        (ikcp_parse_ack
          (ikcp_shrink_buf (ikcp_parse_una { kcp with rmt_wnd := hdr.wnd } hdr.una))
          hdr.sn).snd_buf
      else (ikcp_shrink_buf (ikcp_parse_una { kcp with rmt_wnd := hdr.wnd } hdr.una)).snd_buf) := by
  unfold ikcp_input_record
  simp only []
  by_cases h1 : hdr.cmd = IKCP_CMD_ACK
  · rw [if_pos h1, if_pos h1]
    have h2 := ikcp_input_ack_buf
      (ikcp_shrink_buf (ikcp_parse_una { kcp with rmt_wnd := hdr.wnd } hdr.una)) hdr.ts hdr.sn
    split
    · exact h2
    · split <;> exact h2
  · rw [if_neg h1, if_neg h1]
    split
    · exact congrArg SndPart.snd_buf (ikcp_input_push_snd _ _ _ _ _ _ _ _ _ _)
    · split
      · rfl
      · split <;> rfl

/-- C22: acknowledgement removes exactly the acknowledged segments. For a control
block `kcp` that the record loop of `ikcp_input` reaches from a reachable one, with
fewer than `2^32` segments in `snd_buf`, and a record whose `una` is not behind
`snd_una` in signed order, or before which no segment of `snd_buf` lies: the record
leaves in `snd_buf` exactly the segments with `sn >= una`, minus the segment with
`sn = s` for an ACK of `s` in `[snd_una, snd_nxt)` (`snd_una` as the `una` step left
it); these are the segments as they were, in order, and `nsnd_buf` has gone down by the
number of deleted segments. -/
theorem C22_ack_removal (kcp0 : IKCPCB) (h : Reachable kcp0) (fuel : Nat) (data0 : List Nat)
    (kcp : IKCPCB) (hk : kcp = (ikcp_input_loop fuel kcp0 data0 0 0 0).2.1)
    (hdr : IKCPSEG) (payload : List Nat) (flag : Int) (a b : Nat)
    (hw : hdr.wnd < 65536) (hb : kcp.snd_buf.length < 4294967296)
    (hu : _itimediff hdr.una kcp.snd_una ≥ 0 ∨
      ∀ s ∈ kcp.snd_buf, ¬ _itimediff hdr.una s.sn > 0) :
    (ikcp_input_record kcp hdr payload flag a b).2.1.snd_buf =
      ack_removal_spec kcp.snd_nxt kcp.snd_buf hdr ∧
    (ikcp_input_record kcp hdr payload flag a b).2.1.snd_buf.Sublist kcp.snd_buf ∧
    (ikcp_input_record kcp hdr payload flag a b).2.1.nsnd_buf =
      kcp.nsnd_buf -
        (kcp.snd_buf.length - (ikcp_input_record kcp hdr payload flag a b).2.1.snd_buf.length) := by
  have hS : SndInv (snd_cur kcp) := by
    rw [hk]; exact SndInv_input_loop fuel kcp0 data0 0 0 0 (Reachable_SndInv kcp0 h)
  have hC : CountInv kcp := by
    rw [hk]; exact CountInv_input_loop fuel kcp0 data0 0 0 0 (Reachable_CountInv kcp0 h)
  have hC2 := CountInv_input_record kcp hdr payload flag a b hC
  obtain ⟨ho, hr⟩ := WeakSnd_buf kcp hS.1
  have hS1 : SndInv (snd_cur
      (ikcp_shrink_buf (ikcp_parse_una { kcp with rmt_wnd := hdr.wnd } hdr.una))) := by
    apply SndInv_shrink
    apply WeakSnd_parse_una
    obtain ⟨⟨g1, g2, _, g4, g5, g6⟩, _, _⟩ := hS
    exact ⟨g1, g2, hw, g4, g5, g6⟩
  obtain ⟨u1, u2, u3⟩ := ikcp_input_una_vals kcp hdr.wnd hdr.una
  have hdf : kcp.snd_buf.dropWhile (fun s => decide (_itimediff hdr.una s.sn > 0)) =
      kcp.snd_buf.filter (fun s => !decide (_itimediff hdr.una s.sn > 0)) := by
    rcases hu with hu | hu
    · exact dropWhile_eq_filter_una kcp.snd_una hdr.una
        (offset_of_itimediff _ _ (by omega)) kcp.snd_buf ho (fun s hs => (hr s hs).2)
    · exact dropWhile_eq_filter_none hdr.una kcp.snd_buf hu
  rw [hdf] at u1 u3
  have hpa := ikcp_parse_ack_filter _ hdr.sn hS1.1
  rw [u1, u2, u3] at hpa
  have hbuf := ikcp_input_record_buf kcp hdr payload flag a b
  rw [hpa, u1] at hbuf
  have hspec : (ikcp_input_record kcp hdr payload flag a b).2.1.snd_buf =
      ack_removal_spec kcp.snd_nxt kcp.snd_buf hdr := by
    rw [hbuf]
    unfold ack_removal_spec
    simp only []
    by_cases hc : hdr.cmd = IKCP_CMD_ACK
    · rw [if_pos hc]
      by_cases hin : _itimediff hdr.sn
          (match kcp.snd_buf.filter (fun s => !decide (_itimediff hdr.una s.sn > 0)) with
            | s :: _ => s.sn
            | [] => kcp.snd_nxt) ≥ 0 ∧ _itimediff hdr.sn kcp.snd_nxt < 0
      · rw [if_pos hin, if_pos ⟨hc, hin⟩]
      · rw [if_neg hin, if_neg (fun hx => hin hx.2)]
    · rw [if_neg hc, if_neg (fun hx => hc hx.1)]
  have hsub : (ack_removal_spec kcp.snd_nxt kcp.snd_buf hdr).Sublist kcp.snd_buf := by
    unfold ack_removal_spec
    simp only []
    split
    · exact (List.filter_sublist _).trans (List.filter_sublist _)
    · exact List.filter_sublist _
  rw [← hspec] at hsub
  refine ⟨hspec, hsub, ?_⟩
  have hlen := hsub.length_le
  have c1 := hC.2
  have c2 := hC2.2
  omega

theorem C22_ack_removal_witness :
    kcpTwoInFlight.snd_buf.map (fun s => s.sn) = [0, 1] ∧
    (ikcp_input_record kcpTwoInFlight (record_header ackOneRecord) [] 0 0 0).2.1.snd_buf =
      kcpTwoInFlight.snd_buf.take 1 ∧
    (ikcp_input_record kcpTwoInFlight (record_header ackOneRecord) [] 0 0 0).2.1.nsnd_buf =
      1 := by
  have hr : Reachable kcpTwoInFlight :=
    Reachable.update _ 0
      (Reachable.send _ [2] 1
        (Reachable.send _ [1] 1
          (Reachable.nodelay _ 0 (-1) 0 1 (Reachable.create 1 (by decide)) (by decide)
            (by decide))
          (by decide) (by decide))
        (by decide) (by decide))
      (by decide)
  have hw := C22_ack_removal kcpTwoInFlight hr 0 [] kcpTwoInFlight rfl
    (record_header ackOneRecord) [] 0 0 0 (by decide!) (by decide!) (Or.inl (by decide!))
  refine ⟨by decide!, hw.1.trans ?_, hw.2.2.trans ?_⟩
  · decide!
  · decide!

/-- C22, counterexample: the sender `kcpTwoInFlight` holds segments 0 and 1 in
`snd_buf`. A WINS record with `una = 2^31` is processed by `ikcp_input` with return
value 0. Segment 1 lies before that `una` in signed order (`_itimediff una 1 > 0`), but
the loop of `ikcp_parse_una` stops at segment 0, which does not, and segment 1 stays in
`snd_buf`. -/
theorem C22_counterexample :
    kcpTwoInFlight.snd_buf.map (fun s => s.sn) = [0, 1] ∧
    winsFarUna.una = 2147483648 ∧
    _itimediff winsFarUna.una 1 > 0 ∧
    (ikcp_input kcpTwoInFlight (some (record_bytes winsFarUna))).1 = 0 ∧
    (ikcp_input kcpTwoInFlight (some (record_bytes winsFarUna))).2.snd_buf.map
      (fun s => s.sn) = [0, 1] ∧
    (ikcp_input kcpTwoInFlight (some (record_bytes winsFarUna))).2.nsnd_buf = 2 := by
  decide!

/-! ## Fast-ack accounting -/

theorem ikcp_input_record_sublist (kcp : IKCPCB) (hdr : IKCPSEG) (payload : List Nat)
    (flag : Int) (a b : Nat) :
    (ikcp_input_record kcp hdr payload flag a b).2.1.snd_buf.Sublist kcp.snd_buf := by
  obtain ⟨u1, _, _⟩ := ikcp_input_una_vals kcp hdr.wnd hdr.una
  have h1 : (ikcp_shrink_buf (ikcp_parse_una { kcp with rmt_wnd := hdr.wnd }
      hdr.una)).snd_buf.Sublist kcp.snd_buf := by
    rw [u1]
    exact List.dropWhile_sublist _
  have h2 : ∀ K : IKCPCB, (ikcp_parse_ack K hdr.sn).snd_buf.Sublist K.snd_buf := by
    intro K
    unfold ikcp_parse_ack
    split
    · exact List.Sublist.refl _
    · exact ikcp_parse_ack_loop_sublist hdr.sn K.snd_buf
  rw [ikcp_input_record_buf]
  split
  · exact (h2 _).trans h1
  · exact h1

theorem input_records_sublist (recs : List IKCPSEG) :
    ∀ (kcp : IKCPCB) (flag : Int) (a b : Nat),
      (input_records kcp flag a b recs).1.snd_buf.Sublist kcp.snd_buf := by
  induction recs with
  | nil => intro kcp flag a b; exact List.Sublist.refl _
  | cons r rs ih =>
    intro kcp flag a b
    rw [input_records]
    exact (ih _ _ _ _).trans (ikcp_input_record_sublist kcp _ _ flag a b)

theorem SndInv_input_records (recs : List IKCPSEG) :
    ∀ (kcp : IKCPCB) (flag : Int) (a b : Nat), (∀ r ∈ recs, r.wnd < 65536) →
      SndInv (snd_cur kcp) → SndInv (snd_cur (input_records kcp flag a b recs).1) := by
  induction recs with
  | nil => intro kcp flag a b _ h; exact h
  | cons r rs ih =>
    intro kcp flag a b hw h
    rw [input_records]
    apply ih _ _ _ _ (fun x hx => hw x (List.mem_cons_of_mem _ hx))
    exact SndInv_input_record kcp (record_header r) r.data flag a b
      (hw r (List.mem_cons_self _ _)) h

/-- The locals `flag` and `maxack` after one record. -/
theorem ikcp_input_record_locals (kcp : IKCPCB) (hdr : IKCPSEG) (payload : List Nat)
    (flag : Int) (a b : Nat) :
    (ikcp_input_record kcp hdr payload flag a b).2.2.1 =
      (if hdr.cmd = IKCP_CMD_ACK then (if flag = 0 then 1 else flag) else flag) ∧
    (ikcp_input_record kcp hdr payload flag a b).2.2.2.1 =
      (if hdr.cmd = IKCP_CMD_ACK then (if flag = 0 then hdr.sn else ack_later a hdr.sn)
        else a) := by
  unfold ikcp_input_record ack_later
  simp only []
  by_cases h1 : hdr.cmd = IKCP_CMD_ACK
  · rw [if_pos h1, if_pos h1, if_pos h1]
    by_cases h2 : flag = 0
    · rw [if_pos h2, if_pos h2, if_pos h2]
      exact ⟨rfl, rfl⟩
    · rw [if_neg h2, if_neg h2, if_neg h2]
      split
      · exact ⟨rfl, rfl⟩
      · exact ⟨rfl, rfl⟩
  · rw [if_neg h1, if_neg h1, if_neg h1]
    split
    · exact ⟨rfl, rfl⟩
    · split
      · exact ⟨rfl, rfl⟩
      · split <;> exact ⟨rfl, rfl⟩

theorem ack_sns_cons (r : IKCPSEG) (rs : List IKCPSEG) :
    ack_sns (r :: rs) = (if r.cmd = IKCP_CMD_ACK then r.sn :: ack_sns rs else ack_sns rs) := by
  unfold ack_sns
  by_cases h : r.cmd = IKCP_CMD_ACK
  · rw [if_pos h, List.filter_cons_of_pos (by simpa using h), List.map_cons]
  · rw [if_neg h, List.filter_cons_of_neg (by simpa using h)]

theorem input_records_locals_pos (recs : List IKCPSEG) :
    ∀ (kcp : IKCPCB) (flag : Int) (a b : Nat), flag ≠ 0 →
      (input_records kcp flag a b recs).2.1 = flag ∧
      (input_records kcp flag a b recs).2.2.1 = (ack_sns recs).foldl ack_later a := by
  induction recs with
  | nil => intro kcp flag a b _; exact ⟨rfl, rfl⟩
  | cons r rs ih =>
    intro kcp flag a b hf
    obtain ⟨l1, l2⟩ := ikcp_input_record_locals kcp (record_header r) r.data flag a b
    have hc : (record_header r).cmd = r.cmd := rfl
    have hs : (record_header r).sn = r.sn := rfl
    rw [hc] at l1 l2
    rw [hs] at l2
    rw [if_neg hf] at l1 l2
    have l1' : (ikcp_input_record kcp (record_header r) r.data flag a b).2.2.1 = flag := by
      rw [l1]; split <;> rfl
    rw [input_records, l1', l2, ack_sns_cons]
    obtain ⟨i1, i2⟩ := ih (ikcp_input_record kcp (record_header r) r.data flag a b).2.1 flag
      (if r.cmd = IKCP_CMD_ACK then ack_later a r.sn else a)
      (ikcp_input_record kcp (record_header r) r.data flag a b).2.2.2.2 hf
    refine ⟨i1, ?_⟩
    rw [i2]
    split
    · rfl
    · rfl

theorem input_records_locals (recs : List IKCPSEG) :
    ∀ (kcp : IKCPCB) (a b : Nat),
      (input_records kcp 0 a b recs).2.1 = (if ack_sns recs = [] then 0 else 1) ∧
      (input_records kcp 0 a b recs).2.2.1 = (ack_max (ack_sns recs)).getD a := by
  induction recs with
  | nil => intro kcp a b; exact ⟨rfl, rfl⟩
  | cons r rs ih =>
    intro kcp a b
    obtain ⟨l1, l2⟩ := ikcp_input_record_locals kcp (record_header r) r.data 0 a b
    have hc : (record_header r).cmd = r.cmd := rfl
    have hs : (record_header r).sn = r.sn := rfl
    rw [hc] at l1 l2
    rw [hs] at l2
    rw [if_pos rfl] at l1 l2
    rw [input_records, l1, l2, ack_sns_cons]
    by_cases h : r.cmd = IKCP_CMD_ACK
    · rw [if_pos h, if_pos h, if_pos h]
      obtain ⟨i1, i2⟩ := input_records_locals_pos rs
        (ikcp_input_record kcp (record_header r) r.data 0 a b).2.1 1 r.sn
        (ikcp_input_record kcp (record_header r) r.data 0 a b).2.2.2.2 (by decide)
      rw [i1, i2, if_neg (List.cons_ne_nil _ _)]
      exact ⟨rfl, rfl⟩
    · rw [if_neg h, if_neg h, if_neg h]
      exact ih _ _ _

theorem foldl_ack_later_mem (xs : List Nat) :
    ∀ x : Nat, xs.foldl ack_later x = x ∨ xs.foldl ack_later x ∈ xs := by
  induction xs with
  | nil => intro x; exact Or.inl rfl
  | cons y ys ih =>
    intro x
    rw [List.foldl_cons]
    rcases ih (ack_later x y) with h | h
    · rw [h]
      unfold ack_later
      split
      · exact Or.inr (List.mem_cons_self _ _)
      · exact Or.inl rfl
    · exact Or.inr (List.mem_cons_of_mem _ h)

theorem foldl_ack_later_max (base : Nat) (xs : List Nat)
    (hx : ∀ y ∈ xs, sn_offset base y < 2147483648) :
    ∀ x : Nat, sn_offset base x < 2147483648 →
      sn_offset base x ≤ sn_offset base (xs.foldl ack_later x) ∧
      ∀ y ∈ xs, sn_offset base y ≤ sn_offset base (xs.foldl ack_later x) := by
  induction xs with
  | nil => intro x _; exact ⟨Nat.le_refl _, fun y hy => absurd hy (List.not_mem_nil y)⟩
  | cons y ys ih =>
    intro x hxb
    have hy := hx y (List.mem_cons_self _ _)
    have e := itimediff_offset base y x hy hxb
    have hl : sn_offset base (ack_later x y) < 2147483648 ∧
        sn_offset base x ≤ sn_offset base (ack_later x y) ∧
        sn_offset base y ≤ sn_offset base (ack_later x y) := by
      unfold ack_later
      split
      · exact ⟨hy, by omega, Nat.le_refl _⟩
      · exact ⟨hxb, Nat.le_refl _, by omega⟩
    obtain ⟨i1, i2⟩ := ih (fun z hz => hx z (List.mem_cons_of_mem _ hz)) (ack_later x y) hl.1
    rw [List.foldl_cons]
    refine ⟨Nat.le_trans hl.2.1 i1, ?_⟩
    intro z hz
    rcases List.mem_cons.mp hz with hz | hz
    · rw [hz]; exact Nat.le_trans hl.2.2 i1
    · exact i2 z hz

/-- The value `ack_max` gives is one of the sequence numbers, and the greatest of them
by offset from any base less than `2^31` behind all of them. -/
theorem ack_max_spec (acks : List Nat) (m : Nat) (h : ack_max acks = some m) :
    m ∈ acks ∧
    ∀ base : Nat, (∀ y ∈ acks, sn_offset base y < 2147483648) →
      ∀ y ∈ acks, sn_offset base y ≤ sn_offset base m := by
  cases acks with
  | nil => exact absurd h (by simp [ack_max])
  | cons x xs =>
    have hm : xs.foldl ack_later x = m := by
      simpa [ack_max] using h
    refine ⟨?_, ?_⟩
    · rcases foldl_ack_later_mem xs x with e | e
      · rw [← hm, e]; exact List.mem_cons_self _ _
      · rw [← hm]; exact List.mem_cons_of_mem _ e
    · intro base hb y hy
      obtain ⟨i1, i2⟩ := foldl_ack_later_max base xs
        (fun z hz => hb z (List.mem_cons_of_mem _ hz)) x (hb x (List.mem_cons_self _ _))
      rw [hm] at i1 i2
      rcases List.mem_cons.mp hy with e | e
      · rw [e]; exact i1
      · exact i2 y e

theorem ikcp_input_cwnd_buf (K : IKCPCB) (prev : Nat) :
    (ikcp_input_cwnd K prev).snd_buf = K.snd_buf ∧
    (ikcp_input_cwnd K prev).snd_una = K.snd_una ∧
    (ikcp_input_cwnd K prev).snd_nxt = K.snd_nxt := by
  rw [ikcp_input_cwnd_fields]
  exact ⟨rfl, rfl, rfl⟩

theorem ikcp_parse_fastack_map (L : IKCPCB) (m ts : Nat) (hm32 : m < 4294967296)
    (hS : WeakSnd (snd_cur L)) :
    (ikcp_parse_fastack L m ts).snd_una = L.snd_una ∧
    (ikcp_parse_fastack L m ts).snd_nxt = L.snd_nxt ∧
    (ikcp_parse_fastack L m ts).snd_buf =
      (if _itimediff m L.snd_una ≥ 0 ∧ _itimediff m L.snd_nxt < 0 then
        L.snd_buf.map (fun s =>
          if _itimediff m s.sn > 0 then { s with fastack := (s.fastack + 1) % 4294967296 }
          else s)
      else L.snd_buf) := by
  obtain ⟨ho, hr⟩ := WeakSnd_buf L hS
  unfold ikcp_parse_fastack
  by_cases hc : _itimediff m L.snd_una < 0 ∨ _itimediff m L.snd_nxt ≥ 0
  · rw [if_pos hc, if_neg (by omega)]
    exact ⟨rfl, rfl, rfl⟩
  · rw [if_neg hc, if_pos (by omega)]
    exact ⟨rfl, rfl, ikcp_parse_fastack_loop_map L.snd_una m
      (offset_of_itimediff _ _ (by omega)) hm32 L.snd_buf ho hr⟩

/-- The end of `ikcp_input` after the record loop, on `snd_buf`: the fast-ack
accounting of the specification for the maximum the loop has tracked. -/
theorem fastack_tail_buf (L : IKCPCB) (acks : List Nat) (flag : Int) (m ts prev : Nat)
    (hS : WeakSnd (snd_cur L)) (hflag : flag = if acks = [] then 0 else 1)
    (hm : m = (ack_max acks).getD 0) (h32 : ∀ y ∈ acks, y < 4294967296) :
    (ikcp_input_cwnd (if flag ≠ 0 then ikcp_parse_fastack L m ts else L) prev).snd_buf =
      fastack_spec
        (ikcp_input_cwnd (if flag ≠ 0 then ikcp_parse_fastack L m ts else L) prev).snd_una
        (ikcp_input_cwnd (if flag ≠ 0 then ikcp_parse_fastack L m ts else L) prev).snd_nxt
        acks L.snd_buf := by
  obtain ⟨c1, c2, c3⟩ := ikcp_input_cwnd_buf
    (if flag ≠ 0 then ikcp_parse_fastack L m ts else L) prev
  rw [c1, c2, c3]
  cases acks with
  | nil =>
    rw [if_pos rfl] at hflag
    rw [hflag, if_neg (fun hx => hx rfl)]
    rfl
  | cons x xs =>
    rw [if_neg (List.cons_ne_nil _ _)] at hflag
    have hm' : ack_max (x :: xs) = some m := by
      rw [hm]; rfl
    have hmem := (ack_max_spec (x :: xs) m hm').1
    obtain ⟨p1, p2, p3⟩ := ikcp_parse_fastack_map L m ts (h32 m hmem) hS
    rw [hflag, if_pos (by decide), p1, p2, p3]
    unfold fastack_spec
    rw [hm']

/-- C30: fast-ack accounting. For a reachable control block and a datagram of whole
valid records: `ikcp_input` returns 0; the segments the records leave in `snd_buf` are
segments of the old `snd_buf`, unchanged and in order; with `m` the maximum ACK `sn` of
the datagram in signed order, when `m` lies in `[snd_una, snd_nxt)` after the call every
remaining segment with `sn < m` has `fastack` incremented by one (modulo `2^32`), once,
and every other one is unchanged; when `m` lies outside that range, or the datagram has
no ACK record, `snd_buf` is as the records left it. -/
theorem C30_fastack_accounting (kcp : IKCPCB) (recs : List IKCPSEG) (h : Reachable kcp)
    (hv : ∀ r ∈ recs, valid_record kcp.conv r) (hne : recs ≠ [])
    (hlen : ((recs.map record_bytes).flatten).length < 2147483648) :
    (ikcp_input kcp (some (recs.map record_bytes).flatten)).1 = 0 ∧
    (input_records kcp 0 0 0 recs).1.snd_buf.Sublist kcp.snd_buf ∧
    (ikcp_input kcp (some (recs.map record_bytes).flatten)).2.snd_buf =
      fastack_spec (ikcp_input kcp (some (recs.map record_bytes).flatten)).2.snd_una
        (ikcp_input kcp (some (recs.map record_bytes).flatten)).2.snd_nxt (ack_sns recs)
        (input_records kcp 0 0 0 recs).1.snd_buf ∧
    (∀ m : Nat, ack_max (ack_sns recs) = some m →
      m ∈ ack_sns recs ∧
      ∀ base : Nat, (∀ y ∈ ack_sns recs, sn_offset base y < 2147483648) →
        ∀ y ∈ ack_sns recs, sn_offset base y ≤ sn_offset base m) := by
  have hconv : kcp.conv < 4294967296 := (Reachable_SegInv kcp h).1
  have hw := ikcp_input_whole kcp recs hconv hv hne hlen
  have hS := SndInv_input_records recs kcp 0 0 0 (fun r hr => (hv r hr).2.2.2.1)
    (Reachable_SndInv kcp h)
  obtain ⟨t1, t2⟩ := input_records_locals recs kcp 0 0
  have hsn32 : ∀ y ∈ ack_sns recs, y < 4294967296 := by
    intro y hy
    unfold ack_sns at hy
    obtain ⟨r, hr1, hr2⟩ := List.mem_map.mp hy
    rw [← hr2]
    exact (hv r (List.mem_of_mem_filter hr1)).2.2.2.2.2.1
  refine ⟨by rw [hw], input_records_sublist recs kcp 0 0 0, ?_, ack_max_spec (ack_sns recs)⟩
  rw [hw]
  exact fastack_tail_buf _ (ack_sns recs) _ _ _ kcp.snd_una hS.1 t1 t2 hsn32

theorem C30_fastack_accounting_witness :
    kcpThreeInFlight.snd_buf.map (fun s => (s.sn, s.fastack)) = [(0, 0), (1, 0), (2, 0)] ∧
    ack_max (ack_sns acksOneTwo) = some 2 ∧
    (ikcp_input kcpThreeInFlight (some (acksOneTwo.map record_bytes).flatten)).2.snd_buf.map
      (fun s => (s.sn, s.fastack)) = [(0, 1)] := by
  have hr : Reachable kcpThreeInFlight :=
    Reachable.update _ 0
      (Reachable.send _ [3] 1
        (Reachable.send _ [2] 1
          (Reachable.send _ [1] 1
            (Reachable.nodelay _ 0 (-1) 0 1 (Reachable.create 1 (by decide)) (by decide)
              (by decide))
            (by decide) (by decide))
          (by decide) (by decide))
        (by decide) (by decide))
      (by decide)
  have hw := C30_fastack_accounting kcpThreeInFlight acksOneTwo hr
    (by
      intro r hr
      rcases List.mem_cons.mp hr with e | e
      · subst e
        exact ⟨rfl, Or.inr (Or.inl rfl), by decide, by decide, by decide, by decide,
          by decide, rfl, by decide⟩
      · rw [List.mem_singleton] at e
        subst e
        exact ⟨rfl, Or.inr (Or.inl rfl), by decide, by decide, by decide, by decide,
          by decide, rfl, by decide⟩)
    (by decide) (by decide)
  refine ⟨by decide!, by decide!, ?_⟩
  rw [hw.2.2.1]
  decide!

/-- C30, counterexample: the sender `kcpTwoInFlight` holds segments 0 and 1 with
`fastack = 0`. A datagram with one ACK record for sequence number 5, which was never
sent, is processed with return value 0: the maximum ACK `sn` of the call is 5 and both
segments lie before it, but `ikcp_parse_fastack` returns at once because 5 is not below
`snd_nxt = 2`, and both `fastack` counters are still 0. -/
theorem C30_counterexample :
    kcpTwoInFlight.snd_buf.map (fun s => (s.sn, s.fastack)) = [(0, 0), (1, 0)] ∧
    kcpTwoInFlight.snd_nxt = 2 ∧
    ack_max (ack_sns [ackUnsent]) = some 5 ∧
    _itimediff 5 0 > 0 ∧ _itimediff 5 1 > 0 ∧
    (ikcp_input kcpTwoInFlight (some (record_bytes ackUnsent))).1 = 0 ∧
    (ikcp_input kcpTwoInFlight (some (record_bytes ackUnsent))).2.snd_buf.map
      (fun s => (s.sn, s.fastack)) = [(0, 0), (1, 0)] := by
  decide!

/-! ## The acceptance window of a PUSH record -/

theorem ikcp_move_rcv_buf_ack (l : List IKCPSEG) :
    ∀ kcp : IKCPCB, ack_part (ikcp_move_rcv_buf kcp l) = ack_part kcp := by
  induction l with
  | nil => intro kcp; rfl
  | cons s t ih =>
    intro kcp
    rw [ikcp_move_rcv_buf]
    split
    · rw [ih]; rfl
    · rfl

theorem ikcp_parse_data_ack (kcp : IKCPCB) (seg : IKCPSEG) :
    ack_part (ikcp_parse_data kcp seg) = ack_part kcp := by
  unfold ikcp_parse_data
  simp only []
  split
  · rfl
  · rw [ikcp_move_rcv_buf_ack]
    split <;> rfl

theorem ikcp_parse_una_loop_ack (una : Nat) (l : List IKCPSEG) :
    ∀ kcp : IKCPCB, ack_part (ikcp_parse_una_loop una kcp l) = ack_part kcp := by
  induction l with
  | nil => intro kcp; rfl
  | cons s t ih =>
    intro kcp
    rw [ikcp_parse_una_loop]
    split
    · rw [ih]; rfl
    · rfl

theorem ikcp_input_una_ack (kcp : IKCPCB) (wnd una : Nat) :
    ack_part (ikcp_shrink_buf (ikcp_parse_una { kcp with rmt_wnd := wnd } una)) =
      ack_part kcp := by
  have key : ∀ K : IKCPCB, ack_part (ikcp_shrink_buf K) = ack_part K := by
    intro K
    unfold ikcp_shrink_buf
    split <;> rfl
  rw [key]
  exact ikcp_parse_una_loop_ack una kcp.snd_buf { kcp with rmt_wnd := wnd }

/-- The pair `ikcp_ack_push` appends, after the first `ackcount` entries. -/
theorem ikcp_ack_push_vals (kcp : IKCPCB) (sn ts : Nat) :
    (ikcp_ack_push kcp sn ts).acklist = kcp.acklist.take kcp.ackcount ++ [(sn, ts)] ∧
    (ikcp_ack_push kcp sn ts).ackcount = (kcp.ackcount + 1) % 4294967296 := by
  unfold ikcp_ack_push
  simp only []
  split
  · refine ⟨?_, rfl⟩
    show (kcp.acklist.take kcp.ackcount).take kcp.ackcount ++ [(sn, ts)] = _
    rw [List.take_take, Nat.min_self]
  · exact ⟨rfl, rfl⟩

theorem ikcp_move_rcv_buf_concat (l : List IKCPSEG) :
    ∀ kcp : IKCPCB,
      (ikcp_move_rcv_buf kcp l).rcv_queue ++ (ikcp_move_rcv_buf kcp l).rcv_buf =
        kcp.rcv_queue ++ l := by
  induction l with
  | nil => intro kcp; rfl
  | cons s t ih =>
    intro kcp
    rw [ikcp_move_rcv_buf]
    split
    · rw [ih]
      show (kcp.rcv_queue ++ [s]) ++ t = kcp.rcv_queue ++ s :: t
      rw [List.append_assoc]
      rfl
    · rfl

theorem ikcp_parse_data_scan_length (newseg : IKCPSEG) (rev : List IKCPSEG) :
    ∀ res : List IKCPSEG, ikcp_parse_data_scan newseg rev = some res →
      res.length = rev.length + 1 := by
  induction rev with
  | nil =>
    intro res h
    rw [ikcp_parse_data_scan] at h
    rw [← Option.some.inj h]
    rfl
  | cons s prev ih =>
    intro res h
    rw [ikcp_parse_data_scan] at h
    split at h
    · exact absurd h (by simp)
    · split at h
      · rw [← Option.some.inj h]
        rfl
      · cases hs : ikcp_parse_data_scan newseg prev with
        | none =>
          rw [hs] at h
          exact absurd h (by simp)
        | some l =>
          rw [hs] at h
          rw [← Option.some.inj h, List.length_cons, List.length_cons, ih l hs]

/-- A segment inside the window through `ikcp_parse_data` on an ordered receive side:
a repeated `sn` leaves the sequence `rcv_queue ++ rcv_buf` as it was; a new one adds
exactly the segment. -/
theorem ikcp_parse_data_concat (kcp : IKCPCB) (seg : IKCPSEG) (hseg : seg.sn < 4294967296)
    (h : RcvOrd (rcv_core kcp))
    (hw : ¬ (_itimediff seg.sn ((kcp.rcv_nxt + kcp.rcv_wnd) % 4294967296) ≥ 0 ∨
      _itimediff seg.sn kcp.rcv_nxt < 0)) :
    ((∃ s ∈ kcp.rcv_buf, s.sn = seg.sn) →
      (ikcp_parse_data kcp seg).rcv_queue ++ (ikcp_parse_data kcp seg).rcv_buf =
        kcp.rcv_queue ++ kcp.rcv_buf) ∧
    ((¬ ∃ s ∈ kcp.rcv_buf, s.sn = seg.sn) →
      (∀ x, x ∈ (ikcp_parse_data kcp seg).rcv_queue ++ (ikcp_parse_data kcp seg).rcv_buf ↔
        x = seg ∨ x ∈ kcp.rcv_queue ++ kcp.rcv_buf) ∧
      ((ikcp_parse_data kcp seg).rcv_queue ++ (ikcp_parse_data kcp seg).rcv_buf).length =
        (kcp.rcv_queue ++ kcp.rcv_buf).length + 1) := by
  obtain ⟨hn, hp, hb, hc, hl⟩ := h
  have hp' : kcp.rcv_buf.Pairwise
      (fun x y => sn_offset kcp.rcv_nxt x.sn < sn_offset kcp.rcv_nxt y.sn) := hp
  have hb' : ∀ s ∈ kcp.rcv_buf, s.sn < 4294967296 ∧
      sn_offset kcp.rcv_nxt s.sn < 2147483648 := hb
  have hoff : sn_offset kcp.rcv_nxt seg.sn < 2147483648 :=
    offset_of_itimediff _ _ (fun h => hw (Or.inr h))
  have hrev : ∀ s ∈ kcp.rcv_buf.reverse, s.sn < 4294967296 ∧
      sn_offset kcp.rcv_nxt s.sn < 2147483648 :=
    fun s hs => hb' s (List.mem_reverse.mp hs)
  have hsorted : kcp.rcv_buf.reverse.Pairwise
      (fun x y => sn_offset kcp.rcv_nxt y.sn < sn_offset kcp.rcv_nxt x.sn) :=
    List.pairwise_reverse.mpr hp'
  unfold ikcp_parse_data
  simp only []
  rw [if_neg hw]
  constructor
  · intro hdup
    have hmem : ∃ s ∈ kcp.rcv_buf.reverse, s.sn = seg.sn := by
      obtain ⟨s, hs, e⟩ := hdup
      exact ⟨s, List.mem_reverse.mpr hs, e⟩
    rw [ikcp_parse_data_scan_none kcp.rcv_nxt seg _ hoff hrev hsorted hmem]
    exact ikcp_move_rcv_buf_concat kcp.rcv_buf kcp
  · intro hnew
    have hmem : ¬ ∃ s ∈ kcp.rcv_buf.reverse, s.sn = seg.sn := by
      rintro ⟨s, hs, e⟩
      exact hnew ⟨s, List.mem_reverse.mp hs, e⟩
    obtain ⟨res, hres, hsort, hmemr⟩ :=
      ikcp_parse_data_scan_some kcp.rcv_nxt seg _ hseg hoff hrev hsorted hmem
    have hlen : res.length = kcp.rcv_buf.length + 1 := by
      rw [ikcp_parse_data_scan_length seg _ res hres, List.length_reverse]
    rw [hres]
    simp only []
    rw [ikcp_move_rcv_buf_concat]
    show (∀ x, x ∈ kcp.rcv_queue ++ res.reverse ↔ x = seg ∨ x ∈ kcp.rcv_queue ++ kcp.rcv_buf) ∧
      (kcp.rcv_queue ++ res.reverse).length = (kcp.rcv_queue ++ kcp.rcv_buf).length + 1
    constructor
    · intro x
      simp only [List.mem_append, List.mem_reverse, hmemr]
      tauto
    · simp only [List.length_append, List.length_reverse, hlen]
      omega

/-- The PUSH branch of `ikcp_input` on a control block with an ordered receive side. -/
theorem ikcp_input_push_window (K : IKCPCB) (hdr : IKCPSEG) (payload : List Nat)
    (hsn : hdr.sn < 4294967296) (hR : RcvOrd (rcv_core K)) :
    (¬ _itimediff hdr.sn ((K.rcv_nxt + K.rcv_wnd) % 4294967296) < 0 →
      ikcp_input_push K hdr.conv hdr.cmd hdr.frg hdr.wnd hdr.ts hdr.sn hdr.una hdr.len
        payload = K) ∧
    (_itimediff hdr.sn ((K.rcv_nxt + K.rcv_wnd) % 4294967296) < 0 →
      ack_part (ikcp_input_push K hdr.conv hdr.cmd hdr.frg hdr.wnd hdr.ts hdr.sn hdr.una
        hdr.len payload) =
        (K.acklist.take K.ackcount ++ [(hdr.sn, hdr.ts)], (K.ackcount + 1) % 4294967296) ∧
      (_itimediff hdr.sn K.rcv_nxt < 0 →
        rcv_part (ikcp_input_push K hdr.conv hdr.cmd hdr.frg hdr.wnd hdr.ts hdr.sn hdr.una
          hdr.len payload) = rcv_part K) ∧
      (_itimediff hdr.sn K.rcv_nxt ≥ 0 →
        ((∃ s ∈ K.rcv_buf, s.sn = hdr.sn) →
          (ikcp_input_push K hdr.conv hdr.cmd hdr.frg hdr.wnd hdr.ts hdr.sn hdr.una hdr.len
              payload).rcv_queue ++
            (ikcp_input_push K hdr.conv hdr.cmd hdr.frg hdr.wnd hdr.ts hdr.sn hdr.una hdr.len
              payload).rcv_buf = K.rcv_queue ++ K.rcv_buf) ∧
        ((¬ ∃ s ∈ K.rcv_buf, s.sn = hdr.sn) →
          (∀ x, x ∈ (ikcp_input_push K hdr.conv hdr.cmd hdr.frg hdr.wnd hdr.ts hdr.sn hdr.una
                hdr.len payload).rcv_queue ++
              (ikcp_input_push K hdr.conv hdr.cmd hdr.frg hdr.wnd hdr.ts hdr.sn hdr.una
                hdr.len payload).rcv_buf ↔
            x = pushed_seg hdr payload ∨ x ∈ K.rcv_queue ++ K.rcv_buf) ∧
          ((ikcp_input_push K hdr.conv hdr.cmd hdr.frg hdr.wnd hdr.ts hdr.sn hdr.una
                hdr.len payload).rcv_queue ++
              (ikcp_input_push K hdr.conv hdr.cmd hdr.frg hdr.wnd hdr.ts hdr.sn hdr.una
                hdr.len payload).rcv_buf).length =
            (K.rcv_queue ++ K.rcv_buf).length + 1))) := by
  obtain ⟨a1, a2⟩ := ikcp_ack_push_vals K hdr.sn hdr.ts
  have hrp := ikcp_ack_push_rcv K hdr.sn hdr.ts
  have r1 : (ikcp_ack_push K hdr.sn hdr.ts).rcv_nxt = K.rcv_nxt := congrArg RcvPart.rcv_nxt hrp
  have r2 : (ikcp_ack_push K hdr.sn hdr.ts).rcv_wnd = K.rcv_wnd := congrArg RcvPart.rcv_wnd hrp
  have r3 : (ikcp_ack_push K hdr.sn hdr.ts).rcv_buf = K.rcv_buf := congrArg RcvPart.rcv_buf hrp
  have r4 : (ikcp_ack_push K hdr.sn hdr.ts).rcv_queue = K.rcv_queue :=
    congrArg RcvPart.rcv_queue hrp
  have hR2 : RcvOrd (rcv_core (ikcp_ack_push K hdr.sn hdr.ts)) := by
    rw [ikcp_ack_push_core]; exact hR
  have hpd := ikcp_parse_data_ack (ikcp_ack_push K hdr.sn hdr.ts) (pushed_seg hdr payload)
  have hack : ack_part (ikcp_ack_push K hdr.sn hdr.ts) =
      (K.acklist.take K.ackcount ++ [(hdr.sn, hdr.ts)], (K.ackcount + 1) % 4294967296) := by
    unfold ack_part
    rw [a1, a2]
  have hstep : ikcp_input_push K hdr.conv hdr.cmd hdr.frg hdr.wnd hdr.ts hdr.sn hdr.una
      hdr.len payload =
      (if _itimediff hdr.sn ((K.rcv_nxt + K.rcv_wnd) % 4294967296) < 0 then
        (if _itimediff hdr.sn (ikcp_ack_push K hdr.sn hdr.ts).rcv_nxt ≥ 0 then
          ikcp_parse_data (ikcp_ack_push K hdr.sn hdr.ts) (pushed_seg hdr payload)
        else ikcp_ack_push K hdr.sn hdr.ts)
      else K) := rfl
  rw [hstep, r1]
  constructor
  · intro hout
    rw [if_neg hout]
  · intro hin
    rw [if_pos hin]
    refine ⟨?_, ?_, ?_⟩
    · split
      · rw [hpd]; exact hack
      · exact hack
    · intro hlt
      rw [if_neg (by omega)]
      exact hrp
    · intro hge
      rw [if_pos hge]
      have hw : ¬ (_itimediff (pushed_seg hdr payload).sn
          (((ikcp_ack_push K hdr.sn hdr.ts).rcv_nxt +
            (ikcp_ack_push K hdr.sn hdr.ts).rcv_wnd) % 4294967296) ≥ 0 ∨
          _itimediff (pushed_seg hdr payload).sn (ikcp_ack_push K hdr.sn hdr.ts).rcv_nxt < 0) := by
        rw [r1, r2]
        show ¬ (_itimediff hdr.sn ((K.rcv_nxt + K.rcv_wnd) % 4294967296) ≥ 0 ∨
          _itimediff hdr.sn K.rcv_nxt < 0)
        omega
      have hc := ikcp_parse_data_concat (ikcp_ack_push K hdr.sn hdr.ts) (pushed_seg hdr payload)
        hsn hR2 hw
      rw [r3, r4] at hc
      exact hc

/-- C23: the acceptance window of a PUSH record. For a control block `kcp` that the
record loop of `ikcp_input` reaches from a reachable one and a PUSH record with a 32-bit
`sn`: outside the window (`_itimediff sn (rcv_nxt + rcv_wnd) >= 0`) the record leaves the
ack list and the receive side as they were; inside the window `(sn, ts)` is appended to
the ack list; inside the window and behind `rcv_nxt` the receive side is unchanged;
inside the window and not behind `rcv_nxt`, a record whose `sn` is already in `rcv_buf`
leaves the sequence `rcv_queue ++ rcv_buf` as it was, and any other record adds exactly
its segment to that sequence. -/
theorem C23_push_window (kcp0 : IKCPCB) (h : Reachable kcp0) (fuel : Nat) (data0 : List Nat)
    (kcp : IKCPCB) (hk : kcp = (ikcp_input_loop fuel kcp0 data0 0 0 0).2.1)
    (hdr : IKCPSEG) (payload : List Nat) (flag : Int) (a b : Nat)
    (hc : hdr.cmd = IKCP_CMD_PUSH) (hsn : hdr.sn < 4294967296) :
    (ikcp_input_record kcp hdr payload flag a b).1 = 0 ∧
    (¬ _itimediff hdr.sn ((kcp.rcv_nxt + kcp.rcv_wnd) % 4294967296) < 0 →
      ack_part (ikcp_input_record kcp hdr payload flag a b).2.1 = ack_part kcp ∧
      rcv_part (ikcp_input_record kcp hdr payload flag a b).2.1 = rcv_part kcp) ∧
    (_itimediff hdr.sn ((kcp.rcv_nxt + kcp.rcv_wnd) % 4294967296) < 0 →
      ack_part (ikcp_input_record kcp hdr payload flag a b).2.1 =
        (kcp.acklist.take kcp.ackcount ++ [(hdr.sn, hdr.ts)],
          (kcp.ackcount + 1) % 4294967296) ∧
      (_itimediff hdr.sn kcp.rcv_nxt < 0 →
        rcv_part (ikcp_input_record kcp hdr payload flag a b).2.1 = rcv_part kcp) ∧
      (_itimediff hdr.sn kcp.rcv_nxt ≥ 0 →
        ((∃ s ∈ kcp.rcv_buf, s.sn = hdr.sn) →
          (ikcp_input_record kcp hdr payload flag a b).2.1.rcv_queue ++
            (ikcp_input_record kcp hdr payload flag a b).2.1.rcv_buf =
              kcp.rcv_queue ++ kcp.rcv_buf) ∧
        ((¬ ∃ s ∈ kcp.rcv_buf, s.sn = hdr.sn) →
          (∀ x, x ∈ (ikcp_input_record kcp hdr payload flag a b).2.1.rcv_queue ++
              (ikcp_input_record kcp hdr payload flag a b).2.1.rcv_buf ↔
            x = pushed_seg hdr payload ∨ x ∈ kcp.rcv_queue ++ kcp.rcv_buf) ∧
          ((ikcp_input_record kcp hdr payload flag a b).2.1.rcv_queue ++
              (ikcp_input_record kcp hdr payload flag a b).2.1.rcv_buf).length =
            (kcp.rcv_queue ++ kcp.rcv_buf).length + 1))) := by
  have hR : RcvOrd (rcv_core kcp) := by
    rw [hk]; exact RcvOrd_input_loop fuel kcp0 data0 0 0 0 (Reachable_RcvOrd kcp0 h)
  have hR1 : RcvOrd (rcv_core
      (ikcp_shrink_buf (ikcp_parse_una { kcp with rmt_wnd := hdr.wnd } hdr.una))) := by
    rw [ikcp_input_una_core]; exact hR
  have hrp := ikcp_input_una_rcv kcp hdr.wnd hdr.una
  have hap := ikcp_input_una_ack kcp hdr.wnd hdr.una
  have r1 := congrArg RcvPart.rcv_nxt hrp
  have r2 := congrArg RcvPart.rcv_wnd hrp
  have r3 := congrArg RcvPart.rcv_buf hrp
  have r4 := congrArg RcvPart.rcv_queue hrp
  have r5 : (ikcp_shrink_buf (ikcp_parse_una { kcp with rmt_wnd := hdr.wnd }
      hdr.una)).acklist = kcp.acklist := congrArg Prod.fst hap
  have r6 : (ikcp_shrink_buf (ikcp_parse_una { kcp with rmt_wnd := hdr.wnd }
      hdr.una)).ackcount = kcp.ackcount := congrArg Prod.snd hap
  have r1' : (ikcp_shrink_buf (ikcp_parse_una { kcp with rmt_wnd := hdr.wnd }
      hdr.una)).rcv_nxt = kcp.rcv_nxt := r1
  have r2' : (ikcp_shrink_buf (ikcp_parse_una { kcp with rmt_wnd := hdr.wnd }
      hdr.una)).rcv_wnd = kcp.rcv_wnd := r2
  have r3' : (ikcp_shrink_buf (ikcp_parse_una { kcp with rmt_wnd := hdr.wnd }
      hdr.una)).rcv_buf = kcp.rcv_buf := r3
  have r4' : (ikcp_shrink_buf (ikcp_parse_una { kcp with rmt_wnd := hdr.wnd }
      hdr.una)).rcv_queue = kcp.rcv_queue := r4
  have e := ikcp_input_record_push kcp hdr payload flag a b hc
  have e0 : (ikcp_input_record kcp hdr payload flag a b).1 = 0 := by rw [e]
  have e1 : (ikcp_input_record kcp hdr payload flag a b).2.1 =
      ikcp_input_push (ikcp_shrink_buf (ikcp_parse_una { kcp with rmt_wnd := hdr.wnd } hdr.una))
        hdr.conv hdr.cmd hdr.frg hdr.wnd hdr.ts hdr.sn hdr.una hdr.len payload := by rw [e]
  have hW := ikcp_input_push_window _ hdr payload hsn hR1
  rw [← e1, r1', r2', r3', r4', r5, r6, hrp] at hW
  obtain ⟨w1, w2⟩ := hW
  refine ⟨e0, ?_, w2⟩
  intro hout
  rw [w1 hout]
  exact ⟨hap, hrp⟩

theorem C23_push_window_witness :
    kcpGap.rcv_nxt = 1 ∧
    (kcpGap.rcv_queue ++ kcpGap.rcv_buf).map (fun s => s.sn) = [0, 2, 3] ∧
    ack_part (ikcp_input_record kcpGap (record_header (pushRecord 1 1 [8])) [8] 0 0 0).2.1 =
      (kcpGap.acklist.take kcpGap.ackcount ++ [(1, 0)], 4) ∧
    ((ikcp_input_record kcpGap (record_header (pushRecord 1 1 [8])) [8] 0 0 0).2.1.rcv_queue ++
      (ikcp_input_record kcpGap (record_header (pushRecord 1 1 [8])) [8] 0 0
        0).2.1.rcv_buf).length = 4 := by
  have hr : Reachable kcpGap :=
    Reachable.input _ (some (pushDatagram 1 0 [7]))
      (Reachable.input _ (some (pushDatagram 1 3 [6]))
        (Reachable.input _ (some (pushDatagram 1 2 [5])) (Reachable.create 1 (by decide))))
  have hw := (C23_push_window kcpGap hr 0 [] kcpGap rfl (record_header (pushRecord 1 1 [8]))
    [8] 0 0 0 rfl (by decide)).2.2 (by decide!)
  exact ⟨by decide!, by decide!, hw.1,
    ((hw.2.2 (by decide!)).2 (by decide!)).2.trans (by decide!)⟩

/-- C23, counterexamples. (1) A fresh receiver (`rcv_nxt = 0`, `rcv_wnd = 128`) gets a
PUSH with `sn = 2^31 + 5`: the record lies behind `rcv_nxt` in signed order
(`_itimediff sn rcv_nxt < 0`) but not before `rcv_nxt + rcv_wnd`, and `ikcp_input`
returns 0 with the ack list still empty. (2) The receiver `kcpGap` (`rcv_nxt = 1`,
segments 2 and 3 in `rcv_buf`) gets a PUSH with `sn = 2` and the payload `[9]`: the record
is inside the window and not behind `rcv_nxt`, it is acknowledged, and its payload is
not stored: `rcv_buf` and `rcv_queue` are as before. -/
theorem C23_counterexample :
    ((ikcp_create 1).rcv_nxt = 0 ∧ (ikcp_create 1).rcv_wnd = 128 ∧
      _itimediff 2147483653 (ikcp_create 1).rcv_nxt < 0 ∧
      ¬ _itimediff 2147483653
        (((ikcp_create 1).rcv_nxt + (ikcp_create 1).rcv_wnd) % 4294967296) < 0 ∧
      (ikcp_input (ikcp_create 1) (some (pushDatagram 1 2147483653 [9]))).1 = 0 ∧
      ack_part (ikcp_input (ikcp_create 1) (some (pushDatagram 1 2147483653 [9]))).2 =
        ([], 0)) ∧
    (kcpGap.rcv_nxt = 1 ∧ kcpGap.rcv_wnd = 128 ∧
      _itimediff 2 ((kcpGap.rcv_nxt + kcpGap.rcv_wnd) % 4294967296) < 0 ∧
      _itimediff 2 kcpGap.rcv_nxt ≥ 0 ∧
      (ikcp_input kcpGap (some (pushDatagram 1 2 [9]))).1 = 0 ∧
      (ikcp_input kcpGap (some (pushDatagram 1 2 [9]))).2.ackcount = kcpGap.ackcount + 1 ∧
      (ikcp_input kcpGap (some (pushDatagram 1 2 [9]))).2.acklist.getLast? = some (2, 0) ∧
      (ikcp_input kcpGap (some (pushDatagram 1 2 [9]))).2.rcv_buf = kcpGap.rcv_buf ∧
      (ikcp_input kcpGap (some (pushDatagram 1 2 [9]))).2.rcv_queue = kcpGap.rcv_queue ∧
      kcpGap.rcv_buf.map (fun s => (s.sn, s.data)) = [(2, [5]), (3, [6])] ∧
      kcpGap.rcv_queue.map (fun s => (s.sn, s.data)) = [(0, [7])]) := by
  decide!

/-! ## Idle flushes, the update clock, and a run in stream mode (C21) -/

theorem ikcp_ack_push_probe (kcp : IKCPCB) (sn ts : Nat) :
    (ikcp_ack_push kcp sn ts).probe = kcp.probe := by
  unfold ikcp_ack_push
  simp only []
  split <;> rfl

theorem ikcp_flush_probe_clk (kcp : IKCPCB) :
    clk_part (ikcp_flush_probe kcp) = clk_part kcp := by
  unfold ikcp_flush_probe clk_part
  split
  · split
    · rfl
    · split <;> rfl
  · rfl

theorem ikcp_flush_promote_ctl (cwnd wnd current : Nat) (l : List IKCPSEG) :
    ∀ kcp : IKCPCB,
      clk_part (ikcp_flush_promote cwnd wnd current kcp l) = clk_part kcp ∧
      sig_part (ikcp_flush_promote cwnd wnd current kcp l) = sig_part kcp := by
  induction l with
  | nil => intro kcp; exact ⟨rfl, rfl⟩
  | cons a t ih =>
    intro kcp
    rw [ikcp_flush_promote]
    split
    · exact ih _
    · exact ⟨rfl, rfl⟩

theorem ikcp_flush_send_ctl (kcp : IKCPCB) (current cwnd wnd : Nat) (st : FlushState) :
    clk_part (ikcp_flush_send kcp current cwnd wnd st).1 = clk_part kcp ∧
    sig_part (ikcp_flush_send kcp current cwnd wnd st).1 = sig_part kcp := by
  rw [ikcp_flush_send_eq, ikcp_flush_cwnd_fields]
  exact ⟨rfl, rfl⟩

theorem ikcp_flush_clk (kcp : IKCPCB) : clk_part (ikcp_flush kcp).1 = clk_part kcp := by
  by_cases hu : kcp.updated = 0
  · unfold ikcp_flush
    rw [if_pos hu]
  · rw [ikcp_flush_eq kcp hu, (ikcp_flush_send_ctl _ _ _ _ _).1]
    unfold flush_promoted
    rw [(ikcp_flush_promote_ctl _ _ _ _ _).1]
    exact ikcp_flush_probe_clk { kcp with ackcount := 0 }

theorem ikcp_flush_sig (kcp : IKCPCB) (hu : kcp.updated ≠ 0) :
    sig_part (ikcp_flush kcp).1 =
      sig_part { ikcp_flush_probe { kcp with ackcount := 0 } with probe := 0 } := by
  rw [ikcp_flush_eq kcp hu, (ikcp_flush_send_ctl _ _ _ _ _).2]
  unfold flush_promoted
  rw [(ikcp_flush_promote_ctl _ _ _ _ _).2]

theorem itimediff_step (t f i : Nat) (hi1 : i < 2147483648)
    (h0 : 0 ≤ _itimediff t f) (h1 : _itimediff t f < 10000)
    (h2 : ¬ _itimediff t ((f + i) % 4294967296) ≥ 0) :
    0 < _itimediff ((f + i) % 4294967296) t ∧
    _itimediff ((f + i) % 4294967296) t ≤ (i : Int) := by
  unfold _itimediff i32 at *
  push_cast at *
  omega

theorem update_clock_restart (kcp : IKCPCB) (t : Nat)
    (h : kcp.updated = 0 ∨ _itimediff t kcp.ts_flush ≥ 10000 ∨
      _itimediff t kcp.ts_flush < -10000) :
    update_clock kcp t =
      ({ kcp with
          current := t
          updated := if kcp.updated = 0 then 1 else kcp.updated
          ts_flush := (t + kcp.interval) % 4294967296 }, true) := by
  have h00 : (0 : Int) ≥ 0 := le_refl 0
  have hdec : ¬ ((0 : Int) ≥ 10000 ∨ (0 : Int) < -10000) := by omega
  unfold update_clock
  by_cases hu : kcp.updated = 0
  · simp only [hu, if_true, itimediff_self, hdec, decide_False, Bool.false_eq_true, if_false,
      h00, ite_self]
  · have hr : _itimediff t kcp.ts_flush ≥ 10000 ∨ _itimediff t kcp.ts_flush < -10000 := by
      rcases h with h | h
      · exact absurd h hu
      · exact h
    simp only [hu, if_false, hr, decide_True, if_true, h00, ite_self]

theorem update_clock_advance (kcp : IKCPCB) (t : Nat) (hu : kcp.updated ≠ 0)
    (h0 : 0 ≤ _itimediff t kcp.ts_flush) (h1 : _itimediff t kcp.ts_flush < 10000) :
    update_clock kcp t =
      ({ kcp with
          current := t
          ts_flush :=
            if _itimediff t ((kcp.ts_flush + kcp.interval) % 4294967296) ≥ 0 then
              (t + kcp.interval) % 4294967296
            else (kcp.ts_flush + kcp.interval) % 4294967296 }, true) := by
  have hr : ¬ (_itimediff t kcp.ts_flush ≥ 10000 ∨ _itimediff t kcp.ts_flush < -10000) := by
    omega
  have h0' : _itimediff t kcp.ts_flush ≥ 0 := h0
  unfold update_clock
  simp only [hu, if_false, hr, decide_False, Bool.false_eq_true, h0', if_true]

theorem update_clock_idle (kcp : IKCPCB) (t : Nat) (hu : kcp.updated ≠ 0)
    (h0 : ¬ _itimediff t kcp.ts_flush ≥ 0) (h1 : ¬ _itimediff t kcp.ts_flush < -10000) :
    update_clock kcp t = ({ kcp with current := t }, false) := by
  have hr : ¬ (_itimediff t kcp.ts_flush ≥ 10000 ∨ _itimediff t kcp.ts_flush < -10000) := by
    omega
  unfold update_clock
  simp only [hu, if_false, hr, decide_False, Bool.false_eq_true, h0]

/-- C34: whenever `ikcp_check(kcp, t)` returns a time other than `t`, `ikcp_update(kcp, t)`
runs no flush: it emits no datagram and leaves every field of the control block as it
was, except `current`, which becomes `t`. (A result other than `t` already implies that
`ikcp_update` has been called before; no bound on `interval` is needed.) -/
theorem C34_check_update_idle (kcp : IKCPCB) (t : Nat) (h : ikcp_check kcp t ≠ t) :
    ikcp_update kcp t = ({ kcp with current := t }, []) := by
  have hu : kcp.updated ≠ 0 := fun e => h (ikcp_check_never_updated kcp t e)
  have h0 : ¬ _itimediff t kcp.ts_flush ≥ 0 :=
    fun e => h (ikcp_check_flush_due kcp t (Or.inl e))
  have h1 : ¬ _itimediff t kcp.ts_flush < -10000 :=
    fun e => h (ikcp_check_flush_due kcp t (Or.inr e))
  rw [ikcp_update_eq, update_clock_idle kcp t hu h0 h1]
  rfl

theorem C34_check_update_idle_witness :
    ikcp_check (ikcp_update (ikcp_create 1) 0).1 50 ≠ 50 ∧
    ikcp_update (ikcp_update (ikcp_create 1) 0).1 50 =
      ({ (ikcp_update (ikcp_create 1) 0).1 with current := 50 }, []) :=
  ⟨by decide, C34_check_update_idle (ikcp_update (ikcp_create 1) 0).1 50 (by decide)⟩

/-- C33 (amended): `ikcp_update(current)` records `current`. On the first call, or when
the signed 32-bit `slap = current - ts_flush` satisfies `slap >= 10000` or
`slap < -10000`, it restarts the schedule: it runs `ikcp_flush` exactly once with
`updated` set and `ts_flush = current + interval`. When `0 <= slap < 10000` it runs
`ikcp_flush` exactly once with `ts_flush` advanced by `interval`, or set to
`current + interval` if the advanced value is still not later than `current`. When
`-10000 <= slap < 0` (the bound `-10000` included) it runs no flush and changes only
`current`. Whenever it flushes, afterwards `0 < ts_flush - current <= interval`. -/
theorem C33_update_schedule (kcp : IKCPCB) (t : Nat)
    (hi0 : 0 < kcp.interval) (hi1 : kcp.interval < 2147483648) :
    (ikcp_update kcp t).1.current = t ∧
    (kcp.updated = 0 →
      ikcp_update kcp t =
        ikcp_flush { kcp with
          current := t, updated := 1, ts_flush := (t + kcp.interval) % 4294967296 }) ∧
    (kcp.updated ≠ 0 →
      (_itimediff t kcp.ts_flush ≥ 10000 ∨ _itimediff t kcp.ts_flush < -10000 →
        ikcp_update kcp t =
          ikcp_flush { kcp with current := t, ts_flush := (t + kcp.interval) % 4294967296 }) ∧
      (0 ≤ _itimediff t kcp.ts_flush → _itimediff t kcp.ts_flush < 10000 →
        ikcp_update kcp t =
          ikcp_flush { kcp with
            current := t
            ts_flush :=
              if _itimediff t ((kcp.ts_flush + kcp.interval) % 4294967296) ≥ 0 then
                (t + kcp.interval) % 4294967296
              else (kcp.ts_flush + kcp.interval) % 4294967296 }) ∧
      (-10000 ≤ _itimediff t kcp.ts_flush → _itimediff t kcp.ts_flush < 0 →
        ikcp_update kcp t = ({ kcp with current := t }, []))) ∧
    (¬ (kcp.updated ≠ 0 ∧ -10000 ≤ _itimediff t kcp.ts_flush ∧
        _itimediff t kcp.ts_flush < 0) →
      0 < _itimediff (ikcp_update kcp t).1.ts_flush t ∧
      _itimediff (ikcp_update kcp t).1.ts_flush t ≤ kcp.interval) := by
  have hsmall := itimediff_add_small t kcp.interval hi1
  have hcur : ∀ K : IKCPCB, (ikcp_flush K).1.current = K.current :=
    fun K => congrArg Prod.fst (ikcp_flush_clk K)
  have hts : ∀ K : IKCPCB, (ikcp_flush K).1.ts_flush = K.ts_flush :=
    fun K => congrArg (fun p => p.2.2.1) (ikcp_flush_clk K)
  have hA : kcp.updated = 0 ∨ _itimediff t kcp.ts_flush ≥ 10000 ∨
      _itimediff t kcp.ts_flush < -10000 →
      ikcp_update kcp t =
        ikcp_flush { kcp with
          current := t
          updated := if kcp.updated = 0 then 1 else kcp.updated
          ts_flush := (t + kcp.interval) % 4294967296 } := by
    intro h
    rw [ikcp_update_eq, update_clock_restart kcp t h]
    rfl
  have hB : kcp.updated ≠ 0 → 0 ≤ _itimediff t kcp.ts_flush →
      _itimediff t kcp.ts_flush < 10000 →
      ikcp_update kcp t =
        ikcp_flush { kcp with
          current := t
          ts_flush :=
            if _itimediff t ((kcp.ts_flush + kcp.interval) % 4294967296) ≥ 0 then
              (t + kcp.interval) % 4294967296
            else (kcp.ts_flush + kcp.interval) % 4294967296 } := by
    intro hu h0 h1
    rw [ikcp_update_eq, update_clock_advance kcp t hu h0 h1]
    rfl
  have hC : kcp.updated ≠ 0 → -10000 ≤ _itimediff t kcp.ts_flush →
      _itimediff t kcp.ts_flush < 0 →
      ikcp_update kcp t = ({ kcp with current := t }, []) := by
    intro hu h0 h1
    rw [ikcp_update_eq, update_clock_idle kcp t hu (by omega) (by omega)]
    rfl
  refine ⟨?_, ?_, ?_, ?_⟩
  · by_cases hr : kcp.updated = 0 ∨ _itimediff t kcp.ts_flush ≥ 10000 ∨
        _itimediff t kcp.ts_flush < -10000
    · rw [hA hr, hcur]
    · have hu : kcp.updated ≠ 0 := fun e => hr (Or.inl e)
      by_cases h0 : 0 ≤ _itimediff t kcp.ts_flush
      · rw [hB hu h0 (by omega), hcur]
      · rw [hC hu (by omega) (by omega)]
  · intro hu
    rw [hA (Or.inl hu), if_pos hu]
  · intro hu
    refine ⟨fun hr => ?_, hB hu, hC hu⟩
    rw [hA (Or.inr hr), if_neg hu]
  · intro hn
    by_cases hr : kcp.updated = 0 ∨ _itimediff t kcp.ts_flush ≥ 10000 ∨
        _itimediff t kcp.ts_flush < -10000
    · rw [hA hr, hts]
      show 0 < _itimediff ((t + kcp.interval) % 4294967296) t ∧
        _itimediff ((t + kcp.interval) % 4294967296) t ≤ kcp.interval
      rw [hsmall]
      omega
    · have hu : kcp.updated ≠ 0 := fun e => hr (Or.inl e)
      have h0 : 0 ≤ _itimediff t kcp.ts_flush := by
        by_contra hc
        exact hn ⟨hu, by omega, by omega⟩
      rw [hB hu h0 (by omega), hts]
      show 0 < _itimediff (if _itimediff t ((kcp.ts_flush + kcp.interval) % 4294967296) ≥ 0
          then (t + kcp.interval) % 4294967296
          else (kcp.ts_flush + kcp.interval) % 4294967296) t ∧
        _itimediff (if _itimediff t ((kcp.ts_flush + kcp.interval) % 4294967296) ≥ 0
          then (t + kcp.interval) % 4294967296
          else (kcp.ts_flush + kcp.interval) % 4294967296) t ≤ kcp.interval
      by_cases hs : _itimediff t ((kcp.ts_flush + kcp.interval) % 4294967296) ≥ 0
      · rw [if_pos hs, hsmall]
        omega
      · rw [if_neg hs]
        exact itimediff_step t kcp.ts_flush kcp.interval hi1 h0 (by omega) hs

theorem C33_update_schedule_witness :
    0 < kcpBackStep.interval ∧ kcpBackStep.interval < 2147483648 ∧
    (ikcp_update kcpBackStep 10150).1.current = 10150 ∧
    (ikcp_update kcpBackStep 10150).1.ts_flush = 10200 :=
  ⟨by decide, by decide,
    (C33_update_schedule kcpBackStep 10150 (by decide) (by decide)).1, by decide!⟩

/-- C33, counterexample: the control block was last updated at time 10000, so
`ts_flush = 10100`, and holds one queued message. An update at time 100 finds
`slap = -10000`, hence `|slap| >= 10000`, yet the clock is not treated as reset: no flush
runs, nothing is emitted and `ts_flush` stays 10100, whereas a flush at time 100 would
have sent the message. -/
theorem C33_counterexample :
    Reachable kcpBackStep ∧ kcpBackStep.updated = 1 ∧ kcpBackStep.ts_flush = 10100 ∧
    _itimediff 100 kcpBackStep.ts_flush = -10000 ∧
    ikcp_update kcpBackStep 100 = ({ kcpBackStep with current := 100 }, []) ∧
    (ikcp_update kcpBackStep 100).1.ts_flush = 10100 ∧
    (ikcp_flush { kcpBackStep with current := 100, ts_flush := 200 }).2.length = 1 :=
  ⟨Reachable.send _ _ _
      (Reachable.update _ _ (Reachable.create 1 (by decide)) (by decide))
      (by decide) (by decide),
    by decide!, by decide!, by decide!, by decide!, by decide!, by decide!⟩

/-! ## Invariant of the pending signals -/

theorem SigInv_of_part (k1 k2 : IKCPCB) (h : sig_part k2 = sig_part k1) (h1 : SigInv k1) :
    SigInv k2 := by
  unfold sig_part at h
  simp only [Prod.mk.injEq] at h
  obtain ⟨a, b, _, d, e⟩ := h
  unfold SigInv
  rw [a, b, d, e]
  exact h1

theorem SigInv_tell (kcp : IKCPCB) (h : SigInv kcp) :
    SigInv { kcp with probe := kcp.probe ||| IKCP_ASK_TELL } := by
  refine ⟨Or.inr ?_, h.2⟩
  show kcp.probe ||| IKCP_ASK_TELL = IKCP_ASK_TELL
  rcases h.1 with e | e <;> rw [e] <;> rfl

theorem ikcp_update_ack_sig (kcp : IKCPCB) (rtt : Int) :
    sig_part (ikcp_update_ack kcp rtt) = sig_part kcp := by
  unfold ikcp_update_ack; simp only []; split <;> rfl

theorem ikcp_shrink_buf_sig (kcp : IKCPCB) : sig_part (ikcp_shrink_buf kcp) = sig_part kcp := by
  unfold ikcp_shrink_buf
  split <;> rfl

theorem ikcp_parse_una_loop_sig (una : Nat) (l : List IKCPSEG) :
    ∀ kcp : IKCPCB, sig_part (ikcp_parse_una_loop una kcp l) = sig_part kcp := by
  induction l with
  | nil => intro kcp; rfl
  | cons s t ih =>
    intro kcp
    rw [ikcp_parse_una_loop]
    split
    · rw [ih]; rfl
    · rfl

theorem ikcp_input_una_sig (kcp : IKCPCB) (wnd una : Nat) :
    sig_part (ikcp_shrink_buf (ikcp_parse_una { kcp with rmt_wnd := wnd } una)) =
      sig_part kcp := by
  rw [ikcp_shrink_buf_sig]
  exact ikcp_parse_una_loop_sig una kcp.snd_buf { kcp with rmt_wnd := wnd }

theorem ikcp_parse_ack_sig (kcp : IKCPCB) (sn : Nat) :
    sig_part (ikcp_parse_ack kcp sn) = sig_part kcp := by
  unfold ikcp_parse_ack
  split
  · rfl
  · rfl

theorem ikcp_input_ack_sig (kcp : IKCPCB) (ts sn : Nat) :
    sig_part (ikcp_input_ack kcp ts sn) = sig_part kcp := by
  unfold ikcp_input_ack
  simp only []
  rw [ikcp_shrink_buf_sig, ikcp_parse_ack_sig]
  split
  · exact ikcp_update_ack_sig _ _
  · rfl

theorem ikcp_move_rcv_buf_sig (l : List IKCPSEG) :
    ∀ kcp : IKCPCB, sig_part (ikcp_move_rcv_buf kcp l) = sig_part kcp := by
  induction l with
  | nil => intro kcp; rfl
  | cons s t ih =>
    intro kcp
    rw [ikcp_move_rcv_buf]
    split
    · rw [ih]; rfl
    · rfl

theorem ikcp_parse_data_sig (kcp : IKCPCB) (seg : IKCPSEG) :
    sig_part (ikcp_parse_data kcp seg) = sig_part kcp := by
  unfold ikcp_parse_data
  simp only []
  split
  · rfl
  · rw [ikcp_move_rcv_buf_sig]
    split <;> rfl

theorem SigInv_ack_push (kcp : IKCPCB) (sn ts : Nat) (hsn : sn < 4294967296)
    (hts : ts < 4294967296) (h : SigInv kcp) : SigInv (ikcp_ack_push kcp sn ts) := by
  obtain ⟨a1, a2⟩ := ikcp_ack_push_vals kcp sn ts
  have hp : (ikcp_ack_push kcp sn ts).probe = kcp.probe := ikcp_ack_push_probe kcp sn ts
  have hw : (ikcp_ack_push kcp sn ts).probe_wait = kcp.probe_wait := by
    unfold ikcp_ack_push
    simp only []
    split <;> rfl
  obtain ⟨h1, h2, h3, h4⟩ := h
  unfold SigInv
  rw [hp, hw, a1, a2]
  refine ⟨h1, h2, ?_, ?_⟩
  · rw [List.length_append, List.length_take, List.length_singleton]
    have := Nat.mod_le (kcp.ackcount + 1) 4294967296
    omega
  · intro a ha
    rcases List.mem_append.mp ha with hm | hm
    · exact h4 a (List.mem_of_mem_take hm)
    · rw [List.mem_singleton] at hm
      rw [hm]
      exact ⟨hsn, hts⟩

theorem SigInv_input_push (kcp : IKCPCB) (conv cmd frg wnd ts sn una len : Nat)
    (data : List Nat) (hsn : sn < 4294967296) (hts : ts < 4294967296) (h : SigInv kcp) :
    SigInv (ikcp_input_push kcp conv cmd frg wnd ts sn una len data) := by
  have hp := SigInv_ack_push kcp sn ts hsn hts h
  unfold ikcp_input_push
  simp only []
  split
  · split
    · exact SigInv_of_part _ _ (ikcp_parse_data_sig _ _) hp
    · exact hp
  · exact h

theorem SigInv_input_record (kcp : IKCPCB) (hdr : IKCPSEG) (payload : List Nat)
    (flag : Int) (a b : Nat) (hsn : hdr.sn < 4294967296) (hts : hdr.ts < 4294967296)
    (h : SigInv kcp) : SigInv (ikcp_input_record kcp hdr payload flag a b).2.1 := by
  have h1 : SigInv (ikcp_shrink_buf (ikcp_parse_una { kcp with rmt_wnd := hdr.wnd } hdr.una)) :=
    SigInv_of_part _ _ (ikcp_input_una_sig kcp hdr.wnd hdr.una) h
  unfold ikcp_input_record
  simp only []
  split
  · have h2 := SigInv_of_part _ _ (ikcp_input_ack_sig _ hdr.ts hdr.sn) h1
    split
    · exact h2
    · split <;> exact h2
  · split
    · exact SigInv_input_push _ _ _ _ _ _ _ _ _ _ hsn hts h1
    · split
      · exact SigInv_tell _ h1
      · split <;> exact h1

theorem SigInv_input_loop (fuel : Nat) :
    ∀ (kcp : IKCPCB) (data : List Nat) (flag : Int) (a b : Nat), SigInv kcp →
      SigInv (ikcp_input_loop fuel kcp data flag a b).2.1 := by
  induction fuel with
  | zero => intro kcp data flag a b h; exact h
  | succ n ih =>
    intro kcp data flag a b h
    obtain ⟨_, _, _, _, r5, r6, _, _⟩ := ikcp_decode_seg_ranges data
    have hr := SigInv_input_record kcp (ikcp_decode_seg data).1 (ikcp_decode_seg data).2
      flag a b r6 r5 h
    rw [ikcp_input_loop]
    split
    · exact h
    · split
      · exact h
      · split
        · exact h
        · split
          · exact h
          · split
            · exact hr
            · exact ih _ _ _ _ _ hr

theorem ikcp_parse_fastack_sig (kcp : IKCPCB) (sn ts : Nat) :
    sig_part (ikcp_parse_fastack kcp sn ts) = sig_part kcp := by
  unfold ikcp_parse_fastack
  split
  · rfl
  · rfl

theorem ikcp_input_cwnd_sig (kcp : IKCPCB) (prev_una : Nat) :
    sig_part (ikcp_input_cwnd kcp prev_una) = sig_part kcp := by
  rw [ikcp_input_cwnd_fields]
  rfl

theorem SigInv_input (kcp : IKCPCB) (data : Option (List Nat)) (h : SigInv kcp) :
    SigInv (ikcp_input kcp data).2 := by
  cases data with
  | none => exact h
  | some d =>
    have hl := SigInv_input_loop d.length kcp d 0 0 0 h
    have hf : SigInv (ikcp_input_finish (ikcp_input_loop d.length kcp d 0 0 0)
        kcp.snd_una).2 := by
      unfold ikcp_input_finish
      split
      · exact hl
      · apply SigInv_of_part _ _ (ikcp_input_cwnd_sig _ _)
        split
        · exact SigInv_of_part _ _ (ikcp_parse_fastack_sig _ _ _) hl
        · exact hl
    rw [ikcp_input_some]
    exact ite_snd_cases _ _ SigInv h hf

theorem ikcp_send_loop_sig (count : Int) (fuel : Nat) :
    ∀ (i : Int) (kcp : IKCPCB) (buffer : List Nat) (len : Int),
      sig_part (ikcp_send_loop count fuel i kcp buffer len) = sig_part kcp := by
  induction fuel with
  | zero => intro i kcp buffer len; rfl
  | succ n ih =>
    intro i kcp buffer len
    rw [ikcp_send_loop]
    split
    · rw [ih]; rfl
    · rfl

theorem ikcp_send_stream_sig (kcp : IKCPCB) (buffer : List Nat) (len : Int) :
    sig_part (ikcp_send_stream kcp buffer len).1 = sig_part kcp := by
  unfold ikcp_send_stream
  split
  · rfl
  · split
    · rfl
    · rfl

theorem ikcp_send_sig (kcp : IKCPCB) (buffer : List Nat) (len : Int) :
    sig_part (ikcp_send kcp buffer len).2 = sig_part kcp := by
  have hs : sig_part (if kcp.stream ≠ 0 then ikcp_send_stream kcp buffer len
      else (kcp, buffer, len)).1 = sig_part kcp := by
    split
    · exact ikcp_send_stream_sig kcp buffer len
    · rfl
  rcases ikcp_send_cases kcp buffer len with e | ⟨_, e⟩ | ⟨_, count, fuel, e⟩
  · rw [e]
  · rw [e]; exact hs
  · rw [e, ikcp_send_loop_sig]; exact hs

theorem SigInv_recv_finish (kcp : IKCPCB) (recover : Int) (h : SigInv kcp) :
    SigInv (ikcp_recv_finish kcp recover) := by
  have hm := SigInv_of_part _ _ (ikcp_move_rcv_buf_sig kcp.rcv_buf kcp) h
  unfold ikcp_recv_finish
  simp only []
  split
  · exact SigInv_tell _ hm
  · exact hm

theorem SigInv_recv (kcp : IKCPCB) (buffer : Bool) (len : Int) (h : SigInv kcp) :
    SigInv (ikcp_recv kcp buffer len).2.2 := by
  unfold ikcp_recv
  simp only []
  refine ite_trd_cases _ _ SigInv h ?_
  refine ite_trd_cases _ _ SigInv h ?_
  refine ite_trd_cases _ _ SigInv h ?_
  exact SigInv_recv_finish _ _ h

theorem ikcp_flush_probe_vals (K : IKCPCB)
    (h2 : K.probe_wait = 0 ∨ (7000 ≤ K.probe_wait ∧ K.probe_wait ≤ 120000)) :
    (K.rmt_wnd ≠ 0 →
      (ikcp_flush_probe K).probe_wait = 0 ∧ (ikcp_flush_probe K).ts_probe = 0 ∧
      (ikcp_flush_probe K).probe = K.probe) ∧
    (K.rmt_wnd = 0 → K.probe_wait = 0 →
      (ikcp_flush_probe K).probe_wait = 7000 ∧
      (ikcp_flush_probe K).ts_probe = (K.current + 7000) % 4294967296 ∧
      (ikcp_flush_probe K).probe = K.probe) ∧
    (K.rmt_wnd = 0 → K.probe_wait ≠ 0 → _itimediff K.current K.ts_probe ≥ 0 →
      (ikcp_flush_probe K).probe_wait = min 120000 (K.probe_wait + K.probe_wait / 2) ∧
      (ikcp_flush_probe K).ts_probe =
        (K.current + min 120000 (K.probe_wait + K.probe_wait / 2)) % 4294967296 ∧
      (ikcp_flush_probe K).probe = K.probe ||| IKCP_ASK_SEND) ∧
    (K.rmt_wnd = 0 → K.probe_wait ≠ 0 → ¬ _itimediff K.current K.ts_probe ≥ 0 →
      ikcp_flush_probe K = K) := by
  refine ⟨fun hr => ?_, fun hr hw => ?_, fun hr hw ht => ?_, fun hr hw ht => ?_⟩
  · unfold ikcp_flush_probe
    rw [if_neg hr]
    exact ⟨rfl, rfl, rfl⟩
  · unfold ikcp_flush_probe
    rw [if_pos hr, if_pos hw]
    exact ⟨rfl, rfl, rfl⟩
  · have hge : ¬ K.probe_wait < IKCP_PROBE_INIT := by
      unfold IKCP_PROBE_INIT
      omega
    have hv : (if (K.probe_wait + K.probe_wait / 2) % 4294967296 > IKCP_PROBE_LIMIT then
        IKCP_PROBE_LIMIT else (K.probe_wait + K.probe_wait / 2) % 4294967296) =
        min 120000 (K.probe_wait + K.probe_wait / 2) := by
      unfold IKCP_PROBE_LIMIT
      split <;> omega
    unfold ikcp_flush_probe
    rw [if_pos hr, if_neg hw, if_pos ht]
    simp only [if_neg hge]
    rw [hv]
    exact ⟨rfl, rfl, trivial⟩
  · unfold ikcp_flush_probe
    rw [if_pos hr, if_neg hw, if_neg ht]

theorem ikcp_flush_probe_wait (K : IKCPCB)
    (h2 : K.probe_wait = 0 ∨ (7000 ≤ K.probe_wait ∧ K.probe_wait ≤ 120000)) :
    (ikcp_flush_probe K).probe_wait = 0 ∨
      (7000 ≤ (ikcp_flush_probe K).probe_wait ∧ (ikcp_flush_probe K).probe_wait ≤ 120000) := by
  obtain ⟨v1, v2, v3, v4⟩ := ikcp_flush_probe_vals K h2
  by_cases hr : K.rmt_wnd = 0
  · by_cases hw : K.probe_wait = 0
    · rw [(v2 hr hw).1]
      right
      omega
    · by_cases ht : _itimediff K.current K.ts_probe ≥ 0
      · rw [(v3 hr hw ht).1]
        right
        omega
      · rw [v4 hr hw ht]
        exact h2
  · left
    exact (v1 hr).1

theorem ikcp_flush_probe_acks (K : IKCPCB) :
    (ikcp_flush_probe K).acklist = K.acklist ∧ (ikcp_flush_probe K).ackcount = K.ackcount := by
  unfold ikcp_flush_probe
  split
  · split
    · exact ⟨rfl, rfl⟩
    · split <;> exact ⟨rfl, rfl⟩
  · exact ⟨rfl, rfl⟩

theorem SigInv_flush_probe (kcp : IKCPCB) (h : SigInv kcp) :
    SigInv { ikcp_flush_probe { kcp with ackcount := 0 } with probe := 0 } := by
  obtain ⟨_, h2, _, h4⟩ := h
  obtain ⟨l1, l2⟩ := ikcp_flush_probe_acks { kcp with ackcount := 0 }
  refine ⟨Or.inl rfl, ikcp_flush_probe_wait { kcp with ackcount := 0 } h2, ?_, ?_⟩
  · show (ikcp_flush_probe { kcp with ackcount := 0 }).ackcount ≤
      (ikcp_flush_probe { kcp with ackcount := 0 }).acklist.length
    rw [l2]
    exact Nat.zero_le _
  · show ∀ a ∈ (ikcp_flush_probe { kcp with ackcount := 0 }).acklist, _
    rw [l1]
    exact h4

theorem SigInv_flush (kcp : IKCPCB) (h : SigInv kcp) : SigInv (ikcp_flush kcp).1 := by
  by_cases hu : kcp.updated = 0
  · unfold ikcp_flush
    rw [if_pos hu]
    exact h
  · exact SigInv_of_part _ _ (ikcp_flush_sig kcp hu) (SigInv_flush_probe kcp h)

theorem update_clock_sig (kcp : IKCPCB) (current : Nat) :
    sig_part (update_clock kcp current).1 = sig_part kcp := by
  rw [update_clock_fields]
  rfl

theorem SigInv_update (kcp : IKCPCB) (current : Nat) (h : SigInv kcp) :
    SigInv (ikcp_update kcp current).1 := by
  have hc := SigInv_of_part _ _ (update_clock_sig kcp current) h
  rw [ikcp_update_eq]
  split
  · exact SigInv_flush _ hc
  · exact hc

theorem ikcp_setmtu_sig (kcp : IKCPCB) (mtu : Int) :
    sig_part (ikcp_setmtu kcp mtu).2 = sig_part kcp := by
  unfold ikcp_setmtu
  split <;> rfl

/-- On every reachable control block `probe` holds at most `IKCP_ASK_TELL`,
`probe_wait` is 0 or between 7000 and 120000, and the ack list holds at least `ackcount`
entries, all of them 32-bit values. -/
theorem Reachable_SigInv (kcp : IKCPCB) (h : Reachable kcp) : SigInv kcp := by
  induction h with
  | create conv hc =>
    exact ⟨Or.inl rfl, Or.inl rfl, Nat.le_refl 0, fun a ha => absurd ha (List.not_mem_nil a)⟩
  | send kcp buffer len _ _ _ ih => exact SigInv_of_part _ _ (ikcp_send_sig kcp buffer len) ih
  | recv kcp buffer len _ ih => exact SigInv_recv kcp buffer len ih
  | input kcp data _ ih => exact SigInv_input kcp data ih
  | update kcp current _ _ ih => exact SigInv_update kcp current ih
  | flush kcp _ ih => exact SigInv_flush kcp ih
  | setmtu kcp mtu _ _ ih => exact SigInv_of_part _ _ (ikcp_setmtu_sig kcp mtu) ih
  | interval kcp interval _ ih => exact ih
  | nodelay kcp nodelay interval resend nc _ _ _ ih =>
    rw [ikcp_nodelay_fields]; exact ih
  | wndsize kcp sndwnd rcvwnd _ _ _ ih =>
    rw [ikcp_wndsize_fields]; exact ih
  | stream kcp v _ ih => exact ih
  | fastlimit kcp v _ ih => exact ih

/-! ## The records of a flush -/

theorem flush_bytes_append (R : FlushState) (p : List Nat) :
    flush_bytes { R with ptr := R.ptr ++ p } = flush_bytes R ++ p := by
  unfold flush_bytes
  exact (List.append_assoc _ _ _).symm

theorem ikcp_flush_acks_bytes (kcp : IKCPCB) (c : Nat) (hc : c ≤ kcp.acklist.length)
    (fuel : Nat) :
    ∀ (k : Nat) (seg : IKCPSEG) (st : FlushState), k + fuel = c →
      flush_bytes (ikcp_flush_acks kcp (c : Int) fuel (k : Int) seg st).2 =
        flush_bytes st ++
          (((kcp.acklist.take c).drop k).map
            (fun a => ikcp_encode_seg (ack_seg seg a))).flatten := by
  induction fuel with
  | zero =>
    intro k seg st hk
    rw [ikcp_flush_acks]
    have hd : (kcp.acklist.take c).drop k = [] :=
      List.drop_eq_nil_of_le (by rw [List.length_take]; omega)
    rw [hd]
    exact (List.append_nil _).symm
  | succ n ih =>
    intro k seg st hk
    have hlt : (k : Int) < (c : Int) := by omega
    have hk1 : k < (kcp.acklist.take c).length := by rw [List.length_take]; omega
    have hkl : k < kcp.acklist.length := by omega
    have hget : ikcp_ack_get kcp (k : Int).toNat = (kcp.acklist.take c)[k] := by
      unfold ikcp_ack_get
      rw [Int.toNat_ofNat, List.getD_eq_getElem _ _ hkl, List.getElem_take]
    have hcast : (k : Int) + 1 = ((k + 1 : Nat) : Int) := by push_cast; rfl
    rw [ikcp_flush_acks]
    simp only []
    rw [if_pos hlt, hcast, ih (k + 1) _ _ (by omega), flush_bytes_append, flush_bytes_room,
      List.drop_eq_getElem_cons hk1, List.map_cons, List.flatten_cons, hget,
      List.append_assoc]
    rfl

theorem ikcp_flush_cmds_bytes (K : IKCPCB) (a : IKCPSEG × FlushState) :
    flush_bytes (ikcp_flush_cmds K a) =
      flush_bytes a.2 ++
        ((if K.probe &&& IKCP_ASK_SEND ≠ 0 then
            ikcp_encode_seg { a.1 with cmd := IKCP_CMD_WASK } else []) ++
          (if K.probe &&& IKCP_ASK_TELL ≠ 0 then
            ikcp_encode_seg { a.1 with cmd := IKCP_CMD_WINS } else [])) := by
  unfold ikcp_flush_cmds
  simp only []
  by_cases h1 : K.probe &&& IKCP_ASK_SEND ≠ 0
  · by_cases h2 : K.probe &&& IKCP_ASK_TELL ≠ 0
    · rw [if_pos h1, if_pos h2, if_pos h1, if_pos h1, if_pos h2, flush_bytes_append,
        flush_bytes_room, flush_bytes_append, flush_bytes_room, List.append_assoc]
    · rw [if_pos h1, if_neg h2, if_pos h1, if_neg h2, flush_bytes_append,
        flush_bytes_room, List.append_nil]
  · by_cases h2 : K.probe &&& IKCP_ASK_TELL ≠ 0
    · rw [if_neg h1, if_pos h2, if_neg h1, if_neg h1, if_pos h2, flush_bytes_append,
        flush_bytes_room, List.nil_append]
    · rw [if_neg h1, if_neg h2, if_neg h1, if_neg h2, List.append_nil, List.append_nil]

theorem ikcp_flush_flatten (kcp : IKCPCB) (hS : SegInv (snd_part kcp))
    (hu : kcp.updated ≠ 0) :
    (ikcp_flush kcp).2.flatten =
      flush_bytes (flush_control kcp) ++
        (((flush_promoted kcp).snd_buf.filter
            (flush_needsend (flush_promoted kcp) kcp.current
              (flush_resent (flush_promoted kcp)))).map
          (fun s => record_bytes (wire_record
            (flush_seg_after (flush_promoted kcp) kcp.current
              (flush_resent (flush_promoted kcp))
              (if (flush_promoted kcp).nodelay = 0 then u32 ((flush_promoted kcp).rx_rto / 8)
                else 0)
              (u32 (ikcp_wnd_unused kcp)) s)))).flatten := by
  have hD := FlushOK_flush_data kcp hS (flush_resent (flush_promoted kcp))
    (if (flush_promoted kcp).nodelay = 0 then u32 ((flush_promoted kcp).rx_rto / 8) else 0)
  have hbytes := ikcp_flush_data_bytes (flush_promoted kcp) kcp.current
    (flush_resent (flush_promoted kcp))
    (if (flush_promoted kcp).nodelay = 0 then u32 ((flush_promoted kcp).rx_rto / 8) else 0)
    (u32 (ikcp_wnd_unused kcp)) (flush_promoted kcp).snd_buf (flush_control kcp)
  have hfl : ikcp_flush kcp =
      ikcp_flush_send (flush_promoted kcp) kcp.current
        (ikcp_flush_window { ikcp_flush_probe { kcp with ackcount := 0 } with probe := 0 })
        (u32 (ikcp_wnd_unused kcp)) (flush_control kcp) := ikcp_flush_eq kcp hu
  rw [hfl, ikcp_flush_send_eq]
  simp only []
  generalize ikcp_flush_data (flush_promoted kcp) kcp.current
    (flush_resent (flush_promoted kcp))
    (if (flush_promoted kcp).nodelay = 0 then u32 ((flush_promoted kcp).rx_rto / 8) else 0)
    (u32 (ikcp_wnd_unused kcp)) (flush_promoted kcp).snd_buf (flush_control kcp) = D
    at hD hbytes ⊢
  rw [flush_outs_flatten D.2 hD.2.1, hbytes]

theorem flush_data_record_valid (kcp : IKCPCB) (hS : SegInv (snd_part kcp))
    (current resent rtomin wnd : Nat) (s : IKCPSEG) (hs : s ∈ (flush_promoted kcp).snd_buf) :
    valid_record kcp.conv
      (wire_record (flush_seg_after (flush_promoted kcp) current resent rtomin wnd s)) ∧
    (wire_record (flush_seg_after (flush_promoted kcp) current resent rtomin wnd s)).cmd =
      IKCP_CMD_PUSH := by
  obtain ⟨_, _, _, _, _, p6⟩ := SegInv_promoted kcp hS
  have p6' : ∀ s ∈ (flush_promoted kcp).snd_buf, s.len = s.data.length ∧
      s.len + 24 < 2147483648 ∧ s.conv = (flush_promoted kcp).conv ∧
      s.cmd = IKCP_CMD_PUSH := p6
  rw [flush_promoted_conv] at p6'
  obtain ⟨a1, a2, a3, a4⟩ := p6' s hs
  have hk := ikcp_flush_decide_key (flush_promoted kcp) current resent rtomin s flush_idle
  unfold seg_key at hk
  simp only [Prod.mk.injEq] at hk
  obtain ⟨_, k2, k3, k4, k5⟩ := hk
  have hf : (flush_seg_after (flush_promoted kcp) current resent rtomin wnd s).conv = s.conv ∧
      (flush_seg_after (flush_promoted kcp) current resent rtomin wnd s).cmd = s.cmd ∧
      (flush_seg_after (flush_promoted kcp) current resent rtomin wnd s).len = s.len ∧
      (flush_seg_after (flush_promoted kcp) current resent rtomin wnd s).data = s.data := by
    unfold flush_seg_after
    generalize ikcp_flush_decide (flush_promoted kcp) current resent rtomin s flush_idle = D
      at k2 k3 k4 k5 ⊢
    split
    · exact ⟨k2, k3, k4, k5⟩
    · exact ⟨k2, k3, k4, k5⟩
  obtain ⟨f1, f2, f3, f4⟩ := hf
  refine ⟨valid_wire_record kcp.conv _ (f1.trans a3) (Or.inl (f2.trans a4)) ?_ ?_, ?_⟩
  · rw [f3, f4, a1]
  · rw [f3]; omega
  · exact f2.trans a4

theorem ikcp_encode_seg_congr (s1 s2 : IKCPSEG) (h1 : s1.conv = s2.conv) (h2 : s1.cmd = s2.cmd)
    (h3 : s1.frg = s2.frg) (h4 : s1.wnd % 65536 = s2.wnd % 65536) (h5 : s1.ts = s2.ts)
    (h6 : s1.sn = s2.sn) (h7 : s1.una = s2.una) (h8 : s1.len = s2.len) :
    ikcp_encode_seg s1 = ikcp_encode_seg s2 := by
  unfold ikcp_encode_seg u16
  rw [h1, h2, h3, h4, h5, h6, h7, h8]

theorem wnd_unused_wire (kcp : IKCPCB) :
    u32 (ikcp_wnd_unused kcp) % 65536 = (kcp.rcv_wnd - kcp.nrcv_que) % 65536 := by
  unfold ikcp_wnd_unused
  split
  · rw [u32_i32]
    unfold u32
    omega
  · have h0 : kcp.rcv_wnd - kcp.nrcv_que = 0 := by omega
    rw [h0]
    rfl

theorem ack_record_bytes (kcp : IKCPCB) (a : Nat × Nat) :
    ikcp_encode_seg (ack_seg (ikcp_flush_seg kcp) a) = record_bytes (ack_record_spec kcp a) := by
  have hw := wnd_unused_wire kcp
  unfold record_bytes
  rw [show (ack_record_spec kcp a).data = [] from rfl, List.append_nil]
  apply ikcp_encode_seg_congr
  · rfl
  · rfl
  · rfl
  · show u32 (ikcp_wnd_unused kcp) % 65536 = (kcp.rcv_wnd - kcp.nrcv_que) % 65536 % 65536
    rw [hw]
    omega
  · rfl
  · rfl
  · rfl
  · rfl

theorem ack_record_valid (kcp : IKCPCB)
    (hn : kcp.rcv_nxt < 4294967296) (a : Nat × Nat) (h1 : a.1 < 4294967296)
    (h2 : a.2 < 4294967296) : valid_record kcp.conv (ack_record_spec kcp a) := by
  refine ⟨rfl, Or.inr (Or.inl rfl), ?_, ?_, h2, h1, hn, rfl, ?_⟩
  · show 0 < 256
    decide
  · exact Nat.mod_lt _ (by decide)
  · show 0 < 2147483648
    decide

theorem i32_toNat_le (n : Nat) : (i32 (n : Int)).toNat ≤ n := by
  unfold i32
  split <;> omega

theorem flush_bytes_start (x s : Nat) :
    flush_bytes { ptr := [], outs := [], change := 0, lost := 0, xmit := x, state := s } =
      [] := rfl

theorem flush_control_bytes (kcp : IKCPCB) (hG : SigInv kcp) :
    flush_bytes (flush_control kcp) =
      ((kcp.acklist.take (i32 kcp.ackcount).toNat).map
          (fun a => ikcp_encode_seg (ack_seg (ikcp_flush_seg kcp) a))).flatten ++
        ((if (ikcp_flush_probe { kcp with ackcount := 0 }).probe &&& IKCP_ASK_SEND ≠ 0 then
            ikcp_encode_seg
              { (ikcp_flush_acks kcp (i32 kcp.ackcount) (i32 kcp.ackcount).toNat 0
                  (ikcp_flush_seg kcp)
                  { ptr := [], outs := [], change := 0, lost := 0, xmit := kcp.xmit,
                    state := kcp.state }).1 with cmd := IKCP_CMD_WASK }
          else []) ++
          (if (ikcp_flush_probe { kcp with ackcount := 0 }).probe &&& IKCP_ASK_TELL ≠ 0 then
            ikcp_encode_seg
              { (ikcp_flush_acks kcp (i32 kcp.ackcount) (i32 kcp.ackcount).toNat 0
                  (ikcp_flush_seg kcp)
                  { ptr := [], outs := [], change := 0, lost := 0, xmit := kcp.xmit,
                    state := kcp.state }).1 with cmd := IKCP_CMD_WINS }
          else [])) := by
  have hle : (i32 kcp.ackcount).toNat ≤ kcp.acklist.length :=
    Nat.le_trans (i32_toNat_le kcp.ackcount) hG.2.2.1
  have hacks : flush_bytes (ikcp_flush_acks kcp (i32 kcp.ackcount) (i32 kcp.ackcount).toNat 0
      (ikcp_flush_seg kcp)
      { ptr := [], outs := [], change := 0, lost := 0, xmit := kcp.xmit,
        state := kcp.state }).2 =
      ((kcp.acklist.take (i32 kcp.ackcount).toNat).map
        (fun a => ikcp_encode_seg (ack_seg (ikcp_flush_seg kcp) a))).flatten := by
    by_cases h0 : 0 ≤ i32 kcp.ackcount
    · have hcount : i32 kcp.ackcount = (((i32 kcp.ackcount).toNat : Nat) : Int) :=
        (Int.toNat_of_nonneg h0).symm
      have hb := ikcp_flush_acks_bytes kcp (i32 kcp.ackcount).toNat hle
        (i32 kcp.ackcount).toNat 0 (ikcp_flush_seg kcp)
        { ptr := [], outs := [], change := 0, lost := 0, xmit := kcp.xmit,
          state := kcp.state } (Nat.zero_add _)
      rw [← hcount] at hb
      rw [show ((0 : Nat) : Int) = 0 from rfl] at hb
      rw [hb, flush_bytes_start, List.nil_append, List.drop_zero]
    · have hz : (i32 kcp.ackcount).toNat = 0 := by omega
      rw [hz, ikcp_flush_acks]
      rfl
  unfold flush_control
  rw [ikcp_flush_cmds_bytes, hacks]

theorem records_flatten_if (c : Prop) [Decidable c] (r : IKCPSEG) (b : List Nat)
    (h : record_bytes r = b) :
    ((if c then [r] else []).map record_bytes).flatten = if c then b else [] := by
  split
  · rw [List.map_singleton, List.flatten_singleton, h]
  · rfl

theorem records_flatten_four (A : List (Nat × Nat)) (f : Nat × Nat → IKCPSEG)
    (g : Nat × Nat → List Nat) (hfg : ∀ a, g a = record_bytes (f a))
    (B C D : List IKCPSEG) (b c : List Nat)
    (hb : (B.map record_bytes).flatten = b) (hc : (C.map record_bytes).flatten = c) :
    (A.map g).flatten ++ (b ++ c) ++ (D.map record_bytes).flatten =
      ((A.map f ++ (B ++ (C ++ D))).map record_bytes).flatten := by
  have hg : g = fun a => record_bytes (f a) := funext hfg
  rw [List.map_append, List.map_append, List.map_append, List.flatten_append,
    List.flatten_append, List.flatten_append, hb, hc, List.map_map, hg, List.append_assoc,
    List.append_assoc]
  rfl

theorem probe_record_wire (conv : Nat) (seg : IKCPSEG) (cmd : Nat) (a2 : seg.conv = conv)
    (a3 : seg.len = 0) (a4 : seg.data = [])
    (hcmd : cmd = IKCP_CMD_PUSH ∨ cmd = IKCP_CMD_ACK ∨ cmd = IKCP_CMD_WASK ∨
      cmd = IKCP_CMD_WINS) :
    valid_record conv (wire_record { seg with cmd := cmd }) ∧
    (wire_record { seg with cmd := cmd }).cmd = cmd ∧
    record_bytes (wire_record { seg with cmd := cmd }) =
      ikcp_encode_seg { seg with cmd := cmd } := by
  have hl : seg.len ≤ seg.data.length := by rw [a3]; exact Nat.zero_le _
  have h31 : seg.len < 2147483648 := by rw [a3]; exact Nat.zero_lt_succ _
  exact ⟨valid_wire_record conv _ a2 hcmd hl h31, rfl, record_bytes_wire_empty _ a4⟩

theorem flush_records_assemble (conv : Nat) (seg : IKCPSEG) (a2 : seg.conv = conv)
    (a3 : seg.len = 0) (a4 : seg.data = []) (A : List (Nat × Nat))
    (f : Nat × Nat → IKCPSEG) (g : Nat × Nat → List Nat)
    (hfg : ∀ a, g a = record_bytes (f a)) (c1 c2 : Prop) [Decidable c1] [Decidable c2]
    (F : List IKCPSEG) (w : IKCPSEG → IKCPSEG)
    (hw : ∀ s ∈ F, valid_record conv (w s) ∧ (w s).cmd = IKCP_CMD_PUSH) :
    ∃ (wask wins : IKCPSEG) (data : List IKCPSEG),
      (valid_record conv wask ∧ wask.cmd = IKCP_CMD_WASK) ∧
      (valid_record conv wins ∧ wins.cmd = IKCP_CMD_WINS) ∧
      (∀ r ∈ data, valid_record conv r ∧ r.cmd = IKCP_CMD_PUSH) ∧
      (A.map g).flatten ++
          ((if c1 then ikcp_encode_seg { seg with cmd := IKCP_CMD_WASK } else []) ++
            (if c2 then ikcp_encode_seg { seg with cmd := IKCP_CMD_WINS } else [])) ++
          (F.map (fun s => record_bytes (w s))).flatten =
        ((A.map f ++ ((if c1 then [wask] else []) ++
          ((if c2 then [wins] else []) ++ data))).map record_bytes).flatten := by
  obtain ⟨vk, ck, bk⟩ := probe_record_wire conv seg IKCP_CMD_WASK a2 a3 a4
    (Or.inr (Or.inr (Or.inl rfl)))
  obtain ⟨vs, cs, bs⟩ := probe_record_wire conv seg IKCP_CMD_WINS a2 a3 a4
    (Or.inr (Or.inr (Or.inr rfl)))
  refine ⟨wire_record { seg with cmd := IKCP_CMD_WASK },
    wire_record { seg with cmd := IKCP_CMD_WINS }, F.map w, ⟨vk, ck⟩, ⟨vs, cs⟩, ?_, ?_⟩
  · intro r hr
    obtain ⟨s, hs, e⟩ := List.mem_map.mp hr
    rw [← e]
    exact hw s hs
  · have hd : (F.map (fun s => record_bytes (w s))).flatten =
        ((F.map w).map record_bytes).flatten := by
      rw [List.map_map]
      rfl
    rw [hd]
    exact records_flatten_four A f g hfg _ _ _ _ _
      (records_flatten_if _ _ _ bk) (records_flatten_if _ _ _ bs)

theorem ikcp_flush_records (kcp : IKCPCB) (hS : SegInv (snd_part kcp)) (hG : SigInv kcp)
    (hn : kcp.rcv_nxt < 4294967296) (hu : kcp.updated ≠ 0) :
    (∀ a ∈ kcp.acklist, valid_record kcp.conv (ack_record_spec kcp a)) ∧
    ∃ (wask wins : IKCPSEG) (data : List IKCPSEG),
      (valid_record kcp.conv wask ∧ wask.cmd = IKCP_CMD_WASK) ∧
      (valid_record kcp.conv wins ∧ wins.cmd = IKCP_CMD_WINS) ∧
      (∀ r ∈ data, valid_record kcp.conv r ∧ r.cmd = IKCP_CMD_PUSH) ∧
      (ikcp_flush kcp).2.flatten =
        (((kcp.acklist.take (i32 kcp.ackcount).toNat).map (ack_record_spec kcp) ++
          ((if (ikcp_flush_probe { kcp with ackcount := 0 }).probe &&& IKCP_ASK_SEND ≠ 0
              then [wask] else []) ++
            ((if (ikcp_flush_probe { kcp with ackcount := 0 }).probe &&& IKCP_ASK_TELL ≠ 0
                then [wins] else []) ++ data))).map record_bytes).flatten := by
  have hm : kcp.mtu < 2147483648 := hS.2.2.1
  have h0 : FlushOK kcp.conv
      { ptr := [], outs := [], change := 0, lost := 0, xmit := kcp.xmit,
        state := kcp.state } :=
    ⟨⟨[], fun r hr => absurd hr (List.not_mem_nil r), rfl⟩, Nat.zero_lt_succ _,
      fun d hd => absurd hd (List.not_mem_nil d)⟩
  obtain ⟨_, a2, a3, a4⟩ := FlushOK_acks kcp kcp.conv (i32 kcp.ackcount) hm
    (i32 kcp.ackcount).toNat 0 (ikcp_flush_seg kcp) _ rfl rfl rfl rfl h0
  have hfl := ikcp_flush_flatten kcp hS hu
  have hcb := flush_control_bytes kcp hG
  refine ⟨fun a ha => ack_record_valid kcp hn a (hG.2.2.2 a ha).1 (hG.2.2.2 a ha).2, ?_⟩
  rw [hfl, hcb]
  exact flush_records_assemble kcp.conv _ a2 a3 a4 _ (ack_record_spec kcp) _
    (ack_record_bytes kcp) _ _ _ _
    (fun s hs => flush_data_record_valid kcp hS _ _ _ _ s (List.mem_of_mem_filter hs))

/-! ## ACK emission and zero-window probing -/

theorem ack_push_pending (kcp : IKCPCB) (sn ts : Nat) (hc : kcp.ackcount < 2147483648)
    (hl : kcp.ackcount ≤ kcp.acklist.length) :
    (ikcp_ack_push kcp sn ts).acklist.take (ikcp_ack_push kcp sn ts).ackcount =
      kcp.acklist.take kcp.ackcount ++ [(sn, ts)] := by
  obtain ⟨a1, a2⟩ := ikcp_ack_push_vals kcp sn ts
  rw [a1, a2]
  apply List.take_of_length_le
  rw [List.length_append, List.length_take, List.length_singleton]
  omega

theorem i32_toNat_small (n : Nat) (h : n < 2147483648) : (i32 (n : Int)).toNat = n := by
  rw [i32_of_lt _ (by omega) (by omega)]
  rfl

theorem ikcp_flush_ackcount (kcp : IKCPCB) (hu : kcp.updated ≠ 0) :
    (ikcp_flush kcp).1.ackcount = 0 := by
  have h := congrArg (fun p => p.2.2.2.2) (ikcp_flush_sig kcp hu)
  exact h.trans (ikcp_flush_probe_acks { kcp with ackcount := 0 }).2

/-- C31 (amended): on a control block reached by public calls, with fewer than 2^31
pending acks (`count` is an `int`), `ikcp_flush` does nothing if `ikcp_update` has never
been called. Otherwise the bytes it emits are the records of a list that begins with
exactly one ACK record per pending ack-list entry, in the order in which
`ikcp_ack_push` appended the entries, each with `cmd = 82`, `frg = 0`, `len = 0`, the
stored `sn` and `ts`, `una = rcv_nxt` and a `wnd` field equal to the free window
`max(0, rcv_wnd - nrcv_que)` modulo 65536, hence to the free window itself when
`rcv_wnd < 65536`; no later record of the flush is an ACK, and on return
`ackcount = 0`. -/
theorem C31_ack_emission (kcp : IKCPCB) (h : Reachable kcp)
    (hc : kcp.ackcount < 2147483648) :
    (kcp.updated = 0 → ikcp_flush kcp = (kcp, [])) ∧
    (∀ sn ts : Nat,
      (ikcp_ack_push kcp sn ts).acklist.take (ikcp_ack_push kcp sn ts).ackcount =
        kcp.acklist.take kcp.ackcount ++ [(sn, ts)]) ∧
    (∀ a : Nat × Nat, kcp.rcv_wnd < 65536 →
      (ack_record_spec kcp a).wnd = kcp.rcv_wnd - kcp.nrcv_que) ∧
    (kcp.updated ≠ 0 →
      (ikcp_flush kcp).1.ackcount = 0 ∧
      (∀ a ∈ kcp.acklist.take kcp.ackcount,
        valid_record kcp.conv (ack_record_spec kcp a)) ∧
      ∃ rest : List IKCPSEG,
        (∀ r ∈ rest, valid_record kcp.conv r ∧ r.cmd ≠ IKCP_CMD_ACK) ∧
        (ikcp_flush kcp).2.flatten =
          (((kcp.acklist.take kcp.ackcount).map (ack_record_spec kcp) ++ rest).map
            record_bytes).flatten) := by
  have hS := Reachable_SegInv kcp h
  have hG := Reachable_SigInv kcp h
  have hn : kcp.rcv_nxt < 4294967296 := (Reachable_RcvOrd kcp h).1
  refine ⟨fun hu => ?_, fun sn ts => ack_push_pending kcp sn ts hc hG.2.2.1, fun a hw => ?_,
    fun hu => ?_⟩
  · unfold ikcp_flush
    rw [if_pos hu]
  · show (kcp.rcv_wnd - kcp.nrcv_que) % 65536 = kcp.rcv_wnd - kcp.nrcv_que
    omega
  · obtain ⟨hv, wask, wins, data, ⟨vk, ck⟩, ⟨vs, cs⟩, hd, hb⟩ :=
      ikcp_flush_records kcp hS hG hn hu
    rw [i32_toNat_small kcp.ackcount hc] at hb
    refine ⟨ikcp_flush_ackcount kcp hu, fun a ha => hv a (List.mem_of_mem_take ha), _, ?_, hb⟩
    intro r hr
    have h83 : IKCP_CMD_WASK ≠ IKCP_CMD_ACK := by decide
    have h84 : IKCP_CMD_WINS ≠ IKCP_CMD_ACK := by decide
    have h81 : IKCP_CMD_PUSH ≠ IKCP_CMD_ACK := by decide
    rcases List.mem_append.mp hr with h1 | h1
    · split at h1
      · rw [List.mem_singleton] at h1
        rw [h1, ck]
        exact ⟨vk, h83⟩
      · exact absurd h1 (List.not_mem_nil r)
    · rcases List.mem_append.mp h1 with h2 | h2
      · split at h2
        · rw [List.mem_singleton] at h2
          rw [h2, cs]
          exact ⟨vs, h84⟩
        · exact absurd h2 (List.not_mem_nil r)
      · obtain ⟨v, c⟩ := hd r h2
        rw [c]
        exact ⟨v, h81⟩

theorem C31_ack_emission_witness :
    kcpAckPending.ackcount < 2147483648 ∧ kcpAckPending.updated ≠ 0 ∧
    kcpAckPending.acklist.take kcpAckPending.ackcount = [(1, 0), (0, 0)] ∧
    (ikcp_flush kcpAckPending).1.ackcount = 0 :=
  ⟨by decide, by decide, by decide,
    ((C31_ack_emission kcpAckPending
      (Reachable.input _ _ (Reachable.input _ _
        (Reachable.update _ _ (Reachable.create 1 (by decide)) (by decide))))
      (by decide)).2.2.2 (by decide)).1⟩

/-- C31, counterexample: after `ikcp_wndsize(kcp, 0, 65537)`, one update and the input
of the PUSH record with `sn = 0`, one ack is pending and the free window is
`65537 - 1 = 65536`; the flush emits one ACK record whose `wnd` field is 0, not
65536. -/
theorem C31_counterexample :
    Reachable kcpWideRcv ∧ kcpWideRcv.updated = 1 ∧
    kcpWideRcv.acklist.take kcpWideRcv.ackcount = [(0, 0)] ∧
    kcpWideRcv.rcv_wnd - kcpWideRcv.nrcv_que = 65536 ∧
    (ikcp_flush kcpWideRcv).2 =
      [record_bytes
        { conv := 1, cmd := 82, frg := 0, wnd := 0, ts := 0, sn := 0, una := 1, len := 0,
          resendts := 0, rto := 0, fastack := 0, xmit := 0, data := [] }] ∧
    (ikcp_decode_seg (ikcp_flush kcpWideRcv).2.flatten).1.cmd = 82 ∧
    (ikcp_decode_seg (ikcp_flush kcpWideRcv).2.flatten).1.wnd = 0 :=
  ⟨Reachable.input _ _
      (Reachable.update _ _
        (Reachable.wndsize _ _ _ (Reachable.create 1 (by decide)) (by decide) (by decide))
        (by decide)),
    by decide!, by decide!, by decide!, by decide!, by decide!, by decide!⟩

theorem ikcp_flush_probe_fired (K : IKCPCB) (hp : K.probe = 0 ∨ K.probe = IKCP_ASK_TELL)
    (h2 : K.probe_wait = 0 ∨ (7000 ≤ K.probe_wait ∧ K.probe_wait ≤ 120000)) :
    ((ikcp_flush_probe K).probe &&& IKCP_ASK_SEND ≠ 0) ↔
      (K.rmt_wnd = 0 ∧ K.probe_wait ≠ 0 ∧ _itimediff K.current K.ts_probe ≥ 0) := by
  obtain ⟨v1, v2, v3, v4⟩ := ikcp_flush_probe_vals K h2
  have hz : K.probe &&& IKCP_ASK_SEND = 0 := by
    rcases hp with e | e <;> rw [e] <;> rfl
  have ho : (K.probe ||| IKCP_ASK_SEND) &&& IKCP_ASK_SEND ≠ 0 := by
    rcases hp with e | e <;> rw [e] <;> decide
  by_cases hr : K.rmt_wnd = 0
  · by_cases hw : K.probe_wait = 0
    · rw [(v2 hr hw).2.2, hz]
      exact ⟨fun h => absurd rfl h, fun h => absurd hw h.2.1⟩
    · by_cases ht : _itimediff K.current K.ts_probe ≥ 0
      · rw [(v3 hr hw ht).2.2]
        exact ⟨fun _ => ⟨hr, hw, ht⟩, fun _ => ho⟩
      · rw [v4 hr hw ht, hz]
        exact ⟨fun h => absurd rfl h, fun h => absurd h.2.2 ht⟩
  · rw [(v1 hr).2.2, hz]
    exact ⟨fun h => absurd rfl h, fun h => absurd h.1 hr⟩

theorem countP_wask_none (l : List IKCPSEG) (c : Nat) (hc : c ≠ IKCP_CMD_WASK)
    (h : ∀ r ∈ l, r.cmd = c) :
    l.countP (fun r => decide (r.cmd = IKCP_CMD_WASK)) = 0 := by
  rw [List.countP_eq_zero]
  intro r hr
  rw [decide_eq_true_eq, h r hr]
  exact hc

theorem countP_wask_records (A B : List IKCPSEG) (wask wins : IKCPSEG) (c1 c2 : Prop)
    [Decidable c1] [Decidable c2] (hA : ∀ r ∈ A, r.cmd = IKCP_CMD_ACK)
    (hk : wask.cmd = IKCP_CMD_WASK) (hs : wins.cmd = IKCP_CMD_WINS)
    (hB : ∀ r ∈ B, r.cmd = IKCP_CMD_PUSH) :
    (A ++ ((if c1 then [wask] else []) ++ ((if c2 then [wins] else []) ++ B))).countP
        (fun r => decide (r.cmd = IKCP_CMD_WASK)) = if c1 then 1 else 0 := by
  have e1 := countP_wask_none A IKCP_CMD_ACK (by decide) hA
  have e2 := countP_wask_none B IKCP_CMD_PUSH (by decide) hB
  have e3 : (if c2 then [wins] else []).countP (fun r => decide (r.cmd = IKCP_CMD_WASK)) = 0 := by
    apply countP_wask_none _ IKCP_CMD_WINS (by decide)
    intro r hr
    split at hr
    · rw [List.mem_singleton] at hr
      rw [hr, hs]
    · exact absurd hr (List.not_mem_nil r)
  have e4 : (if c1 then [wask] else []).countP (fun r => decide (r.cmd = IKCP_CMD_WASK)) =
      if c1 then 1 else 0 := by
    split
    · rw [List.countP_singleton, hk]
      rfl
    · rfl
  rw [List.countP_append, List.countP_append, List.countP_append, e1, e2, e3, e4]
  omega

theorem ikcp_flush_probe_state_after (kcp : IKCPCB) (hu : kcp.updated ≠ 0) :
    (ikcp_flush kcp).1.probe = 0 ∧
    (ikcp_flush kcp).1.probe_wait = (ikcp_flush_probe { kcp with ackcount := 0 }).probe_wait ∧
    (ikcp_flush kcp).1.ts_probe = (ikcp_flush_probe { kcp with ackcount := 0 }).ts_probe := by
  have h := ikcp_flush_sig kcp hu
  unfold sig_part at h
  rw [Prod.mk.injEq, Prod.mk.injEq, Prod.mk.injEq] at h
  exact ⟨h.1, h.2.1, h.2.2.1⟩

theorem ikcp_flush_probe_after (kcp : IKCPCB) (hu : kcp.updated ≠ 0)
    (h2 : kcp.probe_wait = 0 ∨ (7000 ≤ kcp.probe_wait ∧ kcp.probe_wait ≤ 120000)) :
    (kcp.rmt_wnd ≠ 0 →
      (ikcp_flush kcp).1.probe_wait = 0 ∧ (ikcp_flush kcp).1.ts_probe = 0) ∧
    (kcp.rmt_wnd = 0 → kcp.probe_wait = 0 →
      (ikcp_flush kcp).1.probe_wait = 7000 ∧
      (ikcp_flush kcp).1.ts_probe = (kcp.current + 7000) % 4294967296) ∧
    (kcp.rmt_wnd = 0 → kcp.probe_wait ≠ 0 → _itimediff kcp.current kcp.ts_probe ≥ 0 →
      (ikcp_flush kcp).1.probe_wait = min 120000 (kcp.probe_wait + kcp.probe_wait / 2) ∧
      (ikcp_flush kcp).1.ts_probe =
        (kcp.current + min 120000 (kcp.probe_wait + kcp.probe_wait / 2)) % 4294967296) ∧
    (kcp.rmt_wnd = 0 → kcp.probe_wait ≠ 0 → ¬ _itimediff kcp.current kcp.ts_probe ≥ 0 →
      (ikcp_flush kcp).1.probe_wait = kcp.probe_wait ∧
      (ikcp_flush kcp).1.ts_probe = kcp.ts_probe) := by
  obtain ⟨_, p2, p3⟩ := ikcp_flush_probe_state_after kcp hu
  obtain ⟨v1, v2, v3, v4⟩ := ikcp_flush_probe_vals { kcp with ackcount := 0 } h2
  rw [p2, p3]
  refine ⟨fun hr => ⟨(v1 hr).1, (v1 hr).2.1⟩, fun hr hq => ⟨(v2 hr hq).1, (v2 hr hq).2.1⟩,
    fun hr hq ht => ⟨(v3 hr hq ht).1, (v3 hr hq ht).2.1⟩, fun hr hq ht => ?_⟩
  rw [v4 hr hq ht]
  exact ⟨rfl, rfl⟩

/-- C32: a flush that runs on a control block reached by public calls leaves
`probe = 0`. With `rmt_wnd > 0` it resets `probe_wait` and `ts_probe` to 0. With
`rmt_wnd = 0`: if `probe_wait = 0` it sets `probe_wait = 7000` and
`ts_probe = current + 7000`; otherwise, if `current - ts_probe >= 0` (signed 32-bit),
`probe_wait` becomes `min(120000, probe_wait + probe_wait / 2)` and
`ts_probe = current + probe_wait`; otherwise both stay as they were; in every case
`probe_wait` ends within 7000 and 120000, and from the `n`-th value of the schedule
7000, 10500, 15750, ... (`probe_wait_spec`) a probe leads to the next one. The records
of the flush hold exactly one WASK record when the probe timer has expired, and none
otherwise. -/
theorem C32_probe_schedule (kcp : IKCPCB) (h : Reachable kcp) (hu : kcp.updated ≠ 0) :
    (ikcp_flush kcp).1.probe = 0 ∧
    (kcp.rmt_wnd ≠ 0 →
      (ikcp_flush kcp).1.probe_wait = 0 ∧ (ikcp_flush kcp).1.ts_probe = 0) ∧
    (kcp.rmt_wnd = 0 →
      (7000 ≤ (ikcp_flush kcp).1.probe_wait ∧ (ikcp_flush kcp).1.probe_wait ≤ 120000) ∧
      (kcp.probe_wait = 0 →
        (ikcp_flush kcp).1.probe_wait = 7000 ∧
        (ikcp_flush kcp).1.ts_probe = (kcp.current + 7000) % 4294967296) ∧
      (kcp.probe_wait ≠ 0 → _itimediff kcp.current kcp.ts_probe ≥ 0 →
        (ikcp_flush kcp).1.probe_wait = min 120000 (kcp.probe_wait + kcp.probe_wait / 2) ∧
        (ikcp_flush kcp).1.ts_probe =
          (kcp.current + (ikcp_flush kcp).1.probe_wait) % 4294967296 ∧
        ∀ n : Nat, kcp.probe_wait = probe_wait_spec n →
          (ikcp_flush kcp).1.probe_wait = probe_wait_spec (n + 1)) ∧
      (kcp.probe_wait ≠ 0 → _itimediff kcp.current kcp.ts_probe < 0 →
        (ikcp_flush kcp).1.probe_wait = kcp.probe_wait ∧
        (ikcp_flush kcp).1.ts_probe = kcp.ts_probe)) ∧
    ∃ recs : List IKCPSEG,
      (∀ r ∈ recs, valid_record kcp.conv r) ∧
      (ikcp_flush kcp).2.flatten = (recs.map record_bytes).flatten ∧
      recs.countP (fun r => decide (r.cmd = IKCP_CMD_WASK)) =
        if kcp.rmt_wnd = 0 ∧ kcp.probe_wait ≠ 0 ∧ _itimediff kcp.current kcp.ts_probe ≥ 0
        then 1 else 0 := by
  have hS := Reachable_SegInv kcp h
  have hG := Reachable_SigInv kcp h
  have hn : kcp.rcv_nxt < 4294967296 := (Reachable_RcvOrd kcp h).1
  have h2 : kcp.probe_wait = 0 ∨ (7000 ≤ kcp.probe_wait ∧ kcp.probe_wait ≤ 120000) := hG.2.1
  obtain ⟨p1, _, _⟩ := ikcp_flush_probe_state_after kcp hu
  obtain ⟨v1, v2, v3, v4⟩ := ikcp_flush_probe_after kcp hu h2
  have hf : ((ikcp_flush_probe { kcp with ackcount := 0 }).probe &&& IKCP_ASK_SEND ≠ 0) ↔
      (kcp.rmt_wnd = 0 ∧ kcp.probe_wait ≠ 0 ∧ _itimediff kcp.current kcp.ts_probe ≥ 0) :=
    ikcp_flush_probe_fired { kcp with ackcount := 0 } hG.1 h2
  refine ⟨p1, v1, fun hr => ⟨?_, v2 hr, ?_, ?_⟩, ?_⟩
  · by_cases hq : kcp.probe_wait = 0
    · have := (v2 hr hq).1
      omega
    · by_cases ht : _itimediff kcp.current kcp.ts_probe ≥ 0
      · have := (v3 hr hq ht).1
        omega
      · have := (v4 hr hq ht).1
        omega
  · intro hq ht
    obtain ⟨e1, e2⟩ := v3 hr hq ht
    refine ⟨e1, ?_, ?_⟩
    · rw [e2, e1]
    · intro n hn
      rw [e1, hn]
      rfl
  · intro hq ht
    exact v4 hr hq (by omega)
  · obtain ⟨hv, wask, wins, data, ⟨vk, ck⟩, ⟨vs, cs⟩, hd, hb⟩ :=
      ikcp_flush_records kcp hS hG hn hu
    refine ⟨_, ?_, hb, ?_⟩
    · intro r hr
      rcases List.mem_append.mp hr with h1 | h1
      · obtain ⟨a, ha, e⟩ := List.mem_map.mp h1
        rw [← e]
        exact hv a (List.mem_of_mem_take ha)
      · rcases List.mem_append.mp h1 with h3 | h3
        · split at h3
          · rw [List.mem_singleton] at h3
            rw [h3]
            exact vk
          · exact absurd h3 (List.not_mem_nil r)
        · rcases List.mem_append.mp h3 with h4 | h4
          · split at h4
            · rw [List.mem_singleton] at h4
              rw [h4]
              exact vs
            · exact absurd h4 (List.not_mem_nil r)
          · exact (hd r h4).1
    · rw [countP_wask_records _ data wask wins _ _ ?_ ck cs (fun r hr => (hd r hr).2)]
      · exact if_congr hf rfl rfl
      · intro r hr
        obtain ⟨a, _, e⟩ := List.mem_map.mp hr
        rw [← e]
        rfl

theorem C32_probe_schedule_witness :
    kcpProbeDue.updated ≠ 0 ∧ kcpProbeDue.rmt_wnd = 0 ∧
    kcpProbeDue.probe_wait = probe_wait_spec 0 ∧
    _itimediff kcpProbeDue.current kcpProbeDue.ts_probe ≥ 0 ∧
    (ikcp_flush kcpProbeDue).1.probe_wait = probe_wait_spec 1 ∧
    probe_wait_spec 1 = 10500 ∧ probe_wait_spec 2 = 15750 ∧
    (ikcp_decode_seg (ikcp_flush kcpProbeDue).2.flatten).1.cmd = 83 :=
  ⟨by decide!, by decide!, by decide!, by decide!,
    (((C32_probe_schedule kcpProbeDue
      (Reachable.update _ _ (Reachable.update _ _ (Reachable.update _ _
        (Reachable.input _ _
          (Reachable.update _ _ (Reachable.create 1 (by decide)) (by decide)))
        (by decide)) (by decide)) (by decide))
      (by decide!)).2.2.1 (by decide!)).2.2.1 (by decide!) (by decide!)).2.2 0 (by decide!),
    by decide, by decide, by decide!⟩

/-! ## The datagrams of a flush fit its buffer -/

theorem FlushCap_room (kcp : IKCPCB) (cap : Nat) (need : Int) (st : FlushState)
    (hm : kcp.mtu < 2147483648) (hc : cap < 2147483648) (h : FlushCap cap st) :
    FlushCap cap (ikcp_flush_room kcp need st) ∧
    ((ikcp_flush_room kcp need st).ptr = [] ∨
      ((ikcp_flush_room kcp need st).ptr.length : Int) + need ≤ kcp.mtu) := by
  obtain ⟨h1, h2⟩ := h
  have hi : i32 (st.ptr.length : Int) = st.ptr.length := i32_of_lt _ (by omega) (by omega)
  have hj : i32 (kcp.mtu : Int) = kcp.mtu := i32_of_lt _ (by omega) (by omega)
  unfold ikcp_flush_room
  rw [hi, hj]
  split
  · refine ⟨⟨Nat.zero_le _, ?_⟩, Or.inl rfl⟩
    intro d hd
    have hd' : d ∈ ikcp_output st.outs st.ptr := hd
    unfold ikcp_output at hd'
    split at hd'
    · exact h2 d hd'
    · rcases List.mem_append.mp hd' with hx | hx
      · exact h2 d hx
      · rw [List.mem_singleton] at hx
        rw [hx]
        exact h1
  · exact ⟨⟨h1, h2⟩, Or.inr (by omega)⟩

theorem FlushCap_put_flat (kcp : IKCPCB) (cap : Nat) (need : Int) (bytes : List Nat)
    (st : FlushState) (hm : kcp.mtu < 2147483648) (hc : cap < 2147483648)
    (hmc : kcp.mtu ≤ cap) (hn : need = (bytes.length : Int)) (hb : bytes.length ≤ cap)
    (h : FlushCap cap st) :
    ((ikcp_flush_room kcp need st).ptr ++ bytes).length ≤ cap ∧
    ∀ d ∈ (ikcp_flush_room kcp need st).outs, d.length ≤ cap := by
  obtain ⟨⟨_, g2⟩, hor⟩ := FlushCap_room kcp cap need st hm hc h
  refine ⟨?_, g2⟩
  rw [List.length_append]
  rcases hor with a | a
  · rw [a, List.length_nil]
    omega
  · omega

theorem FlushCap_with_ptr (cap : Nat) (R : FlushState) (p : List Nat) (h1 : p.length ≤ cap)
    (h2 : ∀ d ∈ R.outs, d.length ≤ cap) : FlushCap cap { R with ptr := p } := ⟨h1, h2⟩

theorem FlushCap_intro (cap : Nat) (st : FlushState) (p : List Nat) (o : List (List Nat))
    (hp : st.ptr = p) (ho : st.outs = o) (h1 : p.length ≤ cap)
    (h2 : ∀ d ∈ o, d.length ≤ cap) : FlushCap cap st := by
  unfold FlushCap
  rw [hp, ho]
  exact ⟨h1, h2⟩

theorem FlushCap_of_buf (cap : Nat) (st1 st2 : FlushState) (hp : st2.ptr = st1.ptr)
    (ho : st2.outs = st1.outs) (h : FlushCap cap st1) : FlushCap cap st2 := by
  unfold FlushCap
  rw [hp, ho]
  exact h

theorem FlushCap_header (kcp : IKCPCB) (cap : Nat) (seg : IKCPSEG) (st : FlushState)
    (hm : kcp.mtu < 2147483648) (hc : cap < 2147483648) (hmc : kcp.mtu ≤ cap)
    (h24 : 24 ≤ cap) (h : FlushCap cap st) :
    FlushCap cap
      { ikcp_flush_room kcp (i32 IKCP_OVERHEAD) st with
        ptr := (ikcp_flush_room kcp (i32 IKCP_OVERHEAD) st).ptr ++ ikcp_encode_seg seg } := by
  have hl := ikcp_encode_seg_length seg
  have hn : i32 IKCP_OVERHEAD = ((ikcp_encode_seg seg).length : Int) := by
    rw [hl]
    rfl
  obtain ⟨k1, k2⟩ := FlushCap_put_flat kcp cap (i32 IKCP_OVERHEAD) (ikcp_encode_seg seg) st
    hm hc hmc hn (by rw [hl]; exact h24) h
  exact FlushCap_with_ptr cap (ikcp_flush_room kcp (i32 IKCP_OVERHEAD) st) _ k1 k2

theorem FlushCap_acks (kcp : IKCPCB) (cap : Nat) (count : Int) (hm : kcp.mtu < 2147483648)
    (hc : cap < 2147483648) (hmc : kcp.mtu ≤ cap) (h24 : 24 ≤ cap) (fuel : Nat) :
    ∀ (i : Int) (seg : IKCPSEG) (st : FlushState), FlushCap cap st →
      FlushCap cap (ikcp_flush_acks kcp count fuel i seg st).2 := by
  induction fuel with
  | zero => intro i seg st h; exact h
  | succ n ih =>
    intro i seg st h
    rw [ikcp_flush_acks]
    split
    · simp only []
      exact ih _ _ _ (FlushCap_header kcp cap _ st hm hc hmc h24 h)
    · exact h

theorem FlushCap_cmds (kcp : IKCPCB) (cap : Nat) (a : IKCPSEG × FlushState)
    (hm : kcp.mtu < 2147483648) (hc : cap < 2147483648) (hmc : kcp.mtu ≤ cap)
    (h24 : 24 ≤ cap) (h : FlushCap cap a.2) : FlushCap cap (ikcp_flush_cmds kcp a) := by
  have h2 : FlushCap cap
      (if kcp.probe &&& IKCP_ASK_SEND ≠ 0 then
        { ikcp_flush_room kcp (i32 IKCP_OVERHEAD) a.2 with
          ptr := (ikcp_flush_room kcp (i32 IKCP_OVERHEAD) a.2).ptr ++
            ikcp_encode_seg { a.1 with cmd := IKCP_CMD_WASK } }
      else a.2) := by
    split
    · exact FlushCap_header kcp cap _ a.2 hm hc hmc h24 h
    · exact h
  unfold ikcp_flush_cmds
  simp only []
  by_cases ht : kcp.probe &&& IKCP_ASK_TELL ≠ 0
  · rw [if_pos ht]
    exact FlushCap_header kcp cap _ _ hm hc hmc h24 h2
  · rw [if_neg ht]
    exact h2

theorem FlushCap_emit (kcp : IKCPCB) (cap : Nat) (seg1 : IKCPSEG) (st : FlushState)
    (hm : kcp.mtu < 2147483648) (hc : cap < 2147483648) (hmc : kcp.mtu ≤ cap)
    (hl : seg1.len = seg1.data.length) (hfit : seg1.len + 24 ≤ cap)
    (h : FlushCap cap st) : FlushCap cap (flush_emit kcp seg1 st) := by
  have hbl : (record_bytes (wire_record seg1)).length = 24 + seg1.len := by
    rw [record_bytes_wire, List.length_append, ikcp_encode_seg_length, List.length_take]
    omega
  have hn : i32 ((IKCP_OVERHEAD + seg1.len : Nat) : Int) =
      ((record_bytes (wire_record seg1)).length : Int) := by
    have hv : IKCP_OVERHEAD = 24 := rfl
    rw [hbl, hv, i32_of_lt _ (by omega) (by omega)]
  obtain ⟨k1, k2⟩ := FlushCap_put_flat kcp cap
    (i32 ((IKCP_OVERHEAD + seg1.len : Nat) : Int)) (record_bytes (wire_record seg1)) st
    hm hc hmc hn (by rw [hbl]; omega) h
  obtain ⟨e1, e2⟩ := flush_emit_buf kcp seg1 st
  have hptr : (flush_emit kcp seg1 st).ptr =
      (ikcp_flush_room kcp (i32 ((IKCP_OVERHEAD + seg1.len : Nat) : Int)) st).ptr ++
        record_bytes (wire_record seg1) := by
    rw [record_bytes_wire, e1]
    split
    · rw [List.append_assoc]
    · have h0 : seg1.len = 0 := by omega
      rw [h0, List.take_zero, List.append_nil]
  exact FlushCap_intro cap _ _ _ hptr e2 k1 k2

theorem FlushCap_data (kcp : IKCPCB) (cap current resent rtomin wnd : Nat)
    (hm : kcp.mtu < 2147483648) (hc : cap < 2147483648) (hmc : kcp.mtu ≤ cap)
    (segs : List IKCPSEG) :
    ∀ st : FlushState,
      (∀ s ∈ segs, s.len = s.data.length ∧ s.len + 24 ≤ cap) →
      FlushCap cap st →
      FlushCap cap (ikcp_flush_data kcp current resent rtomin wnd segs st).2 := by
  induction segs with
  | nil => intro st _ h; exact h
  | cons a t ih =>
    intro st hs h
    obtain ⟨a1, a2⟩ := hs a (List.mem_cons_self _ _)
    have ht := fun s (hx : s ∈ t) => hs s (List.mem_cons_of_mem _ hx)
    have hb := ikcp_flush_decide_buf kcp current resent rtomin a st
    have hd := FlushCap_of_buf cap st _ hb.1 hb.2 h
    have hk := ikcp_flush_decide_key kcp current resent rtomin a st
    have e3 : (ikcp_flush_decide kcp current resent rtomin a st).1.len = a.len :=
      congrArg (fun k => k.2.2.2.1) hk
    have e4 : (ikcp_flush_decide kcp current resent rtomin a st).1.data = a.data :=
      congrArg (fun k => k.2.2.2.2) hk
    rw [ikcp_flush_data_cons]
    split
    · refine ih _ ht (FlushCap_emit kcp cap _ _ hm hc hmc ?_ ?_ hd)
      · show (ikcp_flush_decide kcp current resent rtomin a st).1.len =
          (ikcp_flush_decide kcp current resent rtomin a st).1.data.length
        rw [e3, e4]
        exact a1
      · show (ikcp_flush_decide kcp current resent rtomin a st).1.len + 24 ≤ cap
        rw [e3]
        exact a2
    · exact ih _ ht hd

theorem FlushCap_send (kcp : IKCPCB) (cap current cwnd wnd : Nat) (st : FlushState)
    (hm : kcp.mtu < 2147483648) (hc : cap < 2147483648) (hmc : kcp.mtu ≤ cap)
    (hb : ∀ s ∈ kcp.snd_buf, s.len = s.data.length ∧ s.len + 24 ≤ cap)
    (h : FlushCap cap st) :
    ∀ d ∈ (ikcp_flush_send kcp current cwnd wnd st).2, d.length ≤ cap := by
  have hR := FlushCap_data kcp cap current (flush_resent kcp)
    (if kcp.nodelay = 0 then u32 (kcp.rx_rto / 8) else 0) wnd hm hc hmc kcp.snd_buf st hb h
  rw [ikcp_flush_send_eq]
  simp only []
  generalize (ikcp_flush_data kcp current (flush_resent kcp)
    (if kcp.nodelay = 0 then u32 (kcp.rx_rto / 8) else 0) wnd kcp.snd_buf st).2 = R at hR ⊢
  obtain ⟨h1, h2⟩ := hR
  intro d hd
  split at hd
  · unfold ikcp_output at hd
    split at hd
    · exact h2 d hd
    · rcases List.mem_append.mp hd with hx | hx
      · exact h2 d hx
      · rw [List.mem_singleton] at hx
        rw [hx]
        exact h1
  · exact h2 d hd

theorem ikcp_flush_promote_len (cwnd wnd current : Nat) (l : List IKCPSEG) :
    ∀ kcp : IKCPCB, ∀ s ∈ (ikcp_flush_promote cwnd wnd current kcp l).snd_buf,
      s ∈ kcp.snd_buf ∨ ∃ q ∈ l, s.len = q.len := by
  induction l with
  | nil => intro kcp s hs; exact Or.inl hs
  | cons a t ih =>
    intro kcp s hs
    rw [ikcp_flush_promote] at hs
    split at hs
    · rcases ih _ s hs with h1 | ⟨q, hq, e⟩
      · rcases List.mem_append.mp h1 with h2 | h2
        · exact Or.inl h2
        · rw [List.mem_singleton] at h2
          right
          refine ⟨a, List.mem_cons_self _ _, ?_⟩
          rw [h2]
      · exact Or.inr ⟨q, List.mem_cons_of_mem _ hq, e⟩
    · exact Or.inl hs

theorem ikcp_flush_promote_mtu (cwnd wnd current : Nat) (l : List IKCPSEG) :
    ∀ kcp : IKCPCB, (ikcp_flush_promote cwnd wnd current kcp l).mtu = kcp.mtu := by
  induction l with
  | nil => intro kcp; rfl
  | cons a t ih =>
    intro kcp
    rw [ikcp_flush_promote]
    split
    · exact ih _
    · rfl

theorem flush_promoted_len (kcp : IKCPCB) :
    ∀ s ∈ (flush_promoted kcp).snd_buf, ∃ q ∈ kcp.snd_queue ++ kcp.snd_buf, s.len = q.len := by
  intro s hs
  obtain ⟨_, _, _, f4, f5⟩ := ikcp_flush_probe_frame { kcp with ackcount := 0 }
  unfold flush_promoted at hs
  rcases ikcp_flush_promote_len _ _ _ _ _ s hs with h1 | ⟨q, hq, e⟩
  · have h2 : s ∈ (ikcp_flush_probe { kcp with ackcount := 0 }).snd_buf := h1
    rw [f5] at h2
    exact ⟨s, List.mem_append_right _ h2, rfl⟩
  · rw [f4] at hq
    exact ⟨q, List.mem_append_left _ hq, e⟩

/-- When `mtu` and every queued record fit a size `cap` below `2^31`, no datagram of a
flush is longer than `cap`: the flush never holds more than `cap` bytes in its buffer. -/
theorem FlushCap_flush (kcp : IKCPCB) (h : SegInv (snd_part kcp)) (cap : Nat)
    (hc : cap < 2147483648) (hmc : kcp.mtu ≤ cap)
    (hfit : ∀ s ∈ kcp.snd_queue ++ kcp.snd_buf, s.len + 24 ≤ cap) :
    ∀ d ∈ (ikcp_flush kcp).2, d.length ≤ cap := by
  by_cases hu : kcp.updated = 0
  · unfold ikcp_flush
    rw [if_pos hu]
    intro d hd
    exact absurd hd (List.not_mem_nil d)
  · have hm : kcp.mtu < 2147483648 := h.2.2.1
    have h50 : 50 ≤ kcp.mtu := h.2.1
    have h24 : 24 ≤ cap := by omega
    have e : (ikcp_flush_probe { kcp with ackcount := 0 }).mtu = kcp.mtu :=
      congrArg SndPart.mtu (ikcp_flush_probe_snd { kcp with ackcount := 0 })
    have hK : (ikcp_flush_probe { kcp with ackcount := 0 }).mtu < 2147483648 := by
      rw [e]; exact hm
    have hKc : (ikcp_flush_probe { kcp with ackcount := 0 }).mtu ≤ cap := by
      rw [e]; exact hmc
    obtain ⟨_, _, p3, _, _, p6⟩ := SegInv_promoted kcp h
    have p3' : (flush_promoted kcp).mtu < 2147483648 := p3
    have p6' : ∀ s ∈ (flush_promoted kcp).snd_buf, s.len = s.data.length ∧
        s.len + 24 < 2147483648 ∧ s.conv = (flush_promoted kcp).conv ∧
        s.cmd = IKCP_CMD_PUSH := p6
    have pm : (flush_promoted kcp).mtu = kcp.mtu := by
      unfold flush_promoted
      rw [ikcp_flush_promote_mtu]
      exact e
    have hb : ∀ s ∈ (flush_promoted kcp).snd_buf, s.len = s.data.length ∧ s.len + 24 ≤ cap := by
      intro s hs
      obtain ⟨q, hq, el⟩ := flush_promoted_len kcp s hs
      refine ⟨(p6' s hs).1, ?_⟩
      rw [el]
      exact hfit q hq
    have h0 : FlushCap cap
        { ptr := [], outs := [], change := 0, lost := 0, xmit := kcp.xmit,
          state := kcp.state } :=
      ⟨Nat.zero_le _, fun d hd => absurd hd (List.not_mem_nil d)⟩
    have ha := FlushCap_acks kcp cap (i32 kcp.ackcount) hm hc hmc h24
      (i32 kcp.ackcount).toNat 0 (ikcp_flush_seg kcp) _ h0
    have hcm := FlushCap_cmds (ikcp_flush_probe { kcp with ackcount := 0 }) cap _ hK hc hKc
      h24 ha
    rw [ikcp_flush_eq kcp hu]
    exact FlushCap_send (flush_promoted kcp) cap _ _ _ _ p3' hc (by rw [pm]; exact hmc) hb hcm

theorem flush_capacity_clock (kcp : IKCPCB) (current : Nat) :
    flush_capacity (update_clock kcp current).1 = flush_capacity kcp ∧
    (update_clock kcp current).1.snd_queue = kcp.snd_queue ∧
    (update_clock kcp current).1.snd_buf = kcp.snd_buf ∧
    (update_clock kcp current).1.mtu = kcp.mtu ∧
    (update_clock kcp current).1.conv = kcp.conv := by
  have h := update_clock_snd kcp current
  have hm : (update_clock kcp current).1.mtu = kcp.mtu := congrArg SndPart.mtu h
  refine ⟨?_, congrArg SndPart.snd_queue h, congrArg SndPart.snd_buf h, hm,
    congrArg SndPart.conv h⟩
  unfold flush_capacity
  rw [hm]

/-- Every datagram of a flush on a control block with a sound send side whose `mtu`
and queued records fit the buffer of the flush is non-empty, at most as long as that
buffer and a concatenation of whole valid records. -/
theorem flush_whole_in_bounds (kcp : IKCPCB) (hs : SegInv (snd_part kcp))
    (hfit : ∀ s ∈ kcp.snd_queue ++ kcp.snd_buf, s.len + 24 ≤ flush_capacity kcp)
    (hmc : kcp.mtu ≤ flush_capacity kcp) :
    ∀ d ∈ (ikcp_flush kcp).2,
      d ≠ [] ∧ d.length ≤ flush_capacity kcp ∧
      (∃ recs : List IKCPSEG,
        (∀ r ∈ recs, valid_record kcp.conv r) ∧ d = (recs.map record_bytes).flatten) ∧
      ∀ peer : IKCPCB, peer.conv = kcp.conv → (ikcp_input peer (some d)).1 = 0 := by
  have hc : kcp.conv < 4294967296 := hs.1
  have hm : kcp.mtu < 2147483648 := hs.2.2.1
  have hq : ∀ s ∈ kcp.snd_queue ++ kcp.snd_buf, s.len + 24 < 2147483648 := by
    intro s hx
    rcases List.mem_append.mp hx with a | a
    · exact (hs.2.2.2.2.1 s a).2
    · exact (hs.2.2.2.2.2 s a).2.1
  have hcap := FlushCap_flush kcp hs (min (flush_capacity kcp) 2147483647)
    (by omega) (by omega)
    (fun s hx => by
      have h1 := hfit s hx
      have h2 := hq s hx
      omega)
  intro d hd
  obtain ⟨w1, w2, w3⟩ := datagram_whole kcp.conv hc d (FlushOK_flush kcp hs d hd)
  have hl := hcap d hd
  exact ⟨w1, by omega, w2, w3⟩

/-- C13: on a control block reached by public calls whose `mtu` and queued segments
fit the buffer of the flush (`mtu <= capacity` and `len + 24 <= capacity` for every
segment of `snd_queue` and `snd_buf`, the capacity being the `(mtu + 24) * 3` bytes
that `ikcp_create` and `ikcp_setmtu` allocate), every datagram that `ikcp_flush` passes
to the output callback, called directly or through `ikcp_update`, is non-empty, no
longer than the buffer, and a concatenation of whole records, each a 24-byte header
with the `conv` of the control block and a `cmd` among 81, 82, 83, 84 followed by
exactly `len` payload bytes; and `ikcp_input` of the datagram on any control block with
the same `conv` returns 0. Outside these bounds the C flush writes past its buffer and
nothing is stated. -/
theorem C13_whole_records (kcp : IKCPCB) (h : Reachable kcp)
    (hfit : ∀ s ∈ kcp.snd_queue ++ kcp.snd_buf, s.len + 24 ≤ flush_capacity kcp)
    (hmc : kcp.mtu ≤ flush_capacity kcp) :
    (∀ d ∈ (ikcp_flush kcp).2,
      d ≠ [] ∧ d.length ≤ flush_capacity kcp ∧
      (∃ recs : List IKCPSEG,
        (∀ r ∈ recs, valid_record kcp.conv r) ∧ d = (recs.map record_bytes).flatten) ∧
      ∀ peer : IKCPCB, peer.conv = kcp.conv → (ikcp_input peer (some d)).1 = 0) ∧
    (∀ current : Nat, ∀ d ∈ (ikcp_update kcp current).2,
      d ≠ [] ∧ d.length ≤ flush_capacity kcp ∧
      (∃ recs : List IKCPSEG,
        (∀ r ∈ recs, valid_record kcp.conv r) ∧ d = (recs.map record_bytes).flatten) ∧
      ∀ peer : IKCPCB, peer.conv = kcp.conv → (ikcp_input peer (some d)).1 = 0) := by
  have hs := Reachable_SegInv kcp h
  refine ⟨flush_whole_in_bounds kcp hs hfit hmc, ?_⟩
  intro current d hd
  rw [ikcp_update_eq] at hd
  obtain ⟨e1, e2, e3, e4, e5⟩ := flush_capacity_clock kcp current
  split at hd
  · have hf := flush_whole_in_bounds (update_clock kcp current).1
      (by rw [update_clock_snd]; exact hs)
      (by rw [e1, e2, e3]; exact hfit) (by rw [e1, e4]; exact hmc) d hd
    rw [e1, e5] at hf
    exact hf
  · exact absurd hd (List.not_mem_nil d)

theorem C13_whole_records_witness :
    (∀ s ∈ kcpShrunk.snd_queue ++ kcpShrunk.snd_buf, s.len + 24 ≤ flush_capacity kcpShrunk) ∧
    kcpShrunk.mtu ≤ flush_capacity kcpShrunk ∧
    (ikcp_flush kcpShrunk).2.map List.length = [124] ∧
    (∀ d ∈ (ikcp_flush kcpShrunk).2,
      d ≠ [] ∧ d.length ≤ flush_capacity kcpShrunk ∧
      (∃ recs : List IKCPSEG,
        (∀ r ∈ recs, valid_record kcpShrunk.conv r) ∧ d = (recs.map record_bytes).flatten) ∧
      ∀ peer : IKCPCB, peer.conv = kcpShrunk.conv → (ikcp_input peer (some d)).1 = 0) :=
  ⟨by decide!, by decide!, by decide!,
    (C13_whole_records kcpShrunk
      (Reachable.update _ 0
        (Reachable.setmtu _ 50
          (Reachable.send _ (List.replicate 100 7) 100 (Reachable.create 1 (by decide))
            (by decide) (by decide))
          (by decide))
        (by decide))
      (by decide!) (by decide!)).1⟩

/-- C13, the failing input: after `ikcp_send` of 1000 bytes, `ikcp_setmtu(kcp, 50)` and
one `ikcp_update`, `mtu` is 50, the buffer of the flush has `(50 + 24) * 3 = 222` bytes
and the queued segment has 1000 bytes; the next flush hands a datagram of 1024 bytes to
the output callback, which the C code can only assemble by copying past the end of its
buffer. -/
theorem C13_buffer_overrun :
    Reachable kcpOver ∧ kcpOver.updated = 1 ∧ kcpOver.mtu = 50 ∧
    flush_capacity kcpOver = 222 ∧
    kcpOver.snd_queue.map (fun s => s.len) = [1000] ∧
    (ikcp_flush kcpOver).2.map List.length = [1024] ∧
    (ikcp_update kcpOver 100).2.map List.length = [1024] :=
  ⟨Reachable.update _ 0
      (Reachable.setmtu _ 50
        (Reachable.send _ (List.replicate 1000 7) 1000 (Reachable.create 1 (by decide))
          (by rw [List.length_replicate]; decide) (by decide))
        (by decide))
      (by decide),
    by decide!, by decide!, by decide!, by decide!, by decide!, by decide!⟩

/-! ## The transmission decision -/

/-- C29: the transmission decision of a flush, segment by segment. For a reachable
control block on which the flush runs, with `rx_rto`, the `rto` and `xmit` of the
segments and `fastresend` in the range of an `int` and no `fastack` saturated while
fast resend is off: every segment of `snd_buf` after the promotion loop is left by the
flush as the rule of the specification (`transmit_spec`: first transmission, timeout,
fast retransmission, or untouched) says; when `mtu` and every queued segment with its
header fit the buffer of the flush (`flush_capacity`, the `(mtu + 24) * 3` bytes that
the C code allocates), every datagram handed to the output callback fits that buffer
and the bytes emitted after the acknowledgements and probe commands are exactly the
records of the segments the rule sends, in the order of `snd_buf`, each carrying
`ts = current`, the free window and `una = rcv_nxt`; and the counter `xmit` of the
control block grows by the number of timeouts. When a queued segment does not fit the
buffer the C flush writes past its end and nothing is stated about the bytes. -/
theorem C29_transmission_decision (kcp : IKCPCB) (h : Reachable kcp) (hu : kcp.updated ≠ 0)
    (hr0 : 0 ≤ kcp.rx_rto) (hr1 : kcp.rx_rto < 2147483648)
    (hfr : kcp.fastresend < 2147483648) (hxm : kcp.xmit < 4294967296)
    (hseg : ∀ s ∈ kcp.snd_buf, s.rto < 2147483648 ∧ s.xmit < 2147483648 ∧
      (0 < kcp.fastresend ∨ s.fastack < 4294967295)) :
    (ikcp_flush kcp).1.snd_buf =
      (flush_promoted kcp).snd_buf.map
        (fun s => (transmit_spec kcp (u32 (ikcp_wnd_unused kcp)) s).1) ∧
    ((∀ s ∈ kcp.snd_queue ++ kcp.snd_buf, s.len + 24 ≤ flush_capacity kcp) →
      kcp.mtu ≤ flush_capacity kcp →
      (∀ d ∈ (ikcp_flush kcp).2, d.length ≤ flush_capacity kcp) ∧
      (ikcp_flush kcp).2.flatten =
        flush_bytes (flush_control kcp) ++
          (((flush_promoted kcp).snd_buf.filter
              (fun s => (transmit_spec kcp (u32 (ikcp_wnd_unused kcp)) s).2)).map
            (fun s => record_bytes
              (wire_record (transmit_spec kcp (u32 (ikcp_wnd_unused kcp)) s).1))).flatten) ∧
    (ikcp_flush kcp).1.xmit =
      (kcp.xmit + (flush_promoted kcp).snd_buf.countP (flush_timed_out kcp.current)) %
        4294967296 ∧
    (∃ X : List IKCPSEG, (flush_promoted kcp).snd_buf = kcp.snd_buf ++ X ∧
      ∀ s ∈ X, s.xmit = 0) := by
  have hcap : (∀ s ∈ kcp.snd_queue ++ kcp.snd_buf, s.len + 24 ≤ flush_capacity kcp) →
      kcp.mtu ≤ flush_capacity kcp →
      ∀ d ∈ (ikcp_flush kcp).2, d.length ≤ flush_capacity kcp :=
    fun hfit hmc d hd =>
      (flush_whole_in_bounds kcp (Reachable_SegInv kcp h) hfit hmc d hd).2.1
  obtain ⟨X, hX, hx, g1, g2, g3, g4, g5⟩ := flush_promoted_new kcp
  obtain ⟨_, f2, f3⟩ := flush_promoted_frame kcp
  have hu32 : u32 kcp.rx_rto = kcp.rx_rto.toNat := u32_of_lt _ hr0 (by omega)
  have htyp : ∀ s ∈ (flush_promoted kcp).snd_buf, s.rto < 2147483648 ∧
      s.xmit < 2147483648 ∧ (0 < kcp.fastresend ∨ s.fastack < 4294967295) := by
    intro s hs
    rw [hX] at hs
    rcases List.mem_append.mp hs with hm | hm
    · exact hseg s hm
    · obtain ⟨x1, x2, x3⟩ := hx s hm
      rw [x1, x2, x3, hu32]
      exact ⟨by omega, by decide, Or.inr (by decide)⟩
  have hspec : ∀ s ∈ (flush_promoted kcp).snd_buf,
      flush_seg_after (flush_promoted kcp) kcp.current (flush_resent (flush_promoted kcp))
          (if (flush_promoted kcp).nodelay = 0 then u32 ((flush_promoted kcp).rx_rto / 8)
            else 0) (u32 (ikcp_wnd_unused kcp)) s =
        (transmit_spec kcp (u32 (ikcp_wnd_unused kcp)) s).1 ∧
      flush_needsend (flush_promoted kcp) kcp.current (flush_resent (flush_promoted kcp)) s =
        (transmit_spec kcp (u32 (ikcp_wnd_unused kcp)) s).2 := by
    intro s hs
    obtain ⟨t1, t2, t3⟩ := htyp s hs
    have hsp := flush_seg_after_spec (flush_promoted kcp) (u32 (ikcp_wnd_unused kcp)) s
      (by rw [g1]; exact hr0) (by rw [g1]; exact hr1) (by rw [f2]; exact hfr) t1 t2
      (by rw [f2]; exact t3)
    rw [g2, transmit_spec_congr (flush_promoted kcp) kcp _ s g1 g2 g3 g4 f2 f3] at hsp
    exact hsp
  have hD := FlushOK_flush_data kcp (Reachable_SegInv kcp h)
    (flush_resent (flush_promoted kcp))
    (if (flush_promoted kcp).nodelay = 0 then u32 ((flush_promoted kcp).rx_rto / 8) else 0)
  have hbytes := ikcp_flush_data_bytes (flush_promoted kcp) kcp.current
    (flush_resent (flush_promoted kcp))
    (if (flush_promoted kcp).nodelay = 0 then u32 ((flush_promoted kcp).rx_rto / 8) else 0)
    (u32 (ikcp_wnd_unused kcp)) (flush_promoted kcp).snd_buf (flush_control kcp)
  have hcx : (flush_control kcp).xmit = kcp.xmit := by
    unfold flush_control
    exact (ikcp_flush_cmds_counters _ _).2.2.trans (ikcp_flush_acks_counters _ _ _ _ _ _).2.2
  have hxc := ikcp_flush_data_lost_count (flush_promoted kcp) kcp.current
    (flush_resent (flush_promoted kcp))
    (if (flush_promoted kcp).nodelay = 0 then u32 ((flush_promoted kcp).rx_rto / 8) else 0)
    (u32 (ikcp_wnd_unused kcp)) (flush_promoted kcp).snd_buf (flush_control kcp)
    (by rw [hcx]; exact hxm)
  rw [hcx] at hxc
  have hmap := ikcp_flush_data_map (flush_promoted kcp) kcp.current
    (flush_resent (flush_promoted kcp))
    (if (flush_promoted kcp).nodelay = 0 then u32 ((flush_promoted kcp).rx_rto / 8) else 0)
    (u32 (ikcp_wnd_unused kcp)) (flush_promoted kcp).snd_buf (flush_control kcp)
  have hfl : ikcp_flush kcp =
      ikcp_flush_send (flush_promoted kcp) kcp.current
        (ikcp_flush_window { ikcp_flush_probe { kcp with ackcount := 0 } with probe := 0 })
        (u32 (ikcp_wnd_unused kcp)) (flush_control kcp) := ikcp_flush_eq kcp hu
  rw [hfl, ikcp_flush_send_eq] at hcap
  rw [hfl, ikcp_flush_send_eq]
  simp only [] at hcap ⊢
  generalize ikcp_flush_data (flush_promoted kcp) kcp.current
    (flush_resent (flush_promoted kcp))
    (if (flush_promoted kcp).nodelay = 0 then u32 ((flush_promoted kcp).rx_rto / 8) else 0)
    (u32 (ikcp_wnd_unused kcp)) (flush_promoted kcp).snd_buf (flush_control kcp) = D
    at hD hbytes hxc hmap hcap ⊢
  refine ⟨?_, ?_, ?_, ⟨X, hX, fun s hs => (hx s hs).1⟩⟩
  · rw [ikcp_flush_cwnd_fields]
    show D.1 = _
    rw [hmap]
    exact List.map_congr_left (fun s hs => (hspec s hs).1)
  · intro hfit hmc
    refine ⟨hcap hfit hmc, ?_⟩
    rw [flush_outs_flatten D.2 hD.2.1, hbytes]
    have hfilt : (flush_promoted kcp).snd_buf.filter
        (flush_needsend (flush_promoted kcp) kcp.current (flush_resent (flush_promoted kcp))) =
        (flush_promoted kcp).snd_buf.filter
          (fun s => (transmit_spec kcp (u32 (ikcp_wnd_unused kcp)) s).2) :=
      List.filter_congr (fun s hs => (hspec s hs).2)
    rw [hfilt]
    congr 2
    apply List.map_congr_left
    intro s hs
    rw [(hspec s (List.mem_of_mem_filter hs)).1]
  · rw [ikcp_flush_cwnd_fields]
    show D.2.xmit = _
    exact hxc

theorem C29_transmission_decision_witness :
    (∀ s ∈ kcpDupAcked.snd_queue ++ kcpDupAcked.snd_buf,
      s.len + 24 ≤ flush_capacity kcpDupAcked) ∧
    kcpDupAcked.mtu ≤ flush_capacity kcpDupAcked ∧
    (ikcp_flush kcpDupAcked).1.snd_buf =
      (flush_promoted kcpDupAcked).snd_buf.map
        (fun s => (transmit_spec kcpDupAcked (u32 (ikcp_wnd_unused kcpDupAcked)) s).1) ∧
    ((∀ d ∈ (ikcp_flush kcpDupAcked).2, d.length ≤ flush_capacity kcpDupAcked) ∧
      (ikcp_flush kcpDupAcked).2.flatten =
        flush_bytes (flush_control kcpDupAcked) ++
          (((flush_promoted kcpDupAcked).snd_buf.filter
              (fun s =>
                (transmit_spec kcpDupAcked (u32 (ikcp_wnd_unused kcpDupAcked)) s).2)).map
            (fun s => record_bytes
              (wire_record
                (transmit_spec kcpDupAcked (u32 (ikcp_wnd_unused kcpDupAcked)) s).1))).flatten) ∧
    (ikcp_flush kcpDupAcked).1.xmit =
      (kcpDupAcked.xmit +
        (flush_promoted kcpDupAcked).snd_buf.countP (flush_timed_out kcpDupAcked.current)) %
        4294967296 ∧
    (∃ X : List IKCPSEG, (flush_promoted kcpDupAcked).snd_buf = kcpDupAcked.snd_buf ++ X ∧
      ∀ s ∈ X, s.xmit = 0) := by
  have hw := C29_transmission_decision kcpDupAcked
    (Reachable.input _ (some ackOne)
      (Reachable.input _ (some ackOne)
        (Reachable.input _ (some ackOne)
          (Reachable.input _ (some ackOne)
            (Reachable.update _ 0
              (Reachable.send _ [2] 1
                (Reachable.send _ [1] 1
                  (Reachable.nodelay _ 0 (-1) 4 1 (Reachable.create 1 (by decide))
                    (by decide) (by decide))
                  (by decide) (by decide))
                (by decide) (by decide))
              (by decide))))))
    (by decide!) (by decide!) (by decide!) (by decide!) (by decide!) (by decide!)
  exact ⟨by decide!, by decide!, hw.1, hw.2.1 (by decide!) (by decide!), hw.2.2⟩

/-! ## The congestion window against the advertised window, call by call -/

theorem ikcp_input_cwnd_iff (kcp : IKCPCB) (prev_una : Nat) :
    (ikcp_input_cwnd kcp prev_una).cwnd ≤ kcp.rmt_wnd ↔ kcp.cwnd ≤ kcp.rmt_wnd := by
  unfold ikcp_input_cwnd
  simp only []
  split_ifs with h1 h2 h3 h4 h5 h6 h7
  all_goals first
    | exact Iff.rfl
    | exact ⟨fun _ => Nat.le_of_lt h2, fun _ => Nat.le_refl _⟩
    | exact ⟨fun _ => Nat.le_of_lt h2, fun _ => Nat.le_of_not_lt (by assumption)⟩

/-- After an `ikcp_input`, `cwnd` is within the advertised window exactly when the
`cwnd` before the call is within the window the call has stored. -/
theorem ikcp_input_cwnd_exact (kcp : IKCPCB) (data : Option (List Nat)) :
    (ikcp_input kcp data).2.cwnd ≤ (ikcp_input kcp data).2.rmt_wnd ↔
      kcp.cwnd ≤ (ikcp_input kcp data).2.rmt_wnd := by
  cases data with
  | none => exact Iff.rfl
  | some d =>
    have hl := ikcp_input_loop_cwnd d.length kcp d 0 0 0
    have hX : (if (ikcp_input_loop d.length kcp d 0 0 0).2.2.1 ≠ 0 then
          ikcp_parse_fastack (ikcp_input_loop d.length kcp d 0 0 0).2.1
            (ikcp_input_loop d.length kcp d 0 0 0).2.2.2.1
            (ikcp_input_loop d.length kcp d 0 0 0).2.2.2.2
        else (ikcp_input_loop d.length kcp d 0 0 0).2.1).cwnd = kcp.cwnd := by
      split
      · exact (ikcp_parse_fastack_cwnd _ _ _).1.trans hl
      · exact hl
    have hi := ikcp_input_cwnd_iff
      (if (ikcp_input_loop d.length kcp d 0 0 0).2.2.1 ≠ 0 then
          ikcp_parse_fastack (ikcp_input_loop d.length kcp d 0 0 0).2.1
            (ikcp_input_loop d.length kcp d 0 0 0).2.2.2.1
            (ikcp_input_loop d.length kcp d 0 0 0).2.2.2.2
        else (ikcp_input_loop d.length kcp d 0 0 0).2.1) kcp.snd_una
    have hr := (ikcp_input_cwnd_bound
      (if (ikcp_input_loop d.length kcp d 0 0 0).2.2.1 ≠ 0 then
          ikcp_parse_fastack (ikcp_input_loop d.length kcp d 0 0 0).2.1
            (ikcp_input_loop d.length kcp d 0 0 0).2.2.2.1
            (ikcp_input_loop d.length kcp d 0 0 0).2.2.2.2
        else (ikcp_input_loop d.length kcp d 0 0 0).2.1) kcp.snd_una).2
    rw [hX, ← hr] at hi
    unfold ikcp_input
    simp only []
    split
    · exact Iff.rfl
    · unfold ikcp_input_finish
      split
      · rw [hl]
      · exact hi

theorem ikcp_flush_promote_win (cwnd wnd current : Nat) (l : List IKCPSEG) :
    ∀ kcp : IKCPCB, win_part (ikcp_flush_promote cwnd wnd current kcp l) = win_part kcp := by
  induction l with
  | nil => intro kcp; rfl
  | cons a t ih =>
    intro kcp
    rw [ikcp_flush_promote]
    split
    · rw [ih]; rfl
    · rfl

theorem ikcp_flush_probe_win (kcp : IKCPCB) :
    win_part (ikcp_flush_probe kcp) = win_part kcp := by
  unfold ikcp_flush_probe win_part
  split
  · split
    · rfl
    · split <;> rfl
  · rfl

theorem flush_promoted_win (kcp : IKCPCB) : win_part (flush_promoted kcp) = win_part kcp := by
  unfold flush_promoted
  rw [ikcp_flush_promote_win]
  exact ikcp_flush_probe_win { kcp with ackcount := 0 }

theorem ikcp_flush_rmt_wnd (kcp : IKCPCB) : (ikcp_flush kcp).1.rmt_wnd = kcp.rmt_wnd := by
  by_cases hu : kcp.updated = 0
  · unfold ikcp_flush
    rw [if_pos hu]
  · rw [(ikcp_flush_snd kcp hu).2.2.2.2.2.1]
    exact congrArg Prod.snd (flush_promoted_win kcp)

/-- The congestion window after a flush that runs: 1 after a timeout; otherwise, when
no segment is retransmitted fast, the old `cwnd` raised to at least 1; otherwise
`ssthresh + resent` for the new `ssthresh`, in 32-bit arithmetic and raised to at
least 1. -/
theorem ikcp_flush_cwnd_exact (kcp : IKCPCB) (hu : kcp.updated ≠ 0) :
    ((∃ s ∈ kcp.snd_buf, flush_timed_out kcp.current s = true) →
      (ikcp_flush kcp).1.cwnd = 1) ∧
    ((∀ s ∈ kcp.snd_buf, flush_timed_out kcp.current s = false) →
      (∀ s ∈ kcp.snd_buf, flush_fast kcp kcp.current (flush_resent kcp) s = false) →
      (ikcp_flush kcp).1.cwnd = max 1 kcp.cwnd) ∧
    ((∀ s ∈ kcp.snd_buf, flush_timed_out kcp.current s = false) →
      (∃ s ∈ kcp.snd_buf, flush_fast kcp kcp.current (flush_resent kcp) s = true) →
      kcp.snd_buf.length < 2147483648 →
      (ikcp_flush kcp).1.ssthresh =
        max 2 (u32 (((ikcp_flush kcp).1.snd_nxt : Int) - (ikcp_flush kcp).1.snd_una) / 2) ∧
      (ikcp_flush kcp).1.cwnd =
        max 1 (((ikcp_flush kcp).1.ssthresh + flush_resent kcp) % 4294967296)) := by
  obtain ⟨X, hX, hx, _, _⟩ := flush_promoted_prefix kcp
  have hfl := (flush_promoted_frame kcp).2.2
  have hres := flush_resent_promoted kcp
  have hXt : ∀ s ∈ X, flush_timed_out kcp.current s = false := by
    intro s hs
    unfold flush_timed_out
    rw [(hx s hs).1]
    rfl
  have hXf : ∀ s ∈ X, flush_fast kcp kcp.current (flush_resent kcp) s = false := by
    intro s hs
    unfold flush_fast
    rw [(hx s hs).1]
    rfl
  have hcount : (flush_promoted kcp).snd_buf.countP
      (flush_fast (flush_promoted kcp) kcp.current (flush_resent (flush_promoted kcp))) =
      kcp.snd_buf.countP (flush_fast kcp kcp.current (flush_resent kcp)) := by
    have hfun : flush_fast (flush_promoted kcp) kcp.current
        (flush_resent (flush_promoted kcp)) =
        flush_fast kcp kcp.current (flush_resent kcp) := by
      funext s
      rw [hres]
      exact flush_fast_congr _ _ hfl _ _ s
    rw [hfun, hX, List.countP_append]
    have hz : X.countP (flush_fast kcp kcp.current (flush_resent kcp)) = 0 := by
      rw [List.countP_eq_zero]
      intro s hs
      rw [hXf s hs]
      decide
    rw [hz, Nat.add_zero]
  have hnone : (∀ s ∈ kcp.snd_buf, flush_timed_out kcp.current s = false) →
      (flush_promoted kcp).snd_buf.any (flush_timed_out kcp.current) = false := by
    intro hnol
    rw [List.any_eq_false]
    intro s hs
    rw [hX] at hs
    rcases List.mem_append.mp hs with h | h
    · rw [hnol s h]; decide
    · rw [hXt s h]; decide
  obtain ⟨K4, hK, _, _, _, _, k5, _⟩ := ikcp_flush_congestion kcp hu
  have hcw : K4.cwnd = kcp.cwnd := k5.trans (congrArg Prod.fst (flush_promoted_win kcp))
  have hne : ¬ (false = true) := by decide
  refine ⟨?_, ?_, ?_⟩
  · intro hl
    obtain ⟨seg, hm, ht⟩ := hl
    have hany : (flush_promoted kcp).snd_buf.any (flush_timed_out kcp.current) = true := by
      rw [List.any_eq_true]
      exact ⟨seg, by rw [hX]; exact List.mem_append_left _ hm, ht⟩
    rw [if_pos hany] at hK
    obtain ⟨_, v, _⟩ := (ikcp_flush_cwnd_vals K4
      (change_after
        ((flush_promoted kcp).snd_buf.countP
          (flush_fast (flush_promoted kcp) kcp.current (flush_resent (flush_promoted kcp))))
        0)
      1 (flush_resent (flush_promoted kcp)) (ikcp_flush_window kcp)).1 (by decide)
    rw [← hK] at v
    exact v
  · intro hnol hnof
    have hz : kcp.snd_buf.countP (flush_fast kcp kcp.current (flush_resent kcp)) = 0 := by
      rw [List.countP_eq_zero]
      intro s hs
      rw [hnof s hs]
      decide
    rw [hnone hnol, hcount, hz, if_neg hne] at hK
    have v := ((ikcp_flush_cwnd_vals K4 (change_after 0 0) 0
      (flush_resent (flush_promoted kcp)) (ikcp_flush_window kcp)).2.2 rfl rfl).2.1
    rw [← hK, hcw] at v
    rw [v]
    split
    · rw [max_eq_left (by omega)]
    · rw [max_eq_right (by omega)]
  · intro hnol hfast hlen
    have hpos : 0 < kcp.snd_buf.countP (flush_fast kcp kcp.current (flush_resent kcp)) := by
      rw [List.countP_pos_iff]
      exact hfast
    have hle := List.countP_le_length (flush_fast kcp kcp.current (flush_resent kcp))
      (l := kcp.snd_buf)
    rw [hnone hnol, hcount, change_after_small _ 0 (by decide) (by omega), hres,
      if_neg hne] at hK
    obtain ⟨v1, v2, _⟩ := (ikcp_flush_cwnd_vals K4
      ((0 : Int) + (kcp.snd_buf.countP (flush_fast kcp kcp.current (flush_resent kcp)) : Nat))
      0 (flush_resent kcp) (ikcp_flush_window kcp)).2.1 rfl (by omega)
    rw [← hK] at v1 v2
    have hfields : (ikcp_flush kcp).1.snd_nxt = K4.snd_nxt ∧
        (ikcp_flush kcp).1.snd_una = K4.snd_una := by
      rw [hK, ikcp_flush_cwnd_fields]
      exact ⟨rfl, rfl⟩
    have hS : fast_ssthresh K4 =
        max 2 (u32 (((ikcp_flush kcp).1.snd_nxt : Int) - (ikcp_flush kcp).1.snd_una) / 2) := by
      unfold fast_ssthresh
      rw [hfields.1, hfields.2]
      have ht : IKCP_THRESH_MIN = 2 := rfl
      rw [ht]
      split
      · rw [max_eq_left (by omega)]
      · rw [max_eq_right (by omega)]
    refine ⟨v1.trans hS, ?_⟩
    rw [v2, v1]
    split
    · rw [max_eq_left (by omega)]
    · rw [max_eq_right (by omega)]

theorem ikcp_send_loop_win (count : Int) (fuel : Nat) :
    ∀ (i : Int) (kcp : IKCPCB) (buffer : List Nat) (len : Int),
      win_part (ikcp_send_loop count fuel i kcp buffer len) = win_part kcp := by
  induction fuel with
  | zero => intro i kcp buffer len; rfl
  | succ n ih =>
    intro i kcp buffer len
    rw [ikcp_send_loop]
    split
    · rw [ih]; rfl
    · rfl

theorem ikcp_send_stream_win (kcp : IKCPCB) (buffer : List Nat) (len : Int) :
    win_part (ikcp_send_stream kcp buffer len).1 = win_part kcp := by
  unfold ikcp_send_stream
  split
  · rfl
  · split
    · rfl
    · rfl

theorem ikcp_send_win (kcp : IKCPCB) (buffer : List Nat) (len : Int) :
    win_part (ikcp_send kcp buffer len).2 = win_part kcp := by
  have hs : win_part (if kcp.stream ≠ 0 then ikcp_send_stream kcp buffer len
      else (kcp, buffer, len)).1 = win_part kcp := by
    split
    · exact ikcp_send_stream_win kcp buffer len
    · rfl
  rcases ikcp_send_cases kcp buffer len with e | ⟨_, e⟩ | ⟨_, count, fuel, e⟩
  · rw [e]
  · rw [e]; exact hs
  · rw [e, ikcp_send_loop_win]; exact hs

theorem ikcp_move_rcv_buf_win (l : List IKCPSEG) :
    ∀ kcp : IKCPCB, win_part (ikcp_move_rcv_buf kcp l) = win_part kcp := by
  induction l with
  | nil => intro kcp; rfl
  | cons s t ih =>
    intro kcp
    rw [ikcp_move_rcv_buf]
    split
    · rw [ih]; rfl
    · rfl

theorem ikcp_recv_finish_win (kcp : IKCPCB) (recover : Int) :
    win_part (ikcp_recv_finish kcp recover) = win_part kcp := by
  have hm := ikcp_move_rcv_buf_win kcp.rcv_buf kcp
  unfold ikcp_recv_finish
  simp only []
  split
  · exact hm
  · exact hm

theorem ikcp_recv_win (kcp : IKCPCB) (buffer : Bool) (len : Int) :
    win_part (ikcp_recv kcp buffer len).2.2 = win_part kcp := by
  unfold ikcp_recv
  simp only []
  refine ite_trd_cases _ _ (fun k => win_part k = win_part kcp) rfl ?_
  refine ite_trd_cases _ _ (fun k => win_part k = win_part kcp) rfl ?_
  refine ite_trd_cases _ _ (fun k => win_part k = win_part kcp) rfl ?_
  exact ikcp_recv_finish_win _ _

theorem ikcp_setters_win (kcp : IKCPCB) :
    (∀ mtu : Int, win_part (ikcp_setmtu kcp mtu).2 = win_part kcp) ∧
    (∀ interval : Int, win_part (ikcp_interval kcp interval).2 = win_part kcp) ∧
    (∀ nodelay interval resend nc : Int,
      win_part (ikcp_nodelay kcp nodelay interval resend nc).2 = win_part kcp) ∧
    (∀ sndwnd rcvwnd : Int, win_part (ikcp_wndsize kcp sndwnd rcvwnd).2 = win_part kcp) ∧
    (∀ current : Nat, win_part (update_clock kcp current).1 = win_part kcp) := by
  refine ⟨fun mtu => ?_, fun _ => rfl, fun a b c d => ?_, fun a b => ?_, fun t => ?_⟩
  · unfold ikcp_setmtu
    split <;> rfl
  · rw [ikcp_nodelay_fields]
    rfl
  · rw [ikcp_wndsize_fields]
    rfl
  · rw [update_clock_fields]
    rfl

/-- C17 (counterexample): `cwnd <= rmt_wnd` fails after both operations the claim names.
Input: a sender whose congestion window has opened to 2 receives a WINS record that
advertises a window of 1; afterwards `rmt_wnd = 1 > 0` and `cwnd = 2`. Flush: a sender
with `cwnd = 1 = rmt_wnd` and one segment with `fastack = 4 = fastresend` runs a flush
before the resend deadline of the segment; the flush retransmits the segment fast and
returns with `rmt_wnd = 1` and `cwnd = ssthresh + fastresend = 6`. -/
theorem C17_counterexample :
    (Reachable kcpNarrow ∧ kcpNarrow.updated = 1 ∧ kcpAcked.cwnd = 2 ∧
      (ikcp_input kcpAcked (some winsOne)).1 = 0 ∧
      kcpNarrow.rmt_wnd = 1 ∧ kcpNarrow.cwnd = 2) ∧
    (Reachable kcpDupNarrow ∧ kcpDupNarrow.updated = 1 ∧
      kcpDupNarrow.cwnd = 1 ∧ kcpDupNarrow.rmt_wnd = 1 ∧
      kcpDupNarrow.snd_buf.map (fun s => (s.sn, s.fastack)) = [(0, 4)] ∧
      kcpDupNarrow.snd_buf.any (flush_timed_out kcpDupNarrow.current) = false ∧
      (ikcp_flush kcpDupNarrow).1.rmt_wnd = 1 ∧ (ikcp_flush kcpDupNarrow).1.cwnd = 6 ∧
      (ikcp_update kcpDupNarrow 100).1.rmt_wnd = 1 ∧
      (ikcp_update kcpDupNarrow 100).1.cwnd = 6) :=
  ⟨⟨Reachable.input _ (some winsOne)
      (Reachable.input _ (some (record_bytes { ackOneRecord with sn := 0, una := 1 }))
        (Reachable.update _ 100
          (Reachable.update _ 0
            (Reachable.send _ [3] 1
              (Reachable.send _ [2] 1
                (Reachable.send _ [1] 1 (Reachable.create 1 (by decide))
                  (by decide) (by decide))
                (by decide) (by decide))
              (by decide) (by decide))
            (by decide))
          (by decide))),
    by decide!, by decide!, by decide!, by decide!, by decide!⟩,
   ⟨Reachable.input _ (some ackNarrow)
      (Reachable.input _ (some ackNarrow)
        (Reachable.input _ (some ackNarrow)
          (Reachable.input _ (some ackNarrow)
            (Reachable.update _ 0
              (Reachable.send _ [2] 1
                (Reachable.send _ [1] 1
                  (Reachable.nodelay _ 0 (-1) 4 1 (Reachable.create 1 (by decide))
                    (by decide) (by decide))
                  (by decide) (by decide))
                (by decide) (by decide))
              (by decide))))),
    by decide!, by decide!, by decide!, by decide!, by decide!, by decide!, by decide!,
    by decide!, by decide!⟩⟩

/-- C17 (amended): `cwnd <= rmt_wnd` is not an invariant; call by call the code does
this. The window a flush sends within never exceeds `rmt_wnd`. After `ikcp_input`,
`cwnd <= rmt_wnd` holds exactly when the `cwnd` before the call is at most the
`rmt_wnd` the call has stored: the bound is lost exactly by an advertised window below
`cwnd`. `ikcp_flush` keeps `rmt_wnd`; a flush that runs ends with `cwnd = 1` after a
timeout, with `cwnd` unchanged (raised to 1 if it was 0) when it retransmits nothing
fast, and with `cwnd = ssthresh + resent` (taken modulo 2^32, raised to 1), whatever
`rmt_wnd` is, when it retransmits a segment fast without a timeout; so a flush keeps the
bound for `rmt_wnd > 0` unless it performs a fast retransmission without a timeout.
`ikcp_send`, `ikcp_recv`, the setters and the clock step of `ikcp_update` change neither
`cwnd` nor `rmt_wnd`, and `ikcp_update` is its clock step followed by at most one
flush. -/
theorem C17_window_bound (kcp : IKCPCB) :
    ikcp_flush_window kcp ≤ kcp.rmt_wnd ∧
    (∀ data : Option (List Nat),
      ((ikcp_input kcp data).2.cwnd ≤ (ikcp_input kcp data).2.rmt_wnd ↔
        kcp.cwnd ≤ (ikcp_input kcp data).2.rmt_wnd)) ∧
    (ikcp_flush kcp).1.rmt_wnd = kcp.rmt_wnd ∧
    (kcp.updated = 0 → (ikcp_flush kcp).1.cwnd = kcp.cwnd) ∧
    (kcp.updated ≠ 0 →
      ((∃ s ∈ kcp.snd_buf, flush_timed_out kcp.current s = true) →
        (ikcp_flush kcp).1.cwnd = 1) ∧
      ((∀ s ∈ kcp.snd_buf, flush_timed_out kcp.current s = false) →
        (∀ s ∈ kcp.snd_buf, flush_fast kcp kcp.current (flush_resent kcp) s = false) →
        (ikcp_flush kcp).1.cwnd = max 1 kcp.cwnd) ∧
      ((∀ s ∈ kcp.snd_buf, flush_timed_out kcp.current s = false) →
        (∃ s ∈ kcp.snd_buf, flush_fast kcp kcp.current (flush_resent kcp) s = true) →
        kcp.snd_buf.length < 2147483648 →
        (ikcp_flush kcp).1.ssthresh =
          max 2 (u32 (((ikcp_flush kcp).1.snd_nxt : Int) - (ikcp_flush kcp).1.snd_una) / 2) ∧
        (ikcp_flush kcp).1.cwnd =
          max 1 (((ikcp_flush kcp).1.ssthresh + flush_resent kcp) % 4294967296)) ∧
      (0 < kcp.rmt_wnd → kcp.cwnd ≤ kcp.rmt_wnd →
        ((∃ s ∈ kcp.snd_buf, flush_timed_out kcp.current s = true) ∨
          ∀ s ∈ kcp.snd_buf, flush_fast kcp kcp.current (flush_resent kcp) s = false) →
        (ikcp_flush kcp).1.cwnd ≤ (ikcp_flush kcp).1.rmt_wnd)) ∧
    (∀ (buffer : List Nat) (len : Int),
      win_part (ikcp_send kcp buffer len).2 = win_part kcp) ∧
    (∀ (buffer : Bool) (len : Int), win_part (ikcp_recv kcp buffer len).2.2 = win_part kcp) ∧
    (∀ mtu : Int, win_part (ikcp_setmtu kcp mtu).2 = win_part kcp) ∧
    (∀ interval : Int, win_part (ikcp_interval kcp interval).2 = win_part kcp) ∧
    (∀ nodelay interval resend nc : Int,
      win_part (ikcp_nodelay kcp nodelay interval resend nc).2 = win_part kcp) ∧
    (∀ sndwnd rcvwnd : Int, win_part (ikcp_wndsize kcp sndwnd rcvwnd).2 = win_part kcp) ∧
    (∀ current : Nat,
      win_part (update_clock kcp current).1 = win_part kcp ∧
      (update_clock kcp current).1.snd_buf = kcp.snd_buf ∧
      ikcp_update kcp current =
        if (update_clock kcp current).2 = true then ikcp_flush (update_clock kcp current).1
        else ((update_clock kcp current).1, [])) := by
  obtain ⟨s1, s2, s3, s4, s5⟩ := ikcp_setters_win kcp
  have hr := ikcp_flush_rmt_wnd kcp
  refine ⟨ikcp_flush_window_le kcp, ikcp_input_cwnd_exact kcp, hr, ?_, ?_, ikcp_send_win kcp,
    ikcp_recv_win kcp, s1, s2, s3, s4, fun t => ⟨s5 t, ?_, ikcp_update_eq kcp t⟩⟩
  · intro hu
    unfold ikcp_flush
    rw [if_pos hu]
  · intro hu
    obtain ⟨c1, c2, c3⟩ := ikcp_flush_cwnd_exact kcp hu
    refine ⟨c1, c2, c3, ?_⟩
    intro h0 hle hcase
    rw [hr]
    by_cases ht : ∃ s ∈ kcp.snd_buf, flush_timed_out kcp.current s = true
    · rw [c1 ht]
      exact h0
    · have hnol : ∀ s ∈ kcp.snd_buf, flush_timed_out kcp.current s = false := by
        intro s hs
        cases hq : flush_timed_out kcp.current s with
        | false => rfl
        | true => exact absurd ⟨s, hs, hq⟩ ht
      rcases hcase with hc | hc
      · exact absurd hc ht
      · rw [c2 hnol hc]
        exact max_le h0 hle
  · exact congrArg SndPart.snd_buf (update_clock_snd kcp t)

theorem C17_window_bound_witness :
    kcpAcked.updated ≠ 0 ∧ 0 < kcpAcked.rmt_wnd ∧ kcpAcked.cwnd ≤ kcpAcked.rmt_wnd ∧
    (∀ s ∈ kcpAcked.snd_buf,
      flush_fast kcpAcked kcpAcked.current (flush_resent kcpAcked) s = false) ∧
    (ikcp_flush kcpAcked).1.cwnd ≤ (ikcp_flush kcpAcked).1.rmt_wnd ∧
    (ikcp_flush kcpAcked).1.cwnd = 2 :=
  ⟨by decide!, by decide!, by decide!, by decide!,
    ((C17_window_bound kcpAcked).2.2.2.2.1 (by decide!)).2.2.2 (by decide!) (by decide!)
      (Or.inr (by decide!)),
    by decide!⟩

/-! ## Reliable delivery over a network that loses, duplicates and reorders (C21) -/

theorem ikcp_update_ack_cfgp (kcp : IKCPCB) (rtt : Int) :
    cfg_part (ikcp_update_ack kcp rtt) = cfg_part kcp := by
  unfold ikcp_update_ack; simp only []; split <;> rfl

theorem ikcp_ack_push_cfgp (kcp : IKCPCB) (sn ts : Nat) :
    cfg_part (ikcp_ack_push kcp sn ts) = cfg_part kcp := by
  unfold ikcp_ack_push; simp only []; split <;> rfl

theorem ikcp_move_rcv_buf_cfgp (l : List IKCPSEG) :
    ∀ kcp : IKCPCB, cfg_part (ikcp_move_rcv_buf kcp l) = cfg_part kcp := by
  induction l with
  | nil => intro kcp; rfl
  | cons s t ih =>
    intro kcp
    rw [ikcp_move_rcv_buf]
    split
    · rw [ih]; rfl
    · rfl

theorem ikcp_parse_data_cfgp (kcp : IKCPCB) (seg : IKCPSEG) :
    cfg_part (ikcp_parse_data kcp seg) = cfg_part kcp := by
  unfold ikcp_parse_data
  simp only []
  split
  · rfl
  · rw [ikcp_move_rcv_buf_cfgp]
    split <;> rfl

theorem ikcp_input_push_cfgp (kcp : IKCPCB) (conv cmd frg wnd ts sn una len : Nat)
    (data : List Nat) :
    cfg_part (ikcp_input_push kcp conv cmd frg wnd ts sn una len data) = cfg_part kcp := by
  unfold ikcp_input_push
  simp only []
  split
  · split
    · rw [ikcp_parse_data_cfgp, ikcp_ack_push_cfgp]
    · exact ikcp_ack_push_cfgp kcp sn ts
  · rfl

theorem ikcp_parse_una_loop_cfgp (una : Nat) (l : List IKCPSEG) :
    ∀ kcp : IKCPCB, cfg_part (ikcp_parse_una_loop una kcp l) = cfg_part kcp := by
  induction l with
  | nil => intro kcp; rfl
  | cons s t ih =>
    intro kcp
    rw [ikcp_parse_una_loop]
    split
    · rw [ih]; rfl
    · rfl

theorem ikcp_shrink_buf_cfgp (kcp : IKCPCB) :
    cfg_part (ikcp_shrink_buf kcp) = cfg_part kcp := by
  have key : ∀ l : List IKCPSEG, cfg_part (match l with
      | seg :: _ => { kcp with snd_una := seg.sn }
      | [] => { kcp with snd_una := kcp.snd_nxt }) = cfg_part kcp := by
    intro l
    cases l with
    | nil => rfl
    | cons a t => rfl
  exact key kcp.snd_buf

theorem ikcp_input_una_cfgp (kcp : IKCPCB) (wnd una : Nat) :
    cfg_part (ikcp_shrink_buf (ikcp_parse_una { kcp with rmt_wnd := wnd } una)) =
      cfg_part kcp := by
  rw [ikcp_shrink_buf_cfgp]
  exact ikcp_parse_una_loop_cfgp una kcp.snd_buf { kcp with rmt_wnd := wnd }

theorem ikcp_parse_ack_cfgp (kcp : IKCPCB) (sn : Nat) :
    cfg_part (ikcp_parse_ack kcp sn) = cfg_part kcp := by
  unfold ikcp_parse_ack; split <;> rfl

theorem ikcp_input_ack_cfgp (kcp : IKCPCB) (ts sn : Nat) :
    cfg_part (ikcp_input_ack kcp ts sn) = cfg_part kcp := by
  unfold ikcp_input_ack
  simp only []
  rw [ikcp_shrink_buf_cfgp, ikcp_parse_ack_cfgp]
  split
  · exact ikcp_update_ack_cfgp _ _
  · rfl

theorem ikcp_input_record_cfgp (kcp : IKCPCB) (hdr : IKCPSEG) (payload : List Nat)
    (flag : Int) (a b : Nat) :
    cfg_part (ikcp_input_record kcp hdr payload flag a b).2.1 = cfg_part kcp := by
  have h1 := ikcp_input_una_cfgp kcp hdr.wnd hdr.una
  unfold ikcp_input_record
  simp only []
  split
  · have h2 := (ikcp_input_ack_cfgp
      (ikcp_shrink_buf (ikcp_parse_una { kcp with rmt_wnd := hdr.wnd } hdr.una))
      hdr.ts hdr.sn).trans h1
    split
    · exact h2
    · split <;> exact h2
  · split
    · exact (ikcp_input_push_cfgp _ _ _ _ _ _ _ _ _ _).trans h1
    · split
      · exact h1
      · split <;> exact h1

theorem input_records_cfgp (recs : List IKCPSEG) :
    ∀ (kcp : IKCPCB) (flag : Int) (a b : Nat),
      cfg_part (input_records kcp flag a b recs).1 = cfg_part kcp := by
  induction recs with
  | nil => intro kcp flag a b; rfl
  | cons r rs ih =>
    intro kcp flag a b
    rw [input_records, ih]
    exact ikcp_input_record_cfgp kcp _ _ flag a b

theorem ikcp_recv_finish_cfgp (kcp : IKCPCB) (recover : Int) :
    cfg_part (ikcp_recv_finish kcp recover) = cfg_part kcp := by
  unfold ikcp_recv_finish
  simp only []
  split
  · exact ikcp_move_rcv_buf_cfgp _ _
  · exact ikcp_move_rcv_buf_cfgp _ _

theorem ikcp_recv_cfgp (kcp : IKCPCB) (buffer : Bool) (len : Int) :
    cfg_part (ikcp_recv kcp buffer len).2.2 = cfg_part kcp := by
  unfold ikcp_recv
  simp only []
  refine ite_trd_cases _ _ (fun k => cfg_part k = cfg_part kcp) rfl ?_
  refine ite_trd_cases _ _ (fun k => cfg_part k = cfg_part kcp) rfl ?_
  refine ite_trd_cases _ _ (fun k => cfg_part k = cfg_part kcp) rfl ?_
  exact ikcp_recv_finish_cfgp _ _

theorem ikcp_flush_probe_cfgp (kcp : IKCPCB) :
    cfg_part (ikcp_flush_probe kcp) = cfg_part kcp ∧
    (ikcp_flush_probe kcp).nrcv_que = kcp.nrcv_que := by
  unfold ikcp_flush_probe cfg_part
  split
  · split
    · exact ⟨rfl, rfl⟩
    · split <;> exact ⟨rfl, rfl⟩
  · exact ⟨rfl, rfl⟩

theorem ikcp_flush_promote_cfgp (cwnd wnd current : Nat) (l : List IKCPSEG) :
    ∀ kcp : IKCPCB, cfg_part (ikcp_flush_promote cwnd wnd current kcp l) = cfg_part kcp ∧
      (ikcp_flush_promote cwnd wnd current kcp l).nrcv_que = kcp.nrcv_que := by
  induction l with
  | nil => intro kcp; exact ⟨rfl, rfl⟩
  | cons a t ih =>
    intro kcp
    rw [ikcp_flush_promote]
    split
    · exact ih _
    · exact ⟨rfl, rfl⟩

theorem flush_promoted_cfgp (kcp : IKCPCB) :
    cfg_part (flush_promoted kcp) = cfg_part kcp ∧
    (flush_promoted kcp).nrcv_que = kcp.nrcv_que := by
  unfold flush_promoted
  obtain ⟨c, d⟩ := ikcp_flush_probe_cfgp { kcp with ackcount := 0 }
  obtain ⟨a, b⟩ := ikcp_flush_promote_cfgp
    (ikcp_flush_window { ikcp_flush_probe { kcp with ackcount := 0 } with probe := 0 })
    (u32 (ikcp_wnd_unused kcp)) kcp.current
    (ikcp_flush_probe { kcp with ackcount := 0 }).snd_queue
    { ikcp_flush_probe { kcp with ackcount := 0 } with probe := 0 }
  exact ⟨a.trans c, b.trans d⟩

theorem ikcp_flush_cfgp (kcp : IKCPCB) :
    cfg_part (ikcp_flush kcp).1 = cfg_part kcp ∧
    (ikcp_flush kcp).1.nrcv_que = kcp.nrcv_que := by
  by_cases hu : kcp.updated = 0
  · unfold ikcp_flush
    rw [if_pos hu]
    exact ⟨rfl, rfl⟩
  · rw [ikcp_flush_eq kcp hu, ikcp_flush_send_eq]
    simp only []
    rw [ikcp_flush_cwnd_fields]
    exact flush_promoted_cfgp kcp

theorem update_clock_cfgp (kcp : IKCPCB) (t : Nat) :
    cfg_part (update_clock kcp t).1 = cfg_part kcp ∧
    (update_clock kcp t).1.nrcv_que = kcp.nrcv_que := by
  rw [update_clock_fields]
  exact ⟨rfl, rfl⟩

theorem ikcp_update_cfgp (kcp : IKCPCB) (t : Nat) :
    cfg_part (ikcp_update kcp t).1 = cfg_part kcp ∧
    (ikcp_update kcp t).1.nrcv_que = kcp.nrcv_que := by
  rw [ikcp_update_eq]
  obtain ⟨a, b⟩ := update_clock_cfgp kcp t
  split
  · obtain ⟨c, d⟩ := ikcp_flush_cfgp (update_clock kcp t).1
    exact ⟨c.trans a, d.trans b⟩
  · exact ⟨a, b⟩

theorem ikcp_update_ack_clkp (kcp : IKCPCB) (rtt : Int) :
    clk_part (ikcp_update_ack kcp rtt) = clk_part kcp := by
  unfold ikcp_update_ack; simp only []; split <;> rfl

theorem ikcp_ack_push_clkp (kcp : IKCPCB) (sn ts : Nat) :
    clk_part (ikcp_ack_push kcp sn ts) = clk_part kcp := by
  unfold ikcp_ack_push; simp only []; split <;> rfl

theorem ikcp_move_rcv_buf_clkp (l : List IKCPSEG) :
    ∀ kcp : IKCPCB, clk_part (ikcp_move_rcv_buf kcp l) = clk_part kcp := by
  induction l with
  | nil => intro kcp; rfl
  | cons s t ih =>
    intro kcp
    rw [ikcp_move_rcv_buf]
    split
    · rw [ih]; rfl
    · rfl

theorem ikcp_parse_data_clkp (kcp : IKCPCB) (seg : IKCPSEG) :
    clk_part (ikcp_parse_data kcp seg) = clk_part kcp := by
  unfold ikcp_parse_data
  simp only []
  split
  · rfl
  · rw [ikcp_move_rcv_buf_clkp]
    split <;> rfl

theorem ikcp_input_push_clkp (kcp : IKCPCB) (conv cmd frg wnd ts sn una len : Nat)
    (data : List Nat) :
    clk_part (ikcp_input_push kcp conv cmd frg wnd ts sn una len data) = clk_part kcp := by
  unfold ikcp_input_push
  simp only []
  split
  · split
    · rw [ikcp_parse_data_clkp, ikcp_ack_push_clkp]
    · exact ikcp_ack_push_clkp kcp sn ts
  · rfl

theorem ikcp_parse_una_loop_clkp (una : Nat) (l : List IKCPSEG) :
    ∀ kcp : IKCPCB, clk_part (ikcp_parse_una_loop una kcp l) = clk_part kcp := by
  induction l with
  | nil => intro kcp; rfl
  | cons s t ih =>
    intro kcp
    rw [ikcp_parse_una_loop]
    split
    · rw [ih]; rfl
    · rfl

theorem ikcp_shrink_buf_clkp (kcp : IKCPCB) :
    clk_part (ikcp_shrink_buf kcp) = clk_part kcp := by
  have key : ∀ l : List IKCPSEG, clk_part (match l with
      | seg :: _ => { kcp with snd_una := seg.sn }
      | [] => { kcp with snd_una := kcp.snd_nxt }) = clk_part kcp := by
    intro l
    cases l with
    | nil => rfl
    | cons a t => rfl
  exact key kcp.snd_buf

theorem ikcp_input_una_clkp (kcp : IKCPCB) (wnd una : Nat) :
    clk_part (ikcp_shrink_buf (ikcp_parse_una { kcp with rmt_wnd := wnd } una)) =
      clk_part kcp := by
  rw [ikcp_shrink_buf_clkp]
  exact ikcp_parse_una_loop_clkp una kcp.snd_buf { kcp with rmt_wnd := wnd }

theorem ikcp_parse_ack_clkp (kcp : IKCPCB) (sn : Nat) :
    clk_part (ikcp_parse_ack kcp sn) = clk_part kcp := by
  unfold ikcp_parse_ack; split <;> rfl

theorem ikcp_input_ack_clkp (kcp : IKCPCB) (ts sn : Nat) :
    clk_part (ikcp_input_ack kcp ts sn) = clk_part kcp := by
  unfold ikcp_input_ack
  simp only []
  rw [ikcp_shrink_buf_clkp, ikcp_parse_ack_clkp]
  split
  · exact ikcp_update_ack_clkp _ _
  · rfl

theorem ikcp_input_record_clkp (kcp : IKCPCB) (hdr : IKCPSEG) (payload : List Nat)
    (flag : Int) (a b : Nat) :
    clk_part (ikcp_input_record kcp hdr payload flag a b).2.1 = clk_part kcp := by
  have h1 := ikcp_input_una_clkp kcp hdr.wnd hdr.una
  unfold ikcp_input_record
  simp only []
  split
  · have h2 := (ikcp_input_ack_clkp
      (ikcp_shrink_buf (ikcp_parse_una { kcp with rmt_wnd := hdr.wnd } hdr.una))
      hdr.ts hdr.sn).trans h1
    split
    · exact h2
    · split <;> exact h2
  · split
    · exact (ikcp_input_push_clkp _ _ _ _ _ _ _ _ _ _).trans h1
    · split
      · exact h1
      · split <;> exact h1

theorem input_records_clkp (recs : List IKCPSEG) :
    ∀ (kcp : IKCPCB) (flag : Int) (a b : Nat),
      clk_part (input_records kcp flag a b recs).1 = clk_part kcp := by
  induction recs with
  | nil => intro kcp flag a b; rfl
  | cons r rs ih =>
    intro kcp flag a b
    rw [input_records, ih]
    exact ikcp_input_record_clkp kcp _ _ flag a b

end KCP
